import Mathlib

/-!
Monkey interpreter: lexer, Pratt parser, tree-walking evaluator, macro pass.

A shallow embedding of the C++ sources (`token/token.h`, `lexer/lexer.h`,
`ast/ast.h`, `ast/modify.h`, `parser/parser.h`, `object/object.h`,
`evaluator/builtins.h`, `evaluator/evaluator.h`, `repl.h`).

Conventions of the embedding.

* `std::string` is a `String` whose characters stand for bytes; the source
  text handed to the lexer is a `List Char`.
* Every `std::shared_ptr<T>` is an address into a heap of cells, `none` being
  `nullptr`. There is one heap for AST nodes, one for runtime objects and one
  for environments. `make_shared` appends a cell, so an address is the
  allocation sequence number; pointer equality is equality of addresses.
* A function that can dereference `nullptr`, index a vector out of bounds,
  divide by zero or let a host exception escape returns `Res.crash` there.
* Recursion that is not structural takes a fuel argument and returns
  `Res.fuel` when it runs out.
-/

namespace monkey

/-! ## Results of partial computations -/

/-- Outcome of running a piece of the program: a value, abnormal termination
of the host process (undefined behaviour or an uncaught exception), or the
model running out of fuel. -/
inductive Res (α : Type) where
  | ok (a : α)
  | crash
  | fuel
  deriving DecidableEq, Repr

/-- Sequencing of outcomes. -/
@[inline] def Res.bind {α β : Type} (r : Res α) (f : α → Res β) : Res β :=
  match r with
  | .ok a => f a
  | .crash => .crash
  | .fuel => .fuel

instance : Monad Res where
  pure := Res.ok
  bind := Res.bind

/-! ## token/token.h -/

/-- Token kinds, `enum TokenType`. -/
inductive TokenType where
  | ILLEGAL | EOF | IDENT | INT | STRING
  | ASSIGN | PLUS | MINUS | BANG | ASTERISK | SLASH
  | LT | GT | EQ | NOT_EQ
  | COMMA | SEMICOLON | COLON
  | LPAREN | RPAREN | LBRACKET | RBRACKET | LBRACE | RBRACE
  | FUNCTION | LET | TRUE | FALSE | IF | ELSE | RETURN | MACRO
  deriving DecidableEq, Repr

/-- Printable name of a token kind, the table `TokenTypeString`. -/
def TokenTypeString : TokenType → String
  | .ILLEGAL => "ILLEGAL" | .EOF => "EOF" | .IDENT => "IDENT" | .INT => "INT"
  | .STRING => "STRING" | .ASSIGN => "ASSIGN" | .PLUS => "PLUS" | .MINUS => "MINUS"
  | .BANG => "BANG" | .ASTERISK => "ASTERISK" | .SLASH => "SLASH" | .LT => "LT"
  | .GT => "GT" | .EQ => "EQ" | .NOT_EQ => "NOT_EQ" | .COMMA => "COMMA"
  | .SEMICOLON => "SEMICOLON" | .COLON => "COLON" | .LPAREN => "LPAREN"
  | .RPAREN => "RPAREN" | .LBRACKET => "LBRACKET" | .RBRACKET => "RBRACKET"
  | .LBRACE => "LBRACE" | .RBRACE => "RBRACE" | .FUNCTION => "FUNCTION" | .LET => "LET"
  | .TRUE => "TRUE" | .FALSE => "FALSE" | .IF => "IF" | .ELSE => "ELSE"
  | .RETURN => "RETURN" | .MACRO => "MACRO"

/-- A token, `class Token`: kind and literal. -/
structure Token where
  type : TokenType
  literal : String
  deriving DecidableEq, Repr

/-- The table `keywords`. -/
def keywords : List (String × TokenType) :=
  [("fn", .FUNCTION), ("let", .LET), ("true", .TRUE), ("false", .FALSE),
   ("if", .IF), ("else", .ELSE), ("return", .RETURN), ("macro", .MACRO)]

/-- Keyword lookup `lookupIdent`: the keyword kind, else `IDENT`. -/
def lookupIdent (ident : String) : TokenType :=
  match keywords.lookup ident with
  | some t => t
  | none => .IDENT

/-! ## lexer/lexer.h

The C++ lexer keeps `input`, `position`, `readPosition` and `ch`. The model
keeps `ch` and the unread remainder `input[readPosition..]`; the substrings
`input.substr(pos, position - pos)` cut by the `read*` helpers are the
characters those helpers consumed, which they return. -/

/-- Lexer state: the character under examination and the unread input. -/
structure Lexer where
  ch : Char
  rest : List Char
  deriving DecidableEq, Repr

/-- The byte 0 that `readChar` stores at the end of the input. -/
def NUL : Char := Char.ofNat 0

/-- Advance by one character, `Lexer::readChar`. -/
def Lexer.readChar (l : Lexer) : Lexer :=
  match l.rest with
  | [] => { ch := NUL, rest := [] }
  | c :: cs => { ch := c, rest := cs }

/-- The next character without advancing, `Lexer::peekChar`. -/
def Lexer.peekChar (l : Lexer) : Char :=
  match l.rest with
  | [] => NUL
  | c :: _ => c

/-- Constructor `Lexer(input)`: `readPosition = 0; readChar()`. -/
def Lexer.new (input : List Char) : Lexer :=
  Lexer.readChar { ch := NUL, rest := input }

/-- Letter test `Lexer::isLetter`. -/
def isLetter (ch : Char) : Bool :=
  (decide ('a' ≤ ch) && decide (ch ≤ 'z')) || (decide ('A' ≤ ch) && decide (ch ≤ 'Z'))
    || decide (ch = '_')

/-- Digit test `Lexer::isDigit`. -/
def isDigit (ch : Char) : Bool :=
  decide ('0' ≤ ch) && decide (ch ≤ '9')

/-- Whitespace test of `Lexer::skipWhitespace`. -/
def isWhitespace (ch : Char) : Bool :=
  decide (ch = ' ') || decide (ch = '\t') || decide (ch = '\n') || decide (ch = '\r')

/-- Loop of `skipWhitespace` on current character `ch` and unread input. -/
def skipWhitespaceLoop (ch : Char) : List Char → Lexer
  | [] => if isWhitespace ch then { ch := NUL, rest := [] } else { ch := ch, rest := [] }
  | c :: cs => if isWhitespace ch then skipWhitespaceLoop c cs else { ch := ch, rest := c :: cs }

/-- Skip blanks, `Lexer::skipWhitespace`. -/
def Lexer.skipWhitespace (l : Lexer) : Lexer :=
  skipWhitespaceLoop l.ch l.rest

/-- Loop shared by `readIdentifier` and `readNumber`: consume while `p` holds
of the current character; returns the consumed characters and the state. -/
def readWhile (p : Char → Bool) (ch : Char) : List Char → List Char × Lexer
  | [] => if p ch then ([ch], { ch := NUL, rest := [] }) else ([], { ch := ch, rest := [] })
  | c :: cs =>
    if p ch then ((ch :: (readWhile p c cs).1), (readWhile p c cs).2)
    else ([], { ch := ch, rest := c :: cs })

/-- Read a word, `Lexer::readIdentifier`. -/
def Lexer.readIdentifier (l : Lexer) : String × Lexer :=
  (String.mk (readWhile isLetter l.ch l.rest).1, (readWhile isLetter l.ch l.rest).2)

/-- Read a digit run, `Lexer::readNumber`. -/
def Lexer.readNumber (l : Lexer) : String × Lexer :=
  (String.mk (readWhile isDigit l.ch l.rest).1, (readWhile isDigit l.ch l.rest).2)

/-- Loop of `readString` over the input after the opening quote: advance
until the current character is a double quote or 0. -/
def readStringLoop : List Char → List Char × Lexer
  | [] => ([], { ch := NUL, rest := [] })
  | c :: cs =>
    if c = '"' ∨ c = NUL then ([], { ch := c, rest := cs })
    else (c :: (readStringLoop cs).1, (readStringLoop cs).2)

/-- Read a string body, `Lexer::readString`; the state is left on the closing
quote (or on the 0 that ended the scan). -/
def Lexer.readString (l : Lexer) : String × Lexer :=
  (String.mk (readStringLoop l.rest).1, (readStringLoop l.rest).2)

/-- One-character token followed by the trailing `readChar()` of `nextToken`. -/
def Lexer.single (l : Lexer) (t : TokenType) : Token × Lexer :=
  ({ type := t, literal := String.singleton l.ch }, l.readChar)

/-- The scanner `Lexer::nextToken`. -/
def Lexer.nextToken (l0 : Lexer) : Token × Lexer :=
  let l := l0.skipWhitespace
  if l.ch = '=' then
    if l.peekChar = '=' then
      ({ type := .EQ, literal := String.singleton l.ch ++ String.singleton l.readChar.ch },
        l.readChar.readChar)
    else l.single .ASSIGN
  else if l.ch = '+' then l.single .PLUS
  else if l.ch = '-' then l.single .MINUS
  else if l.ch = '!' then
    if l.peekChar = '=' then
      ({ type := .NOT_EQ, literal := String.singleton l.ch ++ String.singleton l.readChar.ch },
        l.readChar.readChar)
    else l.single .BANG
  else if l.ch = '/' then l.single .SLASH
  else if l.ch = '*' then l.single .ASTERISK
  else if l.ch = '<' then l.single .LT
  else if l.ch = '>' then l.single .GT
  else if l.ch = ';' then l.single .SEMICOLON
  else if l.ch = ',' then l.single .COMMA
  else if l.ch = ':' then l.single .COLON
  else if l.ch = '(' then l.single .LPAREN
  else if l.ch = ')' then l.single .RPAREN
  else if l.ch = '[' then l.single .LBRACKET
  else if l.ch = ']' then l.single .RBRACKET
  else if l.ch = '\x7b' then l.single .LBRACE
  else if l.ch = '\x7d' then l.single .RBRACE
  else if l.ch = '"' then
    ({ type := .STRING, literal := l.readString.1 }, l.readString.2.readChar)
  else if l.ch = NUL then ({ type := .EOF, literal := "" }, l.readChar)
  else if isLetter l.ch then
    ({ type := lookupIdent l.readIdentifier.1, literal := l.readIdentifier.1 }, l.readIdentifier.2)
  else if isDigit l.ch then
    ({ type := .INT, literal := l.readNumber.1 }, l.readNumber.2)
  else l.single .ILLEGAL

/-! ## ast/ast.h

AST nodes live in a heap `List Node`; a `NodePtr` is `none` for `nullptr` or
the address of a cell. A child slot of a cell holds a `NodePtr`. -/

/-- Address of an AST node, or `none` for `nullptr`. -/
abbrev NodePtr := Option Nat

/-- One AST node: the concrete classes of `ast.h` with their fields.
`HashLiteral.pairs` is a `std::map` keyed by the key expression's pointer:
the list is kept in increasing key address, `nullptr` first. -/
inductive Node where
  | Program (statements : List NodePtr)
  | Identifier (token : Token) (value : String)
  | Boolean (token : Token) (value : Bool)
  | IntegerLiteral (token : Token) (value : Int)
  | StringLiteral (token : Token) (value : String)
  | ArrayLiteral (token : Token) (elements : List NodePtr)
  | IndexExpression (token : Token) (left : NodePtr) (index : NodePtr)
  | HashLiteral (token : Token) (pairs : List (NodePtr × NodePtr))
  | LetStatement (token : Token) (name : NodePtr) (value : NodePtr)
  | ReturnStatement (token : Token) (returnValue : NodePtr)
  | ExpressionStatement (token : Token) (expression : NodePtr)
  | BlockStatement (token : Token) (statements : List NodePtr)
  | PrefixExpression (token : Token) (op : String) (right : NodePtr)
  | InfixExpression (token : Token) (left : NodePtr) (op : String) (right : NodePtr)
  | IfExpression (token : Token) (condition : NodePtr) (consequence : NodePtr)
      (alternative : NodePtr)
  | FunctionLiteral (token : Token) (parameters : List NodePtr) (body : NodePtr)
  | CallExpression (token : Token) (function : NodePtr) (arguments : List NodePtr)
  | MacroLiteral (token : Token) (parameters : List NodePtr) (body : NodePtr)
  deriving DecidableEq, Repr

/-- The heap of AST nodes. -/
abbrev NodeHeap := List Node

/-- Dereference: the cell a pointer points to, `crash` for `nullptr`. -/
def derefNode (heap : NodeHeap) : NodePtr → Res Node
  | none => .crash
  | some a =>
    match heap.get? a with
    | some n => .ok n
    | none => .crash

/-- Run `f` over a list from left to right, stopping at the first outcome
that is not a value. -/
def mapRes {α β : Type} (f : α → Res β) : List α → Res (List β)
  | [] => .ok []
  | x :: xs =>
    match f x with
    | .ok y =>
      match mapRes f xs with
      | .ok ys => .ok (y :: ys)
      | .crash => .crash
      | .fuel => .fuel
    | .crash => .crash
    | .fuel => .fuel

/-- The loops `out += x[i]; if (i != size - 1) out += ", "` of `ast.h`. -/
def joinComma : List String → String
  | [] => ""
  | [s] => s
  | s :: t :: rest => s ++ ", " ++ joinComma (t :: rest)

/-- Concatenation of a list of strings. -/
def concatStrings : List String → String
  | [] => ""
  | s :: rest => s ++ concatStrings rest

/-- Member `TokenLiteral()` of a node that carries a token; `Program`
forwards to its first statement. -/
def TokenLiteral (heap : NodeHeap) (n : Node) : Res String :=
  match n with
  | .Program [] => .ok ""
  | .Program (s :: _) =>
    match derefNode heap s with
    | .ok (.LetStatement t _ _) => .ok t.literal
    | .ok (.ReturnStatement t _) => .ok t.literal
    | .ok (.ExpressionStatement t _) => .ok t.literal
    | .ok (.BlockStatement t _) => .ok t.literal
    | _ => .crash
  | .Identifier t _ => .ok t.literal
  | .Boolean t _ => .ok t.literal
  | .IntegerLiteral t _ => .ok t.literal
  | .StringLiteral t _ => .ok t.literal
  | .ArrayLiteral t _ => .ok t.literal
  | .IndexExpression t _ _ => .ok t.literal
  | .HashLiteral t _ => .ok t.literal
  | .LetStatement t _ _ => .ok t.literal
  | .ReturnStatement t _ => .ok t.literal
  | .ExpressionStatement t _ => .ok t.literal
  | .BlockStatement t _ => .ok t.literal
  | .PrefixExpression t _ _ => .ok t.literal
  | .InfixExpression t _ _ _ => .ok t.literal
  | .IfExpression t _ _ _ => .ok t.literal
  | .FunctionLiteral t _ _ => .ok t.literal
  | .CallExpression t _ _ => .ok t.literal
  | .MacroLiteral t _ _ => .ok t.literal

/-- Member `String()`: the canonical text of the node at `p`. A call through
`nullptr` crashes; the slots the source guards print as nothing. -/
def nodeString : Nat → NodeHeap → NodePtr → Res String
  | 0, _, _ => .fuel
  | fuel + 1, heap, p =>
    match derefNode heap p with
    | .crash => .crash
    | .fuel => .fuel
    | .ok (.Program statements) => do
      let ss ← mapRes (nodeString fuel heap) statements
      pure (concatStrings (ss.map (fun s => s ++ "\n")))
    | .ok (.Identifier _ value) => pure value
    | .ok (.Boolean token _) => pure token.literal
    | .ok (.IntegerLiteral token _) => pure token.literal
    | .ok (.StringLiteral token _) => pure token.literal
    | .ok (.ArrayLiteral _ elements) => do
      let ss ← mapRes (nodeString fuel heap) elements
      pure ("[" ++ joinComma ss ++ "]")
    | .ok (.IndexExpression _ left index) => do
      let l ← nodeString fuel heap left
      let i ← nodeString fuel heap index
      pure ("(" ++ l ++ "[" ++ i ++ "])")
    | .ok (.HashLiteral _ pairs) => do
      let ss ← mapRes (fun (kv : NodePtr × NodePtr) => do
        let k ← nodeString fuel heap kv.1
        let v ← nodeString fuel heap kv.2
        pure (k ++ ": " ++ v)) pairs
      pure ("\x7b" ++ joinComma ss ++ "\x7d")
    | .ok (.LetStatement token name value) => do
      let n ← nodeString fuel heap name
      let v ← (match value with
        | none => pure ""
        | some _ => nodeString fuel heap value)
      pure (token.literal ++ " " ++ n ++ " = " ++ v ++ ";")
    | .ok (.ReturnStatement token returnValue) => do
      let v ← (match returnValue with
        | none => pure ""
        | some _ => nodeString fuel heap returnValue)
      pure (token.literal ++ " " ++ v ++ ";")
    | .ok (.ExpressionStatement _ expression) =>
      match expression with
      | none => pure ""
      | some _ => nodeString fuel heap expression
    | .ok (.BlockStatement _ statements) => do
      let ss ← mapRes (nodeString fuel heap) statements
      pure (concatStrings ss)
    | .ok (.PrefixExpression _ op right) => do
      let r ← nodeString fuel heap right
      pure ("(" ++ op ++ r ++ ")")
    | .ok (.InfixExpression _ left op right) => do
      let l ← nodeString fuel heap left
      let r ← nodeString fuel heap right
      pure ("(" ++ l ++ (" " ++ op ++ " ") ++ r ++ ")")
    | .ok (.IfExpression _ condition consequence alternative) => do
      let c ← nodeString fuel heap condition
      let q ← nodeString fuel heap consequence
      let a ← (match alternative with
        | none => pure ""
        | some _ => do
          let a ← nodeString fuel heap alternative
          pure ("else " ++ a))
      pure ("if" ++ c ++ " " ++ q ++ a)
    | .ok (.FunctionLiteral token parameters body) => do
      let ps ← mapRes (nodeString fuel heap) parameters
      let b ← nodeString fuel heap body
      pure (token.literal ++ "(" ++ joinComma ps ++ ")" ++ b)
    | .ok (.CallExpression _ function arguments) => do
      let f ← nodeString fuel heap function
      let as ← mapRes (nodeString fuel heap) arguments
      pure (f ++ "(" ++ joinComma as ++ ")")
    | .ok (.MacroLiteral token parameters body) => do
      let ps ← mapRes (nodeString fuel heap) parameters
      let b ← nodeString fuel heap body
      pure (token.literal ++ "(" ++ joinComma ps ++ ")" ++ b)

/-! ## parser/parser.h -/

/-- Binding powers, `enum prec`. -/
inductive prec where
  | LOWEST | EQUALS | LESSGREATER | SUM | PRODUCT | PREFIX | CALL | INDEX
  deriving DecidableEq, Repr

/-- Numeric value of a binding power, the order `<` compares. -/
def prec.toNat : prec → Nat
  | .LOWEST => 0 | .EQUALS => 1 | .LESSGREATER => 2 | .SUM => 3
  | .PRODUCT => 4 | .PREFIX => 5 | .CALL => 6 | .INDEX => 7

/-- The table `precedences`; `none` where the map has no entry. -/
def precedences : TokenType → Option prec
  | .EQ => some .EQUALS
  | .NOT_EQ => some .EQUALS
  | .LT => some .LESSGREATER
  | .GT => some .LESSGREATER
  | .PLUS => some .SUM
  | .MINUS => some .SUM
  | .SLASH => some .PRODUCT
  | .ASTERISK => some .PRODUCT
  | .LPAREN => some .CALL
  | .LBRACKET => some .INDEX
  | _ => none

/-- Names of the member functions registered as prefix parslets. -/
inductive PrefixParseFn where
  | parseIdentifier | parseIntegerLiteral | parseStringLiteral | parsePrefixExpression
  | parseBoolean | parseGroupedExpression | parseArrayLiteral | parseIfExpression
  | parseFunctionLiteral | parseHashLiteral | parseMacroLiteral
  deriving DecidableEq, Repr

/-- Names of the member functions registered as infix parslets. -/
inductive InfixParseFn where
  | parseInfixExpression | parseCallExpression | parseIndexExpression
  deriving DecidableEq, Repr

/-- The map `prefixParseFns` as filled by the constructor. -/
def prefixParseFns : TokenType → Option PrefixParseFn
  | .IDENT => some .parseIdentifier
  | .INT => some .parseIntegerLiteral
  | .STRING => some .parseStringLiteral
  | .BANG => some .parsePrefixExpression
  | .MINUS => some .parsePrefixExpression
  | .TRUE => some .parseBoolean
  | .FALSE => some .parseBoolean
  | .LPAREN => some .parseGroupedExpression
  | .LBRACKET => some .parseArrayLiteral
  | .IF => some .parseIfExpression
  | .FUNCTION => some .parseFunctionLiteral
  | .LBRACE => some .parseHashLiteral
  | .MACRO => some .parseMacroLiteral
  | _ => none

/-- The map `infixParseFns` as filled by the constructor. -/
def infixParseFns : TokenType → Option InfixParseFn
  | .PLUS => some .parseInfixExpression
  | .MINUS => some .parseInfixExpression
  | .SLASH => some .parseInfixExpression
  | .ASTERISK => some .parseInfixExpression
  | .EQ => some .parseInfixExpression
  | .NOT_EQ => some .parseInfixExpression
  | .LT => some .parseInfixExpression
  | .GT => some .parseInfixExpression
  | .LPAREN => some .parseCallExpression
  | .LBRACKET => some .parseIndexExpression
  | _ => none

/-- Parser state, `class Parser`, together with the heap of the AST nodes
allocated so far. -/
structure Parser where
  lexer : Lexer
  errors : List String
  curToken : Token
  peekToken : Token
  nodes : NodeHeap
  deriving DecidableEq, Repr

namespace Parser

/-- Advance the two-token window, `Parser::nextToken`. -/
def nextToken (p : Parser) : Parser :=
  { p with curToken := p.peekToken, peekToken := p.lexer.nextToken.1, lexer := p.lexer.nextToken.2 }

/-- Constructor `Parser(lexer)`: two `nextToken()` calls on a parser whose
tokens are default-constructed. -/
def new (l : Lexer) : Parser :=
  nextToken (nextToken
    { lexer := l, errors := [], curToken := { type := .ILLEGAL, literal := "" },
      peekToken := { type := .ILLEGAL, literal := "" }, nodes := [] })

/-- Test `curTokenIs`. -/
def curTokenIs (p : Parser) (t : TokenType) : Bool := decide (p.curToken.type = t)

/-- Test `peekTokenIs`. -/
def peekTokenIs (p : Parser) (t : TokenType) : Bool := decide (p.peekToken.type = t)

/-- Record `peekError`. -/
def peekError (p : Parser) (t : TokenType) : Parser :=
  { p with errors := p.errors ++
      ["expected next token to be " ++ TokenTypeString t ++ ", got "
        ++ TokenTypeString p.peekToken.type ++ " instead"] }

/-- Helper `expectPeek`: advance when the next token has kind `t`, else
record an error. -/
def expectPeek (p : Parser) (t : TokenType) : Bool × Parser :=
  if p.peekTokenIs t then (true, p.nextToken) else (false, p.peekError t)

/-- Record `noPrefixParseFnError`. -/
def noPrefixParseFnError (p : Parser) (t : TokenType) : Parser :=
  { p with errors := p.errors ++
      ["no prefix parse function for " ++ TokenTypeString t ++ " found\n"] }

/-- Lookup `peekPrecedence`. -/
def peekPrecedence (p : Parser) : prec :=
  match precedences p.peekToken.type with
  | some q => q
  | none => .LOWEST

/-- Lookup `curPrecedence`. -/
def curPrecedence (p : Parser) : prec :=
  match precedences p.curToken.type with
  | some q => q
  | none => .LOWEST

/-- Allocation `std::make_shared<T>(...)` of an AST node. -/
def make (p : Parser) (n : Node) : Nat × Parser :=
  (p.nodes.length, { p with nodes := p.nodes ++ [n] })

/-- Assignment to the fields of the node at address `a`. -/
def setNode (p : Parser) (a : Nat) (n : Node) : Parser :=
  { p with nodes := p.nodes.set a n }

end Parser

/-- Value of a digit string read left to right. -/
def digitsValue (cs : List Char) : Nat :=
  cs.foldl (fun acc c => acc * 10 + (c.toNat - 48)) 0

/-- Conversion `std::stoi` on the literal of an `INT` token (a non-empty run
of digits): the value when it fits `int`; `std::out_of_range` (and
`std::invalid_argument` on a string that is no digit run) escapes uncaught. -/
def stoi (s : String) : Res Int :=
  if s.data ≠ [] ∧ s.data.all isDigit = true then
    if digitsValue s.data ≤ 2147483647 then .ok (Int.ofNat (digitsValue s.data)) else .crash
  else .crash

/-- Insertion `pairs[key] = value` into the pointer-keyed map of a
`HashLiteral`: keys ascend by address, `nullptr` first; an equal key is
overwritten. The source map is a `std::map` keyed by `shared_ptr`, ordered by
the pointer value, which the allocator decides; the embedding takes the
allocation index of a node for its address, so the order of the pairs of a
literal with several pairs is that of the source only when the addresses ascend
with the allocations. -/
def ptrMapAssign (key : NodePtr) (value : NodePtr) :
    List (NodePtr × NodePtr) → List (NodePtr × NodePtr)
  | [] => [(key, value)]
  | (k, v) :: rest =>
    if key = k then (k, value) :: rest
    else if (match key, k with
      | none, _ => true
      | some _, none => false
      | some a, some b => decide (a < b)) then (key, value) :: (k, v) :: rest
    else (k, v) :: ptrMapAssign key value rest

/-- Member `parseIdentifier`. -/
def parseIdentifier (p : Parser) : Res (NodePtr × Parser) :=
  let r := p.make (.Identifier p.curToken p.curToken.literal)
  .ok (some r.1, r.2)

/-- Member `parseIntegerLiteral`. -/
def parseIntegerLiteral (p : Parser) : Res (NodePtr × Parser) :=
  let r := p.make (.IntegerLiteral p.curToken 0)
  match stoi p.curToken.literal with
  | .ok value =>
    let q := if value = 0 ∧ p.curToken.literal ≠ "0" then
        { r.2 with errors := r.2.errors ++
            ["could not parse " ++ p.curToken.literal ++ " as integer"] }
      else r.2
    .ok (some r.1, q.setNode r.1 (.IntegerLiteral p.curToken value))
  | .crash => .crash
  | .fuel => .fuel

/-- Member `parseStringLiteral`. -/
def parseStringLiteral (p : Parser) : Res (NodePtr × Parser) :=
  let r := p.make (.StringLiteral p.curToken p.curToken.literal)
  .ok (some r.1, r.2)

/-- Member `parseBoolean`. -/
def parseBoolean (p : Parser) : Res (NodePtr × Parser) :=
  let r := p.make (.Boolean p.curToken (p.curTokenIs .TRUE))
  .ok (some r.1, r.2)

/-- The loop `while (peekTokenIs(COMMA))` of `parseFunctionParameters`. -/
def parseFunctionParametersLoop : Nat → List NodePtr → Parser → Res (List NodePtr × Parser)
  | 0, _, _ => .fuel
  | fuel + 1, identifiers, p =>
    if p.peekTokenIs .COMMA then
      let p1 := p.nextToken.nextToken
      let r := p1.make (.Identifier p1.curToken p1.curToken.literal)
      parseFunctionParametersLoop fuel (identifiers ++ [some r.1]) r.2
    else .ok (identifiers, p)

/-- Member `parseFunctionParameters`. -/
def parseFunctionParameters (fuel : Nat) (p : Parser) : Res (List NodePtr × Parser) :=
  if p.peekTokenIs .RPAREN then .ok ([], p.nextToken)
  else
    let p1 := p.nextToken
    let r := p1.make (.Identifier p1.curToken p1.curToken.literal)
    match parseFunctionParametersLoop fuel [some r.1] r.2 with
    | .ok (identifiers, p2) =>
      if (p2.expectPeek .RPAREN).1 then .ok (identifiers, (p2.expectPeek .RPAREN).2)
      else .ok ([], (p2.expectPeek .RPAREN).2)
    | .crash => .crash
    | .fuel => .fuel

mutual

/-- Member `parseStatement`. -/
def parseStatement : Nat → Parser → Res (NodePtr × Parser)
  | 0, _ => .fuel
  | fuel + 1, p =>
    match p.curToken.type with
    | .LET => parseLetStatement fuel p
    | .RETURN => parseReturnStatement fuel p
    | _ => parseExpressionStatement fuel p

/-- Member `parseLetStatement`. -/
def parseLetStatement : Nat → Parser → Res (NodePtr × Parser)
  | 0, _ => .fuel
  | fuel + 1, p =>
    let tok := p.curToken
    let stmt := p.make (.LetStatement tok none none)
    let e1 := stmt.2.expectPeek .IDENT
    if e1.1 = false then .ok (none, e1.2)
    else
      let name := e1.2.make (.Identifier e1.2.curToken e1.2.curToken.literal)
      let p2 := name.2.setNode stmt.1 (.LetStatement tok (some name.1) none)
      let e2 := p2.expectPeek .ASSIGN
      if e2.1 = false then .ok (none, e2.2)
      else do
        let (value, p4) ← parseExpression fuel .LOWEST e2.2.nextToken
        let p5 := p4.setNode stmt.1 (.LetStatement tok (some name.1) value)
        pure (some stmt.1, if p5.peekTokenIs .SEMICOLON then p5.nextToken else p5)

/-- Member `parseReturnStatement`. -/
def parseReturnStatement : Nat → Parser → Res (NodePtr × Parser)
  | 0, _ => .fuel
  | fuel + 1, p => do
    let tok := p.curToken
    let stmt := p.make (.ReturnStatement tok none)
    let (returnValue, p2) ← parseExpression fuel .LOWEST stmt.2.nextToken
    let p3 := p2.setNode stmt.1 (.ReturnStatement tok returnValue)
    pure (some stmt.1, if p3.peekTokenIs .SEMICOLON then p3.nextToken else p3)

/-- Member `parseExpressionStatement`. -/
def parseExpressionStatement : Nat → Parser → Res (NodePtr × Parser)
  | 0, _ => .fuel
  | fuel + 1, p => do
    let tok := p.curToken
    let stmt := p.make (.ExpressionStatement tok none)
    let (expression, p2) ← parseExpression fuel .LOWEST stmt.2
    let p3 := p2.setNode stmt.1 (.ExpressionStatement tok expression)
    pure (some stmt.1, if p3.peekTokenIs .SEMICOLON then p3.nextToken else p3)

/-- Member `parseExpression`: look up and call the prefix parslet of the
current token, then run the infix loop. -/
def parseExpression : Nat → prec → Parser → Res (NodePtr × Parser)
  | 0, _, _ => .fuel
  | fuel + 1, precedence, p =>
    match prefixParseFns p.curToken.type with
    | none => .ok (none, p.noPrefixParseFnError p.curToken.type)
    | some pf => do
      let (leftExp, p1) ← (match pf with
        | .parseIdentifier => parseIdentifier p
        | .parseIntegerLiteral => parseIntegerLiteral p
        | .parseStringLiteral => parseStringLiteral p
        | .parsePrefixExpression => parsePrefixExpression fuel p
        | .parseBoolean => parseBoolean p
        | .parseGroupedExpression => parseGroupedExpression fuel p
        | .parseArrayLiteral => parseArrayLiteral fuel p
        | .parseIfExpression => parseIfExpression fuel p
        | .parseFunctionLiteral => parseFunctionLiteral fuel p
        | .parseHashLiteral => parseHashLiteral fuel p
        | .parseMacroLiteral => parseMacroLiteral fuel p)
      parseExpressionLoop fuel precedence leftExp p1

/-- The loop `while (!peekTokenIs(SEMICOLON) && precedence < peekPrecedence())`
of `parseExpression`. -/
def parseExpressionLoop : Nat → prec → NodePtr → Parser → Res (NodePtr × Parser)
  | 0, _, _, _ => .fuel
  | fuel + 1, precedence, leftExp, p =>
    if p.peekTokenIs .SEMICOLON = false ∧ precedence.toNat < p.peekPrecedence.toNat then
      match infixParseFns p.peekToken.type with
      | none => .ok (leftExp, p)
      | some f => do
        let (leftExp1, p1) ← (match f with
          | .parseInfixExpression => parseInfixExpression fuel leftExp p.nextToken
          | .parseCallExpression => parseCallExpression fuel leftExp p.nextToken
          | .parseIndexExpression => parseIndexExpression fuel leftExp p.nextToken)
        parseExpressionLoop fuel precedence leftExp1 p1
    else .ok (leftExp, p)

/-- Member `parseArrayLiteral`. -/
def parseArrayLiteral : Nat → Parser → Res (NodePtr × Parser)
  | 0, _ => .fuel
  | fuel + 1, p => do
    let tok := p.curToken
    let array := p.make (.ArrayLiteral tok [])
    let (elements, p1) ← parseExpressionList fuel .RBRACKET array.2
    pure (some array.1, p1.setNode array.1 (.ArrayLiteral tok elements))

/-- Member `parseExpressionList`. -/
def parseExpressionList : Nat → TokenType → Parser → Res (List NodePtr × Parser)
  | 0, _, _ => .fuel
  | fuel + 1, endTok, p =>
    if p.peekTokenIs endTok then .ok ([], p.nextToken)
    else do
      let (e, p1) ← parseExpression fuel .LOWEST p.nextToken
      let (list, p2) ← parseExpressionListLoop fuel [e] p1
      let e2 := p2.expectPeek endTok
      if e2.1 = false then pure ([], e2.2) else pure (list, e2.2)

/-- The loop `while (peekTokenIs(COMMA))` of `parseExpressionList`. -/
def parseExpressionListLoop : Nat → List NodePtr → Parser → Res (List NodePtr × Parser)
  | 0, _, _ => .fuel
  | fuel + 1, list, p =>
    if p.peekTokenIs .COMMA then do
      let (e, p1) ← parseExpression fuel .LOWEST p.nextToken.nextToken
      parseExpressionListLoop fuel (list ++ [e]) p1
    else .ok (list, p)

/-- Member `parseIndexExpression`. -/
def parseIndexExpression : Nat → NodePtr → Parser → Res (NodePtr × Parser)
  | 0, _, _ => .fuel
  | fuel + 1, left, p => do
    let tok := p.curToken
    let exp := p.make (.IndexExpression tok left none)
    let (index, p1) ← parseExpression fuel .LOWEST exp.2.nextToken
    let e := (p1.setNode exp.1 (.IndexExpression tok left index)).expectPeek .RBRACKET
    if e.1 = false then pure (none, e.2) else pure (some exp.1, e.2)

/-- Member `parseHashLiteral`. -/
def parseHashLiteral : Nat → Parser → Res (NodePtr × Parser)
  | 0, _ => .fuel
  | fuel + 1, p =>
    let tok := p.curToken
    let hash := p.make (.HashLiteral tok [])
    parseHashLiteralLoop fuel tok hash.1 [] hash.2

/-- The loop `while (!peekTokenIs(RBRACE))` of `parseHashLiteral` and the
code after it. -/
def parseHashLiteralLoop : Nat → Token → Nat → List (NodePtr × NodePtr) → Parser →
    Res (NodePtr × Parser)
  | 0, _, _, _, _ => .fuel
  | fuel + 1, tok, hash, pairs, p =>
    if p.peekTokenIs .RBRACE = false then do
      let (key, p1) ← parseExpression fuel .LOWEST p.nextToken
      let e1 := p1.expectPeek .COLON
      if e1.1 = false then pure (none, e1.2)
      else do
        let (value, p2) ← parseExpression fuel .LOWEST e1.2.nextToken
        let pairs1 := ptrMapAssign key value pairs
        let p3 := p2.setNode hash (.HashLiteral tok pairs1)
        if p3.peekTokenIs .RBRACE = false then
          let e2 := p3.expectPeek .COMMA
          if e2.1 = false then pure (none, e2.2)
          else parseHashLiteralLoop fuel tok hash pairs1 e2.2
        else parseHashLiteralLoop fuel tok hash pairs1 p3
    else
      let e := p.expectPeek .RBRACE
      if e.1 = false then .ok (none, e.2) else .ok (some hash, e.2)

/-- Member `parseMacroLiteral`. -/
def parseMacroLiteral : Nat → Parser → Res (NodePtr × Parser)
  | 0, _ => .fuel
  | fuel + 1, p =>
    let tok := p.curToken
    let lit := p.make (.MacroLiteral tok [] none)
    let e1 := lit.2.expectPeek .LPAREN
    if e1.1 = false then .ok (none, e1.2)
    else do
      let (parameters, p1) ← parseFunctionParameters fuel e1.2
      let p2 := p1.setNode lit.1 (.MacroLiteral tok parameters none)
      let e2 := p2.expectPeek .LBRACE
      if e2.1 = false then pure (none, e2.2)
      else do
        let (body, p3) ← parseBlockStatement fuel e2.2
        pure (some lit.1, p3.setNode lit.1 (.MacroLiteral tok parameters body))

/-- Member `parsePrefixExpression`. -/
def parsePrefixExpression : Nat → Parser → Res (NodePtr × Parser)
  | 0, _ => .fuel
  | fuel + 1, p => do
    let tok := p.curToken
    let exp := p.make (.PrefixExpression tok tok.literal none)
    let (right, p1) ← parseExpression fuel .PREFIX exp.2.nextToken
    pure (some exp.1, p1.setNode exp.1 (.PrefixExpression tok tok.literal right))

/-- Member `parseInfixExpression`. -/
def parseInfixExpression : Nat → NodePtr → Parser → Res (NodePtr × Parser)
  | 0, _, _ => .fuel
  | fuel + 1, left, p => do
    let tok := p.curToken
    let exp := p.make (.InfixExpression tok left tok.literal none)
    let precedence := exp.2.curPrecedence
    let (right, p1) ← parseExpression fuel precedence exp.2.nextToken
    pure (some exp.1, p1.setNode exp.1 (.InfixExpression tok left tok.literal right))

/-- Member `parseGroupedExpression`. -/
def parseGroupedExpression : Nat → Parser → Res (NodePtr × Parser)
  | 0, _ => .fuel
  | fuel + 1, p => do
    let (exp, p1) ← parseExpression fuel .LOWEST p.nextToken
    let e := p1.expectPeek .RPAREN
    if e.1 = false then pure (none, e.2) else pure (exp, e.2)

/-- Member `parseIfExpression`. -/
def parseIfExpression : Nat → Parser → Res (NodePtr × Parser)
  | 0, _ => .fuel
  | fuel + 1, p =>
    let tok := p.curToken
    let exp := p.make (.IfExpression tok none none none)
    let e1 := exp.2.expectPeek .LPAREN
    if e1.1 = false then .ok (none, e1.2)
    else do
      let (condition, p1) ← parseExpression fuel .LOWEST e1.2.nextToken
      let p2 := p1.setNode exp.1 (.IfExpression tok condition none none)
      let e2 := p2.expectPeek .RPAREN
      if e2.1 = false then pure (none, e2.2)
      else
        let e3 := e2.2.expectPeek .LBRACE
        if e3.1 = false then pure (none, e3.2)
        else do
          let (consequence, p3) ← parseBlockStatement fuel e3.2
          let p4 := p3.setNode exp.1 (.IfExpression tok condition consequence none)
          if p4.peekTokenIs .ELSE then
            let e4 := p4.nextToken.expectPeek .LBRACE
            if e4.1 = false then pure (none, e4.2)
            else do
              let (alternative, p5) ← parseBlockStatement fuel e4.2
              pure (some exp.1,
                p5.setNode exp.1 (.IfExpression tok condition consequence alternative))
          else pure (some exp.1, p4)

/-- Member `parseBlockStatement`. -/
def parseBlockStatement : Nat → Parser → Res (NodePtr × Parser)
  | 0, _ => .fuel
  | fuel + 1, p =>
    let tok := p.curToken
    let block := p.make (.BlockStatement tok [])
    parseBlockStatementLoop fuel tok block.1 [] block.2.nextToken

/-- The loop `while (!curTokenIs(RBRACE) && !curTokenIs(EOF))` of
`parseBlockStatement`. -/
def parseBlockStatementLoop : Nat → Token → Nat → List NodePtr → Parser →
    Res (NodePtr × Parser)
  | 0, _, _, _, _ => .fuel
  | fuel + 1, tok, block, statements, p =>
    if p.curTokenIs .RBRACE = false ∧ p.curTokenIs .EOF = false then do
      let (stmt, p1) ← parseStatement fuel p
      let statements1 := (match stmt with
        | none => statements
        | some _ => statements ++ [stmt])
      parseBlockStatementLoop fuel tok block statements1
        (p1.setNode block (.BlockStatement tok statements1)).nextToken
    else .ok (some block, p)

/-- Member `parseFunctionLiteral`. -/
def parseFunctionLiteral : Nat → Parser → Res (NodePtr × Parser)
  | 0, _ => .fuel
  | fuel + 1, p =>
    let tok := p.curToken
    let lit := p.make (.FunctionLiteral tok [] none)
    let e1 := lit.2.expectPeek .LPAREN
    if e1.1 = false then .ok (none, e1.2)
    else do
      let (parameters, p1) ← parseFunctionParameters fuel e1.2
      let p2 := p1.setNode lit.1 (.FunctionLiteral tok parameters none)
      let e2 := p2.expectPeek .LBRACE
      if e2.1 = false then pure (none, e2.2)
      else do
        let (body, p3) ← parseBlockStatement fuel e2.2
        pure (some lit.1, p3.setNode lit.1 (.FunctionLiteral tok parameters body))

/-- Members `parseCallExpression` and `parseCallArguments`. -/
def parseCallExpression : Nat → NodePtr → Parser → Res (NodePtr × Parser)
  | 0, _, _ => .fuel
  | fuel + 1, function, p => do
    let tok := p.curToken
    let exp := p.make (.CallExpression tok function [])
    let (arguments, p1) ← parseExpressionList fuel .RPAREN exp.2
    pure (some exp.1, p1.setNode exp.1 (.CallExpression tok function arguments))

end

/-- The loop `while (curToken.getType() != EOF)` of `parseProgram`. -/
def parseProgramLoop : Nat → Nat → List NodePtr → Parser → Res (Nat × Parser)
  | 0, _, _, _ => .fuel
  | fuel + 1, program, statements, p =>
    if p.curToken.type ≠ .EOF then
      match parseStatement fuel p with
      | .ok (stmt, p1) =>
        let statements1 := (match stmt with
          | none => statements
          | some _ => statements ++ [stmt])
        parseProgramLoop fuel program statements1
          (p1.setNode program (.Program statements1)).nextToken
      | .crash => .crash
      | .fuel => .fuel
    else .ok (program, p)

/-- Member `parseProgram`: the address of the `Program` node and the final
parser state (errors and node heap). -/
def parseProgram (fuel : Nat) (p : Parser) : Res (Nat × Parser) :=
  let program := p.make (.Program [])
  parseProgramLoop fuel program.1 [] program.2

/-- Member `getErrors`: the numbered error report. -/
def getErrorsFrom : Nat → List String → String
  | _, [] => ""
  | i, e :: rest => toString (i + 1) ++ "." ++ e ++ "\n" ++ getErrorsFrom (i + 1) rest

/-- Lex and parse a source text: `Parser(Lexer(input)).parseProgram()`. -/
def parseSource (fuel : Nat) (input : String) : Res (Nat × Parser) :=
  parseProgram fuel (Parser.new (Lexer.new input.data))

/-- Canonical text of the program parsed from `input`, with the parser's
error list. -/
def parseToString (fuel : Nat) (input : String) : Res (String × List String) :=
  match parseSource fuel input with
  | .ok (program, p) =>
    match nodeString fuel p.nodes (some program) with
    | .ok s => .ok (s, p.errors)
    | .crash => .crash
    | .fuel => .fuel
  | .crash => .crash
  | .fuel => .fuel

/-! ## object/object.h

Runtime objects live in a heap `List Object`; an `ObjPtr` is `none` for
`nullptr` or the address of a cell. Objects are never changed after their
construction. Environments live in a heap of their own and are updated in
place by `set`. -/

/-- Address of a runtime object, or `none` for `nullptr`. -/
abbrev ObjPtr := Option Nat

/-- The native functions a `Builtin` object can wrap. -/
inductive BuiltinFn where
  | len | first | last | rest | push | puts
  deriving DecidableEq, Repr

/-- A hash key, `class HashKey`: type tag and unsigned 64-bit value. Hash keys
are temporaries and are not stored in the object heap. -/
structure HashKey where
  objectType : String
  value : Nat
  deriving DecidableEq, Repr

/-- Member `HashKey::inspect`. -/
def HashKey.inspect (k : HashKey) : String :=
  k.objectType ++ "_" ++ toString k.value

/-- One runtime object: the concrete classes of `object.h` with their fields.
`HashTable.pairs` is a `std::map` keyed by a string: the list is kept in
increasing key order. -/
inductive Object where
  | Integer (value : Int)
  | Boolea (value : Bool)
  | Strin (value : String)
  | Null
  | ReturnValue (value : ObjPtr)
  | Error (message : String)
  | Function (parameters : List NodePtr) (body : NodePtr) (env : Nat)
  | Builtin (fn : BuiltinFn)
  | Array (elements : List ObjPtr)
  | HashPair (key : ObjPtr) (value : ObjPtr)
  | HashTable (pairs : List (String × ObjPtr))
  | Quote (node : NodePtr)
  | Macro (parameters : List NodePtr) (body : NodePtr) (env : Nat)
  deriving DecidableEq, Repr

/-- Member `type()`. -/
def Object.type : Object → String
  | .Integer _ => "INTEGER"
  | .Boolea _ => "BOOLEAN"
  | .Strin _ => "STRING"
  | .Null => "NULL"
  | .ReturnValue _ => "RETURN_VALUE"
  | .Error _ => "ERROR"
  | .Function _ _ _ => "FUNCTION"
  | .Builtin _ => "BUILTIN"
  | .Array _ => "ARRAY"
  | .HashPair _ _ => "HASH_PAIR"
  | .HashTable _ => "HASH_TABLE"
  | .Quote _ => "QUOTE"
  | .Macro _ _ _ => "MACRO"

/-- Conversion of a 64-bit value to `int`: reduction modulo 2^32 into the
signed 32-bit range. -/
def toInt32 (v : Int) : Int :=
  (v + 2147483648) % 4294967296 - 2147483648

/-- Constructor `Integer(int value)`: the parameter has type `int`, so the
argument is converted to 32 bits before it is stored in the 64-bit field. -/
def Integer.mk (value : Int) : Object :=
  .Integer (toInt32 value)

/-- Value of a byte read through `char` (signed on the usual x86-64 host). -/
def signedChar (c : Char) : Int :=
  if c.toNat < 128 then (c.toNat : Int) else (c.toNat : Int) - 256

/-- Member `hashKey()` of the hashable classes `Integer`, `Boolea`, `Strin`;
`none` when the object is of no hashable class (the cast to `Hashable`
fails). -/
def Object.hashKey : Object → Option HashKey
  | .Integer value => some { objectType := "INTEGER", value := (value % 18446744073709551616).toNat }
  | .Boolea value => some { objectType := "BOOLEAN", value := if value then 1 else 0 }
  | .Strin value =>
    some { objectType := "STRING",
           value := ((value.data.foldl (fun h c => h + signedChar c) 0)
                      % 18446744073709551616).toNat }
  | _ => none

/-- An environment frame, `class Environment`. -/
structure Environment where
  store : List (String × ObjPtr)
  outer : Option Nat
  deriving DecidableEq, Repr

/-- Assignment `store[name] = value` on the frame's map. -/
def storeAssign (name : String) (value : ObjPtr) : List (String × ObjPtr) → List (String × ObjPtr)
  | [] => [(name, value)]
  | (k, v) :: rest =>
    if k = name then (k, value) :: rest else (k, v) :: storeAssign name value rest

/-- Lookup `store.find(name)` on the frame's map. -/
def storeFind (name : String) : List (String × ObjPtr) → Option ObjPtr
  | [] => none
  | (k, v) :: rest => if k = name then some v else storeFind name rest

/-- All memory of a run: the AST node heap, the object heap, the environment
heap and the lines written to standard output. -/
structure Memory where
  nodes : NodeHeap
  objects : List Object
  envs : List Environment
  out : List String
  deriving DecidableEq, Repr

/-- The shared `NULL_OBJ`. -/
def NULL_OBJ : ObjPtr := some 0
/-- The shared `TRUE_OBJ`. -/
def TRUE_OBJ : ObjPtr := some 1
/-- The shared `FALSE_OBJ`. -/
def FALSE_OBJ : ObjPtr := some 2

/-- The objects with static storage: the three singletons of `evaluator.h`
and the six `Builtin` objects of the registry in `builtins.h`. -/
def staticObjects : List Object :=
  [.Null, .Boolea true, .Boolea false,
   .Builtin .len, .Builtin .first, .Builtin .last, .Builtin .rest, .Builtin .push,
   .Builtin .puts]

/-- Registry lookup `getBuiltin`: `builtins[name]`, null for other names. -/
def getBuiltin (name : String) : ObjPtr :=
  if name = "len" then some 3
  else if name = "first" then some 4
  else if name = "last" then some 5
  else if name = "rest" then some 6
  else if name = "push" then some 7
  else if name = "puts" then some 8
  else none

namespace Memory

/-- Memory at the start of a run over an already parsed program. -/
def init (nodes : NodeHeap) : Memory :=
  { nodes := nodes, objects := staticObjects, envs := [], out := [] }

/-- Allocation `std::make_shared<T>(...)` of a runtime object. -/
def makeObj (m : Memory) (o : Object) : ObjPtr × Memory :=
  (some m.objects.length, { m with objects := m.objects ++ [o] })

/-- Allocation `std::make_shared<Environment>(...)`. -/
def makeEnv (m : Memory) (e : Environment) : Nat × Memory :=
  (m.envs.length, { m with envs := m.envs ++ [e] })

/-- Allocation `std::make_shared<T>(...)` of an AST node. -/
def makeNode (m : Memory) (n : Node) : NodePtr × Memory :=
  (some m.nodes.length, { m with nodes := m.nodes ++ [n] })

/-- Dereference of an object pointer, `crash` for `nullptr`. -/
def deref (m : Memory) : ObjPtr → Res Object
  | none => .crash
  | some a =>
    match m.objects.get? a with
    | some o => .ok o
    | none => .crash

/-- Lookup loop of `Environment::get`: this frame, then the outer ones. The
chain of outer frames leads to strictly older frames, so `fuel` frames are
enough when `fuel` exceeds the address. -/
def envGetLoop (m : Memory) (name : String) : Nat → Nat → ObjPtr
  | 0, _ => none
  | fuel + 1, e =>
    match m.envs.get? e with
    | none => none
    | some frame =>
      match storeFind name frame.store with
      | some v => v
      | none =>
        match frame.outer with
        | some o => envGetLoop m name fuel o
        | none => none

/-- Member `Environment::get`: `nullptr` when no frame binds the name. -/
def envGet (m : Memory) (e : Nat) (name : String) : ObjPtr :=
  envGetLoop m name (e + 1) e

/-- Member `Environment::set`: write to the frame at `e` itself. -/
def envSet (m : Memory) (e : Nat) (name : String) (value : ObjPtr) : Res Memory :=
  match m.envs.get? e with
  | none => .crash
  | some frame =>
    .ok { m with envs := m.envs.set e { frame with store := storeAssign name value frame.store } }

end Memory

/-- Test `obj->type() == tag` on a dereferenced pointer. -/
def typeOf (m : Memory) (p : ObjPtr) : Res String :=
  match m.deref p with
  | .ok o => .ok o.type
  | .crash => .crash
  | .fuel => .fuel

/-- The separators of `Array::inspect`: `", "` after every element whose
pointer differs from the pointer of the last element. -/
def arraySeparators (last : ObjPtr) : List (ObjPtr × String) → String
  | [] => ""
  | (e, s) :: rest => s ++ (if e ≠ last then ", " else "") ++ arraySeparators last rest

/-- The parameter loop of `Function::inspect` and `Macro::inspect`: every
parameter is followed by `", "`. -/
def paramList : List String → String
  | [] => ""
  | s :: rest => s ++ ", " ++ paramList rest

/-- Member `inspect()` of the object at `p`. -/
def inspect : Nat → Memory → ObjPtr → Res String
  | 0, _, _ => .fuel
  | fuel + 1, m, p =>
    match m.deref p with
    | .crash => .crash
    | .fuel => .fuel
    | .ok (.Integer value) => pure (toString value)
    | .ok (.Boolea value) => pure (if value then "true" else "false")
    | .ok (.Strin value) => pure value
    | .ok .Null => pure "null"
    | .ok (.ReturnValue value) => inspect fuel m value
    | .ok (.Error message) => pure ("ERROR: " ++ message)
    | .ok (.Function parameters body _) => do
      let ps ← mapRes (nodeString fuel m.nodes) parameters
      let b ← nodeString fuel m.nodes body
      pure ("fn(" ++ paramList ps ++ ") \x7b\n" ++ b ++ "\n\x7d")
    | .ok (.Builtin _) => pure "builtin function"
    | .ok (.Array elements) => do
      let ss ← mapRes (inspect fuel m) elements
      pure ("[" ++ arraySeparators (elements.getLastD none) (elements.zip ss) ++ "]")
    | .ok (.HashPair key value) => do
      let k ← inspect fuel m key
      let v ← inspect fuel m value
      pure (k ++ " : " ++ v)
    | .ok (.HashTable pairs) => do
      let ss ← mapRes (fun (kv : String × ObjPtr) => inspect fuel m kv.2) pairs
      pure ("\x7b" ++ joinComma ss ++ "\x7d")
    | .ok (.Quote node) => do
      let s ← nodeString fuel m.nodes node
      pure ("QUOTE(" ++ s ++ ")")
    | .ok (.Macro parameters body _) => do
      let ps ← mapRes (nodeString fuel m.nodes) parameters
      let b ← nodeString fuel m.nodes body
      pure ("macro(" ++ paramList ps ++ ") \x7b\n" ++ b ++ "\n\x7d")

/-! ## evaluator/builtins.h -/

/-- Allocation `std::make_shared<Error>(msg)`. -/
def newError (msg : String) (m : Memory) : Res (ObjPtr × Memory) :=
  .ok (m.makeObj (.Error msg))

/-- Element `args[i]` of an argument vector; reading past the end is
undefined behaviour. -/
def vectorAt {α : Type} (xs : List α) (i : Nat) : Res α :=
  match xs.get? i with
  | some x => .ok x
  | none => .crash

namespace builtins

/-- Built-in `len`. -/
def len (args : List ObjPtr) (m : Memory) : Res (ObjPtr × Memory) :=
  if args.length ≠ 1 then
    newError ("wrong number of arguments in builtin function(len). got="
      ++ toString args.length ++ ", want=1") m
  else do
    let a ← vectorAt args 0
    let o ← m.deref a
    match o with
    | .Strin value => pure (m.makeObj (Integer.mk (Int.ofNat value.length)))
    | .Array elements => pure (m.makeObj (Integer.mk (Int.ofNat elements.length)))
    | _ => newError ("argument to `len` not supported, got " ++ o.type) m

/-- Built-in `first`. -/
def first (args : List ObjPtr) (m : Memory) : Res (ObjPtr × Memory) :=
  if args.length ≠ 1 then
    newError ("wrong number of arguments in builtin function(first). got="
      ++ toString args.length ++ ", want=1") m
  else do
    let a ← vectorAt args 0
    let o ← m.deref a
    match o with
    | .Array elements =>
      match elements with
      | [] => pure (none, m)
      | e :: _ => pure (e, m)
    | _ => newError ("argument to `first` must be ARRAY, got " ++ o.type) m

/-- Built-in `last`. -/
def last (args : List ObjPtr) (m : Memory) : Res (ObjPtr × Memory) :=
  if args.length ≠ 1 then
    newError ("wrong number of arguments in builtin function(last). got="
      ++ toString args.length ++ ", want=1") m
  else do
    let a ← vectorAt args 0
    let o ← m.deref a
    match o with
    | .Array elements =>
      if elements.length > 0 then do
        let e ← vectorAt elements (elements.length - 1)
        pure (e, m)
      else pure (none, m)
    | _ => newError ("argument to `last` must be ARRAY, got " ++ o.type) m

/-- Built-in `rest`. -/
def rest (args : List ObjPtr) (m : Memory) : Res (ObjPtr × Memory) :=
  if args.length ≠ 1 then
    newError ("wrong number of arguments in builtin function(rest). got="
      ++ toString args.length ++ ", want=1") m
  else do
    let a ← vectorAt args 0
    let o ← m.deref a
    match o with
    | .Array elements =>
      if elements.length > 0 then pure (m.makeObj (.Array (elements.drop 1)))
      else pure (none, m)
    | _ => newError ("argument to `rest` must be ARRAY, got " ++ o.type) m

/-- Built-in `push`. -/
def push (args : List ObjPtr) (m : Memory) : Res (ObjPtr × Memory) :=
  if args.length ≠ 2 then
    newError ("wrong number of arguments in builtin function(push). got="
      ++ toString args.length ++ ", want=2") m
  else do
    let a ← vectorAt args 0
    let o ← m.deref a
    match o with
    | .Array elements => do
      let v ← vectorAt args 1
      pure (m.makeObj (.Array (elements ++ [v])))
    | _ => newError ("argument to `push` must be ARRAY, got " ++ o.type) m

/-- Built-in `puts`: one line per argument on standard output. -/
def puts (fuel : Nat) : List ObjPtr → Memory → Res (ObjPtr × Memory)
  | [], m => .ok (none, m)
  | arg :: args, m =>
    match inspect fuel m arg with
    | .ok s => puts fuel args { m with out := m.out ++ [s] }
    | .crash => .crash
    | .fuel => .fuel

end builtins

/-- Call `f->fn(args)` of a `Builtin` object. -/
def callBuiltin (fuel : Nat) (fn : BuiltinFn) (args : List ObjPtr) (m : Memory) :
    Res (ObjPtr × Memory) :=
  match fn with
  | .len => builtins.len args m
  | .first => builtins.first args m
  | .last => builtins.last args m
  | .rest => builtins.rest args m
  | .push => builtins.push args m
  | .puts => builtins.puts fuel args m

/-! ## ast/modify.h -/

/-- The static classes a slot of the AST can be declared with; the target of
the `dynamic_pointer_cast` that `modify` applies before storing a child. -/
inductive NodeClass where
  | Statement | Expression | BlockStatement | Identifier
  deriving DecidableEq, Repr

/-- Whether a node is an instance of a class. -/
def Node.isA : Node → NodeClass → Bool
  | .LetStatement _ _ _, .Statement => true
  | .ReturnStatement _ _, .Statement => true
  | .ExpressionStatement _ _, .Statement => true
  | .BlockStatement _ _, .Statement => true
  | .BlockStatement _ _, .BlockStatement => true
  | .Identifier _ _, .Identifier => true
  | .Identifier _ _, .Expression => true
  | .Boolean _ _, .Expression => true
  | .IntegerLiteral _ _, .Expression => true
  | .StringLiteral _ _, .Expression => true
  | .ArrayLiteral _ _, .Expression => true
  | .IndexExpression _ _ _, .Expression => true
  | .HashLiteral _ _, .Expression => true
  | .PrefixExpression _ _ _, .Expression => true
  | .InfixExpression _ _ _ _, .Expression => true
  | .IfExpression _ _ _ _, .Expression => true
  | .FunctionLiteral _ _ _, .Expression => true
  | .CallExpression _ _ _, .Expression => true
  | .MacroLiteral _ _ _, .Expression => true
  | _, _ => false

/-- Cast `std::dynamic_pointer_cast<C>(p)`: `p` when it points to an instance
of `C`, else `nullptr`. -/
def castNode (heap : NodeHeap) (c : NodeClass) (p : NodePtr) : NodePtr :=
  match p with
  | none => none
  | some a =>
    match heap.get? a with
    | some n => if n.isA c then some a else none
    | none => none

/-- A modifier, `modifierFunc`, with the memory it may change. -/
abbrev Modifier := NodePtr → Memory → Res (NodePtr × Memory)

/-- One statement `slot = dynamic_pointer_cast<C>(modify(slot, modifier))` on
the node at `a`: `read` selects the slot, `write` stores into it. -/
def modifySlot (rec : Modifier) (c : NodeClass) (read : Node → NodePtr)
    (write : Node → NodePtr → Node) (a : Nat) (m : Memory) : Res Memory :=
  match m.nodes.get? a with
  | none => .crash
  | some n =>
    match rec (read n) m with
    | .ok (r, m1) =>
      match m1.nodes.get? a with
      | none => .crash
      | some n1 => .ok { m1 with nodes := m1.nodes.set a (write n1 (castNode m1.nodes c r)) }
    | .crash => .crash
    | .fuel => .fuel

/-- The loops `for (auto& x : vec) x = dynamic_pointer_cast<C>(modify(x, modifier))`
on the node at `a`, over the positions `i, i + 1, ...` (`count` of them) of the
vector that `readAll` selects. -/
def modifySlots (rec : Modifier) (c : NodeClass) (readAll : Node → List NodePtr)
    (writeAll : Node → List NodePtr → Node) (a : Nat) : Nat → Nat → Memory → Res Memory
  | 0, _, m => .ok m
  | count + 1, i, m =>
    match modifySlot rec c (fun n => (readAll n).getD i none)
        (fun n r => writeAll n ((readAll n).set i r)) a m with
    | .ok m1 => modifySlots rec c readAll writeAll a count (i + 1) m1
    | .crash => .crash
    | .fuel => .fuel

/-- Insertion `newPairs.insert(make_pair(key, value))` into a pointer-keyed
map: an entry whose key is already present is kept. As in `ptrMapAssign` the
allocation index of a node stands for its address. -/
def ptrMapInsert (key : NodePtr) (value : NodePtr) :
    List (NodePtr × NodePtr) → List (NodePtr × NodePtr)
  | [] => [(key, value)]
  | (k, v) :: rest =>
    if key = k then (k, v) :: rest
    else if (match key, k with
      | none, _ => true
      | some _, none => false
      | some a, some b => decide (a < b)) then (key, value) :: (k, v) :: rest
    else (k, v) :: ptrMapInsert key value rest

/-- The loop of the `HashLiteral` branch of `modify`: build `newPairs` from
the pairs of the literal. -/
def modifyPairs (rec : Modifier) : List (NodePtr × NodePtr) → List (NodePtr × NodePtr) →
    Memory → Res (List (NodePtr × NodePtr) × Memory)
  | [], newPairs, m => .ok (newPairs, m)
  | (k, v) :: rest, newPairs, m =>
    match rec k m with
    | .ok (k1, m1) =>
      match rec v m1 with
      | .ok (v1, m2) =>
        modifyPairs rec rest
          (ptrMapInsert (castNode m1.nodes .Expression k1) (castNode m2.nodes .Expression v1)
            newPairs) m2
      | .crash => .crash
      | .fuel => .fuel
    | .crash => .crash
    | .fuel => .fuel

/-- The traversal `modify(node, modifier)`: rewrite the child slots of the
node in place, then return `modifier(node)`. There is no branch for
`CallExpression`, `MacroLiteral` or the leaf classes: their slots are left as
they are. -/
def modify : Nat → Modifier → NodePtr → Memory → Res (NodePtr × Memory)
  | 0, _, _, _ => .fuel
  | _ + 1, modifier, none, m => modifier none m
  | fuel + 1, modifier, some a, m =>
    match m.nodes.get? a with
    | none => .crash
    | some (.Program statements) => do
      let m1 ← modifySlots (modify fuel modifier) .Statement
        (fun n => match n with
          | .Program ss => ss
          | _ => [])
        (fun n ss => match n with
          | .Program _ => .Program ss
          | _ => n) a statements.length 0 m
      modifier (some a) m1
    | some (.ExpressionStatement _ _) => do
      let m1 ← modifySlot (modify fuel modifier) .Expression
        (fun n => match n with
          | .ExpressionStatement _ e => e
          | _ => none)
        (fun n r => match n with
          | .ExpressionStatement t _ => .ExpressionStatement t r
          | _ => n) a m
      modifier (some a) m1
    | some (.InfixExpression _ _ _ _) => do
      let m1 ← modifySlot (modify fuel modifier) .Expression
        (fun n => match n with
          | .InfixExpression _ l _ _ => l
          | _ => none)
        (fun n r => match n with
          | .InfixExpression t _ op x => .InfixExpression t r op x
          | _ => n) a m
      let m2 ← modifySlot (modify fuel modifier) .Expression
        (fun n => match n with
          | .InfixExpression _ _ _ x => x
          | _ => none)
        (fun n r => match n with
          | .InfixExpression t l op _ => .InfixExpression t l op r
          | _ => n) a m1
      modifier (some a) m2
    | some (.PrefixExpression _ _ _) => do
      let m1 ← modifySlot (modify fuel modifier) .Expression
        (fun n => match n with
          | .PrefixExpression _ _ x => x
          | _ => none)
        (fun n r => match n with
          | .PrefixExpression t op _ => .PrefixExpression t op r
          | _ => n) a m
      modifier (some a) m1
    | some (.IndexExpression _ _ _) => do
      let m1 ← modifySlot (modify fuel modifier) .Expression
        (fun n => match n with
          | .IndexExpression _ l _ => l
          | _ => none)
        (fun n r => match n with
          | .IndexExpression t _ i => .IndexExpression t r i
          | _ => n) a m
      let m2 ← modifySlot (modify fuel modifier) .Expression
        (fun n => match n with
          | .IndexExpression _ _ i => i
          | _ => none)
        (fun n r => match n with
          | .IndexExpression t l _ => .IndexExpression t l r
          | _ => n) a m1
      modifier (some a) m2
    | some (.IfExpression _ _ _ _) => do
      let m1 ← modifySlot (modify fuel modifier) .Expression
        (fun n => match n with
          | .IfExpression _ c _ _ => c
          | _ => none)
        (fun n r => match n with
          | .IfExpression t _ q x => .IfExpression t r q x
          | _ => n) a m
      let m2 ← modifySlot (modify fuel modifier) .BlockStatement
        (fun n => match n with
          | .IfExpression _ _ q _ => q
          | _ => none)
        (fun n r => match n with
          | .IfExpression t c _ x => .IfExpression t c r x
          | _ => n) a m1
      let m3 ← (match m2.nodes.get? a with
        | some (.IfExpression _ _ _ (some _)) =>
          modifySlot (modify fuel modifier) .BlockStatement
            (fun n => match n with
              | .IfExpression _ _ _ x => x
              | _ => none)
            (fun n r => match n with
              | .IfExpression t c q _ => .IfExpression t c q r
              | _ => n) a m2
        | _ => pure m2)
      modifier (some a) m3
    | some (.BlockStatement _ statements) => do
      let m1 ← modifySlots (modify fuel modifier) .Statement
        (fun n => match n with
          | .BlockStatement _ ss => ss
          | _ => [])
        (fun n ss => match n with
          | .BlockStatement t _ => .BlockStatement t ss
          | _ => n) a statements.length 0 m
      modifier (some a) m1
    | some (.ReturnStatement _ _) => do
      let m1 ← modifySlot (modify fuel modifier) .Expression
        (fun n => match n with
          | .ReturnStatement _ v => v
          | _ => none)
        (fun n r => match n with
          | .ReturnStatement t _ => .ReturnStatement t r
          | _ => n) a m
      modifier (some a) m1
    | some (.LetStatement _ _ _) => do
      let m1 ← modifySlot (modify fuel modifier) .Expression
        (fun n => match n with
          | .LetStatement _ _ v => v
          | _ => none)
        (fun n r => match n with
          | .LetStatement t name _ => .LetStatement t name r
          | _ => n) a m
      modifier (some a) m1
    | some (.FunctionLiteral _ parameters _) => do
      let m1 ← modifySlots (modify fuel modifier) .Identifier
        (fun n => match n with
          | .FunctionLiteral _ ps _ => ps
          | _ => [])
        (fun n ps => match n with
          | .FunctionLiteral t _ b => .FunctionLiteral t ps b
          | _ => n) a parameters.length 0 m
      let m2 ← modifySlot (modify fuel modifier) .BlockStatement
        (fun n => match n with
          | .FunctionLiteral _ _ b => b
          | _ => none)
        (fun n r => match n with
          | .FunctionLiteral t ps _ => .FunctionLiteral t ps r
          | _ => n) a m1
      modifier (some a) m2
    | some (.ArrayLiteral _ elements) => do
      let m1 ← modifySlots (modify fuel modifier) .Expression
        (fun n => match n with
          | .ArrayLiteral _ es => es
          | _ => [])
        (fun n es => match n with
          | .ArrayLiteral t _ => .ArrayLiteral t es
          | _ => n) a elements.length 0 m
      modifier (some a) m1
    | some (.HashLiteral _ pairs) => do
      let (newPairs, m1) ← modifyPairs (modify fuel modifier) pairs [] m
      match m1.nodes.get? a with
      | some (.HashLiteral t _) =>
        modifier (some a) { m1 with nodes := m1.nodes.set a (.HashLiteral t newPairs) }
      | _ => .crash
    | some _ => modifier (some a) m

/-! ## evaluator/evaluator.h

`eval` is the only recursive function of the evaluator in the model: it
recurses on its fuel. The other member functions that call `eval` take the
evaluator to call as their first argument `ev`; `eval (fuel + 1)` passes
`eval fuel`. -/

/-- Type of the evaluator `eval(node, env)` over the memory. -/
abbrev Eval := NodePtr → Nat → Memory → Res (ObjPtr × Memory)

/-- Member `nativeBoolToBooleaObject`. -/
def nativeBoolToBooleaObject (input : Bool) : ObjPtr :=
  if input then TRUE_OBJ else FALSE_OBJ

/-- Member `isError`. -/
def isError (m : Memory) (obj : ObjPtr) : Bool :=
  match obj with
  | none => false
  | some a =>
    match m.objects.get? a with
    | some o => decide (o.type = "ERROR")
    | none => false

/-- Member `isTruthy`. -/
def isTruthy (obj : ObjPtr) : Bool :=
  if obj = NULL_OBJ then false
  else if obj = TRUE_OBJ then true
  else if obj = FALSE_OBJ then false
  else true

/-- Member `evalBangOperatorExpression`. -/
def evalBangOperatorExpression (right : ObjPtr) : ObjPtr :=
  if right = TRUE_OBJ then FALSE_OBJ
  else if right = FALSE_OBJ then TRUE_OBJ
  else if right = NULL_OBJ then TRUE_OBJ
  else FALSE_OBJ

/-- Member `evalMinusPrefixOperatorExpression`. -/
def evalMinusPrefixOperatorExpression (right : ObjPtr) (m : Memory) : Res (ObjPtr × Memory) := do
  let o ← m.deref right
  match o with
  | .Integer value => pure (m.makeObj (Integer.mk (-value)))
  | _ => newError ("unknown operator: -" ++ o.type) m

/-- Member `evalPrefixExpression`. -/
def evalPrefixExpression (op : String) (right : ObjPtr) (m : Memory) : Res (ObjPtr × Memory) :=
  if op = "!" then .ok (evalBangOperatorExpression right, m)
  else if op = "-" then evalMinusPrefixOperatorExpression right m
  else do
    let t ← typeOf m right
    newError ("unknown operator: " ++ op ++ t) m

/-- Member `evalIntegerInfixExpression`; both operands are `Integer` objects.
The operands hold 32-bit values (every `Integer` is built by `Integer(int)`),
so the 64-bit operations are exact; the result passes through `Integer(int)`.
Division by zero is undefined behaviour. -/
def evalIntegerInfixExpression (op : String) (left right : ObjPtr) (m : Memory) :
    Res (ObjPtr × Memory) := do
  let l ← m.deref left
  let r ← m.deref right
  match l, r with
  | .Integer leftVal, .Integer rightVal =>
    if op = "+" then pure (m.makeObj (Integer.mk (leftVal + rightVal)))
    else if op = "-" then pure (m.makeObj (Integer.mk (leftVal - rightVal)))
    else if op = "*" then pure (m.makeObj (Integer.mk (leftVal * rightVal)))
    else if op = "/" then
      if rightVal = 0 then .crash
      else pure (m.makeObj (Integer.mk (Int.tdiv leftVal rightVal)))
    else if op = "<" then pure (nativeBoolToBooleaObject (decide (leftVal < rightVal)), m)
    else if op = ">" then pure (nativeBoolToBooleaObject (decide (leftVal > rightVal)), m)
    else if op = "==" then pure (nativeBoolToBooleaObject (decide (leftVal = rightVal)), m)
    else if op = "!=" then pure (nativeBoolToBooleaObject (decide (leftVal ≠ rightVal)), m)
    else newError ("unknown operator: " ++ l.type ++ " " ++ op ++ " " ++ r.type) m
  | _, _ => .crash

/-- Member `evalStringInfixExpression`; both operands are `Strin` objects. -/
def evalStringInfixExpression (op : String) (left right : ObjPtr) (m : Memory) :
    Res (ObjPtr × Memory) := do
  let l ← m.deref left
  let r ← m.deref right
  match l, r with
  | .Strin leftVal, .Strin rightVal =>
    if op = "+" then pure (m.makeObj (.Strin (leftVal ++ rightVal)))
    else if op = "==" then pure (nativeBoolToBooleaObject (decide (leftVal = rightVal)), m)
    else if op = "!=" then pure (nativeBoolToBooleaObject (decide (leftVal ≠ rightVal)), m)
    else newError ("unknown operator: " ++ l.type ++ " " ++ op ++ " " ++ r.type) m
  | _, _ => .crash

/-- The test `left->type() == tag && right->type() == tag` with its
short-circuit: `right` is dereferenced only when `left` has the tag. -/
def bothHaveType (m : Memory) (tag : String) (left right : ObjPtr) : Res Bool := do
  let lt ← typeOf m left
  if lt = tag then do
    let rt ← typeOf m right
    pure (decide (rt = tag))
  else pure false

/-- Member `evalInfixExpression`. -/
def evalInfixExpression (op : String) (left right : ObjPtr) (m : Memory) :
    Res (ObjPtr × Memory) := do
  let ints ← bothHaveType m "INTEGER" left right
  if ints then evalIntegerInfixExpression op left right m
  else do
    let strs ← bothHaveType m "STRING" left right
    if strs then evalStringInfixExpression op left right m
    else if op = "==" then pure (nativeBoolToBooleaObject (decide (left = right)), m)
    else if op = "!=" then pure (nativeBoolToBooleaObject (decide (left ≠ right)), m)
    else do
      let lt ← typeOf m left
      let rt ← typeOf m right
      if lt ≠ rt then newError ("type mismatch: " ++ lt ++ " " ++ op ++ " " ++ rt) m
      else newError ("unknown operator: " ++ lt ++ " " ++ op ++ " " ++ rt) m

/-- Member `evalIdentifier` on the identifier's `value`. -/
def evalIdentifier (value : String) (env : Nat) (m : Memory) : Res (ObjPtr × Memory) :=
  if getBuiltin value ≠ none then .ok (getBuiltin value, m)
  else if m.envGet env value ≠ none then .ok (m.envGet env value, m)
  else newError ("identifier not found: " ++ value) m

/-- Member `evalIfExpression`. -/
def evalIfExpression (ev : Eval) (condition consequence alternative : NodePtr) (env : Nat)
    (m : Memory) : Res (ObjPtr × Memory) := do
  let (cond, m1) ← ev condition env m
  if isError m1 cond then pure (cond, m1)
  else if isTruthy cond then ev consequence env m1
  else if alternative ≠ none then ev alternative env m1
  else pure (NULL_OBJ, m1)

/-- The loop of `evalProgram` over the statements still to run; `result` is
the value of the last statement run. -/
def evalProgramLoop (ev : Eval) (env : Nat) : List NodePtr → ObjPtr → Memory →
    Res (ObjPtr × Memory)
  | [], result, m => .ok (result, m)
  | statement :: rest, _, m =>
    match ev statement env m with
    | .ok (result, m1) =>
      match result with
      | none => evalProgramLoop ev env rest result m1
      | some a =>
        match m1.objects.get? a with
        | some (.ReturnValue value) => .ok (value, m1)
        | some (.Error _) => .ok (result, m1)
        | _ => evalProgramLoop ev env rest result m1
    | .crash => .crash
    | .fuel => .fuel

/-- Member `evalProgram` on the statements of the program. -/
def evalProgram (ev : Eval) (statements : List NodePtr) (env : Nat) (m : Memory) :
    Res (ObjPtr × Memory) :=
  evalProgramLoop ev env statements none m

/-- The loop of `evalBlockStatement`. -/
def evalBlockStatementLoop (ev : Eval) (env : Nat) : List NodePtr → ObjPtr → Memory →
    Res (ObjPtr × Memory)
  | [], result, m => .ok (result, m)
  | statement :: rest, _, m =>
    match ev statement env m with
    | .ok (result, m1) =>
      match result with
      | none => evalBlockStatementLoop ev env rest result m1
      | some a =>
        match m1.objects.get? a with
        | some o =>
          if o.type = "RETURN_VALUE" ∨ o.type = "ERROR" then .ok (result, m1)
          else evalBlockStatementLoop ev env rest result m1
        | none => .crash
    | .crash => .crash
    | .fuel => .fuel

/-- Member `evalBlockStatement` on the statements of the block. -/
def evalBlockStatement (ev : Eval) (statements : List NodePtr) (env : Nat) (m : Memory) :
    Res (ObjPtr × Memory) :=
  evalBlockStatementLoop ev env statements none m

/-- Member `evalExpressions`; `result` holds the values so far. -/
def evalExpressionsLoop (ev : Eval) (env : Nat) : List NodePtr → List ObjPtr → Memory →
    Res (List ObjPtr × Memory)
  | [], result, m => .ok (result, m)
  | e :: rest, result, m =>
    match ev e env m with
    | .ok (evaluated, m1) =>
      if isError m1 evaluated then .ok ([evaluated], m1)
      else evalExpressionsLoop ev env rest (result ++ [evaluated]) m1
    | .crash => .crash
    | .fuel => .fuel

/-- Member `evalExpressions`. -/
def evalExpressions (ev : Eval) (exps : List NodePtr) (env : Nat) (m : Memory) :
    Res (List ObjPtr × Memory) :=
  evalExpressionsLoop ev env exps [] m

/-- Member `evalArrayIndexExpression`. -/
def evalArrayIndexExpression (left index : ObjPtr) (m : Memory) : Res (ObjPtr × Memory) := do
  let l ← m.deref left
  let i ← m.deref index
  match l, i with
  | .Array elements, .Integer idx =>
    if idx < 0 ∨ idx > (Int.ofNat elements.length - 1) then pure (NULL_OBJ, m)
    else do
      let e ← vectorAt elements idx.toNat
      pure (e, m)
  | _, _ => .crash

/-- Assignment `pairs[key] = value` on the string-keyed map of a `HashTable`:
keys ascend, an equal key is overwritten. -/
def strMapAssign (key : String) (value : ObjPtr) : List (String × ObjPtr) → List (String × ObjPtr)
  | [] => [(key, value)]
  | (k, v) :: rest =>
    if key = k then (k, value) :: rest
    else if key < k then (key, value) :: (k, v) :: rest
    else (k, v) :: strMapAssign key value rest

/-- Lookup `pairs.find(key)` on the string-keyed map of a `HashTable`. -/
def strMapFind (key : String) : List (String × ObjPtr) → Option ObjPtr
  | [] => none
  | (k, v) :: rest => if k = key then some v else strMapFind key rest

/-- Member `evalHashIndexExpression`. -/
def evalHashIndexExpression (left index : ObjPtr) (m : Memory) : Res (ObjPtr × Memory) := do
  let l ← m.deref left
  match l with
  | .HashTable pairs =>
    match index with
    | none => .crash
    | some _ => do
      let i ← m.deref index
      match i.hashKey with
      | none => newError ("unusable as hash key: " ++ i.type) m
      | some key =>
        match strMapFind key.inspect pairs with
        | none => pure (NULL_OBJ, m)
        | some pair => do
          let pr ← m.deref pair
          match pr with
          | .HashPair _ value => pure (value, m)
          | _ => .crash
  | _ => .crash

/-- Member `evalIndexExpression`. -/
def evalIndexExpression (left index : ObjPtr) (m : Memory) : Res (ObjPtr × Memory) := do
  let arr ← (do
    let lt ← typeOf m left
    if lt = "ARRAY" then do
      let it ← typeOf m index
      pure (decide (it = "INTEGER"))
    else pure false)
  if arr then evalArrayIndexExpression left index m
  else do
    let lt ← typeOf m left
    if lt = "HASH_TABLE" then evalHashIndexExpression left index m
    else newError ("index operator not supported: " ++ lt) m

/-- The loop of `evalHashLiteral` over the pairs of the literal, in the
order of the literal's map. -/
def evalHashLiteralLoop (ev : Eval) (env : Nat) : List (NodePtr × NodePtr) →
    List (String × ObjPtr) → Memory → Res (ObjPtr × Memory)
  | [], pairs, m => .ok (m.makeObj (.HashTable pairs))
  | (k, v) :: rest, pairs, m =>
    match ev k env m with
    | .ok (key, m1) =>
      if isError m1 key then .ok (key, m1)
      else
        match m1.deref key with
        | .ok ko =>
          match ko.hashKey with
          | none => newError ("unusable as hash key: " ++ ko.type) m1
          | some hashed =>
            match ev v env m1 with
            | .ok (value, m2) =>
              if isError m2 value then .ok (value, m2)
              else
                let pr := m2.makeObj (.HashPair key value)
                evalHashLiteralLoop ev env rest (strMapAssign hashed.inspect pr.1 pairs) pr.2
            | .crash => .crash
            | .fuel => .fuel
        | .crash => .crash
        | .fuel => .fuel
    | .crash => .crash
    | .fuel => .fuel

/-- Member `evalHashLiteral` on the pairs of the literal. -/
def evalHashLiteral (ev : Eval) (pairs : List (NodePtr × NodePtr)) (env : Nat) (m : Memory) :
    Res (ObjPtr × Memory) :=
  evalHashLiteralLoop ev env pairs [] m

/-- Field `value` of the `Identifier` a parameter slot points to. -/
def identifierValue (heap : NodeHeap) (p : NodePtr) : Res String :=
  match derefNode heap p with
  | .ok (.Identifier _ value) => .ok value
  | _ => .crash

/-- The loop `for (i = 0; i < parameters.size(); ++i) env.set(parameters[i]->value, args[i])`
shared by `extendFunctionEnv` and `extendMacroEnv`, on the store of the new
frame. -/
def bindParameters (heap : NodeHeap) (args : List ObjPtr) : List NodePtr → Nat →
    List (String × ObjPtr) → Res (List (String × ObjPtr))
  | [], _, store => .ok store
  | param :: rest, i, store =>
    match identifierValue heap param, vectorAt args i with
    | .ok name, .ok arg => bindParameters heap args rest (i + 1) (storeAssign name arg store)
    | _, _ => .crash

/-- Member `extendFunctionEnv`: a new frame whose outer is the function's
captured environment, with the parameters bound to the arguments. -/
def extendFunctionEnv (parameters : List NodePtr) (fnEnv : Nat) (args : List ObjPtr)
    (m : Memory) : Res (Nat × Memory) :=
  match bindParameters m.nodes args parameters 0 [] with
  | .ok store => .ok (m.makeEnv { store := store, outer := some fnEnv })
  | .crash => .crash
  | .fuel => .fuel

/-- Member `unwrapReturnValue`. -/
def unwrapReturnValue (m : Memory) (obj : ObjPtr) : ObjPtr :=
  match obj with
  | none => obj
  | some a =>
    match m.objects.get? a with
    | some (.ReturnValue value) => value
    | _ => obj

/-- Member `applyFunction`. -/
def applyFunction (ev : Eval) (fuel : Nat) (fn : ObjPtr) (args : List ObjPtr) (m : Memory) :
    Res (ObjPtr × Memory) := do
  let f ← m.deref fn
  match f with
  | .Function parameters body fnEnv => do
    let (extendedEnv, m1) ← extendFunctionEnv parameters fnEnv args m
    let (evaluated, m2) ← ev body extendedEnv m1
    pure (unwrapReturnValue m2 evaluated, m2)
  | .Builtin b => callBuiltin fuel b args m
  | _ => newError ("not a function: " ++ f.type) m

/-- Member `isUnquoteCall`. -/
def isUnquoteCall (heap : NodeHeap) (node : NodePtr) : Res Bool :=
  match node with
  | none => .ok false
  | some a =>
    match heap.get? a with
    | some (.CallExpression _ function _) => do
      let f ← derefNode heap function
      let lit ← TokenLiteral heap f
      pure (decide (lit = "unquote"))
    | some _ => .ok false
    | none => .crash

/-- Member `convertObjectToNode`. -/
def convertObjectToNode (obj : ObjPtr) (m : Memory) : NodePtr × Memory :=
  match obj with
  | none => (none, m)
  | some a =>
    match m.objects.get? a with
    | some (.Integer value) =>
      m.makeNode (.IntegerLiteral { type := .INT, literal := toString value } value)
    | some (.Boolea value) =>
      m.makeNode (.Boolean (if value then { type := .TRUE, literal := "true" }
        else { type := .FALSE, literal := "false" }) value)
    | some (.Strin value) =>
      m.makeNode (.StringLiteral { type := .STRING, literal := value } value)
    | some (.Quote node) => (node, m)
    | _ => (none, m)

/-- Member `evalUnquoteCalls`. -/
def evalUnquoteCalls (ev : Eval) (fuel : Nat) (node : NodePtr) (env : Nat) (m : Memory) :
    Res (NodePtr × Memory) :=
  modify fuel (fun node m => do
    let u ← isUnquoteCall m.nodes node
    if u = false then pure (node, m)
    else do
      let call ← derefNode m.nodes node
      match call with
      | .CallExpression _ _ arguments =>
        if arguments.length ≠ 1 then pure (node, m)
        else do
          let a ← vectorAt arguments 0
          let (unquoted, m1) ← ev a env m
          pure (convertObjectToNode unquoted m1)
      | _ => pure (node, m)) node m

/-- Member `quote`. -/
def quote (ev : Eval) (fuel : Nat) (node : NodePtr) (env : Nat) (m : Memory) :
    Res (ObjPtr × Memory) := do
  let (n, m1) ← evalUnquoteCalls ev fuel node env m
  pure (m1.makeObj (.Quote n))

/-- Member `eval`. The branch of the source that tests
`dynamic_pointer_cast<Boolea>(node)` casts an AST node to the object class
`Boolea`; no node is one, so it is never taken: a `Boolean` node, like a
`MacroLiteral`, matches no branch and reaches the final `return nullptr`. -/
def eval : Nat → NodePtr → Nat → Memory → Res (ObjPtr × Memory)
  | 0, _, _, _ => .fuel
  | _ + 1, none, _, m => .ok (none, m)
  | fuel + 1, some a, env, m =>
    match m.nodes.get? a with
    | none => .crash
    | some (.Program statements) => evalProgram (eval fuel) statements env m
    | some (.BlockStatement _ statements) => evalBlockStatement (eval fuel) statements env m
    | some (.ExpressionStatement _ expression) => eval fuel expression env m
    | some (.ReturnStatement _ returnValue) => do
      let (val, m1) ← eval fuel returnValue env m
      if isError m1 val then pure (val, m1)
      else pure (m1.makeObj (.ReturnValue val))
    | some (.LetStatement _ name value) => do
      let (val, m1) ← eval fuel value env m
      if isError m1 val then pure (val, m1)
      else do
        let n ← identifierValue m1.nodes name
        let m2 ← m1.envSet env n val
        pure (none, m2)
    | some (.IntegerLiteral _ value) => pure (m.makeObj (Integer.mk value))
    | some (.StringLiteral _ value) => pure (m.makeObj (.Strin value))
    | some (.PrefixExpression _ op right) => do
      let (r, m1) ← eval fuel right env m
      if isError m1 r then pure (r, m1)
      else evalPrefixExpression op r m1
    | some (.InfixExpression _ left op right) => do
      let (l, m1) ← eval fuel left env m
      if isError m1 l then pure (l, m1)
      else do
        let (r, m2) ← eval fuel right env m1
        if isError m2 r then pure (r, m2)
        else evalInfixExpression op l r m2
    | some (.IfExpression _ condition consequence alternative) =>
      evalIfExpression (eval fuel) condition consequence alternative env m
    | some (.Identifier _ value) => evalIdentifier value env m
    | some (.FunctionLiteral _ parameters body) =>
      pure (m.makeObj (.Function parameters body env))
    | some (.CallExpression _ function arguments) => do
      let f ← derefNode m.nodes function
      let lit ← TokenLiteral m.nodes f
      if lit = "quote" then
        if arguments.length ≠ 1 then
          newError ("wrong number of arguments in quote. got=" ++ toString arguments.length
            ++ ", want=1") m
        else do
          let a ← vectorAt arguments 0
          quote (eval fuel) fuel a env m
      else do
        let (fn, m1) ← eval fuel function env m
        if isError m1 fn then pure (fn, m1)
        else do
          let (args, m2) ← evalExpressions (eval fuel) arguments env m1
          if args.length = 1 ∧ isError m2 (args.getD 0 none) = true then
            pure (args.getD 0 none, m2)
          else applyFunction (eval fuel) fuel fn args m2
    | some (.ArrayLiteral _ elements) => do
      let (es, m1) ← evalExpressions (eval fuel) elements env m
      if es.length = 1 ∧ isError m1 (es.getD 0 none) = true then pure (es.getD 0 none, m1)
      else pure (m1.makeObj (.Array es))
    | some (.IndexExpression _ left index) => do
      let (l, m1) ← eval fuel left env m
      if isError m1 l then pure (l, m1)
      else do
        let (i, m2) ← eval fuel index env m1
        if isError m2 i then pure (i, m2)
        else evalIndexExpression l i m2
    | some (.HashLiteral _ pairs) => evalHashLiteral (eval fuel) pairs env m
    | some (.Boolean _ _) => pure (none, m)
    | some (.MacroLiteral _ _ _) => pure (none, m)

/-- Member `isMacroDefinition`. -/
def isMacroDefinition (heap : NodeHeap) (node : NodePtr) : Bool :=
  match node with
  | none => false
  | some a =>
    match heap.get? a with
    | some (.LetStatement _ _ (some v)) =>
      match heap.get? v with
      | some (.MacroLiteral _ _ _) => true
      | _ => false
    | _ => false

/-- Member `addMacro` on a statement for which `isMacroDefinition` holds. -/
def addMacro (statement : NodePtr) (env : Nat) (m : Memory) : Res Memory := do
  let s ← derefNode m.nodes statement
  match s with
  | .LetStatement _ name value => do
    let lit ← derefNode m.nodes value
    match lit with
    | .MacroLiteral _ parameters body => do
      let o := m.makeObj (.Macro parameters body env)
      let n ← identifierValue o.2.nodes name
      o.2.envSet env n o.1
    | _ => .crash
  | _ => .crash

/-- The first loop of `defineMacros`: register every macro definition and
collect its index. -/
def defineMacrosLoop (env : Nat) : List NodePtr → Nat → List Nat → Memory →
    Res (List Nat × Memory)
  | [], _, definitions, m => .ok (definitions, m)
  | statement :: rest, i, definitions, m =>
    if isMacroDefinition m.nodes statement then
      match addMacro statement env m with
      | .ok m1 => defineMacrosLoop env rest (i + 1) (definitions ++ [i]) m1
      | .crash => .crash
      | .fuel => .fuel
    else defineMacrosLoop env rest (i + 1) definitions m

/-- The second loop of `defineMacros`: erase the collected indices from the
statement vector, last index first. -/
def eraseDefinitions : List Nat → List NodePtr → List NodePtr
  | [], statements => statements
  | definitionIndex :: rest, statements => eraseDefinitions rest (statements.eraseIdx definitionIndex)

/-- Member `defineMacros` on the `Program` node at `program`. -/
def defineMacros (program : Nat) (env : Nat) (m : Memory) : Res Memory :=
  match m.nodes.get? program with
  | some (.Program statements) =>
    match defineMacrosLoop env statements 0 [] m with
    | .ok (definitions, m1) =>
      let kept := eraseDefinitions definitions.reverse statements
      .ok { m1 with nodes := m1.nodes.set program (.Program kept) }
    | .crash => .crash
    | .fuel => .fuel
  | _ => .crash

/-- Member `MacroCall`: the `Macro` object the callee identifier is bound to
in `env`, else `nullptr`. -/
def MacroCall (function : NodePtr) (env : Nat) (m : Memory) : ObjPtr :=
  match function with
  | none => none
  | some f =>
    match m.nodes.get? f with
    | some (.Identifier _ value) =>
      match m.envGet env value with
      | none => none
      | some o =>
        match m.objects.get? o with
        | some (.Macro _ _ _) => some o
        | _ => none
    | _ => none

/-- Member `quoteArgs`: each argument, an `Expression`, is cast with
`dynamic_pointer_cast<Quote>` to the object class `Quote`; the cast fails, so
every entry of the result is `nullptr`. -/
def quoteArgs (arguments : List NodePtr) : List ObjPtr :=
  arguments.map (fun _ => none)

/-- Member `extendMacroEnv`. -/
def extendMacroEnv (parameters : List NodePtr) (macroEnv : Nat) (args : List ObjPtr)
    (m : Memory) : Res (Nat × Memory) :=
  match bindParameters m.nodes args parameters 0 [] with
  | .ok store => .ok (m.makeEnv { store := store, outer := some macroEnv })
  | .crash => .crash
  | .fuel => .fuel

/-- Member `expandMacros`. -/
def expandMacros (fuel : Nat) (node : NodePtr) (env : Nat) (m : Memory) :
    Res (NodePtr × Memory) :=
  modify fuel (fun node m =>
    match node with
    | none => .ok (node, m)
    | some a =>
      match m.nodes.get? a with
      | some (.CallExpression _ function arguments) =>
        match MacroCall function env m with
        | none => .ok (node, m)
        | some mc =>
          match m.objects.get? mc with
          | some (.Macro parameters body macroEnv) => do
            let args := quoteArgs arguments
            let (evalEnv, m1) ← extendMacroEnv parameters macroEnv args m
            let (evaluated, m2) ← eval fuel body evalEnv m1
            match evaluated with
            | none => pure (node, m2)
            | some e =>
              match m2.objects.get? e with
              | some (.Quote q) => pure (q, m2)
              | _ => pure (node, m2)
          | _ => .crash
      | some _ => .ok (node, m)
      | none => .crash) node m

/-! ## repl.h -/

/-- State of `start` after the macro pass: it reported parser errors, or
`defineMacros` and `expandMacros` ran and left the program `expanded` with the
environment `env` to evaluate it in. -/
inductive Expanded where
  | parserErrors (report : String)
  | expanded (expanded : NodePtr) (env : Nat) (m : Memory)
  deriving DecidableEq, Repr

/-- What `start` did with a source text: it reported parser errors, or it ran
the macro pass and the evaluator and got `result` in the final memory. -/
inductive Run where
  | parserErrors (report : String)
  | evaluated (result : ObjPtr) (m : Memory)
  deriving DecidableEq, Repr

/-- The front half of `start` on the text `program`: lex, parse, and when the
parser reported nothing, `defineMacros` and `expandMacros` with a fresh
environment (address 0) and a fresh macro environment (address 1). -/
def startMacroPass (fuel : Nat) (program : String) : Res Expanded := do
  let (program_ast, parser) ← parseSource fuel program
  if (getErrorsFrom 0 parser.errors).length ≠ 0 then
    pure (.parserErrors (getErrorsFrom 0 parser.errors))
  else do
    let e := (Memory.init parser.nodes).makeEnv { store := [], outer := none }
    let me := e.2.makeEnv { store := [], outer := none }
    let m1 ← defineMacros program_ast me.1 me.2
    let (expanded, m2) ← expandMacros fuel (some program_ast) me.1 m1
    pure (.expanded expanded e.1 m2)

/-- The pipeline of `start`: the macro pass, then `eval` of the expanded
program. -/
def start (fuel : Nat) (program : String) : Res Run := do
  let x ← startMacroPass fuel program
  match x with
  | .parserErrors report => pure (.parserErrors report)
  | .expanded expanded env m => do
    let (evaluated, m1) ← eval fuel expanded env m
    pure (.evaluated evaluated m1)

/-- What `start` wrote after the banner for a run: the `inspect()` of the
result, or nothing when the result is `nullptr`. -/
def startOutput (fuel : Nat) (program : String) : Res (Option String) :=
  match start fuel program with
  | .ok (.parserErrors _) => .ok none
  | .ok (.evaluated none _) => .ok none
  | .ok (.evaluated (some r) m) =>
    match inspect fuel m (some r) with
    | .ok s => .ok (some s)
    | .crash => .crash
    | .fuel => .fuel
  | .crash => .crash
  | .fuel => .fuel

/-! ## Vocabulary of the statements proved below

These definitions are not part of the program: they name the notions the
theorems speak about. -/

/-- Specification vocabulary: the object at `r` is a `ReturnValue` or an
`Error`, the two kinds of result that end `evalProgram`. -/
def endsProgram (m : Memory) (r : ObjPtr) : Bool :=
  match r with
  | none => false
  | some a =>
    match m.objects.get? a with
    | some (.ReturnValue _) => true
    | some (.Error _) => true
    | _ => false

/-- Specification vocabulary: run the statements in order with `ev`, each in
the memory the one before left, as long as every one returns normally with a
result that is neither a `ReturnValue` nor an `Error`; the value of the last
statement run (`r` when there is none) and the memory then. -/
def runQuietly (ev : Eval) (env : Nat) : List NodePtr → ObjPtr → Memory → Option (ObjPtr × Memory)
  | [], r, m => some (r, m)
  | s :: rest, _, m =>
    match ev s env m with
    | .ok (r, m1) => if endsProgram m1 r then none else runQuietly ev env rest r m1
    | .crash => none
    | .fuel => none

/-- Specification vocabulary: the memory in which `start` evaluates the
program parsed from `src` (after the macro pass). -/
def memoryOf (src : String) : Memory :=
  match startMacroPass 60 src with
  | .ok (.expanded _ _ m) => m
  | _ => Memory.init []

/-- Specification vocabulary: every frame's outer link points to an older
frame (a lower address), as the constructor `Environment(outer)` guarantees. -/
def envsOrdered (m : Memory) : Bool :=
  (List.range m.envs.length).all (fun e =>
    match m.envs.get? e with
    | some frame =>
      match frame.outer with
      | some o => decide (o < e)
      | none => true
    | none => true)

/-- Specification vocabulary: the memory `start` ends with on `src`. -/
def finalMemoryOf (src : String) : Memory :=
  match start 60 src with
  | .ok (.evaluated _ m) => m
  | _ => Memory.init []

/-- Specification vocabulary: `s` is an identifier of the language, a
non-empty run of letters and underscores that is not a keyword. -/
def isIdentifier (s : String) : Bool :=
  !s.data.isEmpty && s.data.all isLetter && decide (lookupIdent s = .IDENT)

/-- Specification vocabulary: the binary operators of the language. -/
def binaryOperators : List String :=
  ["==", "!=", "<", ">", "+", "-", "*", "/"]

/-- Specification vocabulary: the binding power the parser gives an operator,
the entry of `precedences` for the token the operator lexes to. -/
def operatorPrecedence (op : String) : prec :=
  match precedences (Lexer.nextToken (Lexer.new op.data)).1.type with
  | some q => q
  | none => .LOWEST

/-- Specification vocabulary: the prefix operators of the language. -/
def prefixOperators : List String :=
  ["-", "!"]

/-- The AST of the closure program `let f = fn(x){ fn(y){ x+y } }; f(a)(b)` as the parser
builds it (the heap in allocation order), for the literals `a` and `b` with the values `va`
and `vb`; the parser lemma below shows it is what `parseProgram` returns. -/
def closureProgram (a b : String) (va vb : Int) : NodeHeap :=
  [.Program [some 1, some 14],
   .LetStatement { type := .LET, literal := "let" } (some 2) (some 3),
   .Identifier { type := .IDENT, literal := "f" } "f",
   .FunctionLiteral { type := .FUNCTION, literal := "fn" } [some 4] (some 5),
   .Identifier { type := .IDENT, literal := "x" } "x",
   .BlockStatement { type := .LBRACE, literal := "\x7b" } [some 6],
   .ExpressionStatement { type := .FUNCTION, literal := "fn" } (some 7),
   .FunctionLiteral { type := .FUNCTION, literal := "fn" } [some 8] (some 9),
   .Identifier { type := .IDENT, literal := "y" } "y",
   .BlockStatement { type := .LBRACE, literal := "\x7b" } [some 10],
   .ExpressionStatement { type := .IDENT, literal := "x" } (some 12),
   .Identifier { type := .IDENT, literal := "x" } "x",
   .InfixExpression { type := .PLUS, literal := "+" } (some 11) "+" (some 13),
   .Identifier { type := .IDENT, literal := "y" } "y",
   .ExpressionStatement { type := .IDENT, literal := "f" } (some 18),
   .Identifier { type := .IDENT, literal := "f" } "f",
   .CallExpression { type := .LPAREN, literal := "(" } (some 15) [some 17],
   .IntegerLiteral { type := .INT, literal := a } va,
   .CallExpression { type := .LPAREN, literal := "(" } (some 16) [some 19],
   .IntegerLiteral { type := .INT, literal := b } vb]

/-- Specification vocabulary: the names of the built-in registry. -/
def builtinNames : List String := ["len", "first", "last", "rest", "push", "puts"]

/-- Specification vocabulary: the frames reached from the frame at `e` along
the outer links, innermost first (at most `fuel` of them). -/
def frameChain (m : Memory) : Nat → Nat → List Environment
  | 0, _ => []
  | fuel + 1, e =>
    match m.envs.get? e with
    | none => []
    | some frame =>
      frame :: (match frame.outer with
                | some o => frameChain m fuel o
                | none => [])

/-- Specification vocabulary: what the innermost frame of a chain that binds
`name` holds for it; `none` when no frame of the chain binds the name. -/
def innermostBinding (name : String) : List Environment → Option ObjPtr
  | [] => none
  | frame :: rest =>
    match storeFind name frame.store with
    | some v => some v
    | none => innermostBinding name rest

/-- Specification vocabulary: the message of an arity error of the built-in
`name` called with `got` arguments where it wants `want`. -/
def arityMessage (name : String) (got want : Nat) : String :=
  "wrong number of arguments in builtin function(" ++ name ++ "). got=" ++ toString got
    ++ ", want=" ++ toString want

/-- Specification vocabulary: name, parameters and body of a statement of the
form `let name = macro(parameters) body`; `none` for any other statement. -/
def macroDefinitionOf (heap : NodeHeap) (s : NodePtr) :
    Option (String × List NodePtr × NodePtr) :=
  match s with
  | none => none
  | some a =>
    match heap.get? a with
    | some (.LetStatement _ (some n) (some v)) =>
      match heap.get? n, heap.get? v with
      | some (.Identifier _ name), some (.MacroLiteral _ parameters body) =>
        some (name, parameters, body)
      | _, _ => none
    | _ => none

/-- Specification vocabulary: the macro definitions among the statements of a
program, in the order of the program. -/
def macroDefinitions (heap : NodeHeap) (statements : List NodePtr) :
    List (String × List NodePtr × NodePtr) :=
  statements.filterMap (macroDefinitionOf heap)

/-- Specification vocabulary: the positions, counted from `i`, of the statements
that `isMacroDefinition` accepts. -/
def macroIndices (heap : NodeHeap) : List NodePtr → Nat → List Nat
  | [], _ => []
  | s :: rest, i =>
    if isMacroDefinition heap s then i :: macroIndices heap rest (i + 1)
    else macroIndices heap rest (i + 1)

/-- Specification vocabulary: a frame's map after the definitions were bound,
one after the other, to the objects at the consecutive addresses from `k`. -/
def bindMacros : List (String × List NodePtr × NodePtr) → Nat → List (String × ObjPtr) →
    List (String × ObjPtr)
  | [], _, store => store
  | d :: ds, k, store => bindMacros ds (k + 1) (storeAssign d.1 (some k) store)

/-- Specification vocabulary: the memory in which `start` calls `defineMacros`
on the program parsed from `src`: the parsed nodes, the static objects, the
global frame 0 and the macro frame 1. -/
def parsedMemoryOf (src : String) : Memory :=
  match parseSource 60 src with
  | .ok (_, parser) =>
    (((Memory.init parser.nodes).makeEnv { store := [], outer := none }).2.makeEnv
      { store := [], outer := none }).2
  | _ => Memory.init []

/-- Specification vocabulary: the lexer after `i` calls of `nextToken`. -/
def lexerAfter : Nat → Lexer → Lexer
  | 0, l => l
  | i + 1, l => lexerAfter i (Lexer.nextToken l).2

/-- Specification vocabulary: the token that call number `i + 1` of `nextToken`
returns. -/
def nthToken (i : Nat) (l : Lexer) : Token :=
  (Lexer.nextToken (lexerAfter i l)).1

/-- Specification vocabulary: the number of bytes not yet consumed, the current
one included; 0 when the lexer stands on the 0 past the end of the input. -/
def Lexer.remaining (l : Lexer) : Nat :=
  if l.ch = NUL ∧ l.rest = [] then 0 else l.rest.length + 1

/-- Specification vocabulary: the characters that `nextToken` turns into an
operator or delimiter token (alone or as the first of `==` and `!=`). -/
def isPunctuation (c : Char) : Bool :=
  ['=', '+', '-', '!', '/', '*', '<', '>', ';', ',', ':', '(', ')', '[', ']', '\x7b', '\x7d'].contains c

/-- Specification vocabulary: the statements ran inside a block without ending
it: each returned normally, with the null pointer or with an object that is
neither a `ReturnValue` nor an `Error`; the value is the result of the last one
and the memory after it. -/
def runBlockQuietly (ev : Eval) (env : Nat) : List NodePtr → ObjPtr → Memory →
    Option (ObjPtr × Memory)
  | [], r, m => some (r, m)
  | s :: rest, _, m =>
    match ev s env m with
    | .ok (none, m1) => runBlockQuietly ev env rest none m1
    | .ok (some a, m1) =>
      match m1.objects.get? a with
      | some (.ReturnValue _) => none
      | some (.Error _) => none
      | some _ => runBlockQuietly ev env rest (some a) m1
      | none => none
    | .crash => none
    | .fuel => none

/-- Specification vocabulary: the expressions were evaluated one after the
other and none yielded an `Error`; the values so far and the memory after. -/
def evalsQuietly (ev : Eval) (env : Nat) : List NodePtr → List ObjPtr → Memory →
    Option (List ObjPtr × Memory)
  | [], vs, m => some (vs, m)
  | e :: rest, vs, m =>
    match ev e env m with
    | .ok (v, m1) => if isError m1 v then none else evalsQuietly ev env rest (vs ++ [v]) m1
    | .crash => none
    | .fuel => none

/-- Specification vocabulary: the pairs of a hash literal were evaluated one
after the other, every key hashable, and none of the keys and values yielded an
`Error`; the entries so far and the memory after. -/
def pairsQuietly (ev : Eval) (env : Nat) : List (NodePtr × NodePtr) → List (String × ObjPtr) →
    Memory → Option (List (String × ObjPtr) × Memory)
  | [], ps, m => some (ps, m)
  | (k, v) :: rest, ps, m =>
    match ev k env m with
    | .ok (key, m1) =>
      if isError m1 key then none
      else
        match m1.deref key with
        | .ok ko =>
          match ko.hashKey with
          | none => none
          | some hashed =>
            match ev v env m1 with
            | .ok (value, m2) =>
              if isError m2 value then none
              else pairsQuietly ev env rest
                (strMapAssign hashed.inspect (m2.makeObj (.HashPair key value)).1 ps)
                (m2.makeObj (.HashPair key value)).2
            | .crash => none
            | .fuel => none
        | .crash => none
        | .fuel => none
    | .crash => none
    | .fuel => none

/-- Specification vocabulary: the sum of the byte values (0 to 255) of a
string. -/
def byteSum (s : String) : Nat :=
  (s.data.map Char.toNat).sum

/-- Specification vocabulary: the entries of a table stand in strictly
ascending order of their string keys. -/
@[reducible] def keysAscend (pairs : List (String × ObjPtr)) : Prop :=
  pairs.Pairwise (fun a b => a.1 < b.1)

/-- Specification vocabulary: the modifier that turns every `IntegerLiteral` 1
into a new `IntegerLiteral` 2 and returns every other node as it is. -/
def oneToTwo : Modifier := fun node m =>
  match node with
  | none => .ok (none, m)
  | some a =>
    match m.nodes.get? a with
    | some (.IntegerLiteral _ 1) =>
      .ok (m.makeNode (.IntegerLiteral { type := .INT, literal := "2" } 2))
    | _ => .ok (node, m)

/-- Specification vocabulary: the text `String()` of the program parsed from
`src` after `modify` ran over it with the modifier `f`. -/
def modifiedText (f : Modifier) (src : String) : Res String :=
  match modify 60 f (some 0) (parsedMemoryOf src) with
  | .ok (node, m) => nodeString 60 m.nodes node
  | .crash => .crash
  | .fuel => .fuel

/-- Specification vocabulary: the hash key of the object at `p`; `none` when
there is no object there or it is not hashable. -/
def hashKeyOf (m : Memory) (p : ObjPtr) : Option HashKey :=
  match m.deref p with
  | .ok o => o.hashKey
  | _ => none

/-- Specification vocabulary: the entry of a table holds a pair and is filed
under the string of the hash key of the key of that pair, as `evalHashLiteral`
files it. -/
def entryHashed (m : Memory) (e : String × ObjPtr) : Bool :=
  match m.deref e.2 with
  | .ok (.HashPair key _) =>
    match hashKeyOf m key with
    | some h => decide (h.inspect = e.1)
    | none => false
  | _ => false

/-- Specification vocabulary: every entry of the table is filed as
`evalHashLiteral` files it. -/
def entriesHashed (m : Memory) (tbl : List (String × ObjPtr)) : Bool :=
  tbl.all (entryHashed m)

/-- Specification vocabulary: a measure of what the parser has left to read:
three for every byte the lexer has not consumed, two for a peek token that is
not `EOF` and one for a current token that is not `EOF`. -/
def tokensLeft (p : Parser) : Nat :=
  3 * p.lexer.remaining + (if p.peekToken.type = .EOF then 0 else 2)
    + (if p.curToken.type = .EOF then 0 else 1)

/-- Specification vocabulary: the run `r` of a member of the parser started in
state `p` did not run out of fuel, and when it returned, it left no more to
read than there was in `p`. -/
def Halts {α : Type} (p : Parser) (r : Res (α × Parser)) : Prop :=
  r ≠ .fuel ∧ ∀ x p1, r = .ok (x, p1) → tokensLeft p1 ≤ tokensLeft p

/-- Specification vocabulary: with `fuel` units of fuel every member of the
parser halts from every state that has little enough left to read: ten units
for each unit of `tokensLeft` and a few for the calls that read nothing. The
members that are only entered on a token they consume ask for a state with
something left. -/
structure ParserHalts (fuel : Nat) : Prop where
  statement : ∀ p, 10 * tokensLeft p + 6 ≤ fuel → Halts p (parseStatement fuel p)
  letStatement : ∀ p, 10 * tokensLeft p + 5 ≤ fuel → Halts p (parseLetStatement fuel p)
  returnStatement : ∀ p, 0 < tokensLeft p → 10 * tokensLeft p + 5 ≤ fuel →
    Halts p (parseReturnStatement fuel p)
  expressionStatement : ∀ p, 10 * tokensLeft p + 5 ≤ fuel →
    Halts p (parseExpressionStatement fuel p)
  expression : ∀ q p, 10 * tokensLeft p + 4 ≤ fuel → Halts p (parseExpression fuel q p)
  expressionLoop : ∀ q l p, 10 * tokensLeft p + 3 ≤ fuel →
    Halts p (parseExpressionLoop fuel q l p)
  arrayLiteral : ∀ p, 0 < tokensLeft p → 10 * tokensLeft p + 3 ≤ fuel →
    Halts p (parseArrayLiteral fuel p)
  expressionList : ∀ t p, 0 < tokensLeft p → 10 * tokensLeft p + 2 ≤ fuel →
    Halts p (parseExpressionList fuel t p)
  expressionListLoop : ∀ l p, 10 * tokensLeft p + 1 ≤ fuel →
    Halts p (parseExpressionListLoop fuel l p)
  indexExpression : ∀ l p, 0 < tokensLeft p → 10 * tokensLeft p + 1 ≤ fuel →
    Halts p (parseIndexExpression fuel l p)
  hashLiteral : ∀ p, 0 < tokensLeft p → 10 * tokensLeft p + 3 ≤ fuel →
    Halts p (parseHashLiteral fuel p)
  hashLiteralLoop : ∀ tok h ps p, 0 < tokensLeft p → 10 * tokensLeft p + 2 ≤ fuel →
    Halts p (parseHashLiteralLoop fuel tok h ps p)
  macroLiteral : ∀ p, 10 * tokensLeft p + 1 ≤ fuel → Halts p (parseMacroLiteral fuel p)
  prefixExpression : ∀ p, 0 < tokensLeft p → 10 * tokensLeft p + 1 ≤ fuel →
    Halts p (parsePrefixExpression fuel p)
  infixExpression : ∀ l p, 0 < tokensLeft p → 10 * tokensLeft p + 1 ≤ fuel →
    Halts p (parseInfixExpression fuel l p)
  groupedExpression : ∀ p, 0 < tokensLeft p → 10 * tokensLeft p + 1 ≤ fuel →
    Halts p (parseGroupedExpression fuel p)
  ifExpression : ∀ p, 10 * tokensLeft p + 1 ≤ fuel → Halts p (parseIfExpression fuel p)
  blockStatement : ∀ p, 0 < tokensLeft p → 10 * tokensLeft p + 1 ≤ fuel →
    Halts p (parseBlockStatement fuel p)
  blockStatementLoop : ∀ tok b ss p, 10 * tokensLeft p + 7 ≤ fuel →
    Halts p (parseBlockStatementLoop fuel tok b ss p)
  functionLiteral : ∀ p, 10 * tokensLeft p + 1 ≤ fuel → Halts p (parseFunctionLiteral fuel p)
  callExpression : ∀ f p, 0 < tokensLeft p → 10 * tokensLeft p + 3 ≤ fuel →
    Halts p (parseCallExpression fuel f p)

/-- Specification vocabulary: no child slot of the node is `nullptr`, the
alternative of an `IfExpression` apart. -/
def Node.slotsFilled : Node → Bool
  | .Program statements => statements.all Option.isSome
  | .Identifier _ _ => true
  | .Boolean _ _ => true
  | .IntegerLiteral _ _ => true
  | .StringLiteral _ _ => true
  | .ArrayLiteral _ elements => elements.all Option.isSome
  | .IndexExpression _ left index => left.isSome && index.isSome
  | .HashLiteral _ pairs => pairs.all (fun kv => kv.1.isSome && kv.2.isSome)
  | .LetStatement _ name value => name.isSome && value.isSome
  | .ReturnStatement _ returnValue => returnValue.isSome
  | .ExpressionStatement _ expression => expression.isSome
  | .BlockStatement _ statements => statements.all Option.isSome
  | .PrefixExpression _ _ right => right.isSome
  | .InfixExpression _ left _ right => left.isSome && right.isSome
  | .IfExpression _ condition consequence _ => condition.isSome && consequence.isSome
  | .FunctionLiteral _ parameters body => parameters.all Option.isSome && body.isSome
  | .CallExpression _ function arguments => function.isSome && arguments.all Option.isSome
  | .MacroLiteral _ parameters body => parameters.all Option.isSome && body.isSome

/-- Specification vocabulary: the heap `h1` is the heap `h` followed by nodes
without a null slot. -/
def HeapGrows (h h1 : NodeHeap) : Prop :=
  ∃ ext : List Node, h1 = h ++ ext ∧ ∀ n ∈ ext, n.slotsFilled = true

/-- Specification vocabulary: the heap `h1` is the heap `h`, then the node `n`
(one that is still being filled in), then nodes without a null slot. -/
def GrowsWith (h : NodeHeap) (n : Node) (h1 : NodeHeap) : Prop :=
  ∃ ext : List Node, h1 = h ++ n :: ext ∧ ∀ x ∈ ext, x.slotsFilled = true

/-- Specification vocabulary: what a member of the parser that returned `r` in
state `p1` without any error on record has done since state `p`: there was no
error on record in `p`, and if `pre` held of its arguments, `post` holds of its
result and it has only added nodes without a null slot. -/
def Fills (pre post : Prop) (p p1 : Parser) : Prop :=
  p1.errors = [] → p.errors = [] ∧ (pre → post ∧ HeapGrows p.nodes p1.nodes)

/-- Specification vocabulary: with `fuel` units of fuel, every member of the
parser that returns without any error on record returns a node (a list of
nodes), given one where it takes one, and has only added nodes without a null
slot. -/
structure ParserFills (fuel : Nat) : Prop where
  statement : ∀ p r p1, parseStatement fuel p = .ok (r, p1) →
    Fills True (r.isSome = true) p p1
  letStatement : ∀ p r p1, parseLetStatement fuel p = .ok (r, p1) →
    Fills True (r.isSome = true) p p1
  returnStatement : ∀ p r p1, parseReturnStatement fuel p = .ok (r, p1) →
    Fills True (r.isSome = true) p p1
  expressionStatement : ∀ p r p1, parseExpressionStatement fuel p = .ok (r, p1) →
    Fills True (r.isSome = true) p p1
  expression : ∀ q p r p1, parseExpression fuel q p = .ok (r, p1) →
    Fills True (r.isSome = true) p p1
  expressionLoop : ∀ q l p r p1, parseExpressionLoop fuel q l p = .ok (r, p1) →
    Fills (l.isSome = true) (r.isSome = true) p p1
  arrayLiteral : ∀ p r p1, parseArrayLiteral fuel p = .ok (r, p1) →
    Fills True (r.isSome = true) p p1
  expressionList : ∀ t p r p1, parseExpressionList fuel t p = .ok (r, p1) →
    Fills True (r.all Option.isSome = true) p p1
  expressionListLoop : ∀ l p r p1, parseExpressionListLoop fuel l p = .ok (r, p1) →
    Fills (l.all Option.isSome = true) (r.all Option.isSome = true) p p1
  indexExpression : ∀ l p r p1, parseIndexExpression fuel l p = .ok (r, p1) →
    Fills (l.isSome = true) (r.isSome = true) p p1
  hashLiteral : ∀ p r p1, parseHashLiteral fuel p = .ok (r, p1) →
    Fills True (r.isSome = true) p p1
  hashLiteralLoop : ∀ tok hash ps p r p1,
    parseHashLiteralLoop fuel tok hash ps p = .ok (r, p1) → p1.errors = [] →
    p.errors = [] ∧ ∀ h : NodeHeap, GrowsWith h (.HashLiteral tok ps) p.nodes → hash = h.length →
      (Node.HashLiteral tok ps).slotsFilled = true →
      r.isSome = true ∧ ∃ ps1, (Node.HashLiteral tok ps1).slotsFilled = true
        ∧ GrowsWith h (.HashLiteral tok ps1) p1.nodes
  macroLiteral : ∀ p r p1, parseMacroLiteral fuel p = .ok (r, p1) →
    Fills True (r.isSome = true) p p1
  prefixExpression : ∀ p r p1, parsePrefixExpression fuel p = .ok (r, p1) →
    Fills True (r.isSome = true) p p1
  infixExpression : ∀ l p r p1, parseInfixExpression fuel l p = .ok (r, p1) →
    Fills (l.isSome = true) (r.isSome = true) p p1
  groupedExpression : ∀ p r p1, parseGroupedExpression fuel p = .ok (r, p1) →
    Fills True (r.isSome = true) p p1
  ifExpression : ∀ p r p1, parseIfExpression fuel p = .ok (r, p1) →
    Fills True (r.isSome = true) p p1
  blockStatement : ∀ p r p1, parseBlockStatement fuel p = .ok (r, p1) →
    Fills True (r.isSome = true) p p1
  blockStatementLoop : ∀ tok block ss p r p1,
    parseBlockStatementLoop fuel tok block ss p = .ok (r, p1) → p1.errors = [] →
    p.errors = [] ∧ ∀ h : NodeHeap, GrowsWith h (.BlockStatement tok ss) p.nodes →
      block = h.length → (Node.BlockStatement tok ss).slotsFilled = true →
      r.isSome = true ∧ ∃ ss1, (Node.BlockStatement tok ss1).slotsFilled = true
        ∧ GrowsWith h (.BlockStatement tok ss1) p1.nodes
  functionLiteral : ∀ p r p1, parseFunctionLiteral fuel p = .ok (r, p1) →
    Fills True (r.isSome = true) p p1
  callExpression : ∀ f p r p1, parseCallExpression fuel f p = .ok (r, p1) →
    Fills (f.isSome = true) (r.isSome = true) p p1

/-- Specification vocabulary: the heap `h1` is the heap `h`, then one node that
is still being filled in, then nodes without a null slot. -/
def Pending (h h1 : NodeHeap) : Prop := ∃ n, GrowsWith h n h1

/-- Specification vocabulary: the order of the keys of a pointer-keyed map:
`nullptr` before every address, addresses by their value. -/
def ptrBefore : NodePtr → NodePtr → Bool
  | none, some _ => true
  | some a, some b => decide (a < b)
  | _, none => false

/-- Specification vocabulary: the keys of a pointer-keyed map stand in strictly
ascending order. -/
def ptrKeysAscend : List (NodePtr × NodePtr) → Bool
  | [] => true
  | [_] => true
  | (k1, _) :: (k2, v2) :: rest => ptrBefore k1 k2 && ptrKeysAscend ((k2, v2) :: rest)

/-- Specification vocabulary: the slot content `x` passes the test `t` and is
`nullptr` or a node of the class `c`, so that `dynamic_pointer_cast<c>` returns
it as it is. -/
def tidySlot (heap : NodeHeap) (t : NodePtr → Bool) (c : NodeClass) (x : NodePtr) : Bool :=
  t x && decide (castNode heap c x = x)

/-- Specification vocabulary: every slot of the node that `modify` writes
passes `tidySlot` with the class the slot is declared with, and the pairs of a
hash literal stand in the order of their map. The children of a
`CallExpression`, of a `MacroLiteral` and the name of a `LetStatement`, which
`modify` does not visit, are not looked at. -/
def tidyNode (heap : NodeHeap) (t : NodePtr → Bool) : Node → Bool
  | .Program statements => statements.all (tidySlot heap t .Statement)
  | .ExpressionStatement _ e => tidySlot heap t .Expression e
  | .InfixExpression _ l _ r => tidySlot heap t .Expression l && tidySlot heap t .Expression r
  | .PrefixExpression _ _ r => tidySlot heap t .Expression r
  | .IndexExpression _ l i => tidySlot heap t .Expression l && tidySlot heap t .Expression i
  | .IfExpression _ c q x =>
    tidySlot heap t .Expression c && tidySlot heap t .BlockStatement q
      && tidySlot heap t .BlockStatement x
  | .BlockStatement _ statements => statements.all (tidySlot heap t .Statement)
  | .ReturnStatement _ v => tidySlot heap t .Expression v
  | .LetStatement _ _ v => tidySlot heap t .Expression v
  | .FunctionLiteral _ parameters body =>
    parameters.all (tidySlot heap t .Identifier) && tidySlot heap t .BlockStatement body
  | .ArrayLiteral _ elements => elements.all (tidySlot heap t .Expression)
  | .HashLiteral _ pairs =>
    pairs.all (fun kv => tidySlot heap t .Expression kv.1 && tidySlot heap t .Expression kv.2)
      && ptrKeysAscend pairs
  | _ => true

/-- Specification vocabulary: the part of the AST that `modify` walks from the
pointer `x` is a tree of depth at most `d` whose nodes lie at the addresses
`lo ≤ a < hi` and pass `tidyNode`. -/
def tidy (heap : NodeHeap) (lo hi : Nat) : Nat → NodePtr → Bool
  | _, none => true
  | 0, some _ => false
  | d + 1, some a =>
    decide (lo ≤ a) && decide (a < hi) &&
    match heap.get? a with
    | none => false
    | some n => tidyNode heap (tidy heap lo hi d) n

/-- Specification vocabulary: the slot content `x` is `nullptr` or a node of
the class `c` at the root of a tidy tree that lies at the addresses
`lo ≤ a < hi`, of depth at most `hi - lo`. -/
def Good (heap : NodeHeap) (lo hi : Nat) (c : NodeClass) (x : NodePtr) : Prop :=
  tidy heap lo hi (hi - lo) x = true ∧ castNode heap c x = x

/-- Specification vocabulary: the heap `h1` has at the addresses from `lo` on
that the heap `h` has, the nodes that `h` has there. -/
def Keeps (lo : Nat) (h h1 : NodeHeap) : Prop :=
  ∀ a, lo ≤ a → a < h.length → h1.get? a = h.get? a

/-- Specification vocabulary: the environment `env` of the memory `m` binds no
name to a `Macro`, neither in its own frame nor in an outer one. -/
def bindsNoMacro (m : Memory) (env : Nat) : Prop :=
  ∀ (name : String) (o : Nat), m.envGet env name = some o →
    ∀ parameters body macroEnv, m.objects.get? o ≠ some (.Macro parameters body macroEnv)

/-- Specification vocabulary: with `fuel` units of fuel, every member of the
parser that returns without any error on record returns the root of a tidy
tree of its class, built from the nodes it has allocated (and, where it takes
a left operand, from the tree of that operand). -/
structure ParserTidies (fuel : Nat) : Prop where
  statement : ∀ p r p1, parseStatement fuel p = .ok (r, p1) → p1.errors = [] →
    Good p1.nodes p.nodes.length p1.nodes.length .Statement r
  letStatement : ∀ p r p1, parseLetStatement fuel p = .ok (r, p1) → p1.errors = [] →
    Good p1.nodes p.nodes.length p1.nodes.length .Statement r
  returnStatement : ∀ p r p1, parseReturnStatement fuel p = .ok (r, p1) → p1.errors = [] →
    Good p1.nodes p.nodes.length p1.nodes.length .Statement r
  expressionStatement : ∀ p r p1, parseExpressionStatement fuel p = .ok (r, p1) →
    p1.errors = [] → Good p1.nodes p.nodes.length p1.nodes.length .Statement r
  expression : ∀ q p r p1, parseExpression fuel q p = .ok (r, p1) → p1.errors = [] →
    Good p1.nodes p.nodes.length p1.nodes.length .Expression r
  expressionLoop : ∀ q l p r p1, parseExpressionLoop fuel q l p = .ok (r, p1) →
    p1.errors = [] → l.isSome = true → ∀ s, s ≤ p.nodes.length →
    Good p.nodes s p.nodes.length .Expression l → Good p1.nodes s p1.nodes.length .Expression r
  arrayLiteral : ∀ p r p1, parseArrayLiteral fuel p = .ok (r, p1) → p1.errors = [] →
    Good p1.nodes p.nodes.length p1.nodes.length .Expression r
  expressionList : ∀ t p r p1, parseExpressionList fuel t p = .ok (r, p1) → p1.errors = [] →
    ∀ x ∈ r, Good p1.nodes p.nodes.length p1.nodes.length .Expression x
  expressionListLoop : ∀ l p r p1, parseExpressionListLoop fuel l p = .ok (r, p1) →
    p1.errors = [] → l.all Option.isSome = true → ∀ s, s ≤ p.nodes.length →
    (∀ x ∈ l, Good p.nodes s p.nodes.length .Expression x) →
    ∀ x ∈ r, Good p1.nodes s p1.nodes.length .Expression x
  indexExpression : ∀ l p r p1, parseIndexExpression fuel l p = .ok (r, p1) →
    p1.errors = [] → l.isSome = true → ∀ s, s ≤ p.nodes.length →
    Good p.nodes s p.nodes.length .Expression l → Good p1.nodes s p1.nodes.length .Expression r
  hashLiteral : ∀ p r p1, parseHashLiteral fuel p = .ok (r, p1) → p1.errors = [] →
    Good p1.nodes p.nodes.length p1.nodes.length .Expression r
  hashLiteralLoop : ∀ tok hash ps p r p1,
    parseHashLiteralLoop fuel tok hash ps p = .ok (r, p1) → p1.errors = [] →
    hash < p.nodes.length → p.nodes.get? hash = some (.HashLiteral tok ps) →
    (Node.HashLiteral tok ps).slotsFilled = true →
    (∀ kv ∈ ps, Good p.nodes (hash + 1) p.nodes.length .Expression kv.1
      ∧ Good p.nodes (hash + 1) p.nodes.length .Expression kv.2) →
    ptrKeysAscend ps = true →
    r = some hash ∧ ∃ ps1, p1.nodes.get? hash = some (.HashLiteral tok ps1)
      ∧ (∀ kv ∈ ps1, Good p1.nodes (hash + 1) p1.nodes.length .Expression kv.1
        ∧ Good p1.nodes (hash + 1) p1.nodes.length .Expression kv.2)
      ∧ ptrKeysAscend ps1 = true
  macroLiteral : ∀ p r p1, parseMacroLiteral fuel p = .ok (r, p1) → p1.errors = [] →
    Good p1.nodes p.nodes.length p1.nodes.length .Expression r
  prefixExpression : ∀ p r p1, parsePrefixExpression fuel p = .ok (r, p1) → p1.errors = [] →
    Good p1.nodes p.nodes.length p1.nodes.length .Expression r
  infixExpression : ∀ l p r p1, parseInfixExpression fuel l p = .ok (r, p1) →
    p1.errors = [] → l.isSome = true → ∀ s, s ≤ p.nodes.length →
    Good p.nodes s p.nodes.length .Expression l → Good p1.nodes s p1.nodes.length .Expression r
  groupedExpression : ∀ p r p1, parseGroupedExpression fuel p = .ok (r, p1) →
    p1.errors = [] → Good p1.nodes p.nodes.length p1.nodes.length .Expression r
  ifExpression : ∀ p r p1, parseIfExpression fuel p = .ok (r, p1) → p1.errors = [] →
    Good p1.nodes p.nodes.length p1.nodes.length .Expression r
  blockStatement : ∀ p r p1, parseBlockStatement fuel p = .ok (r, p1) → p1.errors = [] →
    Good p1.nodes p.nodes.length p1.nodes.length .BlockStatement r
  blockStatementLoop : ∀ tok block ss p r p1,
    parseBlockStatementLoop fuel tok block ss p = .ok (r, p1) → p1.errors = [] →
    block < p.nodes.length → p.nodes.get? block = some (.BlockStatement tok ss) →
    (Node.BlockStatement tok ss).slotsFilled = true →
    (∀ x ∈ ss, Good p.nodes (block + 1) p.nodes.length .Statement x) →
    r = some block ∧ ∃ ss1, p1.nodes.get? block = some (.BlockStatement tok ss1)
      ∧ ∀ x ∈ ss1, Good p1.nodes (block + 1) p1.nodes.length .Statement x
  functionLiteral : ∀ p r p1, parseFunctionLiteral fuel p = .ok (r, p1) → p1.errors = [] →
    Good p1.nodes p.nodes.length p1.nodes.length .Expression r
  callExpression : ∀ f p r p1, parseCallExpression fuel f p = .ok (r, p1) →
    p1.errors = [] → f.isSome = true → ∀ s, s ≤ p.nodes.length →
    Good p1.nodes s p1.nodes.length .Expression r

/-- Specification vocabulary: the run `r` of a member of the evaluator started
in memory `m` has, when it returned, only added objects: the object heap of `m`
is an initial part of the heap it left. -/
def Keeping {α : Type} (m : Memory) (r : Res (α × Memory)) : Prop :=
  ∀ x m1, r = .ok (x, m1) → m.objects <+: m1.objects

/-- Specification vocabulary: `Keeping` for a member that returns the memory
alone. -/
def KeepingMem (m : Memory) (r : Res Memory) : Prop :=
  ∀ m1, r = .ok m1 → m.objects <+: m1.objects

/-- Specification vocabulary: the pairs that `evalHashLiteral` evaluates, in the
order of the literal: for every pair the hash key of the key object, the key
object and the value object, as the loop of `evalHashLiteral` computes them. The
list ends at the first pair whose key or value is not evaluated or whose key is
not hashable. -/
def evaluatedPairs (ev : Eval) (env : Nat) : List (NodePtr × NodePtr) → Memory →
    List (HashKey × ObjPtr × ObjPtr)
  | [], _ => []
  | (k, v) :: rest, m =>
    match ev k env m with
    | .ok (key, m1) =>
      match m1.deref key with
      | .ok ko =>
        match ko.hashKey with
        | some hashed =>
          match ev v env m1 with
          | .ok (value, m2) =>
            (hashed, key, value) ::
              evaluatedPairs ev env rest (m2.makeObj (.HashPair key value)).2
          | _ => []
        | none => []
      | _ => []
    | _ => []

/-- Specification vocabulary: the node at the address `a` is no call of
`unquote`: it is not a `CallExpression`, or its function has a token literal
other than `unquote`. -/
def notUnquote (heap : NodeHeap) (a : Nat) : Bool :=
  match heap.get? a with
  | some (.CallExpression _ function _) =>
    match derefNode heap function with
    | .ok f =>
      match TokenLiteral heap f with
      | .ok lit => decide (lit ≠ "unquote")
      | _ => false
    | _ => false
  | some _ => true
  | none => false

/-- Specification vocabulary: no node at the addresses `lo ≤ a < hi` is a call
of `unquote`. -/
def noUnquoteIn (heap : NodeHeap) (lo hi : Nat) : Bool :=
  (List.range' lo (hi - lo)).all (notUnquote heap)

/-- Specification vocabulary: the pointer is null or the address of an object
of the heap. -/
def validPtr (objects : List Object) (p : ObjPtr) : Bool :=
  match p with
  | none => true
  | some a => decide (a < objects.length)

/-- Specification vocabulary: the pointer is null or the address of an object
of the heap that is no `Error`. -/
def quietPtr (objects : List Object) (p : ObjPtr) : Bool :=
  match p with
  | none => true
  | some a =>
    match objects.get? a with
    | some o => decide (o.type ≠ "ERROR")
    | none => false

/-- Specification vocabulary: what the evaluator keeps true of an object it has
built: the elements of an `Array` are null or objects other than an `Error`,
and the value of a `HashPair` and of a `ReturnValue` is null or an object of the
heap. -/
def soundObject (objects : List Object) : Object → Bool
  | .Array elements => elements.all (quietPtr objects)
  | .HashPair _ value => validPtr objects value
  | .ReturnValue value => validPtr objects value
  | _ => true

/-- Specification vocabulary: the state of the object heap and of the
environments that every run keeps: the objects with static storage are there,
every object passes `soundObject`, and every name is bound to null or to an
object of the heap. -/
def heapSound (m : Memory) : Bool :=
  decide (9 ≤ m.objects.length) && m.objects.all (soundObject m.objects)
    && m.envs.all (fun frame => frame.store.all (fun kv => validPtr m.objects kv.2))

/-- Specification vocabulary: a run `r` started in a memory that passes
`heapSound` leaves, when it returns, a memory that passes `heapSound` and a
result for which `P` holds in it. -/
def Sound {α : Type} (P : α → Memory → Prop) (m : Memory) (r : Res (α × Memory)) : Prop :=
  heapSound m = true → ∀ x m1, r = .ok (x, m1) → heapSound m1 = true ∧ P x m1

/-- Specification vocabulary: `Sound` for a member that returns the memory
alone. -/
def SoundMem (m : Memory) (r : Res Memory) : Prop :=
  heapSound m = true → ∀ m1, r = .ok m1 → heapSound m1 = true

/-- Specification vocabulary: the result is null or an object of the heap. -/
def validIn (p : ObjPtr) (m : Memory) : Prop :=
  validPtr m.objects p = true

/-- Specification vocabulary: what `evalExpressions` returns: the one `Error`
that stopped it, or values that are null or objects other than an `Error`. -/
def quietValues (values : List ObjPtr) (m : Memory) : Prop :=
  (∃ e, values = [e] ∧ isError m e = true) ∨ ∀ e ∈ values, quietPtr m.objects e = true

/-! ## Vocabulary for parsing a printed program again (C7) -/

/-- Specification vocabulary: with enough fuel the run `f` returns `r`: there is
a bound from which on every amount of fuel gives the result `r`. -/
def Returns {α : Type} (f : Nat → Res α) (r : α) : Prop :=
  ∃ k, ∀ fuel, k ≤ fuel → f fuel = .ok r

/-- Specification vocabulary: the heap `h1` has at the addresses `lo ≤ a < hi`
the nodes that `h` has there. -/
def SameNodes (lo hi : Nat) (h h1 : NodeHeap) : Prop :=
  ∀ a, lo ≤ a → a < hi → h1.get? a = h.get? a

/-- Specification vocabulary: the node `x` prints as `u` because of the nodes of
`h` at the addresses `lo ≤ a < hi` alone: `String()` returns `u` in every heap
that has those nodes there. -/
def PrintsIn (h : NodeHeap) (lo hi : Nat) (x : NodePtr) (u : String) : Prop :=
  ∀ h1, SameNodes lo hi h h1 → Returns (fun fuel => nodeString fuel h1 x) u

/-- Specification vocabulary: the parser state with the current token `cur`
whose lexer has the characters `w` still to read: the peek token is the first
token of `w`. -/
def parserAt (cur : Token) (w : List Char) (es : List String) (ns : NodeHeap) : Parser :=
  { lexer := (Lexer.new w).nextToken.2, errors := es, curToken := cur,
    peekToken := (Lexer.new w).nextToken.1, nodes := ns }

/-- Specification vocabulary: the text starts with a character that is neither
a letter nor a digit, so that a word or a number in front of it ends there. -/
def separated (tail : List Char) : Prop :=
  ∃ c post, tail = c :: post ∧ isLetter c = false ∧ isDigit c = false

/-- Specification vocabulary: the literal of an `INT` token that
`parseIntegerLiteral` accepts without a report: a run of digits whose value
fits `int` and is not 0 unless the literal is `0`. -/
def integerText (lit : String) : Bool :=
  !lit.data.isEmpty && lit.data.all isDigit && decide (digitsValue lit.data ≤ 2147483647)
    && (decide (digitsValue lit.data ≠ 0) || decide (lit = "0"))

/-- Specification vocabulary: the expressions whose printed text is shown to
parse back, to the depth `d`: identifiers, integer and boolean literals, prefix
and binary operations, index expressions, calls with any number of arguments,
array literals and hash literals with at most one pair, nested in any way. The
tokens are asked to be as the lexer reads them. -/
def plainExpression (heap : NodeHeap) : Nat → NodePtr → Bool
  | 0, _ => false
  | _ + 1, none => false
  | d + 1, some a =>
    match heap.get? a with
    | some (.Identifier _ value) => isIdentifier value
    | some (.IntegerLiteral token _) => integerText token.literal
    | some (.Boolean token _) => decide (token.literal = "true") || decide (token.literal = "false")
    | some (.PrefixExpression _ op right) =>
      decide (op ∈ prefixOperators) && plainExpression heap d right
    | some (.InfixExpression _ left op right) =>
      decide (op ∈ binaryOperators) && plainExpression heap d left
        && plainExpression heap d right
    | some (.IndexExpression _ left index) =>
      plainExpression heap d left && plainExpression heap d index
    | some (.CallExpression _ function arguments) =>
      plainExpression heap d function && arguments.all (plainExpression heap d)
    | some (.ArrayLiteral _ elements) => elements.all (plainExpression heap d)
    | some (.HashLiteral _ pairs) =>
      match pairs with
      | [] => true
      | [kv] => plainExpression heap d kv.1 && plainExpression heap d kv.2
      | _ => false
    | _ => false

/-- Specification vocabulary: the printed text of the expression starts with
`(` or `[`: it is a prefix or binary operation, an index expression or an
array literal, or a call of such an expression. -/
def opensWithBracket (heap : NodeHeap) : Nat → NodePtr → Bool
  | 0, _ => false
  | _ + 1, none => false
  | d + 1, some a =>
    match heap.get? a with
    | some (.PrefixExpression _ _ _) => true
    | some (.InfixExpression _ _ _ _) => true
    | some (.IndexExpression _ _ _) => true
    | some (.ArrayLiteral _ _) => true
    | some (.CallExpression _ function _) => opensWithBracket heap d function
    | _ => false

/-- Specification vocabulary: the first token of a printed expression is one
of the seven kinds an expression of the class starts with, and one of the first
five when the text does not open with a bracket. -/
def headKind (t : TokenType) (opens : Bool) : Prop :=
  (t = .IDENT ∨ t = .INT ∨ t = .TRUE ∨ t = .FALSE ∨ t = .LBRACE)
    ∨ (opens = true ∧ (t = .LPAREN ∨ t = .LBRACKET))

/-- Specification vocabulary: the text `u` of an expression parses back. Its
first token `hd` is lexed in front of every separated tail; and in every parser
state that stands on `hd` with the rest of `u` and a separated tail to read,
`parseExpression` with a binding power below `CALL` builds a node `root` that
prints as `u` and goes on as the loop of `parseExpression` does with `root` as
the left operand and the tail to read. -/
def ParsesBack (u : String) (opens : Bool) : Prop :=
  ∃ (hd : Token) (tl : List Char),
    (∀ tail, separated tail →
      (Lexer.new (u.data ++ tail)).nextToken = (hd, Lexer.new (tl ++ tail)))
    ∧ (∃ c cs, u.data = c :: cs ∧ c ≠ '=')
    ∧ headKind hd.type opens
    ∧ ∀ (q : prec) (tail : List Char) (es : List String) (ns : NodeHeap),
        q.toNat < 6 → separated tail →
        ∃ (last : Token) (root : Nat) (ns1 : NodeHeap),
          ns.length ≤ ns1.length ∧ SameNodes 0 ns.length ns ns1
          ∧ PrintsIn ns1 ns.length ns1.length (some root) u
          ∧ ∀ result,
              Returns (fun n => parseExpressionLoop n q (some root)
                (parserAt last tail es ns1)) result →
              Returns (fun n => parseExpression n q (parserAt hd (tl ++ tail) es ns)) result

/-- Text that joinComma puts after the first of the given texts: each further text
after a comma and a blank. -/
def commaRest : List String → List Char
  | [] => []
  | u :: us => ',' :: ' ' :: (u.data ++ commaRest us)

/-- Specification vocabulary: the statements whose printed text is shown to
parse back: a `let` statement that binds an identifier to an expression of the
class, a `return` statement with such an expression, and an expression
statement with such an expression. -/
def plainStatement (heap : NodeHeap) (d : Nat) (x : NodePtr) : Bool :=
  match x with
  | none => false
  | some a =>
    match heap.get? a with
    | some (.LetStatement token (some b) value) =>
      decide (token.literal = "let")
        && (match heap.get? b with
            | some (.Identifier _ v) => isIdentifier v
            | _ => false)
        && plainExpression heap d value
    | some (.ReturnStatement token value) =>
      decide (token.literal = "return") && plainExpression heap d value
    | some (.ExpressionStatement _ e) => plainExpression heap d e
    | _ => false

/-- Specification vocabulary: the statement is an expression statement. -/
def isExpressionStatement (heap : NodeHeap) (x : NodePtr) : Bool :=
  match x with
  | none => false
  | some a =>
    match heap.get? a with
    | some (.ExpressionStatement _ _) => true
    | _ => false

/-- Specification vocabulary: the printed text of the statement starts with
`(` or `[`: it is an expression statement whose expression does. -/
def opensStatement (heap : NodeHeap) (d : Nat) (x : NodePtr) : Bool :=
  match x with
  | none => false
  | some a =>
    match heap.get? a with
    | some (.ExpressionStatement _ e) => opensWithBracket heap d e
    | _ => false

/-- Specification vocabulary: no expression statement of the list is directly
followed by a statement whose printed text starts with `(` or `[`.
`Program.String()` ends a statement by a line feed only, so the parser would
read that bracket as a call or an index on the expression before it. -/
def statementsFit (heap : NodeHeap) (d : Nat) : List NodePtr → Bool
  | [] => true
  | [_] => true
  | s :: t :: rest =>
    !(isExpressionStatement heap s && opensStatement heap d t)
      && statementsFit heap d (t :: rest)

/-- Specification vocabulary: the programs whose printed text is shown to parse
back: the node `program` is a `Program` whose statements are all of the class
`plainStatement`, to the depth `d`, and fit one after the other. -/
def plainProgram (heap : NodeHeap) (d : Nat) (program : Nat) : Bool :=
  match heap.get? program with
  | some (.Program statements) =>
    statements.all (plainStatement heap d) && statementsFit heap d statements
  | _ => false

/-- Specification vocabulary: the first token of the text `tail` neither ends
a statement nor continues an expression: it is no `;` and has no binding
power. -/
def nextFree (tail : List Char) : Prop :=
  (Lexer.new tail).nextToken.1.type ≠ .SEMICOLON
    ∧ precedences (Lexer.new tail).nextToken.1.type = none

/-- Specification vocabulary: the text `s` of a statement parses back. Its
first token `hd` is lexed in front of every separated tail; and in every parser
state that stands on `hd` with the rest of `s` and a separated tail to read
(a tail that starts with a free token when the statement is an expression
statement), `parseStatement` builds a node `root` that prints as `s` and leaves
the tail to read. -/
def StatementParsesBack (s : String) (isExpr opens : Bool) : Prop :=
  ∃ (hd : Token) (tl : List Char),
    (∀ tail, separated tail →
      (Lexer.new (s.data ++ tail)).nextToken = (hd, Lexer.new (tl ++ tail)))
    ∧ hd.type ≠ .EOF
    ∧ (opens = false → hd.type ≠ .SEMICOLON ∧ precedences hd.type = none)
    ∧ ∀ (tail : List Char) (es : List String) (ns : NodeHeap),
        separated tail → (isExpr = true → nextFree tail) →
        ∃ (last : Token) (root : Nat) (ns1 : NodeHeap),
          ns.length ≤ ns1.length ∧ SameNodes 0 ns.length ns ns1
          ∧ PrintsIn ns1 ns.length ns1.length (some root) s
          ∧ Returns (fun n => parseStatement n (parserAt hd (tl ++ tail) es ns))
              (some root, parserAt last tail es ns1)

/-- Specification vocabulary: the literal of the token is the text the lexer
reads for a token of its kind: an identifier for `IDENT`, a run of digits for
`INT`, the keyword or the operator itself for the keywords and operators that
nodes of the class carry. -/
def lexedToken (t : Token) : Bool :=
  match t.type with
  | .IDENT => isIdentifier t.literal
  | .INT => !t.literal.data.isEmpty && t.literal.data.all isDigit
  | .TRUE => decide (t.literal = "true")
  | .FALSE => decide (t.literal = "false")
  | .LET => decide (t.literal = "let")
  | .RETURN => decide (t.literal = "return")
  | .BANG => decide (t.literal = "!")
  | .MINUS => decide (t.literal = "-")
  | .PLUS => decide (t.literal = "+")
  | .ASTERISK => decide (t.literal = "*")
  | .SLASH => decide (t.literal = "/")
  | .LT => decide (t.literal = "<")
  | .GT => decide (t.literal = ">")
  | .EQ => decide (t.literal = "==")
  | .NOT_EQ => decide (t.literal = "!=")
  | _ => true

/-- Specification vocabulary: the pointer is `nullptr` or the address of a node
of the heap that is not an `Identifier` made from a token other than
`IDENT`. -/
def wordToken (heap : NodeHeap) (x : NodePtr) : Bool :=
  match x with
  | none => true
  | some a =>
    match heap.get? a with
    | some (.Identifier token _) => decide (token.type = .IDENT)
    | some _ => true
    | none => false

/-- Specification vocabulary: the tokens and the operator of the node are as
the lexer reads them, and its operands are `wordToken` pointers. With
`clean = false`, which stands for a parser with an error on record, nothing is
asked of the literal of an `IntegerLiteral`. -/
def lexedNode (clean : Bool) (heap : NodeHeap) : Node → Bool
  | .Identifier token value => decide (value = token.literal) && lexedToken token
  | .IntegerLiteral token _ => integerText token.literal || !clean
  | .Boolean token _ => decide (token.literal = "true") || decide (token.literal = "false")
  | .PrefixExpression _ op right => decide (op ∈ prefixOperators) && wordToken heap right
  | .InfixExpression _ left op right =>
    decide (op ∈ binaryOperators) && wordToken heap left && wordToken heap right
  | .IndexExpression _ left index => wordToken heap left && wordToken heap index
  | .CallExpression _ function arguments =>
    wordToken heap function && arguments.all (wordToken heap)
  | .ArrayLiteral _ elements => elements.all (wordToken heap)
  | .HashLiteral _ pairs => pairs.all (fun kv => wordToken heap kv.1 && wordToken heap kv.2)
  | .LetStatement token name value =>
    decide (token.literal = "let") && wordToken heap name && wordToken heap value
  | .ReturnStatement token returnValue =>
    decide (token.literal = "return") && wordToken heap returnValue
  | .ExpressionStatement _ expression => wordToken heap expression
  | _ => true

/-- Specification vocabulary: every node of the heap passes `lexedNode`. -/
def lexedHeap (clean : Bool) (heap : NodeHeap) : Prop :=
  ∀ a n, heap.get? a = some n → lexedNode clean heap n = true

/-- Specification vocabulary: the two tokens of the parser state are as the
lexer reads them and every node allocated so far passes `lexedNode`. -/
def Lexed (p : Parser) : Prop :=
  lexedToken p.curToken = true ∧ lexedToken p.peekToken = true
    ∧ lexedHeap (decide (p.errors = [])) p.nodes

/-- Specification vocabulary: every `wordToken` pointer of the heap `h` is one
of the heap `h1`. -/
def Carries (h h1 : NodeHeap) : Prop :=
  ∀ x, wordToken h x = true → wordToken h1 x = true

/-- Specification vocabulary: what a member of the parser does to a state that
is `Lexed`: the state it returns is `Lexed`, the `wordToken` pointers are kept,
and the node it returns is one. -/
def Lexes (p p1 : Parser) (r : NodePtr) : Prop :=
  Lexed p → Lexed p1 ∧ Carries p.nodes p1.nodes ∧ wordToken p1.nodes r = true

/-- Specification vocabulary: as `Lexes`, for a member that returns a list of
nodes. -/
def LexesAll (p p1 : Parser) (rs : List NodePtr) : Prop :=
  Lexed p → Lexed p1 ∧ Carries p.nodes p1.nodes ∧ rs.all (wordToken p1.nodes) = true

/-- Specification vocabulary: with `fuel` units of fuel, every member of the
parser takes a `Lexed` state to a `Lexed` state and returns `wordToken`
pointers, given such pointers where it takes operands. -/
structure ParserLexes (fuel : Nat) : Prop where
  statement : ∀ p r p1, parseStatement fuel p = .ok (r, p1) → Lexes p p1 r
  letStatement : ∀ p r p1, parseLetStatement fuel p = .ok (r, p1) →
    p.curToken.type = .LET → Lexes p p1 r
  returnStatement : ∀ p r p1, parseReturnStatement fuel p = .ok (r, p1) →
    p.curToken.type = .RETURN → Lexes p p1 r
  expressionStatement : ∀ p r p1, parseExpressionStatement fuel p = .ok (r, p1) →
    Lexes p p1 r
  expression : ∀ q p r p1, parseExpression fuel q p = .ok (r, p1) → Lexes p p1 r
  expressionLoop : ∀ q l p r p1, parseExpressionLoop fuel q l p = .ok (r, p1) →
    wordToken p.nodes l = true → Lexes p p1 r
  arrayLiteral : ∀ p r p1, parseArrayLiteral fuel p = .ok (r, p1) → Lexes p p1 r
  expressionList : ∀ t p r p1, parseExpressionList fuel t p = .ok (r, p1) → LexesAll p p1 r
  expressionListLoop : ∀ l p r p1, parseExpressionListLoop fuel l p = .ok (r, p1) →
    l.all (wordToken p.nodes) = true → LexesAll p p1 r
  indexExpression : ∀ l p r p1, parseIndexExpression fuel l p = .ok (r, p1) →
    wordToken p.nodes l = true → Lexes p p1 r
  hashLiteral : ∀ p r p1, parseHashLiteral fuel p = .ok (r, p1) → Lexes p p1 r
  hashLiteralLoop : ∀ tok hash ps p r p1,
    parseHashLiteralLoop fuel tok hash ps p = .ok (r, p1) →
    wordToken p.nodes (some hash) = true →
    ps.all (fun kv => wordToken p.nodes kv.1 && wordToken p.nodes kv.2) = true →
    Lexes p p1 r
  macroLiteral : ∀ p r p1, parseMacroLiteral fuel p = .ok (r, p1) → Lexes p p1 r
  prefixExpression : ∀ p r p1, parsePrefixExpression fuel p = .ok (r, p1) →
    prefixParseFns p.curToken.type = some .parsePrefixExpression → Lexes p p1 r
  infixExpression : ∀ l p r p1, parseInfixExpression fuel l p = .ok (r, p1) →
    infixParseFns p.curToken.type = some .parseInfixExpression →
    wordToken p.nodes l = true → Lexes p p1 r
  groupedExpression : ∀ p r p1, parseGroupedExpression fuel p = .ok (r, p1) → Lexes p p1 r
  ifExpression : ∀ p r p1, parseIfExpression fuel p = .ok (r, p1) → Lexes p p1 r
  blockStatement : ∀ p r p1, parseBlockStatement fuel p = .ok (r, p1) → Lexes p p1 r
  blockStatementLoop : ∀ tok block ss p r p1,
    parseBlockStatementLoop fuel tok block ss p = .ok (r, p1) →
    wordToken p.nodes (some block) = true → Lexes p p1 r
  functionLiteral : ∀ p r p1, parseFunctionLiteral fuel p = .ok (r, p1) → Lexes p p1 r
  callExpression : ∀ f p r p1, parseCallExpression fuel f p = .ok (r, p1) →
    wordToken p.nodes f = true → Lexes p p1 r

/-- Specification vocabulary: the kinds of expression whose printed text parses
back, to the depth `d`: identifiers, integer and boolean literals, prefix and
binary operations, index expressions, calls with any number of arguments,
array literals and hash literals with at most one pair, nested in any way. A
hash literal with more pairs is left out: `String()` lists the pairs in the
order of a `std::map` keyed by `shared_ptr`, which the text does not
determine. -/
def simpleExpression (heap : NodeHeap) : Nat → NodePtr → Bool
  | 0, _ => false
  | _ + 1, none => false
  | d + 1, some a =>
    match heap.get? a with
    | some (.Identifier _ _) => true
    | some (.IntegerLiteral _ _) => true
    | some (.Boolean _ _) => true
    | some (.PrefixExpression _ _ right) => simpleExpression heap d right
    | some (.InfixExpression _ left _ right) =>
      simpleExpression heap d left && simpleExpression heap d right
    | some (.IndexExpression _ left index) =>
      simpleExpression heap d left && simpleExpression heap d index
    | some (.CallExpression _ function arguments) =>
      simpleExpression heap d function && arguments.all (simpleExpression heap d)
    | some (.ArrayLiteral _ elements) => elements.all (simpleExpression heap d)
    | some (.HashLiteral _ pairs) =>
      match pairs with
      | [] => true
      | [kv] => simpleExpression heap d kv.1 && simpleExpression heap d kv.2
      | _ => false
    | _ => false

/-- Specification vocabulary: the kinds of statement whose printed text parses
back: a `let` statement, a `return` statement or an expression statement with
an expression of the kinds of `simpleExpression`. -/
def simpleStatement (heap : NodeHeap) (d : Nat) (x : NodePtr) : Bool :=
  match x with
  | none => false
  | some a =>
    match heap.get? a with
    | some (.LetStatement _ (some b) value) =>
      (match heap.get? b with
        | some (.Identifier _ _) => true
        | _ => false)
      && simpleExpression heap d value
    | some (.ReturnStatement _ value) => simpleExpression heap d value
    | some (.ExpressionStatement _ e) => simpleExpression heap d e
    | _ => false

/-- Specification vocabulary: the programs whose printed text parses back: the
node `program` is a `Program` whose statements are of the kinds of
`simpleStatement`, to the depth `d`, none of them an expression statement
directly followed by a statement whose text opens with `(` or `[`. -/
def simpleProgram (heap : NodeHeap) (d : Nat) (program : Nat) : Bool :=
  match heap.get? program with
  | some (.Program statements) =>
    statements.all (simpleStatement heap d) && statementsFit heap d statements
  | _ => false

/-- Specification vocabulary: as `Lexes`, without a node returned. -/
def Moves (p p1 : Parser) : Prop :=
  Lexed p → Lexed p1 ∧ Carries p.nodes p1.nodes

/-- Specification vocabulary: the state in which the parser ends on the source
text `src`, with the heap of AST nodes it has allocated and the errors on
record. -/
def parsedOf (src : String) : Parser :=
  match parseSource 60 src with
  | .ok (_, p) => p
  | _ => Parser.new (Lexer.new [])

/-! ## Lemmas -/

theorem Res.ok_bind {α β : Type} (a : α) (f : α → Res β) : (Res.ok a >>= f) = f a := rfl

theorem Res.crash_bind {α β : Type} (f : α → Res β) :
    ((Res.crash : Res α) >>= f) = Res.crash := rfl

theorem Res.fuel_bind {α β : Type} (f : α → Res β) :
    ((Res.fuel : Res α) >>= f) = Res.fuel := rfl

theorem Res.pure_eq {α : Type} (a : α) : (pure a : Res α) = Res.ok a := rfl

/-- A quiet prefix of the statement list only hands its last value and its
memory to the rest of the loop. -/
theorem evalProgramLoop_quiet_prefix (ev : Eval) (env : Nat) (post : List NodePtr) :
    ∀ (pre : List NodePtr) (r r0 : ObjPtr) (m mk : Memory),
      runQuietly ev env pre r m = some (r0, mk) →
      evalProgramLoop ev env (pre ++ post) r m = evalProgramLoop ev env post r0 mk := by
  intro pre
  induction pre with
  | nil =>
    intro r r0 m mk h
    simp only [runQuietly, Option.some.injEq, Prod.mk.injEq] at h
    obtain ⟨rfl, rfl⟩ := h
    rfl
  | cons s rest ih =>
    intro r r0 m mk h
    simp only [runQuietly] at h
    simp only [List.cons_append, evalProgramLoop]
    cases hev : ev s env m with
    | ok x =>
      obtain ⟨r1, m1⟩ := x
      rw [hev] at h
      simp only at h
      by_cases he : endsProgram m1 r1 = true
      · simp only [he, ↓reduceIte] at h
        exact absurd h (by simp)
      · simp only [he, Bool.false_eq_true, ↓reduceIte] at h
        have hrec := ih r1 r0 m1 mk h
        cases r1 with
        | none => exact hrec
        | some a =>
          simp only [endsProgram] at he
          dsimp only
          split
          · rename_i v hv
            rw [hv] at he
            exact absurd rfl he
          · rename_i msg hv
            rw [hv] at he
            exact absurd rfl he
          · exact hrec
    | crash => rw [hev] at h; exact absurd h (by simp)
    | fuel => rw [hev] at h; exact absurd h (by simp)

/-! ## Evaluation of programs (C1) -/

/-- C1: `evalProgram` runs the statements of a program in order. When the
statements before `s` all return normally with results that are neither a
`ReturnValue` nor an `Error`, and `s` then yields `r` in memory `m1`: if `r` is
a `ReturnValue` the program yields its inner value, if `r` is an `Error` the
program yields that `Error`, and in both cases the final memory is `m1`, the
memory right after `s`, so no later statement has run; if `r` is neither and
`s` is the last statement, the program yields `r`. The program
`9; return 2 * 5; 9;` prints `10`. -/
theorem evalProgram_stops_at_first_return_or_error (fuel prog env : Nat) (m mk m1 : Memory)
    (pre post : List NodePtr) (s : NodePtr) (r0 r : ObjPtr)
    (hprog : m.nodes.get? prog = some (.Program (pre ++ s :: post)))
    (hpre : runQuietly (eval fuel) env pre none m = some (r0, mk))
    (hs : eval fuel s env mk = .ok (r, m1)) :
    (∀ a v, r = some a → m1.objects.get? a = some (.ReturnValue v) →
        eval (fuel + 1) (some prog) env m = .ok (v, m1)) ∧
    (∀ a msg, r = some a → m1.objects.get? a = some (.Error msg) →
        eval (fuel + 1) (some prog) env m = .ok (r, m1)) ∧
    (endsProgram m1 r = false → post = [] →
        eval (fuel + 1) (some prog) env m = .ok (r, m1)) ∧
    startOutput 60 "9; return 2 * 5; 9;" = .ok (some "10") := by
  have hstep : eval (fuel + 1) (some prog) env m
      = evalProgramLoop (eval fuel) env (s :: post) r0 mk := by
    rw [eval, hprog]
    exact evalProgramLoop_quiet_prefix (eval fuel) env (s :: post) pre none r0 m mk hpre
  refine ⟨?_, ?_, ?_, by decide!⟩
  · intro a v hr hv
    subst hr
    rw [hstep]
    simp only [evalProgramLoop, hs, hv]
  · intro a msg hr hv
    subst hr
    rw [hstep]
    simp only [evalProgramLoop, hs, hv]
  · intro he hpost
    subst hpost
    rw [hstep]
    simp only [evalProgramLoop, hs]
    cases r with
    | none => rfl
    | some a =>
      simp only [endsProgram] at he
      dsimp only
      split
      · rename_i v hv
        rw [hv] at he
        exact absurd he (by simp)
      · rfl
      · rfl

/-- The theorem for C1 applied to `9; return 2 * 5; 9;`: the first statement is
quiet, the second yields a `ReturnValue`, and the program yields the inner
`Integer` 10 without running the third statement. -/
theorem evalProgram_stops_at_first_return_or_error_witness :
    (memoryOf "9; return 2 * 5; 9;").nodes.get? 0
        = some (.Program ([some 1] ++ some 3 :: [some 7]))
    ∧ eval 21 (some 0) 0 (memoryOf "9; return 2 * 5; 9;")
        = .ok (some 12,
            { memoryOf "9; return 2 * 5; 9;" with
              objects := (memoryOf "9; return 2 * 5; 9;").objects ++
                [.Integer 9, .Integer 2, .Integer 5, .Integer 10, .ReturnValue (some 12)] }) :=
  ⟨by decide!,
    (evalProgram_stops_at_first_return_or_error 20 0 0 (memoryOf "9; return 2 * 5; 9;")
      { memoryOf "9; return 2 * 5; 9;" with
        objects := (memoryOf "9; return 2 * 5; 9;").objects ++ [.Integer 9] }
      { memoryOf "9; return 2 * 5; 9;" with
        objects := (memoryOf "9; return 2 * 5; 9;").objects ++
          [.Integer 9, .Integer 2, .Integer 5, .Integer 10, .ReturnValue (some 12)] }
      [some 1] [some 7] (some 3) (some 9) (some 13) (by decide!) (by decide!) (by decide!)).1
      13 (some 12) rfl (by decide!)⟩

/-- The outer link of a frame of an ordered memory is older than the frame. -/
theorem envsOrdered_outer {m : Memory} (hm : envsOrdered m = true) (e : Nat) (frame : Environment)
    (o : Nat) (hf : m.envs.get? e = some frame) (ho : frame.outer = some o) : o < e := by
  have he : e < m.envs.length := by
    by_contra hlt
    have : m.envs.get? e = none := by
      simp only [List.get?_eq_getElem?]
      exact List.getElem?_eq_none (by omega)
    rw [this] at hf
    exact absurd hf (by simp)
  have h := (List.all_eq_true.mp hm) e (List.mem_range.mpr he)
  rw [hf] at h
  dsimp only at h
  rw [ho] at h
  dsimp only at h
  exact of_decide_eq_true h

/-- Lookup does not depend on the fuel once it exceeds the address. -/
theorem envGetLoop_fuel (m : Memory) (name : String) (hm : ∀ e frame o, m.envs.get? e = some frame → frame.outer = some o → o < e) :
    ∀ (n e f1 f2 : Nat), e ≤ n → e < f1 → e < f2 →
      m.envGetLoop name f1 e = m.envGetLoop name f2 e := by
  intro n
  induction n with
  | zero =>
    intro e f1 f2 he h1 h2
    obtain ⟨g1, rfl⟩ : ∃ g, f1 = g + 1 := ⟨f1 - 1, by omega⟩
    obtain ⟨g2, rfl⟩ : ∃ g, f2 = g + 1 := ⟨f2 - 1, by omega⟩
    simp only [Memory.envGetLoop]
    cases hf : m.envs.get? e with
    | none => rfl
    | some frame =>
      dsimp only
      cases hs : storeFind name frame.store with
      | some v => rfl
      | none =>
        dsimp only
        cases ho : frame.outer with
        | none => rfl
        | some o =>
          have := hm e frame o hf ho
          omega
  | succ n ih =>
    intro e f1 f2 he h1 h2
    obtain ⟨g1, rfl⟩ : ∃ g, f1 = g + 1 := ⟨f1 - 1, by omega⟩
    obtain ⟨g2, rfl⟩ : ∃ g, f2 = g + 1 := ⟨f2 - 1, by omega⟩
    simp only [Memory.envGetLoop]
    cases hf : m.envs.get? e with
    | none => rfl
    | some frame =>
      dsimp only
      cases hs : storeFind name frame.store with
      | some v => rfl
      | none =>
        dsimp only
        cases ho : frame.outer with
        | none => rfl
        | some o =>
          dsimp only
          have := hm e frame o hf ho
          exact ih o g1 g2 (by omega) (by omega) (by omega)

/-- Frames appended to the heap do not change lookups from older frames. -/
theorem envGetLoop_append (m : Memory) (name : String) (extra : List Environment)
    (hm : ∀ e frame o, m.envs.get? e = some frame → frame.outer = some o → o < e) :
    ∀ (fuel e : Nat), e < m.envs.length →
      Memory.envGetLoop { m with envs := m.envs ++ extra } name fuel e
        = m.envGetLoop name fuel e := by
  intro fuel
  induction fuel with
  | zero => intro e _; rfl
  | succ fuel ih =>
    intro e he
    simp only [Memory.envGetLoop]
    have hget : (m.envs ++ extra).get? e = m.envs.get? e := by
      simp only [List.get?_eq_getElem?]
      exact List.getElem?_append_left he
    rw [hget]
    cases hf : m.envs.get? e with
    | none => rfl
    | some frame =>
      dsimp only
      cases hs : storeFind name frame.store with
      | some v => rfl
      | none =>
        dsimp only
        cases ho : frame.outer with
        | none => rfl
        | some o =>
          dsimp only
          have := hm e frame o hf ho
          exact ih o (by omega)

/-! ## Function application and lexical scope (C3) -/

/-- C3: applying a `Function` evaluates its body in a fresh environment frame
(a new address) that holds the parameter bindings and whose outer link is the
environment the function captured; a name the frame does not bind resolves
exactly as in the captured environment; no frame that existed before the call,
the caller's included, sees the new bindings; a function literal captures the
environment it is evaluated in. The program
`let x = 1; let f = fn(){ x }; let g = fn(x){ f() }; g(2)` yields `Integer` 1
and leaves `x` bound to `Integer` 1 in the global environment. -/
theorem function_application_uses_captured_environment (ev : Eval) (fuel : Nat) (fn : ObjPtr) (args : List ObjPtr)
    (m : Memory) (parameters : List NodePtr) (body : NodePtr) (fnEnv : Nat)
    (store : List (String × ObjPtr))
    (hm : envsOrdered m = true) (henv : fnEnv < m.envs.length)
    (hfn : m.deref fn = .ok (.Function parameters body fnEnv))
    (hbind : bindParameters m.nodes args parameters 0 [] = .ok store) :
    applyFunction ev fuel fn args m
        = (ev body m.envs.length { m with envs := m.envs ++ [{ store := store, outer := some fnEnv }] }
            >>= fun x => pure (unwrapReturnValue x.2 x.1, x.2))
    ∧ (∀ name, storeFind name store = none →
        Memory.envGet { m with envs := m.envs ++ [{ store := store, outer := some fnEnv }] }
          m.envs.length name = m.envGet fnEnv name)
    ∧ (∀ e name, e < m.envs.length →
        Memory.envGet { m with envs := m.envs ++ [{ store := store, outer := some fnEnv }] } e name
          = m.envGet e name)
    ∧ (∀ k a env tok, m.nodes.get? a = some (.FunctionLiteral tok parameters body) →
        eval (k + 1) (some a) env m
          = .ok (some m.objects.length,
              { m with objects := m.objects ++ [.Function parameters body env] }))
    ∧ (start 60 "let x = 1; let f = fn(){ x }; let g = fn(x){ f() }; g(2)").bind (fun run =>
        match run with
        | .evaluated r mf => .ok (r.bind mf.objects.get?, (mf.envGet 0 "x").bind mf.objects.get?)
        | .parserErrors _ => .crash)
        = .ok (some (.Integer 1), some (.Integer 1)) := by
  have hord := fun e frame o => envsOrdered_outer hm e frame o
  refine ⟨?_, ?_, ?_, ?_, by decide!⟩
  · simp only [applyFunction, hfn, Res.ok_bind, extendFunctionEnv, hbind, Memory.makeEnv]
  · intro name hname
    have hlast : (m.envs ++ [({ store := store, outer := some fnEnv } : Environment)]).get? m.envs.length
        = some { store := store, outer := some fnEnv } := by
      simp only [List.get?_eq_getElem?]
      rw [List.getElem?_append_right (Nat.le_refl _)]
      simp
    simp only [Memory.envGet, Memory.envGetLoop, hlast, hname]
    rw [envGetLoop_append m name _ hord _ _ henv]
    exact envGetLoop_fuel m name hord fnEnv fnEnv _ _ (Nat.le_refl _) henv (Nat.lt_succ_self _)
  · intro e name he
    simp only [Memory.envGet]
    exact envGetLoop_append m name _ hord _ _ he
  · intro k a env tok ha
    simp only [eval, ha, Res.pure_eq, Memory.makeObj]

/-- The theorem for C3 applied to the function `f` of
`let x = 1; let f = fn(y){ x };` and the argument `Integer` 1. -/
theorem function_application_uses_captured_environment_witness :
    envsOrdered (finalMemoryOf "let x = 1; let f = fn(y){ x };") = true
    ∧ (finalMemoryOf "let x = 1; let f = fn(y){ x };").deref (some 10)
        = .ok (.Function [some 7] (some 8) 0)
    ∧ applyFunction (eval 20) 20 (some 10) [some 9] (finalMemoryOf "let x = 1; let f = fn(y){ x };")
        = (eval 20 (some 8) (finalMemoryOf "let x = 1; let f = fn(y){ x };").envs.length
            { finalMemoryOf "let x = 1; let f = fn(y){ x };" with
              envs := (finalMemoryOf "let x = 1; let f = fn(y){ x };").envs
                ++ [{ store := [("y", some 9)], outer := some 0 }] }
            >>= fun x => pure (unwrapReturnValue x.2 x.1, x.2)) :=
  ⟨by decide!, by decide!,
    (function_application_uses_captured_environment (eval 20) 20 (some 10) [some 9]
      (finalMemoryOf "let x = 1; let f = fn(y){ x };") [some 7] (some 8) 0 [("y", some 9)]
      (by decide!) (by decide!) (by decide!) (by decide!)).1⟩

/-! ## Literals and integer arithmetic at the inputs where the code departs (C6, C8, C9, C10) -/

/-- C6 (the code at the failing input): on
`let m = macro(x,y){quote(unquote(x) - unquote(y))}; m(5, 10)` the macro pass
binds `x` and `y` to `nullptr` (the cast in `quoteArgs` fails), so each
`unquote` evaluates to an `Error` and is replaced by `nullptr`: the call is
replaced by an infix node `-` whose two operands are `nullptr`, and evaluating
the program dereferences `nullptr` instead of yielding `Integer` -5. -/
theorem macro_call_splices_null_operands :
    (memoryOf "let m = macro(x,y){quote(unquote(x) - unquote(y))}; m(5, 10)").nodes.get? 0
      = some (.Program [some 17])
    ∧ (memoryOf "let m = macro(x,y){quote(unquote(x) - unquote(y))}; m(5, 10)").nodes.get? 17
      = some (.ExpressionStatement { type := .IDENT, literal := "m" } (some 13))
    ∧ (memoryOf "let m = macro(x,y){quote(unquote(x) - unquote(y))}; m(5, 10)").nodes.get? 13
      = some (.InfixExpression { type := .MINUS, literal := "-" } none "-" none)
    ∧ (memoryOf "let m = macro(x,y){quote(unquote(x) - unquote(y))}; m(5, 10)").envs.get? 2
      = some { store := [("x", none), ("y", none)], outer := some 1 }
    ∧ start 60 "let m = macro(x,y){quote(unquote(x) - unquote(y))}; m(5, 10)" = .crash := by
  refine ⟨by decide!, by decide!, by decide!, by decide!, by decide!⟩

/-- C8 (the code at the failing inputs): parsing the literal `2147483648` lets
`std::out_of_range` escape from `std::stoi`, parsing `00` records the error
`could not parse 00 as integer`; the literal `2147483647` still evaluates to
itself. -/
theorem integer_literal_beyond_int_is_not_parsed :
    parseSource 60 "2147483648" = .crash
    ∧ parseToString 60 "00" = .ok ("00\n", ["could not parse 00 as integer"])
    ∧ startOutput 60 "2147483647" = .ok (some "2147483647") := by
  refine ⟨by decide!, by decide!, by decide!⟩

/-- C9 (the code at the failing inputs): the programs `true` and `false`
evaluate to `nullptr`, not to a singleton, so `start` prints nothing for them;
`!false` yields `FALSE_OBJ` and `if (false) { 10 } else { 1 }` yields 10. -/
theorem boolean_literal_evaluates_to_nullptr :
    (start 60 "true").bind (fun run =>
        match run with
        | .evaluated r _ => .ok r
        | .parserErrors _ => .crash) = .ok none
    ∧ (start 60 "false").bind (fun run =>
        match run with
        | .evaluated r _ => .ok r
        | .parserErrors _ => .crash) = .ok none
    ∧ startOutput 60 "true" = .ok none
    ∧ (start 60 "!false").bind (fun run =>
        match run with
        | .evaluated r _ => .ok r
        | .parserErrors _ => .crash) = .ok FALSE_OBJ
    ∧ startOutput 60 "if (false) \x7b 10 \x7d else \x7b 1 \x7d" = .ok (some "10") := by
  refine ⟨by decide!, by decide!, by decide!, by decide!, by decide!⟩

/-- C10 (the code at the failing input): `1073741824 + 1073741824` yields the
`Integer` -2147483648, the sum reduced to 32 bits by the constructor
`Integer(int)`, not 2147483648. -/
theorem integer_sum_is_reduced_to_32_bits :
    (start 60 "1073741824 + 1073741824").bind (fun run =>
        match run with
        | .evaluated r m => .ok (r.bind m.objects.get?)
        | .parserErrors _ => .crash) = .ok (some (.Integer (-2147483648)))
    ∧ startOutput 60 "1073741824 + 1073741824" = .ok (some "-2147483648") := by
  refine ⟨by decide!, by decide!⟩

/-! ## Lexing of words and operators -/

/-- A letter is not a blank. -/
theorem isLetter_not_ws {c : Char} (h : isLetter c = true) : isWhitespace c = false := by
  simp only [isWhitespace, Bool.or_eq_false_iff, decide_eq_false_iff_not]
  refine ⟨⟨⟨?_, ?_⟩, ?_⟩, ?_⟩ <;> (rintro rfl; revert h; decide)

/-- The blank-skipping loop stops at once on a character that is no blank. -/
theorem skipWhitespaceLoop_of_not_ws {c : Char} (rest : List Char) (h : isWhitespace c = false) :
    skipWhitespaceLoop c rest = { ch := c, rest := rest } := by
  cases rest <;> simp [skipWhitespaceLoop, h]

/-- A run of characters satisfying `p`, followed by one that does not, is
consumed whole. -/
theorem readWhile_run (p : Char → Bool) (x : Char) (post : List Char) (hx : p x = false) :
    ∀ (w : List Char) (c0 : Char), (∀ c ∈ c0 :: w, p c = true) →
      readWhile p c0 (w ++ x :: post) = (c0 :: w, { ch := x, rest := post }) := by
  intro w
  induction w with
  | nil =>
    intro c0 h
    have h0 : p c0 = true := h c0 (by simp)
    cases post <;> simp [readWhile, h0, hx]
  | cons d w ih =>
    intro c0 h
    have h0 : p c0 = true := h c0 (by simp)
    have hd : ∀ c ∈ d :: w, p c = true := fun c hc => h c (List.mem_cons_of_mem _ hc)
    simp [readWhile, h0, ih d hd]

/-- A run of characters satisfying `p` that ends the input is consumed whole. -/
theorem readWhile_end (p : Char → Bool) :
    ∀ (w : List Char) (c0 : Char), (∀ c ∈ c0 :: w, p c = true) →
      readWhile p c0 w = (c0 :: w, { ch := NUL, rest := [] }) := by
  intro w
  induction w with
  | nil =>
    intro c0 h
    have h0 : p c0 = true := h c0 (by simp)
    simp [readWhile, h0]
  | cons d w ih =>
    intro c0 h
    have h0 : p c0 = true := h c0 (by simp)
    have hd : ∀ c ∈ d :: w, p c = true := fun c hc => h c (List.mem_cons_of_mem _ hc)
    simp [readWhile, h0, ih d hd]

/-- A letter is none of the characters `nextToken` tests before its default
branch. -/
theorem isLetter_special {c : Char} (h : isLetter c = true) :
    c ≠ '=' ∧ c ≠ '+' ∧ c ≠ '-' ∧ c ≠ '!' ∧ c ≠ '/' ∧ c ≠ '*' ∧ c ≠ '<' ∧ c ≠ '>' ∧ c ≠ ';'
    ∧ c ≠ ',' ∧ c ≠ ':' ∧ c ≠ '(' ∧ c ≠ ')' ∧ c ≠ '[' ∧ c ≠ ']' ∧ c ≠ '\x7b' ∧ c ≠ '\x7d'
    ∧ c ≠ '"' ∧ c ≠ NUL := by
  refine ⟨?_, ?_, ?_, ?_, ?_, ?_, ?_, ?_, ?_, ?_, ?_, ?_, ?_, ?_, ?_, ?_, ?_, ?_, ?_⟩ <;>
    (rintro rfl; revert h; decide)

/-- Lexing a word that is followed by a character that is no letter. -/
theorem nextToken_word (c0 x : Char) (w post : List Char)
    (h : ∀ c ∈ c0 :: w, isLetter c = true) (hx : isLetter x = false) :
    Lexer.nextToken { ch := c0, rest := w ++ x :: post } =
      ({ type := lookupIdent (String.mk (c0 :: w)), literal := String.mk (c0 :: w) },
        { ch := x, rest := post }) := by
  have h0 : isLetter c0 = true := h c0 (by simp)
  obtain ⟨h1, h2, h3, h4, h5, h6, h7, h8, h9, h10, h11, h12, h13, h14, h15, h16, h17, h18, h19⟩ :=
    isLetter_special h0
  simp [Lexer.nextToken, Lexer.skipWhitespace, skipWhitespaceLoop_of_not_ws _ (isLetter_not_ws h0),
    h1, h2, h3, h4, h5, h6, h7, h8, h9, h10, h11, h12, h13, h14, h15, h16, h17, h18, h19, h0,
    Lexer.readIdentifier, readWhile_run isLetter x post hx w c0 h]

/-- Lexing a word that ends the input. -/
theorem nextToken_word_end (c0 : Char) (w : List Char)
    (h : ∀ c ∈ c0 :: w, isLetter c = true) :
    Lexer.nextToken { ch := c0, rest := w } =
      ({ type := lookupIdent (String.mk (c0 :: w)), literal := String.mk (c0 :: w) },
        { ch := NUL, rest := [] }) := by
  have h0 : isLetter c0 = true := h c0 (by simp)
  obtain ⟨h1, h2, h3, h4, h5, h6, h7, h8, h9, h10, h11, h12, h13, h14, h15, h16, h17, h18, h19⟩ :=
    isLetter_special h0
  simp [Lexer.nextToken, Lexer.skipWhitespace, skipWhitespaceLoop_of_not_ws _ (isLetter_not_ws h0),
    h1, h2, h3, h4, h5, h6, h7, h8, h9, h10, h11, h12, h13, h14, h15, h16, h17, h18, h19, h0,
    Lexer.readIdentifier, readWhile_end isLetter w c0 h]

/-- A leading space is skipped. -/
theorem nextToken_space (c : Char) (rest : List Char) :
    Lexer.nextToken { ch := ' ', rest := c :: rest } = Lexer.nextToken { ch := c, rest := rest } := by
  simp [Lexer.nextToken, Lexer.skipWhitespace, skipWhitespaceLoop, isWhitespace]

/-- At the end of the input the lexer yields `EOF` and stays there. -/
theorem nextToken_eof : Lexer.nextToken { ch := NUL, rest := [] } =
    ({ type := .EOF, literal := "" }, { ch := NUL, rest := [] }) := by decide

/-- What `isIdentifier` says about the characters of `s`. -/
theorem isIdentifier_cases {s : String} (h : isIdentifier s = true) :
    ∃ c0 w, s.data = c0 :: w ∧ (∀ c ∈ c0 :: w, isLetter c = true) ∧ String.mk (c0 :: w) = s
      ∧ lookupIdent (String.mk (c0 :: w)) = .IDENT := by
  simp only [isIdentifier, Bool.and_eq_true, Bool.not_eq_true', decide_eq_true_eq,
    List.all_eq_true] at h
  obtain ⟨⟨h1, h2⟩, h3⟩ := h
  cases hd : s.data with
  | nil => rw [hd] at h1; exact absurd h1 (by simp)
  | cons c0 w =>
    have hs : String.mk (c0 :: w) = s := by rw [← hd]
    exact ⟨c0, w, rfl, by rw [← hd]; exact h2, hs, by rw [hs]; exact h3⟩

/-- Lexing of a binary operator that follows a space and is followed by a
space, with its parslet and binding power. -/
theorem lex_operator (op : String) (h : op ∈ binaryOperators) :
    ∃ t q, (∀ rest, Lexer.nextToken { ch := ' ', rest := op.data ++ ' ' :: rest }
              = ({ type := t, literal := op }, { ch := ' ', rest := rest }))
      ∧ infixParseFns t = some .parseInfixExpression ∧ precedences t = some q
      ∧ t ≠ .SEMICOLON ∧ 0 < q.toNat ∧ q.toNat < 5 ∧ operatorPrecedence op = q := by
  simp only [binaryOperators, List.mem_cons, List.mem_singleton, List.not_mem_nil, or_false] at h
  rcases h with rfl | rfl | rfl | rfl | rfl | rfl | rfl | rfl
  · exact ⟨.EQ, .EQUALS, fun _ => rfl, rfl, rfl, by decide, by decide, by decide, by decide⟩
  · exact ⟨.NOT_EQ, .EQUALS, fun _ => rfl, rfl, rfl, by decide, by decide, by decide, by decide⟩
  · exact ⟨.LT, .LESSGREATER, fun _ => rfl, rfl, rfl, by decide, by decide, by decide, by decide⟩
  · exact ⟨.GT, .LESSGREATER, fun _ => rfl, rfl, rfl, by decide, by decide, by decide, by decide⟩
  · exact ⟨.PLUS, .SUM, fun _ => rfl, rfl, rfl, by decide, by decide, by decide, by decide⟩
  · exact ⟨.MINUS, .SUM, fun _ => rfl, rfl, rfl, by decide, by decide, by decide, by decide⟩
  · exact ⟨.ASTERISK, .PRODUCT, fun _ => rfl, rfl, rfl, by decide, by decide, by decide, by decide⟩
  · exact ⟨.SLASH, .PRODUCT, fun _ => rfl, rfl, rfl, by decide, by decide, by decide, by decide⟩

/-! ## The Pratt loop on `a op1 b op2 c` (C4) -/

/-- Parsing `a op1 b op2 c` when `op2` binds tighter than `op1`: the second
operator takes `b` as its left operand. -/
theorem parse_infix_infix_right (l2 l3 l4 l5 l6 l7 : Lexer) (a b c s1 s2 : String)
    (t1 t2 : TokenType) (q1 q2 : prec) (E2 : Token)
    (h2 : l2.nextToken = ({ type := .IDENT, literal := b }, l3))
    (h3 : l3.nextToken = ({ type := t2, literal := s2 }, l4))
    (h4 : l4.nextToken = ({ type := .IDENT, literal := c }, l5))
    (h5 : l5.nextToken = ({ type := .EOF, literal := "" }, l6))
    (h6 : l6.nextToken = (E2, l7))
    (i1 : infixParseFns t1 = some .parseInfixExpression)
    (i2 : infixParseFns t2 = some .parseInfixExpression)
    (p1 : precedences t1 = some q1) (p2 : precedences t2 = some q2)
    (n1 : t1 ≠ .SEMICOLON) (n2 : t2 ≠ .SEMICOLON)
    (z1 : 0 < q1.toNat)
    (hq : q1.toNat < q2.toNat) (k : Nat) :
    parseProgram (k + 11)
      (Parser.mk l2 [] { type := .IDENT, literal := a } { type := t1, literal := s1 } [])
      = .ok (0, Parser.mk l7 [] { type := .EOF, literal := "" } E2
          [.Program [some 1],
           .ExpressionStatement { type := .IDENT, literal := a } (some 3),
           .Identifier { type := .IDENT, literal := a } a,
           .InfixExpression { type := t1, literal := s1 } (some 2) s1 (some 5),
           .Identifier { type := .IDENT, literal := b } b,
           .InfixExpression { type := t2, literal := s2 } (some 4) s2 (some 6),
           .Identifier { type := .IDENT, literal := c } c]) := by
  have z2 : 0 < q2.toNat := by omega
  have hq2 : ¬ q2.toNat < 0 := by omega
  have hq1 : ¬ q1.toNat < 0 := by omega
  have e1 : precedences .EOF = none := rfl
  have e2 : infixParseFns .EOF = none := rfl
  have e3 : prefixParseFns .IDENT = some .parseIdentifier := rfl
  have e4 : prec.LOWEST.toNat = 0 := rfl
  simp only [parseProgram, parseProgramLoop.eq_2 _ _ (Parser.mk _ _ _ _ _),
    parseStatement.eq_2 (Parser.mk _ _ _ _ _), parseExpressionStatement.eq_2 (Parser.mk _ _ _ _ _),
    parseExpression.eq_2 _ (Parser.mk _ _ _ _ _),
    parseExpressionLoop.eq_2 _ _ (Parser.mk _ _ _ _ _),
    parseInfixExpression.eq_2 _ (Parser.mk _ _ _ _ _),
    e1, e2, e3, e4, i1, i2, p1, p2, n1, n2, z1, z2, hq, hq1, hq2, h2, h3, h4, h5, h6,
    parseIdentifier, Parser.peekTokenIs, Parser.curTokenIs, Parser.make, Parser.setNode,
    Parser.nextToken, Parser.peekPrecedence, Parser.curPrecedence,
    Res.ok_bind, Res.pure_eq, reduceCtorEq, ↓reduceIte, decide_False, decide_True,
    Bool.false_eq_true, and_self, and_true, true_and, and_false, false_and, ne_eq,
    not_true_eq_false, not_false_eq_true,
    Nat.lt_irrefl, List.length_nil, List.length_cons, List.length_append, List.nil_append,
    List.cons_append, Nat.reduceAdd, List.set_cons_zero, List.set_cons_succ, Nat.not_lt_zero]

/-- Parsing `a op1 b op2 c` when `op2` does not bind tighter than `op1`: the
first operator keeps `b`, and the second takes `a op1 b` as its left operand. -/
theorem parse_infix_infix_left (l2 l3 l4 l5 l6 l7 : Lexer) (a b c s1 s2 : String)
    (t1 t2 : TokenType) (q1 q2 : prec) (E2 : Token)
    (h2 : l2.nextToken = ({ type := .IDENT, literal := b }, l3))
    (h3 : l3.nextToken = ({ type := t2, literal := s2 }, l4))
    (h4 : l4.nextToken = ({ type := .IDENT, literal := c }, l5))
    (h5 : l5.nextToken = ({ type := .EOF, literal := "" }, l6))
    (h6 : l6.nextToken = (E2, l7))
    (i1 : infixParseFns t1 = some .parseInfixExpression)
    (i2 : infixParseFns t2 = some .parseInfixExpression)
    (p1 : precedences t1 = some q1) (p2 : precedences t2 = some q2)
    (n1 : t1 ≠ .SEMICOLON) (n2 : t2 ≠ .SEMICOLON)
    (z1 : 0 < q1.toNat) (z2 : 0 < q2.toNat)
    (hq : ¬ q1.toNat < q2.toNat) (k : Nat) :
    parseProgram (k + 11)
      (Parser.mk l2 [] { type := .IDENT, literal := a } { type := t1, literal := s1 } [])
      = .ok (0, Parser.mk l7 [] { type := .EOF, literal := "" } E2
          [.Program [some 1],
           .ExpressionStatement { type := .IDENT, literal := a } (some 5),
           .Identifier { type := .IDENT, literal := a } a,
           .InfixExpression { type := t1, literal := s1 } (some 2) s1 (some 4),
           .Identifier { type := .IDENT, literal := b } b,
           .InfixExpression { type := t2, literal := s2 } (some 3) s2 (some 6),
           .Identifier { type := .IDENT, literal := c } c]) := by
  have hq2 : ¬ q2.toNat < 0 := by omega
  have hq1 : ¬ q1.toNat < 0 := by omega
  have e1 : precedences .EOF = none := rfl
  have e2 : infixParseFns .EOF = none := rfl
  have e3 : prefixParseFns .IDENT = some .parseIdentifier := rfl
  have e4 : prec.LOWEST.toNat = 0 := rfl
  simp only [parseProgram, parseProgramLoop.eq_2 _ _ (Parser.mk _ _ _ _ _),
    parseStatement.eq_2 (Parser.mk _ _ _ _ _), parseExpressionStatement.eq_2 (Parser.mk _ _ _ _ _),
    parseExpression.eq_2 _ (Parser.mk _ _ _ _ _),
    parseExpressionLoop.eq_2 _ _ (Parser.mk _ _ _ _ _),
    parseInfixExpression.eq_2 _ (Parser.mk _ _ _ _ _),
    e1, e2, e3, e4, i1, i2, p1, p2, n1, n2, z1, z2, hq, hq1, hq2, h2, h3, h4, h5, h6,
    parseIdentifier, Parser.peekTokenIs, Parser.curTokenIs, Parser.make, Parser.setNode,
    Parser.nextToken, Parser.peekPrecedence, Parser.curPrecedence,
    Res.ok_bind, Res.pure_eq, reduceCtorEq, ↓reduceIte, decide_False, decide_True,
    Bool.false_eq_true, and_self, and_true, true_and, and_false, false_and, ne_eq,
    not_true_eq_false, not_false_eq_true,
    Nat.lt_irrefl, List.length_nil, List.length_cons, List.length_append, List.nil_append,
    List.cons_append, Nat.reduceAdd, List.set_cons_zero, List.set_cons_succ, Nat.not_lt_zero]

/-- Parsing and printing `a op1 b op2 c`: no error, and the operator of the
lower binding power is the root; on equal binding powers the first one groups. -/
theorem parseToString_two_binary_operators (a b c op1 op2 : String) (k : Nat)
    (ha : isIdentifier a = true) (hb : isIdentifier b = true) (hc : isIdentifier c = true)
    (h1 : op1 ∈ binaryOperators) (h2 : op2 ∈ binaryOperators) :
    parseToString (k + 11) (a ++ " " ++ op1 ++ " " ++ b ++ " " ++ op2 ++ " " ++ c)
      = .ok (if (operatorPrecedence op2).toNat ≤ (operatorPrecedence op1).toNat
             then "((" ++ a ++ " " ++ op1 ++ " " ++ b ++ ") " ++ op2 ++ " " ++ c ++ ")\n"
             else "(" ++ a ++ " " ++ op1 ++ " (" ++ b ++ " " ++ op2 ++ " " ++ c ++ "))\n", []) := by
  obtain ⟨a0, as, hda, hla, hma, hka⟩ := isIdentifier_cases ha
  obtain ⟨b0, bs, hdb, hlb, hmb, hkb⟩ := isIdentifier_cases hb
  obtain ⟨c0, cs, hdc, hlc, hmc, hkc⟩ := isIdentifier_cases hc
  obtain ⟨t1, q1, hx1, i1, p1, n1, z1, _, o1⟩ := lex_operator op1 h1
  obtain ⟨t2, q2, hx2, i2, p2, n2, z2, _, o2⟩ := lex_operator op2 h2
  have hsp : isLetter ' ' = false := by decide
  have hspace : (" " : String).data = [' '] := rfl
  have hsrc : (a ++ " " ++ op1 ++ " " ++ b ++ " " ++ op2 ++ " " ++ c).data
      = a0 :: (as ++ ' ' :: (op1.data ++ ' ' :: (b0 :: (bs ++ ' ' :: (op2.data ++ ' ' ::
          (c0 :: cs)))))) := by
    simp only [String.data_append, hda, hdb, hdc, hspace, List.append_assoc, List.cons_append,
      List.nil_append]
  have hnew : Parser.new (Lexer.new (a0 :: (as ++ ' ' :: (op1.data ++ ' ' :: (b0 :: (bs ++ ' ' ::
        (op2.data ++ ' ' :: (c0 :: cs))))))))
      = Parser.mk { ch := ' ', rest := b0 :: (bs ++ ' ' :: (op2.data ++ ' ' :: (c0 :: cs))) } []
          { type := .IDENT, literal := a } { type := t1, literal := op1 } [] := by
    have hka2 : lookupIdent a = .IDENT := hma ▸ hka
    simp only [Parser.new, Lexer.new, Lexer.readChar, Parser.nextToken,
      nextToken_word a0 ' ' as _ hla hsp, hx1, hma, hka2]
  have e2 := (nextToken_space b0 (bs ++ ' ' :: (op2.data ++ ' ' :: (c0 :: cs)))).trans
    (nextToken_word b0 ' ' bs (op2.data ++ ' ' :: (c0 :: cs)) hlb hsp)
  rw [hkb, hmb] at e2
  have e4 := (nextToken_space c0 cs).trans (nextToken_word_end c0 cs hlc)
  rw [hkc, hmc] at e4
  rw [o1, o2]
  simp only [parseToString, parseSource, hsrc, hnew]
  by_cases hq : q1.toNat < q2.toNat
  · rw [parse_infix_infix_right _ _ _ _ _ _ a b c op1 op2 t1 t2 q1 q2 _ e2 (hx2 _) e4
      nextToken_eof nextToken_eof i1 i2 p1 p2 n1 n2 z1 hq k]
    have hle : ¬ q2.toNat ≤ q1.toNat := by omega
    simp only [nodeString, derefNode, List.get?_cons_succ, List.get?_cons_zero, mapRes,
      Res.ok_bind, Res.pure_eq, List.map_cons, List.map_nil, concatStrings, hle, ↓reduceIte]
    simp [String.ext_iff]
  · rw [parse_infix_infix_left _ _ _ _ _ _ a b c op1 op2 t1 t2 q1 q2 _ e2 (hx2 _) e4
      nextToken_eof nextToken_eof i1 i2 p1 p2 n1 n2 z1 z2 hq k]
    have hle : q2.toNat ≤ q1.toNat := by omega
    simp only [nodeString, derefNode, List.get?_cons_succ, List.get?_cons_zero, mapRes,
      Res.ok_bind, Res.pure_eq, List.map_cons, List.map_nil, concatStrings, hle, ↓reduceIte]
    simp [String.ext_iff]

/-- C4: for all identifiers `a`, `b`, `c` and all binary operators `op1`,
`op2` among `== != < > + - * /`, parsing `a op1 b op2 c` records no error and
yields one expression statement that prints as `((a op1 b) op2 c)` when the
binding power of `op1` is at least that of `op2` and as `(a op1 (b op2 c))`
when it is lower; the binding powers are EQUALS for `== !=`, LESSGREATER for
`< >`, SUM for `+ -` and PRODUCT for `* /`, in increasing order. -/
theorem binary_operators_group_by_precedence (a b c op1 op2 : String) (k : Nat)
    (ha : isIdentifier a = true) (hb : isIdentifier b = true) (hc : isIdentifier c = true)
    (h1 : op1 ∈ binaryOperators) (h2 : op2 ∈ binaryOperators) :
    parseToString (k + 11) (a ++ " " ++ op1 ++ " " ++ b ++ " " ++ op2 ++ " " ++ c)
      = .ok (if (operatorPrecedence op2).toNat ≤ (operatorPrecedence op1).toNat
             then "((" ++ a ++ " " ++ op1 ++ " " ++ b ++ ") " ++ op2 ++ " " ++ c ++ ")\n"
             else "(" ++ a ++ " " ++ op1 ++ " (" ++ b ++ " " ++ op2 ++ " " ++ c ++ "))\n", [])
    ∧ (binaryOperators.map operatorPrecedence
        = [.EQUALS, .EQUALS, .LESSGREATER, .LESSGREATER, .SUM, .SUM, .PRODUCT, .PRODUCT])
    ∧ prec.EQUALS.toNat < prec.LESSGREATER.toNat ∧ prec.LESSGREATER.toNat < prec.SUM.toNat
    ∧ prec.SUM.toNat < prec.PRODUCT.toNat :=
  ⟨parseToString_two_binary_operators a b c op1 op2 k ha hb hc h1 h2, by decide, by decide, by decide,
    by decide⟩

/-- The theorem for C4 applied to `a + b * c` and to `a - b - c`. -/
theorem binary_operators_group_by_precedence_witness :
    parseToString 11 ("a" ++ " " ++ "+" ++ " " ++ "b" ++ " " ++ "*" ++ " " ++ "c")
      = .ok (if (operatorPrecedence "*").toNat ≤ (operatorPrecedence "+").toNat
             then "((" ++ "a" ++ " " ++ "+" ++ " " ++ "b" ++ ") " ++ "*" ++ " " ++ "c" ++ ")\n"
             else "(" ++ "a" ++ " " ++ "+" ++ " (" ++ "b" ++ " " ++ "*" ++ " " ++ "c" ++ "))\n", [])
    ∧ parseToString 11 "a + b * c" = .ok ("(a + (b * c))\n", [])
    ∧ parseToString 11 "a - b - c" = .ok ("((a - b) - c)\n", []) :=
  ⟨(binary_operators_group_by_precedence "a" "b" "c" "+" "*" 0 (by decide) (by decide) (by decide)
      (by decide) (by decide)).1, by decide!, by decide!⟩

/-! ## Stepping the parser: one unfolding of each member at positive fuel -/

/-- Congruence for sequencing: only the first computation is rewritten, the
continuation is visited once its argument is known. -/
@[congr] theorem Res.bind_congr_left {α β : Type} {x y : Res α} {f : α → Res β} (h : x = y) :
    (x >>= f) = (y >>= f) := by rw [h]


/-- Unfolding of `parseStatement` at positive fuel. -/
theorem parseStatement_unfold (fuel : Nat) (p : Parser) :
    parseStatement (fuel + 1) p = (
    match p.curToken.type with
    | .LET => parseLetStatement fuel p
    | .RETURN => parseReturnStatement fuel p
    | _ => parseExpressionStatement fuel p
    ) := id rfl

/-- Unfolding of `parseLetStatement` at positive fuel. -/
theorem parseLetStatement_unfold (fuel : Nat) (p : Parser) :
    parseLetStatement (fuel + 1) p = (
    let tok := p.curToken
    let stmt := p.make (.LetStatement tok none none)
    let e1 := stmt.2.expectPeek .IDENT
    if e1.1 = false then .ok (none, e1.2)
    else
      let name := e1.2.make (.Identifier e1.2.curToken e1.2.curToken.literal)
      let p2 := name.2.setNode stmt.1 (.LetStatement tok (some name.1) none)
      let e2 := p2.expectPeek .ASSIGN
      if e2.1 = false then .ok (none, e2.2)
      else do
        let (value, p4) ← parseExpression fuel .LOWEST e2.2.nextToken
        let p5 := p4.setNode stmt.1 (.LetStatement tok (some name.1) value)
        pure (some stmt.1, if p5.peekTokenIs .SEMICOLON then p5.nextToken else p5)
    ) := id rfl

/-- Unfolding of `parseReturnStatement` at positive fuel. -/
theorem parseReturnStatement_unfold (fuel : Nat) (p : Parser) :
    parseReturnStatement (fuel + 1) p = (
    do
    let tok := p.curToken
    let stmt := p.make (.ReturnStatement tok none)
    let (returnValue, p2) ← parseExpression fuel .LOWEST stmt.2.nextToken
    let p3 := p2.setNode stmt.1 (.ReturnStatement tok returnValue)
    pure (some stmt.1, if p3.peekTokenIs .SEMICOLON then p3.nextToken else p3)
    ) := id rfl

/-- Unfolding of `parseExpressionStatement` at positive fuel. -/
theorem parseExpressionStatement_unfold (fuel : Nat) (p : Parser) :
    parseExpressionStatement (fuel + 1) p = (
    do
    let tok := p.curToken
    let stmt := p.make (.ExpressionStatement tok none)
    let (expression, p2) ← parseExpression fuel .LOWEST stmt.2
    let p3 := p2.setNode stmt.1 (.ExpressionStatement tok expression)
    pure (some stmt.1, if p3.peekTokenIs .SEMICOLON then p3.nextToken else p3)
    ) := id rfl

/-- Unfolding of `parseExpression` at positive fuel. -/
theorem parseExpression_unfold (fuel : Nat) (precedence : prec) (p : Parser) :
    parseExpression (fuel + 1) precedence p = (
    match prefixParseFns p.curToken.type with
    | none => .ok (none, p.noPrefixParseFnError p.curToken.type)
    | some pf => do
      let (leftExp, p1) ← (match pf with
        | .parseIdentifier => parseIdentifier p
        | .parseIntegerLiteral => parseIntegerLiteral p
        | .parseStringLiteral => parseStringLiteral p
        | .parsePrefixExpression => parsePrefixExpression fuel p
        | .parseBoolean => parseBoolean p
        | .parseGroupedExpression => parseGroupedExpression fuel p
        | .parseArrayLiteral => parseArrayLiteral fuel p
        | .parseIfExpression => parseIfExpression fuel p
        | .parseFunctionLiteral => parseFunctionLiteral fuel p
        | .parseHashLiteral => parseHashLiteral fuel p
        | .parseMacroLiteral => parseMacroLiteral fuel p)
      parseExpressionLoop fuel precedence leftExp p1
    ) := id rfl

/-- Unfolding of `parseExpressionLoop` at positive fuel. -/
theorem parseExpressionLoop_unfold (fuel : Nat) (precedence : prec) (leftExp : NodePtr) (p : Parser) :
    parseExpressionLoop (fuel + 1) precedence leftExp p = (
    if p.peekTokenIs .SEMICOLON = false ∧ precedence.toNat < p.peekPrecedence.toNat then
      match infixParseFns p.peekToken.type with
      | none => .ok (leftExp, p)
      | some f => do
        let (leftExp1, p1) ← (match f with
          | .parseInfixExpression => parseInfixExpression fuel leftExp p.nextToken
          | .parseCallExpression => parseCallExpression fuel leftExp p.nextToken
          | .parseIndexExpression => parseIndexExpression fuel leftExp p.nextToken)
        parseExpressionLoop fuel precedence leftExp1 p1
    else .ok (leftExp, p)
    ) := id rfl

/-- Unfolding of `parseArrayLiteral` at positive fuel. -/
theorem parseArrayLiteral_unfold (fuel : Nat) (p : Parser) :
    parseArrayLiteral (fuel + 1) p = (
    do
    let tok := p.curToken
    let array := p.make (.ArrayLiteral tok [])
    let (elements, p1) ← parseExpressionList fuel .RBRACKET array.2
    pure (some array.1, p1.setNode array.1 (.ArrayLiteral tok elements))
    ) := id rfl

/-- Unfolding of `parseExpressionList` at positive fuel. -/
theorem parseExpressionList_unfold (fuel : Nat) (endTok : TokenType) (p : Parser) :
    parseExpressionList (fuel + 1) endTok p = (
    if p.peekTokenIs endTok then .ok ([], p.nextToken)
    else do
      let (e, p1) ← parseExpression fuel .LOWEST p.nextToken
      let (list, p2) ← parseExpressionListLoop fuel [e] p1
      let e2 := p2.expectPeek endTok
      if e2.1 = false then pure ([], e2.2) else pure (list, e2.2)
    ) := id rfl

/-- Unfolding of `parseExpressionListLoop` at positive fuel. -/
theorem parseExpressionListLoop_unfold (fuel : Nat) (list : List NodePtr) (p : Parser) :
    parseExpressionListLoop (fuel + 1) list p = (
    if p.peekTokenIs .COMMA then do
      let (e, p1) ← parseExpression fuel .LOWEST p.nextToken.nextToken
      parseExpressionListLoop fuel (list ++ [e]) p1
    else .ok (list, p)
    ) := id rfl

/-- Unfolding of `parseIndexExpression` at positive fuel. -/
theorem parseIndexExpression_unfold (fuel : Nat) (left : NodePtr) (p : Parser) :
    parseIndexExpression (fuel + 1) left p = (
    do
    let tok := p.curToken
    let exp := p.make (.IndexExpression tok left none)
    let (index, p1) ← parseExpression fuel .LOWEST exp.2.nextToken
    let e := (p1.setNode exp.1 (.IndexExpression tok left index)).expectPeek .RBRACKET
    if e.1 = false then pure (none, e.2) else pure (some exp.1, e.2)
    ) := id rfl

/-- Unfolding of `parseHashLiteral` at positive fuel. -/
theorem parseHashLiteral_unfold (fuel : Nat) (p : Parser) :
    parseHashLiteral (fuel + 1) p = (
    let tok := p.curToken
    let hash := p.make (.HashLiteral tok [])
    parseHashLiteralLoop fuel tok hash.1 [] hash.2
    ) := id rfl

/-- Unfolding of `parseHashLiteralLoop` at positive fuel. -/
theorem parseHashLiteralLoop_unfold (fuel : Nat) (tok : Token) (hash : Nat) (pairs : List (NodePtr × NodePtr)) (p : Parser) :
    parseHashLiteralLoop (fuel + 1) tok hash pairs p = (
    if p.peekTokenIs .RBRACE = false then do
      let (key, p1) ← parseExpression fuel .LOWEST p.nextToken
      let e1 := p1.expectPeek .COLON
      if e1.1 = false then pure (none, e1.2)
      else do
        let (value, p2) ← parseExpression fuel .LOWEST e1.2.nextToken
        let pairs1 := ptrMapAssign key value pairs
        let p3 := p2.setNode hash (.HashLiteral tok pairs1)
        if p3.peekTokenIs .RBRACE = false then
          let e2 := p3.expectPeek .COMMA
          if e2.1 = false then pure (none, e2.2)
          else parseHashLiteralLoop fuel tok hash pairs1 e2.2
        else parseHashLiteralLoop fuel tok hash pairs1 p3
    else
      let e := p.expectPeek .RBRACE
      if e.1 = false then .ok (none, e.2) else .ok (some hash, e.2)
    ) := id rfl

/-- Unfolding of `parseMacroLiteral` at positive fuel. -/
theorem parseMacroLiteral_unfold (fuel : Nat) (p : Parser) :
    parseMacroLiteral (fuel + 1) p = (
    let tok := p.curToken
    let lit := p.make (.MacroLiteral tok [] none)
    let e1 := lit.2.expectPeek .LPAREN
    if e1.1 = false then .ok (none, e1.2)
    else do
      let (parameters, p1) ← parseFunctionParameters fuel e1.2
      let p2 := p1.setNode lit.1 (.MacroLiteral tok parameters none)
      let e2 := p2.expectPeek .LBRACE
      if e2.1 = false then pure (none, e2.2)
      else do
        let (body, p3) ← parseBlockStatement fuel e2.2
        pure (some lit.1, p3.setNode lit.1 (.MacroLiteral tok parameters body))
    ) := id rfl

/-- Unfolding of `parsePrefixExpression` at positive fuel. -/
theorem parsePrefixExpression_unfold (fuel : Nat) (p : Parser) :
    parsePrefixExpression (fuel + 1) p = (
    do
    let tok := p.curToken
    let exp := p.make (.PrefixExpression tok tok.literal none)
    let (right, p1) ← parseExpression fuel .PREFIX exp.2.nextToken
    pure (some exp.1, p1.setNode exp.1 (.PrefixExpression tok tok.literal right))
    ) := id rfl

/-- Unfolding of `parseInfixExpression` at positive fuel. -/
theorem parseInfixExpression_unfold (fuel : Nat) (left : NodePtr) (p : Parser) :
    parseInfixExpression (fuel + 1) left p = (
    do
    let tok := p.curToken
    let exp := p.make (.InfixExpression tok left tok.literal none)
    let precedence := exp.2.curPrecedence
    let (right, p1) ← parseExpression fuel precedence exp.2.nextToken
    pure (some exp.1, p1.setNode exp.1 (.InfixExpression tok left tok.literal right))
    ) := id rfl

/-- Unfolding of `parseGroupedExpression` at positive fuel. -/
theorem parseGroupedExpression_unfold (fuel : Nat) (p : Parser) :
    parseGroupedExpression (fuel + 1) p = (
    do
    let (exp, p1) ← parseExpression fuel .LOWEST p.nextToken
    let e := p1.expectPeek .RPAREN
    if e.1 = false then pure (none, e.2) else pure (exp, e.2)
    ) := id rfl

/-- Unfolding of `parseIfExpression` at positive fuel. -/
theorem parseIfExpression_unfold (fuel : Nat) (p : Parser) :
    parseIfExpression (fuel + 1) p = (
    let tok := p.curToken
    let exp := p.make (.IfExpression tok none none none)
    let e1 := exp.2.expectPeek .LPAREN
    if e1.1 = false then .ok (none, e1.2)
    else do
      let (condition, p1) ← parseExpression fuel .LOWEST e1.2.nextToken
      let p2 := p1.setNode exp.1 (.IfExpression tok condition none none)
      let e2 := p2.expectPeek .RPAREN
      if e2.1 = false then pure (none, e2.2)
      else
        let e3 := e2.2.expectPeek .LBRACE
        if e3.1 = false then pure (none, e3.2)
        else do
          let (consequence, p3) ← parseBlockStatement fuel e3.2
          let p4 := p3.setNode exp.1 (.IfExpression tok condition consequence none)
          if p4.peekTokenIs .ELSE then
            let e4 := p4.nextToken.expectPeek .LBRACE
            if e4.1 = false then pure (none, e4.2)
            else do
              let (alternative, p5) ← parseBlockStatement fuel e4.2
              pure (some exp.1,
                p5.setNode exp.1 (.IfExpression tok condition consequence alternative))
          else pure (some exp.1, p4)
    ) := id rfl

/-- Unfolding of `parseBlockStatement` at positive fuel. -/
theorem parseBlockStatement_unfold (fuel : Nat) (p : Parser) :
    parseBlockStatement (fuel + 1) p = (
    let tok := p.curToken
    let block := p.make (.BlockStatement tok [])
    parseBlockStatementLoop fuel tok block.1 [] block.2.nextToken
    ) := id rfl

/-- Unfolding of `parseBlockStatementLoop` at positive fuel. -/
theorem parseBlockStatementLoop_unfold (fuel : Nat) (tok : Token) (block : Nat) (statements : List NodePtr) (p : Parser) :
    parseBlockStatementLoop (fuel + 1) tok block statements p = (
    if p.curTokenIs .RBRACE = false ∧ p.curTokenIs .EOF = false then do
      let (stmt, p1) ← parseStatement fuel p
      let statements1 := (match stmt with
        | none => statements
        | some _ => statements ++ [stmt])
      parseBlockStatementLoop fuel tok block statements1
        (p1.setNode block (.BlockStatement tok statements1)).nextToken
    else .ok (some block, p)
    ) := id rfl

/-- Unfolding of `parseFunctionLiteral` at positive fuel. -/
theorem parseFunctionLiteral_unfold (fuel : Nat) (p : Parser) :
    parseFunctionLiteral (fuel + 1) p = (
    let tok := p.curToken
    let lit := p.make (.FunctionLiteral tok [] none)
    let e1 := lit.2.expectPeek .LPAREN
    if e1.1 = false then .ok (none, e1.2)
    else do
      let (parameters, p1) ← parseFunctionParameters fuel e1.2
      let p2 := p1.setNode lit.1 (.FunctionLiteral tok parameters none)
      let e2 := p2.expectPeek .LBRACE
      if e2.1 = false then pure (none, e2.2)
      else do
        let (body, p3) ← parseBlockStatement fuel e2.2
        pure (some lit.1, p3.setNode lit.1 (.FunctionLiteral tok parameters body))
    ) := id rfl

/-- Unfolding of `parseCallExpression` at positive fuel. -/
theorem parseCallExpression_unfold (fuel : Nat) (function : NodePtr) (p : Parser) :
    parseCallExpression (fuel + 1) function p = (
    do
    let tok := p.curToken
    let exp := p.make (.CallExpression tok function [])
    let (arguments, p1) ← parseExpressionList fuel .RPAREN exp.2
    pure (some exp.1, p1.setNode exp.1 (.CallExpression tok function arguments))
    ) := id rfl

/-- Unfolding of `parseProgramLoop` at positive fuel. -/
theorem parseProgramLoop_unfold (fuel : Nat) (program : Nat) (statements : List NodePtr) (p : Parser) :
    parseProgramLoop (fuel + 1) program statements p = (
    if p.curToken.type ≠ .EOF then
      match parseStatement fuel p with
      | .ok (stmt, p1) =>
        let statements1 := (match stmt with
          | none => statements
          | some _ => statements ++ [stmt])
        parseProgramLoop fuel program statements1
          (p1.setNode program (.Program statements1)).nextToken
      | .crash => .crash
      | .fuel => .fuel
    else .ok (program, p)
    ) := id rfl

/-- Unfolding of `parseFunctionParametersLoop` at positive fuel. -/
theorem parseFunctionParametersLoop_unfold (fuel : Nat) (identifiers : List NodePtr) (p : Parser) :
    parseFunctionParametersLoop (fuel + 1) identifiers p = (
    if p.peekTokenIs .COMMA then
      let p1 := p.nextToken.nextToken
      let r := p1.make (.Identifier p1.curToken p1.curToken.literal)
      parseFunctionParametersLoop fuel (identifiers ++ [some r.1]) r.2
    else .ok (identifiers, p)
    ) := id rfl

/-! ## Stepping the parser on an explicit state -/

theorem Res.ok_bind_step {α β : Type} (a : α) (f : α → Res β) : (Res.ok a >>= f) = f a := id rfl

theorem Res.pure_step {α : Type} (a : α) : (pure a : Res α) = Res.ok a := id rfl

theorem Parser.nextToken_mk (l : Lexer) (e : List String) (c p : Token) (n : NodeHeap) :
    (Parser.mk l e c p n).nextToken = Parser.mk l.nextToken.2 e p l.nextToken.1 n := id rfl

theorem Parser.make_mk (l : Lexer) (e : List String) (c p : Token) (n : NodeHeap) (x : Node) :
    (Parser.mk l e c p n).make x = (n.length, Parser.mk l e c p (n ++ [x])) := id rfl

theorem Parser.setNode_mk (l : Lexer) (e : List String) (c p : Token) (n : NodeHeap) (a : Nat)
    (x : Node) :
    (Parser.mk l e c p n).setNode a x = Parser.mk l e c p (n.set a x) := id rfl

theorem Parser.peekTokenIs_mk (l : Lexer) (e : List String) (c : Token) (ty : TokenType)
    (lit : String) (n : NodeHeap) (t : TokenType) :
    (Parser.mk l e c (Token.mk ty lit) n).peekTokenIs t = decide (ty = t) := id rfl

theorem Parser.curTokenIs_mk (l : Lexer) (e : List String) (p : Token) (ty : TokenType)
    (lit : String) (n : NodeHeap) (t : TokenType) :
    (Parser.mk l e (Token.mk ty lit) p n).curTokenIs t = decide (ty = t) := id rfl

theorem Parser.peekPrecedence_mk (l : Lexer) (e : List String) (c : Token) (ty : TokenType)
    (lit : String) (n : NodeHeap) :
    (Parser.mk l e c (Token.mk ty lit) n).peekPrecedence = (precedences ty).getD .LOWEST := by
  simp only [Parser.peekPrecedence]; cases precedences ty <;> rfl

theorem Parser.curPrecedence_mk (l : Lexer) (e : List String) (p : Token) (ty : TokenType)
    (lit : String) (n : NodeHeap) :
    (Parser.mk l e (Token.mk ty lit) p n).curPrecedence = (precedences ty).getD .LOWEST := by
  simp only [Parser.curPrecedence]; cases precedences ty <;> rfl

theorem Parser.expectPeek_mk (l : Lexer) (e : List String) (c : Token) (ty : TokenType)
    (lit : String) (n : NodeHeap) (t : TokenType) :
    (Parser.mk l e c (Token.mk ty lit) n).expectPeek t
      = if ty = t then (true, Parser.mk l.nextToken.2 e (Token.mk ty lit) l.nextToken.1 n)
        else (false, (Parser.mk l e c (Token.mk ty lit) n).peekError t) := by
  simp only [Parser.expectPeek, Parser.peekTokenIs, Parser.nextToken, decide_eq_true_eq]

theorem parseIdentifier_mk (l : Lexer) (e : List String) (ty : TokenType) (lit : String)
    (p : Token) (n : NodeHeap) :
    parseIdentifier (Parser.mk l e (Token.mk ty lit) p n)
      = .ok (some n.length, Parser.mk l e (Token.mk ty lit) p
          (n ++ [.Identifier (Token.mk ty lit) lit])) := id rfl

theorem parseProgram_mk (fuel : Nat) (l : Lexer) (e : List String) (c p : Token) (n : NodeHeap) :
    parseProgram fuel (Parser.mk l e c p n)
      = parseProgramLoop fuel n.length [] (Parser.mk l e c p (n ++ [.Program []])) := id rfl

/-! ## Prefix operators, calls and indexing in the Pratt loop (C5) -/

/-- Parsing `p a op b`: the prefix operator takes `a` alone, the binary operator takes `(pa)` as its left operand. -/
theorem parse_prefix_operand (l2 l3 l4 l5 l6 : Lexer) (a b sp s1 : String) (tp t1 : TokenType) (q1 : prec) (E2 : Token)
    (h2 : l2.nextToken = ({ type := t1, literal := s1 }, l3))
    (h3 : l3.nextToken = ({ type := .IDENT, literal := b }, l4))
    (h4 : l4.nextToken = ({ type := .EOF, literal := "" }, l5))
    (h5 : l5.nextToken = (E2, l6))
    (ip : tp = .MINUS ∨ tp = .BANG)
    (i1 : infixParseFns t1 = some .parseInfixExpression)
    (p1 : precedences t1 = some q1)
    (n1 : t1 ≠ .SEMICOLON)
    (z1 : 0 < q1.toNat)
    (u1 : q1.toNat < 5)
    (k : Nat) :
    parseProgram (k + 14)
      (Parser.mk l2 [] { type := tp, literal := sp } { type := .IDENT, literal := a } [])
      = .ok (0, Parser.mk l6 [] { type := .EOF, literal := "" } E2
          [.Program [some 1],
           .ExpressionStatement { type := tp, literal := sp } (some 4),
           .PrefixExpression { type := tp, literal := sp } sp (some 3),
           .Identifier { type := .IDENT, literal := a } a,
           .InfixExpression { type := t1, literal := s1 } (some 2) s1 (some 5),
           .Identifier { type := .IDENT, literal := b } b]) := by
  have e1 : precedences .EOF = none := rfl
  have e2 : infixParseFns .EOF = none := rfl
  have e3 : prefixParseFns .IDENT = some .parseIdentifier := rfl
  have e4 : prec.LOWEST.toNat = 0 := rfl
  have e5 : prec.PREFIX.toNat = 5 := rfl
  have e6 : precedences .LPAREN = some .CALL := rfl
  have e7 : precedences .LBRACKET = some .INDEX := rfl
  have e8 : prec.CALL.toNat = 6 := rfl
  have e9 : prec.INDEX.toNat = 7 := rfl
  have e10 : infixParseFns .LPAREN = some .parseCallExpression := rfl
  have e11 : infixParseFns .LBRACKET = some .parseIndexExpression := rfl
  have e12 : precedences .RPAREN = none := rfl
  have e13 : precedences .RBRACKET = none := rfl
  have e14 : prefixParseFns .MINUS = some .parsePrefixExpression := rfl
  have e15 : prefixParseFns .BANG = some .parsePrefixExpression := rfl
  have w1 : ¬ 5 < q1.toNat := by omega
  have w2 : ¬ q1.toNat < 0 := by omega
  rcases ip with rfl | rfl <;>
  simp only [parseProgram_mk, parseProgramLoop_unfold _ _ _ (Parser.mk _ _ (Token.mk _ _) _ _),
    parseStatement_unfold _ (Parser.mk _ _ (Token.mk _ _) _ _), parseExpressionStatement_unfold _ (Parser.mk _ _ (Token.mk _ _) _ _),
    parseExpression_unfold _ _ (Parser.mk _ _ (Token.mk _ _) _ _),
    parseExpressionLoop_unfold _ _ _ (Parser.mk _ _ (Token.mk _ _) _ _),
    parseInfixExpression_unfold _ _ (Parser.mk _ _ (Token.mk _ _) _ _),
    parsePrefixExpression_unfold _ (Parser.mk _ _ (Token.mk _ _) _ _),
    parseCallExpression_unfold _ _ (Parser.mk _ _ (Token.mk _ _) _ _),
    parseIndexExpression_unfold _ _ (Parser.mk _ _ (Token.mk _ _) _ _),
    parseExpressionList_unfold _ _ (Parser.mk _ _ (Token.mk _ _) _ _),
    parseExpressionListLoop_unfold _ _ (Parser.mk _ _ (Token.mk _ _) _ _),
    parseIdentifier_mk, Parser.peekTokenIs_mk, Parser.curTokenIs_mk, Parser.make_mk,
    Parser.setNode_mk, Parser.nextToken_mk, Parser.peekPrecedence_mk, Parser.curPrecedence_mk,
    Parser.expectPeek_mk, Option.getD_some, Option.getD_none,
    Res.ok_bind_step, Res.pure_step, reduceCtorEq, ↓reduceIte, decide_False, decide_True,
    Bool.false_eq_true, and_self, and_true, true_and, and_false, false_and, ne_eq,
    not_true_eq_false, not_false_eq_true,
    Nat.lt_irrefl, List.length_nil, List.length_cons, List.length_append, List.nil_append,
    List.cons_append, Nat.reduceAdd, Nat.reduceLT, List.set_cons_zero, List.set_cons_succ,
    Nat.not_lt_zero,
    e1, e2, e3, e4, e5, e6, e7, e8, e9, e10, e11, e12, e13, e14, e15, h2, h3, h4, h5, i1, p1, n1, z1, u1, w1, w2]

/-- Parsing `-f(a)`: the call binds tighter than the prefix operator. -/
theorem parse_prefix_call (l2 l3 l4 l5 l6 l7 : Lexer) (f a : String) (E2 : Token)
    (h2 : l2.nextToken = ({ type := .LPAREN, literal := "(" }, l3))
    (h3 : l3.nextToken = ({ type := .IDENT, literal := a }, l4))
    (h4 : l4.nextToken = ({ type := .RPAREN, literal := ")" }, l5))
    (h5 : l5.nextToken = ({ type := .EOF, literal := "" }, l6))
    (h6 : l6.nextToken = (E2, l7))
    (k : Nat) :
    parseProgram (k + 14)
      (Parser.mk l2 [] { type := .MINUS, literal := "-" } { type := .IDENT, literal := f } [])
      = .ok (0, Parser.mk l7 [] { type := .EOF, literal := "" } E2
          [.Program [some 1],
           .ExpressionStatement { type := .MINUS, literal := "-" } (some 2),
           .PrefixExpression { type := .MINUS, literal := "-" } "-" (some 4),
           .Identifier { type := .IDENT, literal := f } f,
           .CallExpression { type := .LPAREN, literal := "(" } (some 3) [some 5],
           .Identifier { type := .IDENT, literal := a } a]) := by
  have e1 : precedences .EOF = none := rfl
  have e2 : infixParseFns .EOF = none := rfl
  have e3 : prefixParseFns .IDENT = some .parseIdentifier := rfl
  have e4 : prec.LOWEST.toNat = 0 := rfl
  have e5 : prec.PREFIX.toNat = 5 := rfl
  have e6 : precedences .LPAREN = some .CALL := rfl
  have e7 : precedences .LBRACKET = some .INDEX := rfl
  have e8 : prec.CALL.toNat = 6 := rfl
  have e9 : prec.INDEX.toNat = 7 := rfl
  have e10 : infixParseFns .LPAREN = some .parseCallExpression := rfl
  have e11 : infixParseFns .LBRACKET = some .parseIndexExpression := rfl
  have e12 : precedences .RPAREN = none := rfl
  have e13 : precedences .RBRACKET = none := rfl
  have e14 : prefixParseFns .MINUS = some .parsePrefixExpression := rfl
  have e15 : prefixParseFns .BANG = some .parsePrefixExpression := rfl
  simp only [parseProgram_mk, parseProgramLoop_unfold _ _ _ (Parser.mk _ _ (Token.mk _ _) _ _),
    parseStatement_unfold _ (Parser.mk _ _ (Token.mk _ _) _ _), parseExpressionStatement_unfold _ (Parser.mk _ _ (Token.mk _ _) _ _),
    parseExpression_unfold _ _ (Parser.mk _ _ (Token.mk _ _) _ _),
    parseExpressionLoop_unfold _ _ _ (Parser.mk _ _ (Token.mk _ _) _ _),
    parseInfixExpression_unfold _ _ (Parser.mk _ _ (Token.mk _ _) _ _),
    parsePrefixExpression_unfold _ (Parser.mk _ _ (Token.mk _ _) _ _),
    parseCallExpression_unfold _ _ (Parser.mk _ _ (Token.mk _ _) _ _),
    parseIndexExpression_unfold _ _ (Parser.mk _ _ (Token.mk _ _) _ _),
    parseExpressionList_unfold _ _ (Parser.mk _ _ (Token.mk _ _) _ _),
    parseExpressionListLoop_unfold _ _ (Parser.mk _ _ (Token.mk _ _) _ _),
    parseIdentifier_mk, Parser.peekTokenIs_mk, Parser.curTokenIs_mk, Parser.make_mk,
    Parser.setNode_mk, Parser.nextToken_mk, Parser.peekPrecedence_mk, Parser.curPrecedence_mk,
    Parser.expectPeek_mk, Option.getD_some, Option.getD_none,
    Res.ok_bind_step, Res.pure_step, reduceCtorEq, ↓reduceIte, decide_False, decide_True,
    Bool.false_eq_true, and_self, and_true, true_and, and_false, false_and, ne_eq,
    not_true_eq_false, not_false_eq_true,
    Nat.lt_irrefl, List.length_nil, List.length_cons, List.length_append, List.nil_append,
    List.cons_append, Nat.reduceAdd, Nat.reduceLT, List.set_cons_zero, List.set_cons_succ,
    Nat.not_lt_zero,
    e1, e2, e3, e4, e5, e6, e7, e8, e9, e10, e11, e12, e13, e14, e15, h2, h3, h4, h5, h6]

/-- Parsing `-a[b]`: the index binds tighter than the prefix operator. -/
theorem parse_prefix_index (l2 l3 l4 l5 l6 l7 : Lexer) (a b : String) (E2 : Token)
    (h2 : l2.nextToken = ({ type := .LBRACKET, literal := "[" }, l3))
    (h3 : l3.nextToken = ({ type := .IDENT, literal := b }, l4))
    (h4 : l4.nextToken = ({ type := .RBRACKET, literal := "]" }, l5))
    (h5 : l5.nextToken = ({ type := .EOF, literal := "" }, l6))
    (h6 : l6.nextToken = (E2, l7))
    (k : Nat) :
    parseProgram (k + 14)
      (Parser.mk l2 [] { type := .MINUS, literal := "-" } { type := .IDENT, literal := a } [])
      = .ok (0, Parser.mk l7 [] { type := .EOF, literal := "" } E2
          [.Program [some 1],
           .ExpressionStatement { type := .MINUS, literal := "-" } (some 2),
           .PrefixExpression { type := .MINUS, literal := "-" } "-" (some 4),
           .Identifier { type := .IDENT, literal := a } a,
           .IndexExpression { type := .LBRACKET, literal := "[" } (some 3) (some 5),
           .Identifier { type := .IDENT, literal := b } b]) := by
  have e1 : precedences .EOF = none := rfl
  have e2 : infixParseFns .EOF = none := rfl
  have e3 : prefixParseFns .IDENT = some .parseIdentifier := rfl
  have e4 : prec.LOWEST.toNat = 0 := rfl
  have e5 : prec.PREFIX.toNat = 5 := rfl
  have e6 : precedences .LPAREN = some .CALL := rfl
  have e7 : precedences .LBRACKET = some .INDEX := rfl
  have e8 : prec.CALL.toNat = 6 := rfl
  have e9 : prec.INDEX.toNat = 7 := rfl
  have e10 : infixParseFns .LPAREN = some .parseCallExpression := rfl
  have e11 : infixParseFns .LBRACKET = some .parseIndexExpression := rfl
  have e12 : precedences .RPAREN = none := rfl
  have e13 : precedences .RBRACKET = none := rfl
  have e14 : prefixParseFns .MINUS = some .parsePrefixExpression := rfl
  have e15 : prefixParseFns .BANG = some .parsePrefixExpression := rfl
  simp only [parseProgram_mk, parseProgramLoop_unfold _ _ _ (Parser.mk _ _ (Token.mk _ _) _ _),
    parseStatement_unfold _ (Parser.mk _ _ (Token.mk _ _) _ _), parseExpressionStatement_unfold _ (Parser.mk _ _ (Token.mk _ _) _ _),
    parseExpression_unfold _ _ (Parser.mk _ _ (Token.mk _ _) _ _),
    parseExpressionLoop_unfold _ _ _ (Parser.mk _ _ (Token.mk _ _) _ _),
    parseInfixExpression_unfold _ _ (Parser.mk _ _ (Token.mk _ _) _ _),
    parsePrefixExpression_unfold _ (Parser.mk _ _ (Token.mk _ _) _ _),
    parseCallExpression_unfold _ _ (Parser.mk _ _ (Token.mk _ _) _ _),
    parseIndexExpression_unfold _ _ (Parser.mk _ _ (Token.mk _ _) _ _),
    parseExpressionList_unfold _ _ (Parser.mk _ _ (Token.mk _ _) _ _),
    parseExpressionListLoop_unfold _ _ (Parser.mk _ _ (Token.mk _ _) _ _),
    parseIdentifier_mk, Parser.peekTokenIs_mk, Parser.curTokenIs_mk, Parser.make_mk,
    Parser.setNode_mk, Parser.nextToken_mk, Parser.peekPrecedence_mk, Parser.curPrecedence_mk,
    Parser.expectPeek_mk, Option.getD_some, Option.getD_none,
    Res.ok_bind_step, Res.pure_step, reduceCtorEq, ↓reduceIte, decide_False, decide_True,
    Bool.false_eq_true, and_self, and_true, true_and, and_false, false_and, ne_eq,
    not_true_eq_false, not_false_eq_true,
    Nat.lt_irrefl, List.length_nil, List.length_cons, List.length_append, List.nil_append,
    List.cons_append, Nat.reduceAdd, Nat.reduceLT, List.set_cons_zero, List.set_cons_succ,
    Nat.not_lt_zero,
    e1, e2, e3, e4, e5, e6, e7, e8, e9, e10, e11, e12, e13, e14, e15, h2, h3, h4, h5, h6]

/-- Parsing `a op b[c]`: the index binds tighter than the binary operator. -/
theorem parse_infix_index (l2 l3 l4 l5 l6 l7 l8 : Lexer) (a b c s1 : String) (t1 : TokenType) (q1 : prec) (E2 : Token)
    (h2 : l2.nextToken = ({ type := .IDENT, literal := b }, l3))
    (h3 : l3.nextToken = ({ type := .LBRACKET, literal := "[" }, l4))
    (h4 : l4.nextToken = ({ type := .IDENT, literal := c }, l5))
    (h5 : l5.nextToken = ({ type := .RBRACKET, literal := "]" }, l6))
    (h6 : l6.nextToken = ({ type := .EOF, literal := "" }, l7))
    (h7 : l7.nextToken = (E2, l8))
    (i1 : infixParseFns t1 = some .parseInfixExpression)
    (p1 : precedences t1 = some q1)
    (n1 : t1 ≠ .SEMICOLON)
    (z1 : 0 < q1.toNat)
    (u1 : q1.toNat < 5)
    (k : Nat) :
    parseProgram (k + 14)
      (Parser.mk l2 [] { type := .IDENT, literal := a } { type := t1, literal := s1 } [])
      = .ok (0, Parser.mk l8 [] { type := .EOF, literal := "" } E2
          [.Program [some 1],
           .ExpressionStatement { type := .IDENT, literal := a } (some 3),
           .Identifier { type := .IDENT, literal := a } a,
           .InfixExpression { type := t1, literal := s1 } (some 2) s1 (some 5),
           .Identifier { type := .IDENT, literal := b } b,
           .IndexExpression { type := .LBRACKET, literal := "[" } (some 4) (some 6),
           .Identifier { type := .IDENT, literal := c } c]) := by
  have e1 : precedences .EOF = none := rfl
  have e2 : infixParseFns .EOF = none := rfl
  have e3 : prefixParseFns .IDENT = some .parseIdentifier := rfl
  have e4 : prec.LOWEST.toNat = 0 := rfl
  have e5 : prec.PREFIX.toNat = 5 := rfl
  have e6 : precedences .LPAREN = some .CALL := rfl
  have e7 : precedences .LBRACKET = some .INDEX := rfl
  have e8 : prec.CALL.toNat = 6 := rfl
  have e9 : prec.INDEX.toNat = 7 := rfl
  have e10 : infixParseFns .LPAREN = some .parseCallExpression := rfl
  have e11 : infixParseFns .LBRACKET = some .parseIndexExpression := rfl
  have e12 : precedences .RPAREN = none := rfl
  have e13 : precedences .RBRACKET = none := rfl
  have e14 : prefixParseFns .MINUS = some .parsePrefixExpression := rfl
  have e15 : prefixParseFns .BANG = some .parsePrefixExpression := rfl
  have w1 : q1.toNat < 7 := by omega
  have w2 : ¬ q1.toNat < 0 := by omega
  simp only [parseProgram_mk, parseProgramLoop_unfold _ _ _ (Parser.mk _ _ (Token.mk _ _) _ _),
    parseStatement_unfold _ (Parser.mk _ _ (Token.mk _ _) _ _), parseExpressionStatement_unfold _ (Parser.mk _ _ (Token.mk _ _) _ _),
    parseExpression_unfold _ _ (Parser.mk _ _ (Token.mk _ _) _ _),
    parseExpressionLoop_unfold _ _ _ (Parser.mk _ _ (Token.mk _ _) _ _),
    parseInfixExpression_unfold _ _ (Parser.mk _ _ (Token.mk _ _) _ _),
    parsePrefixExpression_unfold _ (Parser.mk _ _ (Token.mk _ _) _ _),
    parseCallExpression_unfold _ _ (Parser.mk _ _ (Token.mk _ _) _ _),
    parseIndexExpression_unfold _ _ (Parser.mk _ _ (Token.mk _ _) _ _),
    parseExpressionList_unfold _ _ (Parser.mk _ _ (Token.mk _ _) _ _),
    parseExpressionListLoop_unfold _ _ (Parser.mk _ _ (Token.mk _ _) _ _),
    parseIdentifier_mk, Parser.peekTokenIs_mk, Parser.curTokenIs_mk, Parser.make_mk,
    Parser.setNode_mk, Parser.nextToken_mk, Parser.peekPrecedence_mk, Parser.curPrecedence_mk,
    Parser.expectPeek_mk, Option.getD_some, Option.getD_none,
    Res.ok_bind_step, Res.pure_step, reduceCtorEq, ↓reduceIte, decide_False, decide_True,
    Bool.false_eq_true, and_self, and_true, true_and, and_false, false_and, ne_eq,
    not_true_eq_false, not_false_eq_true,
    Nat.lt_irrefl, List.length_nil, List.length_cons, List.length_append, List.nil_append,
    List.cons_append, Nat.reduceAdd, Nat.reduceLT, List.set_cons_zero, List.set_cons_succ,
    Nat.not_lt_zero,
    e1, e2, e3, e4, e5, e6, e7, e8, e9, e10, e11, e12, e13, e14, e15, h2, h3, h4, h5, h6, h7, i1, p1, n1, z1, u1, w1, w2]

/-- Parsing `a op f(b)`: the call binds tighter than the binary operator. -/
theorem parse_infix_call (l2 l3 l4 l5 l6 l7 l8 : Lexer) (a f b s1 : String) (t1 : TokenType) (q1 : prec) (E2 : Token)
    (h2 : l2.nextToken = ({ type := .IDENT, literal := f }, l3))
    (h3 : l3.nextToken = ({ type := .LPAREN, literal := "(" }, l4))
    (h4 : l4.nextToken = ({ type := .IDENT, literal := b }, l5))
    (h5 : l5.nextToken = ({ type := .RPAREN, literal := ")" }, l6))
    (h6 : l6.nextToken = ({ type := .EOF, literal := "" }, l7))
    (h7 : l7.nextToken = (E2, l8))
    (i1 : infixParseFns t1 = some .parseInfixExpression)
    (p1 : precedences t1 = some q1)
    (n1 : t1 ≠ .SEMICOLON)
    (z1 : 0 < q1.toNat)
    (u1 : q1.toNat < 5)
    (k : Nat) :
    parseProgram (k + 14)
      (Parser.mk l2 [] { type := .IDENT, literal := a } { type := t1, literal := s1 } [])
      = .ok (0, Parser.mk l8 [] { type := .EOF, literal := "" } E2
          [.Program [some 1],
           .ExpressionStatement { type := .IDENT, literal := a } (some 3),
           .Identifier { type := .IDENT, literal := a } a,
           .InfixExpression { type := t1, literal := s1 } (some 2) s1 (some 5),
           .Identifier { type := .IDENT, literal := f } f,
           .CallExpression { type := .LPAREN, literal := "(" } (some 4) [some 6],
           .Identifier { type := .IDENT, literal := b } b]) := by
  have e1 : precedences .EOF = none := rfl
  have e2 : infixParseFns .EOF = none := rfl
  have e3 : prefixParseFns .IDENT = some .parseIdentifier := rfl
  have e4 : prec.LOWEST.toNat = 0 := rfl
  have e5 : prec.PREFIX.toNat = 5 := rfl
  have e6 : precedences .LPAREN = some .CALL := rfl
  have e7 : precedences .LBRACKET = some .INDEX := rfl
  have e8 : prec.CALL.toNat = 6 := rfl
  have e9 : prec.INDEX.toNat = 7 := rfl
  have e10 : infixParseFns .LPAREN = some .parseCallExpression := rfl
  have e11 : infixParseFns .LBRACKET = some .parseIndexExpression := rfl
  have e12 : precedences .RPAREN = none := rfl
  have e13 : precedences .RBRACKET = none := rfl
  have e14 : prefixParseFns .MINUS = some .parsePrefixExpression := rfl
  have e15 : prefixParseFns .BANG = some .parsePrefixExpression := rfl
  have w1 : q1.toNat < 6 := by omega
  have w2 : ¬ q1.toNat < 0 := by omega
  simp only [parseProgram_mk, parseProgramLoop_unfold _ _ _ (Parser.mk _ _ (Token.mk _ _) _ _),
    parseStatement_unfold _ (Parser.mk _ _ (Token.mk _ _) _ _), parseExpressionStatement_unfold _ (Parser.mk _ _ (Token.mk _ _) _ _),
    parseExpression_unfold _ _ (Parser.mk _ _ (Token.mk _ _) _ _),
    parseExpressionLoop_unfold _ _ _ (Parser.mk _ _ (Token.mk _ _) _ _),
    parseInfixExpression_unfold _ _ (Parser.mk _ _ (Token.mk _ _) _ _),
    parsePrefixExpression_unfold _ (Parser.mk _ _ (Token.mk _ _) _ _),
    parseCallExpression_unfold _ _ (Parser.mk _ _ (Token.mk _ _) _ _),
    parseIndexExpression_unfold _ _ (Parser.mk _ _ (Token.mk _ _) _ _),
    parseExpressionList_unfold _ _ (Parser.mk _ _ (Token.mk _ _) _ _),
    parseExpressionListLoop_unfold _ _ (Parser.mk _ _ (Token.mk _ _) _ _),
    parseIdentifier_mk, Parser.peekTokenIs_mk, Parser.curTokenIs_mk, Parser.make_mk,
    Parser.setNode_mk, Parser.nextToken_mk, Parser.peekPrecedence_mk, Parser.curPrecedence_mk,
    Parser.expectPeek_mk, Option.getD_some, Option.getD_none,
    Res.ok_bind_step, Res.pure_step, reduceCtorEq, ↓reduceIte, decide_False, decide_True,
    Bool.false_eq_true, and_self, and_true, true_and, and_false, false_and, ne_eq,
    not_true_eq_false, not_false_eq_true,
    Nat.lt_irrefl, List.length_nil, List.length_cons, List.length_append, List.nil_append,
    List.cons_append, Nat.reduceAdd, Nat.reduceLT, List.set_cons_zero, List.set_cons_succ,
    Nat.not_lt_zero,
    e1, e2, e3, e4, e5, e6, e7, e8, e9, e10, e11, e12, e13, e14, e15, h2, h3, h4, h5, h6, h7, i1, p1, n1, z1, u1, w1, w2]

/-- Lexing of `-` in front of any character. -/
theorem nextToken_minus (c : Char) (rest : List Char) :
    Lexer.nextToken { ch := '-', rest := c :: rest }
      = ({ type := .MINUS, literal := "-" }, { ch := c, rest := rest }) := rfl

/-- Lexing of `!` in front of a letter. -/
theorem nextToken_bang (c : Char) (rest : List Char) (h : isLetter c = true) :
    Lexer.nextToken { ch := '!', rest := c :: rest }
      = ({ type := .BANG, literal := "!" }, { ch := c, rest := rest }) := by
  have hc : c ≠ '=' := (isLetter_special h).1
  have hs : skipWhitespaceLoop '!' (c :: rest) = { ch := '!', rest := c :: rest } := rfl
  simp [Lexer.nextToken, Lexer.skipWhitespace, hs, Lexer.peekChar, hc, Lexer.single,
    Lexer.readChar]
  rfl

/-- Lexing of a prefix operator in front of a letter. -/
theorem lex_prefix_operator (p : String) (h : p ∈ prefixOperators) :
    ∃ p0 t, p.data = [p0] ∧ (t = .MINUS ∨ t = .BANG)
      ∧ ∀ c rest, isLetter c = true → Lexer.nextToken { ch := p0, rest := c :: rest }
          = ({ type := t, literal := p }, { ch := c, rest := rest }) := by
  simp only [prefixOperators, List.mem_cons, List.mem_singleton, List.not_mem_nil, or_false] at h
  rcases h with rfl | rfl
  · exact ⟨'-', .MINUS, rfl, Or.inl rfl, fun c rest _ => nextToken_minus c rest⟩
  · exact ⟨'!', .BANG, rfl, Or.inr rfl, fun c rest hc => nextToken_bang c rest hc⟩

/-- Lexing of `(` and `[` in front of any character. -/
theorem nextToken_open (c : Char) (rest : List Char) :
    Lexer.nextToken { ch := '(', rest := c :: rest }
        = ({ type := .LPAREN, literal := "(" }, { ch := c, rest := rest })
    ∧ Lexer.nextToken { ch := '[', rest := c :: rest }
        = ({ type := .LBRACKET, literal := "[" }, { ch := c, rest := rest }) := ⟨rfl, rfl⟩

/-- Lexing of `)` and `]` at the end of the input. -/
theorem nextToken_close_end :
    Lexer.nextToken { ch := ')', rest := [] }
        = ({ type := .RPAREN, literal := ")" }, { ch := NUL, rest := [] })
    ∧ Lexer.nextToken { ch := ']', rest := [] }
        = ({ type := .RBRACKET, literal := "]" }, { ch := NUL, rest := [] }) := ⟨rfl, rfl⟩

/-- Parsing and printing the five sources with a prefix operator, a call or an
index: no error, and the printed forms. -/
theorem parseToString_prefix_call_index (p op a b c f : String) (k : Nat)
    (hp : p ∈ prefixOperators) (hop : op ∈ binaryOperators)
    (ha : isIdentifier a = true) (hb : isIdentifier b = true) (hc : isIdentifier c = true)
    (hf : isIdentifier f = true) :
    parseToString (k + 14) (p ++ a ++ " " ++ op ++ " " ++ b)
        = .ok ("((" ++ p ++ a ++ ") " ++ op ++ " " ++ b ++ ")\n", [])
    ∧ parseToString (k + 14) ("-" ++ f ++ "(" ++ a ++ ")")
        = .ok ("(-" ++ f ++ "(" ++ a ++ "))\n", [])
    ∧ parseToString (k + 14) ("-" ++ a ++ "[" ++ b ++ "]")
        = .ok ("(-(" ++ a ++ "[" ++ b ++ "]))\n", [])
    ∧ parseToString (k + 14) (a ++ " " ++ op ++ " " ++ b ++ "[" ++ c ++ "]")
        = .ok ("(" ++ a ++ " " ++ op ++ " (" ++ b ++ "[" ++ c ++ "]))\n", [])
    ∧ parseToString (k + 14) (a ++ " " ++ op ++ " " ++ f ++ "(" ++ b ++ ")")
        = .ok ("(" ++ a ++ " " ++ op ++ " " ++ f ++ "(" ++ b ++ "))\n", []) := by
  obtain ⟨a0, as, hda, hla, hma, hka⟩ := isIdentifier_cases ha
  obtain ⟨b0, bs, hdb, hlb, hmb, hkb⟩ := isIdentifier_cases hb
  obtain ⟨c0, cs, hdc, hlc, hmc, hkc⟩ := isIdentifier_cases hc
  obtain ⟨f0, fs, hdf, hlf, hmf, hkf⟩ := isIdentifier_cases hf
  obtain ⟨t1, q1, hx1, i1, p1, n1, z1, u1, _⟩ := lex_operator op hop
  obtain ⟨p0, tp, hdp, htp, hxp⟩ := lex_prefix_operator p hp
  have hsp : isLetter ' ' = false := by decide
  have hlp : isLetter '(' = false := by decide
  have hrp : isLetter ')' = false := by decide
  have hlb2 : isLetter '[' = false := by decide
  have hrb : isLetter ']' = false := by decide
  have hspace : (" " : String).data = [' '] := rfl
  have hminus : ("-" : String).data = ['-'] := rfl
  have hlparen : ("(" : String).data = ['('] := rfl
  have hrparen : (")" : String).data = [')'] := rfl
  have hlbracket : ("[" : String).data = ['['] := rfl
  have hrbracket : ("]" : String).data = [']'] := rfl
  have ha0 : isLetter a0 = true := hla a0 (by simp)
  have hf0 : isLetter f0 = true := hlf f0 (by simp)
  have hka2 : lookupIdent a = .IDENT := hma ▸ hka
  have hkb2 : lookupIdent b = .IDENT := hmb ▸ hkb
  have hkc2 : lookupIdent c = .IDENT := hmc ▸ hkc
  have hkf2 : lookupIdent f = .IDENT := hmf ▸ hkf
  have wordEnd : ∀ (x : String) (x0 : Char) (xs : List Char), (∀ ch ∈ x0 :: xs, isLetter ch = true) →
      String.mk (x0 :: xs) = x → lookupIdent x = .IDENT →
      Lexer.nextToken { ch := ' ', rest := x0 :: xs }
        = ({ type := .IDENT, literal := x }, { ch := NUL, rest := [] }) := by
    intro x x0 xs hl hm hk
    have e := (nextToken_space x0 xs).trans (nextToken_word_end x0 xs hl)
    rw [hm, hk] at e
    exact e
  have word : ∀ (x : String) (x0 : Char) (xs : List Char) (y : Char) (post : List Char),
      (∀ ch ∈ x0 :: xs, isLetter ch = true) → String.mk (x0 :: xs) = x → lookupIdent x = .IDENT →
      isLetter y = false →
      Lexer.nextToken { ch := x0, rest := xs ++ y :: post }
        = ({ type := .IDENT, literal := x }, { ch := y, rest := post }) := by
    intro x x0 xs y post hl hm hk hy
    have e := nextToken_word x0 y xs post hl hy
    rw [hm, hk] at e
    exact e
  have spaceWord : ∀ (x : String) (x0 : Char) (xs : List Char) (y : Char) (post : List Char),
      (∀ ch ∈ x0 :: xs, isLetter ch = true) → String.mk (x0 :: xs) = x → lookupIdent x = .IDENT →
      isLetter y = false →
      Lexer.nextToken { ch := ' ', rest := x0 :: (xs ++ y :: post) }
        = ({ type := .IDENT, literal := x }, { ch := y, rest := post }) := by
    intro x x0 xs y post hl hm hk hy
    exact (nextToken_space x0 _).trans (word x x0 xs y post hl hm hk hy)
  refine ⟨?_, ?_, ?_, ?_, ?_⟩
  · -- p a op b
    have hsrc : (p ++ a ++ " " ++ op ++ " " ++ b).data
        = p0 :: a0 :: (as ++ ' ' :: (op.data ++ ' ' :: (b0 :: bs))) := by
      simp only [String.data_append, hda, hdb, hdp, hspace, List.append_assoc, List.cons_append,
        List.nil_append]
    have hnew : Parser.new (Lexer.new (p0 :: a0 :: (as ++ ' ' :: (op.data ++ ' ' :: (b0 :: bs)))))
        = Parser.mk { ch := ' ', rest := op.data ++ ' ' :: (b0 :: bs) } []
            { type := tp, literal := p } { type := .IDENT, literal := a } [] := by
      simp only [Parser.new, Lexer.new, Lexer.readChar, Parser.nextToken,
        hxp a0 _ ha0, word a a0 as ' ' _ hla hma hka2 hsp]
    simp only [parseToString, parseSource, hsrc, hnew]
    rw [parse_prefix_operand _ _ _ _ _ a b p op tp t1 q1 _ (hx1 _) (wordEnd b b0 bs hlb hmb hkb2)
      nextToken_eof nextToken_eof htp i1 p1 n1 z1 u1 k]
    simp only [nodeString, derefNode, List.get?_cons_succ, List.get?_cons_zero, mapRes,
      Res.ok_bind, Res.pure_eq, List.map_cons, List.map_nil, concatStrings]
    simp [String.ext_iff]
  · -- -f(a)
    have hsrc : ("-" ++ f ++ "(" ++ a ++ ")").data
        = '-' :: f0 :: (fs ++ '(' :: (a0 :: (as ++ ')' :: []))) := by
      simp only [String.data_append, hda, hdf, hminus, hlparen, hrparen, List.append_assoc,
        List.cons_append, List.nil_append]
    have hnew : Parser.new (Lexer.new ('-' :: f0 :: (fs ++ '(' :: (a0 :: (as ++ ')' :: [])))))
        = Parser.mk { ch := '(', rest := a0 :: (as ++ ')' :: []) } []
            { type := .MINUS, literal := "-" } { type := .IDENT, literal := f } [] := by
      simp only [Parser.new, Lexer.new, Lexer.readChar, Parser.nextToken,
        nextToken_minus f0 _, word f f0 fs '(' _ hlf hmf hkf2 hlp]
    simp only [parseToString, parseSource, hsrc, hnew]
    rw [parse_prefix_call _ _ _ _ _ _ f a _ (nextToken_open a0 _).1
      (word a a0 as ')' [] hla hma hka2 hrp) nextToken_close_end.1 nextToken_eof nextToken_eof k]
    simp only [nodeString, derefNode, List.get?_cons_succ, List.get?_cons_zero, mapRes,
      Res.ok_bind, Res.pure_eq, List.map_cons, List.map_nil, concatStrings, joinComma]
    simp [String.ext_iff]
  · -- -a[b]
    have hsrc : ("-" ++ a ++ "[" ++ b ++ "]").data
        = '-' :: a0 :: (as ++ '[' :: (b0 :: (bs ++ ']' :: []))) := by
      simp only [String.data_append, hda, hdb, hminus, hlbracket, hrbracket, List.append_assoc,
        List.cons_append, List.nil_append]
    have hnew : Parser.new (Lexer.new ('-' :: a0 :: (as ++ '[' :: (b0 :: (bs ++ ']' :: [])))))
        = Parser.mk { ch := '[', rest := b0 :: (bs ++ ']' :: []) } []
            { type := .MINUS, literal := "-" } { type := .IDENT, literal := a } [] := by
      simp only [Parser.new, Lexer.new, Lexer.readChar, Parser.nextToken,
        nextToken_minus a0 _, word a a0 as '[' _ hla hma hka2 hlb2]
    simp only [parseToString, parseSource, hsrc, hnew]
    rw [parse_prefix_index _ _ _ _ _ _ a b _ (nextToken_open b0 _).2
      (word b b0 bs ']' [] hlb hmb hkb2 hrb) nextToken_close_end.2 nextToken_eof nextToken_eof k]
    simp only [nodeString, derefNode, List.get?_cons_succ, List.get?_cons_zero, mapRes,
      Res.ok_bind, Res.pure_eq, List.map_cons, List.map_nil, concatStrings]
    simp [String.ext_iff]
  · -- a op b[c]
    have hsrc : (a ++ " " ++ op ++ " " ++ b ++ "[" ++ c ++ "]").data
        = a0 :: (as ++ ' ' :: (op.data ++ ' ' :: (b0 :: (bs ++ '[' :: (c0 :: (cs ++ ']' :: [])))))) := by
      simp only [String.data_append, hda, hdb, hdc, hspace, hlbracket, hrbracket,
        List.append_assoc, List.cons_append, List.nil_append]
    have hnew : Parser.new (Lexer.new (a0 :: (as ++ ' ' :: (op.data ++ ' ' ::
          (b0 :: (bs ++ '[' :: (c0 :: (cs ++ ']' :: []))))))))
        = Parser.mk { ch := ' ', rest := b0 :: (bs ++ '[' :: (c0 :: (cs ++ ']' :: []))) } []
            { type := .IDENT, literal := a } { type := t1, literal := op } [] := by
      simp only [Parser.new, Lexer.new, Lexer.readChar, Parser.nextToken,
        word a a0 as ' ' _ hla hma hka2 hsp, hx1]
    simp only [parseToString, parseSource, hsrc, hnew]
    rw [parse_infix_index _ _ _ _ _ _ _ a b c op t1 q1 _
      (spaceWord b b0 bs '[' _ hlb hmb hkb2 hlb2) (nextToken_open c0 _).2
      (word c c0 cs ']' [] hlc hmc hkc2 hrb) nextToken_close_end.2 nextToken_eof nextToken_eof
      i1 p1 n1 z1 u1 k]
    simp only [nodeString, derefNode, List.get?_cons_succ, List.get?_cons_zero, mapRes,
      Res.ok_bind, Res.pure_eq, List.map_cons, List.map_nil, concatStrings]
    simp [String.ext_iff]
  · -- a op f(b)
    have hsrc : (a ++ " " ++ op ++ " " ++ f ++ "(" ++ b ++ ")").data
        = a0 :: (as ++ ' ' :: (op.data ++ ' ' :: (f0 :: (fs ++ '(' :: (b0 :: (bs ++ ')' :: [])))))) := by
      simp only [String.data_append, hda, hdb, hdf, hspace, hlparen, hrparen,
        List.append_assoc, List.cons_append, List.nil_append]
    have hnew : Parser.new (Lexer.new (a0 :: (as ++ ' ' :: (op.data ++ ' ' ::
          (f0 :: (fs ++ '(' :: (b0 :: (bs ++ ')' :: []))))))))
        = Parser.mk { ch := ' ', rest := f0 :: (fs ++ '(' :: (b0 :: (bs ++ ')' :: []))) } []
            { type := .IDENT, literal := a } { type := t1, literal := op } [] := by
      simp only [Parser.new, Lexer.new, Lexer.readChar, Parser.nextToken,
        word a a0 as ' ' _ hla hma hka2 hsp, hx1]
    simp only [parseToString, parseSource, hsrc, hnew]
    rw [parse_infix_call _ _ _ _ _ _ _ a f b op t1 q1 _
      (spaceWord f f0 fs '(' _ hlf hmf hkf2 hlp) (nextToken_open b0 _).1
      (word b b0 bs ')' [] hlb hmb hkb2 hrp) nextToken_close_end.1 nextToken_eof nextToken_eof
      i1 p1 n1 z1 u1 k]
    simp only [nodeString, derefNode, List.get?_cons_succ, List.get?_cons_zero, mapRes,
      Res.ok_bind, Res.pure_eq, List.map_cons, List.map_nil, concatStrings, joinComma]
    simp [String.ext_iff]

/-- C5: for every prefix operator `p` among `-`, `!`, every binary operator
`op` among `== != < > + - * /` and all identifiers `a`, `b`, `c`, `f`, each of
the five sources parses without error into one expression statement, and the
printed form shows that the prefix operator binds tighter than the binary
operator and that a call or an index binds tighter than the prefix operator
and than the binary operator: `p a op b` prints as `((pa) op b)`, `-f(a)` as
`(-f(a))`, `-a[b]` as `(-(a[b]))`, `a op b[c]` as `(a op (b[c]))` and
`a op f(b)` as `(a op f(b))`. The binding power of every binary operator is
below PREFIX, which is below CALL, which is below INDEX. -/
theorem prefix_call_index_bind_tighter (p op a b c f : String) (k : Nat)
    (hp : p ∈ prefixOperators) (hop : op ∈ binaryOperators)
    (ha : isIdentifier a = true) (hb : isIdentifier b = true) (hc : isIdentifier c = true)
    (hf : isIdentifier f = true) :
    parseToString (k + 14) (p ++ a ++ " " ++ op ++ " " ++ b)
        = .ok ("((" ++ p ++ a ++ ") " ++ op ++ " " ++ b ++ ")\n", [])
    ∧ parseToString (k + 14) ("-" ++ f ++ "(" ++ a ++ ")")
        = .ok ("(-" ++ f ++ "(" ++ a ++ "))\n", [])
    ∧ parseToString (k + 14) ("-" ++ a ++ "[" ++ b ++ "]")
        = .ok ("(-(" ++ a ++ "[" ++ b ++ "]))\n", [])
    ∧ parseToString (k + 14) (a ++ " " ++ op ++ " " ++ b ++ "[" ++ c ++ "]")
        = .ok ("(" ++ a ++ " " ++ op ++ " (" ++ b ++ "[" ++ c ++ "]))\n", [])
    ∧ parseToString (k + 14) (a ++ " " ++ op ++ " " ++ f ++ "(" ++ b ++ ")")
        = .ok ("(" ++ a ++ " " ++ op ++ " " ++ f ++ "(" ++ b ++ "))\n", [])
    ∧ (operatorPrecedence op).toNat < prec.PREFIX.toNat
    ∧ prec.PREFIX.toNat < prec.CALL.toNat ∧ prec.CALL.toNat < prec.INDEX.toNat := by
  obtain ⟨_, _, _, _, _, _, _, u1, o1⟩ := lex_operator op hop
  obtain ⟨e1, e2, e3, e4, e5⟩ := parseToString_prefix_call_index p op a b c f k hp hop ha hb hc hf
  exact ⟨e1, e2, e3, e4, e5, by rw [o1]; exact u1, by decide, by decide⟩

/-- The theorem for C5 applied to `-a + b`, with the five printed forms
evaluated. -/
theorem prefix_call_index_bind_tighter_witness :
    parseToString 14 ("-" ++ "a" ++ " " ++ "+" ++ " " ++ "b")
        = .ok ("((" ++ "-" ++ "a" ++ ") " ++ "+" ++ " " ++ "b" ++ ")\n", [])
    ∧ parseToString 14 "!a == b" = .ok ("((!a) == b)\n", [])
    ∧ parseToString 14 "-f(a)" = .ok ("(-f(a))\n", [])
    ∧ parseToString 14 "-a[b]" = .ok ("(-(a[b]))\n", [])
    ∧ parseToString 14 "a * b[c]" = .ok ("(a * (b[c]))\n", [])
    ∧ parseToString 14 "a * f(b)" = .ok ("(a * f(b))\n", []) :=
  ⟨(prefix_call_index_bind_tighter "-" "+" "a" "b" "c" "f" 0 (by decide) (by decide) (by decide)
      (by decide) (by decide) (by decide)).1, by decide!, by decide!, by decide!, by decide!,
    by decide!⟩

/-! ## Closure capture on `let f = fn(x){ fn(y){ x+y } }; f(a)(b)` (C2) -/

/-! ## Integer literals: lexing and conversion -/

/-- The code of a digit lies between the codes of `0` and `9`. -/
theorem isDigit_iff (c : Char) : isDigit c = true ↔ 48 ≤ c.toNat ∧ c.toNat ≤ 57 := by
  simp only [isDigit, Bool.and_eq_true, decide_eq_true_eq]
  exact Iff.rfl

/-- A digit is none of the characters `nextToken` tests before its default
branch, no blank and no letter. -/
theorem isDigit_special {c : Char} (h : isDigit c = true) :
    (c ≠ '=' ∧ c ≠ '+' ∧ c ≠ '-' ∧ c ≠ '!' ∧ c ≠ '/' ∧ c ≠ '*' ∧ c ≠ '<' ∧ c ≠ '>' ∧ c ≠ ';'
    ∧ c ≠ ',' ∧ c ≠ ':' ∧ c ≠ '(' ∧ c ≠ ')' ∧ c ≠ '[' ∧ c ≠ ']' ∧ c ≠ '\x7b' ∧ c ≠ '\x7d'
    ∧ c ≠ '"' ∧ c ≠ NUL) ∧ isWhitespace c = false ∧ isLetter c = false := by
  refine ⟨⟨?_, ?_, ?_, ?_, ?_, ?_, ?_, ?_, ?_, ?_, ?_, ?_, ?_, ?_, ?_, ?_, ?_, ?_, ?_⟩, ?_, ?_⟩
  iterate 19 (rintro rfl; revert h; decide)
  · simp only [isWhitespace, Bool.or_eq_false_iff, decide_eq_false_iff_not]
    refine ⟨⟨⟨?_, ?_⟩, ?_⟩, ?_⟩ <;> (rintro rfl; revert h; decide)
  · obtain ⟨h1, h2⟩ := (isDigit_iff c).1 h
    have l1 : ¬ ('a' ≤ c) := fun hle => by
      have : 97 ≤ c.toNat := hle
      omega
    have l2 : ¬ ('A' ≤ c) := fun hle => by
      have : 65 ≤ c.toNat := hle
      omega
    have l3 : c ≠ '_' := by rintro rfl; revert h; decide
    simp [isLetter, l1, l2, l3]

/-- Lexing a digit run that is followed by a character that is no digit. -/
theorem nextToken_number (d0 x : Char) (w post : List Char)
    (h : ∀ c ∈ d0 :: w, isDigit c = true) (hx : isDigit x = false) :
    Lexer.nextToken { ch := d0, rest := w ++ x :: post } =
      ({ type := .INT, literal := String.mk (d0 :: w) }, { ch := x, rest := post }) := by
  have h0 : isDigit d0 = true := h d0 (by simp)
  obtain ⟨⟨h1, h2, h3, h4, h5, h6, h7, h8, h9, h10, h11, h12, h13, h14, h15, h16, h17, h18, h19⟩,
    hw, hl⟩ := isDigit_special h0
  simp [Lexer.nextToken, Lexer.skipWhitespace, skipWhitespaceLoop_of_not_ws _ hw,
    h1, h2, h3, h4, h5, h6, h7, h8, h9, h10, h11, h12, h13, h14, h15, h16, h17, h18, h19, h0, hl,
    Lexer.readNumber, readWhile_run isDigit x post hx w d0 h]

/-- The characters `Nat.digitChar` gives for the values below ten. -/
theorem digitChar_isDigit (m : Nat) (h : m < 10) :
    isDigit (Nat.digitChar m) = true ∧ (Nat.digitChar m).toNat - 48 = m := by
  interval_cases m <;> exact ⟨by decide, by decide⟩

/-- Appending one digit to a digit string. -/
theorem digitsValue_append (ds : List Char) (d : Char) :
    digitsValue (ds ++ [d]) = digitsValue ds * 10 + (d.toNat - 48) := by
  simp [digitsValue, List.foldl_append]

/-- The decimal digits `Nat.toDigitsCore` puts in front of its accumulator. -/
theorem toDigitsCore_spec : ∀ (fuel n : Nat) (acc : List Char), n < fuel →
    ∃ ds, Nat.toDigitsCore 10 fuel n acc = ds ++ acc ∧ ds ≠ [] ∧ (∀ c ∈ ds, isDigit c = true)
      ∧ digitsValue ds = n ∧ (n = 0 → ds = ['0']) := by
  intro fuel
  induction fuel with
  | zero => intro n acc h; omega
  | succ fuel ih =>
    intro n acc h
    obtain ⟨hd, hv⟩ := digitChar_isDigit (n % 10) (Nat.mod_lt _ (by decide))
    by_cases h0 : n / 10 = 0
    · refine ⟨[Nat.digitChar (n % 10)], ?_, by simp, ?_, ?_, ?_⟩
      · simp [Nat.toDigitsCore, h0]
      · intro c hc
        simp only [List.mem_singleton] at hc
        rw [hc]; exact hd
      · simp only [digitsValue, List.foldl_cons, List.foldl_nil, Nat.zero_mul, Nat.zero_add, hv]
        omega
      · intro hn; subst hn; rfl
    · obtain ⟨ds, e, hne, hall, hval, _⟩ := ih (n / 10) (Nat.digitChar (n % 10) :: acc) (by omega)
      refine ⟨ds ++ [Nat.digitChar (n % 10)], ?_, by simp, ?_, ?_, ?_⟩
      · simp [Nat.toDigitsCore, h0, e]
      · intro c hc
        rcases List.mem_append.1 hc with hc | hc
        · exact hall c hc
        · simp only [List.mem_singleton] at hc
          rw [hc]; exact hd
      · rw [digitsValue_append, hval, hv]
        omega
      · intro hn; subst hn; simp at h0

/-- The decimal numeral of `n`: a non-empty digit run whose value is `n`, and
`0` is written `0`. -/
theorem toString_nat_spec (n : Nat) :
    ∃ d0 ds, (toString n).data = d0 :: ds ∧ (∀ c ∈ d0 :: ds, isDigit c = true)
      ∧ String.mk (d0 :: ds) = toString n ∧ digitsValue (d0 :: ds) = n
      ∧ (n = 0 → toString n = "0") := by
  obtain ⟨ds, e, hne, hall, hval, hz⟩ := toDigitsCore_spec (n + 1) n [] (Nat.lt_succ_self n)
  have hdata : (toString n).data = ds := by
    show Nat.toDigits 10 n = ds
    rw [Nat.toDigits, e, List.append_nil]
  cases ds with
  | nil => exact absurd rfl hne
  | cons d0 ds =>
    refine ⟨d0, ds, hdata, hall, ?_, hval, ?_⟩
    · rw [← hdata]
    · intro hn
      have := hz hn
      apply String.ext
      rw [hdata, this]

/-- A decimal numeral of a value that fits `int` is converted to that value. -/
theorem stoi_toString (n : Nat) (h : n ≤ 2147483647) : stoi (toString n) = .ok (Int.ofNat n) := by
  obtain ⟨d0, ds, hdata, hall, _, hval, _⟩ := toString_nat_spec n
  have hall2 : (d0 :: ds).all isDigit = true := List.all_eq_true.2 hall
  simp only [stoi, hdata, hall2, hval, h, ne_eq, reduceCtorEq, not_false_eq_true, and_self,
    ↓reduceIte]

/-- The parser on the closure program `let f = fn(x){ fn(y){ x+y } }; f(a)(b)`, given the
tokens the lexer yields: no error, and the AST below. -/
theorem closure_program_parse (l2 l3 l4 l5 l6 l7 l8 l9 l10 l11 l12 l13 l14 l15 l16 l17 l18 l19 l20 l21 l22 l23 l24 l25 l26 l27 l28 : Lexer)
    (a b : String) (va vb : Int) (E2 : Token)
    (h2 : l2.nextToken = ({ type := .ASSIGN, literal := "=" }, l3))
    (h3 : l3.nextToken = ({ type := .FUNCTION, literal := "fn" }, l4))
    (h4 : l4.nextToken = ({ type := .LPAREN, literal := "(" }, l5))
    (h5 : l5.nextToken = ({ type := .IDENT, literal := "x" }, l6))
    (h6 : l6.nextToken = ({ type := .RPAREN, literal := ")" }, l7))
    (h7 : l7.nextToken = ({ type := .LBRACE, literal := "\x7b" }, l8))
    (h8 : l8.nextToken = ({ type := .FUNCTION, literal := "fn" }, l9))
    (h9 : l9.nextToken = ({ type := .LPAREN, literal := "(" }, l10))
    (h10 : l10.nextToken = ({ type := .IDENT, literal := "y" }, l11))
    (h11 : l11.nextToken = ({ type := .RPAREN, literal := ")" }, l12))
    (h12 : l12.nextToken = ({ type := .LBRACE, literal := "\x7b" }, l13))
    (h13 : l13.nextToken = ({ type := .IDENT, literal := "x" }, l14))
    (h14 : l14.nextToken = ({ type := .PLUS, literal := "+" }, l15))
    (h15 : l15.nextToken = ({ type := .IDENT, literal := "y" }, l16))
    (h16 : l16.nextToken = ({ type := .RBRACE, literal := "\x7d" }, l17))
    (h17 : l17.nextToken = ({ type := .RBRACE, literal := "\x7d" }, l18))
    (h18 : l18.nextToken = ({ type := .SEMICOLON, literal := ";" }, l19))
    (h19 : l19.nextToken = ({ type := .IDENT, literal := "f" }, l20))
    (h20 : l20.nextToken = ({ type := .LPAREN, literal := "(" }, l21))
    (h21 : l21.nextToken = ({ type := .INT, literal := a }, l22))
    (h22 : l22.nextToken = ({ type := .RPAREN, literal := ")" }, l23))
    (h23 : l23.nextToken = ({ type := .LPAREN, literal := "(" }, l24))
    (h24 : l24.nextToken = ({ type := .INT, literal := b }, l25))
    (h25 : l25.nextToken = ({ type := .RPAREN, literal := ")" }, l26))
    (h26 : l26.nextToken = ({ type := .EOF, literal := "" }, l27))
    (h27 : l27.nextToken = (E2, l28))
    (sa : stoi a = .ok va) (sb : stoi b = .ok vb)
    (na : (va = 0 ∧ ¬ a = "0") = False) (nb : (vb = 0 ∧ ¬ b = "0") = False) (k : Nat) :
    parseProgram (k + 20) (Parser.mk l2 [] { type := .LET, literal := "let" } { type := .IDENT, literal := "f" } [])
      = .ok (0, Parser.mk l28 [] { type := .EOF, literal := "" } E2 (closureProgram a b va vb)) := by
  have e0 : precedences .EOF = none := rfl
  have e1 : precedences .SEMICOLON = none := rfl
  have e2 : precedences .RBRACE = none := rfl
  have e3 : precedences .RPAREN = none := rfl
  have e4 : precedences .LBRACE = none := rfl
  have e5 : precedences .PLUS = some .SUM := rfl
  have e6 : precedences .LPAREN = some .CALL := rfl
  have e7 : precedences .IDENT = none := rfl
  have e8 : precedences .INT = none := rfl
  have e9 : infixParseFns .EOF = none := rfl
  have e10 : infixParseFns .SEMICOLON = none := rfl
  have e11 : infixParseFns .RBRACE = none := rfl
  have e12 : infixParseFns .RPAREN = none := rfl
  have e13 : infixParseFns .PLUS = some .parseInfixExpression := rfl
  have e14 : infixParseFns .LPAREN = some .parseCallExpression := rfl
  have e15 : prefixParseFns .IDENT = some .parseIdentifier := rfl
  have e16 : prefixParseFns .INT = some .parseIntegerLiteral := rfl
  have e17 : prefixParseFns .FUNCTION = some .parseFunctionLiteral := rfl
  have q0 : prec.LOWEST.toNat = 0 := rfl
  have q1 : prec.SUM.toNat = 3 := rfl
  have q2 : prec.CALL.toNat = 6 := rfl
  have s1 := @parseIntegerLiteral.eq_1
  have s2 := @parseFunctionParameters.eq_1
  simp only [closureProgram, parseProgram_mk, parseProgramLoop_unfold _ _ _ (Parser.mk _ _ (Token.mk _ _) _ _), parseStatement_unfold _ (Parser.mk _ _ (Token.mk _ _) _ _), parseLetStatement_unfold _ (Parser.mk _ _ (Token.mk _ _) _ _), parseExpressionStatement_unfold _ (Parser.mk _ _ (Token.mk _ _) _ _), parseExpression_unfold _ _ (Parser.mk _ _ (Token.mk _ _) _ _), parseExpressionLoop_unfold _ _ _ (Parser.mk _ _ (Token.mk _ _) _ _), parseInfixExpression_unfold _ _ (Parser.mk _ _ (Token.mk _ _) _ _), parseCallExpression_unfold _ _ (Parser.mk _ _ (Token.mk _ _) _ _), parseExpressionList_unfold _ _ (Parser.mk _ _ (Token.mk _ _) _ _), parseExpressionListLoop_unfold _ _ (Parser.mk _ _ (Token.mk _ _) _ _), parseFunctionLiteral_unfold _ (Parser.mk _ _ (Token.mk _ _) _ _), parseBlockStatement_unfold _ (Parser.mk _ _ (Token.mk _ _) _ _), parseBlockStatementLoop_unfold _ _ _ _ (Parser.mk _ _ (Token.mk _ _) _ _), parseFunctionParametersLoop_unfold _ _ (Parser.mk _ _ (Token.mk _ _) _ _),
    parseIdentifier_mk, Parser.peekTokenIs_mk, Parser.curTokenIs_mk, Parser.make_mk,
    Parser.setNode_mk, Parser.nextToken_mk, Parser.peekPrecedence_mk, Parser.curPrecedence_mk,
    Parser.expectPeek_mk, Option.getD_some, Option.getD_none,
    Res.ok_bind_step, Res.pure_step, reduceCtorEq, ↓reduceIte, decide_False, decide_True,
    Bool.false_eq_true, and_self, and_true, true_and, and_false, false_and, ne_eq,
    not_true_eq_false, not_false_eq_true, not_false_eq_true,
    Nat.lt_irrefl, List.length_nil, List.length_cons, List.length_append, List.nil_append,
    List.cons_append, Nat.reduceAdd, Nat.reduceLT, List.set_cons_zero, List.set_cons_succ,
    Nat.not_lt_zero,
    s1, s2, sa, sb, na, nb, e0, e1, e2, e3, e4, e5, e6, e7, e8, e9, e10, e11, e12, e13, e14, e15, e16, e17, q0, q1, q2,
    h2, h3, h4, h5, h6, h7, h8, h9, h10, h11, h12, h13, h14, h15, h16, h17, h18, h19, h20, h21, h22, h23, h24, h25, h26, h27]

/-- When the parser reports nothing, `start` runs `defineMacros`, `expandMacros` and `eval`
on the parsed program with two fresh environments. -/
theorem start_of_clean_parse (fuel : Nat) (src : String) (ast : Nat) (p : Parser)
    (hp : parseSource fuel src = .ok (ast, p)) (he : p.errors = []) :
    start fuel src =
      (defineMacros ast 1
          { nodes := p.nodes, objects := staticObjects,
            envs := [{ store := [], outer := none }, { store := [], outer := none }], out := [] }
        >>= fun m1 => expandMacros fuel (some ast) 1 m1
        >>= fun x => eval fuel x.1 0 x.2
        >>= fun y => pure (.evaluated y.1 y.2)) := by
  have hlen : (getErrorsFrom 0 ([] : List String)).length = 0 := rfl
  simp only [start, startMacroPass, hp, he, hlen, Res.ok_bind_step, ne_eq, not_true_eq_false,
    ↓reduceIte, Memory.init, Memory.makeEnv, List.length_nil, List.length_cons, List.nil_append,
    List.cons_append, Nat.zero_add]
  generalize defineMacros ast 1 _ = r1
  cases r1 with
  | ok m1 =>
    simp only [Res.ok_bind_step]
    generalize expandMacros fuel (some ast) 1 m1 = r2
    cases r2 <;> rfl
  | crash => rfl
  | fuel => rfl

/-- The macro pass on the closure program: it defines no macro, expands no call and leaves
the memory as it is. -/
theorem closure_program_macro_pass (a b : String) (va vb : Int) (k : Nat) :
    defineMacros 0 1
      { nodes := closureProgram a b va vb, objects := staticObjects,
        envs := [{ store := [], outer := none }, { store := [], outer := none }], out := [] }
      = .ok
      ({ nodes := closureProgram a b va vb, objects := staticObjects,
         envs := [{ store := [], outer := none }, { store := [], outer := none }], out := [] } : Memory)
    ∧ expandMacros (k + 20) (some 0) 1
      { nodes := closureProgram a b va vb, objects := staticObjects,
        envs := [{ store := [], outer := none }, { store := [], outer := none }], out := [] }
      = .ok (some 0,
      { nodes := closureProgram a b va vb, objects := staticObjects,
        envs := [{ store := [], outer := none }, { store := [], outer := none }], out := [] }) := by
  have s0 := @Memory.envGet.eq_1
  have s1 := @Memory.envGetLoop.eq_1
  have s2 := @Memory.envGetLoop.eq_2
  have s3 := @storeFind.eq_1
  have s4 := @storeFind.eq_2
  have s5 := @defineMacros.eq_1
  have s6 := @defineMacrosLoop.eq_1
  have s7 := @defineMacrosLoop.eq_2
  have s8 := @isMacroDefinition.eq_1
  have s9 := @isMacroDefinition.eq_2
  have s10 := @eraseDefinitions.eq_1
  have s11 := @eraseDefinitions.eq_2
  have s12 := @expandMacros.eq_1
  have s13 := @modify.eq_1
  have s14 := @modify.eq_2
  have s15 := @modify.eq_3
  have s16 := @modifySlot.eq_1
  have s17 := @modifySlots.eq_1
  have s18 := @modifySlots.eq_2
  have s19 := @castNode.eq_1
  have s20 := @castNode.eq_2
  have s21 := @MacroCall.eq_1
  have s22 := @MacroCall.eq_2
  have t1 : ∀ t x y, (Node.LetStatement t x y).isA .Statement = true := fun _ _ _ => rfl
  have t2 : ∀ t x, (Node.ExpressionStatement t x).isA .Statement = true := fun _ _ => rfl
  have t3 : ∀ t x y, (Node.FunctionLiteral t x y).isA .Expression = true := fun _ _ _ => rfl
  have t4 : ∀ t x y, (Node.CallExpression t x y).isA .Expression = true := fun _ _ _ => rfl
  have t5 : ∀ t x y z, (Node.InfixExpression t x y z).isA .Expression = true := fun _ _ _ _ => rfl
  have t6 : ∀ t x, (Node.Identifier t x).isA .Expression = true := fun _ _ => rfl
  have t7 : ∀ t x, (Node.Identifier t x).isA .Identifier = true := fun _ _ => rfl
  have t8 : ∀ t x, (Node.BlockStatement t x).isA .BlockStatement = true := fun _ _ => rfl
  constructor <;>
  simp only [closureProgram, staticObjects, s0, s1, s2, s3, s4, s5, s6, s7, s8, s9, s10, s11, s12, s13, s14, s15, s16, s17, s18, s19, s20, s21, s22, t1, t2, t3, t4, t5, t6, t7, t8,
    List.get?_cons_succ, List.get?_cons_zero, Res.ok_bind_step, Res.pure_step,
    List.length_cons, List.length_nil, List.set_cons_zero, List.set_cons_succ,
    List.cons_append, List.nil_append, Nat.reduceAdd, String.reduceEq, reduceCtorEq, ↓reduceIte,
    decide_False, decide_True, Bool.false_eq_true, ne_eq, not_true_eq_false, not_false_eq_true,
    List.getD_cons_zero, List.getD_cons_succ, and_false, false_and, and_true, true_and,
    Nat.reduceLT, Nat.reduceEqDiff, List.getElem?_cons_zero, List.getElem?_cons_succ,
    Option.getD_some, or_self, or_false, false_or, or_true, true_or, List.reverse_nil,
    List.reverse_cons]

/-- The evaluator on the closure program: the outer call binds `x` in a frame of its own,
the inner function captures that frame, and the inner call adds the two arguments. -/
theorem closure_program_eval (a b : String) (va vb : Int) (k : Nat) :
    eval (k + 20) (some 0) 0
      { nodes := closureProgram a b va vb, objects := staticObjects,
        envs := [{ store := [], outer := none }, { store := [], outer := none }], out := [] }
      = .ok (some 13,
        { nodes := closureProgram a b va vb,
          objects := staticObjects ++
            [.Function [some 4] (some 5) 0, .Integer (toInt32 va), .Function [some 8] (some 9) 2,
             .Integer (toInt32 vb), .Integer (toInt32 (toInt32 va + toInt32 vb))],
          envs := [{ store := [("f", some 9)], outer := none }, { store := [], outer := none },
                   { store := [("x", some 10)], outer := some 0 },
                   { store := [("y", some 12)], outer := some 2 }],
          out := [] }) := by
  have s0 := @eval.eq_1
  have s1 := @eval.eq_2
  have s2 := @eval.eq_3
  have s3 := @evalProgram.eq_1
  have s4 := @evalProgramLoop.eq_1
  have s5 := @evalProgramLoop.eq_2
  have s6 := @evalBlockStatement.eq_1
  have s7 := @evalBlockStatementLoop.eq_1
  have s8 := @evalBlockStatementLoop.eq_2
  have s9 := @evalExpressions.eq_1
  have s10 := @evalExpressionsLoop.eq_1
  have s11 := @evalExpressionsLoop.eq_2
  have s12 := @isError.eq_1
  have s13 := @isError.eq_2
  have s14 := @identifierValue.eq_1
  have s15 := @Memory.envSet.eq_1
  have s16 := @Memory.makeObj.eq_1
  have s17 := @Memory.makeEnv.eq_1
  have s18 := @Memory.deref.eq_1
  have s19 := @Memory.deref.eq_2
  have s20 := @Memory.envGet.eq_1
  have s21 := @Memory.envGetLoop.eq_1
  have s22 := @Memory.envGetLoop.eq_2
  have s23 := @derefNode.eq_1
  have s24 := @derefNode.eq_2
  have s25 := @storeAssign.eq_1
  have s26 := @storeAssign.eq_2
  have s27 := @storeFind.eq_1
  have s28 := @storeFind.eq_2
  have s29 := @evalIdentifier.eq_1
  have s30 := @getBuiltin.eq_1
  have s31 := @applyFunction.eq_1
  have s32 := @extendFunctionEnv.eq_1
  have s33 := @bindParameters.eq_1
  have s34 := @bindParameters.eq_2
  have s35 := @vectorAt.eq_1
  have s36 := @unwrapReturnValue.eq_1
  have s37 := @unwrapReturnValue.eq_2
  have s38 := @evalInfixExpression.eq_1
  have s39 := @evalIntegerInfixExpression.eq_1
  have s40 := @bothHaveType.eq_1
  have s41 := @typeOf.eq_1
  have s42 := @Integer.mk.eq_1
  have t1 : ∀ v, (Object.Integer v).type = "INTEGER" := fun _ => rfl
  have t2 : ∀ x y z, (Object.Function x y z).type = "FUNCTION" := fun _ _ _ => rfl
  have t3 : ∀ h t l, TokenLiteral h (.Identifier t l) = .ok t.literal := fun _ _ _ => rfl
  have t4 : ∀ h t x y, TokenLiteral h (.CallExpression t x y) = .ok t.literal := fun _ _ _ _ => rfl
  simp only [closureProgram, staticObjects, s0, s1, s2, s3, s4, s5, s6, s7, s8, s9, s10, s11, s12, s13, s14, s15, s16, s17, s18, s19, s20, s21, s22, s23, s24, s25, s26, s27, s28, s29, s30, s31, s32, s33, s34, s35, s36, s37, s38, s39, s40, s41, s42, t1, t2, t3, t4,
    List.get?_cons_succ, List.get?_cons_zero, Res.ok_bind_step, Res.pure_step,
    List.length_cons, List.length_nil, List.set_cons_zero, List.set_cons_succ,
    List.cons_append, List.nil_append, Nat.reduceAdd, String.reduceEq, reduceCtorEq, ↓reduceIte,
    decide_False, decide_True, Bool.false_eq_true, ne_eq, not_true_eq_false, not_false_eq_true,
    List.getD_cons_zero, List.getD_cons_succ, and_false, false_and, and_true, true_and,
    Nat.reduceLT, Nat.reduceEqDiff, List.getElem?_cons_zero, List.getElem?_cons_succ,
    Option.getD_some, or_self, or_false, false_or, or_true, true_or, List.reverse_nil,
    List.reverse_cons]

/-- C2: for all numbers `a` and `b` from 0 to 1000000, written as decimal numerals, `start`
on `let f = fn(x){ fn(y){ x+y } }; f(a)(b)` (a fresh environment, fuel `k + 20` for every `k`)
reports no parser error and yields the object at address 13 of the final memory, the `Integer`
`a + b`. The inner function is the `Function` object 11, whose captured environment is frame 2,
the frame of the outer call, where `x` is bound to the `Integer` `a`; the inner call runs in
frame 3, which binds `y` to the `Integer` `b` and whose outer link is frame 2, so `x` resolves
there to the argument of the outer call, while the global frame 0 does not bind `x`. -/
theorem closure_captures_outer_binding (a b k : Nat) (ha : a ≤ 1000000) (hb : b ≤ 1000000) :
    ∃ mf : Memory,
      start (k + 20) ("let f = fn(x)\x7b fn(y)\x7b x+y \x7d \x7d; f(" ++ toString a ++ ")(" ++ toString b ++ ")")
        = .ok (.evaluated (some 13) mf)
      ∧ mf.objects.get? 13 = some (.Integer ((a : Int) + (b : Int)))
      ∧ mf.objects.get? 11 = some (.Function [some 8] (some 9) 2)
      ∧ mf.envs.get? 2 = some { store := [("x", some 10)], outer := some 0 }
      ∧ mf.envs.get? 3 = some { store := [("y", some 12)], outer := some 2 }
      ∧ mf.objects.get? 10 = some (.Integer (a : Int))
      ∧ mf.objects.get? 12 = some (.Integer (b : Int))
      ∧ mf.envGet 3 "x" = some 10 ∧ mf.envGet 0 "x" = none := by
  obtain ⟨a0, as, hda, hla, hma, _, hza⟩ := toString_nat_spec a
  obtain ⟨b0, bs, hdb, hlb, hmb, _, hzb⟩ := toString_nat_spec b
  have sa : stoi (toString a) = .ok (Int.ofNat a) := stoi_toString a (by omega)
  have sb : stoi (toString b) = .ok (Int.ofNat b) := stoi_toString b (by omega)
  have na : (Int.ofNat a = 0 ∧ ¬ toString a = "0") = False := by
    simp only [eq_iff_iff, iff_false, not_and, not_not]
    intro h
    exact hza (Int.ofNat_eq_zero.1 h)
  have nb : (Int.ofNat b = 0 ∧ ¬ toString b = "0") = False := by
    simp only [eq_iff_iff, iff_false, not_and, not_not]
    intro h
    exact hzb (Int.ofNat_eq_zero.1 h)
  have hsrc : ("let f = fn(x)\x7b fn(y)\x7b x+y \x7d \x7d; f(" ++ toString a ++ ")(" ++ toString b ++ ")").data
      = 'l' :: 'e' :: 't' :: ' ' :: 'f' :: ' ' :: '=' :: ' ' :: 'f' :: 'n' :: '(' :: 'x' :: ')' :: '\x7b' :: ' ' :: 'f' :: 'n' :: '(' :: 'y' :: ')' :: '\x7b' :: ' ' :: 'x' :: '+' :: 'y' :: ' ' :: '\x7d' :: ' ' :: '\x7d' :: ';' :: ' ' :: 'f' :: '(' :: a0 :: (as ++ ')' :: '(' :: b0 :: (bs ++ [')'])) := by
    simp only [String.data_append, hda, hdb, List.append_assoc, List.cons_append,
      List.nil_append]
  have h0 : Lexer.nextToken { ch := 'l', rest := 'e' :: 't' :: ' ' :: 'f' :: ' ' :: '=' :: ' ' :: 'f' :: 'n' :: '(' :: 'x' :: ')' :: '\x7b' :: ' ' :: 'f' :: 'n' :: '(' :: 'y' :: ')' :: '\x7b' :: ' ' :: 'x' :: '+' :: 'y' :: ' ' :: '\x7d' :: ' ' :: '\x7d' :: ';' :: ' ' :: 'f' :: '(' :: a0 :: (as ++ ')' :: '(' :: b0 :: (bs ++ [')'])) }
      = ({ type := .LET, literal := "let" }, { ch := ' ', rest := 'f' :: ' ' :: '=' :: ' ' :: 'f' :: 'n' :: '(' :: 'x' :: ')' :: '\x7b' :: ' ' :: 'f' :: 'n' :: '(' :: 'y' :: ')' :: '\x7b' :: ' ' :: 'x' :: '+' :: 'y' :: ' ' :: '\x7d' :: ' ' :: '\x7d' :: ';' :: ' ' :: 'f' :: '(' :: a0 :: (as ++ ')' :: '(' :: b0 :: (bs ++ [')'])) }) := rfl
  have h1 : Lexer.nextToken { ch := ' ', rest := 'f' :: ' ' :: '=' :: ' ' :: 'f' :: 'n' :: '(' :: 'x' :: ')' :: '\x7b' :: ' ' :: 'f' :: 'n' :: '(' :: 'y' :: ')' :: '\x7b' :: ' ' :: 'x' :: '+' :: 'y' :: ' ' :: '\x7d' :: ' ' :: '\x7d' :: ';' :: ' ' :: 'f' :: '(' :: a0 :: (as ++ ')' :: '(' :: b0 :: (bs ++ [')'])) }
      = ({ type := .IDENT, literal := "f" }, { ch := ' ', rest := '=' :: ' ' :: 'f' :: 'n' :: '(' :: 'x' :: ')' :: '\x7b' :: ' ' :: 'f' :: 'n' :: '(' :: 'y' :: ')' :: '\x7b' :: ' ' :: 'x' :: '+' :: 'y' :: ' ' :: '\x7d' :: ' ' :: '\x7d' :: ';' :: ' ' :: 'f' :: '(' :: a0 :: (as ++ ')' :: '(' :: b0 :: (bs ++ [')'])) }) := rfl
  have hnew : Parser.new (Lexer.new ('l' :: 'e' :: 't' :: ' ' :: 'f' :: ' ' :: '=' :: ' ' :: 'f' :: 'n' :: '(' :: 'x' :: ')' :: '\x7b' :: ' ' :: 'f' :: 'n' :: '(' :: 'y' :: ')' :: '\x7b' :: ' ' :: 'x' :: '+' :: 'y' :: ' ' :: '\x7d' :: ' ' :: '\x7d' :: ';' :: ' ' :: 'f' :: '(' :: a0 :: (as ++ ')' :: '(' :: b0 :: (bs ++ [')']))))
      = Parser.mk { ch := ' ', rest := '=' :: ' ' :: 'f' :: 'n' :: '(' :: 'x' :: ')' :: '\x7b' :: ' ' :: 'f' :: 'n' :: '(' :: 'y' :: ')' :: '\x7b' :: ' ' :: 'x' :: '+' :: 'y' :: ' ' :: '\x7d' :: ' ' :: '\x7d' :: ';' :: ' ' :: 'f' :: '(' :: a0 :: (as ++ ')' :: '(' :: b0 :: (bs ++ [')'])) } []
          { type := .LET, literal := "let" } { type := .IDENT, literal := "f" } [] := by
    simp only [Parser.new, Lexer.new, Lexer.readChar, Parser.nextToken, h0, h1]
  have h2 : Lexer.nextToken { ch := ' ', rest := '=' :: ' ' :: 'f' :: 'n' :: '(' :: 'x' :: ')' :: '\x7b' :: ' ' :: 'f' :: 'n' :: '(' :: 'y' :: ')' :: '\x7b' :: ' ' :: 'x' :: '+' :: 'y' :: ' ' :: '\x7d' :: ' ' :: '\x7d' :: ';' :: ' ' :: 'f' :: '(' :: a0 :: (as ++ ')' :: '(' :: b0 :: (bs ++ [')'])) }
      = ({ type := .ASSIGN, literal := "=" }, { ch := ' ', rest := 'f' :: 'n' :: '(' :: 'x' :: ')' :: '\x7b' :: ' ' :: 'f' :: 'n' :: '(' :: 'y' :: ')' :: '\x7b' :: ' ' :: 'x' :: '+' :: 'y' :: ' ' :: '\x7d' :: ' ' :: '\x7d' :: ';' :: ' ' :: 'f' :: '(' :: a0 :: (as ++ ')' :: '(' :: b0 :: (bs ++ [')'])) }) := rfl
  have h3 : Lexer.nextToken { ch := ' ', rest := 'f' :: 'n' :: '(' :: 'x' :: ')' :: '\x7b' :: ' ' :: 'f' :: 'n' :: '(' :: 'y' :: ')' :: '\x7b' :: ' ' :: 'x' :: '+' :: 'y' :: ' ' :: '\x7d' :: ' ' :: '\x7d' :: ';' :: ' ' :: 'f' :: '(' :: a0 :: (as ++ ')' :: '(' :: b0 :: (bs ++ [')'])) }
      = ({ type := .FUNCTION, literal := "fn" }, { ch := '(', rest := 'x' :: ')' :: '\x7b' :: ' ' :: 'f' :: 'n' :: '(' :: 'y' :: ')' :: '\x7b' :: ' ' :: 'x' :: '+' :: 'y' :: ' ' :: '\x7d' :: ' ' :: '\x7d' :: ';' :: ' ' :: 'f' :: '(' :: a0 :: (as ++ ')' :: '(' :: b0 :: (bs ++ [')'])) }) := rfl
  have h4 : Lexer.nextToken { ch := '(', rest := 'x' :: ')' :: '\x7b' :: ' ' :: 'f' :: 'n' :: '(' :: 'y' :: ')' :: '\x7b' :: ' ' :: 'x' :: '+' :: 'y' :: ' ' :: '\x7d' :: ' ' :: '\x7d' :: ';' :: ' ' :: 'f' :: '(' :: a0 :: (as ++ ')' :: '(' :: b0 :: (bs ++ [')'])) }
      = ({ type := .LPAREN, literal := "(" }, { ch := 'x', rest := ')' :: '\x7b' :: ' ' :: 'f' :: 'n' :: '(' :: 'y' :: ')' :: '\x7b' :: ' ' :: 'x' :: '+' :: 'y' :: ' ' :: '\x7d' :: ' ' :: '\x7d' :: ';' :: ' ' :: 'f' :: '(' :: a0 :: (as ++ ')' :: '(' :: b0 :: (bs ++ [')'])) }) := rfl
  have h5 : Lexer.nextToken { ch := 'x', rest := ')' :: '\x7b' :: ' ' :: 'f' :: 'n' :: '(' :: 'y' :: ')' :: '\x7b' :: ' ' :: 'x' :: '+' :: 'y' :: ' ' :: '\x7d' :: ' ' :: '\x7d' :: ';' :: ' ' :: 'f' :: '(' :: a0 :: (as ++ ')' :: '(' :: b0 :: (bs ++ [')'])) }
      = ({ type := .IDENT, literal := "x" }, { ch := ')', rest := '\x7b' :: ' ' :: 'f' :: 'n' :: '(' :: 'y' :: ')' :: '\x7b' :: ' ' :: 'x' :: '+' :: 'y' :: ' ' :: '\x7d' :: ' ' :: '\x7d' :: ';' :: ' ' :: 'f' :: '(' :: a0 :: (as ++ ')' :: '(' :: b0 :: (bs ++ [')'])) }) := rfl
  have h6 : Lexer.nextToken { ch := ')', rest := '\x7b' :: ' ' :: 'f' :: 'n' :: '(' :: 'y' :: ')' :: '\x7b' :: ' ' :: 'x' :: '+' :: 'y' :: ' ' :: '\x7d' :: ' ' :: '\x7d' :: ';' :: ' ' :: 'f' :: '(' :: a0 :: (as ++ ')' :: '(' :: b0 :: (bs ++ [')'])) }
      = ({ type := .RPAREN, literal := ")" }, { ch := '\x7b', rest := ' ' :: 'f' :: 'n' :: '(' :: 'y' :: ')' :: '\x7b' :: ' ' :: 'x' :: '+' :: 'y' :: ' ' :: '\x7d' :: ' ' :: '\x7d' :: ';' :: ' ' :: 'f' :: '(' :: a0 :: (as ++ ')' :: '(' :: b0 :: (bs ++ [')'])) }) := rfl
  have h7 : Lexer.nextToken { ch := '\x7b', rest := ' ' :: 'f' :: 'n' :: '(' :: 'y' :: ')' :: '\x7b' :: ' ' :: 'x' :: '+' :: 'y' :: ' ' :: '\x7d' :: ' ' :: '\x7d' :: ';' :: ' ' :: 'f' :: '(' :: a0 :: (as ++ ')' :: '(' :: b0 :: (bs ++ [')'])) }
      = ({ type := .LBRACE, literal := "\x7b" }, { ch := ' ', rest := 'f' :: 'n' :: '(' :: 'y' :: ')' :: '\x7b' :: ' ' :: 'x' :: '+' :: 'y' :: ' ' :: '\x7d' :: ' ' :: '\x7d' :: ';' :: ' ' :: 'f' :: '(' :: a0 :: (as ++ ')' :: '(' :: b0 :: (bs ++ [')'])) }) := rfl
  have h8 : Lexer.nextToken { ch := ' ', rest := 'f' :: 'n' :: '(' :: 'y' :: ')' :: '\x7b' :: ' ' :: 'x' :: '+' :: 'y' :: ' ' :: '\x7d' :: ' ' :: '\x7d' :: ';' :: ' ' :: 'f' :: '(' :: a0 :: (as ++ ')' :: '(' :: b0 :: (bs ++ [')'])) }
      = ({ type := .FUNCTION, literal := "fn" }, { ch := '(', rest := 'y' :: ')' :: '\x7b' :: ' ' :: 'x' :: '+' :: 'y' :: ' ' :: '\x7d' :: ' ' :: '\x7d' :: ';' :: ' ' :: 'f' :: '(' :: a0 :: (as ++ ')' :: '(' :: b0 :: (bs ++ [')'])) }) := rfl
  have h9 : Lexer.nextToken { ch := '(', rest := 'y' :: ')' :: '\x7b' :: ' ' :: 'x' :: '+' :: 'y' :: ' ' :: '\x7d' :: ' ' :: '\x7d' :: ';' :: ' ' :: 'f' :: '(' :: a0 :: (as ++ ')' :: '(' :: b0 :: (bs ++ [')'])) }
      = ({ type := .LPAREN, literal := "(" }, { ch := 'y', rest := ')' :: '\x7b' :: ' ' :: 'x' :: '+' :: 'y' :: ' ' :: '\x7d' :: ' ' :: '\x7d' :: ';' :: ' ' :: 'f' :: '(' :: a0 :: (as ++ ')' :: '(' :: b0 :: (bs ++ [')'])) }) := rfl
  have h10 : Lexer.nextToken { ch := 'y', rest := ')' :: '\x7b' :: ' ' :: 'x' :: '+' :: 'y' :: ' ' :: '\x7d' :: ' ' :: '\x7d' :: ';' :: ' ' :: 'f' :: '(' :: a0 :: (as ++ ')' :: '(' :: b0 :: (bs ++ [')'])) }
      = ({ type := .IDENT, literal := "y" }, { ch := ')', rest := '\x7b' :: ' ' :: 'x' :: '+' :: 'y' :: ' ' :: '\x7d' :: ' ' :: '\x7d' :: ';' :: ' ' :: 'f' :: '(' :: a0 :: (as ++ ')' :: '(' :: b0 :: (bs ++ [')'])) }) := rfl
  have h11 : Lexer.nextToken { ch := ')', rest := '\x7b' :: ' ' :: 'x' :: '+' :: 'y' :: ' ' :: '\x7d' :: ' ' :: '\x7d' :: ';' :: ' ' :: 'f' :: '(' :: a0 :: (as ++ ')' :: '(' :: b0 :: (bs ++ [')'])) }
      = ({ type := .RPAREN, literal := ")" }, { ch := '\x7b', rest := ' ' :: 'x' :: '+' :: 'y' :: ' ' :: '\x7d' :: ' ' :: '\x7d' :: ';' :: ' ' :: 'f' :: '(' :: a0 :: (as ++ ')' :: '(' :: b0 :: (bs ++ [')'])) }) := rfl
  have h12 : Lexer.nextToken { ch := '\x7b', rest := ' ' :: 'x' :: '+' :: 'y' :: ' ' :: '\x7d' :: ' ' :: '\x7d' :: ';' :: ' ' :: 'f' :: '(' :: a0 :: (as ++ ')' :: '(' :: b0 :: (bs ++ [')'])) }
      = ({ type := .LBRACE, literal := "\x7b" }, { ch := ' ', rest := 'x' :: '+' :: 'y' :: ' ' :: '\x7d' :: ' ' :: '\x7d' :: ';' :: ' ' :: 'f' :: '(' :: a0 :: (as ++ ')' :: '(' :: b0 :: (bs ++ [')'])) }) := rfl
  have h13 : Lexer.nextToken { ch := ' ', rest := 'x' :: '+' :: 'y' :: ' ' :: '\x7d' :: ' ' :: '\x7d' :: ';' :: ' ' :: 'f' :: '(' :: a0 :: (as ++ ')' :: '(' :: b0 :: (bs ++ [')'])) }
      = ({ type := .IDENT, literal := "x" }, { ch := '+', rest := 'y' :: ' ' :: '\x7d' :: ' ' :: '\x7d' :: ';' :: ' ' :: 'f' :: '(' :: a0 :: (as ++ ')' :: '(' :: b0 :: (bs ++ [')'])) }) := rfl
  have h14 : Lexer.nextToken { ch := '+', rest := 'y' :: ' ' :: '\x7d' :: ' ' :: '\x7d' :: ';' :: ' ' :: 'f' :: '(' :: a0 :: (as ++ ')' :: '(' :: b0 :: (bs ++ [')'])) }
      = ({ type := .PLUS, literal := "+" }, { ch := 'y', rest := ' ' :: '\x7d' :: ' ' :: '\x7d' :: ';' :: ' ' :: 'f' :: '(' :: a0 :: (as ++ ')' :: '(' :: b0 :: (bs ++ [')'])) }) := rfl
  have h15 : Lexer.nextToken { ch := 'y', rest := ' ' :: '\x7d' :: ' ' :: '\x7d' :: ';' :: ' ' :: 'f' :: '(' :: a0 :: (as ++ ')' :: '(' :: b0 :: (bs ++ [')'])) }
      = ({ type := .IDENT, literal := "y" }, { ch := ' ', rest := '\x7d' :: ' ' :: '\x7d' :: ';' :: ' ' :: 'f' :: '(' :: a0 :: (as ++ ')' :: '(' :: b0 :: (bs ++ [')'])) }) := rfl
  have h16 : Lexer.nextToken { ch := ' ', rest := '\x7d' :: ' ' :: '\x7d' :: ';' :: ' ' :: 'f' :: '(' :: a0 :: (as ++ ')' :: '(' :: b0 :: (bs ++ [')'])) }
      = ({ type := .RBRACE, literal := "\x7d" }, { ch := ' ', rest := '\x7d' :: ';' :: ' ' :: 'f' :: '(' :: a0 :: (as ++ ')' :: '(' :: b0 :: (bs ++ [')'])) }) := rfl
  have h17 : Lexer.nextToken { ch := ' ', rest := '\x7d' :: ';' :: ' ' :: 'f' :: '(' :: a0 :: (as ++ ')' :: '(' :: b0 :: (bs ++ [')'])) }
      = ({ type := .RBRACE, literal := "\x7d" }, { ch := ';', rest := ' ' :: 'f' :: '(' :: a0 :: (as ++ ')' :: '(' :: b0 :: (bs ++ [')'])) }) := rfl
  have h18 : Lexer.nextToken { ch := ';', rest := ' ' :: 'f' :: '(' :: a0 :: (as ++ ')' :: '(' :: b0 :: (bs ++ [')'])) }
      = ({ type := .SEMICOLON, literal := ";" }, { ch := ' ', rest := 'f' :: '(' :: a0 :: (as ++ ')' :: '(' :: b0 :: (bs ++ [')'])) }) := rfl
  have h19 : Lexer.nextToken { ch := ' ', rest := 'f' :: '(' :: a0 :: (as ++ ')' :: '(' :: b0 :: (bs ++ [')'])) }
      = ({ type := .IDENT, literal := "f" }, { ch := '(', rest := a0 :: (as ++ ')' :: '(' :: b0 :: (bs ++ [')'])) }) := rfl
  have h20 : Lexer.nextToken { ch := '(', rest := a0 :: (as ++ ')' :: '(' :: b0 :: (bs ++ [')'])) }
      = ({ type := .LPAREN, literal := "(" }, { ch := a0, rest := (as ++ ')' :: '(' :: b0 :: (bs ++ [')'])) }) := rfl
  have h21 : Lexer.nextToken { ch := a0, rest := (as ++ ')' :: '(' :: b0 :: (bs ++ [')'])) }
      = ({ type := .INT, literal := toString a }, { ch := ')', rest := '(' :: b0 :: (bs ++ [')']) }) := by
    rw [← hma]
    exact nextToken_number a0 ')' as _ hla (by decide)
  have h22 : Lexer.nextToken { ch := ')', rest := '(' :: b0 :: (bs ++ [')']) }
      = ({ type := .RPAREN, literal := ")" }, { ch := '(', rest := b0 :: (bs ++ [')']) }) := rfl
  have h23 : Lexer.nextToken { ch := '(', rest := b0 :: (bs ++ [')']) }
      = ({ type := .LPAREN, literal := "(" }, { ch := b0, rest := bs ++ [')'] }) := rfl
  have h24 : Lexer.nextToken { ch := b0, rest := bs ++ [')'] }
      = ({ type := .INT, literal := toString b }, { ch := ')', rest := [] }) := by
    rw [← hmb]
    exact nextToken_number b0 ')' bs [] hlb (by decide)
  have h25 : Lexer.nextToken { ch := ')', rest := [] }
      = ({ type := .RPAREN, literal := ")" }, { ch := NUL, rest := [] }) := rfl
  have hp := closure_program_parse _ _ _ _ _ _ _ _ _ _ _ _ _ _ _ _ _ _ _ _ _ _ _ _ _ _ _ (toString a) (toString b) (Int.ofNat a) (Int.ofNat b) _
    h2 h3 h4 h5 h6 h7 h8 h9 h10 h11 h12 h13 h14 h15 h16 h17 h18 h19 h20 h21 h22 h23 h24 h25 nextToken_eof nextToken_eof sa sb na nb k
  have hparse : parseSource (k + 20) ("let f = fn(x)\x7b fn(y)\x7b x+y \x7d \x7d; f(" ++ toString a ++ ")(" ++ toString b ++ ")")
      = .ok (0, Parser.mk { ch := NUL, rest := [] } [] { type := .EOF, literal := "" }
          { type := .EOF, literal := "" }
          (closureProgram (toString a) (toString b) (Int.ofNat a) (Int.ofNat b))) := by
    simp only [parseSource, hsrc, hnew]
    exact hp
  have hta : toInt32 (Int.ofNat a) = (a : Int) := by
    simp only [toInt32, Int.ofNat_eq_coe]
    omega
  have htb : toInt32 (Int.ofNat b) = (b : Int) := by
    simp only [toInt32, Int.ofNat_eq_coe]
    omega
  have hab : toInt32 ((a : Int) + (b : Int)) = (a : Int) + (b : Int) := by
    simp only [toInt32]
    omega
  obtain ⟨hm1, hm2⟩ := closure_program_macro_pass (toString a) (toString b) (Int.ofNat a) (Int.ofNat b) k
  have hev := closure_program_eval (toString a) (toString b) (Int.ofNat a) (Int.ofNat b) k
  have hrun : start (k + 20) ("let f = fn(x)\x7b fn(y)\x7b x+y \x7d \x7d; f(" ++ toString a ++ ")(" ++ toString b ++ ")")
      = .ok (.evaluated (some 13)
        { nodes := closureProgram (toString a) (toString b) (Int.ofNat a) (Int.ofNat b),
          objects := staticObjects ++
            [.Function [some 4] (some 5) 0, .Integer (toInt32 (Int.ofNat a)), .Function [some 8] (some 9) 2,
             .Integer (toInt32 (Int.ofNat b)), .Integer (toInt32 (toInt32 (Int.ofNat a) + toInt32 (Int.ofNat b)))],
          envs := [{ store := [("f", some 9)], outer := none }, { store := [], outer := none },
                   { store := [("x", some 10)], outer := some 0 },
                   { store := [("y", some 12)], outer := some 2 }],
          out := [] }) := by
    rw [start_of_clean_parse _ _ _ _ hparse rfl]
    simp only [hm1, hm2, hev, Res.ok_bind_step, Res.pure_step]
  refine ⟨_, hrun, ?_⟩
  have s1 := @Memory.envGet.eq_1
  have s2 := @Memory.envGetLoop.eq_2
  have s3 := @storeFind.eq_1
  have s4 := @storeFind.eq_2
  simp only [hta, htb, hab, staticObjects, s1, s2, s3, s4, List.cons_append, List.nil_append,
    List.get?_cons_succ, List.get?_cons_zero, Nat.reduceAdd, String.reduceEq, ↓reduceIte,
    and_self]

/-- The theorem for C2 applied to `a = 2`, `b = 3`, and the run of `start` on
`let f = fn(x){ fn(y){ x+y } }; f(2)(3)`: it yields the `Integer` 5. -/
theorem closure_captures_outer_binding_witness :
    (∃ mf : Memory,
      start 20 ("let f = fn(x)\x7b fn(y)\x7b x+y \x7d \x7d; f(" ++ toString 2 ++ ")(" ++ toString 3 ++ ")")
        = .ok (.evaluated (some 13) mf)
      ∧ mf.objects.get? 13 = some (.Integer (((2 : Nat) : Int) + ((3 : Nat) : Int))))
    ∧ (start 20 "let f = fn(x)\x7b fn(y)\x7b x+y \x7d \x7d; f(2)(3)").bind (fun run =>
        match run with
        | .evaluated r mf => .ok (r.bind mf.objects.get?)
        | .parserErrors _ => .crash) = .ok (some (.Integer 5)) :=
  ⟨(closure_captures_outer_binding 2 3 0 (by decide) (by decide)).imp
      (fun _ h => ⟨h.1, h.2.1⟩), by decide!⟩

/-! ## Parsing the printed text of an AST again (C7) -/

/-- Parsing `((a op1 b) op2 c)`. -/
theorem parse_printed_left_nested (l2 l3 l4 l5 l6 l7 l8 l9 l10 l11 : Lexer) (a b c op1 op2 : String) (t1 t2 : TokenType) (q1 q2 : prec) (E2 : Token)
    (h2 : l2.nextToken = ({ type := .IDENT, literal := a }, l3))
    (h3 : l3.nextToken = ({ type := t1, literal := op1 }, l4))
    (h4 : l4.nextToken = ({ type := .IDENT, literal := b }, l5))
    (h5 : l5.nextToken = ({ type := .RPAREN, literal := ")" }, l6))
    (h6 : l6.nextToken = ({ type := t2, literal := op2 }, l7))
    (h7 : l7.nextToken = ({ type := .IDENT, literal := c }, l8))
    (h8 : l8.nextToken = ({ type := .RPAREN, literal := ")" }, l9))
    (h9 : l9.nextToken = ({ type := .EOF, literal := "" }, l10))
    (h10 : l10.nextToken = (E2, l11))
    (i1 : infixParseFns t1 = some .parseInfixExpression) (p1 : precedences t1 = some q1)
    (n1 : t1 ≠ .SEMICOLON) (z1 : 0 < q1.toNat) (u1 : q1.toNat < 5)
    (i2 : infixParseFns t2 = some .parseInfixExpression) (p2 : precedences t2 = some q2)
    (n2 : t2 ≠ .SEMICOLON) (z2 : 0 < q2.toNat) (u2 : q2.toNat < 5)
    (k : Nat) :
    parseProgram (k + 16) (Parser.mk l2 [] { type := .LPAREN, literal := "(" } { type := .LPAREN, literal := "(" } [])
      = .ok (0, Parser.mk l11 [] { type := .EOF, literal := "" } E2
          [.Program [some 1],
           .ExpressionStatement { type := .LPAREN, literal := "(" } (some 5),
           .Identifier { type := .IDENT, literal := a } a,
           .InfixExpression { type := t1, literal := op1 } (some 2) op1 (some 4),
           .Identifier { type := .IDENT, literal := b } b,
           .InfixExpression { type := t2, literal := op2 } (some 3) op2 (some 6),
           .Identifier { type := .IDENT, literal := c } c]) := by
  have e1 : precedences .EOF = none := rfl
  have e2 : infixParseFns .EOF = none := rfl
  have e3 : prefixParseFns .IDENT = some .parseIdentifier := rfl
  have e4 : prec.LOWEST.toNat = 0 := rfl
  have e5 : prec.PREFIX.toNat = 5 := rfl
  have e6 : precedences .LPAREN = some .CALL := rfl
  have e7 : precedences .LBRACKET = some .INDEX := rfl
  have e8 : prec.CALL.toNat = 6 := rfl
  have e9 : prec.INDEX.toNat = 7 := rfl
  have e10 : infixParseFns .LPAREN = some .parseCallExpression := rfl
  have e11 : infixParseFns .LBRACKET = some .parseIndexExpression := rfl
  have e12 : precedences .RPAREN = none := rfl
  have e13 : precedences .RBRACKET = none := rfl
  have e14 : prefixParseFns .MINUS = some .parsePrefixExpression := rfl
  have e15 : prefixParseFns .BANG = some .parsePrefixExpression := rfl
  have e16 : prefixParseFns .LPAREN = some .parseGroupedExpression := rfl
  have e17 : infixParseFns .RPAREN = none := rfl
  have e18 : infixParseFns .RBRACKET = none := rfl
  have w1a : q1.toNat < 6 := by omega
  have w1b : q1.toNat < 7 := by omega
  have w1c : ¬ 5 < q1.toNat := by omega
  have w2a : q2.toNat < 6 := by omega
  have w2b : q2.toNat < 7 := by omega
  have w2c : ¬ 5 < q2.toNat := by omega
  simp only [parseProgram_mk, parseProgramLoop_unfold _ _ _ (Parser.mk _ _ (Token.mk _ _) _ _),
    parseStatement_unfold _ (Parser.mk _ _ (Token.mk _ _) _ _), parseExpressionStatement_unfold _ (Parser.mk _ _ (Token.mk _ _) _ _),
    parseExpression_unfold _ _ (Parser.mk _ _ (Token.mk _ _) _ _),
    parseExpressionLoop_unfold _ _ _ (Parser.mk _ _ (Token.mk _ _) _ _),
    parseInfixExpression_unfold _ _ (Parser.mk _ _ (Token.mk _ _) _ _),
    parsePrefixExpression_unfold _ (Parser.mk _ _ (Token.mk _ _) _ _),
    parseGroupedExpression_unfold _ (Parser.mk _ _ (Token.mk _ _) _ _),
    parseCallExpression_unfold _ _ (Parser.mk _ _ (Token.mk _ _) _ _),
    parseIndexExpression_unfold _ _ (Parser.mk _ _ (Token.mk _ _) _ _),
    parseExpressionList_unfold _ _ (Parser.mk _ _ (Token.mk _ _) _ _),
    parseExpressionListLoop_unfold _ _ (Parser.mk _ _ (Token.mk _ _) _ _),
    parseIdentifier_mk, Parser.peekTokenIs_mk, Parser.curTokenIs_mk, Parser.make_mk,
    Parser.setNode_mk, Parser.nextToken_mk, Parser.peekPrecedence_mk, Parser.curPrecedence_mk,
    Parser.expectPeek_mk, Option.getD_some, Option.getD_none,
    Res.ok_bind_step, Res.pure_step, reduceCtorEq, ↓reduceIte, decide_False, decide_True,
    Bool.false_eq_true, and_self, and_true, true_and, and_false, false_and, ne_eq,
    not_true_eq_false, not_false_eq_true,
    Nat.lt_irrefl, List.length_nil, List.length_cons, List.length_append, List.nil_append,
    List.cons_append, Nat.reduceAdd, Nat.reduceLT, List.set_cons_zero, List.set_cons_succ,
    Nat.not_lt_zero,
    e1, e2, e3, e4, e5, e6, e7, e8, e9, e10, e11, e12, e13, e14, e15, e16, e17, e18, h2, h3, h4, h5, h6, h7, h8, h9, h10, i1, p1, n1, z1, i2, p2, n2, z2, w1a, w1b, w1c, w2a, w2b, w2c]

/-- Parsing `(a op1 (b op2 c))`. -/
theorem parse_printed_right_nested (l2 l3 l4 l5 l6 l7 l8 l9 l10 l11 : Lexer) (a b c op1 op2 : String) (t1 t2 : TokenType) (q1 q2 : prec) (E2 : Token)
    (h2 : l2.nextToken = ({ type := t1, literal := op1 }, l3))
    (h3 : l3.nextToken = ({ type := .LPAREN, literal := "(" }, l4))
    (h4 : l4.nextToken = ({ type := .IDENT, literal := b }, l5))
    (h5 : l5.nextToken = ({ type := t2, literal := op2 }, l6))
    (h6 : l6.nextToken = ({ type := .IDENT, literal := c }, l7))
    (h7 : l7.nextToken = ({ type := .RPAREN, literal := ")" }, l8))
    (h8 : l8.nextToken = ({ type := .RPAREN, literal := ")" }, l9))
    (h9 : l9.nextToken = ({ type := .EOF, literal := "" }, l10))
    (h10 : l10.nextToken = (E2, l11))
    (i1 : infixParseFns t1 = some .parseInfixExpression) (p1 : precedences t1 = some q1)
    (n1 : t1 ≠ .SEMICOLON) (z1 : 0 < q1.toNat) (u1 : q1.toNat < 5)
    (i2 : infixParseFns t2 = some .parseInfixExpression) (p2 : precedences t2 = some q2)
    (n2 : t2 ≠ .SEMICOLON) (z2 : 0 < q2.toNat) (u2 : q2.toNat < 5)
    (k : Nat) :
    parseProgram (k + 16) (Parser.mk l2 [] { type := .LPAREN, literal := "(" } { type := .IDENT, literal := a } [])
      = .ok (0, Parser.mk l11 [] { type := .EOF, literal := "" } E2
          [.Program [some 1],
           .ExpressionStatement { type := .LPAREN, literal := "(" } (some 3),
           .Identifier { type := .IDENT, literal := a } a,
           .InfixExpression { type := t1, literal := op1 } (some 2) op1 (some 5),
           .Identifier { type := .IDENT, literal := b } b,
           .InfixExpression { type := t2, literal := op2 } (some 4) op2 (some 6),
           .Identifier { type := .IDENT, literal := c } c]) := by
  have e1 : precedences .EOF = none := rfl
  have e2 : infixParseFns .EOF = none := rfl
  have e3 : prefixParseFns .IDENT = some .parseIdentifier := rfl
  have e4 : prec.LOWEST.toNat = 0 := rfl
  have e5 : prec.PREFIX.toNat = 5 := rfl
  have e6 : precedences .LPAREN = some .CALL := rfl
  have e7 : precedences .LBRACKET = some .INDEX := rfl
  have e8 : prec.CALL.toNat = 6 := rfl
  have e9 : prec.INDEX.toNat = 7 := rfl
  have e10 : infixParseFns .LPAREN = some .parseCallExpression := rfl
  have e11 : infixParseFns .LBRACKET = some .parseIndexExpression := rfl
  have e12 : precedences .RPAREN = none := rfl
  have e13 : precedences .RBRACKET = none := rfl
  have e14 : prefixParseFns .MINUS = some .parsePrefixExpression := rfl
  have e15 : prefixParseFns .BANG = some .parsePrefixExpression := rfl
  have e16 : prefixParseFns .LPAREN = some .parseGroupedExpression := rfl
  have e17 : infixParseFns .RPAREN = none := rfl
  have e18 : infixParseFns .RBRACKET = none := rfl
  have w1a : q1.toNat < 6 := by omega
  have w1b : q1.toNat < 7 := by omega
  have w1c : ¬ 5 < q1.toNat := by omega
  have w2a : q2.toNat < 6 := by omega
  have w2b : q2.toNat < 7 := by omega
  have w2c : ¬ 5 < q2.toNat := by omega
  simp only [parseProgram_mk, parseProgramLoop_unfold _ _ _ (Parser.mk _ _ (Token.mk _ _) _ _),
    parseStatement_unfold _ (Parser.mk _ _ (Token.mk _ _) _ _), parseExpressionStatement_unfold _ (Parser.mk _ _ (Token.mk _ _) _ _),
    parseExpression_unfold _ _ (Parser.mk _ _ (Token.mk _ _) _ _),
    parseExpressionLoop_unfold _ _ _ (Parser.mk _ _ (Token.mk _ _) _ _),
    parseInfixExpression_unfold _ _ (Parser.mk _ _ (Token.mk _ _) _ _),
    parsePrefixExpression_unfold _ (Parser.mk _ _ (Token.mk _ _) _ _),
    parseGroupedExpression_unfold _ (Parser.mk _ _ (Token.mk _ _) _ _),
    parseCallExpression_unfold _ _ (Parser.mk _ _ (Token.mk _ _) _ _),
    parseIndexExpression_unfold _ _ (Parser.mk _ _ (Token.mk _ _) _ _),
    parseExpressionList_unfold _ _ (Parser.mk _ _ (Token.mk _ _) _ _),
    parseExpressionListLoop_unfold _ _ (Parser.mk _ _ (Token.mk _ _) _ _),
    parseIdentifier_mk, Parser.peekTokenIs_mk, Parser.curTokenIs_mk, Parser.make_mk,
    Parser.setNode_mk, Parser.nextToken_mk, Parser.peekPrecedence_mk, Parser.curPrecedence_mk,
    Parser.expectPeek_mk, Option.getD_some, Option.getD_none,
    Res.ok_bind_step, Res.pure_step, reduceCtorEq, ↓reduceIte, decide_False, decide_True,
    Bool.false_eq_true, and_self, and_true, true_and, and_false, false_and, ne_eq,
    not_true_eq_false, not_false_eq_true,
    Nat.lt_irrefl, List.length_nil, List.length_cons, List.length_append, List.nil_append,
    List.cons_append, Nat.reduceAdd, Nat.reduceLT, List.set_cons_zero, List.set_cons_succ,
    Nat.not_lt_zero,
    e1, e2, e3, e4, e5, e6, e7, e8, e9, e10, e11, e12, e13, e14, e15, e16, e17, e18, h2, h3, h4, h5, h6, h7, h8, h9, h10, i1, p1, n1, z1, i2, p2, n2, z2, w1a, w1b, w1c, w2a, w2b, w2c]

/-- Parsing `((pa) op1 b)`. -/
theorem parse_printed_prefix_operand (l2 l3 l4 l5 l6 l7 l8 l9 l10 : Lexer) (a b op1 p : String) (t1 tp : TokenType) (q1 : prec) (E2 : Token)
    (h2 : l2.nextToken = ({ type := tp, literal := p }, l3))
    (h3 : l3.nextToken = ({ type := .IDENT, literal := a }, l4))
    (h4 : l4.nextToken = ({ type := .RPAREN, literal := ")" }, l5))
    (h5 : l5.nextToken = ({ type := t1, literal := op1 }, l6))
    (h6 : l6.nextToken = ({ type := .IDENT, literal := b }, l7))
    (h7 : l7.nextToken = ({ type := .RPAREN, literal := ")" }, l8))
    (h8 : l8.nextToken = ({ type := .EOF, literal := "" }, l9))
    (h9 : l9.nextToken = (E2, l10))
    (ip : tp = .MINUS ∨ tp = .BANG)
    (i1 : infixParseFns t1 = some .parseInfixExpression) (p1 : precedences t1 = some q1)
    (n1 : t1 ≠ .SEMICOLON) (z1 : 0 < q1.toNat) (u1 : q1.toNat < 5)
    (k : Nat) :
    parseProgram (k + 16) (Parser.mk l2 [] { type := .LPAREN, literal := "(" } { type := .LPAREN, literal := "(" } [])
      = .ok (0, Parser.mk l10 [] { type := .EOF, literal := "" } E2
          [.Program [some 1],
           .ExpressionStatement { type := .LPAREN, literal := "(" } (some 4),
           .PrefixExpression { type := tp, literal := p } p (some 3),
           .Identifier { type := .IDENT, literal := a } a,
           .InfixExpression { type := t1, literal := op1 } (some 2) op1 (some 5),
           .Identifier { type := .IDENT, literal := b } b]) := by
  have e1 : precedences .EOF = none := rfl
  have e2 : infixParseFns .EOF = none := rfl
  have e3 : prefixParseFns .IDENT = some .parseIdentifier := rfl
  have e4 : prec.LOWEST.toNat = 0 := rfl
  have e5 : prec.PREFIX.toNat = 5 := rfl
  have e6 : precedences .LPAREN = some .CALL := rfl
  have e7 : precedences .LBRACKET = some .INDEX := rfl
  have e8 : prec.CALL.toNat = 6 := rfl
  have e9 : prec.INDEX.toNat = 7 := rfl
  have e10 : infixParseFns .LPAREN = some .parseCallExpression := rfl
  have e11 : infixParseFns .LBRACKET = some .parseIndexExpression := rfl
  have e12 : precedences .RPAREN = none := rfl
  have e13 : precedences .RBRACKET = none := rfl
  have e14 : prefixParseFns .MINUS = some .parsePrefixExpression := rfl
  have e15 : prefixParseFns .BANG = some .parsePrefixExpression := rfl
  have e16 : prefixParseFns .LPAREN = some .parseGroupedExpression := rfl
  have e17 : infixParseFns .RPAREN = none := rfl
  have e18 : infixParseFns .RBRACKET = none := rfl
  have w1a : q1.toNat < 6 := by omega
  have w1b : q1.toNat < 7 := by omega
  have w1c : ¬ 5 < q1.toNat := by omega
  rcases ip with rfl | rfl <;>
  simp only [parseProgram_mk, parseProgramLoop_unfold _ _ _ (Parser.mk _ _ (Token.mk _ _) _ _),
    parseStatement_unfold _ (Parser.mk _ _ (Token.mk _ _) _ _), parseExpressionStatement_unfold _ (Parser.mk _ _ (Token.mk _ _) _ _),
    parseExpression_unfold _ _ (Parser.mk _ _ (Token.mk _ _) _ _),
    parseExpressionLoop_unfold _ _ _ (Parser.mk _ _ (Token.mk _ _) _ _),
    parseInfixExpression_unfold _ _ (Parser.mk _ _ (Token.mk _ _) _ _),
    parsePrefixExpression_unfold _ (Parser.mk _ _ (Token.mk _ _) _ _),
    parseGroupedExpression_unfold _ (Parser.mk _ _ (Token.mk _ _) _ _),
    parseCallExpression_unfold _ _ (Parser.mk _ _ (Token.mk _ _) _ _),
    parseIndexExpression_unfold _ _ (Parser.mk _ _ (Token.mk _ _) _ _),
    parseExpressionList_unfold _ _ (Parser.mk _ _ (Token.mk _ _) _ _),
    parseExpressionListLoop_unfold _ _ (Parser.mk _ _ (Token.mk _ _) _ _),
    parseIdentifier_mk, Parser.peekTokenIs_mk, Parser.curTokenIs_mk, Parser.make_mk,
    Parser.setNode_mk, Parser.nextToken_mk, Parser.peekPrecedence_mk, Parser.curPrecedence_mk,
    Parser.expectPeek_mk, Option.getD_some, Option.getD_none,
    Res.ok_bind_step, Res.pure_step, reduceCtorEq, ↓reduceIte, decide_False, decide_True,
    Bool.false_eq_true, and_self, and_true, true_and, and_false, false_and, ne_eq,
    not_true_eq_false, not_false_eq_true,
    Nat.lt_irrefl, List.length_nil, List.length_cons, List.length_append, List.nil_append,
    List.cons_append, Nat.reduceAdd, Nat.reduceLT, List.set_cons_zero, List.set_cons_succ,
    Nat.not_lt_zero,
    e1, e2, e3, e4, e5, e6, e7, e8, e9, e10, e11, e12, e13, e14, e15, e16, e17, e18, h2, h3, h4, h5, h6, h7, h8, h9, i1, p1, n1, z1, w1a, w1b, w1c]

/-- Parsing `(-f(a))`. -/
theorem parse_printed_prefix_call (l2 l3 l4 l5 l6 l7 l8 l9 : Lexer) (f a : String) (E2 : Token)
    (h2 : l2.nextToken = ({ type := .IDENT, literal := f }, l3))
    (h3 : l3.nextToken = ({ type := .LPAREN, literal := "(" }, l4))
    (h4 : l4.nextToken = ({ type := .IDENT, literal := a }, l5))
    (h5 : l5.nextToken = ({ type := .RPAREN, literal := ")" }, l6))
    (h6 : l6.nextToken = ({ type := .RPAREN, literal := ")" }, l7))
    (h7 : l7.nextToken = ({ type := .EOF, literal := "" }, l8))
    (h8 : l8.nextToken = (E2, l9))
    (k : Nat) :
    parseProgram (k + 16) (Parser.mk l2 [] { type := .LPAREN, literal := "(" } { type := .MINUS, literal := "-" } [])
      = .ok (0, Parser.mk l9 [] { type := .EOF, literal := "" } E2
          [.Program [some 1],
           .ExpressionStatement { type := .LPAREN, literal := "(" } (some 2),
           .PrefixExpression { type := .MINUS, literal := "-" } "-" (some 4),
           .Identifier { type := .IDENT, literal := f } f,
           .CallExpression { type := .LPAREN, literal := "(" } (some 3) [some 5],
           .Identifier { type := .IDENT, literal := a } a]) := by
  have e1 : precedences .EOF = none := rfl
  have e2 : infixParseFns .EOF = none := rfl
  have e3 : prefixParseFns .IDENT = some .parseIdentifier := rfl
  have e4 : prec.LOWEST.toNat = 0 := rfl
  have e5 : prec.PREFIX.toNat = 5 := rfl
  have e6 : precedences .LPAREN = some .CALL := rfl
  have e7 : precedences .LBRACKET = some .INDEX := rfl
  have e8 : prec.CALL.toNat = 6 := rfl
  have e9 : prec.INDEX.toNat = 7 := rfl
  have e10 : infixParseFns .LPAREN = some .parseCallExpression := rfl
  have e11 : infixParseFns .LBRACKET = some .parseIndexExpression := rfl
  have e12 : precedences .RPAREN = none := rfl
  have e13 : precedences .RBRACKET = none := rfl
  have e14 : prefixParseFns .MINUS = some .parsePrefixExpression := rfl
  have e15 : prefixParseFns .BANG = some .parsePrefixExpression := rfl
  have e16 : prefixParseFns .LPAREN = some .parseGroupedExpression := rfl
  have e17 : infixParseFns .RPAREN = none := rfl
  have e18 : infixParseFns .RBRACKET = none := rfl
  simp only [parseProgram_mk, parseProgramLoop_unfold _ _ _ (Parser.mk _ _ (Token.mk _ _) _ _),
    parseStatement_unfold _ (Parser.mk _ _ (Token.mk _ _) _ _), parseExpressionStatement_unfold _ (Parser.mk _ _ (Token.mk _ _) _ _),
    parseExpression_unfold _ _ (Parser.mk _ _ (Token.mk _ _) _ _),
    parseExpressionLoop_unfold _ _ _ (Parser.mk _ _ (Token.mk _ _) _ _),
    parseInfixExpression_unfold _ _ (Parser.mk _ _ (Token.mk _ _) _ _),
    parsePrefixExpression_unfold _ (Parser.mk _ _ (Token.mk _ _) _ _),
    parseGroupedExpression_unfold _ (Parser.mk _ _ (Token.mk _ _) _ _),
    parseCallExpression_unfold _ _ (Parser.mk _ _ (Token.mk _ _) _ _),
    parseIndexExpression_unfold _ _ (Parser.mk _ _ (Token.mk _ _) _ _),
    parseExpressionList_unfold _ _ (Parser.mk _ _ (Token.mk _ _) _ _),
    parseExpressionListLoop_unfold _ _ (Parser.mk _ _ (Token.mk _ _) _ _),
    parseIdentifier_mk, Parser.peekTokenIs_mk, Parser.curTokenIs_mk, Parser.make_mk,
    Parser.setNode_mk, Parser.nextToken_mk, Parser.peekPrecedence_mk, Parser.curPrecedence_mk,
    Parser.expectPeek_mk, Option.getD_some, Option.getD_none,
    Res.ok_bind_step, Res.pure_step, reduceCtorEq, ↓reduceIte, decide_False, decide_True,
    Bool.false_eq_true, and_self, and_true, true_and, and_false, false_and, ne_eq,
    not_true_eq_false, not_false_eq_true,
    Nat.lt_irrefl, List.length_nil, List.length_cons, List.length_append, List.nil_append,
    List.cons_append, Nat.reduceAdd, Nat.reduceLT, List.set_cons_zero, List.set_cons_succ,
    Nat.not_lt_zero,
    e1, e2, e3, e4, e5, e6, e7, e8, e9, e10, e11, e12, e13, e14, e15, e16, e17, e18, h2, h3, h4, h5, h6, h7, h8]

/-- Parsing `(-(a[b]))`. -/
theorem parse_printed_prefix_index (l2 l3 l4 l5 l6 l7 l8 l9 l10 l11 : Lexer) (a b : String) (E2 : Token)
    (h2 : l2.nextToken = ({ type := .LPAREN, literal := "(" }, l3))
    (h3 : l3.nextToken = ({ type := .IDENT, literal := a }, l4))
    (h4 : l4.nextToken = ({ type := .LBRACKET, literal := "[" }, l5))
    (h5 : l5.nextToken = ({ type := .IDENT, literal := b }, l6))
    (h6 : l6.nextToken = ({ type := .RBRACKET, literal := "]" }, l7))
    (h7 : l7.nextToken = ({ type := .RPAREN, literal := ")" }, l8))
    (h8 : l8.nextToken = ({ type := .RPAREN, literal := ")" }, l9))
    (h9 : l9.nextToken = ({ type := .EOF, literal := "" }, l10))
    (h10 : l10.nextToken = (E2, l11))
    (k : Nat) :
    parseProgram (k + 16) (Parser.mk l2 [] { type := .LPAREN, literal := "(" } { type := .MINUS, literal := "-" } [])
      = .ok (0, Parser.mk l11 [] { type := .EOF, literal := "" } E2
          [.Program [some 1],
           .ExpressionStatement { type := .LPAREN, literal := "(" } (some 2),
           .PrefixExpression { type := .MINUS, literal := "-" } "-" (some 4),
           .Identifier { type := .IDENT, literal := a } a,
           .IndexExpression { type := .LBRACKET, literal := "[" } (some 3) (some 5),
           .Identifier { type := .IDENT, literal := b } b]) := by
  have e1 : precedences .EOF = none := rfl
  have e2 : infixParseFns .EOF = none := rfl
  have e3 : prefixParseFns .IDENT = some .parseIdentifier := rfl
  have e4 : prec.LOWEST.toNat = 0 := rfl
  have e5 : prec.PREFIX.toNat = 5 := rfl
  have e6 : precedences .LPAREN = some .CALL := rfl
  have e7 : precedences .LBRACKET = some .INDEX := rfl
  have e8 : prec.CALL.toNat = 6 := rfl
  have e9 : prec.INDEX.toNat = 7 := rfl
  have e10 : infixParseFns .LPAREN = some .parseCallExpression := rfl
  have e11 : infixParseFns .LBRACKET = some .parseIndexExpression := rfl
  have e12 : precedences .RPAREN = none := rfl
  have e13 : precedences .RBRACKET = none := rfl
  have e14 : prefixParseFns .MINUS = some .parsePrefixExpression := rfl
  have e15 : prefixParseFns .BANG = some .parsePrefixExpression := rfl
  have e16 : prefixParseFns .LPAREN = some .parseGroupedExpression := rfl
  have e17 : infixParseFns .RPAREN = none := rfl
  have e18 : infixParseFns .RBRACKET = none := rfl
  simp only [parseProgram_mk, parseProgramLoop_unfold _ _ _ (Parser.mk _ _ (Token.mk _ _) _ _),
    parseStatement_unfold _ (Parser.mk _ _ (Token.mk _ _) _ _), parseExpressionStatement_unfold _ (Parser.mk _ _ (Token.mk _ _) _ _),
    parseExpression_unfold _ _ (Parser.mk _ _ (Token.mk _ _) _ _),
    parseExpressionLoop_unfold _ _ _ (Parser.mk _ _ (Token.mk _ _) _ _),
    parseInfixExpression_unfold _ _ (Parser.mk _ _ (Token.mk _ _) _ _),
    parsePrefixExpression_unfold _ (Parser.mk _ _ (Token.mk _ _) _ _),
    parseGroupedExpression_unfold _ (Parser.mk _ _ (Token.mk _ _) _ _),
    parseCallExpression_unfold _ _ (Parser.mk _ _ (Token.mk _ _) _ _),
    parseIndexExpression_unfold _ _ (Parser.mk _ _ (Token.mk _ _) _ _),
    parseExpressionList_unfold _ _ (Parser.mk _ _ (Token.mk _ _) _ _),
    parseExpressionListLoop_unfold _ _ (Parser.mk _ _ (Token.mk _ _) _ _),
    parseIdentifier_mk, Parser.peekTokenIs_mk, Parser.curTokenIs_mk, Parser.make_mk,
    Parser.setNode_mk, Parser.nextToken_mk, Parser.peekPrecedence_mk, Parser.curPrecedence_mk,
    Parser.expectPeek_mk, Option.getD_some, Option.getD_none,
    Res.ok_bind_step, Res.pure_step, reduceCtorEq, ↓reduceIte, decide_False, decide_True,
    Bool.false_eq_true, and_self, and_true, true_and, and_false, false_and, ne_eq,
    not_true_eq_false, not_false_eq_true,
    Nat.lt_irrefl, List.length_nil, List.length_cons, List.length_append, List.nil_append,
    List.cons_append, Nat.reduceAdd, Nat.reduceLT, List.set_cons_zero, List.set_cons_succ,
    Nat.not_lt_zero,
    e1, e2, e3, e4, e5, e6, e7, e8, e9, e10, e11, e12, e13, e14, e15, e16, e17, e18, h2, h3, h4, h5, h6, h7, h8, h9, h10]

/-- Parsing `(a op1 (b[c]))`. -/
theorem parse_printed_operator_index (l2 l3 l4 l5 l6 l7 l8 l9 l10 l11 l12 : Lexer) (a b c op1 : String) (t1 : TokenType) (q1 : prec) (E2 : Token)
    (h2 : l2.nextToken = ({ type := t1, literal := op1 }, l3))
    (h3 : l3.nextToken = ({ type := .LPAREN, literal := "(" }, l4))
    (h4 : l4.nextToken = ({ type := .IDENT, literal := b }, l5))
    (h5 : l5.nextToken = ({ type := .LBRACKET, literal := "[" }, l6))
    (h6 : l6.nextToken = ({ type := .IDENT, literal := c }, l7))
    (h7 : l7.nextToken = ({ type := .RBRACKET, literal := "]" }, l8))
    (h8 : l8.nextToken = ({ type := .RPAREN, literal := ")" }, l9))
    (h9 : l9.nextToken = ({ type := .RPAREN, literal := ")" }, l10))
    (h10 : l10.nextToken = ({ type := .EOF, literal := "" }, l11))
    (h11 : l11.nextToken = (E2, l12))
    (i1 : infixParseFns t1 = some .parseInfixExpression) (p1 : precedences t1 = some q1)
    (n1 : t1 ≠ .SEMICOLON) (z1 : 0 < q1.toNat) (u1 : q1.toNat < 5)
    (k : Nat) :
    parseProgram (k + 16) (Parser.mk l2 [] { type := .LPAREN, literal := "(" } { type := .IDENT, literal := a } [])
      = .ok (0, Parser.mk l12 [] { type := .EOF, literal := "" } E2
          [.Program [some 1],
           .ExpressionStatement { type := .LPAREN, literal := "(" } (some 3),
           .Identifier { type := .IDENT, literal := a } a,
           .InfixExpression { type := t1, literal := op1 } (some 2) op1 (some 5),
           .Identifier { type := .IDENT, literal := b } b,
           .IndexExpression { type := .LBRACKET, literal := "[" } (some 4) (some 6),
           .Identifier { type := .IDENT, literal := c } c]) := by
  have e1 : precedences .EOF = none := rfl
  have e2 : infixParseFns .EOF = none := rfl
  have e3 : prefixParseFns .IDENT = some .parseIdentifier := rfl
  have e4 : prec.LOWEST.toNat = 0 := rfl
  have e5 : prec.PREFIX.toNat = 5 := rfl
  have e6 : precedences .LPAREN = some .CALL := rfl
  have e7 : precedences .LBRACKET = some .INDEX := rfl
  have e8 : prec.CALL.toNat = 6 := rfl
  have e9 : prec.INDEX.toNat = 7 := rfl
  have e10 : infixParseFns .LPAREN = some .parseCallExpression := rfl
  have e11 : infixParseFns .LBRACKET = some .parseIndexExpression := rfl
  have e12 : precedences .RPAREN = none := rfl
  have e13 : precedences .RBRACKET = none := rfl
  have e14 : prefixParseFns .MINUS = some .parsePrefixExpression := rfl
  have e15 : prefixParseFns .BANG = some .parsePrefixExpression := rfl
  have e16 : prefixParseFns .LPAREN = some .parseGroupedExpression := rfl
  have e17 : infixParseFns .RPAREN = none := rfl
  have e18 : infixParseFns .RBRACKET = none := rfl
  have w1a : q1.toNat < 6 := by omega
  have w1b : q1.toNat < 7 := by omega
  have w1c : ¬ 5 < q1.toNat := by omega
  simp only [parseProgram_mk, parseProgramLoop_unfold _ _ _ (Parser.mk _ _ (Token.mk _ _) _ _),
    parseStatement_unfold _ (Parser.mk _ _ (Token.mk _ _) _ _), parseExpressionStatement_unfold _ (Parser.mk _ _ (Token.mk _ _) _ _),
    parseExpression_unfold _ _ (Parser.mk _ _ (Token.mk _ _) _ _),
    parseExpressionLoop_unfold _ _ _ (Parser.mk _ _ (Token.mk _ _) _ _),
    parseInfixExpression_unfold _ _ (Parser.mk _ _ (Token.mk _ _) _ _),
    parsePrefixExpression_unfold _ (Parser.mk _ _ (Token.mk _ _) _ _),
    parseGroupedExpression_unfold _ (Parser.mk _ _ (Token.mk _ _) _ _),
    parseCallExpression_unfold _ _ (Parser.mk _ _ (Token.mk _ _) _ _),
    parseIndexExpression_unfold _ _ (Parser.mk _ _ (Token.mk _ _) _ _),
    parseExpressionList_unfold _ _ (Parser.mk _ _ (Token.mk _ _) _ _),
    parseExpressionListLoop_unfold _ _ (Parser.mk _ _ (Token.mk _ _) _ _),
    parseIdentifier_mk, Parser.peekTokenIs_mk, Parser.curTokenIs_mk, Parser.make_mk,
    Parser.setNode_mk, Parser.nextToken_mk, Parser.peekPrecedence_mk, Parser.curPrecedence_mk,
    Parser.expectPeek_mk, Option.getD_some, Option.getD_none,
    Res.ok_bind_step, Res.pure_step, reduceCtorEq, ↓reduceIte, decide_False, decide_True,
    Bool.false_eq_true, and_self, and_true, true_and, and_false, false_and, ne_eq,
    not_true_eq_false, not_false_eq_true,
    Nat.lt_irrefl, List.length_nil, List.length_cons, List.length_append, List.nil_append,
    List.cons_append, Nat.reduceAdd, Nat.reduceLT, List.set_cons_zero, List.set_cons_succ,
    Nat.not_lt_zero,
    e1, e2, e3, e4, e5, e6, e7, e8, e9, e10, e11, e12, e13, e14, e15, e16, e17, e18, h2, h3, h4, h5, h6, h7, h8, h9, h10, h11, i1, p1, n1, z1, w1a, w1b, w1c]

/-- Parsing `(a op1 f(b))`. -/
theorem parse_printed_operator_call (l2 l3 l4 l5 l6 l7 l8 l9 l10 : Lexer) (a f b op1 : String) (t1 : TokenType) (q1 : prec) (E2 : Token)
    (h2 : l2.nextToken = ({ type := t1, literal := op1 }, l3))
    (h3 : l3.nextToken = ({ type := .IDENT, literal := f }, l4))
    (h4 : l4.nextToken = ({ type := .LPAREN, literal := "(" }, l5))
    (h5 : l5.nextToken = ({ type := .IDENT, literal := b }, l6))
    (h6 : l6.nextToken = ({ type := .RPAREN, literal := ")" }, l7))
    (h7 : l7.nextToken = ({ type := .RPAREN, literal := ")" }, l8))
    (h8 : l8.nextToken = ({ type := .EOF, literal := "" }, l9))
    (h9 : l9.nextToken = (E2, l10))
    (i1 : infixParseFns t1 = some .parseInfixExpression) (p1 : precedences t1 = some q1)
    (n1 : t1 ≠ .SEMICOLON) (z1 : 0 < q1.toNat) (u1 : q1.toNat < 5)
    (k : Nat) :
    parseProgram (k + 16) (Parser.mk l2 [] { type := .LPAREN, literal := "(" } { type := .IDENT, literal := a } [])
      = .ok (0, Parser.mk l10 [] { type := .EOF, literal := "" } E2
          [.Program [some 1],
           .ExpressionStatement { type := .LPAREN, literal := "(" } (some 3),
           .Identifier { type := .IDENT, literal := a } a,
           .InfixExpression { type := t1, literal := op1 } (some 2) op1 (some 5),
           .Identifier { type := .IDENT, literal := f } f,
           .CallExpression { type := .LPAREN, literal := "(" } (some 4) [some 6],
           .Identifier { type := .IDENT, literal := b } b]) := by
  have e1 : precedences .EOF = none := rfl
  have e2 : infixParseFns .EOF = none := rfl
  have e3 : prefixParseFns .IDENT = some .parseIdentifier := rfl
  have e4 : prec.LOWEST.toNat = 0 := rfl
  have e5 : prec.PREFIX.toNat = 5 := rfl
  have e6 : precedences .LPAREN = some .CALL := rfl
  have e7 : precedences .LBRACKET = some .INDEX := rfl
  have e8 : prec.CALL.toNat = 6 := rfl
  have e9 : prec.INDEX.toNat = 7 := rfl
  have e10 : infixParseFns .LPAREN = some .parseCallExpression := rfl
  have e11 : infixParseFns .LBRACKET = some .parseIndexExpression := rfl
  have e12 : precedences .RPAREN = none := rfl
  have e13 : precedences .RBRACKET = none := rfl
  have e14 : prefixParseFns .MINUS = some .parsePrefixExpression := rfl
  have e15 : prefixParseFns .BANG = some .parsePrefixExpression := rfl
  have e16 : prefixParseFns .LPAREN = some .parseGroupedExpression := rfl
  have e17 : infixParseFns .RPAREN = none := rfl
  have e18 : infixParseFns .RBRACKET = none := rfl
  have w1a : q1.toNat < 6 := by omega
  have w1b : q1.toNat < 7 := by omega
  have w1c : ¬ 5 < q1.toNat := by omega
  simp only [parseProgram_mk, parseProgramLoop_unfold _ _ _ (Parser.mk _ _ (Token.mk _ _) _ _),
    parseStatement_unfold _ (Parser.mk _ _ (Token.mk _ _) _ _), parseExpressionStatement_unfold _ (Parser.mk _ _ (Token.mk _ _) _ _),
    parseExpression_unfold _ _ (Parser.mk _ _ (Token.mk _ _) _ _),
    parseExpressionLoop_unfold _ _ _ (Parser.mk _ _ (Token.mk _ _) _ _),
    parseInfixExpression_unfold _ _ (Parser.mk _ _ (Token.mk _ _) _ _),
    parsePrefixExpression_unfold _ (Parser.mk _ _ (Token.mk _ _) _ _),
    parseGroupedExpression_unfold _ (Parser.mk _ _ (Token.mk _ _) _ _),
    parseCallExpression_unfold _ _ (Parser.mk _ _ (Token.mk _ _) _ _),
    parseIndexExpression_unfold _ _ (Parser.mk _ _ (Token.mk _ _) _ _),
    parseExpressionList_unfold _ _ (Parser.mk _ _ (Token.mk _ _) _ _),
    parseExpressionListLoop_unfold _ _ (Parser.mk _ _ (Token.mk _ _) _ _),
    parseIdentifier_mk, Parser.peekTokenIs_mk, Parser.curTokenIs_mk, Parser.make_mk,
    Parser.setNode_mk, Parser.nextToken_mk, Parser.peekPrecedence_mk, Parser.curPrecedence_mk,
    Parser.expectPeek_mk, Option.getD_some, Option.getD_none,
    Res.ok_bind_step, Res.pure_step, reduceCtorEq, ↓reduceIte, decide_False, decide_True,
    Bool.false_eq_true, and_self, and_true, true_and, and_false, false_and, ne_eq,
    not_true_eq_false, not_false_eq_true,
    Nat.lt_irrefl, List.length_nil, List.length_cons, List.length_append, List.nil_append,
    List.cons_append, Nat.reduceAdd, Nat.reduceLT, List.set_cons_zero, List.set_cons_succ,
    Nat.not_lt_zero,
    e1, e2, e3, e4, e5, e6, e7, e8, e9, e10, e11, e12, e13, e14, e15, e16, e17, e18, h2, h3, h4, h5, h6, h7, h8, h9, i1, p1, n1, z1, w1a, w1b, w1c]

/-- Lexing of an identifier that is followed by a character that is no letter,
at the current character and after a space. -/
theorem lex_identifier {x : String} (h : isIdentifier x = true) :
    ∃ x0 xs, x.data = x0 :: xs ∧ isLetter x0 = true
      ∧ (∀ y post, isLetter y = false →
          Lexer.nextToken { ch := x0, rest := xs ++ y :: post }
            = ({ type := .IDENT, literal := x }, { ch := y, rest := post }))
      ∧ (∀ y post, isLetter y = false →
          Lexer.nextToken { ch := ' ', rest := x0 :: (xs ++ y :: post) }
            = ({ type := .IDENT, literal := x }, { ch := y, rest := post })) := by
  obtain ⟨x0, xs, hd, hl, hm, hk⟩ := isIdentifier_cases h
  have hk2 : lookupIdent x = .IDENT := hm ▸ hk
  have w : ∀ y post, isLetter y = false →
      Lexer.nextToken { ch := x0, rest := xs ++ y :: post }
        = ({ type := .IDENT, literal := x }, { ch := y, rest := post }) := by
    intro y post hy
    have e := nextToken_word x0 y xs post hl hy
    rw [hm, hk2] at e
    exact e
  exact ⟨x0, xs, hd, hl x0 (by simp), w, fun y post hy => (nextToken_space x0 _).trans (w y post hy)⟩

/-- Six shapes of expression source with explicit fuel: for all identifiers `a`, `b`,
`c`, `f`, binary operators `op1`, `op2` and prefix operator `p`, each of the sources
`a op1 b op2 c`, `p a op1 b`, `-f(a)`, `-a[b]`, `a op1 b[c]` and `a op1 f(b)` parses without
error, and parsing the printed text of its AST again records no error and prints the same
text (fuel `k + 16` for every `k`). -/
theorem printed_operator_shapes_parse_back (a b c f op1 op2 p : String) (k : Nat)
    (ha : isIdentifier a = true) (hb : isIdentifier b = true) (hc : isIdentifier c = true)
    (hf : isIdentifier f = true) (h1 : op1 ∈ binaryOperators) (h2 : op2 ∈ binaryOperators)
    (hp : p ∈ prefixOperators) :
    (parseToString (k + 16) (a ++ " " ++ op1 ++ " " ++ b ++ " " ++ op2 ++ " " ++ c)
        = .ok ((if (operatorPrecedence op2).toNat ≤ (operatorPrecedence op1).toNat
          then "((" ++ a ++ " " ++ op1 ++ " " ++ b ++ ") " ++ op2 ++ " " ++ c ++ ")\n"
          else "(" ++ a ++ " " ++ op1 ++ " (" ++ b ++ " " ++ op2 ++ " " ++ c ++ "))\n"), [])
      ∧ parseToString (k + 16)
          (if (operatorPrecedence op2).toNat ≤ (operatorPrecedence op1).toNat
          then "((" ++ a ++ " " ++ op1 ++ " " ++ b ++ ") " ++ op2 ++ " " ++ c ++ ")\n"
          else "(" ++ a ++ " " ++ op1 ++ " (" ++ b ++ " " ++ op2 ++ " " ++ c ++ "))\n")
        = .ok ((if (operatorPrecedence op2).toNat ≤ (operatorPrecedence op1).toNat
          then "((" ++ a ++ " " ++ op1 ++ " " ++ b ++ ") " ++ op2 ++ " " ++ c ++ ")\n"
          else "(" ++ a ++ " " ++ op1 ++ " (" ++ b ++ " " ++ op2 ++ " " ++ c ++ "))\n"), []))
    ∧ (parseToString (k + 16) (p ++ a ++ " " ++ op1 ++ " " ++ b)
        = .ok ("((" ++ p ++ a ++ ") " ++ op1 ++ " " ++ b ++ ")\n", [])
      ∧ parseToString (k + 16) ("((" ++ p ++ a ++ ") " ++ op1 ++ " " ++ b ++ ")\n")
        = .ok ("((" ++ p ++ a ++ ") " ++ op1 ++ " " ++ b ++ ")\n", []))
    ∧ (parseToString (k + 16) ("-" ++ f ++ "(" ++ a ++ ")")
        = .ok ("(-" ++ f ++ "(" ++ a ++ "))\n", [])
      ∧ parseToString (k + 16) ("(-" ++ f ++ "(" ++ a ++ "))\n")
        = .ok ("(-" ++ f ++ "(" ++ a ++ "))\n", []))
    ∧ (parseToString (k + 16) ("-" ++ a ++ "[" ++ b ++ "]")
        = .ok ("(-(" ++ a ++ "[" ++ b ++ "]))\n", [])
      ∧ parseToString (k + 16) ("(-(" ++ a ++ "[" ++ b ++ "]))\n")
        = .ok ("(-(" ++ a ++ "[" ++ b ++ "]))\n", []))
    ∧ (parseToString (k + 16) (a ++ " " ++ op1 ++ " " ++ b ++ "[" ++ c ++ "]")
        = .ok ("(" ++ a ++ " " ++ op1 ++ " (" ++ b ++ "[" ++ c ++ "]))\n", [])
      ∧ parseToString (k + 16) ("(" ++ a ++ " " ++ op1 ++ " (" ++ b ++ "[" ++ c ++ "]))\n")
        = .ok ("(" ++ a ++ " " ++ op1 ++ " (" ++ b ++ "[" ++ c ++ "]))\n", []))
    ∧ (parseToString (k + 16) (a ++ " " ++ op1 ++ " " ++ f ++ "(" ++ b ++ ")")
        = .ok ("(" ++ a ++ " " ++ op1 ++ " " ++ f ++ "(" ++ b ++ "))\n", [])
      ∧ parseToString (k + 16) ("(" ++ a ++ " " ++ op1 ++ " " ++ f ++ "(" ++ b ++ "))\n")
        = .ok ("(" ++ a ++ " " ++ op1 ++ " " ++ f ++ "(" ++ b ++ "))\n", [])) := by
  obtain ⟨a0, as, hda, ha0, wa, swa⟩ := lex_identifier ha
  obtain ⟨b0, bs, hdb, hb0, wb, swb⟩ := lex_identifier hb
  obtain ⟨c0, cs, hdc, hc0, wc, swc⟩ := lex_identifier hc
  obtain ⟨f0, fs, hdf, hf0, wf, swf⟩ := lex_identifier hf
  obtain ⟨t1, q1, hx1, i1, p1, n1, z1, u1, o1⟩ := lex_operator op1 h1
  obtain ⟨t2, q2, hx2, i2, p2, n2, z2, u2, o2⟩ := lex_operator op2 h2
  obtain ⟨p0, tp, hdp, htp, hxp⟩ := lex_prefix_operator p hp
  have first := parseToString_two_binary_operators a b c op1 op2 (k + 5) ha hb hc h1 h2
  obtain ⟨e1, e2, e3, e4, e5⟩ :=
    parseToString_prefix_call_index p op1 a b c f (k + 2) hp h1 ha hb hc hf
  refine ⟨⟨first, ?_⟩, ⟨e1, ?_⟩, ⟨e2, ?_⟩, ⟨e3, ?_⟩, ⟨e4, ?_⟩, ⟨e5, ?_⟩⟩
  · by_cases hq : (operatorPrecedence op2).toNat ≤ (operatorPrecedence op1).toNat
    · simp only [hq, ↓reduceIte]
      have d0 : ("((" : String).data = ['(', '('] := rfl
      have d1 : (" " : String).data = [' '] := rfl
      have d2 : (") " : String).data = [')', ' '] := rfl
      have d3 : (")\n" : String).data = [')', '\n'] := rfl
      have hsrc : ("((" ++ a ++ " " ++ op1 ++ " " ++ b ++ ") " ++ op2 ++ " " ++ c ++ ")\n").data
          = '(' :: '(' :: a0 :: (as ++ ' ' :: (op1.data ++ ' ' :: b0 :: (bs ++ ')' :: ' ' :: (op2.data ++ ' ' :: c0 :: (cs ++ ')' :: '\n' :: []))))) := by
        simp only [String.data_append, hda, hdb, hdc, d0, d1, d2, d3, List.append_assoc,
          List.cons_append, List.nil_append]
      have h0 : Lexer.nextToken { ch := '(', rest := '(' :: a0 :: (as ++ ' ' :: (op1.data ++ ' ' :: b0 :: (bs ++ ')' :: ' ' :: (op2.data ++ ' ' :: c0 :: (cs ++ ')' :: '\n' :: []))))) }
          = ({ type := .LPAREN, literal := "(" }, { ch := '(', rest := a0 :: (as ++ ' ' :: (op1.data ++ ' ' :: b0 :: (bs ++ ')' :: ' ' :: (op2.data ++ ' ' :: c0 :: (cs ++ ')' :: '\n' :: []))))) }) := rfl
      have h1 : Lexer.nextToken { ch := '(', rest := a0 :: (as ++ ' ' :: (op1.data ++ ' ' :: b0 :: (bs ++ ')' :: ' ' :: (op2.data ++ ' ' :: c0 :: (cs ++ ')' :: '\n' :: []))))) }
          = ({ type := .LPAREN, literal := "(" }, { ch := a0, rest := as ++ ' ' :: (op1.data ++ ' ' :: b0 :: (bs ++ ')' :: ' ' :: (op2.data ++ ' ' :: c0 :: (cs ++ ')' :: '\n' :: [])))) }) := rfl
      have h2 : Lexer.nextToken { ch := a0, rest := as ++ ' ' :: (op1.data ++ ' ' :: b0 :: (bs ++ ')' :: ' ' :: (op2.data ++ ' ' :: c0 :: (cs ++ ')' :: '\n' :: [])))) }
          = ({ type := .IDENT, literal := a }, { ch := ' ', rest := (op1.data ++ ' ' :: b0 :: (bs ++ ')' :: ' ' :: (op2.data ++ ' ' :: c0 :: (cs ++ ')' :: '\n' :: [])))) }) := wa ' ' _ (by decide)
      have h3 : Lexer.nextToken { ch := ' ', rest := (op1.data ++ ' ' :: b0 :: (bs ++ ')' :: ' ' :: (op2.data ++ ' ' :: c0 :: (cs ++ ')' :: '\n' :: [])))) }
          = ({ type := t1, literal := op1 }, { ch := ' ', rest := b0 :: (bs ++ ')' :: ' ' :: (op2.data ++ ' ' :: c0 :: (cs ++ ')' :: '\n' :: []))) }) := hx1 _
      have h4 : Lexer.nextToken { ch := ' ', rest := b0 :: (bs ++ ')' :: ' ' :: (op2.data ++ ' ' :: c0 :: (cs ++ ')' :: '\n' :: []))) }
          = ({ type := .IDENT, literal := b }, { ch := ')', rest := ' ' :: (op2.data ++ ' ' :: c0 :: (cs ++ ')' :: '\n' :: [])) }) := swb ')' _ (by decide)
      have h5 : Lexer.nextToken { ch := ')', rest := ' ' :: (op2.data ++ ' ' :: c0 :: (cs ++ ')' :: '\n' :: [])) }
          = ({ type := .RPAREN, literal := ")" }, { ch := ' ', rest := (op2.data ++ ' ' :: c0 :: (cs ++ ')' :: '\n' :: [])) }) := rfl
      have h6 : Lexer.nextToken { ch := ' ', rest := (op2.data ++ ' ' :: c0 :: (cs ++ ')' :: '\n' :: [])) }
          = ({ type := t2, literal := op2 }, { ch := ' ', rest := c0 :: (cs ++ ')' :: '\n' :: []) }) := hx2 _
      have h7 : Lexer.nextToken { ch := ' ', rest := c0 :: (cs ++ ')' :: '\n' :: []) }
          = ({ type := .IDENT, literal := c }, { ch := ')', rest := '\n' :: [] }) := swc ')' _ (by decide)
      have h8 : Lexer.nextToken { ch := ')', rest := '\n' :: [] }
          = ({ type := .RPAREN, literal := ")" }, { ch := '\n', rest := [] }) := rfl
      have h9 : Lexer.nextToken { ch := '\n', rest := [] }
          = ({ type := .EOF, literal := "" }, { ch := NUL, rest := [] }) := rfl
      have h10 : Lexer.nextToken { ch := NUL, rest := [] }
          = ({ type := .EOF, literal := "" }, { ch := NUL, rest := [] }) := nextToken_eof
      have hnew : Parser.new (Lexer.new ('(' :: '(' :: a0 :: (as ++ ' ' :: (op1.data ++ ' ' :: b0 :: (bs ++ ')' :: ' ' :: (op2.data ++ ' ' :: c0 :: (cs ++ ')' :: '\n' :: [])))))))
          = Parser.mk { ch := a0, rest := as ++ ' ' :: (op1.data ++ ' ' :: b0 :: (bs ++ ')' :: ' ' :: (op2.data ++ ' ' :: c0 :: (cs ++ ')' :: '\n' :: [])))) } []
              { type := .LPAREN, literal := "(" } { type := .LPAREN, literal := "(" } [] := by
        simp only [Parser.new, Lexer.new, Lexer.readChar, Parser.nextToken, h0, h1]
      simp only [parseToString, parseSource, hsrc, hnew]
      rw [parse_printed_left_nested _ _ _ _ _ _ _ _ _ _ _ _ _ _ _ _ _ _ _ _
        h2 h3 h4 h5 h6 h7 h8 h9 h10 i1 p1 n1 z1 u1 i2 p2 n2 z2 u2 k]
      simp only [nodeString, derefNode, List.get?_cons_succ, List.get?_cons_zero, mapRes,
        Res.ok_bind, Res.pure_eq, List.map_cons, List.map_nil, concatStrings, joinComma]
      simp [String.ext_iff]
    · simp only [hq, ↓reduceIte]
      have d0 : ("(" : String).data = ['('] := rfl
      have d1 : (" " : String).data = [' '] := rfl
      have d2 : (" (" : String).data = [' ', '('] := rfl
      have d3 : ("))\n" : String).data = [')', ')', '\n'] := rfl
      have hsrc : ("(" ++ a ++ " " ++ op1 ++ " (" ++ b ++ " " ++ op2 ++ " " ++ c ++ "))\n").data
          = '(' :: a0 :: (as ++ ' ' :: (op1.data ++ ' ' :: '(' :: b0 :: (bs ++ ' ' :: (op2.data ++ ' ' :: c0 :: (cs ++ ')' :: ')' :: '\n' :: []))))) := by
        simp only [String.data_append, hda, hdb, hdc, d0, d1, d2, d3, List.append_assoc,
          List.cons_append, List.nil_append]
      have h0 : Lexer.nextToken { ch := '(', rest := a0 :: (as ++ ' ' :: (op1.data ++ ' ' :: '(' :: b0 :: (bs ++ ' ' :: (op2.data ++ ' ' :: c0 :: (cs ++ ')' :: ')' :: '\n' :: []))))) }
          = ({ type := .LPAREN, literal := "(" }, { ch := a0, rest := as ++ ' ' :: (op1.data ++ ' ' :: '(' :: b0 :: (bs ++ ' ' :: (op2.data ++ ' ' :: c0 :: (cs ++ ')' :: ')' :: '\n' :: [])))) }) := rfl
      have h1 : Lexer.nextToken { ch := a0, rest := as ++ ' ' :: (op1.data ++ ' ' :: '(' :: b0 :: (bs ++ ' ' :: (op2.data ++ ' ' :: c0 :: (cs ++ ')' :: ')' :: '\n' :: [])))) }
          = ({ type := .IDENT, literal := a }, { ch := ' ', rest := (op1.data ++ ' ' :: '(' :: b0 :: (bs ++ ' ' :: (op2.data ++ ' ' :: c0 :: (cs ++ ')' :: ')' :: '\n' :: [])))) }) := wa ' ' _ (by decide)
      have h2 : Lexer.nextToken { ch := ' ', rest := (op1.data ++ ' ' :: '(' :: b0 :: (bs ++ ' ' :: (op2.data ++ ' ' :: c0 :: (cs ++ ')' :: ')' :: '\n' :: [])))) }
          = ({ type := t1, literal := op1 }, { ch := ' ', rest := '(' :: b0 :: (bs ++ ' ' :: (op2.data ++ ' ' :: c0 :: (cs ++ ')' :: ')' :: '\n' :: []))) }) := hx1 _
      have h3 : Lexer.nextToken { ch := ' ', rest := '(' :: b0 :: (bs ++ ' ' :: (op2.data ++ ' ' :: c0 :: (cs ++ ')' :: ')' :: '\n' :: []))) }
          = ({ type := .LPAREN, literal := "(" }, { ch := b0, rest := bs ++ ' ' :: (op2.data ++ ' ' :: c0 :: (cs ++ ')' :: ')' :: '\n' :: [])) }) := rfl
      have h4 : Lexer.nextToken { ch := b0, rest := bs ++ ' ' :: (op2.data ++ ' ' :: c0 :: (cs ++ ')' :: ')' :: '\n' :: [])) }
          = ({ type := .IDENT, literal := b }, { ch := ' ', rest := (op2.data ++ ' ' :: c0 :: (cs ++ ')' :: ')' :: '\n' :: [])) }) := wb ' ' _ (by decide)
      have h5 : Lexer.nextToken { ch := ' ', rest := (op2.data ++ ' ' :: c0 :: (cs ++ ')' :: ')' :: '\n' :: [])) }
          = ({ type := t2, literal := op2 }, { ch := ' ', rest := c0 :: (cs ++ ')' :: ')' :: '\n' :: []) }) := hx2 _
      have h6 : Lexer.nextToken { ch := ' ', rest := c0 :: (cs ++ ')' :: ')' :: '\n' :: []) }
          = ({ type := .IDENT, literal := c }, { ch := ')', rest := ')' :: '\n' :: [] }) := swc ')' _ (by decide)
      have h7 : Lexer.nextToken { ch := ')', rest := ')' :: '\n' :: [] }
          = ({ type := .RPAREN, literal := ")" }, { ch := ')', rest := '\n' :: [] }) := rfl
      have h8 : Lexer.nextToken { ch := ')', rest := '\n' :: [] }
          = ({ type := .RPAREN, literal := ")" }, { ch := '\n', rest := [] }) := rfl
      have h9 : Lexer.nextToken { ch := '\n', rest := [] }
          = ({ type := .EOF, literal := "" }, { ch := NUL, rest := [] }) := rfl
      have h10 : Lexer.nextToken { ch := NUL, rest := [] }
          = ({ type := .EOF, literal := "" }, { ch := NUL, rest := [] }) := nextToken_eof
      have hnew : Parser.new (Lexer.new ('(' :: a0 :: (as ++ ' ' :: (op1.data ++ ' ' :: '(' :: b0 :: (bs ++ ' ' :: (op2.data ++ ' ' :: c0 :: (cs ++ ')' :: ')' :: '\n' :: [])))))))
          = Parser.mk { ch := ' ', rest := (op1.data ++ ' ' :: '(' :: b0 :: (bs ++ ' ' :: (op2.data ++ ' ' :: c0 :: (cs ++ ')' :: ')' :: '\n' :: [])))) } []
              { type := .LPAREN, literal := "(" } { type := .IDENT, literal := a } [] := by
        simp only [Parser.new, Lexer.new, Lexer.readChar, Parser.nextToken, h0, h1]
      simp only [parseToString, parseSource, hsrc, hnew]
      rw [parse_printed_right_nested _ _ _ _ _ _ _ _ _ _ _ _ _ _ _ _ _ _ _ _
        h2 h3 h4 h5 h6 h7 h8 h9 h10 i1 p1 n1 z1 u1 i2 p2 n2 z2 u2 k]
      simp only [nodeString, derefNode, List.get?_cons_succ, List.get?_cons_zero, mapRes,
        Res.ok_bind, Res.pure_eq, List.map_cons, List.map_nil, concatStrings, joinComma]
      simp [String.ext_iff]
  · have d0 : ("((" : String).data = ['(', '('] := rfl
    have d1 : (") " : String).data = [')', ' '] := rfl
    have d2 : (" " : String).data = [' '] := rfl
    have d3 : (")\n" : String).data = [')', '\n'] := rfl
    have hsrc : ("((" ++ p ++ a ++ ") " ++ op1 ++ " " ++ b ++ ")\n").data
        = '(' :: '(' :: p0 :: a0 :: (as ++ ')' :: ' ' :: (op1.data ++ ' ' :: b0 :: (bs ++ ')' :: '\n' :: []))) := by
      simp only [String.data_append, hda, hdb, hdp, d0, d1, d2, d3, List.append_assoc,
        List.cons_append, List.nil_append]
    have h0 : Lexer.nextToken { ch := '(', rest := '(' :: p0 :: a0 :: (as ++ ')' :: ' ' :: (op1.data ++ ' ' :: b0 :: (bs ++ ')' :: '\n' :: []))) }
        = ({ type := .LPAREN, literal := "(" }, { ch := '(', rest := p0 :: a0 :: (as ++ ')' :: ' ' :: (op1.data ++ ' ' :: b0 :: (bs ++ ')' :: '\n' :: []))) }) := rfl
    have h1 : Lexer.nextToken { ch := '(', rest := p0 :: a0 :: (as ++ ')' :: ' ' :: (op1.data ++ ' ' :: b0 :: (bs ++ ')' :: '\n' :: []))) }
        = ({ type := .LPAREN, literal := "(" }, { ch := p0, rest := a0 :: (as ++ ')' :: ' ' :: (op1.data ++ ' ' :: b0 :: (bs ++ ')' :: '\n' :: []))) }) := rfl
    have h2 : Lexer.nextToken { ch := p0, rest := a0 :: (as ++ ')' :: ' ' :: (op1.data ++ ' ' :: b0 :: (bs ++ ')' :: '\n' :: []))) }
        = ({ type := tp, literal := p }, { ch := a0, rest := as ++ ')' :: ' ' :: (op1.data ++ ' ' :: b0 :: (bs ++ ')' :: '\n' :: [])) }) := hxp a0 _ ha0
    have h3 : Lexer.nextToken { ch := a0, rest := as ++ ')' :: ' ' :: (op1.data ++ ' ' :: b0 :: (bs ++ ')' :: '\n' :: [])) }
        = ({ type := .IDENT, literal := a }, { ch := ')', rest := ' ' :: (op1.data ++ ' ' :: b0 :: (bs ++ ')' :: '\n' :: [])) }) := wa ')' _ (by decide)
    have h4 : Lexer.nextToken { ch := ')', rest := ' ' :: (op1.data ++ ' ' :: b0 :: (bs ++ ')' :: '\n' :: [])) }
        = ({ type := .RPAREN, literal := ")" }, { ch := ' ', rest := (op1.data ++ ' ' :: b0 :: (bs ++ ')' :: '\n' :: [])) }) := rfl
    have h5 : Lexer.nextToken { ch := ' ', rest := (op1.data ++ ' ' :: b0 :: (bs ++ ')' :: '\n' :: [])) }
        = ({ type := t1, literal := op1 }, { ch := ' ', rest := b0 :: (bs ++ ')' :: '\n' :: []) }) := hx1 _
    have h6 : Lexer.nextToken { ch := ' ', rest := b0 :: (bs ++ ')' :: '\n' :: []) }
        = ({ type := .IDENT, literal := b }, { ch := ')', rest := '\n' :: [] }) := swb ')' _ (by decide)
    have h7 : Lexer.nextToken { ch := ')', rest := '\n' :: [] }
        = ({ type := .RPAREN, literal := ")" }, { ch := '\n', rest := [] }) := rfl
    have h8 : Lexer.nextToken { ch := '\n', rest := [] }
        = ({ type := .EOF, literal := "" }, { ch := NUL, rest := [] }) := rfl
    have h9 : Lexer.nextToken { ch := NUL, rest := [] }
        = ({ type := .EOF, literal := "" }, { ch := NUL, rest := [] }) := nextToken_eof
    have hnew : Parser.new (Lexer.new ('(' :: '(' :: p0 :: a0 :: (as ++ ')' :: ' ' :: (op1.data ++ ' ' :: b0 :: (bs ++ ')' :: '\n' :: [])))))
        = Parser.mk { ch := p0, rest := a0 :: (as ++ ')' :: ' ' :: (op1.data ++ ' ' :: b0 :: (bs ++ ')' :: '\n' :: []))) } []
            { type := .LPAREN, literal := "(" } { type := .LPAREN, literal := "(" } [] := by
      simp only [Parser.new, Lexer.new, Lexer.readChar, Parser.nextToken, h0, h1]
    simp only [parseToString, parseSource, hsrc, hnew]
    rw [parse_printed_prefix_operand _ _ _ _ _ _ _ _ _ _ _ _ _ _ _ _ _
      h2 h3 h4 h5 h6 h7 h8 h9 htp i1 p1 n1 z1 u1 k]
    simp only [nodeString, derefNode, List.get?_cons_succ, List.get?_cons_zero, mapRes,
      Res.ok_bind, Res.pure_eq, List.map_cons, List.map_nil, concatStrings, joinComma]
    simp [String.ext_iff]
  · have d0 : ("(-" : String).data = ['(', '-'] := rfl
    have d1 : ("(" : String).data = ['('] := rfl
    have d2 : ("))\n" : String).data = [')', ')', '\n'] := rfl
    have hsrc : ("(-" ++ f ++ "(" ++ a ++ "))\n").data
        = '(' :: '-' :: f0 :: (fs ++ '(' :: a0 :: (as ++ ')' :: ')' :: '\n' :: [])) := by
      simp only [String.data_append, hdf, hda, d0, d1, d2, List.append_assoc,
        List.cons_append, List.nil_append]
    have h0 : Lexer.nextToken { ch := '(', rest := '-' :: f0 :: (fs ++ '(' :: a0 :: (as ++ ')' :: ')' :: '\n' :: [])) }
        = ({ type := .LPAREN, literal := "(" }, { ch := '-', rest := f0 :: (fs ++ '(' :: a0 :: (as ++ ')' :: ')' :: '\n' :: [])) }) := rfl
    have h1 : Lexer.nextToken { ch := '-', rest := f0 :: (fs ++ '(' :: a0 :: (as ++ ')' :: ')' :: '\n' :: [])) }
        = ({ type := .MINUS, literal := "-" }, { ch := f0, rest := fs ++ '(' :: a0 :: (as ++ ')' :: ')' :: '\n' :: []) }) := rfl
    have h2 : Lexer.nextToken { ch := f0, rest := fs ++ '(' :: a0 :: (as ++ ')' :: ')' :: '\n' :: []) }
        = ({ type := .IDENT, literal := f }, { ch := '(', rest := a0 :: (as ++ ')' :: ')' :: '\n' :: []) }) := wf '(' _ (by decide)
    have h3 : Lexer.nextToken { ch := '(', rest := a0 :: (as ++ ')' :: ')' :: '\n' :: []) }
        = ({ type := .LPAREN, literal := "(" }, { ch := a0, rest := as ++ ')' :: ')' :: '\n' :: [] }) := rfl
    have h4 : Lexer.nextToken { ch := a0, rest := as ++ ')' :: ')' :: '\n' :: [] }
        = ({ type := .IDENT, literal := a }, { ch := ')', rest := ')' :: '\n' :: [] }) := wa ')' _ (by decide)
    have h5 : Lexer.nextToken { ch := ')', rest := ')' :: '\n' :: [] }
        = ({ type := .RPAREN, literal := ")" }, { ch := ')', rest := '\n' :: [] }) := rfl
    have h6 : Lexer.nextToken { ch := ')', rest := '\n' :: [] }
        = ({ type := .RPAREN, literal := ")" }, { ch := '\n', rest := [] }) := rfl
    have h7 : Lexer.nextToken { ch := '\n', rest := [] }
        = ({ type := .EOF, literal := "" }, { ch := NUL, rest := [] }) := rfl
    have h8 : Lexer.nextToken { ch := NUL, rest := [] }
        = ({ type := .EOF, literal := "" }, { ch := NUL, rest := [] }) := nextToken_eof
    have hnew : Parser.new (Lexer.new ('(' :: '-' :: f0 :: (fs ++ '(' :: a0 :: (as ++ ')' :: ')' :: '\n' :: []))))
        = Parser.mk { ch := f0, rest := fs ++ '(' :: a0 :: (as ++ ')' :: ')' :: '\n' :: []) } []
            { type := .LPAREN, literal := "(" } { type := .MINUS, literal := "-" } [] := by
      simp only [Parser.new, Lexer.new, Lexer.readChar, Parser.nextToken, h0, h1]
    simp only [parseToString, parseSource, hsrc, hnew]
    rw [parse_printed_prefix_call _ _ _ _ _ _ _ _ _ _ _
      h2 h3 h4 h5 h6 h7 h8 k]
    simp only [nodeString, derefNode, List.get?_cons_succ, List.get?_cons_zero, mapRes,
      Res.ok_bind, Res.pure_eq, List.map_cons, List.map_nil, concatStrings, joinComma]
    simp [String.ext_iff]
  · have d0 : ("(-(" : String).data = ['(', '-', '('] := rfl
    have d1 : ("[" : String).data = ['['] := rfl
    have d2 : ("]))\n" : String).data = [']', ')', ')', '\n'] := rfl
    have hsrc : ("(-(" ++ a ++ "[" ++ b ++ "]))\n").data
        = '(' :: '-' :: '(' :: a0 :: (as ++ '[' :: b0 :: (bs ++ ']' :: ')' :: ')' :: '\n' :: [])) := by
      simp only [String.data_append, hda, hdb, d0, d1, d2, List.append_assoc,
        List.cons_append, List.nil_append]
    have h0 : Lexer.nextToken { ch := '(', rest := '-' :: '(' :: a0 :: (as ++ '[' :: b0 :: (bs ++ ']' :: ')' :: ')' :: '\n' :: [])) }
        = ({ type := .LPAREN, literal := "(" }, { ch := '-', rest := '(' :: a0 :: (as ++ '[' :: b0 :: (bs ++ ']' :: ')' :: ')' :: '\n' :: [])) }) := rfl
    have h1 : Lexer.nextToken { ch := '-', rest := '(' :: a0 :: (as ++ '[' :: b0 :: (bs ++ ']' :: ')' :: ')' :: '\n' :: [])) }
        = ({ type := .MINUS, literal := "-" }, { ch := '(', rest := a0 :: (as ++ '[' :: b0 :: (bs ++ ']' :: ')' :: ')' :: '\n' :: [])) }) := rfl
    have h2 : Lexer.nextToken { ch := '(', rest := a0 :: (as ++ '[' :: b0 :: (bs ++ ']' :: ')' :: ')' :: '\n' :: [])) }
        = ({ type := .LPAREN, literal := "(" }, { ch := a0, rest := as ++ '[' :: b0 :: (bs ++ ']' :: ')' :: ')' :: '\n' :: []) }) := rfl
    have h3 : Lexer.nextToken { ch := a0, rest := as ++ '[' :: b0 :: (bs ++ ']' :: ')' :: ')' :: '\n' :: []) }
        = ({ type := .IDENT, literal := a }, { ch := '[', rest := b0 :: (bs ++ ']' :: ')' :: ')' :: '\n' :: []) }) := wa '[' _ (by decide)
    have h4 : Lexer.nextToken { ch := '[', rest := b0 :: (bs ++ ']' :: ')' :: ')' :: '\n' :: []) }
        = ({ type := .LBRACKET, literal := "[" }, { ch := b0, rest := bs ++ ']' :: ')' :: ')' :: '\n' :: [] }) := rfl
    have h5 : Lexer.nextToken { ch := b0, rest := bs ++ ']' :: ')' :: ')' :: '\n' :: [] }
        = ({ type := .IDENT, literal := b }, { ch := ']', rest := ')' :: ')' :: '\n' :: [] }) := wb ']' _ (by decide)
    have h6 : Lexer.nextToken { ch := ']', rest := ')' :: ')' :: '\n' :: [] }
        = ({ type := .RBRACKET, literal := "]" }, { ch := ')', rest := ')' :: '\n' :: [] }) := rfl
    have h7 : Lexer.nextToken { ch := ')', rest := ')' :: '\n' :: [] }
        = ({ type := .RPAREN, literal := ")" }, { ch := ')', rest := '\n' :: [] }) := rfl
    have h8 : Lexer.nextToken { ch := ')', rest := '\n' :: [] }
        = ({ type := .RPAREN, literal := ")" }, { ch := '\n', rest := [] }) := rfl
    have h9 : Lexer.nextToken { ch := '\n', rest := [] }
        = ({ type := .EOF, literal := "" }, { ch := NUL, rest := [] }) := rfl
    have h10 : Lexer.nextToken { ch := NUL, rest := [] }
        = ({ type := .EOF, literal := "" }, { ch := NUL, rest := [] }) := nextToken_eof
    have hnew : Parser.new (Lexer.new ('(' :: '-' :: '(' :: a0 :: (as ++ '[' :: b0 :: (bs ++ ']' :: ')' :: ')' :: '\n' :: []))))
        = Parser.mk { ch := '(', rest := a0 :: (as ++ '[' :: b0 :: (bs ++ ']' :: ')' :: ')' :: '\n' :: [])) } []
            { type := .LPAREN, literal := "(" } { type := .MINUS, literal := "-" } [] := by
      simp only [Parser.new, Lexer.new, Lexer.readChar, Parser.nextToken, h0, h1]
    simp only [parseToString, parseSource, hsrc, hnew]
    rw [parse_printed_prefix_index _ _ _ _ _ _ _ _ _ _ _ _ _
      h2 h3 h4 h5 h6 h7 h8 h9 h10 k]
    simp only [nodeString, derefNode, List.get?_cons_succ, List.get?_cons_zero, mapRes,
      Res.ok_bind, Res.pure_eq, List.map_cons, List.map_nil, concatStrings, joinComma]
    simp [String.ext_iff]
  · have d0 : ("(" : String).data = ['('] := rfl
    have d1 : (" " : String).data = [' '] := rfl
    have d2 : (" (" : String).data = [' ', '('] := rfl
    have d3 : ("[" : String).data = ['['] := rfl
    have d4 : ("]))\n" : String).data = [']', ')', ')', '\n'] := rfl
    have hsrc : ("(" ++ a ++ " " ++ op1 ++ " (" ++ b ++ "[" ++ c ++ "]))\n").data
        = '(' :: a0 :: (as ++ ' ' :: (op1.data ++ ' ' :: '(' :: b0 :: (bs ++ '[' :: c0 :: (cs ++ ']' :: ')' :: ')' :: '\n' :: [])))) := by
      simp only [String.data_append, hda, hdb, hdc, d0, d1, d2, d3, d4, List.append_assoc,
        List.cons_append, List.nil_append]
    have h0 : Lexer.nextToken { ch := '(', rest := a0 :: (as ++ ' ' :: (op1.data ++ ' ' :: '(' :: b0 :: (bs ++ '[' :: c0 :: (cs ++ ']' :: ')' :: ')' :: '\n' :: [])))) }
        = ({ type := .LPAREN, literal := "(" }, { ch := a0, rest := as ++ ' ' :: (op1.data ++ ' ' :: '(' :: b0 :: (bs ++ '[' :: c0 :: (cs ++ ']' :: ')' :: ')' :: '\n' :: []))) }) := rfl
    have h1 : Lexer.nextToken { ch := a0, rest := as ++ ' ' :: (op1.data ++ ' ' :: '(' :: b0 :: (bs ++ '[' :: c0 :: (cs ++ ']' :: ')' :: ')' :: '\n' :: []))) }
        = ({ type := .IDENT, literal := a }, { ch := ' ', rest := (op1.data ++ ' ' :: '(' :: b0 :: (bs ++ '[' :: c0 :: (cs ++ ']' :: ')' :: ')' :: '\n' :: []))) }) := wa ' ' _ (by decide)
    have h2 : Lexer.nextToken { ch := ' ', rest := (op1.data ++ ' ' :: '(' :: b0 :: (bs ++ '[' :: c0 :: (cs ++ ']' :: ')' :: ')' :: '\n' :: []))) }
        = ({ type := t1, literal := op1 }, { ch := ' ', rest := '(' :: b0 :: (bs ++ '[' :: c0 :: (cs ++ ']' :: ')' :: ')' :: '\n' :: [])) }) := hx1 _
    have h3 : Lexer.nextToken { ch := ' ', rest := '(' :: b0 :: (bs ++ '[' :: c0 :: (cs ++ ']' :: ')' :: ')' :: '\n' :: [])) }
        = ({ type := .LPAREN, literal := "(" }, { ch := b0, rest := bs ++ '[' :: c0 :: (cs ++ ']' :: ')' :: ')' :: '\n' :: []) }) := rfl
    have h4 : Lexer.nextToken { ch := b0, rest := bs ++ '[' :: c0 :: (cs ++ ']' :: ')' :: ')' :: '\n' :: []) }
        = ({ type := .IDENT, literal := b }, { ch := '[', rest := c0 :: (cs ++ ']' :: ')' :: ')' :: '\n' :: []) }) := wb '[' _ (by decide)
    have h5 : Lexer.nextToken { ch := '[', rest := c0 :: (cs ++ ']' :: ')' :: ')' :: '\n' :: []) }
        = ({ type := .LBRACKET, literal := "[" }, { ch := c0, rest := cs ++ ']' :: ')' :: ')' :: '\n' :: [] }) := rfl
    have h6 : Lexer.nextToken { ch := c0, rest := cs ++ ']' :: ')' :: ')' :: '\n' :: [] }
        = ({ type := .IDENT, literal := c }, { ch := ']', rest := ')' :: ')' :: '\n' :: [] }) := wc ']' _ (by decide)
    have h7 : Lexer.nextToken { ch := ']', rest := ')' :: ')' :: '\n' :: [] }
        = ({ type := .RBRACKET, literal := "]" }, { ch := ')', rest := ')' :: '\n' :: [] }) := rfl
    have h8 : Lexer.nextToken { ch := ')', rest := ')' :: '\n' :: [] }
        = ({ type := .RPAREN, literal := ")" }, { ch := ')', rest := '\n' :: [] }) := rfl
    have h9 : Lexer.nextToken { ch := ')', rest := '\n' :: [] }
        = ({ type := .RPAREN, literal := ")" }, { ch := '\n', rest := [] }) := rfl
    have h10 : Lexer.nextToken { ch := '\n', rest := [] }
        = ({ type := .EOF, literal := "" }, { ch := NUL, rest := [] }) := rfl
    have h11 : Lexer.nextToken { ch := NUL, rest := [] }
        = ({ type := .EOF, literal := "" }, { ch := NUL, rest := [] }) := nextToken_eof
    have hnew : Parser.new (Lexer.new ('(' :: a0 :: (as ++ ' ' :: (op1.data ++ ' ' :: '(' :: b0 :: (bs ++ '[' :: c0 :: (cs ++ ']' :: ')' :: ')' :: '\n' :: []))))))
        = Parser.mk { ch := ' ', rest := (op1.data ++ ' ' :: '(' :: b0 :: (bs ++ '[' :: c0 :: (cs ++ ']' :: ')' :: ')' :: '\n' :: []))) } []
            { type := .LPAREN, literal := "(" } { type := .IDENT, literal := a } [] := by
      simp only [Parser.new, Lexer.new, Lexer.readChar, Parser.nextToken, h0, h1]
    simp only [parseToString, parseSource, hsrc, hnew]
    rw [parse_printed_operator_index _ _ _ _ _ _ _ _ _ _ _ _ _ _ _ _ _ _
      h2 h3 h4 h5 h6 h7 h8 h9 h10 h11 i1 p1 n1 z1 u1 k]
    simp only [nodeString, derefNode, List.get?_cons_succ, List.get?_cons_zero, mapRes,
      Res.ok_bind, Res.pure_eq, List.map_cons, List.map_nil, concatStrings, joinComma]
    simp [String.ext_iff]
  · have d0 : ("(" : String).data = ['('] := rfl
    have d1 : (" " : String).data = [' '] := rfl
    have d2 : ("))\n" : String).data = [')', ')', '\n'] := rfl
    have hsrc : ("(" ++ a ++ " " ++ op1 ++ " " ++ f ++ "(" ++ b ++ "))\n").data
        = '(' :: a0 :: (as ++ ' ' :: (op1.data ++ ' ' :: f0 :: (fs ++ '(' :: b0 :: (bs ++ ')' :: ')' :: '\n' :: [])))) := by
      simp only [String.data_append, hda, hdf, hdb, d0, d1, d2, List.append_assoc,
        List.cons_append, List.nil_append]
    have h0 : Lexer.nextToken { ch := '(', rest := a0 :: (as ++ ' ' :: (op1.data ++ ' ' :: f0 :: (fs ++ '(' :: b0 :: (bs ++ ')' :: ')' :: '\n' :: [])))) }
        = ({ type := .LPAREN, literal := "(" }, { ch := a0, rest := as ++ ' ' :: (op1.data ++ ' ' :: f0 :: (fs ++ '(' :: b0 :: (bs ++ ')' :: ')' :: '\n' :: []))) }) := rfl
    have h1 : Lexer.nextToken { ch := a0, rest := as ++ ' ' :: (op1.data ++ ' ' :: f0 :: (fs ++ '(' :: b0 :: (bs ++ ')' :: ')' :: '\n' :: []))) }
        = ({ type := .IDENT, literal := a }, { ch := ' ', rest := (op1.data ++ ' ' :: f0 :: (fs ++ '(' :: b0 :: (bs ++ ')' :: ')' :: '\n' :: []))) }) := wa ' ' _ (by decide)
    have h2 : Lexer.nextToken { ch := ' ', rest := (op1.data ++ ' ' :: f0 :: (fs ++ '(' :: b0 :: (bs ++ ')' :: ')' :: '\n' :: []))) }
        = ({ type := t1, literal := op1 }, { ch := ' ', rest := f0 :: (fs ++ '(' :: b0 :: (bs ++ ')' :: ')' :: '\n' :: [])) }) := hx1 _
    have h3 : Lexer.nextToken { ch := ' ', rest := f0 :: (fs ++ '(' :: b0 :: (bs ++ ')' :: ')' :: '\n' :: [])) }
        = ({ type := .IDENT, literal := f }, { ch := '(', rest := b0 :: (bs ++ ')' :: ')' :: '\n' :: []) }) := swf '(' _ (by decide)
    have h4 : Lexer.nextToken { ch := '(', rest := b0 :: (bs ++ ')' :: ')' :: '\n' :: []) }
        = ({ type := .LPAREN, literal := "(" }, { ch := b0, rest := bs ++ ')' :: ')' :: '\n' :: [] }) := rfl
    have h5 : Lexer.nextToken { ch := b0, rest := bs ++ ')' :: ')' :: '\n' :: [] }
        = ({ type := .IDENT, literal := b }, { ch := ')', rest := ')' :: '\n' :: [] }) := wb ')' _ (by decide)
    have h6 : Lexer.nextToken { ch := ')', rest := ')' :: '\n' :: [] }
        = ({ type := .RPAREN, literal := ")" }, { ch := ')', rest := '\n' :: [] }) := rfl
    have h7 : Lexer.nextToken { ch := ')', rest := '\n' :: [] }
        = ({ type := .RPAREN, literal := ")" }, { ch := '\n', rest := [] }) := rfl
    have h8 : Lexer.nextToken { ch := '\n', rest := [] }
        = ({ type := .EOF, literal := "" }, { ch := NUL, rest := [] }) := rfl
    have h9 : Lexer.nextToken { ch := NUL, rest := [] }
        = ({ type := .EOF, literal := "" }, { ch := NUL, rest := [] }) := nextToken_eof
    have hnew : Parser.new (Lexer.new ('(' :: a0 :: (as ++ ' ' :: (op1.data ++ ' ' :: f0 :: (fs ++ '(' :: b0 :: (bs ++ ')' :: ')' :: '\n' :: []))))))
        = Parser.mk { ch := ' ', rest := (op1.data ++ ' ' :: f0 :: (fs ++ '(' :: b0 :: (bs ++ ')' :: ')' :: '\n' :: []))) } []
            { type := .LPAREN, literal := "(" } { type := .IDENT, literal := a } [] := by
      simp only [Parser.new, Lexer.new, Lexer.readChar, Parser.nextToken, h0, h1]
    simp only [parseToString, parseSource, hsrc, hnew]
    rw [parse_printed_operator_call _ _ _ _ _ _ _ _ _ _ _ _ _ _ _ _
      h2 h3 h4 h5 h6 h7 h8 h9 i1 p1 n1 z1 u1 k]
    simp only [nodeString, derefNode, List.get?_cons_succ, List.get?_cons_zero, mapRes,
      Res.ok_bind, Res.pure_eq, List.map_cons, List.map_nil, concatStrings, joinComma]
    simp [String.ext_iff]

/-- C7 fails on the three kinds of program it names, on a macro literal and
on a program of two statements. Each source parses without error.
`if (x) { y }` prints as `ifx y`, which parses as the two statements `ifx` and
`y`; the string literal `"hello world"` prints without its quotes, which parses
as two identifiers; `fn(x) { x }` prints as `fn(x)x` and `macro(x) { x }` as
`macro(x)x`, on which the parser reports an error; `a; (b + c)` prints as the
lines `a` and `(b + c)`, which parse as one call. -/
theorem printed_if_string_fn_do_not_parse_back :
    parseToString 30 "if (x) \x7b y \x7d" = .ok ("ifx y\n", [])
    ∧ parseToString 30 "ifx y\n" = .ok ("ifx\ny\n", [])
    ∧ parseToString 30 "\x22hello world\x22" = .ok ("hello world\n", [])
    ∧ parseToString 30 "hello world\n" = .ok ("hello\nworld\n", [])
    ∧ parseToString 30 "fn(x) \x7b x \x7d" = .ok ("fn(x)x\n", [])
    ∧ parseToString 30 "fn(x)x\n"
        = .ok ("\nx\n", ["expected next token to be LBRACE, got IDENT instead"])
    ∧ parseToString 30 "a; (b + c)" = .ok ("a\n(b + c)\n", [])
    ∧ parseToString 30 "a\n(b + c)\n" = .ok ("a((b + c))\n", [])
    ∧ parseToString 30 "macro(x) \x7b x \x7d" = .ok ("macro(x)x\n", [])
    ∧ parseToString 30 "macro(x)x\n"
        = .ok ("\nx\n", ["expected next token to be LBRACE, got IDENT instead"]) := by
  refine ⟨by decide!, by decide!, by decide!, by decide!, by decide!, by decide!, by decide!,
    by decide!, by decide!, by decide!⟩

/-! ## Infix operators on operands that are neither two integers nor two strings (C11) -/

/-- C11: let `left` and `right` point to objects that are not both `Integer`
and not both `Strin`. Then `evalInfixExpression` returns, without touching the
memory, the `TRUE` singleton for `==` exactly when the two pointers are the
same object (else `FALSE`), and the opposite for `!=`; for every other
operator it allocates one `Error`, with the message
`type mismatch: <L> <op> <R>` when the type tags differ and
`unknown operator: <L> <op> <R>` when they are equal. -/
theorem infix_on_other_operands_compares_identity (op : String) (left right : ObjPtr)
    (m : Memory) (lo ro : Object)
    (hl : m.deref left = .ok lo) (hr : m.deref right = .ok ro)
    (hint : ¬ (lo.type = "INTEGER" ∧ ro.type = "INTEGER"))
    (hstr : ¬ (lo.type = "STRING" ∧ ro.type = "STRING")) :
    evalInfixExpression op left right m =
      if op = "==" then .ok (if left = right then TRUE_OBJ else FALSE_OBJ, m)
      else if op = "!=" then .ok (if left = right then FALSE_OBJ else TRUE_OBJ, m)
      else if lo.type ≠ ro.type then
        .ok (some m.objects.length,
          { m with objects := m.objects ++
              [.Error ("type mismatch: " ++ lo.type ++ " " ++ op ++ " " ++ ro.type)] })
      else
        .ok (some m.objects.length,
          { m with objects := m.objects ++
              [.Error ("unknown operator: " ++ lo.type ++ " " ++ op ++ " " ++ ro.type)] }) := by
  have hi : (if lo.type = "INTEGER" then
      (Res.ok (decide (ro.type = "INTEGER")) : Res Bool) else Res.ok false) = .ok false := by
    by_cases h1 : lo.type = "INTEGER"
    · have h2 : ¬ ro.type = "INTEGER" := fun h => hint ⟨h1, h⟩
      simp only [h1, ↓reduceIte, h2, decide_False]
    · simp only [h1, ↓reduceIte]
  have hs : (if lo.type = "STRING" then
      (Res.ok (decide (ro.type = "STRING")) : Res Bool) else Res.ok false) = .ok false := by
    by_cases h1 : lo.type = "STRING"
    · have h2 : ¬ ro.type = "STRING" := fun h => hstr ⟨h1, h⟩
      simp only [h1, ↓reduceIte, h2, decide_False]
    · simp only [h1, ↓reduceIte]
  simp only [evalInfixExpression, bothHaveType, typeOf, hl, hr, Res.ok_bind, Res.pure_eq, hi, hs,
    Bool.false_eq_true, ↓reduceIte, nativeBoolToBooleaObject, decide_eq_true_eq, newError,
    Memory.makeObj, decide_not, Bool.not_eq_true', decide_eq_false_iff_not, ite_not]

/-- The theorem for C11 applied to the `TRUE` singleton compared with itself,
and the runs of `start` on `(1 < 2) == (1 < 2)`, `[1] == [1]`, `1 == "a"`,
`1 + "a"` and `[1] + [2]`. -/
theorem infix_on_other_operands_compares_identity_witness :
    evalInfixExpression "==" TRUE_OBJ TRUE_OBJ (Memory.init [])
      = (if "==" = "==" then .ok (if TRUE_OBJ = TRUE_OBJ then TRUE_OBJ else FALSE_OBJ, Memory.init [])
        else if "==" = "!=" then .ok (if TRUE_OBJ = TRUE_OBJ then FALSE_OBJ else TRUE_OBJ, Memory.init [])
        else if (Object.Boolea true).type ≠ (Object.Boolea true).type then
          .ok (some (Memory.init []).objects.length,
            { Memory.init [] with objects := (Memory.init []).objects ++
                [.Error ("type mismatch: " ++ (Object.Boolea true).type ++ " " ++ "==" ++ " "
                  ++ (Object.Boolea true).type)] })
        else
          .ok (some (Memory.init []).objects.length,
            { Memory.init [] with objects := (Memory.init []).objects ++
                [.Error ("unknown operator: " ++ (Object.Boolea true).type ++ " " ++ "==" ++ " "
                  ++ (Object.Boolea true).type)] }))
    ∧ evalInfixExpression "==" NULL_OBJ NULL_OBJ (Memory.init []) = .ok (TRUE_OBJ, Memory.init [])
    ∧ startOutput 30 "(1 < 2) == (1 < 2)" = .ok (some "true")
    ∧ startOutput 30 "[1] == [1]" = .ok (some "false")
    ∧ startOutput 30 "[1] != [1]" = .ok (some "true")
    ∧ startOutput 30 "1 == \x22a\x22" = .ok (some "false")
    ∧ startOutput 30 "1 + \x22a\x22" = .ok (some "ERROR: type mismatch: INTEGER + STRING")
    ∧ startOutput 30 "[1] + [2]" = .ok (some "ERROR: unknown operator: ARRAY + ARRAY") :=
  ⟨infix_on_other_operands_compares_identity "==" TRUE_OBJ TRUE_OBJ (Memory.init [])
      (.Boolea true) (.Boolea true) (by decide) (by decide) (by decide) (by decide),
    by decide!, by decide!, by decide!, by decide!, by decide!, by decide!, by decide!⟩

/-! ## If-expressions (C12) -/

/-- C12: when the condition of an if-expression evaluates to `c`, not an
`Error`, in the memory `m1`, `evalIfExpression` is the evaluation in `m1` of
the consequence alone when `c` is neither the `FALSE` nor the `NULL` singleton,
of the alternative alone when `c` is one of the two and there is an
alternative, and else it is the `NULL` singleton with `m1` as it is; `eval` on
an `IfExpression` node is `evalIfExpression`, so with fuel `k + 1` it runs the
chosen branch with fuel `k`; a condition that is an `Integer` (0 included)
selects the consequence. -/
theorem if_expression_evaluates_one_branch (ev : Eval)
    (condition consequence alternative : NodePtr) (env : Nat) (m m1 : Memory) (c : ObjPtr)
    (hc : ev condition env m = .ok (c, m1)) (hne : isError m1 c = false) :
    evalIfExpression ev condition consequence alternative env m
        = (if c ≠ FALSE_OBJ ∧ c ≠ NULL_OBJ then ev consequence env m1
           else if alternative ≠ none then ev alternative env m1
           else .ok (NULL_OBJ, m1))
    ∧ (∀ k a tok, ev = eval k →
        m.nodes.get? a = some (.IfExpression tok condition consequence alternative) →
        eval (k + 1) (some a) env m
          = (if c ≠ FALSE_OBJ ∧ c ≠ NULL_OBJ then eval k consequence env m1
             else if alternative ≠ none then eval k alternative env m1
             else .ok (NULL_OBJ, m1)))
    ∧ (∀ v, m1.objects.get? 0 = some .Null → m1.objects.get? 2 = some (.Boolea false) →
        c.bind m1.objects.get? = some (.Integer v) →
        evalIfExpression ev condition consequence alternative env m = ev consequence env m1) := by
  have main : evalIfExpression ev condition consequence alternative env m
        = (if c ≠ FALSE_OBJ ∧ c ≠ NULL_OBJ then ev consequence env m1
           else if alternative ≠ none then ev alternative env m1
           else .ok (NULL_OBJ, m1)) := by
    simp only [evalIfExpression, hc, Res.ok_bind, hne, Bool.false_eq_true, ↓reduceIte, isTruthy,
      Res.pure_eq]
    by_cases h0 : c = NULL_OBJ
    · subst h0
      simp [NULL_OBJ, FALSE_OBJ, TRUE_OBJ]
    · by_cases h1 : c = TRUE_OBJ
      · subst h1
        simp [NULL_OBJ, FALSE_OBJ, TRUE_OBJ]
      · by_cases h2 : c = FALSE_OBJ
        · subst h2
          simp [NULL_OBJ, FALSE_OBJ, TRUE_OBJ]
        · simp [h0, h1, h2]
  refine ⟨main, ?_, ?_⟩
  · intro k a tok hev ha
    subst hev
    rw [← main]
    simp only [eval, ha]
  · intro v h0 h2 hv
    rw [main]
    have n1 : c ≠ FALSE_OBJ := by
      rintro rfl
      have h : m1.objects.get? 2 = some (.Integer v) := hv
      rw [h2] at h
      exact absurd h (by simp)
    have n2 : c ≠ NULL_OBJ := by
      rintro rfl
      have h : m1.objects.get? 0 = some (.Integer v) := hv
      rw [h0] at h
      exact absurd h (by simp)
    simp only [n1, n2, ne_eq, not_false_eq_true, and_self, ↓reduceIte]

/-- The theorem for C12 applied to the condition `0` of `if (0) { 10 } else { 20 }`,
and the runs of `start` on that program (the consequence: 10), on
`if (1 > 2) { 10 } else { 20 }` (the alternative: 20) and on `if (1 > 2) { 10 }`
(`null`). -/
theorem if_expression_evaluates_one_branch_witness :
    evalIfExpression (eval 20) (some 3) (some 4) (some 7) 0
        (memoryOf "if (0) \x7b 10 \x7d else \x7b 20 \x7d")
      = (if (some 9 : ObjPtr) ≠ FALSE_OBJ ∧ (some 9 : ObjPtr) ≠ NULL_OBJ then
          eval 20 (some 4) 0
            ((memoryOf "if (0) \x7b 10 \x7d else \x7b 20 \x7d").makeObj (Integer.mk 0)).2
         else if (some 7 : NodePtr) ≠ none then
          eval 20 (some 7) 0
            ((memoryOf "if (0) \x7b 10 \x7d else \x7b 20 \x7d").makeObj (Integer.mk 0)).2
         else .ok (NULL_OBJ,
            ((memoryOf "if (0) \x7b 10 \x7d else \x7b 20 \x7d").makeObj (Integer.mk 0)).2))
    ∧ startOutput 30 "if (0) \x7b 10 \x7d else \x7b 20 \x7d" = .ok (some "10")
    ∧ startOutput 30 "if (1 > 2) \x7b 10 \x7d else \x7b 20 \x7d" = .ok (some "20")
    ∧ startOutput 30 "if (1 > 2) \x7b 10 \x7d" = .ok (some "null") :=
  ⟨(if_expression_evaluates_one_branch (eval 20) (some 3) (some 4) (some 7) 0
      (memoryOf "if (0) \x7b 10 \x7d else \x7b 20 \x7d")
      ((memoryOf "if (0) \x7b 10 \x7d else \x7b 20 \x7d").makeObj (Integer.mk 0)).2 (some 9)
      (by decide!) (by decide!)).1,
    by decide!, by decide!, by decide!⟩

/-! ## Double negation (C13) -/

/-- C13: `evalBangOperatorExpression` maps the `FALSE` singleton to `TRUE`,
`TRUE` to `FALSE`, `NULL` to `TRUE` and every other pointer to `FALSE`. In a
memory that keeps the singletons `TRUE` and `FALSE` at their addresses, if `x`
evaluates with fuel `k` to `v`, not an `Error`, then `!!x` (two nested
`PrefixExpression` nodes with the operator `!`) evaluates with fuel `k + 2` to
the `TRUE` singleton when `v` is truthy, that is neither the `FALSE` nor the
`NULL` singleton, and to the `FALSE` singleton otherwise, in the memory the
evaluation of `x` left. -/
theorem double_bang_is_truthiness (k : Nat) (a b : Nat) (x : NodePtr) (ta tb : Token)
    (env : Nat) (m m1 : Memory) (v : ObjPtr)
    (ha : m.nodes.get? a = some (.PrefixExpression ta "!" (some b)))
    (hb : m.nodes.get? b = some (.PrefixExpression tb "!" x))
    (hx : eval k x env m = .ok (v, m1)) (hne : isError m1 v = false)
    (h1 : m1.objects.get? 1 = some (.Boolea true))
    (h2 : m1.objects.get? 2 = some (.Boolea false)) :
    eval (k + 2) (some a) env m
        = .ok (if v ≠ FALSE_OBJ ∧ v ≠ NULL_OBJ then TRUE_OBJ else FALSE_OBJ, m1)
    ∧ (v ≠ FALSE_OBJ ∧ v ≠ NULL_OBJ ↔ isTruthy v = true)
    ∧ evalBangOperatorExpression FALSE_OBJ = TRUE_OBJ
    ∧ evalBangOperatorExpression TRUE_OBJ = FALSE_OBJ
    ∧ evalBangOperatorExpression NULL_OBJ = TRUE_OBJ
    ∧ (∀ r, r ≠ FALSE_OBJ → r ≠ TRUE_OBJ → r ≠ NULL_OBJ →
        evalBangOperatorExpression r = FALSE_OBJ) := by
  have et : isError m1 TRUE_OBJ = false := by
    simp only [isError, TRUE_OBJ, h1, Object.type]
    decide
  have ef : isError m1 FALSE_OBJ = false := by
    simp only [isError, FALSE_OBJ, h2, Object.type]
    decide
  have inner : eval (k + 1) (some b) env m = .ok (evalBangOperatorExpression v, m1) := by
    simp only [eval, hb, hx, Res.ok_bind, hne, Bool.false_eq_true, ↓reduceIte,
      evalPrefixExpression]
  have eb : isError m1 (evalBangOperatorExpression v) = false := by
    simp only [evalBangOperatorExpression]
    split
    · exact ef
    · split
      · exact et
      · split
        · exact et
        · exact ef
  refine ⟨?_, ?_, by decide, by decide, by decide, ?_⟩
  · rw [eval.eq_3]
    simp only [ha]
    rw [inner]
    simp only [Res.ok_bind, eb, Bool.false_eq_true, ↓reduceIte, evalPrefixExpression]
    congr 2
    by_cases c0 : v = NULL_OBJ
    · subst c0; decide
    · by_cases c1 : v = TRUE_OBJ
      · subst c1; decide
      · by_cases c2 : v = FALSE_OBJ
        · subst c2; decide
        · simp only [NULL_OBJ, TRUE_OBJ, FALSE_OBJ] at c0 c1 c2
          simp [evalBangOperatorExpression, c0, c1, c2, TRUE_OBJ, FALSE_OBJ, NULL_OBJ]
  · by_cases c0 : v = NULL_OBJ
    · subst c0; decide
    · by_cases c1 : v = TRUE_OBJ
      · subst c1; decide
      · by_cases c2 : v = FALSE_OBJ
        · subst c2; decide
        · simp [isTruthy, c0, c1, c2]
  · intro r r1 r2 r3
    simp [evalBangOperatorExpression, r1, r2, r3]

/-- The theorem for C13 applied to `!!5`, and the runs of `start` on `!!5`,
`!!0`, `!!(1 > 2)` and `!!(1 < 2)`. -/
theorem double_bang_is_truthiness_witness :
    eval 3 (some 2) 0 (memoryOf "!!5")
        = .ok (if (some 9 : ObjPtr) ≠ FALSE_OBJ ∧ (some 9 : ObjPtr) ≠ NULL_OBJ then TRUE_OBJ
               else FALSE_OBJ, ((memoryOf "!!5").makeObj (Integer.mk 5)).2)
    ∧ startOutput 30 "!!5" = .ok (some "true")
    ∧ startOutput 30 "!!0" = .ok (some "true")
    ∧ startOutput 30 "!!(1 > 2)" = .ok (some "false")
    ∧ startOutput 30 "!!(1 < 2)" = .ok (some "true") :=
  ⟨(double_bang_is_truthiness 1 2 3 (some 4) { type := .BANG, literal := "!" }
      { type := .BANG, literal := "!" } 0 (memoryOf "!!5")
      ((memoryOf "!!5").makeObj (Integer.mk 5)).2 (some 9)
      (by decide!) (by decide!) (by decide!) (by decide!) (by decide!) (by decide!)).1,
    by decide!, by decide!, by decide!, by decide!⟩

/-! ## Array indexing (C14) -/

/-- C14: for an `Array` with the elements `elements` and an `Integer` index
`idx`, `evalArrayIndexExpression` returns, without touching the memory, the
element at position `idx` when `0 ≤ idx < elements.length` and the `NULL`
singleton otherwise (always so for the empty array); it never reads outside
the vector (the result is never `crash`) and allocates no `Error`;
`evalIndexExpression` dispatches to it on an `Array` and an `Integer`. -/
theorem array_index_is_total (left index : ObjPtr) (m : Memory) (elements : List ObjPtr)
    (idx : Int)
    (hl : m.deref left = .ok (.Array elements)) (hi : m.deref index = .ok (.Integer idx)) :
    evalArrayIndexExpression left index m
        = .ok (if 0 ≤ idx ∧ idx < (elements.length : Int)
               then elements.getD idx.toNat NULL_OBJ else NULL_OBJ, m)
    ∧ evalIndexExpression left index m = evalArrayIndexExpression left index m
    ∧ (0 ≤ idx ∧ idx < (elements.length : Int) →
        elements.get? idx.toNat = some (elements.getD idx.toNat NULL_OBJ)) := by
  have key : 0 ≤ idx ∧ idx < (elements.length : Int) →
      elements.get? idx.toNat = some (elements.getD idx.toNat NULL_OBJ) := by
    intro h
    have hlt : idx.toNat < elements.length := by omega
    rw [List.getD_eq_getElem?_getD, List.get?_eq_getElem?, List.getElem?_eq_getElem hlt]
    rfl
  refine ⟨?_, ?_, key⟩
  · simp only [evalArrayIndexExpression, hl, hi, Res.ok_bind, Res.pure_eq, Int.ofNat_eq_coe]
    by_cases h : 0 ≤ idx ∧ idx < (elements.length : Int)
    · have hn : ¬ (idx < 0 ∨ idx > (elements.length : Int) - 1) := by omega
      simp only [hn, ↓reduceIte, h, and_self, vectorAt, key h, Res.ok_bind]
    · have hn : idx < 0 ∨ idx > (elements.length : Int) - 1 := by omega
      simp only [hn, ↓reduceIte, h]
  · simp only [evalIndexExpression, typeOf, hl, hi, Res.ok_bind, Res.pure_eq, Object.type,
      ↓reduceIte, decide_True]

/-- The theorem for C14 applied to the empty array and the index 0 of `[][0]`,
and the runs of `start` on `[1, 2, 3][1]`, `[1, 2, 3][3]`, `[1, 2, 3][0 - 1]`
and `[][0]`. -/
theorem array_index_is_total_witness :
    evalArrayIndexExpression (some 9) (some 10) (finalMemoryOf "[][0]")
        = .ok (if (0 : Int) ≤ 0 ∧ (0 : Int) < (([] : List ObjPtr).length : Int)
               then ([] : List ObjPtr).getD (0 : Int).toNat NULL_OBJ else NULL_OBJ,
              finalMemoryOf "[][0]")
    ∧ startOutput 30 "[1, 2, 3][1]" = .ok (some "2")
    ∧ startOutput 30 "[1, 2, 3][3]" = .ok (some "null")
    ∧ startOutput 30 "[1, 2, 3][0 - 1]" = .ok (some "null")
    ∧ startOutput 30 "[][0]" = .ok (some "null") :=
  ⟨(array_index_is_total (some 9) (some 10) (finalMemoryOf "[][0]") [] 0
      (by decide!) (by decide!)).1,
    by decide!, by decide!, by decide!, by decide!⟩

/-! ## Identifier resolution (C15) -/

/-- The lookup loop reads the innermost binding of the frame chain. -/
theorem envGetLoop_eq_innermostBinding (m : Memory) (name : String) :
    ∀ (fuel e : Nat),
      m.envGetLoop name fuel e = (innermostBinding name (frameChain m fuel e)).getD none := by
  intro fuel
  induction fuel with
  | zero => intro e; rfl
  | succ fuel ih =>
    intro e
    simp only [Memory.envGetLoop, frameChain]
    cases hf : m.envs.get? e with
    | none => rfl
    | some frame =>
      dsimp only
      simp only [innermostBinding]
      cases hs : storeFind name frame.store with
      | some v => rfl
      | none =>
        dsimp only
        cases ho : frame.outer with
        | none => rfl
        | some o => exact ih o

/-- The frame chain does not depend on the fuel once it exceeds the address. -/
theorem frameChain_fuel (m : Memory)
    (hm : ∀ e frame o, m.envs.get? e = some frame → frame.outer = some o → o < e) :
    ∀ (n e f1 f2 : Nat), e ≤ n → e < f1 → e < f2 → frameChain m f1 e = frameChain m f2 e := by
  intro n
  induction n with
  | zero =>
    intro e f1 f2 he h1 h2
    obtain ⟨g1, rfl⟩ : ∃ g, f1 = g + 1 := ⟨f1 - 1, by omega⟩
    obtain ⟨g2, rfl⟩ : ∃ g, f2 = g + 1 := ⟨f2 - 1, by omega⟩
    simp only [frameChain]
    cases hf : m.envs.get? e with
    | none => rfl
    | some frame =>
      dsimp only
      cases ho : frame.outer with
      | none => rfl
      | some o =>
        have := hm e frame o hf ho
        omega
  | succ n ih =>
    intro e f1 f2 he h1 h2
    obtain ⟨g1, rfl⟩ : ∃ g, f1 = g + 1 := ⟨f1 - 1, by omega⟩
    obtain ⟨g2, rfl⟩ : ∃ g, f2 = g + 1 := ⟨f2 - 1, by omega⟩
    simp only [frameChain]
    cases hf : m.envs.get? e with
    | none => rfl
    | some frame =>
      dsimp only
      cases ho : frame.outer with
      | none => rfl
      | some o =>
        dsimp only
        have := hm e frame o hf ho
        rw [ih o g1 g2 (by omega) (by omega) (by omega)]

/-- C15 (amended): `evalIdentifier` answers a name of the built-in registry with
the registry's `Builtin` object whatever the environment binds; any other name
with the object that the innermost frame binding it holds, provided that binding
holds an object; and with a new Error `identifier not found: <name>` both when
no frame of the chain binds the name and when the innermost binding holds no
object (a null pointer). The chain `frameChain m (env + 1) env` is the whole
chain of outer frames when outer links point to older frames. -/
theorem identifier_resolution_order (name : String) (env : Nat) (m : Memory)
    (hm : envsOrdered m = true) :
    (name ∈ builtinNames →
      evalIdentifier name env m = .ok (getBuiltin name, m)
      ∧ ∃ (b : Nat) (f : BuiltinFn), getBuiltin name = some b
          ∧ staticObjects.get? b = some (.Builtin f))
    ∧ (name ∉ builtinNames →
      evalIdentifier name env m =
        match innermostBinding name (frameChain m (env + 1) env) with
        | some (some o) => .ok (some o, m)
        | _ => newError ("identifier not found: " ++ name) m)
    ∧ (∀ fuel, env < fuel → frameChain m fuel env = frameChain m (env + 1) env) := by
  refine ⟨?_, ?_, ?_⟩
  · intro hn
    simp only [builtinNames, List.mem_cons, List.mem_singleton, List.not_mem_nil, or_false] at hn
    rcases hn with rfl | rfl | rfl | rfl | rfl | rfl
    · exact ⟨rfl, 3, _, rfl, rfl⟩
    · exact ⟨rfl, 4, _, rfl, rfl⟩
    · exact ⟨rfl, 5, _, rfl, rfl⟩
    · exact ⟨rfl, 6, _, rfl, rfl⟩
    · exact ⟨rfl, 7, _, rfl, rfl⟩
    · exact ⟨rfl, 8, _, rfl, rfl⟩
  · intro hn
    simp only [builtinNames, List.mem_cons, List.mem_singleton, List.not_mem_nil, or_false,
      not_or] at hn
    obtain ⟨h1, h2, h3, h4, h5, h6⟩ := hn
    have hb : getBuiltin name = none := by
      simp only [getBuiltin, h1, h2, h3, h4, h5, h6, ↓reduceIte]
    have hg : m.envGet env name
        = (innermostBinding name (frameChain m (env + 1) env)).getD none :=
      envGetLoop_eq_innermostBinding m name (env + 1) env
    simp only [evalIdentifier, hb, ne_eq, not_true_eq_false, ↓reduceIte, hg]
    cases hi : innermostBinding name (frameChain m (env + 1) env) with
    | none => simp
    | some v =>
      cases v with
      | none => simp
      | some o => simp
  · intro fuel hf
    exact frameChain_fuel m (fun e frame o h1 h2 => envsOrdered_outer hm e frame o h1 h2)
      env env fuel (env + 1) (le_refl _) hf (by omega)

/-- Witness for C15 on the memory left by `let len = 5; let x = 7;`. -/
theorem identifier_resolution_order_witness :
    envsOrdered (finalMemoryOf "let len = 5; let x = 7;") = true
    ∧ innermostBinding "len" (frameChain (finalMemoryOf "let len = 5; let x = 7;") 1 0)
        = some (some 9)
    ∧ evalIdentifier "len" 0 (finalMemoryOf "let len = 5; let x = 7;")
        = .ok (some 3, finalMemoryOf "let len = 5; let x = 7;")
    ∧ evalIdentifier "x" 0 (finalMemoryOf "let len = 5; let x = 7;")
        = .ok (some 10, finalMemoryOf "let len = 5; let x = 7;")
    ∧ evalIdentifier "y" 0 (finalMemoryOf "let len = 5; let x = 7;")
        = newError "identifier not found: y" (finalMemoryOf "let len = 5; let x = 7;")
    ∧ startOutput 30 "let len = 5; len" = .ok (some "builtin function") := by
  have h := identifier_resolution_order "len" 0 (finalMemoryOf "let len = 5; let x = 7;")
    (by decide!)
  refine ⟨by decide!, by decide!, (h.1 (by decide)).1, by decide!, by decide!, by decide!⟩

/-- Counterexample to C15 as stated: after `let x = puts(1);` the global frame
binds `x` (to the null pointer that `puts` returns), yet `x` is answered with the
Error `identifier not found: x` instead of the bound value. -/
theorem unset_binding_is_reported_unbound :
    innermostBinding "x" (frameChain (finalMemoryOf "let x = puts(1);") 1 0) = some none
    ∧ evalIdentifier "x" 0 (finalMemoryOf "let x = puts(1);")
        = newError "identifier not found: x" (finalMemoryOf "let x = puts(1);")
    ∧ evalIdentifier "x" 0 (finalMemoryOf "let x = puts(1);")
        ≠ .ok (none, finalMemoryOf "let x = puts(1);")
    ∧ startOutput 30 "let x = puts(1); x" = .ok (some "ERROR: identifier not found: x") := by
  refine ⟨by decide!, by decide!, by decide!, by decide!⟩

/-! ## Hash literals keyed by a Boolean literal (C16) -/

/-- C16 (the code at the failing input): a `Boolean` literal evaluates to the
null pointer, and `evalHashLiteral` dereferences the evaluated key
(`key->type()`) when it is not `Hashable`; so evaluating a hash literal whose
first pair is keyed by a Boolean literal reads through a null pointer instead of
building the table, whatever the fuel. The witness shows the program
`{true:"yes"}[true]` of the claim. -/
theorem hash_literal_with_boolean_key_crashes (k b h : Nat) (t th : Token) (value : Bool)
    (v : NodePtr) (rest : List (NodePtr × NodePtr)) (pairs : List (String × ObjPtr))
    (env : Nat) (m : Memory)
    (hb : m.nodes.get? b = some (.Boolean t value))
    (hh : m.nodes.get? h = some (.HashLiteral th ((some b, v) :: rest))) :
    eval (k + 1) (some b) env m = .ok (none, m)
    ∧ evalHashLiteralLoop (eval (k + 1)) env ((some b, v) :: rest) pairs m = .crash
    ∧ eval (k + 2) (some h) env m = .crash := by
  have e1 : eval (k + 1) (some b) env m = .ok (none, m) := by
    rw [eval.eq_3]
    simp only [hb]
    rfl
  have e2 : ∀ pairs, evalHashLiteralLoop (eval (k + 1)) env ((some b, v) :: rest) pairs m
      = .crash := by
    intro pairs
    rw [evalHashLiteralLoop.eq_2]
    simp only [e1]
    rfl
  refine ⟨e1, e2 pairs, ?_⟩
  rw [eval.eq_3]
  simp only [hh, evalHashLiteral]
  exact e2 []

/-- Witness for C16 on the programs of the claim: the lookup keyed by `true`
crashes, the lookups keyed by a string and by an integer yield the value. -/
theorem hash_literal_with_boolean_key_crashes_witness :
    (eval (0 + 1) (some 3) 0 (memoryOf "\x7btrue:\x22yes\x22\x7d[true]")
        = .ok (none, memoryOf "\x7btrue:\x22yes\x22\x7d[true]")
      ∧ evalHashLiteralLoop (eval (0 + 1)) 0 ((some 3, some 4) :: []) []
          (memoryOf "\x7btrue:\x22yes\x22\x7d[true]") = .crash
      ∧ eval (0 + 2) (some 2) 0 (memoryOf "\x7btrue:\x22yes\x22\x7d[true]") = .crash)
    ∧ start 60 "\x7btrue:\x22yes\x22\x7d[true]" = .crash
    ∧ startOutput 60 "\x7b\x22foo\x22:1\x7d[\x22foo\x22]" = .ok (some "1")
    ∧ startOutput 60 "\x7b1:\x22a\x22\x7d[1]" = .ok (some "a") :=
  ⟨hash_literal_with_boolean_key_crashes 0 3 2 { type := .TRUE, literal := "true" }
      { type := .LBRACE, literal := "\x7b" } true (some 4) [] [] 0
      (memoryOf "\x7btrue:\x22yes\x22\x7d[true]") (by decide!) (by decide!),
    by decide!, by decide!, by decide!⟩
/-! ## Built-ins on the empty array (C17) -/

/-- C17 (the code at the failing input): applied to a single empty `Array`,
`first`, `last` and `rest` each return the null pointer, which is not the
`NULL` singleton; the memory is left as it is. The witness shows that
`first([])`, `last([])` and `rest([])` print nothing and that comparing two such
results dereferences the null pointer. -/
theorem builtins_on_empty_array_return_nullptr (a : ObjPtr) (m : Memory)
    (ha : m.deref a = .ok (.Array [])) :
    builtins.first [a] m = .ok (none, m)
    ∧ builtins.last [a] m = .ok (none, m)
    ∧ builtins.rest [a] m = .ok (none, m)
    ∧ (none : ObjPtr) ≠ NULL_OBJ := by
  refine ⟨?_, ?_, ?_, by decide⟩
  · simp [builtins.first, vectorAt, ha, Res.ok_bind, Res.pure_eq]
  · simp [builtins.last, vectorAt, ha, Res.ok_bind, Res.pure_eq]
  · simp [builtins.rest, vectorAt, ha, Res.ok_bind, Res.pure_eq]

/-- Witness for C17 on the memory left by the program `[]`, with the runs of
`first([])`, `last([])`, `rest([])` and `first([]) == first([])`. -/
theorem builtins_on_empty_array_return_nullptr_witness :
    (finalMemoryOf "[]").deref (some 9) = .ok (.Array [])
    ∧ (builtins.first [some 9] (finalMemoryOf "[]") = .ok (none, finalMemoryOf "[]")
      ∧ builtins.last [some 9] (finalMemoryOf "[]") = .ok (none, finalMemoryOf "[]")
      ∧ builtins.rest [some 9] (finalMemoryOf "[]") = .ok (none, finalMemoryOf "[]")
      ∧ (none : ObjPtr) ≠ NULL_OBJ)
    ∧ startOutput 60 "first([])" = .ok none
    ∧ startOutput 60 "last([])" = .ok none
    ∧ startOutput 60 "rest([])" = .ok none
    ∧ startOutput 60 "[][0]" = .ok (some "null")
    ∧ start 60 "first([]) == first([])" = .crash :=
  ⟨by decide!, builtins_on_empty_array_return_nullptr (some 9) (finalMemoryOf "[]") (by decide!),
    by decide!, by decide!, by decide!, by decide!, by decide!⟩

/-! ## The built-in push (C18) -/

/-- C18: for an `Array` with the elements `elements` and any value `v`,
`push` returns a newly allocated `Array` whose elements are `elements` followed
by `v` (one more than before); every object of the memory, the argument array
among them, is afterwards what it was; and `last` of the new array is `v`. -/
theorem push_is_non_destructive (a v : ObjPtr) (m : Memory) (elements : List ObjPtr)
    (ha : m.deref a = .ok (.Array elements)) :
    builtins.push [a, v] m
        = .ok (some m.objects.length,
            { m with objects := m.objects ++ [.Array (elements ++ [v])] })
    ∧ Memory.deref { m with objects := m.objects ++ [.Array (elements ++ [v])] }
        (some m.objects.length) = .ok (.Array (elements ++ [v]))
    ∧ (elements ++ [v]).length = elements.length + 1
    ∧ (∀ p o, m.deref p = .ok o →
        Memory.deref { m with objects := m.objects ++ [.Array (elements ++ [v])] } p = .ok o)
    ∧ Memory.deref { m with objects := m.objects ++ [.Array (elements ++ [v])] } a
        = .ok (.Array elements)
    ∧ builtins.last [some m.objects.length]
          { m with objects := m.objects ++ [.Array (elements ++ [v])] }
        = .ok (v, { m with objects := m.objects ++ [.Array (elements ++ [v])] }) := by
  have hnew : Memory.deref { m with objects := m.objects ++ [.Array (elements ++ [v])] }
      (some m.objects.length) = .ok (.Array (elements ++ [v])) := by
    simp [Memory.deref, List.get?_eq_getElem?]
  have hold : ∀ p o, m.deref p = .ok o →
      Memory.deref { m with objects := m.objects ++ [.Array (elements ++ [v])] } p = .ok o := by
    intro p o hp
    cases p with
    | none => exact absurd hp (by simp [Memory.deref])
    | some i =>
      simp only [Memory.deref, List.get?_eq_getElem?] at hp ⊢
      cases hi : m.objects[i]? with
      | none => rw [hi] at hp; exact absurd hp (by simp)
      | some x =>
        rw [hi] at hp
        have hlt : i < m.objects.length := by
          by_contra hge
          rw [List.getElem?_eq_none (by omega)] at hi
          exact absurd hi (by simp)
        rw [List.getElem?_append_left hlt, hi]
        exact hp
  refine ⟨?_, hnew, by simp, hold, hold a _ ha, ?_⟩
  · simp [builtins.push, vectorAt, ha, Res.ok_bind, Res.pure_eq, Memory.makeObj]
  · simp [builtins.last, vectorAt, hnew, Res.ok_bind, Res.pure_eq, List.get?_eq_getElem?]

/-- Witness for C18 on the memory left by the program `[1]`, with the runs of
the programs of the claim. -/
theorem push_is_non_destructive_witness :
    (finalMemoryOf "[1]").deref (some 10) = .ok (.Array [some 9])
    ∧ builtins.push [some 10, some 9] (finalMemoryOf "[1]")
        = .ok (some (finalMemoryOf "[1]").objects.length,
            { finalMemoryOf "[1]" with
              objects := (finalMemoryOf "[1]").objects ++ [.Array ([some 9] ++ [some 9])] })
    ∧ (start 60 "rest(push([1],2))[0]").bind (fun run =>
        match run with
        | .evaluated r m => .ok (r.bind m.objects.get?)
        | .parserErrors _ => .crash) = .ok (some (.Integer 2))
    ∧ startOutput 60 "rest(push([1],2))[0]" = .ok (some "2")
    ∧ startOutput 60 "last(push([1], 2))" = .ok (some "2")
    ∧ startOutput 60 "let a = [1]; let b = push(a, 2); a" = .ok (some "[1]")
    ∧ startOutput 60 "let a = [1]; let b = push(a, 2); b" = .ok (some "[1, 2]")
    ∧ startOutput 60 "let a = [1]; let b = push(a, 2); len(b)" = .ok (some "2") :=
  ⟨by decide!,
    (push_is_non_destructive (some 10) (some 9) (finalMemoryOf "[1]") [some 9] (by decide!)).1,
    by decide!, by decide!, by decide!, by decide!, by decide!, by decide!⟩

/-! ## Arity errors of the built-ins (C19) -/

/-- An arity message starts with the letter `w`. -/
theorem arityMessage_head (name : String) (got want : Nat) :
    (arityMessage name got want).data.head? = some 'w' := by
  simp [arityMessage, String.data_append]

/-- A message that starts with `argument` is no arity message. -/
theorem argument_message_ne_arityMessage (t name : String) (got want : Nat) (pre : String)
    (hp : pre.data.head? = some 'a') : pre ++ t ≠ arityMessage name got want := by
  intro h
  have h1 := arityMessage_head name got want
  rw [← h] at h1
  cases hd : pre.data with
  | nil => rw [hd] at hp; exact absurd hp (by simp)
  | cons c cs =>
    rw [hd] at hp
    simp only [String.data_append, hd, List.cons_append, List.head?_cons, Option.some.injEq] at h1 hp
    rw [hp] at h1
    exact absurd h1 (by decide)

/-- The results of the built-ins. Called with a number of arguments other than
the one it wants (1 for `len`, `first`, `last`, `rest`; 2 for `push`), each
built-in returns a new `Error` with the arity message. Called with exactly that
many arguments the call either reads through an invalid pointer, or returns a
newly allocated object that is no `Error` with an arity message, or (`first`,
`last`, `rest` only) hands back an element of its argument array or the null
pointer, leaving the memory as it is. -/
theorem builtin_results (args : List ObjPtr) (m : Memory) :
    (args.length ≠ 1 →
        builtins.len args m = newError (arityMessage "len" args.length 1) m
        ∧ builtins.first args m = newError (arityMessage "first" args.length 1) m
        ∧ builtins.last args m = newError (arityMessage "last" args.length 1) m
        ∧ builtins.rest args m = newError (arityMessage "rest" args.length 1) m)
    ∧ (args.length ≠ 2 →
        builtins.push args m = newError (arityMessage "push" args.length 2) m)
    ∧ (∀ a, builtins.len [a] m = .crash
        ∨ ∃ o, builtins.len [a] m = .ok (m.makeObj o)
            ∧ ∀ name got want, o ≠ .Error (arityMessage name got want))
    ∧ (∀ a, builtins.first [a] m = .crash
        ∨ (∃ o, builtins.first [a] m = .ok (m.makeObj o)
            ∧ ∀ name got want, o ≠ .Error (arityMessage name got want))
        ∨ ∃ elements e, m.deref a = .ok (.Array elements) ∧ (e ∈ elements ∨ e = none)
            ∧ builtins.first [a] m = .ok (e, m))
    ∧ (∀ a, builtins.last [a] m = .crash
        ∨ (∃ o, builtins.last [a] m = .ok (m.makeObj o)
            ∧ ∀ name got want, o ≠ .Error (arityMessage name got want))
        ∨ ∃ elements e, m.deref a = .ok (.Array elements) ∧ (e ∈ elements ∨ e = none)
            ∧ builtins.last [a] m = .ok (e, m))
    ∧ (∀ a, builtins.rest [a] m = .crash
        ∨ (∃ o, builtins.rest [a] m = .ok (m.makeObj o)
            ∧ ∀ name got want, o ≠ .Error (arityMessage name got want))
        ∨ builtins.rest [a] m = .ok (none, m))
    ∧ (∀ a v, builtins.push [a, v] m = .crash
        ∨ ∃ o, builtins.push [a, v] m = .ok (m.makeObj o)
            ∧ ∀ name got want, o ≠ .Error (arityMessage name got want)) := by
  have harg : ∀ (pre t name : String) (got want : Nat), pre.data.head? = some 'a' →
      Object.Error (pre ++ t) ≠ .Error (arityMessage name got want) := by
    intro pre t name got want hp h
    exact argument_message_ne_arityMessage t name got want pre hp (Object.Error.inj h)
  have h0 : ∀ n, arityMessage "len" n 1
      = "wrong number of arguments in builtin function(len). got=" ++ toString n ++ ", want=1" := by
    intro n
    have e : toString (1 : Nat) = "1" := rfl
    simp [arityMessage, String.ext_iff, String.data_append, e]
  have h1 : ∀ n, arityMessage "first" n 1
      = "wrong number of arguments in builtin function(first). got=" ++ toString n ++ ", want=1" := by
    intro n
    have e : toString (1 : Nat) = "1" := rfl
    simp [arityMessage, String.ext_iff, String.data_append, e]
  have h2 : ∀ n, arityMessage "last" n 1
      = "wrong number of arguments in builtin function(last). got=" ++ toString n ++ ", want=1" := by
    intro n
    have e : toString (1 : Nat) = "1" := rfl
    simp [arityMessage, String.ext_iff, String.data_append, e]
  have h3 : ∀ n, arityMessage "rest" n 1
      = "wrong number of arguments in builtin function(rest). got=" ++ toString n ++ ", want=1" := by
    intro n
    have e : toString (1 : Nat) = "1" := rfl
    simp [arityMessage, String.ext_iff, String.data_append, e]
  have h4 : ∀ n, arityMessage "push" n 2
      = "wrong number of arguments in builtin function(push). got=" ++ toString n ++ ", want=2" := by
    intro n
    have e : toString (2 : Nat) = "2" := rfl
    simp [arityMessage, String.ext_iff, String.data_append, e]
  have hfuel : ∀ a, m.deref a ≠ .fuel := by
    intro a
    cases a with
    | none => simp [Memory.deref]
    | some i =>
      simp only [Memory.deref]
      cases m.objects.get? i <;> simp
  refine ⟨?_, ?_, ?_, ?_, ?_, ?_, ?_⟩
  · intro h
    refine ⟨?_, ?_, ?_, ?_⟩
    · simp only [builtins.len, h, ne_eq, not_false_eq_true, ↓reduceIte, h0]
    · simp only [builtins.first, h, ne_eq, not_false_eq_true, ↓reduceIte, h1]
    · simp only [builtins.last, h, ne_eq, not_false_eq_true, ↓reduceIte, h2]
    · simp only [builtins.rest, h, ne_eq, not_false_eq_true, ↓reduceIte, h3]
  · intro h
    simp only [builtins.push, h, ne_eq, not_false_eq_true, ↓reduceIte, h4]
  · intro a
    cases ha : m.deref a with
    | crash =>
      left
      simp only [builtins.len, vectorAt, ha, List.length_singleton, ne_eq, not_true_eq_false,
        ↓reduceIte, List.get?_cons_zero, Res.ok_bind, Res.crash_bind]
    | fuel => exact absurd ha (hfuel a)
    | ok o =>
      right
      cases o <;>
        simp only [builtins.len, vectorAt, ha, List.length_singleton, ne_eq, not_true_eq_false,
          ↓reduceIte, List.get?_cons_zero, Res.ok_bind, Res.pure_eq, newError] <;>
        refine ⟨_, rfl, ?_⟩ <;> intro name got want <;>
        first
          | exact harg _ _ name got want rfl
          | (intro h; cases h)
  · intro a
    cases ha : m.deref a with
    | crash =>
      left
      simp only [builtins.first, vectorAt, ha, List.length_singleton, ne_eq, not_true_eq_false,
        ↓reduceIte, List.get?_cons_zero, Res.ok_bind, Res.crash_bind]
    | fuel => exact absurd ha (hfuel a)
    | ok o =>
      right
      cases o
      case Array elements =>
        right
        cases elements with
        | nil =>
          refine ⟨[], none, rfl, Or.inr rfl, ?_⟩
          simp only [builtins.first, vectorAt, ha, List.length_singleton, ne_eq, not_true_eq_false,
            ↓reduceIte, List.get?_cons_zero, Res.ok_bind, Res.pure_eq]
        | cons e es =>
          refine ⟨e :: es, e, rfl, Or.inl (List.mem_cons_self e es), ?_⟩
          simp only [builtins.first, vectorAt, ha, List.length_singleton, ne_eq, not_true_eq_false,
            ↓reduceIte, List.get?_cons_zero, Res.ok_bind, Res.pure_eq]
      all_goals
        left
        simp only [builtins.first, vectorAt, ha, List.length_singleton, ne_eq, not_true_eq_false,
          ↓reduceIte, List.get?_cons_zero, Res.ok_bind, Res.pure_eq, newError]
        refine ⟨_, rfl, ?_⟩
        intro name got want
        exact harg _ _ name got want rfl
  · intro a
    cases ha : m.deref a with
    | crash =>
      left
      simp only [builtins.last, vectorAt, ha, List.length_singleton, ne_eq, not_true_eq_false,
        ↓reduceIte, List.get?_cons_zero, Res.ok_bind, Res.crash_bind]
    | fuel => exact absurd ha (hfuel a)
    | ok o =>
      right
      cases o
      case Array elements =>
        right
        by_cases hlen : elements.length > 0
        · have hlt : elements.length - 1 < elements.length := by omega
          refine ⟨elements, elements.get ⟨elements.length - 1, hlt⟩, rfl,
            Or.inl (List.get_mem _ _ _), ?_⟩
          have hget : elements.get? (elements.length - 1)
              = some (elements.get ⟨elements.length - 1, hlt⟩) := List.get?_eq_get hlt
          simp only [builtins.last, vectorAt, ha, List.length_singleton, ne_eq, not_true_eq_false,
            ↓reduceIte, List.get?_cons_zero, Res.ok_bind, Res.pure_eq, hlen, hget]
        · refine ⟨elements, none, rfl, Or.inr rfl, ?_⟩
          simp only [builtins.last, vectorAt, ha, List.length_singleton, ne_eq, not_true_eq_false,
            ↓reduceIte, List.get?_cons_zero, Res.ok_bind, Res.pure_eq, hlen]
      all_goals
        left
        simp only [builtins.last, vectorAt, ha, List.length_singleton, ne_eq, not_true_eq_false,
          ↓reduceIte, List.get?_cons_zero, Res.ok_bind, Res.pure_eq, newError]
        refine ⟨_, rfl, ?_⟩
        intro name got want
        exact harg _ _ name got want rfl
  · intro a
    cases ha : m.deref a with
    | crash =>
      left
      simp only [builtins.rest, vectorAt, ha, List.length_singleton, ne_eq, not_true_eq_false,
        ↓reduceIte, List.get?_cons_zero, Res.ok_bind, Res.crash_bind]
    | fuel => exact absurd ha (hfuel a)
    | ok o =>
      right
      cases o
      case Array elements =>
        by_cases hlen : elements.length > 0
        · left
          simp only [builtins.rest, vectorAt, ha, List.length_singleton, ne_eq, not_true_eq_false,
            ↓reduceIte, List.get?_cons_zero, Res.ok_bind, Res.pure_eq, hlen]
          refine ⟨_, rfl, ?_⟩
          intro name got want h
          cases h
        · right
          simp only [builtins.rest, vectorAt, ha, List.length_singleton, ne_eq, not_true_eq_false,
            ↓reduceIte, List.get?_cons_zero, Res.ok_bind, Res.pure_eq, hlen]
      all_goals
        left
        simp only [builtins.rest, vectorAt, ha, List.length_singleton, ne_eq, not_true_eq_false,
          ↓reduceIte, List.get?_cons_zero, Res.ok_bind, Res.pure_eq, newError]
        refine ⟨_, rfl, ?_⟩
        intro name got want
        exact harg _ _ name got want rfl
  · intro a v
    have hl : [a, v].length = 2 := rfl
    cases ha : m.deref a with
    | crash =>
      left
      simp only [builtins.push, vectorAt, ha, hl, ne_eq, not_true_eq_false,
        ↓reduceIte, List.get?_cons_zero, Res.ok_bind, Res.crash_bind]
    | fuel => exact absurd ha (hfuel a)
    | ok o =>
      right
      cases o
      case Array elements =>
        simp only [builtins.push, vectorAt, ha, hl, ne_eq, not_true_eq_false,
          ↓reduceIte, List.get?_cons_zero, List.get?_cons_succ, Res.ok_bind, Res.pure_eq]
        refine ⟨_, rfl, ?_⟩
        intro name got want h
        cases h
      all_goals
        simp only [builtins.push, vectorAt, ha, hl, ne_eq, not_true_eq_false,
          ↓reduceIte, List.get?_cons_zero, Res.ok_bind, Res.pure_eq, newError]
        refine ⟨_, rfl, ?_⟩
        intro name got want
        exact harg _ _ name got want rfl

/-! ## quote and unquote (C20) -/

/-- The call `quote(unquote(e))` at the node `q`: if `e` evaluates with fuel `k`
to an `Integer` with the value `n`, then with fuel `k + 1` the call evaluates to
a newly allocated `Quote` wrapping a newly allocated `IntegerLiteral` with the
value `n` and the token `(INT, decimal form of n)`. -/
theorem quote_of_unquote_integer (k q fq u fu : Nat) (tq tfq tu tfu : Token)
    (vq vu : String) (e : NodePtr) (env : Nat) (m m1 : Memory) (r : Nat) (n : Int)
    (hq : m.nodes.get? q = some (.CallExpression tq (some fq) [some u]))
    (hfq : m.nodes.get? fq = some (.Identifier tfq vq)) (hlq : tfq.literal = "quote")
    (hu : m.nodes.get? u = some (.CallExpression tu (some fu) [e]))
    (hfu : m.nodes.get? fu = some (.Identifier tfu vu)) (hlu : tfu.literal = "unquote")
    (he : eval k e env m = .ok (some r, m1))
    (hr : m1.objects.get? r = some (.Integer n)) :
    eval (k + 1) (some q) env m
      = .ok (some m1.objects.length,
          { m1 with
            nodes := m1.nodes ++ [.IntegerLiteral { type := .INT, literal := toString n } n],
            objects := m1.objects ++ [.Quote (some m1.nodes.length)] }) := by
  obtain ⟨j, rfl⟩ : ∃ j, k = j + 1 := by
    cases k with
    | zero => exact absurd he (by simp [eval])
    | succ j => exact ⟨j, rfl⟩
  have s1 := @eval.eq_3
  have s2 := @modify.eq_3
  have tl : ∀ t v, TokenLiteral m.nodes (.Identifier t v) = .ok t.literal := fun _ _ => rfl
  simp only [s1, hq, derefNode, hfq, tl, hlq, Res.ok_bind, ↓reduceIte, List.length_singleton,
    ne_eq, not_true_eq_false, vectorAt, List.get?_cons_zero, quote, evalUnquoteCalls, s2, hu,
    isUnquoteCall, hfu, hlu, Res.pure_eq, decide_True, Bool.true_eq_false, he,
    convertObjectToNode, hr, Memory.makeNode, Memory.makeObj]

/-! ## Extraction of macro definitions (C21) -/

/-- What `macroDefinitionOf` says about the nodes of a statement. -/
theorem macroDefinitionOf_some {heap : NodeHeap} {s : NodePtr} {name : String}
    {params : List NodePtr} {body : NodePtr}
    (h : macroDefinitionOf heap s = some (name, params, body)) :
    ∃ a t n v tn tv, s = some a ∧ heap.get? a = some (.LetStatement t (some n) (some v))
      ∧ heap.get? n = some (.Identifier tn name)
      ∧ heap.get? v = some (.MacroLiteral tv params body) := by
  unfold macroDefinitionOf at h
  split at h
  · exact absurd h (by simp)
  · rename_i a
    split at h
    · rename_i t n v ha
      split at h
      · rename_i tn name2 tv params2 body2 hn hv
        simp only [Option.some.injEq, Prod.mk.injEq] at h
        obtain ⟨rfl, rfl, rfl⟩ := h
        exact ⟨a, t, n, v, tn, tv, rfl, ha, hn, hv⟩
      · exact absurd h (by simp)
    · exact absurd h (by simp)

/-- A statement with a macro definition is accepted by `isMacroDefinition`. -/
theorem isMacroDefinition_of_macroDefinitionOf {heap : NodeHeap} {s : NodePtr}
    {d : String × List NodePtr × NodePtr} (h : macroDefinitionOf heap s = some d) :
    isMacroDefinition heap s = true := by
  obtain ⟨name, params, body⟩ := d
  obtain ⟨a, t, n, v, tn, tv, rfl, ha, hn, hv⟩ := macroDefinitionOf_some h
  simp only [isMacroDefinition, ha, hv]

/-- Lookup after an assignment of the same name. -/
theorem storeFind_storeAssign_self (name : String) (v : ObjPtr) :
    ∀ store, storeFind name (storeAssign name v store) = some v := by
  intro store
  induction store with
  | nil => simp [storeAssign, storeFind]
  | cons kv rest ih =>
    obtain ⟨k, w⟩ := kv
    by_cases hk : k = name
    · simp [storeAssign, storeFind, hk]
    · simp [storeAssign, storeFind, hk, ih]

/-- Lookup after an assignment of another name. -/
theorem storeFind_storeAssign_other (name x : String) (v : ObjPtr) (hx : x ≠ name) :
    ∀ store, storeFind x (storeAssign name v store) = storeFind x store := by
  intro store
  induction store with
  | nil => simp [storeAssign, storeFind, Ne.symm hx]
  | cons kv rest ih =>
    obtain ⟨k, w⟩ := kv
    by_cases hk : k = name
    · have hkx : k ≠ x := by rw [hk]; exact Ne.symm hx
      simp [storeAssign, storeFind, hk, Ne.symm hx]
    · by_cases hkx : k = x
      · subst hkx
        simp [storeAssign, storeFind, hk]
      · simp [storeAssign, storeFind, hk, hkx, ih]

/-- Binding macros leaves the names they do not define as they were. -/
theorem storeFind_bindMacros_other (x : String) :
    ∀ (ds : List (String × List NodePtr × NodePtr)) (k : Nat) (store : List (String × ObjPtr)),
      (∀ d ∈ ds, d.1 ≠ x) → storeFind x (bindMacros ds k store) = storeFind x store := by
  intro ds
  induction ds with
  | nil => intro k store _; rfl
  | cons d ds ih =>
    intro k store h
    simp only [bindMacros]
    rw [ih (k + 1) _ (fun d2 hd => h d2 (List.mem_cons_of_mem _ hd))]
    exact storeFind_storeAssign_other d.1 x (some k) (Ne.symm (h d (List.mem_cons_self _ _))) store

/-- Binding macros binds a name to the object of its last definition. -/
theorem storeFind_bindMacros_last :
    ∀ (ds : List (String × List NodePtr × NodePtr)) (i k : Nat) (store : List (String × ObjPtr))
      (d : String × List NodePtr × NodePtr), ds.get? i = some d →
      (∀ j d2, i < j → ds.get? j = some d2 → d2.1 ≠ d.1) →
      storeFind d.1 (bindMacros ds k store) = some (some (k + i)) := by
  intro ds
  induction ds with
  | nil => intro i k store d h; exact absurd h (by simp)
  | cons d0 ds ih =>
    intro i k store d h hlast
    cases i with
    | zero =>
      simp only [List.get?_cons_zero, Option.some.injEq] at h
      subst h
      simp only [bindMacros, Nat.add_zero]
      rw [storeFind_bindMacros_other d0.1 ds (k + 1) _ (fun d2 hd => by
        obtain ⟨j, hj⟩ := List.get?_of_mem hd
        exact hlast (j + 1) d2 (Nat.succ_pos j) (by simpa using hj))]
      exact storeFind_storeAssign_self d0.1 (some k) store
    | succ i =>
      simp only [List.get?_cons_succ] at h
      simp only [bindMacros]
      rw [ih i (k + 1) _ d h (fun j d2 hij hj =>
        hlast (j + 1) d2 (by omega) (by simpa using hj))]
      congr 2
      omega

/-- Erasing a list of indices that ends in `k` erases `k` last. -/
theorem eraseDefinitions_append (xs : List Nat) (k : Nat) :
    ∀ statements : List NodePtr,
      eraseDefinitions (xs ++ [k]) statements = (eraseDefinitions xs statements).eraseIdx k := by
  induction xs with
  | nil => intro statements; rfl
  | cons x xs ih =>
    intro statements
    simp only [List.cons_append, eraseDefinitions]
    exact ih _

/-- Erasing the positions of the macro definitions, last first, keeps exactly
the other statements. -/
theorem eraseDefinitions_macroIndices (heap : NodeHeap) :
    ∀ (l pre : List NodePtr),
      eraseDefinitions (macroIndices heap l pre.length).reverse (pre ++ l)
        = pre ++ l.filter (fun s => !isMacroDefinition heap s) := by
  intro l
  induction l with
  | nil => intro pre; simp [macroIndices, eraseDefinitions]
  | cons s rest ih =>
    intro pre
    have hpre : (pre ++ [s]).length = pre.length + 1 := by simp
    have happ : pre ++ s :: rest = (pre ++ [s]) ++ rest := by simp
    by_cases hs : isMacroDefinition heap s = true
    · simp only [macroIndices, hs, ↓reduceIte, List.reverse_cons, eraseDefinitions_append]
      rw [happ, ← hpre, ih (pre ++ [s])]
      simp only [List.filter_cons, hs, Bool.not_true, Bool.false_eq_true, ↓reduceIte]
      rw [List.append_assoc, List.eraseIdx_append_of_length_le (le_refl _)]
      simp
    · simp only [macroIndices, hs, Bool.false_eq_true, ↓reduceIte]
      rw [happ, ← hpre, ih (pre ++ [s])]
      simp [List.filter_cons, hs]
/-- A frame that is read is inside the environment heap. -/
theorem envs_get_lt {envs : List Environment} {env : Nat} {frame : Environment}
    (hf : envs.get? env = some frame) : env < envs.length := by
  by_contra hge
  rw [List.get?_eq_getElem?, List.getElem?_eq_none (by omega)] at hf
  exact absurd hf (by simp)

/-- Writing back the frame that is there changes nothing. -/
theorem envs_set_same {envs : List Environment} {env : Nat} {frame : Environment}
    (hf : envs.get? env = some frame) : envs.set env frame = envs := by
  have hlt := envs_get_lt hf
  apply List.ext_getElem?
  intro n
  rw [List.get?_eq_getElem?] at hf
  by_cases hn : env = n
  · subst hn
    simp [List.getElem?_set, hf, hlt]
  · simp [List.getElem?_set, hn]

/-- Reading the frame that was written. -/
theorem envs_get_set_self {envs : List Environment} {env : Nat} (f : Environment)
    (hlt : env < envs.length) : (envs.set env f).get? env = some f := by
  simp [List.get?_eq_getElem?, List.getElem?_set, hlt]

/-- Reading another frame than the one that was written. -/
theorem envs_get_set_other {envs : List Environment} {env e : Nat} (f : Environment)
    (he : e ≠ env) : (envs.set env f).get? e = envs.get? e := by
  simp [List.get?_eq_getElem?, List.getElem?_set, Ne.symm he]

/-- The first loop of `defineMacros` on a well-formed statement list: the
collected indices, the allocated `Macro` objects and the frame afterwards. -/
theorem defineMacrosLoop_spec (env : Nat) (heap : NodeHeap) (out : List String) :
    ∀ (rest : List NodePtr) (i : Nat) (defs : List Nat) (objs : List Object)
      (envs : List Environment) (frame : Environment),
      envs.get? env = some frame →
      (∀ s ∈ rest, isMacroDefinition heap s = true → (macroDefinitionOf heap s).isSome = true) →
      defineMacrosLoop env rest i defs { nodes := heap, objects := objs, envs := envs, out := out }
        = .ok (defs ++ macroIndices heap rest i,
            { nodes := heap,
              objects := objs ++ (macroDefinitions heap rest).map
                (fun d => Object.Macro d.2.1 d.2.2 env),
              envs := envs.set env
                { store := bindMacros (macroDefinitions heap rest) objs.length frame.store,
                  outer := frame.outer },
              out := out }) := by
  intro rest
  induction rest with
  | nil =>
    intro i defs objs envs frame hf _
    have hset : envs.set env { store := frame.store, outer := frame.outer } = envs :=
      envs_set_same hf
    simp [defineMacrosLoop, macroIndices, macroDefinitions, bindMacros, hset]
  | cons s rest ih =>
    intro i defs objs envs frame hf hwf
    have hwf2 : ∀ s2 ∈ rest, isMacroDefinition heap s2 = true →
        (macroDefinitionOf heap s2).isSome = true :=
      fun s2 h2 => hwf s2 (List.mem_cons_of_mem _ h2)
    by_cases hs : isMacroDefinition heap s = true
    · have hsome := hwf s (List.mem_cons_self _ _) hs
      obtain ⟨d, hd⟩ := Option.isSome_iff_exists.mp hsome
      obtain ⟨name, params, body⟩ := d
      obtain ⟨a, t, n, v, tn, tv, rfl, ha, hn, hv⟩ := macroDefinitionOf_some hd
      have hlt : env < envs.length := envs_get_lt hf
      have hadd : addMacro (some a) env
          { nodes := heap, objects := objs, envs := envs, out := out }
          = .ok { nodes := heap, objects := objs ++ [Object.Macro params body env],
                  envs := envs.set env
                    { store := storeAssign name (some objs.length) frame.store,
                      outer := frame.outer },
                  out := out } := by
        simp only [addMacro, derefNode, ha, hv, hn, Res.ok_bind, Memory.makeObj, identifierValue,
          Memory.envSet, hf]
      have hf2 : (envs.set env
          { store := storeAssign name (some objs.length) frame.store,
            outer := frame.outer }).get? env
          = some { store := storeAssign name (some objs.length) frame.store,
                   outer := frame.outer } := envs_get_set_self _ hlt
      simp only [defineMacrosLoop, hs, ↓reduceIte, hadd]
      rw [ih (i + 1) (defs ++ [i]) _ _ _ hf2 hwf2]
      simp only [macroIndices, hs, ↓reduceIte, macroDefinitions, List.filterMap_cons, hd,
        List.map_cons, bindMacros, List.append_assoc, List.singleton_append, List.set_set,
        List.length_append, List.length_singleton]
    · have hnone : macroDefinitionOf heap s = none := by
        cases hd : macroDefinitionOf heap s with
        | none => rfl
        | some d => exact absurd (isMacroDefinition_of_macroDefinitionOf hd) hs
      simp only [defineMacrosLoop, hs, Bool.false_eq_true, ↓reduceIte]
      rw [ih (i + 1) defs objs envs frame hf hwf2]
      simp only [macroIndices, hs, Bool.false_eq_true, ↓reduceIte, macroDefinitions,
        List.filterMap_cons, hnone]

/-- Lookup through a memory in which one frame has another map that answers
`name` as before. -/
theorem envGetLoop_frame_store (m : Memory) (env : Nat) (frame : Environment)
    (store : List (String × ObjPtr)) (name : String) (objs : List Object) (nodes : NodeHeap)
    (hf : m.envs.get? env = some frame)
    (hs : storeFind name store = storeFind name frame.store) :
    ∀ (fuel e : Nat),
      Memory.envGetLoop
          { nodes := nodes,
            objects := objs,
            envs := m.envs.set env { store := store, outer := frame.outer },
            out := m.out }
        name fuel e = m.envGetLoop name fuel e := by
  have hlt : env < m.envs.length := envs_get_lt hf
  intro fuel
  induction fuel with
  | zero => intro e; rfl
  | succ fuel ih =>
    intro e
    simp only [Memory.envGetLoop]
    by_cases he : e = env
    · subst he
      have h1 : (m.envs.set e { store := store, outer := frame.outer }).get? e
          = some { store := store, outer := frame.outer } := envs_get_set_self _ hlt
      rw [h1, hf]
      dsimp only
      rw [hs]
      cases storeFind name frame.store with
      | some v => rfl
      | none =>
        dsimp only
        cases ho : frame.outer with
        | none => rfl
        | some o =>
          have h2 := ih o
          rw [ho] at h2
          exact h2
    · have h1 : (m.envs.set env { store := store, outer := frame.outer }).get? e
          = m.envs.get? e := envs_get_set_other _ he
      rw [h1]
      cases m.envs.get? e with
      | none => rfl
      | some fr =>
        dsimp only
        cases storeFind name fr.store with
        | some v => rfl
        | none =>
          dsimp only
          cases fr.outer with
          | none => rfl
          | some o => exact ih o
/-- C21: on a program whose macro definitions have an identifier as name (as
every parsed `let` has), `defineMacros` returns; afterwards the statement list
of the program is the original list without the statements that are a `let`
with a `MacroLiteral` value, the others in their order; for each definition
`let name = macro(params) body` that no later definition of the same name
follows, `env` binds `name` to a new `Macro` with those parameters, that body
and the environment `env`; a name that no macro definition defines is looked up
as before; the objects and the other frames that were there are untouched. -/
theorem defineMacros_extracts_macro_definitions (program env : Nat) (m : Memory)
    (statements : List NodePtr) (frame : Environment)
    (hp : m.nodes.get? program = some (.Program statements))
    (hf : m.envs.get? env = some frame)
    (hwf : ∀ s ∈ statements, isMacroDefinition m.nodes s = true →
      (macroDefinitionOf m.nodes s).isSome = true) :
    ∃ m1, defineMacros program env m = .ok m1
      ∧ m1.nodes = m.nodes.set program
          (.Program (statements.filter (fun s => !isMacroDefinition m.nodes s)))
      ∧ (∀ i name params body,
          (macroDefinitions m.nodes statements).get? i = some (name, params, body) →
          (∀ j d, i < j → (macroDefinitions m.nodes statements).get? j = some d → d.1 ≠ name) →
          m1.envGet env name = some (m.objects.length + i)
          ∧ m1.objects.get? (m.objects.length + i) = some (.Macro params body env))
      ∧ (∀ name, (∀ d ∈ macroDefinitions m.nodes statements, d.1 ≠ name) →
          m1.envGet env name = m.envGet env name)
      ∧ (∀ a o, m.objects.get? a = some o → m1.objects.get? a = some o)
      ∧ (∀ e, e ≠ env → m1.envs.get? e = m.envs.get? e) := by
  obtain ⟨nodes, objects, envs, out⟩ := m
  simp only at hp hf hwf
  have hloop := defineMacrosLoop_spec env nodes out statements 0 [] objects envs frame hf hwf
  have hlt : env < envs.length := envs_get_lt hf
  have herase := eraseDefinitions_macroIndices nodes statements []
  simp only [List.length_nil, List.nil_append] at herase
  have hrun : defineMacros program env
      { nodes := nodes, objects := objects, envs := envs, out := out }
      = .ok { nodes := nodes.set program
                (.Program (statements.filter (fun s => !isMacroDefinition nodes s))),
              objects := objects ++ (macroDefinitions nodes statements).map
                (fun d => Object.Macro d.2.1 d.2.2 env),
              envs := envs.set env
                { store := bindMacros (macroDefinitions nodes statements) objects.length
                    frame.store,
                  outer := frame.outer },
              out := out } := by
    simp only [defineMacros, hp, hloop, List.nil_append, herase]
  refine ⟨_, hrun, rfl, ?_, ?_, ?_, ?_⟩
  · intro i name params body hi hlast
    simp only at hi hlast
    constructor
    · have hfind := storeFind_bindMacros_last (macroDefinitions nodes statements) i
        objects.length frame.store (name, params, body) hi hlast
      simp only [Memory.envGet, Memory.envGetLoop, envs_get_set_self _ hlt]
      simp only at hfind
      rw [hfind]
    · have hlen : i < (macroDefinitions nodes statements).length := by
        by_contra hge
        rw [List.get?_eq_getElem?, List.getElem?_eq_none (by omega)] at hi
        exact absurd hi (by simp)
      rw [List.get?_eq_getElem?] at hi
      simp [List.get?_eq_getElem?, List.getElem?_append_right, hi]
  · intro name hname
    have hs := storeFind_bindMacros_other name (macroDefinitions nodes statements)
      objects.length frame.store hname
    exact envGetLoop_frame_store { nodes := nodes, objects := objects, envs := envs, out := out }
      env frame _ name _ _ hf hs (env + 1) env
  · intro a o ha
    have halt : a < objects.length := by
      by_contra hge
      simp only [List.get?_eq_getElem?] at ha
      rw [List.getElem?_eq_none (by omega)] at ha
      exact absurd ha (by simp)
    simp only [List.get?_eq_getElem?] at ha ⊢
    rw [List.getElem?_append_left halt]
    exact ha
  · intro e he
    exact envs_get_set_other _ he
/-- Witness for C21 on the program
`let a = 1; let m = macro(x) { x }; let b = 2; let m = macro(y) { y }; a`:
the two definitions of `m` are removed, `a`, `b` and the last statement stay in
order, and `m` is bound to the `Macro` of the second definition. -/
theorem defineMacros_extracts_macro_definitions_witness :
    (∃ m1, defineMacros 0 1 (parsedMemoryOf
          "let a = 1; let m = macro(x) \x7b x \x7d; let b = 2; let m = macro(y) \x7b y \x7d; a")
        = .ok m1
      ∧ m1.nodes = (parsedMemoryOf
          "let a = 1; let m = macro(x) \x7b x \x7d; let b = 2; let m = macro(y) \x7b y \x7d; a").nodes.set
            0 (.Program ([some 1, some 4, some 11, some 14, some 21].filter
              (fun s => !isMacroDefinition (parsedMemoryOf
                "let a = 1; let m = macro(x) \x7b x \x7d; let b = 2; let m = macro(y) \x7b y \x7d; a").nodes
                s))))
    ∧ (defineMacros 0 1 (parsedMemoryOf
          "let a = 1; let m = macro(x) \x7b x \x7d; let b = 2; let m = macro(y) \x7b y \x7d; a")).bind
        (fun m1 => .ok (m1.nodes.get? 0, m1.envs, m1.objects.drop 9))
      = .ok (some (.Program [some 1, some 11, some 21]),
          [{ store := [], outer := none }, { store := [("m", some 10)], outer := none }],
          [.Macro [some 7] (some 8) 1, .Macro [some 17] (some 18) 1]) :=
  ⟨(defineMacros_extracts_macro_definitions 0 1 (parsedMemoryOf
        "let a = 1; let m = macro(x) \x7b x \x7d; let b = 2; let m = macro(y) \x7b y \x7d; a")
      [some 1, some 4, some 11, some 14, some 21] { store := [], outer := none }
      (by decide!) (by decide!) (by decide!)).imp (fun _ h => ⟨h.1, h.2.1⟩),
    by decide!⟩

/-! ## Environment lookup and update (C22) -/

/-- Lookups from a frame older than `e` do not read the frame at `e`. -/
theorem envGetLoop_below (m : Memory) (e : Nat) (f : Environment) (name : String)
    (hm : ∀ a frame o, m.envs.get? a = some frame → frame.outer = some o → o < a) :
    ∀ (fuel a : Nat), a < e →
      Memory.envGetLoop { m with envs := m.envs.set e f } name fuel a
        = m.envGetLoop name fuel a := by
  intro fuel
  induction fuel with
  | zero => intro a _; rfl
  | succ fuel ih =>
    intro a ha
    simp only [Memory.envGetLoop]
    have h1 : (m.envs.set e f).get? a = m.envs.get? a := envs_get_set_other f (by omega)
    rw [h1]
    cases hfa : m.envs.get? a with
    | none => rfl
    | some fr =>
      dsimp only
      cases storeFind name fr.store with
      | some v => rfl
      | none =>
        dsimp only
        cases hout : fr.outer with
        | none => rfl
        | some o =>
          dsimp only
          exact ih o (by have := hm a fr o hfa hout; omega)

/-- C22: in a memory whose outer links point to older frames, let `e` be a
frame with the outer frame `o`. `e.set(n, v)` returns and changes only the map
of the frame `e`; afterwards `e.get(n)` is `v`; `o.get(x)` is what it was for
every name `x`, `n` included; for every name `x` that the frame `e` itself does
not bind, `e.get(x)` is `o.get(x)`, before the update and (for `x` other than
`n`) after it; lookups of names other than `n` from `e` are unchanged; and
`e.get(x)` is the null pointer when no frame of the chain binds `x`. -/
theorem environment_set_then_get (m : Memory) (e o : Nat) (frame : Environment) (n : String)
    (v : ObjPtr) (hm : envsOrdered m = true) (hf : m.envs.get? e = some frame)
    (ho : frame.outer = some o) :
    ∃ m1, m.envSet e n v = .ok m1
      ∧ m1.envGet e n = v
      ∧ (∀ x, m1.envGet o x = m.envGet o x)
      ∧ (∀ x, storeFind x frame.store = none → m.envGet e x = m.envGet o x)
      ∧ (∀ x, x ≠ n → storeFind x frame.store = none → m1.envGet e x = m.envGet o x)
      ∧ (∀ x, x ≠ n → m1.envGet e x = m.envGet e x)
      ∧ (∀ x, innermostBinding x (frameChain m (e + 1) e) = none → m.envGet e x = none)
      ∧ (∀ a, a ≠ e → m1.envs.get? a = m.envs.get? a)
      ∧ m1.objects = m.objects ∧ m1.nodes = m.nodes := by
  have hord : ∀ a fr o2, m.envs.get? a = some fr → fr.outer = some o2 → o2 < a :=
    fun a fr o2 h1 h2 => envsOrdered_outer hm a fr o2 h1 h2
  have hlt : e < m.envs.length := envs_get_lt hf
  have hoe : o < e := hord e frame o hf ho
  have hrun : m.envSet e n v = .ok
      { nodes := m.nodes,
        objects := m.objects,
        envs := m.envs.set e { store := storeAssign n v frame.store, outer := frame.outer },
        out := m.out } := by
    simp only [Memory.envSet, hf]
  have houter : ∀ x, storeFind x frame.store = none → m.envGet e x = m.envGet o x := by
    intro x hx
    simp only [Memory.envGet]
    rw [Memory.envGetLoop]
    simp only [hf, hx, ho]
    exact envGetLoop_fuel m x hord o o e (o + 1) (le_refl _) hoe (by omega)
  have hother : ∀ x, x ≠ n → Memory.envGet
      { nodes := m.nodes,
        objects := m.objects,
        envs := m.envs.set e { store := storeAssign n v frame.store, outer := frame.outer },
        out := m.out } e x = m.envGet e x := by
    intro x hx
    exact envGetLoop_frame_store m e frame _ x m.objects m.nodes hf
      (storeFind_storeAssign_other n x v hx frame.store) (e + 1) e
  refine ⟨_, hrun, ?_, ?_, houter, ?_, hother, ?_, ?_, rfl, rfl⟩
  · simp only [Memory.envGet, Memory.envGetLoop, envs_get_set_self _ hlt,
      storeFind_storeAssign_self]
  · intro x
    exact envGetLoop_below m e _ x hord (o + 1) o hoe
  · intro x hx hs
    rw [hother x hx]
    exact houter x hs
  · intro x hx
    have h := envGetLoop_eq_innermostBinding m x (e + 1) e
    rw [hx] at h
    exact h
  · intro a ha
    exact envs_get_set_other _ ha

/-- Witness for C22 on the frame of the call `f(2)` in
`let x = 1; let f = fn(y) { y }; f(2)`, whose outer frame is the global one. -/
theorem environment_set_then_get_witness :
    envsOrdered (finalMemoryOf "let x = 1; let f = fn(y) \x7b y \x7d; f(2)") = true
    ∧ (finalMemoryOf "let x = 1; let f = fn(y) \x7b y \x7d; f(2)").envs.get? 2
        = some { store := [("y", some 11)], outer := some 0 }
    ∧ (∃ m1, (finalMemoryOf "let x = 1; let f = fn(y) \x7b y \x7d; f(2)").envSet 2 "x" (some 11)
          = .ok m1
        ∧ m1.envGet 2 "x" = some 11)
    ∧ (finalMemoryOf "let x = 1; let f = fn(y) \x7b y \x7d; f(2)").envGet 2 "x" = some 9
    ∧ (finalMemoryOf "let x = 1; let f = fn(y) \x7b y \x7d; f(2)").envGet 0 "x" = some 9
    ∧ (finalMemoryOf "let x = 1; let f = fn(y) \x7b y \x7d; f(2)").envGet 2 "z" = none :=
  ⟨by decide!, by decide!,
    (environment_set_then_get (finalMemoryOf "let x = 1; let f = fn(y) \x7b y \x7d; f(2)") 2 0
      { store := [("y", some 11)], outer := some 0 } "x" (some 11) (by decide!) (by decide!)
      rfl).imp (fun _ h => ⟨h.1, h.2.1⟩),
    by decide!, by decide!, by decide!⟩

/-! ## Lexing of words (C23) -/

/-- The blank-skipping loop consumes a run of blanks in front of a character
that is no blank. -/
theorem skipWhitespaceLoop_run (c : Char) (rest : List Char) (hc : isWhitespace c = false) :
    ∀ (ws : List Char) (w0 : Char), (∀ x ∈ w0 :: ws, isWhitespace x = true) →
      skipWhitespaceLoop w0 (ws ++ c :: rest) = { ch := c, rest := rest } := by
  intro ws
  induction ws with
  | nil =>
    intro w0 h
    have h0 : isWhitespace w0 = true := h w0 (by simp)
    simp only [List.nil_append, skipWhitespaceLoop, h0, ↓reduceIte]
    exact skipWhitespaceLoop_of_not_ws rest hc
  | cons w1 ws ih =>
    intro w0 h
    have h0 : isWhitespace w0 = true := h w0 (by simp)
    simp only [List.cons_append, skipWhitespaceLoop, h0, ↓reduceIte]
    exact ih w1 (fun x hx => h x (List.mem_cons_of_mem _ hx))

/-- Blanks in front of a token do not change it. -/
theorem nextToken_skip_blanks (ws : List Char) (c : Char) (rest : List Char)
    (hws : ∀ x ∈ ws, isWhitespace x = true) (hc : isWhitespace c = false) :
    Lexer.nextToken (Lexer.new (ws ++ c :: rest)) = Lexer.nextToken { ch := c, rest := rest } := by
  cases ws with
  | nil => rfl
  | cons w0 ws =>
    have h1 : Lexer.skipWhitespace (Lexer.new ((w0 :: ws) ++ c :: rest))
        = { ch := c, rest := rest } := skipWhitespaceLoop_run c rest hc ws w0 hws
    have h2 : Lexer.skipWhitespace { ch := c, rest := rest } = { ch := c, rest := rest } :=
      skipWhitespaceLoop_of_not_ws rest hc
    simp only [Lexer.nextToken, h1, h2]

/-- The keyword table as a case distinction. -/
theorem lookupIdent_cases (s : String) :
    lookupIdent s =
      if s = "fn" then .FUNCTION else if s = "let" then .LET else if s = "true" then .TRUE
      else if s = "false" then .FALSE else if s = "if" then .IF else if s = "else" then .ELSE
      else if s = "return" then .RETURN else if s = "macro" then .MACRO else .IDENT := by
  by_cases h0 : s = "fn"
  · subst h0; decide
  by_cases h1 : s = "let"
  · subst h1; decide
  by_cases h2 : s = "true"
  · subst h2; decide
  by_cases h3 : s = "false"
  · subst h3; decide
  by_cases h4 : s = "if"
  · subst h4; decide
  by_cases h5 : s = "else"
  · subst h5; decide
  by_cases h6 : s = "return"
  · subst h6; decide
  by_cases h7 : s = "macro"
  · subst h7; decide
  simp only [h0, h1, h2, h3, h4, h5, h6, h7, ↓reduceIte]
  simp only [lookupIdent, keywords, List.lookup, beq_false_of_ne h0, beq_false_of_ne h1, beq_false_of_ne h2, beq_false_of_ne h3, beq_false_of_ne h4, beq_false_of_ne h5, beq_false_of_ne h6, beq_false_of_ne h7]

/-- C23: when the input is a run of blanks `ws`, then a non-empty run
`c0 :: w` of letters and underscores, then `post` that is empty or starts with a
character that is neither, `nextToken` returns the token whose literal is the
whole run and whose kind is `lookupIdent` of it: the keyword kind for exactly
`fn`, `let`, `true`, `false`, `if`, `else`, `return`, `macro`, else `IDENT`. It
leaves the lexer as a new lexer on `post`, so the next token starts right after
the run; a digit is no letter, so it ends the run. -/
theorem word_lexes_as_maximal_letter_run (ws w post : List Char) (c0 : Char)
    (hws : ∀ x ∈ ws, isWhitespace x = true)
    (hw : ∀ c ∈ c0 :: w, isLetter c = true)
    (hpost : ∀ x ∈ post.head?, isLetter x = false) :
    Lexer.nextToken (Lexer.new (ws ++ (c0 :: (w ++ post))))
        = ({ type := lookupIdent (String.mk (c0 :: w)), literal := String.mk (c0 :: w) },
            Lexer.new post)
    ∧ lookupIdent (String.mk (c0 :: w))
        = (if String.mk (c0 :: w) = "fn" then .FUNCTION
          else if String.mk (c0 :: w) = "let" then .LET
          else if String.mk (c0 :: w) = "true" then .TRUE
          else if String.mk (c0 :: w) = "false" then .FALSE
          else if String.mk (c0 :: w) = "if" then .IF
          else if String.mk (c0 :: w) = "else" then .ELSE
          else if String.mk (c0 :: w) = "return" then .RETURN
          else if String.mk (c0 :: w) = "macro" then .MACRO
          else .IDENT)
    ∧ (∀ d, isDigit d = true → isLetter d = false) := by
  have h0 : isLetter c0 = true := hw c0 (by simp)
  refine ⟨?_, lookupIdent_cases _, fun d hd => (isDigit_special hd).2.2⟩
  rw [nextToken_skip_blanks ws c0 (w ++ post) hws (isLetter_not_ws h0)]
  cases post with
  | nil =>
    rw [List.append_nil]
    exact nextToken_word_end c0 w hw
  | cons x p =>
    exact nextToken_word c0 x w p hw (hpost x (by simp))

/-- Witness for C23: `foo1` lexes as `IDENT` `foo`, then `INT` `1`; `fn(` starts
with the keyword, `fnx` and `let_` are identifiers. -/
theorem word_lexes_as_maximal_letter_run_witness :
    Lexer.nextToken (Lexer.new ([] ++ ('f' :: (['o', 'o'] ++ ['1']))))
        = ({ type := lookupIdent (String.mk ('f' :: ['o', 'o'])),
             literal := String.mk ('f' :: ['o', 'o']) }, Lexer.new ['1'])
    ∧ Lexer.nextToken (Lexer.new "foo1".data)
        = ({ type := .IDENT, literal := "foo" }, { ch := '1', rest := [] })
    ∧ Lexer.nextToken { ch := '1', rest := [] }
        = ({ type := .INT, literal := "1" }, { ch := NUL, rest := [] })
    ∧ (Lexer.nextToken (Lexer.new " \t\n fn(".data)).1 = { type := .FUNCTION, literal := "fn" }
    ∧ (Lexer.nextToken (Lexer.new "fnx ".data)).1 = { type := .IDENT, literal := "fnx" }
    ∧ (Lexer.nextToken (Lexer.new "let_".data)).1 = { type := .IDENT, literal := "let_" }
    ∧ (Lexer.nextToken (Lexer.new "macro".data)).1 = { type := .MACRO, literal := "macro" } :=
  ⟨(word_lexes_as_maximal_letter_run [] ['o', 'o'] ['1'] 'f' (by decide) (by decide)
      (by decide)).1,
    by decide, by decide, by decide, by decide, by decide, by decide⟩

/-! ## End of input (C24) -/

/-- A lexer with nothing left stands on the 0 past the end. -/
theorem remaining_eq_zero {l : Lexer} (h : l.remaining = 0) : l = { ch := NUL, rest := [] } := by
  obtain ⟨ch, rest⟩ := l
  simp only [Lexer.remaining] at h
  split_ifs at h with hc
  obtain ⟨h1, h2⟩ := hc
  have h3 : ch = NUL := h1
  have h4 : rest = [] := h2
  rw [h3, h4]

/-- What is left is at most the unread input and the current character. -/
theorem remaining_le (ch : Char) (rest : List Char) :
    Lexer.remaining { ch := ch, rest := rest } ≤ rest.length + 1 := by
  simp only [Lexer.remaining]
  split_ifs <;> omega

/-- What is left when the current character is not 0. -/
theorem remaining_of_ne_nul (ch : Char) (rest : List Char) (h : ch ≠ NUL) :
    Lexer.remaining { ch := ch, rest := rest } = rest.length + 1 := by
  simp [Lexer.remaining, h]

/-- What is left when there is unread input. -/
theorem remaining_cons (ch c : Char) (cs : List Char) :
    Lexer.remaining { ch := ch, rest := c :: cs } = cs.length + 2 := by
  simp [Lexer.remaining]

/-- The step `readChar` consumes a byte unless nothing is left. -/
theorem remaining_readChar_lt (l : Lexer) (h : l.remaining ≠ 0) :
    l.readChar.remaining < l.remaining := by
  obtain ⟨ch, rest⟩ := l
  cases rest with
  | nil =>
    have : Lexer.readChar { ch := ch, rest := [] } = { ch := NUL, rest := [] } := rfl
    rw [this]
    have h0 : Lexer.remaining { ch := NUL, rest := [] } = 0 := by decide
    omega
  | cons c cs =>
    have : Lexer.readChar { ch := ch, rest := c :: cs } = { ch := c, rest := cs } := rfl
    rw [this, remaining_cons]
    have := remaining_le c cs
    omega

/-- The step `readChar` never adds input. -/
theorem remaining_readChar_le (l : Lexer) : l.readChar.remaining ≤ l.remaining := by
  by_cases h : l.remaining = 0
  · rw [remaining_eq_zero h]
    decide
  · exact Nat.le_of_lt (remaining_readChar_lt l h)

/-- Skipping blanks never adds input. -/
theorem remaining_skipWhitespaceLoop :
    ∀ (rest : List Char) (ch : Char),
      (skipWhitespaceLoop ch rest).remaining ≤ Lexer.remaining { ch := ch, rest := rest } := by
  intro rest
  induction rest with
  | nil =>
    intro ch
    simp only [skipWhitespaceLoop]
    split_ifs with hw
    · have hne : ch ≠ NUL := by rintro rfl; revert hw; decide
      rw [remaining_of_ne_nul ch [] hne]
      have h0 : Lexer.remaining { ch := NUL, rest := [] } = 0 := by decide
      omega
    · exact le_refl _
  | cons c cs ih =>
    intro ch
    simp only [skipWhitespaceLoop]
    split_ifs with hw
    · have := ih c
      have h2 := remaining_le c cs
      rw [remaining_cons]
      omega
    · exact le_refl _

/-- The loop of `readIdentifier` and `readNumber` never adds input and
consumes a byte when the current character passes the test. -/
theorem remaining_readWhile (p : Char → Bool) (hp : p NUL = false) :
    ∀ (rest : List Char) (ch : Char),
      (readWhile p ch rest).2.remaining ≤ Lexer.remaining { ch := ch, rest := rest }
      ∧ (p ch = true →
          (readWhile p ch rest).2.remaining < Lexer.remaining { ch := ch, rest := rest }) := by
  intro rest
  induction rest with
  | nil =>
    intro ch
    simp only [readWhile]
    split_ifs with hc
    · have hne : ch ≠ NUL := by rintro rfl; rw [hp] at hc; exact absurd hc (by simp)
      dsimp only
      rw [remaining_of_ne_nul ch [] hne]
      have h0 : Lexer.remaining { ch := NUL, rest := [] } = 0 := by decide
      exact ⟨by omega, fun _ => by omega⟩
    · exact ⟨le_refl _, fun h => absurd h hc⟩
  | cons c cs ih =>
    intro ch
    simp only [readWhile]
    split_ifs with hc
    · have := (ih c).1
      have h2 := remaining_le c cs
      dsimp only
      rw [remaining_cons]
      exact ⟨by omega, fun _ => by omega⟩
    · exact ⟨le_refl _, fun h => absurd h hc⟩

/-- The loop of `readString` stops inside the unread input. -/
theorem remaining_readStringLoop :
    ∀ rest : List Char, (readStringLoop rest).2.remaining ≤ rest.length := by
  intro rest
  induction rest with
  | nil => decide
  | cons c cs ih =>
    simp only [readStringLoop]
    split_ifs with hc
    · exact remaining_le c cs
    · simp only [List.length_cons]
      omega

/-- A call of `nextToken` consumes a byte unless nothing is left. -/
theorem remaining_nextToken_lt (l : Lexer) (h : l.remaining ≠ 0) :
    (Lexer.nextToken l).2.remaining < l.remaining := by
  have hskip : l.skipWhitespace.remaining ≤ l.remaining := remaining_skipWhitespaceLoop l.rest l.ch
  by_cases h0 : l.skipWhitespace.remaining = 0
  · have hs := remaining_eq_zero h0
    have hn : Lexer.nextToken l = ({ type := .EOF, literal := "" }, { ch := NUL, rest := [] }) := by
      simp only [Lexer.nextToken, hs]
      decide
    rw [hn]
    have : Lexer.remaining { ch := NUL, rest := [] } = 0 := by decide
    show Lexer.remaining { ch := NUL, rest := [] } < l.remaining
    omega
  · have hr := remaining_readChar_lt l.skipWhitespace h0
    have hrr := remaining_readChar_le l.skipWhitespace.readChar
    have hstr : (readStringLoop l.skipWhitespace.rest).2.readChar.remaining
        < l.skipWhitespace.remaining := by
      have h1 := remaining_readChar_le (readStringLoop l.skipWhitespace.rest).2
      have h2 := remaining_readStringLoop l.skipWhitespace.rest
      have h3 : l.skipWhitespace.remaining = l.skipWhitespace.rest.length + 1 := by
        simp only [Lexer.remaining] at h0 ⊢
        split_ifs at h0 ⊢ with hc
        · exact absurd rfl h0
        · rfl
      omega
    have hlet : isLetter l.skipWhitespace.ch = true →
        (readWhile isLetter l.skipWhitespace.ch l.skipWhitespace.rest).2.remaining
          < l.skipWhitespace.remaining :=
      (remaining_readWhile isLetter (by decide) l.skipWhitespace.rest l.skipWhitespace.ch).2
    have hdig : isDigit l.skipWhitespace.ch = true →
        (readWhile isDigit l.skipWhitespace.ch l.skipWhitespace.rest).2.remaining
          < l.skipWhitespace.remaining :=
      (remaining_readWhile isDigit (by decide) l.skipWhitespace.rest l.skipWhitespace.ch).2
    unfold Lexer.nextToken
    generalize l.skipWhitespace = l2 at *
    dsimp only
    by_cases c0 : l2.ch = '='
    · rw [if_pos c0]
      by_cases p0 : l2.peekChar = '='
      · rw [if_pos p0]
        exact Nat.lt_of_le_of_lt hrr (Nat.lt_of_lt_of_le hr hskip)
      · rw [if_neg p0]
        exact Nat.lt_of_lt_of_le hr hskip
    rw [if_neg c0]
    by_cases c1 : l2.ch = '+'
    · rw [if_pos c1]
      exact Nat.lt_of_lt_of_le hr hskip
    rw [if_neg c1]
    by_cases c2 : l2.ch = '-'
    · rw [if_pos c2]
      exact Nat.lt_of_lt_of_le hr hskip
    rw [if_neg c2]
    by_cases c3 : l2.ch = '!'
    · rw [if_pos c3]
      by_cases p3 : l2.peekChar = '='
      · rw [if_pos p3]
        exact Nat.lt_of_le_of_lt hrr (Nat.lt_of_lt_of_le hr hskip)
      · rw [if_neg p3]
        exact Nat.lt_of_lt_of_le hr hskip
    rw [if_neg c3]
    by_cases c4 : l2.ch = '/'
    · rw [if_pos c4]
      exact Nat.lt_of_lt_of_le hr hskip
    rw [if_neg c4]
    by_cases c5 : l2.ch = '*'
    · rw [if_pos c5]
      exact Nat.lt_of_lt_of_le hr hskip
    rw [if_neg c5]
    by_cases c6 : l2.ch = '<'
    · rw [if_pos c6]
      exact Nat.lt_of_lt_of_le hr hskip
    rw [if_neg c6]
    by_cases c7 : l2.ch = '>'
    · rw [if_pos c7]
      exact Nat.lt_of_lt_of_le hr hskip
    rw [if_neg c7]
    by_cases c8 : l2.ch = ';'
    · rw [if_pos c8]
      exact Nat.lt_of_lt_of_le hr hskip
    rw [if_neg c8]
    by_cases c9 : l2.ch = ','
    · rw [if_pos c9]
      exact Nat.lt_of_lt_of_le hr hskip
    rw [if_neg c9]
    by_cases c10 : l2.ch = ':'
    · rw [if_pos c10]
      exact Nat.lt_of_lt_of_le hr hskip
    rw [if_neg c10]
    by_cases c11 : l2.ch = '('
    · rw [if_pos c11]
      exact Nat.lt_of_lt_of_le hr hskip
    rw [if_neg c11]
    by_cases c12 : l2.ch = ')'
    · rw [if_pos c12]
      exact Nat.lt_of_lt_of_le hr hskip
    rw [if_neg c12]
    by_cases c13 : l2.ch = '['
    · rw [if_pos c13]
      exact Nat.lt_of_lt_of_le hr hskip
    rw [if_neg c13]
    by_cases c14 : l2.ch = ']'
    · rw [if_pos c14]
      exact Nat.lt_of_lt_of_le hr hskip
    rw [if_neg c14]
    by_cases c15 : l2.ch = '\x7b'
    · rw [if_pos c15]
      exact Nat.lt_of_lt_of_le hr hskip
    rw [if_neg c15]
    by_cases c16 : l2.ch = '\x7d'
    · rw [if_pos c16]
      exact Nat.lt_of_lt_of_le hr hskip
    rw [if_neg c16]
    by_cases cq : l2.ch = '"'
    · rw [if_pos cq]
      exact Nat.lt_of_lt_of_le hstr hskip
    rw [if_neg cq]
    by_cases cn : l2.ch = NUL
    · rw [if_pos cn]
      exact Nat.lt_of_lt_of_le hr hskip
    rw [if_neg cn]
    by_cases cl : isLetter l2.ch = true
    · rw [if_pos cl]
      exact Nat.lt_of_lt_of_le (hlet cl) hskip
    rw [if_neg cl]
    by_cases cd : isDigit l2.ch = true
    · rw [if_pos cd]
      exact Nat.lt_of_lt_of_le (hdig cd) hskip
    rw [if_neg cd]
    exact Nat.lt_of_lt_of_le hr hskip

/-- At the end of the input `nextToken` returns `EOF` and changes nothing. -/
theorem nextToken_of_remaining_zero (l : Lexer) (h : l.remaining = 0) :
    Lexer.nextToken l = ({ type := .EOF, literal := "" }, l) := by
  rw [remaining_eq_zero h]
  exact nextToken_eof

/-- After as many calls as bytes were left, nothing is left. -/
theorem remaining_lexerAfter :
    ∀ (i : Nat) (l : Lexer), l.remaining ≤ i → (lexerAfter i l).remaining = 0 := by
  intro i
  induction i with
  | zero => intro l h; exact Nat.le_zero.mp h
  | succ i ih =>
    intro l h
    simp only [lexerAfter]
    by_cases h0 : l.remaining = 0
    · rw [nextToken_of_remaining_zero l h0]
      exact ih l (by omega)
    · have := remaining_nextToken_lt l h0
      exact ih _ (by omega)

/-- C24: a new lexer on an input of `n` bytes has at most `n` bytes left; each
call of `nextToken` consumes at least one byte as long as bytes are left; with
nothing left, `nextToken` returns the token `(EOF, "")` and leaves the lexer as
it is. So once a call leaves the input exhausted every later call returns
`(EOF, "")`, and on an input of `n` bytes call number `n + 1` and every later
call return `(EOF, "")`: an `EOF` token is returned within `n + 1` calls. -/
theorem eof_is_absorbing (input : List Char) :
    (Lexer.new input).remaining ≤ input.length
    ∧ (∀ l : Lexer, l.remaining ≠ 0 → (Lexer.nextToken l).2.remaining < l.remaining)
    ∧ (∀ l : Lexer, l.remaining = 0 → Lexer.nextToken l = ({ type := .EOF, literal := "" }, l))
    ∧ (∀ (l : Lexer) (i j : Nat), (lexerAfter i l).remaining = 0 → i ≤ j →
        nthToken j l = { type := .EOF, literal := "" })
    ∧ (∀ j, input.length ≤ j → nthToken j (Lexer.new input) = { type := .EOF, literal := "" })
    ∧ (∃ i, i ≤ input.length ∧ (nthToken i (Lexer.new input)).type = .EOF) := by
  have hnew : (Lexer.new input).remaining ≤ input.length := by
    cases input with
    | nil => decide
    | cons c cs => exact remaining_le c cs
  have hafter : ∀ (l : Lexer) (i j : Nat), (lexerAfter i l).remaining = 0 → i ≤ j →
      (lexerAfter j l).remaining = 0 := by
    intro l i j h hij
    obtain ⟨d, rfl⟩ : ∃ d, j = i + d := ⟨j - i, by omega⟩
    clear hij
    induction d with
    | zero => exact h
    | succ d ih =>
      have hstep : ∀ (a : Nat) (x : Lexer),
          lexerAfter (a + 1) x = (Lexer.nextToken (lexerAfter a x)).2 := by
        intro a
        induction a with
        | zero => intro x; rfl
        | succ a iha => intro x; exact iha _
      rw [← Nat.add_assoc, hstep, nextToken_of_remaining_zero _ ih]
      exact ih
  have hall : ∀ j, input.length ≤ j →
      nthToken j (Lexer.new input) = { type := .EOF, literal := "" } := by
    intro j hj
    have h0 := remaining_lexerAfter j (Lexer.new input) (by omega)
    simp only [nthToken, nextToken_of_remaining_zero _ h0]
  refine ⟨hnew, remaining_nextToken_lt, nextToken_of_remaining_zero, ?_, hall, ?_⟩
  · intro l i j h hij
    simp only [nthToken, nextToken_of_remaining_zero _ (hafter l i j h hij)]
  · exact ⟨input.length, le_refl _, by rw [hall _ (le_refl _)]⟩

/-- Witness for C24 on the three bytes `a b`: two words, then `EOF` at the
third call and at every later one. -/
theorem eof_is_absorbing_witness :
    nthToken 0 (Lexer.new "a b".data) = { type := .IDENT, literal := "a" }
    ∧ nthToken 1 (Lexer.new "a b".data) = { type := .IDENT, literal := "b" }
    ∧ nthToken 2 (Lexer.new "a b".data) = { type := .EOF, literal := "" }
    ∧ nthToken 3 (Lexer.new "a b".data) = { type := .EOF, literal := "" }
    ∧ nthToken 1000 (Lexer.new "a b".data) = { type := .EOF, literal := "" }
    ∧ (nthToken 1 (Lexer.new "\x22ab".data)).type = .EOF :=
  ⟨by decide, by decide, by decide,
    (eof_is_absorbing "a b".data).2.2.2.2.1 3 (by decide),
    (eof_is_absorbing "a b".data).2.2.2.2.1 1000 (by decide),
    by decide⟩

/-! ## Unknown bytes (C25) -/

/-- C25 (amended): for every byte `c` other than 0 that is no blank, no letter
or underscore, no digit, no double quote and none of the operator and delimiter
characters, a lexer whose next byte is `c` returns the token `(ILLEGAL, c)`,
whose literal is the one character `c`, and is left as a new lexer on the bytes
after `c`. -/
theorem unknown_byte_lexes_as_illegal (c : Char) (rest : List Char)
    (hws : isWhitespace c = false) (hl : isLetter c = false) (hd : isDigit c = false)
    (hq : c ≠ '"') (hp : isPunctuation c = false) (hn : c ≠ NUL) :
    Lexer.nextToken (Lexer.new (c :: rest))
        = ({ type := .ILLEGAL, literal := String.singleton c }, Lexer.new rest)
    ∧ (String.singleton c).data = [c] := by
  refine ⟨?_, rfl⟩
  simp only [isPunctuation, List.contains_eq_any_beq, List.any_cons, List.any_nil, Bool.or_false,
    Bool.or_eq_false_iff, beq_eq_false_iff_ne, ne_eq] at hp
  obtain ⟨h1, h2, h3, h4, h5, h6, h7, h8, h9, h10, h11, h12, h13, h14, h15, h16, h17⟩ := hp
  have hnew : Lexer.new (c :: rest) = { ch := c, rest := rest } := rfl
  have hrc : Lexer.readChar { ch := c, rest := rest } = Lexer.new rest := rfl
  have hs : Lexer.skipWhitespace { ch := c, rest := rest } = { ch := c, rest := rest } :=
    skipWhitespaceLoop_of_not_ws rest hws
  rw [hnew]
  unfold Lexer.nextToken
  rw [hs]
  dsimp only
  rw [if_neg h1, if_neg h2, if_neg h3, if_neg h4,
    if_neg h5, if_neg h6, if_neg h7, if_neg h8,
    if_neg h9, if_neg h10, if_neg h11, if_neg h12,
    if_neg h13, if_neg h14, if_neg h15, if_neg h16,
    if_neg h17, if_neg hq, if_neg hn, if_neg (by rw [hl]; simp),
    if_neg (by rw [hd]; simp)]
  simp only [Lexer.single, hrc]

/-- Witness for C25 (amended): the bytes `@`, `~`, 1 and 200 lex as `ILLEGAL`
and the lexer goes on with the byte after them. -/
theorem unknown_byte_lexes_as_illegal_witness :
    Lexer.nextToken (Lexer.new ('@' :: ['a']))
        = ({ type := .ILLEGAL, literal := String.singleton '@' }, Lexer.new ['a'])
    ∧ Lexer.nextToken (Lexer.new (Char.ofNat 200 :: ['a']))
        = ({ type := .ILLEGAL, literal := String.singleton (Char.ofNat 200) }, Lexer.new ['a'])
    ∧ Lexer.nextToken (Lexer.new (Char.ofNat 1 :: []))
        = ({ type := .ILLEGAL, literal := String.singleton (Char.ofNat 1) }, Lexer.new [])
    ∧ nthToken 0 (Lexer.new "~x".data) = { type := .ILLEGAL, literal := "~" }
    ∧ nthToken 1 (Lexer.new "~x".data) = { type := .IDENT, literal := "x" } :=
  ⟨(unknown_byte_lexes_as_illegal '@' ['a'] (by decide) (by decide) (by decide) (by decide)
      (by decide) (by decide)).1,
    (unknown_byte_lexes_as_illegal (Char.ofNat 200) ['a'] (by decide) (by decide) (by decide)
      (by decide) (by decide) (by decide)).1,
    (unknown_byte_lexes_as_illegal (Char.ofNat 1) [] (by decide) (by decide) (by decide)
      (by decide) (by decide) (by decide)).1,
    by decide, by decide⟩

/-- Counterexample to C25 as stated: the byte 0 is no blank, no letter, no
digit, no double quote and no operator or delimiter character, yet a lexer whose
next byte is 0 returns the token `(EOF, "")`, not `(ILLEGAL, 0)`; lexing goes on
with the byte after it. -/
theorem nul_byte_lexes_as_eof :
    isWhitespace NUL = false ∧ isLetter NUL = false ∧ isDigit NUL = false ∧ NUL ≠ '"'
    ∧ isPunctuation NUL = false ∧ NUL.toNat = 0
    ∧ Lexer.nextToken (Lexer.new (NUL :: ['a']))
        = ({ type := .EOF, literal := "" }, Lexer.new ['a'])
    ∧ nthToken 0 (Lexer.new [NUL, 'a']) = { type := .EOF, literal := "" }
    ∧ nthToken 1 (Lexer.new [NUL, 'a']) = { type := .IDENT, literal := "a" } := by
  refine ⟨by decide, by decide, by decide, by decide, by decide, by decide, by decide, by decide,
    by decide⟩

/-! ## The error of a missing prefix parslet (C26) -/

/-- C26 (the code at the failing input): when `parseExpression` is entered with
a current token whose kind has no prefix parslet, it returns the null pointer
and appends exactly one error, and consumes nothing; but the text of the error
is `no prefix parse function for <K> found` followed by a line feed, which is
not the text without the line feed. -/
theorem missing_prefix_parslet_message_ends_with_newline (fuel : Nat) (precedence : prec)
    (p : Parser) (h : prefixParseFns p.curToken.type = none) :
    parseExpression (fuel + 1) precedence p
        = .ok (none, { p with errors := p.errors ++
            ["no prefix parse function for " ++ TokenTypeString p.curToken.type ++ " found\n"] })
    ∧ "no prefix parse function for " ++ TokenTypeString p.curToken.type ++ " found\n"
        ≠ "no prefix parse function for " ++ TokenTypeString p.curToken.type ++ " found" := by
  constructor
  · rw [parseExpression]
    simp only [h, Parser.noPrefixParseFnError]
  · intro he
    have hlen := congrArg String.length he
    simp only [String.length_append] at hlen
    have h1 : " found\n".length = 7 := by decide
    have h2 : " found".length = 6 := by decide
    omega

/-- Witness for C26 on the inputs `)`, `= 5`, `,` and `@`: each records one
error, whose text ends with a line feed. -/
theorem missing_prefix_parslet_message_ends_with_newline_witness :
    parseExpression (0 + 1) .LOWEST (Parser.new (Lexer.new ")".data))
        = .ok (none, { Parser.new (Lexer.new ")".data) with
            errors := (Parser.new (Lexer.new ")".data)).errors ++
              ["no prefix parse function for "
                ++ TokenTypeString (Parser.new (Lexer.new ")".data)).curToken.type
                ++ " found\n"] })
    ∧ (parseSource 60 ")").bind (fun x => .ok x.2.errors)
        = .ok ["no prefix parse function for RPAREN found\n"]
    ∧ (parseSource 60 "= 5").bind (fun x => .ok x.2.errors)
        = .ok ["no prefix parse function for ASSIGN found\n"]
    ∧ (parseSource 60 ",").bind (fun x => .ok x.2.errors)
        = .ok ["no prefix parse function for COMMA found\n"]
    ∧ (parseSource 60 "@").bind (fun x => .ok x.2.errors)
        = .ok ["no prefix parse function for ILLEGAL found\n"]
    ∧ (parseSource 60 "let x 5;").bind (fun x => .ok x.2.errors)
        = .ok ["expected next token to be ASSIGN, got INT instead"] :=
  ⟨(missing_prefix_parslet_message_ends_with_newline 0 .LOWEST (Parser.new (Lexer.new ")".data))
      (by decide)).1,
    by decide!, by decide!, by decide!, by decide!, by decide!⟩

/-! ## Integer literals beyond 64 bits (C27) -/

/-- C27 (the code at the failing input): when the current token is an `INT`
whose digit string denotes a number above the signed 64-bit range,
the conversion `std::stoi` throws `std::out_of_range`, which nothing catches:
`parseIntegerLiteral`, and `parseExpression` that called it, do not return and
no error is appended. -/
theorem integer_literal_out_of_range_throws (fuel : Nat) (precedence : prec) (p : Parser)
    (ht : p.curToken.type = .INT)
    (hd : p.curToken.literal.data ≠ [] ∧ p.curToken.literal.data.all isDigit = true)
    (hv : 9223372036854775807 < digitsValue p.curToken.literal.data) :
    stoi p.curToken.literal = .crash
    ∧ parseIntegerLiteral p = .crash
    ∧ parseExpression (fuel + 1) precedence p = .crash := by
  have h1 : stoi p.curToken.literal = .crash := by
    have hgt : ¬ digitsValue p.curToken.literal.data ≤ 2147483647 := by omega
    simp only [stoi, hd, ne_eq, not_false_eq_true, and_self, ↓reduceIte, hgt]
  have h2 : parseIntegerLiteral p = .crash := by
    simp only [parseIntegerLiteral, h1]
  refine ⟨h1, h2, ?_⟩
  have hpre : prefixParseFns .INT = some .parseIntegerLiteral := rfl
  rw [parseExpression]
  simp only [ht, hpre, h2]
  rfl

/-- Witness for C27 on the input `9223372036854775808`: the parser does not
complete, while `2147483647` parses without error. -/
theorem integer_literal_out_of_range_throws_witness :
    (Parser.new (Lexer.new "9223372036854775808".data)).curToken
        = { type := .INT, literal := "9223372036854775808" }
    ∧ parseIntegerLiteral (Parser.new (Lexer.new "9223372036854775808".data)) = .crash
    ∧ parseSource 60 "9223372036854775808" = .crash
    ∧ parseSource 60 "let x = 99999999999999999999;" = .crash
    ∧ (parseSource 60 "2147483647").bind (fun x => .ok x.2.errors) = .ok [] :=
  ⟨by decide,
    (integer_literal_out_of_range_throws 0 .LOWEST
      (Parser.new (Lexer.new "9223372036854775808".data)) (by decide) (by decide)
      (by decide)).2.1,
    by decide!, by decide!, by decide!⟩

/-! ## Returns through nested blocks (C28) -/

/-- The objects whose `type()` ends a block. -/
theorem type_ends_block (o : Object) :
    (o.type = "RETURN_VALUE" ∨ o.type = "ERROR")
      ↔ ((∃ v, o = .ReturnValue v) ∨ (∃ msg, o = .Error msg)) := by
  cases o <;> simp [Object.type]

/-- The loop of `evalBlockStatement` after a prefix of statements that ran
quietly. -/
theorem evalBlockStatementLoop_after_quiet (ev : Eval) (env : Nat) (post : List NodePtr) :
    ∀ (pre : List NodePtr) (r r0 : ObjPtr) (m mk : Memory),
      runBlockQuietly ev env pre r m = some (r0, mk) →
      evalBlockStatementLoop ev env (pre ++ post) r m
        = evalBlockStatementLoop ev env post r0 mk := by
  intro pre
  induction pre with
  | nil =>
    intro r r0 m mk h
    simp only [runBlockQuietly, Option.some.injEq, Prod.mk.injEq] at h
    obtain ⟨rfl, rfl⟩ := h
    rfl
  | cons s rest ih =>
    intro r r0 m mk h
    simp only [runBlockQuietly] at h
    simp only [List.cons_append, evalBlockStatementLoop]
    cases hev : ev s env m with
    | ok x =>
      obtain ⟨r1, m1⟩ := x
      rw [hev] at h
      cases r1 with
      | none => exact ih none r0 m1 mk h
      | some a =>
        dsimp only at h ⊢
        cases ho : m1.objects.get? a with
        | none => rw [ho] at h; exact absurd h (by simp)
        | some o =>
          rw [ho] at h
          dsimp only
          have hq : ¬ (o.type = "RETURN_VALUE" ∨ o.type = "ERROR") := by
            rw [type_ends_block]
            rintro (⟨v, rfl⟩ | ⟨msg, rfl⟩) <;> exact absurd h (by simp)
          rw [if_neg hq]
          cases o <;> first
            | exact ih (some a) r0 m1 mk h
            | exact absurd h (by simp)
    | crash => rw [hev] at h; exact absurd h (by simp)
    | fuel => rw [hev] at h; exact absurd h (by simp)

/-- C28: let a block hold the statements `pre`, then `s`, then `post`. When the
statements of `pre` run quietly and `s` then yields a `ReturnValue` or an
`Error` at the address `a` in the memory `m1`, the block yields that same
object `a`, not unwrapped, in the memory `m1`, whatever `post` is: no later
statement runs. An if-expression whose taken branch is that block yields the
same object, so the enclosing block stops on it in turn; `unwrapReturnValue`,
which `applyFunction` applies to the result of the body, yields the inner
value. -/
theorem block_returns_first_return_or_error (k blk env a : Nat) (t : Token)
    (m mk m1 : Memory) (pre post : List NodePtr) (s : NodePtr) (r0 : ObjPtr) (o : Object)
    (hblk : m.nodes.get? blk = some (.BlockStatement t (pre ++ s :: post)))
    (hpre : runBlockQuietly (eval k) env pre none m = some (r0, mk))
    (hs : eval k s env mk = .ok (some a, m1))
    (ho : m1.objects.get? a = some o)
    (hty : (∃ v, o = .ReturnValue v) ∨ (∃ msg, o = .Error msg)) :
    eval (k + 1) (some blk) env m = .ok (some a, m1)
    ∧ (∀ (m0 : Memory) (ifn : Nat) (ti : Token) (c alt : NodePtr) (cv : ObjPtr),
        m0.nodes.get? ifn = some (.IfExpression ti c (some blk) alt) →
        eval (k + 1) c env m0 = .ok (cv, m) → isError m cv = false → isTruthy cv = true →
        eval (k + 2) (some ifn) env m0 = .ok (some a, m1))
    ∧ (∀ v, o = .ReturnValue v → unwrapReturnValue m1 (some a) = v)
    ∧ (∀ msg, o = .Error msg → unwrapReturnValue m1 (some a) = some a) := by
  have hstop : o.type = "RETURN_VALUE" ∨ o.type = "ERROR" := (type_ends_block o).2 hty
  have hmain : eval (k + 1) (some blk) env m = .ok (some a, m1) := by
    rw [eval, hblk]
    simp only [evalBlockStatement]
    rw [evalBlockStatementLoop_after_quiet (eval k) env (s :: post) pre none r0 m mk hpre]
    simp only [evalBlockStatementLoop, hs, ho, hstop, ↓reduceIte]
  refine ⟨hmain, ?_, ?_, ?_⟩
  · intro m0 ifn ti c alt cv hif hc hne htr
    rw [eval, hif]
    simp only [evalIfExpression, hc, Res.ok_bind, hne, htr, Bool.false_eq_true, ↓reduceIte, hmain]
  · intro v hv
    subst hv
    simp only [unwrapReturnValue, ho]
  · intro msg hv
    subst hv
    simp only [unwrapReturnValue, ho]

/-- Witness for C28 on the outer block of
`if (10 > 1) { if (10 > 1) { return 10; } return 1; }`: its first statement
yields the `ReturnValue` of the inner block, and the block yields it without
running `return 1;`; with the runs of the two programs of the claim. -/
theorem block_returns_first_return_or_error_witness :
    eval (19 + 1) (some 6) 0
        (memoryOf "if (10 > 1) \x7b if (10 > 1) \x7b return 10; \x7d return 1; \x7d")
      = .ok (some 12,
          { memoryOf "if (10 > 1) \x7b if (10 > 1) \x7b return 10; \x7d return 1; \x7d" with
            objects :=
              (memoryOf "if (10 > 1) \x7b if (10 > 1) \x7b return 10; \x7d return 1; \x7d").objects
                ++ [Object.Integer 10, Object.Integer 1, Object.Integer 10,
                    Object.ReturnValue (some 11)] })
    ∧ startOutput 60 "if (10 > 1) \x7b if (10 > 1) \x7b return 10; \x7d return 1; \x7d"
        = .ok (some "10")
    ∧ startOutput 60 "let f = fn() \x7b if (1 < 2) \x7b return 1; \x7d 2 \x7d; f() + 10"
        = .ok (some "11")
    ∧ startOutput 60 "let f = fn() \x7b if (1 < 2) \x7b len(1, 2); 5 \x7d 2 \x7d; f()"
        = .ok (some "ERROR: wrong number of arguments in builtin function(len). got=2, want=1") :=
  ⟨(block_returns_first_return_or_error 19 6 0 12 { type := .LBRACE, literal := "\x7b" }
      (memoryOf "if (10 > 1) \x7b if (10 > 1) \x7b return 10; \x7d return 1; \x7d")
      (memoryOf "if (10 > 1) \x7b if (10 > 1) \x7b return 10; \x7d return 1; \x7d")
      { memoryOf "if (10 > 1) \x7b if (10 > 1) \x7b return 10; \x7d return 1; \x7d" with
        objects :=
          (memoryOf "if (10 > 1) \x7b if (10 > 1) \x7b return 10; \x7d return 1; \x7d").objects
            ++ [Object.Integer 10, Object.Integer 1, Object.Integer 10,
                Object.ReturnValue (some 11)] }
      [] [some 15] (some 7) none (.ReturnValue (some 11))
      (by decide!) (by decide!) (by decide!) (by decide!) (Or.inl ⟨_, rfl⟩)).1,
    by decide!, by decide!, by decide!⟩

/-! ## Errors short-circuit (C29) -/

/-- The loop of `evalExpressions` after a prefix of expressions that
evaluated quietly. -/
theorem evalExpressionsLoop_after_quiet (ev : Eval) (env : Nat) (post : List NodePtr) :
    ∀ (pre : List NodePtr) (vs vs1 : List ObjPtr) (m mp : Memory),
      evalsQuietly ev env pre vs m = some (vs1, mp) →
      evalExpressionsLoop ev env (pre ++ post) vs m = evalExpressionsLoop ev env post vs1 mp := by
  intro pre
  induction pre with
  | nil =>
    intro vs vs1 m mp h
    simp only [evalsQuietly, Option.some.injEq, Prod.mk.injEq] at h
    obtain ⟨rfl, rfl⟩ := h
    rfl
  | cons x rest ih =>
    intro vs vs1 m mp h
    simp only [evalsQuietly] at h
    simp only [List.cons_append, evalExpressionsLoop]
    cases hev : ev x env m with
    | ok r =>
      obtain ⟨v, m1⟩ := r
      rw [hev] at h
      dsimp only at h ⊢
      by_cases hv : isError m1 v = true
      · rw [if_pos hv] at h
        exact absurd h (by simp)
      · rw [if_neg hv] at h
        rw [if_neg hv]
        exact ih _ _ _ _ h
    | crash => rw [hev] at h; exact absurd h (by simp)
    | fuel => rw [hev] at h; exact absurd h (by simp)

/-- The loop of `evalExpressions` stops at the first expression that yields an
`Error` and returns it alone. -/
theorem evalExpressions_stops_at_error (ev : Eval) (env : Nat) (pre post : List NodePtr)
    (x : NodePtr) (vs : List ObjPtr) (m mp m1 : Memory) (e : ObjPtr)
    (hpre : evalsQuietly ev env pre [] m = some (vs, mp))
    (hx : ev x env mp = .ok (e, m1)) (he : isError m1 e = true) :
    evalExpressions ev (pre ++ x :: post) env m = .ok ([e], m1) := by
  simp only [evalExpressions]
  rw [evalExpressionsLoop_after_quiet ev env (x :: post) pre [] vs m mp hpre]
  simp only [evalExpressionsLoop, hx, he, ↓reduceIte]

/-- The loop of `evalHashLiteral` after a prefix of pairs that evaluated
quietly. -/
theorem evalHashLiteralLoop_after_quiet (ev : Eval) (env : Nat)
    (post : List (NodePtr × NodePtr)) :
    ∀ (pre : List (NodePtr × NodePtr)) (ps ps1 : List (String × ObjPtr)) (m mp : Memory),
      pairsQuietly ev env pre ps m = some (ps1, mp) →
      evalHashLiteralLoop ev env (pre ++ post) ps m = evalHashLiteralLoop ev env post ps1 mp := by
  intro pre
  induction pre with
  | nil =>
    intro ps ps1 m mp h
    simp only [pairsQuietly, Option.some.injEq, Prod.mk.injEq] at h
    obtain ⟨rfl, rfl⟩ := h
    rfl
  | cons kv rest ih =>
    intro ps ps1 m mp h
    obtain ⟨kx, vx⟩ := kv
    simp only [pairsQuietly] at h
    simp only [List.cons_append, evalHashLiteralLoop]
    cases hev : ev kx env m with
    | ok r =>
      obtain ⟨key, m1⟩ := r
      rw [hev] at h
      dsimp only at h ⊢
      by_cases hk : isError m1 key = true
      · rw [if_pos hk] at h
        exact absurd h (by simp)
      · rw [if_neg hk] at h
        rw [if_neg hk]
        cases hd : m1.deref key with
        | ok ko =>
          rw [hd] at h
          dsimp only at h ⊢
          cases hh : ko.hashKey with
          | none => rw [hh] at h; exact absurd h (by simp)
          | some hashed =>
            rw [hh] at h
            dsimp only at h ⊢
            cases hv : ev vx env m1 with
            | ok r2 =>
              obtain ⟨value, m2⟩ := r2
              rw [hv] at h
              dsimp only at h ⊢
              by_cases hve : isError m2 value = true
              · rw [if_pos hve] at h
                exact absurd h (by simp)
              · rw [if_neg hve] at h
                rw [if_neg hve]
                exact ih _ _ _ _ h
            | crash => rw [hv] at h; exact absurd h (by simp)
            | fuel => rw [hv] at h; exact absurd h (by simp)
        | crash => rw [hd] at h; exact absurd h (by simp)
        | fuel => rw [hd] at h; exact absurd h (by simp)
    | crash => rw [hev] at h; exact absurd h (by simp)
    | fuel => rw [hev] at h; exact absurd h (by simp)

/-- C29 (amended): let evaluating a sub-expression with fuel `k` yield the
`Error` `e` in the memory `m1`, the sub-expressions before it in evaluation
order having yielded no `Error`. Then with fuel `k + 1` the node yields that
same `e` in that same memory `m1`, so nothing later was evaluated and a `let`
made no binding. This holds for the operand of a prefix expression; the left
and the right operand of an infix expression; the condition of an
if-expression; the callee and each argument of a call expression whose callee
does not have the token literal `quote`; each element of an array literal; the
indexed value and the index of an index expression; each key and each value of
a hash literal; the bound expression of a `let` and the returned expression of a
`return`. -/
theorem errors_short_circuit (k env : Nat) (e : ObjPtr) (m m1 : Memory)
    (he : isError m1 e = true) :
    (∀ a t op right, m.nodes.get? a = some (.PrefixExpression t op right) →
        eval k right env m = .ok (e, m1) → eval (k + 1) (some a) env m = .ok (e, m1))
    ∧ (∀ a t l op r, m.nodes.get? a = some (.InfixExpression t l op r) →
        eval k l env m = .ok (e, m1) → eval (k + 1) (some a) env m = .ok (e, m1))
    ∧ (∀ a t l op r lv m0, m.nodes.get? a = some (.InfixExpression t l op r) →
        eval k l env m = .ok (lv, m0) → isError m0 lv = false →
        eval k r env m0 = .ok (e, m1) → eval (k + 1) (some a) env m = .ok (e, m1))
    ∧ (∀ a t c cons alt, m.nodes.get? a = some (.IfExpression t c cons alt) →
        eval k c env m = .ok (e, m1) → eval (k + 1) (some a) env m = .ok (e, m1))
    ∧ (∀ a t f args fnode lit, m.nodes.get? a = some (.CallExpression t f args) →
        derefNode m.nodes f = .ok fnode → TokenLiteral m.nodes fnode = .ok lit → lit ≠ "quote" →
        eval k f env m = .ok (e, m1) → eval (k + 1) (some a) env m = .ok (e, m1))
    ∧ (∀ a t f pre x post fnode lit fv m0 vs mp,
        m.nodes.get? a = some (.CallExpression t f (pre ++ x :: post)) →
        derefNode m.nodes f = .ok fnode → TokenLiteral m.nodes fnode = .ok lit → lit ≠ "quote" →
        eval k f env m = .ok (fv, m0) → isError m0 fv = false →
        evalsQuietly (eval k) env pre [] m0 = some (vs, mp) →
        eval k x env mp = .ok (e, m1) → eval (k + 1) (some a) env m = .ok (e, m1))
    ∧ (∀ a t pre x post vs mp, m.nodes.get? a = some (.ArrayLiteral t (pre ++ x :: post)) →
        evalsQuietly (eval k) env pre [] m = some (vs, mp) →
        eval k x env mp = .ok (e, m1) → eval (k + 1) (some a) env m = .ok (e, m1))
    ∧ (∀ a t l i, m.nodes.get? a = some (.IndexExpression t l i) →
        eval k l env m = .ok (e, m1) → eval (k + 1) (some a) env m = .ok (e, m1))
    ∧ (∀ a t l i lv m0, m.nodes.get? a = some (.IndexExpression t l i) →
        eval k l env m = .ok (lv, m0) → isError m0 lv = false →
        eval k i env m0 = .ok (e, m1) → eval (k + 1) (some a) env m = .ok (e, m1))
    ∧ (∀ a t pre kx vx post ps mp,
        m.nodes.get? a = some (.HashLiteral t (pre ++ (kx, vx) :: post)) →
        pairsQuietly (eval k) env pre [] m = some (ps, mp) →
        eval k kx env mp = .ok (e, m1) → eval (k + 1) (some a) env m = .ok (e, m1))
    ∧ (∀ a t pre kx vx post ps mp key mq ko hashed,
        m.nodes.get? a = some (.HashLiteral t (pre ++ (kx, vx) :: post)) →
        pairsQuietly (eval k) env pre [] m = some (ps, mp) →
        eval k kx env mp = .ok (key, mq) → isError mq key = false →
        mq.deref key = .ok ko → ko.hashKey = some hashed →
        eval k vx env mq = .ok (e, m1) → eval (k + 1) (some a) env m = .ok (e, m1))
    ∧ (∀ a t name value, m.nodes.get? a = some (.LetStatement t name value) →
        eval k value env m = .ok (e, m1) → eval (k + 1) (some a) env m = .ok (e, m1))
    ∧ (∀ a t value, m.nodes.get? a = some (.ReturnStatement t value) →
        eval k value env m = .ok (e, m1) → eval (k + 1) (some a) env m = .ok (e, m1)) := by
  have hlen : ([e] : List ObjPtr).length = 1 := rfl
  have hget : ([e] : List ObjPtr).getD 0 none = e := rfl
  refine ⟨?_, ?_, ?_, ?_, ?_, ?_, ?_, ?_, ?_, ?_, ?_, ?_, ?_⟩
  · intro a t op right hn h
    rw [eval, hn]
    simp only [h, Res.ok_bind, he, ↓reduceIte, Res.pure_eq]
  · intro a t l op r hn h
    rw [eval, hn]
    simp only [h, Res.ok_bind, he, ↓reduceIte, Res.pure_eq]
  · intro a t l op r lv m0 hn hl hlv h
    rw [eval, hn]
    simp only [hl, Res.ok_bind, hlv, Bool.false_eq_true, h, he, ↓reduceIte, Res.pure_eq]
  · intro a t c cons alt hn h
    rw [eval, hn]
    simp only [evalIfExpression, h, Res.ok_bind, he, ↓reduceIte, Res.pure_eq]
  · intro a t f args fnode lit hn hf hl hq h
    rw [eval, hn]
    simp only [hf, hl, Res.ok_bind, hq, h, he, ↓reduceIte, Res.pure_eq]
  · intro a t f pre x post fnode lit fv m0 vs mp hn hf hl hq hfv hfe hpre h
    rw [eval, hn]
    simp only [hf, hl, Res.ok_bind, hq, hfv, hfe, Bool.false_eq_true, ↓reduceIte,
      evalExpressions_stops_at_error (eval k) env pre post x vs m0 mp m1 e hpre h he,
      hlen, hget, he, and_self, Res.pure_eq]
  · intro a t pre x post vs mp hn hpre h
    rw [eval, hn]
    simp only [evalExpressions_stops_at_error (eval k) env pre post x vs m mp m1 e hpre h he,
      Res.ok_bind, hlen, hget, he, and_self, ↓reduceIte, Res.pure_eq]
  · intro a t l i hn h
    rw [eval, hn]
    simp only [h, Res.ok_bind, he, ↓reduceIte, Res.pure_eq]
  · intro a t l i lv m0 hn hl hlv h
    rw [eval, hn]
    simp only [hl, Res.ok_bind, hlv, Bool.false_eq_true, h, he, ↓reduceIte, Res.pure_eq]
  · intro a t pre kx vx post ps mp hn hpre h
    rw [eval, hn]
    simp only [evalHashLiteral]
    rw [evalHashLiteralLoop_after_quiet (eval k) env ((kx, vx) :: post) pre [] ps m mp hpre]
    simp only [evalHashLiteralLoop, h, he, ↓reduceIte]
  · intro a t pre kx vx post ps mp key mq ko hashed hn hpre hk hke hd hh h
    rw [eval, hn]
    simp only [evalHashLiteral]
    rw [evalHashLiteralLoop_after_quiet (eval k) env ((kx, vx) :: post) pre [] ps m mp hpre]
    simp only [evalHashLiteralLoop, hk, hke, Bool.false_eq_true, ↓reduceIte, hd, hh, h, he]
  · intro a t name value hn h
    rw [eval, hn]
    simp only [h, Res.ok_bind, he, ↓reduceIte, Res.pure_eq]
  · intro a t value hn h
    rw [eval, hn]
    simp only [h, Res.ok_bind, he, ↓reduceIte, Res.pure_eq]

/-- Witness for C29 (amended) on `-foo`, with the runs of one program for each
kind of node: every one yields the `Error` of the first failing
sub-expression, and `let x = foo;` binds nothing. -/
theorem errors_short_circuit_witness :
    eval (1 + 1) (some 2) 0 (memoryOf "-foo")
        = .ok (some 9, { memoryOf "-foo" with
            objects := (memoryOf "-foo").objects ++ [Object.Error "identifier not found: foo"] })
    ∧ startOutput 60 "-foo" = .ok (some "ERROR: identifier not found: foo")
    ∧ startOutput 60 "foo + bar" = .ok (some "ERROR: identifier not found: foo")
    ∧ startOutput 60 "1 + foo" = .ok (some "ERROR: identifier not found: foo")
    ∧ startOutput 60 "if (foo) \x7b 1 \x7d" = .ok (some "ERROR: identifier not found: foo")
    ∧ startOutput 60 "foo(1)" = .ok (some "ERROR: identifier not found: foo")
    ∧ startOutput 60 "len(foo, bar)" = .ok (some "ERROR: identifier not found: foo")
    ∧ startOutput 60 "[1, foo, bar]" = .ok (some "ERROR: identifier not found: foo")
    ∧ startOutput 60 "foo[bar]" = .ok (some "ERROR: identifier not found: foo")
    ∧ startOutput 60 "[1][foo]" = .ok (some "ERROR: identifier not found: foo")
    ∧ startOutput 60 "\x7b\x22a\x22: foo\x7d" = .ok (some "ERROR: identifier not found: foo")
    ∧ startOutput 60 "\x7bfoo: 1\x7d" = .ok (some "ERROR: identifier not found: foo")
    ∧ startOutput 60 "let x = foo; 5" = .ok (some "ERROR: identifier not found: foo")
    ∧ startOutput 60 "return foo; 5" = .ok (some "ERROR: identifier not found: foo")
    ∧ (finalMemoryOf "let x = foo; 5").envs
        = [{ store := [], outer := none }, { store := [], outer := none }] :=
  ⟨(errors_short_circuit 1 0 (some 9) (memoryOf "-foo")
      { memoryOf "-foo" with
        objects := (memoryOf "-foo").objects ++ [Object.Error "identifier not found: foo"] }
      (by decide!)).1 2 { type := .MINUS, literal := "-" } "-" (some 3) (by decide!) (by decide!),
    by decide!, by decide!, by decide!, by decide!, by decide!, by decide!, by decide!,
    by decide!, by decide!, by decide!, by decide!, by decide!, by decide!, by decide!⟩

/-- Counterexample to C29 as stated: in `quote(unquote(foo))` evaluating the
argument `foo` of the call `unquote(foo)` yields the `Error`
`identifier not found: foo`, yet neither that call nor the call of `quote`
yields it: the `Error` is dropped, the `unquote` call is replaced by the null
node and the program yields a `Quote` of it. -/
theorem error_under_unquote_is_dropped :
    (start 60 "quote(unquote(foo))").bind (fun run =>
        match run with
        | .evaluated r m => .ok (r, m.objects.drop 9)
        | .parserErrors _ => .crash)
      = .ok (some 10, [Object.Error "identifier not found: foo", Object.Quote none])
    ∧ startOutput 60 "foo" = .ok (some "ERROR: identifier not found: foo") := by
  refine ⟨by decide!, by decide!⟩

/-! ## Hash keys (C30) -/

/-- The loop of `Strin::hashKey` adds up the bytes read through `char`. -/
theorem foldl_signedChar (cs : List Char) :
    ∀ h : Int, cs.foldl (fun h c => h + signedChar c) h = h + (cs.map signedChar).sum := by
  induction cs with
  | nil => intro h; simp
  | cons c cs ih =>
    intro h
    simp only [List.foldl_cons, ih, List.map_cons, List.sum_cons]
    omega

/-- On bytes below 128 the bytes read through `char` are the byte values. -/
theorem sum_signedChar_ascii (cs : List Char) (h : ∀ c ∈ cs, c.toNat < 128) :
    (cs.map signedChar).sum = ((cs.map Char.toNat).sum : Nat) := by
  induction cs with
  | nil => simp
  | cons c cs ih =>
    have hc : c.toNat < 128 := h c (List.mem_cons_self _ _)
    have hrest := ih (fun x hx => h x (List.mem_cons_of_mem _ hx))
    simp only [List.map_cons, List.sum_cons, hrest, signedChar, hc, ↓reduceIte, Nat.cast_add]

/-- C30 (amended): `hashKey` of an `Integer` with the value `n` is
`("INTEGER", n mod 2^64)`: `n` itself when `n` is not negative, `n + 2^64` when
it is (18446744073709551615 for -1); of a `Boolea` it is `("BOOLEAN", 1)` for
true and `("BOOLEAN", 0)` for false; of a `Strin` it is `("STRING", v)` with `v`
the sum modulo 2^64 of its bytes read as signed characters (a byte of 128 or
more counts as the byte minus 256), which is the sum modulo 2^64 of the byte
values when every byte of the string is below 128. -/
theorem hash_key_values (n : Int) (b : Bool) (s : String) (hs : ∀ c ∈ s.data, c.toNat < 128) :
    (Object.Integer n).hashKey
        = some { objectType := "INTEGER", value := (n % 18446744073709551616).toNat }
    ∧ (0 ≤ n → n < 18446744073709551616 →
        (Object.Integer n).hashKey = some { objectType := "INTEGER", value := n.toNat })
    ∧ (n < 0 → -18446744073709551616 ≤ n →
        (Object.Integer n).hashKey
          = some { objectType := "INTEGER", value := (n + 18446744073709551616).toNat })
    ∧ (Object.Integer (-1)).hashKey
        = some { objectType := "INTEGER", value := 18446744073709551615 }
    ∧ (Object.Boolea b).hashKey
        = some { objectType := "BOOLEAN", value := if b then 1 else 0 }
    ∧ (Object.Strin s).hashKey
        = some { objectType := "STRING", value := byteSum s % 18446744073709551616 }
    ∧ (∀ x : String, (Object.Strin x).hashKey
        = some { objectType := "STRING",
                 value := ((x.data.map signedChar).sum % 18446744073709551616).toNat }) := by
  have hstr : ∀ x : String, (Object.Strin x).hashKey
      = some { objectType := "STRING",
               value := ((x.data.map signedChar).sum % 18446744073709551616).toNat } := by
    intro x
    simp only [Object.hashKey, foldl_signedChar, zero_add]
  refine ⟨rfl, ?_, ?_, by decide, rfl, ?_, hstr⟩
  · intro h0 h1
    simp only [Object.hashKey]
    rw [Int.emod_eq_of_lt h0 h1]
  · intro h0 h1
    simp only [Object.hashKey]
    have : n % 18446744073709551616 = n + 18446744073709551616 := by omega
    rw [this]
  · rw [hstr s, sum_signedChar_ascii s.data hs]
    simp only [byteSum]
    congr 1

/-- Witness for C30 (amended) on the Integer 5, the Boolean true and the string
`ab`, whose bytes 97 and 98 sum to 195. -/
theorem hash_key_values_witness :
    (Object.Integer 5).hashKey = some { objectType := "INTEGER", value := 5 }
    ∧ (Object.Integer (-2)).hashKey
        = some { objectType := "INTEGER", value := 18446744073709551614 }
    ∧ (Object.Boolea true).hashKey = some { objectType := "BOOLEAN", value := 1 }
    ∧ (Object.Boolea false).hashKey = some { objectType := "BOOLEAN", value := 0 }
    ∧ (Object.Strin "ab").hashKey
        = some { objectType := "STRING", value := byteSum "ab" % 18446744073709551616 }
    ∧ byteSum "ab" = 195
    ∧ (Object.Strin "").hashKey = some { objectType := "STRING", value := 0 } :=
  ⟨by decide, by decide, by decide, by decide,
    (hash_key_values 5 true "ab" (by decide)).2.2.2.2.2.1,
    by decide, by decide⟩

/-- Counterexample to C30 as stated: for the string that consists of the one
byte 255 the sum of the byte values is 255, but `hashKey` is
`("STRING", 18446744073709551615)`: the byte is read through a signed `char` and
counts as -1; likewise the two bytes 200 and 100 give 44, not 300. -/
theorem string_hash_key_reads_signed_bytes :
    byteSum (String.mk [Char.ofNat 255]) % 18446744073709551616 = 255
    ∧ (Object.Strin (String.mk [Char.ofNat 255])).hashKey
        = some { objectType := "STRING", value := 18446744073709551615 }
    ∧ byteSum (String.mk [Char.ofNat 200, Char.ofNat 100]) % 18446744073709551616 = 300
    ∧ (Object.Strin (String.mk [Char.ofNat 200, Char.ofNat 100])).hashKey
        = some { objectType := "STRING", value := 44 } := by
  refine ⟨by decide, by decide, by decide, by decide⟩

/-! ## Order of the entries of a hash table (C31) -/

/-- An entry of a map after an assignment is the assigned one or was there. -/
theorem mem_strMapAssign (key : String) (v : ObjPtr) :
    ∀ (pairs : List (String × ObjPtr)) (x : String × ObjPtr),
      x ∈ strMapAssign key v pairs → x.1 = key ∨ x ∈ pairs := by
  intro pairs
  induction pairs with
  | nil =>
    intro x hx
    simp only [strMapAssign, List.mem_singleton] at hx
    exact Or.inl (by rw [hx])
  | cons kv rest ih =>
    intro x hx
    obtain ⟨k, w⟩ := kv
    simp only [strMapAssign] at hx
    split_ifs at hx with h1 h2
    · rcases List.mem_cons.mp hx with h | h
      · exact Or.inl (by rw [h, h1])
      · exact Or.inr (List.mem_cons_of_mem _ h)
    · rcases List.mem_cons.mp hx with h | h
      · exact Or.inl (by rw [h])
      · exact Or.inr h
    · rcases List.mem_cons.mp hx with h | h
      · exact Or.inr (by rw [h]; exact List.mem_cons_self _ _)
      · rcases ih x h with h3 | h3
        · exact Or.inl h3
        · exact Or.inr (List.mem_cons_of_mem _ h3)

/-- The assignment `pairs[key] = value` keeps the keys of the map ascending. -/
theorem keysAscend_strMapAssign (key : String) (v : ObjPtr) :
    ∀ pairs : List (String × ObjPtr), keysAscend pairs → keysAscend (strMapAssign key v pairs) := by
  intro pairs
  induction pairs with
  | nil => intro _; simp [strMapAssign]
  | cons kv rest ih =>
    intro h
    obtain ⟨k, w⟩ := kv
    have hrest : keysAscend rest := (List.pairwise_cons.mp h).2
    have hk : ∀ x ∈ rest, k < x.1 := (List.pairwise_cons.mp h).1
    simp only [strMapAssign]
    split_ifs with h1 h2
    · exact List.pairwise_cons.mpr ⟨hk, hrest⟩
    · refine List.pairwise_cons.mpr ⟨?_, h⟩
      intro x hx
      rcases List.mem_cons.mp hx with hx1 | hx1
      · rw [hx1]; exact h2
      · exact lt_trans h2 (hk x hx1)
    · refine List.pairwise_cons.mpr ⟨?_, ih hrest⟩
      intro x hx
      rcases mem_strMapAssign key v rest x hx with hx1 | hx1
      · rw [hx1]
        rcases lt_trichotomy key k with h3 | h3 | h3
        · exact absurd h3 h2
        · exact absurd h3 h1
        · exact h3
      · exact hk x hx1

/-- The table that the loop of `evalHashLiteral` returns has ascending keys. -/
theorem evalHashLiteralLoop_keysAscend (ev : Eval) (env : Nat) :
    ∀ (ps : List (NodePtr × NodePtr)) (pairs : List (String × ObjPtr)) (m m1 : Memory)
      (r : ObjPtr) (tbl : List (String × ObjPtr)),
      keysAscend pairs → evalHashLiteralLoop ev env ps pairs m = .ok (r, m1) →
      isError m1 r = false → m1.deref r = .ok (.HashTable tbl) → keysAscend tbl := by
  intro ps
  induction ps with
  | nil =>
    intro pairs m m1 r tbl hp h _ ht
    simp only [evalHashLiteralLoop, Memory.makeObj, Res.ok.injEq, Prod.mk.injEq] at h
    obtain ⟨rfl, rfl⟩ := h
    simp only [Memory.deref, List.get?_eq_getElem?, List.getElem?_append_right (le_refl _),
      Nat.sub_self, List.getElem?_cons_zero, Res.ok.injEq, Object.HashTable.injEq] at ht
    rw [← ht]
    exact hp
  | cons kv rest ih =>
    intro pairs m m1 r tbl hp h hne ht
    obtain ⟨kx, vx⟩ := kv
    simp only [evalHashLiteralLoop] at h
    cases hev : ev kx env m with
    | ok x =>
      obtain ⟨key, mk⟩ := x
      rw [hev] at h
      dsimp only at h
      by_cases hk : isError mk key = true
      · rw [if_pos hk] at h
        simp only [Res.ok.injEq, Prod.mk.injEq] at h
        obtain ⟨rfl, rfl⟩ := h
        rw [hk] at hne
        exact absurd hne (by simp)
      · rw [if_neg hk] at h
        cases hd : mk.deref key with
        | ok ko =>
          rw [hd] at h
          dsimp only at h
          cases hh : ko.hashKey with
          | none =>
            rw [hh] at h
            simp only [newError, Memory.makeObj, Res.ok.injEq, Prod.mk.injEq] at h
            obtain ⟨rfl, rfl⟩ := h
            simp only [Memory.deref, List.get?_eq_getElem?, List.getElem?_append_right (le_refl _),
              Nat.sub_self, List.getElem?_cons_zero, Res.ok.injEq, reduceCtorEq] at ht
          | some hashed =>
            rw [hh] at h
            dsimp only at h
            cases hv : ev vx env mk with
            | ok x2 =>
              obtain ⟨value, mv⟩ := x2
              rw [hv] at h
              dsimp only at h
              by_cases hve : isError mv value = true
              · rw [if_pos hve] at h
                simp only [Res.ok.injEq, Prod.mk.injEq] at h
                obtain ⟨rfl, rfl⟩ := h
                rw [hve] at hne
                exact absurd hne (by simp)
              · rw [if_neg hve] at h
                exact ih _ _ _ _ _ (keysAscend_strMapAssign _ _ _ hp) h hne ht
            | crash => rw [hv] at h; exact absurd h (by simp)
            | fuel => rw [hv] at h; exact absurd h (by simp)
        | crash => rw [hd] at h; exact absurd h (by simp)
        | fuel => rw [hd] at h; exact absurd h (by simp)
    | crash => rw [hev] at h; exact absurd h (by simp)
    | fuel => rw [hev] at h; exact absurd h (by simp)

/-- C31 (amended): the entries of a table built by `evalHashLiteral` stand in
strictly ascending order of the strings `<TYPE>_<value>` of their hash keys,
whatever the order in which the pairs were inserted, and `inspect()` lists the
pairs in that order, separated by `, ` between braces. The order of the strings
is that of `std::string`, character by character: `INTEGER_10` comes before
`INTEGER_2`. -/
theorem hash_table_inspects_in_key_order (ev : Eval) (env : Nat)
    (ps : List (NodePtr × NodePtr)) (m m1 : Memory) (r : ObjPtr)
    (tbl : List (String × ObjPtr))
    (h : evalHashLiteral ev ps env m = .ok (r, m1))
    (ht : m1.deref r = .ok (.HashTable tbl)) :
    keysAscend tbl
    ∧ (∀ fuel ss, mapRes (fun (kv : String × ObjPtr) => inspect fuel m1 kv.2) tbl = .ok ss →
        inspect (fuel + 1) m1 r = .ok ("\x7b" ++ joinComma ss ++ "\x7d"))
    ∧ "INTEGER_10" < "INTEGER_2" := by
  have hne : isError m1 r = false := by
    cases r with
    | none => rfl
    | some a =>
      simp only [Memory.deref] at ht
      cases ho : m1.objects.get? a with
      | none => rw [ho] at ht; exact absurd ht (by simp)
      | some o =>
        rw [ho] at ht
        simp only [Res.ok.injEq] at ht
        subst ht
        simp only [isError, ho, Object.type]
        simp
  refine ⟨evalHashLiteralLoop_keysAscend ev env ps [] m m1 r tbl List.Pairwise.nil h hne ht, ?_,
    by decide!⟩
  intro fuel ss hss
  rw [inspect]
  simp only [ht, hss, Res.ok_bind, Res.pure_eq]

/-- Witness for C31 (amended) on the literal `{2: "a", 10: "b"}`: the pair of
the key 2 is inserted first, yet the table holds the pair of the key 10
first. -/
theorem hash_table_inspects_in_key_order_witness :
    evalHashLiteral (eval 5) [(some 3, some 4), (some 5, some 6)] 0
        (memoryOf "\x7b2: \x22a\x22, 10: \x22b\x22\x7d")
      = .ok (some 15, { memoryOf "\x7b2: \x22a\x22, 10: \x22b\x22\x7d" with
          objects := (memoryOf "\x7b2: \x22a\x22, 10: \x22b\x22\x7d").objects ++
            [Object.Integer 2, Object.Strin "a", Object.HashPair (some 9) (some 10),
             Object.Integer 10, Object.Strin "b", Object.HashPair (some 12) (some 13),
             Object.HashTable [("INTEGER_10", some 14), ("INTEGER_2", some 11)]] })
    ∧ keysAscend [("INTEGER_10", some 14), ("INTEGER_2", some 11)]
    ∧ startOutput 60 "\x7b1: \x22a\x22, 2: \x22b\x22\x7d" = .ok (some "\x7b1 : a, 2 : b\x7d")
    ∧ startOutput 60 "\x7b\x22b\x22: 1, \x22a\x22: 2\x7d" = .ok (some "\x7ba : 2, b : 1\x7d") :=
  ⟨by decide!,
    (hash_table_inspects_in_key_order (eval 5) 0 [(some 3, some 4), (some 5, some 6)]
      (memoryOf "\x7b2: \x22a\x22, 10: \x22b\x22\x7d")
      { memoryOf "\x7b2: \x22a\x22, 10: \x22b\x22\x7d" with
        objects := (memoryOf "\x7b2: \x22a\x22, 10: \x22b\x22\x7d").objects ++
          [Object.Integer 2, Object.Strin "a", Object.HashPair (some 9) (some 10),
           Object.Integer 10, Object.Strin "b", Object.HashPair (some 12) (some 13),
           Object.HashTable [("INTEGER_10", some 14), ("INTEGER_2", some 11)]] }
      (some 15) [("INTEGER_10", some 14), ("INTEGER_2", some 11)] (by decide!) (by decide!)).1,
    by decide!, by decide!⟩

/-- Counterexample to C31 as stated: the table built from the Integer key 2
(value `a`) and then the Integer key 10 (value `b`) inspects as
`{10 : b, 2 : a}`, not in the order of insertion. -/
theorem hash_table_does_not_inspect_in_insertion_order :
    startOutput 60 "\x7b2: \x22a\x22, 10: \x22b\x22\x7d" = .ok (some "\x7b10 : b, 2 : a\x7d")
    ∧ startOutput 60 "\x7b2: \x22a\x22, 10: \x22b\x22\x7d" ≠ .ok (some "\x7b2 : a, 10 : b\x7d") := by
  refine ⟨by decide!, by decide!⟩

/-! ## The traversal of modify (C32) -/

/-- C32 (the code at the failing input): `modify` has no branch for a
`CallExpression` and none for a `MacroLiteral`: on such a node it descends into
no child slot, neither callee nor arguments, neither parameters nor body, and
returns what the modifier makes of the node itself. The witness shows that with
the modifier that turns every literal 1 into 2 the program `foo(1)` stays
`foo(1)` and `1 + foo(1)` becomes `(2 + foo(1))`. -/
theorem modify_skips_call_and_macro (fuel a : Nat) (modifier : Modifier) (m : Memory)
    (n : Node) (hn : m.nodes.get? a = some n)
    (hk : (∃ t f args, n = .CallExpression t f args) ∨ (∃ t ps b, n = .MacroLiteral t ps b)) :
    modify (fuel + 1) modifier (some a) m = modifier (some a) m := by
  rcases hk with ⟨t, f, args, rfl⟩ | ⟨t, ps, b, rfl⟩
  · rw [modify, hn]
  · rw [modify, hn]

/-- Witness for C32 on the call node of `foo(1)`, with the texts after the
traversal. -/
theorem modify_skips_call_and_macro_witness :
    (parsedMemoryOf "foo(1)").nodes.get? 3
        = some (.CallExpression { type := .LPAREN, literal := "(" } (some 2) [some 4])
    ∧ modify (5 + 1) oneToTwo (some 3) (parsedMemoryOf "foo(1)")
        = oneToTwo (some 3) (parsedMemoryOf "foo(1)")
    ∧ oneToTwo (some 3) (parsedMemoryOf "foo(1)") = .ok (some 3, parsedMemoryOf "foo(1)")
    ∧ modifiedText oneToTwo "foo(1)" = .ok "foo(1)\n"
    ∧ modifiedText oneToTwo "1 + foo(1)" = .ok "(2 + foo(1))\n"
    ∧ modifiedText oneToTwo "1 + [1, 3]" = .ok "(2 + [2, 3])\n"
    ∧ modifiedText oneToTwo "let m = macro(x) \x7b 1 \x7d; 1" = .ok "let m = macro(x)1;\n2\n" :=
  ⟨by decide!,
    modify_skips_call_and_macro 5 3 oneToTwo (parsedMemoryOf "foo(1)")
      (.CallExpression { type := .LPAREN, literal := "(" } (some 2) [some 4]) (by decide!)
      (Or.inl ⟨_, _, _, rfl⟩),
    by decide!, by decide!, by decide!, by decide!, by decide!⟩

/-! ## Binding of macro arguments (C33) -/

/-- Binding parameters to arguments that are all null pointers gives a frame
in which every bound name holds the null pointer. -/
theorem bindParameters_null_arguments (heap : NodeHeap) (args : List ObjPtr)
    (hargs : ∀ a ∈ args, a = none) :
    ∀ (parameters : List NodePtr) (i : Nat) (store0 store : List (String × ObjPtr)),
      (∀ name v, storeFind name store0 = some v → v = none) →
      bindParameters heap args parameters i store0 = .ok store →
      ∀ name v, storeFind name store = some v → v = none := by
  intro parameters
  induction parameters with
  | nil =>
    intro i store0 store h0 h
    simp only [bindParameters, Res.ok.injEq] at h
    subst h
    exact h0
  | cons param rest ih =>
    intro i store0 store h0 h
    simp only [bindParameters] at h
    cases hid : identifierValue heap param with
    | ok pname =>
      cases hv : vectorAt args i with
      | ok arg =>
        rw [hid, hv] at h
        dsimp only at h
        have harg : arg = none := by
          simp only [vectorAt] at hv
          cases hg : args.get? i with
          | none => rw [hg] at hv; exact absurd hv (by simp)
          | some x =>
            rw [hg] at hv
            simp only [Res.ok.injEq] at hv
            subst hv
            exact hargs x (List.get?_mem hg)
        refine ih (i + 1) _ store ?_ h
        intro name v hf
        by_cases hn : name = pname
        · subst hn
          rw [storeFind_storeAssign_self] at hf
          simp only [Option.some.injEq] at hf
          rw [← hf, harg]
        · rw [storeFind_storeAssign_other pname name arg hn] at hf
          exact h0 name v hf
      | crash => rw [hid, hv] at h; exact absurd h (by simp)
      | fuel => rw [hid, hv] at h; exact absurd h (by simp)
    | crash => rw [hid] at h; exact absurd h (by simp)
    | fuel => rw [hid] at h; exact absurd h (by simp)

/-- C33 (the code at the failing input): `quoteArgs` casts each argument
expression to the object class `Quote`, which no expression is, so every entry
of its result is the null pointer; `extendMacroEnv` therefore makes a frame,
extending the macro's captured environment, in which every parameter is bound
to the null pointer, not to a `Quote` of the argument; and evaluating a
parameter in that frame yields the `Error` `identifier not found`. -/
theorem macro_parameters_are_bound_to_nullptr (arguments parameters : List NodePtr)
    (macroEnv : Nat) (m : Memory) (store : List (String × ObjPtr))
    (h : bindParameters m.nodes (quoteArgs arguments) parameters 0 [] = .ok store) :
    quoteArgs arguments = List.replicate arguments.length none
    ∧ extendMacroEnv parameters macroEnv (quoteArgs arguments) m
        = .ok (m.envs.length,
            { m with envs := m.envs ++ [{ store := store, outer := some macroEnv }] })
    ∧ (∀ name v, storeFind name store = some v → v = none)
    ∧ (∀ name, name ∉ builtinNames → storeFind name store ≠ none →
        evalIdentifier name m.envs.length
            { m with envs := m.envs ++ [{ store := store, outer := some macroEnv }] }
          = newError ("identifier not found: " ++ name)
              { m with envs := m.envs ++ [{ store := store, outer := some macroEnv }] }) := by
  have hq : ∀ l : List NodePtr, quoteArgs l = List.replicate l.length none := by
    intro l
    simp only [quoteArgs]
    induction l with
    | nil => rfl
    | cons a rest ih => simp only [List.map_cons, List.length_cons, List.replicate_succ, ih]
  have hall : ∀ a ∈ quoteArgs arguments, a = none := by
    intro a ha
    rw [hq arguments] at ha
    exact (List.mem_replicate.mp ha).2
  have hnull := bindParameters_null_arguments m.nodes (quoteArgs arguments) hall parameters 0 []
    store (fun name v hf => by simp [storeFind] at hf) h
  refine ⟨hq arguments, ?_, hnull, ?_⟩
  · simp only [extendMacroEnv, h, Memory.makeEnv]
  · intro name hn hs
    simp only [builtinNames, List.mem_cons, List.mem_singleton, List.not_mem_nil, or_false,
      not_or] at hn
    obtain ⟨h1, h2, h3, h4, h5, h6⟩ := hn
    have hb : getBuiltin name = none := by
      simp only [getBuiltin, h1, h2, h3, h4, h5, h6, ↓reduceIte]
    cases hf : storeFind name store with
    | none => exact absurd hf hs
    | some v =>
      have hv := hnull name v hf
      subst hv
      have hg : Memory.envGet
          { m with envs := m.envs ++ [{ store := store, outer := some macroEnv }] }
          m.envs.length name = none := by
        simp only [Memory.envGet, Memory.envGetLoop, List.get?_eq_getElem?,
          List.getElem?_append_right (le_refl _), Nat.sub_self, List.getElem?_cons_zero, hf]
      simp only [evalIdentifier, hb, hg, ne_eq, not_true_eq_false, ↓reduceIte]

/-- Witness for C33 on `let m = macro(x) { x }; m(1)`: the macro pass leaves
the frame of the call with `x` bound to the null pointer, the body yields
`identifier not found: x`, so the call is not replaced and the program yields
`identifier not found: m`; the claim expects the literal 1. -/
theorem macro_parameters_are_bound_to_nullptr_witness :
    extendMacroEnv [some 4] 1 (quoteArgs [some 11])
        (parsedMemoryOf "let m = macro(x) \x7b x \x7d; m(1)")
      = .ok ((parsedMemoryOf "let m = macro(x) \x7b x \x7d; m(1)").envs.length,
          { parsedMemoryOf "let m = macro(x) \x7b x \x7d; m(1)" with
            envs := (parsedMemoryOf "let m = macro(x) \x7b x \x7d; m(1)").envs
              ++ [{ store := [("x", none)], outer := some 1 }] })
    ∧ (memoryOf "let m = macro(x) \x7b x \x7d; m(1)").envs
        = [{ store := [], outer := none }, { store := [("m", some 9)], outer := none },
           { store := [("x", none)], outer := some 1 }]
    ∧ (memoryOf "let m = macro(x) \x7b x \x7d; m(1)").objects.drop 9
        = [Object.Macro [some 4] (some 5) 1, Object.Error "identifier not found: x"]
    ∧ startOutput 60 "let m = macro(x) \x7b x \x7d; m(1)"
        = .ok (some "ERROR: identifier not found: m")
    ∧ startOutput 60 "let m = macro(x) \x7b quote(1) \x7d; m(5)" = .ok (some "1") :=
  ⟨(macro_parameters_are_bound_to_nullptr [some 11] [some 4] 1
      (parsedMemoryOf "let m = macro(x) \x7b x \x7d; m(1)") [("x", none)] (by decide!)).2.1,
    by decide!, by decide!, by decide!, by decide!⟩

/-! ## Evaluation and the AST (C36) -/

/-- C36 (the code at the failing input): evaluating
`let f = fn(x) { quote(unquote(x) + 1) }; f(1); f(2)` changes the tree of the
body of `f`: `modify` stores the converted result of `unquote(x)` into the left
slot of the infix node itself, so after the call `f(1)` the body reads
`quote(1 + 1)` and the call `f(2)` yields the `Quote` `QUOTE((1 + 1))`, not
`QUOTE((2 + 1))`. -/
theorem quote_mutates_the_quoted_tree :
    (memoryOf "let f = fn(x) \x7b quote(unquote(x) + 1) \x7d; f(1); f(2)").nodes.get? 12
      = some (.InfixExpression { type := .PLUS, literal := "+" } (some 10) "+" (some 13))
    ∧ (memoryOf "let f = fn(x) \x7b quote(unquote(x) + 1) \x7d; f(1); f(2)").nodes.get? 10
      = some (.CallExpression { type := .LPAREN, literal := "(" } (some 9) [some 11])
    ∧ (finalMemoryOf "let f = fn(x) \x7b quote(unquote(x) + 1) \x7d; f(1); f(2)").nodes.get? 12
      = some (.InfixExpression { type := .PLUS, literal := "+" } (some 22) "+" (some 13))
    ∧ (finalMemoryOf "let f = fn(x) \x7b quote(unquote(x) + 1) \x7d; f(1); f(2)").nodes.get? 22
      = some (.IntegerLiteral { type := .INT, literal := "1" } 1)
    ∧ startOutput 60 "let f = fn(x) \x7b quote(unquote(x) + 1) \x7d; f(1); f(2)"
      = .ok (some "QUOTE((1 + 1))")
    ∧ startOutput 60 "let f = fn(x) \x7b quote(unquote(x) + 1) \x7d; f(2)"
      = .ok (some "QUOTE((2 + 1))")
    ∧ startOutput 60 "let f = fn(x) \x7b quote(unquote(x) + 1) \x7d; f(1); f"
      = .ok (some "fn(x, ) \x7b\nquote((1 + 1))\n\x7d") := by
  refine ⟨by decide!, by decide!, by decide!, by decide!, by decide!, by decide!, by decide!⟩

/-! ## Nested returns (C37) -/

/-- C37 (the code at the failing input): a `return` whose expression itself
yields a `ReturnValue` wraps it a second time, and `evalProgram` and
`unwrapReturnValue` each remove one layer only. So when the first statement of a
program is `return e;` and `e` yields the `ReturnValue` at `a`, the program
yields the object at `a`, of type `RETURN_VALUE`; and `unwrapReturnValue` on the
doubly wrapped result of a function body yields it as well. -/
theorem nested_return_escapes (k prog env s a : Nat) (t : Token) (value : NodePtr)
    (post : List NodePtr) (m m1 : Memory) (v : ObjPtr)
    (hprog : m.nodes.get? prog = some (.Program (some s :: post)))
    (hs : m.nodes.get? s = some (.ReturnStatement t value))
    (hv : eval k value env m = .ok (some a, m1))
    (ha : m1.objects.get? a = some (.ReturnValue v)) :
    eval (k + 1) (some s) env m
        = .ok (some m1.objects.length,
            { m1 with objects := m1.objects ++ [.ReturnValue (some a)] })
    ∧ eval (k + 2) (some prog) env m
        = .ok (some a, { m1 with objects := m1.objects ++ [.ReturnValue (some a)] })
    ∧ unwrapReturnValue { m1 with objects := m1.objects ++ [.ReturnValue (some a)] }
        (some m1.objects.length) = some a
    ∧ (Memory.deref { m1 with objects := m1.objects ++ [.ReturnValue (some a)] } (some a)).bind
        (fun o => .ok o.type) = .ok "RETURN_VALUE" := by
  have halt : a < m1.objects.length := by
    by_contra hge
    rw [List.get?_eq_getElem?, List.getElem?_eq_none (by omega)] at ha
    exact absurd ha (by simp)
  have hne : isError m1 (some a) = false := by
    simp only [isError, ha, Object.type]
    simp
  have hold : (m1.objects ++ [Object.ReturnValue (some a)]).get? a
      = some (.ReturnValue v) := by
    rw [List.get?_eq_getElem?, List.getElem?_append_left halt, ← List.get?_eq_getElem?, ha]
  have hnew : (m1.objects ++ [Object.ReturnValue (some a)]).get? m1.objects.length
      = some (.ReturnValue (some a)) := by
    simp [List.get?_eq_getElem?]
  have hstmt : eval (k + 1) (some s) env m
      = .ok (some m1.objects.length,
          { m1 with objects := m1.objects ++ [.ReturnValue (some a)] }) := by
    rw [eval, hs]
    simp only [hv, Res.ok_bind, hne, Bool.false_eq_true, ↓reduceIte, Res.pure_eq, Memory.makeObj]
  refine ⟨hstmt, ?_, ?_, ?_⟩
  · rw [eval, hprog]
    simp only [evalProgram, evalProgramLoop, hstmt, hnew]
  · simp only [unwrapReturnValue, hnew]
  · simp only [Memory.deref, hold, Res.bind, Object.type]

/-- Witness for C37 on `return if (1 < 2) { return 1; };`: the program yields
the object at address 12, the `ReturnValue` of the inner `return`; and the call
`fn() { return if (1 < 2) { return 1; }; }() + 1` adds a `RETURN_VALUE` to an
`INTEGER`. -/
theorem nested_return_escapes_witness :
    eval (10 + 2) (some 0) 0 (memoryOf "return if (1 < 2) \x7b return 1; \x7d;")
        = .ok (some 12,
            { memoryOf "return if (1 < 2) \x7b return 1; \x7d;" with
              objects := ((memoryOf "return if (1 < 2) \x7b return 1; \x7d;").objects
                ++ [Object.Integer 1, Object.Integer 2, Object.Integer 1,
                    Object.ReturnValue (some 11)])
                ++ [Object.ReturnValue (some 12)] })
    ∧ (start 60 "return if (1 < 2) \x7b return 1; \x7d;").bind (fun run =>
        match run with
        | .evaluated r m => (m.deref r).bind (fun o => .ok o.type)
        | .parserErrors _ => .crash) = .ok "RETURN_VALUE"
    ∧ startOutput 60 "fn() \x7b return if (1 < 2) \x7b return 1; \x7d; \x7d() + 1"
        = .ok (some "ERROR: type mismatch: RETURN_VALUE + INTEGER")
    ∧ (start 60 "return 1;").bind (fun run =>
        match run with
        | .evaluated r m => (m.deref r).bind (fun o => .ok o.type)
        | .parserErrors _ => .crash) = .ok "INTEGER" :=
  ⟨(nested_return_escapes 10 0 0 1 12 { type := .RETURN, literal := "return" } (some 2) []
      (memoryOf "return if (1 < 2) \x7b return 1; \x7d;")
      { memoryOf "return if (1 < 2) \x7b return 1; \x7d;" with
        objects := (memoryOf "return if (1 < 2) \x7b return 1; \x7d;").objects
          ++ [Object.Integer 1, Object.Integer 2, Object.Integer 1,
              Object.ReturnValue (some 11)] }
      (some 11) (by decide!) (by decide!) (by decide!) (by decide!)).2.1,
    by decide!, by decide!, by decide!⟩

/-! ## The text of an array (C38) -/

/-- C38 (the code at the failing input): `Array::inspect` writes `, ` after
every element whose pointer differs from the pointer of the last element. For an
array that holds the same object twice, with the text `s`, the result is
`[` `s` `s` `]`, without the separator; for two different objects it is
`[s, t]`. -/
theorem array_inspect_drops_separator_before_equal_pointer (fuel : Nat) (m : Memory)
    (arr e : ObjPtr) (s : String)
    (harr : m.deref arr = .ok (.Array [e, e]))
    (he : inspect fuel m e = .ok s) :
    inspect (fuel + 1) m arr = .ok ("[" ++ (s ++ s) ++ "]")
    ∧ (s ++ s).length = s.length + s.length
    ∧ (s ++ ", " ++ s).length = s.length + s.length + 2 := by
  have hemp : ∀ x : String, x ++ "" = x := fun x => by
    apply String.ext
    simp [String.data_append]
  refine ⟨?_, ?_, ?_⟩
  · rw [inspect]
    simp only [harr, mapRes, he, Res.ok_bind, Res.pure_eq, List.getLastD_cons, List.getLastD_nil,
      List.zip_cons_cons, List.zip_nil_right, arraySeparators, ne_eq, not_true_eq_false,
      ↓reduceIte, hemp]
  · simp [String.length_append]
  · simp only [String.length_append]
    have : ", ".length = 2 := by decide
    omega

/-- Witness for C38 on the array of `let a = 1; [a, a]`, with the runs of the
programs of the claim. -/
theorem array_inspect_drops_separator_before_equal_pointer_witness :
    inspect (5 + 1) (finalMemoryOf "let a = 1; [a, a]") (some 10)
        = .ok ("[" ++ ("1" ++ "1") ++ "]")
    ∧ startOutput 60 "let a = 1; [a, a]" = .ok (some "[11]")
    ∧ startOutput 60 "[1 == 1, 1 == 2, 1 == 1]" = .ok (some "[truefalse, true]")
    ∧ startOutput 60 "[1, 2, 3]" = .ok (some "[1, 2, 3]")
    ∧ startOutput 60 "[1, 1]" = .ok (some "[1, 1]") :=
  ⟨(array_inspect_drops_separator_before_equal_pointer 5 (finalMemoryOf "let a = 1; [a, a]")
      (some 10) (some 9) "1" (by decide!) (by decide!)).1,
    by decide!, by decide!, by decide!, by decide!⟩

/-! ## Hash lookup (C34) -/

/-- The decimal form determines the number. -/
theorem toString_nat_injective (a b : Nat) (h : toString a = toString b) : a = b := by
  obtain ⟨d0, ds, hd, _, _, hv, _⟩ := toString_nat_spec a
  obtain ⟨e0, es, he, _, _, hw, _⟩ := toString_nat_spec b
  rw [h, he] at hd
  rw [← hv, ← hw, ← hd]

/-- The text of a hash key of an object determines the hash key. -/
theorem hashKey_inspect_injective (o1 o2 : Object) (k1 k2 : HashKey)
    (h1 : o1.hashKey = some k1) (h2 : o2.hashKey = some k2) :
    k1.inspect = k2.inspect ↔ k1 = k2 := by
  constructor
  · intro h
    have key : ∀ (t : String) (a b : Nat), t ++ "_" ++ toString a = t ++ "_" ++ toString b →
        a = b := by
      intro t a b hab
      apply toString_nat_injective
      have hd := congrArg String.data hab
      simp only [String.data_append, List.append_assoc, List.append_cancel_left_eq] at hd
      exact String.ext hd
    cases o1 <;> simp only [Object.hashKey, Option.some.injEq, reduceCtorEq] at h1 <;>
      cases o2 <;> simp only [Object.hashKey, Option.some.injEq, reduceCtorEq] at h2 <;>
      subst h1 <;> subst h2 <;> simp only [HashKey.inspect] at h <;>
      first
        | (simp only [HashKey.mk.injEq, true_and]
           exact key _ _ _ h)
        | (exfalso
           have hd := congrArg String.data h
           simp [String.data_append] at hd)
  · intro h
    rw [h]

/-- A found entry is an entry of the map. -/
theorem strMapFind_mem (s : String) (p : ObjPtr) :
    ∀ tbl : List (String × ObjPtr), strMapFind s tbl = some p → (s, p) ∈ tbl := by
  intro tbl
  induction tbl with
  | nil => intro h; exact absurd h (by simp [strMapFind])
  | cons kv rest ih =>
    intro h
    obtain ⟨k, v⟩ := kv
    simp only [strMapFind] at h
    split_ifs at h with hk
    · simp only [Option.some.injEq] at h
      rw [hk, h]
      exact List.mem_cons_self _ _
    · exact List.mem_cons_of_mem _ (ih h)

/-- In a map with ascending keys an entry is found under its key. -/
theorem strMapFind_of_mem (s : String) (p : ObjPtr) :
    ∀ tbl : List (String × ObjPtr), keysAscend tbl → (s, p) ∈ tbl →
      strMapFind s tbl = some p := by
  intro tbl
  induction tbl with
  | nil => intro _ h; exact absurd h (by simp)
  | cons kv rest ih =>
    intro hasc h
    obtain ⟨k, v⟩ := kv
    have hk : ∀ x ∈ rest, k < x.1 := (List.pairwise_cons.mp hasc).1
    simp only [strMapFind]
    rcases List.mem_cons.mp h with h1 | h1
    · simp only [Prod.mk.injEq] at h1
      rw [if_pos h1.1.symm, h1.2]
    · have hlt : k < s := hk (s, p) h1
      rw [if_neg (ne_of_lt hlt)]
      exact ih (List.pairwise_cons.mp hasc).2 h1

/-- Lookup in a table with ascending keys whose every entry is filed under the
string of the hash key of its pair's key, for an index with the hash key `h`:
`evalHashIndexExpression` returns, without touching the memory, the value of the
pair whose key has the hash key `h`, and the `NULL` singleton when no pair has
such a key. Two hash keys of objects have the same string exactly when they are
equal. -/
theorem hash_lookup_of_hashed_entries (m : Memory) (left index : ObjPtr)
    (tbl : List (String × ObjPtr)) (i : Object) (h : HashKey)
    (hl : m.deref left = .ok (.HashTable tbl)) (hi : m.deref index = .ok i)
    (hh : i.hashKey = some h) (hasc : keysAscend tbl) (hent : entriesHashed m tbl = true) :
    (∀ s p key value, (s, p) ∈ tbl → m.deref p = .ok (.HashPair key value) →
        hashKeyOf m key = some h → evalHashIndexExpression left index m = .ok (value, m))
    ∧ ((∀ s p key value, (s, p) ∈ tbl → m.deref p = .ok (.HashPair key value) →
          hashKeyOf m key ≠ some h) →
        evalHashIndexExpression left index m = .ok (NULL_OBJ, m))
    ∧ (∀ (o1 o2 : Object) (k1 k2 : HashKey), o1.hashKey = some k1 → o2.hashKey = some k2 →
        (k1.inspect = k2.inspect ↔ k1.objectType = k2.objectType ∧ k1.value = k2.value))
    ∧ (Object.Strin "ab").hashKey = (Object.Strin "ba").hashKey := by
  have hidx : ∃ a, index = some a := by
    cases index with
    | none => exact absurd hi (by simp [Memory.deref])
    | some a => exact ⟨a, rfl⟩
  obtain ⟨ia, rfl⟩ := hidx
  have hentry : ∀ s p, (s, p) ∈ tbl → ∃ key value kh, m.deref p = .ok (.HashPair key value)
      ∧ hashKeyOf m key = some kh ∧ kh.inspect = s := by
    intro s p hmem
    have he := (List.all_eq_true.mp hent) (s, p) hmem
    simp only [entryHashed] at he
    cases hd : m.deref p with
    | ok o =>
      rw [hd] at he
      cases o with
      | HashPair key value =>
        dsimp only at he
        cases hk : hashKeyOf m key with
        | none => rw [hk] at he; exact absurd he (by simp)
        | some kh =>
          rw [hk] at he
          exact ⟨key, value, kh, rfl, hk, of_decide_eq_true he⟩
      | _ => exact absurd he (by simp)
    | crash => rw [hd] at he; exact absurd he (by simp)
    | fuel => rw [hd] at he; exact absurd he (by simp)
  have hobj : ∀ (key : ObjPtr) (kh : HashKey), hashKeyOf m key = some kh →
      ∃ o : Object, o.hashKey = some kh := by
    intro key kh hk
    simp only [hashKeyOf] at hk
    cases hd : m.deref key with
    | ok o => rw [hd] at hk; exact ⟨o, hk⟩
    | crash => rw [hd] at hk; exact absurd hk (by simp)
    | fuel => rw [hd] at hk; exact absurd hk (by simp)
  refine ⟨?_, ?_, ?_, by decide⟩
  · intro s p key value hmem hp hk
    obtain ⟨key2, value2, kh, hp2, hk2, hs⟩ := hentry s p hmem
    rw [hp] at hp2
    simp only [Res.ok.injEq, Object.HashPair.injEq] at hp2
    obtain ⟨rfl, rfl⟩ := hp2
    rw [hk] at hk2
    simp only [Option.some.injEq] at hk2
    subst hk2
    have hfind := strMapFind_of_mem s p tbl hasc hmem
    rw [← hs] at hfind
    simp only [evalHashIndexExpression, hl, Res.ok_bind, hi, hh, hfind, hp, Res.pure_eq]
  · intro hno
    have hfind : strMapFind h.inspect tbl = none := by
      cases hf : strMapFind h.inspect tbl with
      | none => rfl
      | some p =>
        exfalso
        have hmem := strMapFind_mem h.inspect p tbl hf
        obtain ⟨key, value, kh, hp, hk, hs⟩ := hentry _ p hmem
        obtain ⟨o, ho⟩ := hobj key kh hk
        have heq := (hashKey_inspect_injective o i kh h ho hh).1 hs
        subst heq
        exact hno _ p key value hmem hp hk
    simp only [evalHashIndexExpression, hl, Res.ok_bind, hi, hh, hfind, Res.pure_eq]
  · intro o1 o2 k1 k2 h1 h2
    rw [hashKey_inspect_injective o1 o2 k1 k2 h1 h2]
    constructor
    · intro he; rw [he]; exact ⟨rfl, rfl⟩
    · intro he
      obtain ⟨t1, v1⟩ := k1
      obtain ⟨t2, v2⟩ := k2
      simp only at he
      rw [he.1, he.2]

/-! ## Termination of the parser (C39) -/

theorem tokensLeft_make (p : Parser) (n : Node) : tokensLeft (p.make n).2 = tokensLeft p := rfl

theorem tokensLeft_setNode (p : Parser) (a : Nat) (n : Node) :
    tokensLeft (p.setNode a n) = tokensLeft p := rfl

theorem tokensLeft_peekError (p : Parser) (t : TokenType) :
    tokensLeft (p.peekError t) = tokensLeft p := rfl

theorem tokensLeft_noPrefixParseFnError (p : Parser) (t : TokenType) :
    tokensLeft (p.noPrefixParseFnError t) = tokensLeft p := rfl

theorem tokensLeft_errors (p : Parser) (e : List String) :
    tokensLeft { p with errors := e } = tokensLeft p := rfl

theorem tokensLeft_pos_of_cur (p : Parser) (h : p.curToken.type ≠ .EOF) : 0 < tokensLeft p := by
  simp only [tokensLeft, h, ↓reduceIte]
  omega

theorem tokensLeft_pos_of_peek (p : Parser) (h : p.peekToken.type ≠ .EOF) : 1 < tokensLeft p := by
  simp only [tokensLeft, h, ↓reduceIte]
  omega

/-- A call of `nextToken` leaves no more to read than there was. -/
theorem tokensLeft_nextToken_le (p : Parser) : tokensLeft p.nextToken ≤ tokensLeft p := by
  obtain ⟨l, e, c, pk, n⟩ := p
  simp only [tokensLeft, Parser.nextToken]
  by_cases h0 : l.remaining = 0
  · have h1 := nextToken_of_remaining_zero l h0
    have h2 : (Lexer.nextToken l).1.type = .EOF := by rw [h1]
    have h3 : (Lexer.nextToken l).2.remaining = 0 := by rw [h1]; exact h0
    simp only [h0, h2, h3, ↓reduceIte]
    split_ifs <;> omega
  · have := remaining_nextToken_lt l h0
    split_ifs <;> omega

/-- A call of `nextToken` leaves less to read, unless nothing was left. -/
theorem tokensLeft_nextToken_lt (p : Parser) (h : 0 < tokensLeft p) :
    tokensLeft p.nextToken < tokensLeft p := by
  obtain ⟨l, e, c, pk, n⟩ := p
  simp only [tokensLeft, Parser.nextToken] at h ⊢
  by_cases h0 : l.remaining = 0
  · have h1 := nextToken_of_remaining_zero l h0
    have h2 : (Lexer.nextToken l).1.type = .EOF := by rw [h1]
    have h3 : (Lexer.nextToken l).2.remaining = 0 := by rw [h1]; exact h0
    simp only [h0, h2, h3, ↓reduceIte] at h ⊢
    split_ifs at h ⊢ <;> omega
  · have := remaining_nextToken_lt l h0
    split_ifs <;> omega

theorem nextToken_curToken (p : Parser) : p.nextToken.curToken = p.peekToken := rfl

theorem expectPeek_false (p : Parser) (t : TokenType) (h : (p.expectPeek t).1 = false) :
    tokensLeft (p.expectPeek t).2 = tokensLeft p := by
  simp only [Parser.expectPeek] at h ⊢
  by_cases hc : p.peekTokenIs t = true
  · rw [if_pos hc] at h
    simp at h
  · rw [if_neg hc]
    rfl

theorem expectPeek_true (p : Parser) (t : TokenType) (h : ¬ (p.expectPeek t).1 = false) :
    p.peekToken.type = t ∧ (p.expectPeek t).2 = p.nextToken := by
  simp only [Parser.expectPeek] at h ⊢
  split_ifs at h ⊢ with hc
  · exact ⟨by simpa [Parser.peekTokenIs] using hc, rfl⟩
  · simp at h

theorem expectPeek_le (p : Parser) (t : TokenType) :
    tokensLeft (p.expectPeek t).2 ≤ tokensLeft p := by
  simp only [Parser.expectPeek]
  split_ifs
  · exact tokensLeft_nextToken_le p
  · exact le_refl _

theorem Halts.ok {α : Type} {p p1 : Parser} (x : α) (h : tokensLeft p1 ≤ tokensLeft p) :
    Halts p (Res.ok (x, p1)) := by
  refine ⟨by simp, ?_⟩
  intro y q hq
  simp only [Res.ok.injEq, Prod.mk.injEq] at hq
  rw [← hq.2]
  exact h

theorem Halts.pure {α : Type} {p p1 : Parser} (x : α) (h : tokensLeft p1 ≤ tokensLeft p) :
    Halts p (pure (x, p1) : Res (α × Parser)) := Halts.ok x h

theorem Halts.crash {α : Type} (p : Parser) : Halts p (Res.crash : Res (α × Parser)) :=
  ⟨by simp, by intro y q hq; simp at hq⟩

theorem Halts.mono {α : Type} {p q : Parser} {r : Res (α × Parser)} (h : Halts q r)
    (hle : tokensLeft q ≤ tokensLeft p) : Halts p r :=
  ⟨h.1, fun x p1 hr => le_trans (h.2 x p1 hr) hle⟩

theorem Halts.bind {α β : Type} {p q : Parser} {x : Res (α × Parser)}
    {f : α × Parser → Res (β × Parser)} (hx : Halts q x)
    (hf : ∀ a p1, tokensLeft p1 ≤ tokensLeft q → Halts p (f (a, p1))) : Halts p (x >>= f) := by
  cases x with
  | ok v =>
    obtain ⟨a, p1⟩ := v
    exact hf a p1 (hx.2 a p1 rfl)
  | crash => exact Halts.crash p
  | fuel => exact absurd rfl hx.1

theorem make_nextToken (p : Parser) (n : Node) : (p.make n).2.nextToken = (p.nextToken.make n).2 :=
  rfl

theorem setNode_nextToken (p : Parser) (a : Nat) (n : Node) :
    (p.setNode a n).nextToken = p.nextToken.setNode a n := rfl

theorem make_peekTokenIs (p : Parser) (n : Node) (t : TokenType) :
    (p.make n).2.peekTokenIs t = p.peekTokenIs t := rfl

theorem setNode_peekTokenIs (p : Parser) (a : Nat) (n : Node) (t : TokenType) :
    (p.setNode a n).peekTokenIs t = p.peekTokenIs t := rfl

theorem make_curTokenIs (p : Parser) (n : Node) (t : TokenType) :
    (p.make n).2.curTokenIs t = p.curTokenIs t := rfl

theorem setNode_curTokenIs (p : Parser) (a : Nat) (n : Node) (t : TokenType) :
    (p.setNode a n).curTokenIs t = p.curTokenIs t := rfl

theorem make_curToken (p : Parser) (n : Node) : (p.make n).2.curToken = p.curToken := rfl

theorem setNode_curToken (p : Parser) (a : Nat) (n : Node) :
    (p.setNode a n).curToken = p.curToken := rfl

theorem make_peekToken (p : Parser) (n : Node) : (p.make n).2.peekToken = p.peekToken := rfl

theorem setNode_peekToken (p : Parser) (a : Nat) (n : Node) :
    (p.setNode a n).peekToken = p.peekToken := rfl

theorem make_peekPrecedence (p : Parser) (n : Node) :
    (p.make n).2.peekPrecedence = p.peekPrecedence := rfl

theorem setNode_peekPrecedence (p : Parser) (a : Nat) (n : Node) :
    (p.setNode a n).peekPrecedence = p.peekPrecedence := rfl

theorem make_expectPeek_fst (p : Parser) (n : Node) (t : TokenType) :
    ((p.make n).2.expectPeek t).1 = (p.expectPeek t).1 := by
  simp only [Parser.expectPeek, make_peekTokenIs]
  split_ifs <;> rfl

theorem make_expectPeek_snd (p : Parser) (n : Node) (t : TokenType) :
    ((p.make n).2.expectPeek t).2 = ((p.expectPeek t).2.make n).2 := by
  simp only [Parser.expectPeek, make_peekTokenIs]
  split_ifs <;> rfl

theorem setNode_expectPeek_fst (p : Parser) (a : Nat) (n : Node) (t : TokenType) :
    ((p.setNode a n).expectPeek t).1 = (p.expectPeek t).1 := by
  simp only [Parser.expectPeek, setNode_peekTokenIs]
  split_ifs <;> rfl

theorem setNode_expectPeek_snd (p : Parser) (a : Nat) (n : Node) (t : TokenType) :
    ((p.setNode a n).expectPeek t).2 = (p.expectPeek t).2.setNode a n := by
  simp only [Parser.expectPeek, setNode_peekTokenIs]
  split_ifs <;> rfl

theorem expectPeek_lt (p : Parser) (t : TokenType) (h : ¬ (p.expectPeek t).1 = false)
    (ht : t ≠ .EOF) :
    tokensLeft (p.expectPeek t).2 < tokensLeft p ∧ 0 < tokensLeft (p.expectPeek t).2 := by
  obtain ⟨h1, h2⟩ := expectPeek_true p t h
  rw [h2]
  have h3 : p.peekToken.type ≠ .EOF := by rw [h1]; exact ht
  refine ⟨tokensLeft_nextToken_lt p (by have := tokensLeft_pos_of_peek p h3; omega), ?_⟩
  exact tokensLeft_pos_of_cur _ h3

theorem peekTokenIs_pos (p : Parser) (t : TokenType) (h : p.peekTokenIs t = true) (ht : t ≠ .EOF) :
    1 < tokensLeft p := by
  apply tokensLeft_pos_of_peek
  simp only [Parser.peekTokenIs, decide_eq_true_eq] at h
  rw [h]
  exact ht

theorem nextToken_pos_of_peek (p : Parser) (t : TokenType) (h : p.peekTokenIs t = true)
    (ht : t ≠ .EOF) : 0 < tokensLeft p.nextToken := by
  apply tokensLeft_pos_of_cur
  simp only [Parser.peekTokenIs, decide_eq_true_eq] at h
  rw [nextToken_curToken, h]
  exact ht

theorem tokensLeft_semicolon (c : Bool) (p : Parser) :
    tokensLeft (if c = true then p.nextToken else p) ≤ tokensLeft p := by
  split_ifs
  · exact tokensLeft_nextToken_le p
  · exact le_refl _

theorem halts_parseStatement (fuel : Nat) (ih : ParserHalts fuel) (p : Parser)
    (h : 10 * tokensLeft p + 6 ≤ fuel + 1) : Halts p (parseStatement (fuel + 1) p) := by
  rw [parseStatement_unfold]
  split
  · exact ih.letStatement p (by omega)
  · next hc =>
    exact ih.returnStatement p (tokensLeft_pos_of_cur p (by rw [hc]; decide)) (by omega)
  · exact ih.expressionStatement p (by omega)

theorem halts_parseLetStatement (fuel : Nat) (ih : ParserHalts fuel) (p : Parser)
    (h : 10 * tokensLeft p + 5 ≤ fuel + 1) : Halts p (parseLetStatement (fuel + 1) p) := by
  rw [parseLetStatement_unfold]
  simp only [make_nextToken, setNode_nextToken, make_expectPeek_fst, make_expectPeek_snd,
    setNode_expectPeek_fst, setNode_expectPeek_snd]
  have a0 := expectPeek_le p .IDENT
  split_ifs with h1 h2
  · exact Halts.ok _ (by simp only [tokensLeft_make]; omega)
  · have b0 := expectPeek_le (p.expectPeek .IDENT).2 .ASSIGN
    exact Halts.ok _ (by simp only [tokensLeft_make, tokensLeft_setNode]; omega)
  · obtain ⟨a1, a2⟩ := expectPeek_lt _ _ h1 (by decide)
    obtain ⟨b1, b2⟩ := expectPeek_lt _ _ h2 (by decide)
    have c := tokensLeft_nextToken_le ((p.expectPeek .IDENT).2.expectPeek .ASSIGN).2
    refine Halts.bind (ih.expression _ _ ?_) ?_
    · simp only [tokensLeft_make, tokensLeft_setNode]
      omega
    · intro a p1 hle
      simp only [tokensLeft_make, tokensLeft_setNode] at hle
      refine Halts.pure _ (le_trans (tokensLeft_semicolon _ _) ?_)
      simp only [tokensLeft_setNode]
      omega

theorem halts_parseReturnStatement (fuel : Nat) (ih : ParserHalts fuel) (p : Parser)
    (hpos : 0 < tokensLeft p) (h : 10 * tokensLeft p + 5 ≤ fuel + 1) :
    Halts p (parseReturnStatement (fuel + 1) p) := by
  rw [parseReturnStatement_unfold]
  simp only [make_nextToken]
  have a0 := tokensLeft_nextToken_lt p hpos
  refine Halts.bind (ih.expression _ _ ?_) ?_
  · simp only [tokensLeft_make]
    omega
  · intro a p1 hle
    simp only [tokensLeft_make] at hle
    refine Halts.pure _ (le_trans (tokensLeft_semicolon _ _) ?_)
    simp only [tokensLeft_setNode]
    omega

theorem halts_parseExpressionStatement (fuel : Nat) (ih : ParserHalts fuel) (p : Parser)
    (h : 10 * tokensLeft p + 5 ≤ fuel + 1) : Halts p (parseExpressionStatement (fuel + 1) p) := by
  rw [parseExpressionStatement_unfold]
  refine Halts.bind (ih.expression _ _ ?_) ?_
  · simp only [tokensLeft_make]
    omega
  · intro a p1 hle
    simp only [tokensLeft_make] at hle
    refine Halts.pure _ (le_trans (tokensLeft_semicolon _ _) ?_)
    simp only [tokensLeft_setNode]
    omega

theorem halts_parseIntegerLiteral (p : Parser) : Halts p (parseIntegerLiteral p) := by
  simp only [parseIntegerLiteral]
  split
  · refine Halts.ok _ ?_
    simp only [tokensLeft_setNode]
    split_ifs
    · exact le_refl _
    · exact le_refl _
  · exact Halts.crash p
  · next hs =>
    exfalso
    simp only [stoi] at hs
    split_ifs at hs

theorem prefixParseFns_pos (p : Parser) (pf : PrefixParseFn)
    (h : prefixParseFns p.curToken.type = some pf) : 0 < tokensLeft p := by
  apply tokensLeft_pos_of_cur
  intro hc
  rw [hc] at h
  have h0 : prefixParseFns .EOF = none := rfl
  rw [h0] at h
  exact Option.noConfusion h

theorem halts_parseExpression (fuel : Nat) (ih : ParserHalts fuel) (q : prec) (p : Parser)
    (h : 10 * tokensLeft p + 4 ≤ fuel + 1) : Halts p (parseExpression (fuel + 1) q p) := by
  rw [parseExpression_unfold]
  split
  · exact Halts.ok _ (le_refl _)
  · next pf hpf =>
    have hpos := prefixParseFns_pos p pf hpf
    have hpre : Halts p (match pf with
        | .parseIdentifier => parseIdentifier p
        | .parseIntegerLiteral => parseIntegerLiteral p
        | .parseStringLiteral => parseStringLiteral p
        | .parsePrefixExpression => parsePrefixExpression fuel p
        | .parseBoolean => parseBoolean p
        | .parseGroupedExpression => parseGroupedExpression fuel p
        | .parseArrayLiteral => parseArrayLiteral fuel p
        | .parseIfExpression => parseIfExpression fuel p
        | .parseFunctionLiteral => parseFunctionLiteral fuel p
        | .parseHashLiteral => parseHashLiteral fuel p
        | .parseMacroLiteral => parseMacroLiteral fuel p) := by
      cases pf
      · exact Halts.ok _ (le_refl _)
      · exact halts_parseIntegerLiteral p
      · exact Halts.ok _ (le_refl _)
      · exact ih.prefixExpression p hpos (by omega)
      · exact Halts.ok _ (le_refl _)
      · exact ih.groupedExpression p hpos (by omega)
      · exact ih.arrayLiteral p hpos (by omega)
      · exact ih.ifExpression p (by omega)
      · exact ih.functionLiteral p (by omega)
      · exact ih.hashLiteral p hpos (by omega)
      · exact ih.macroLiteral p (by omega)
    refine Halts.bind hpre ?_
    intro a p1 hle
    exact (ih.expressionLoop q a p1 (by omega)).mono hle

theorem infixParseFns_pos (p : Parser) (f : InfixParseFn)
    (h : infixParseFns p.peekToken.type = some f) :
    0 < tokensLeft p.nextToken ∧ tokensLeft p.nextToken < tokensLeft p := by
  have hne : p.peekToken.type ≠ .EOF := by
    intro hc
    rw [hc] at h
    have h0 : infixParseFns .EOF = none := rfl
    rw [h0] at h
    exact Option.noConfusion h
  refine ⟨tokensLeft_pos_of_cur _ hne, tokensLeft_nextToken_lt p ?_⟩
  have := tokensLeft_pos_of_peek p hne
  omega

theorem halts_parseExpressionLoop (fuel : Nat) (ih : ParserHalts fuel) (q : prec) (l : NodePtr)
    (p : Parser) (h : 10 * tokensLeft p + 3 ≤ fuel + 1) :
    Halts p (parseExpressionLoop (fuel + 1) q l p) := by
  rw [parseExpressionLoop_unfold]
  split_ifs with hc
  · split
    · exact Halts.ok _ (le_refl _)
    · next f hf =>
      obtain ⟨a1, a2⟩ := infixParseFns_pos p f hf
      have hin : Halts p.nextToken (match f with
          | .parseInfixExpression => parseInfixExpression fuel l p.nextToken
          | .parseCallExpression => parseCallExpression fuel l p.nextToken
          | .parseIndexExpression => parseIndexExpression fuel l p.nextToken) := by
        cases f
        · exact ih.infixExpression l _ a1 (by omega)
        · exact ih.callExpression l _ a1 (by omega)
        · exact ih.indexExpression l _ a1 (by omega)
      refine Halts.bind hin ?_
      intro a p1 hle
      exact (ih.expressionLoop q a p1 (by omega)).mono (by omega)
  · exact Halts.ok _ (le_refl _)

theorem halts_parseArrayLiteral (fuel : Nat) (ih : ParserHalts fuel) (p : Parser)
    (hpos : 0 < tokensLeft p) (h : 10 * tokensLeft p + 3 ≤ fuel + 1) :
    Halts p (parseArrayLiteral (fuel + 1) p) := by
  rw [parseArrayLiteral_unfold]
  refine Halts.bind (ih.expressionList _ _ ?_ ?_) ?_
  · simp only [tokensLeft_make]
    exact hpos
  · simp only [tokensLeft_make]
    omega
  · intro a p1 hle
    simp only [tokensLeft_make] at hle
    exact Halts.pure _ (by simp only [tokensLeft_setNode]; omega)

theorem halts_parseCallExpression (fuel : Nat) (ih : ParserHalts fuel) (f : NodePtr) (p : Parser)
    (hpos : 0 < tokensLeft p) (h : 10 * tokensLeft p + 3 ≤ fuel + 1) :
    Halts p (parseCallExpression (fuel + 1) f p) := by
  rw [parseCallExpression_unfold]
  refine Halts.bind (ih.expressionList _ _ ?_ ?_) ?_
  · simp only [tokensLeft_make]
    exact hpos
  · simp only [tokensLeft_make]
    omega
  · intro a p1 hle
    simp only [tokensLeft_make] at hle
    exact Halts.pure _ (by simp only [tokensLeft_setNode]; omega)

theorem halts_parseExpressionList (fuel : Nat) (ih : ParserHalts fuel) (t : TokenType)
    (p : Parser) (hpos : 0 < tokensLeft p) (h : 10 * tokensLeft p + 2 ≤ fuel + 1) :
    Halts p (parseExpressionList (fuel + 1) t p) := by
  rw [parseExpressionList_unfold]
  have a0 := tokensLeft_nextToken_lt p hpos
  split_ifs with hc
  · exact Halts.ok _ (by omega)
  · refine Halts.bind (ih.expression _ _ (by omega)) ?_
    intro a p1 hle
    refine Halts.bind (ih.expressionListLoop _ _ (by omega)) ?_
    intro b p2 hle2
    have b0 := expectPeek_le p2 t
    dsimp only
    split_ifs
    · exact Halts.pure _ (by omega)
    · exact Halts.pure _ (by omega)

theorem halts_parseExpressionListLoop (fuel : Nat) (ih : ParserHalts fuel) (l : List NodePtr)
    (p : Parser) (h : 10 * tokensLeft p + 1 ≤ fuel + 1) :
    Halts p (parseExpressionListLoop (fuel + 1) l p) := by
  rw [parseExpressionListLoop_unfold]
  split_ifs with hc
  · have a0 := peekTokenIs_pos p _ hc (by decide)
    have a1 := tokensLeft_nextToken_lt p (by omega)
    have a2 := tokensLeft_nextToken_le p.nextToken
    refine Halts.bind (ih.expression _ _ (by omega)) ?_
    intro a p1 hle
    exact (ih.expressionListLoop _ p1 (by omega)).mono (by omega)
  · exact Halts.ok _ (le_refl _)

theorem halts_parseIndexExpression (fuel : Nat) (ih : ParserHalts fuel) (l : NodePtr)
    (p : Parser) (hpos : 0 < tokensLeft p) (h : 10 * tokensLeft p + 1 ≤ fuel + 1) :
    Halts p (parseIndexExpression (fuel + 1) l p) := by
  rw [parseIndexExpression_unfold]
  simp only [make_nextToken, setNode_expectPeek_fst, setNode_expectPeek_snd]
  have a0 := tokensLeft_nextToken_lt p hpos
  refine Halts.bind (ih.expression _ _ ?_) ?_
  · simp only [tokensLeft_make]
    omega
  · intro a p1 hle
    simp only [tokensLeft_make] at hle
    have b0 := expectPeek_le p1 .RBRACKET
    dsimp only
    split_ifs
    · exact Halts.pure _ (by simp only [tokensLeft_setNode]; omega)
    · exact Halts.pure _ (by simp only [tokensLeft_setNode]; omega)

theorem halts_parseInfixExpression (fuel : Nat) (ih : ParserHalts fuel) (l : NodePtr)
    (p : Parser) (hpos : 0 < tokensLeft p) (h : 10 * tokensLeft p + 1 ≤ fuel + 1) :
    Halts p (parseInfixExpression (fuel + 1) l p) := by
  rw [parseInfixExpression_unfold]
  simp only [make_nextToken]
  have h1 := tokensLeft_nextToken_lt p hpos
  refine Halts.bind (ih.expression _ _ ?_) ?_
  · simp only [tokensLeft_make]
    omega
  · intro a p1 hle
    simp only [tokensLeft_make] at hle
    exact Halts.pure _ (by simp only [tokensLeft_setNode]; omega)

theorem halts_parsePrefixExpression (fuel : Nat) (ih : ParserHalts fuel) (p : Parser)
    (hpos : 0 < tokensLeft p) (h : 10 * tokensLeft p + 1 ≤ fuel + 1) :
    Halts p (parsePrefixExpression (fuel + 1) p) := by
  rw [parsePrefixExpression_unfold]
  simp only [make_nextToken]
  have h1 := tokensLeft_nextToken_lt p hpos
  refine Halts.bind (ih.expression _ _ ?_) ?_
  · simp only [tokensLeft_make]
    omega
  · intro a p1 hle
    simp only [tokensLeft_make] at hle
    exact Halts.pure _ (by simp only [tokensLeft_setNode]; omega)

theorem halts_parseGroupedExpression (fuel : Nat) (ih : ParserHalts fuel) (p : Parser)
    (hpos : 0 < tokensLeft p) (h : 10 * tokensLeft p + 1 ≤ fuel + 1) :
    Halts p (parseGroupedExpression (fuel + 1) p) := by
  rw [parseGroupedExpression_unfold]
  have h1 := tokensLeft_nextToken_lt p hpos
  refine Halts.bind (ih.expression _ _ (by omega)) ?_
  intro a p1 hle
  have b0 := expectPeek_le p1 .RPAREN
  dsimp only
  split_ifs
  · exact Halts.pure _ (by omega)
  · exact Halts.pure _ (by omega)

theorem halts_parseFunctionParametersLoop :
    ∀ (fuel : Nat) (ids : List NodePtr) (p : Parser), tokensLeft p + 1 ≤ fuel →
      Halts p (parseFunctionParametersLoop fuel ids p) := by
  intro fuel
  induction fuel with
  | zero => intro ids p h; omega
  | succ fuel ih =>
    intro ids p h
    rw [parseFunctionParametersLoop_unfold]
    split_ifs with hc
    · have a0 := peekTokenIs_pos p _ hc (by decide)
      have a1 := tokensLeft_nextToken_lt p (by omega)
      have a2 := tokensLeft_nextToken_le p.nextToken
      exact (ih _ _ (by simp only [tokensLeft_make]; omega)).mono
        (by simp only [tokensLeft_make]; omega)
    · exact Halts.ok _ (le_refl _)

theorem halts_parseFunctionParameters (fuel : Nat) (p : Parser) (h : tokensLeft p + 1 ≤ fuel) :
    Halts p (parseFunctionParameters fuel p) := by
  simp only [parseFunctionParameters]
  have a0 := tokensLeft_nextToken_le p
  split_ifs with hc
  · exact Halts.ok _ a0
  · have hl := halts_parseFunctionParametersLoop fuel
      [some (p.nextToken.make (.Identifier p.nextToken.curToken p.nextToken.curToken.literal)).1]
      (p.nextToken.make (.Identifier p.nextToken.curToken p.nextToken.curToken.literal)).2
      (by simp only [tokensLeft_make]; omega)
    split
    · next ids p2 hr =>
      have b0 := hl.2 ids p2 hr
      simp only [tokensLeft_make] at b0
      have b1 := expectPeek_le p2 .RPAREN
      split_ifs
      · exact Halts.ok _ (by omega)
      · exact Halts.ok _ (by omega)
    · exact Halts.crash p
    · next hr => exact absurd hr hl.1

theorem halts_parseHashLiteral (fuel : Nat) (ih : ParserHalts fuel) (p : Parser)
    (hpos : 0 < tokensLeft p) (h : 10 * tokensLeft p + 3 ≤ fuel + 1) :
    Halts p (parseHashLiteral (fuel + 1) p) := by
  rw [parseHashLiteral_unfold]
  exact (ih.hashLiteralLoop _ _ _ _ (by simp only [tokensLeft_make]; exact hpos)
    (by simp only [tokensLeft_make]; omega)).mono (by simp only [tokensLeft_make]; exact le_refl _)

theorem halts_parseHashLiteralLoop (fuel : Nat) (ih : ParserHalts fuel) (tok : Token) (hash : Nat)
    (ps : List (NodePtr × NodePtr)) (p : Parser)
    (hpos : 0 < tokensLeft p) (h : 10 * tokensLeft p + 2 ≤ fuel + 1) :
    Halts p (parseHashLiteralLoop (fuel + 1) tok hash ps p) := by
  rw [parseHashLiteralLoop_unfold]
  have a0 := tokensLeft_nextToken_lt p hpos
  split_ifs with hc
  · refine Halts.bind (ih.expression _ _ (by omega)) ?_
    intro key p1 hle
    dsimp only
    have b0 := expectPeek_le p1 .COLON
    split_ifs with h1
    · exact Halts.pure _ (by omega)
    · obtain ⟨b1, b2⟩ := expectPeek_lt _ _ h1 (by decide)
      have b3 := tokensLeft_nextToken_le (p1.expectPeek .COLON).2
      refine Halts.bind (ih.expression _ _ (by omega)) ?_
      intro value p2 hle2
      dsimp only
      simp only [setNode_peekTokenIs, setNode_expectPeek_fst, setNode_expectPeek_snd]
      split_ifs with h2 h3
      · have c0 := expectPeek_le p2 .COMMA
        exact Halts.pure _ (by simp only [tokensLeft_setNode]; omega)
      · obtain ⟨c1, c2⟩ := expectPeek_lt _ _ h3 (by decide)
        exact (ih.hashLiteralLoop _ _ _ _ (by simp only [tokensLeft_setNode]; exact c2)
          (by simp only [tokensLeft_setNode]; omega)).mono
          (by simp only [tokensLeft_setNode]; omega)
      · have c1 := peekTokenIs_pos p2 .RBRACE (by simpa using h2) (by decide)
        exact (ih.hashLiteralLoop _ _ _ _ (by simp only [tokensLeft_setNode]; omega)
          (by simp only [tokensLeft_setNode]; omega)).mono
          (by simp only [tokensLeft_setNode]; omega)
  · have b0 := expectPeek_le p .RBRACE
    dsimp only
    split_ifs
    · exact Halts.ok _ b0
    · exact Halts.ok _ b0

theorem halts_parseBlockStatement (fuel : Nat) (ih : ParserHalts fuel) (p : Parser)
    (hpos : 0 < tokensLeft p) (h : 10 * tokensLeft p + 1 ≤ fuel + 1) :
    Halts p (parseBlockStatement (fuel + 1) p) := by
  rw [parseBlockStatement_unfold]
  simp only [make_nextToken]
  have a0 := tokensLeft_nextToken_lt p hpos
  exact (ih.blockStatementLoop _ _ _ _ (by simp only [tokensLeft_make]; omega)).mono
    (by simp only [tokensLeft_make]; omega)

theorem halts_parseBlockStatementLoop (fuel : Nat) (ih : ParserHalts fuel) (tok : Token)
    (block : Nat) (ss : List NodePtr) (p : Parser) (h : 10 * tokensLeft p + 7 ≤ fuel + 1) :
    Halts p (parseBlockStatementLoop (fuel + 1) tok block ss p) := by
  rw [parseBlockStatementLoop_unfold]
  split_ifs with hc
  · have hpos : 0 < tokensLeft p := by
      apply tokensLeft_pos_of_cur
      simpa [Parser.curTokenIs] using hc.2
    refine Halts.bind (ih.statement p (by omega)) ?_
    intro stmt p1 hle
    dsimp only
    simp only [setNode_nextToken]
    have b0 := tokensLeft_nextToken_le p1
    have b1 : tokensLeft p1.nextToken < tokensLeft p := by
      by_cases hz : 0 < tokensLeft p1
      · have := tokensLeft_nextToken_lt p1 hz
        omega
      · omega
    exact (ih.blockStatementLoop _ _ _ _ (by simp only [tokensLeft_setNode]; omega)).mono
      (by simp only [tokensLeft_setNode]; omega)
  · exact Halts.ok _ (le_refl _)

theorem halts_parseFunctionLiteral (fuel : Nat) (ih : ParserHalts fuel) (p : Parser)
    (h : 10 * tokensLeft p + 1 ≤ fuel + 1) : Halts p (parseFunctionLiteral (fuel + 1) p) := by
  rw [parseFunctionLiteral_unfold]
  simp only [make_expectPeek_fst, make_expectPeek_snd, setNode_expectPeek_fst,
    setNode_expectPeek_snd]
  have a0 := expectPeek_le p .LPAREN
  split_ifs with h1
  · exact Halts.ok _ (by simp only [tokensLeft_make]; omega)
  · obtain ⟨a1, a2⟩ := expectPeek_lt _ _ h1 (by decide)
    refine Halts.bind (halts_parseFunctionParameters fuel _ ?_) ?_
    · simp only [tokensLeft_make]
      omega
    · intro ps p1 hle
      simp only [tokensLeft_make] at hle
      dsimp only
      have b0 := expectPeek_le p1 .LBRACE
      split_ifs with h2
      · exact Halts.pure _ (by simp only [tokensLeft_setNode]; omega)
      · obtain ⟨b1, b2⟩ := expectPeek_lt _ _ h2 (by decide)
        refine Halts.bind (ih.blockStatement _ ?_ ?_) ?_
        · simp only [tokensLeft_setNode]
          exact b2
        · simp only [tokensLeft_setNode]
          omega
        · intro body p3 hle3
          simp only [tokensLeft_setNode] at hle3
          exact Halts.pure _ (by simp only [tokensLeft_setNode]; omega)

theorem halts_parseMacroLiteral (fuel : Nat) (ih : ParserHalts fuel) (p : Parser)
    (h : 10 * tokensLeft p + 1 ≤ fuel + 1) : Halts p (parseMacroLiteral (fuel + 1) p) := by
  rw [parseMacroLiteral_unfold]
  simp only [make_expectPeek_fst, make_expectPeek_snd, setNode_expectPeek_fst,
    setNode_expectPeek_snd]
  have a0 := expectPeek_le p .LPAREN
  split_ifs with h1
  · exact Halts.ok _ (by simp only [tokensLeft_make]; omega)
  · obtain ⟨a1, a2⟩ := expectPeek_lt _ _ h1 (by decide)
    refine Halts.bind (halts_parseFunctionParameters fuel _ ?_) ?_
    · simp only [tokensLeft_make]
      omega
    · intro ps p1 hle
      simp only [tokensLeft_make] at hle
      dsimp only
      have b0 := expectPeek_le p1 .LBRACE
      split_ifs with h2
      · exact Halts.pure _ (by simp only [tokensLeft_setNode]; omega)
      · obtain ⟨b1, b2⟩ := expectPeek_lt _ _ h2 (by decide)
        refine Halts.bind (ih.blockStatement _ ?_ ?_) ?_
        · simp only [tokensLeft_setNode]
          exact b2
        · simp only [tokensLeft_setNode]
          omega
        · intro body p3 hle3
          simp only [tokensLeft_setNode] at hle3
          exact Halts.pure _ (by simp only [tokensLeft_setNode]; omega)

theorem halts_parseIfExpression (fuel : Nat) (ih : ParserHalts fuel) (p : Parser)
    (h : 10 * tokensLeft p + 1 ≤ fuel + 1) : Halts p (parseIfExpression (fuel + 1) p) := by
  rw [parseIfExpression_unfold]
  simp only [make_expectPeek_fst, make_expectPeek_snd, setNode_expectPeek_fst,
    setNode_expectPeek_snd, make_nextToken, setNode_nextToken, setNode_peekTokenIs]
  have a0 := expectPeek_le p .LPAREN
  split_ifs with h1
  · exact Halts.ok _ (by simp only [tokensLeft_make]; omega)
  · obtain ⟨a1, a2⟩ := expectPeek_lt _ _ h1 (by decide)
    have a3 := tokensLeft_nextToken_le (p.expectPeek .LPAREN).2
    refine Halts.bind (ih.expression _ _ ?_) ?_
    · simp only [tokensLeft_make]
      omega
    · intro cond p1 hle
      simp only [tokensLeft_make] at hle
      dsimp only
      have b0 := expectPeek_le p1 .RPAREN
      have c0 := expectPeek_le (p1.expectPeek .RPAREN).2 .LBRACE
      split_ifs with h2 h3
      · exact Halts.pure _ (by simp only [tokensLeft_setNode]; omega)
      · exact Halts.pure _ (by simp only [tokensLeft_setNode]; omega)
      · obtain ⟨c1, c2⟩ := expectPeek_lt _ _ h3 (by decide)
        refine Halts.bind (ih.blockStatement _ ?_ ?_) ?_
        · simp only [tokensLeft_setNode]
          exact c2
        · simp only [tokensLeft_setNode]
          omega
        · intro cons p3 hle3
          simp only [tokensLeft_setNode] at hle3
          dsimp only
          have d0 := tokensLeft_nextToken_le p3
          have e0 := expectPeek_le p3.nextToken .LBRACE
          split_ifs with h4 h5
          · exact Halts.pure _ (by simp only [tokensLeft_setNode]; omega)
          · obtain ⟨e1, e2⟩ := expectPeek_lt _ _ h5 (by decide)
            refine Halts.bind (ih.blockStatement _ ?_ ?_) ?_
            · simp only [tokensLeft_setNode]
              exact e2
            · simp only [tokensLeft_setNode]
              omega
            · intro alt p5 hle5
              simp only [tokensLeft_setNode] at hle5
              exact Halts.pure _ (by simp only [tokensLeft_setNode]; omega)
          · exact Halts.pure _ (by simp only [tokensLeft_setNode]; omega)

/-- With any amount of fuel, every member of the parser halts from every state
that leaves little enough to read. -/
theorem parserHalts : ∀ fuel : Nat, ParserHalts fuel := by
  intro fuel
  induction fuel with
  | zero =>
    constructor <;> intros <;> omega
  | succ fuel ih =>
    exact {
      statement := halts_parseStatement fuel ih
      letStatement := halts_parseLetStatement fuel ih
      returnStatement := halts_parseReturnStatement fuel ih
      expressionStatement := halts_parseExpressionStatement fuel ih
      expression := halts_parseExpression fuel ih
      expressionLoop := halts_parseExpressionLoop fuel ih
      arrayLiteral := halts_parseArrayLiteral fuel ih
      expressionList := halts_parseExpressionList fuel ih
      expressionListLoop := halts_parseExpressionListLoop fuel ih
      indexExpression := halts_parseIndexExpression fuel ih
      hashLiteral := halts_parseHashLiteral fuel ih
      hashLiteralLoop := halts_parseHashLiteralLoop fuel ih
      macroLiteral := halts_parseMacroLiteral fuel ih
      prefixExpression := halts_parsePrefixExpression fuel ih
      infixExpression := halts_parseInfixExpression fuel ih
      groupedExpression := halts_parseGroupedExpression fuel ih
      ifExpression := halts_parseIfExpression fuel ih
      blockStatement := halts_parseBlockStatement fuel ih
      blockStatementLoop := halts_parseBlockStatementLoop fuel ih
      functionLiteral := halts_parseFunctionLiteral fuel ih
      callExpression := halts_parseCallExpression fuel ih }

/-- With enough fuel the statement loop of `parseProgram` halts, and when it
returns the current token is `EOF`. -/
theorem halts_parseProgramLoop :
    ∀ (fuel program : Nat) (ss : List NodePtr) (p : Parser), 10 * tokensLeft p + 7 ≤ fuel →
      parseProgramLoop fuel program ss p = .crash
      ∨ ∃ prog p1, parseProgramLoop fuel program ss p = .ok (prog, p1)
          ∧ p1.curToken.type = .EOF := by
  intro fuel
  induction fuel with
  | zero => intro program ss p h; omega
  | succ fuel ih =>
    intro program ss p h
    rw [parseProgramLoop_unfold]
    split_ifs with hc
    · have hpos := tokensLeft_pos_of_cur p hc
      have hs := (parserHalts fuel).statement p (by omega)
      split
      · next stmt p1 hr =>
        have hle := hs.2 stmt p1 hr
        have b0 := tokensLeft_nextToken_le p1
        have b1 : tokensLeft p1.nextToken < tokensLeft p := by
          by_cases hz : 0 < tokensLeft p1
          · have := tokensLeft_nextToken_lt p1 hz
            omega
          · omega
        exact ih _ _ _ (by simp only [setNode_nextToken, tokensLeft_setNode]; omega)
      · exact Or.inl rfl
      · next hr => exact absurd hr hs.1
    · exact Or.inr ⟨program, p, rfl, by simpa using hc⟩

theorem remaining_new (input : List Char) : (Lexer.new input).remaining ≤ input.length := by
  cases input with
  | nil => decide
  | cons c cs => exact remaining_le c cs

theorem tokensLeft_new (l : Lexer) : tokensLeft (Parser.new l) ≤ 3 * l.remaining + 3 := by
  have h0 : tokensLeft (Parser.mk l [] ⟨.ILLEGAL, ""⟩ ⟨.ILLEGAL, ""⟩ []) = 3 * l.remaining + 3 :=
    rfl
  have h1 := tokensLeft_nextToken_le (Parser.mk l [] ⟨.ILLEGAL, ""⟩ ⟨.ILLEGAL, ""⟩ [])
  have h2 := tokensLeft_nextToken_le
    (Parser.nextToken (Parser.mk l [] ⟨.ILLEGAL, ""⟩ ⟨.ILLEGAL, ""⟩ []))
  have h3 : Parser.new l
      = Parser.nextToken (Parser.nextToken (Parser.mk l [] ⟨.ILLEGAL, ""⟩ ⟨.ILLEGAL, ""⟩ [])) :=
    rfl
  rw [h3]
  omega

/-- With fuel above thirty units for every byte of the input, `parseSource`
halts: it returns with the current token `EOF`, or `std::stoi` has thrown. -/
theorem parseSource_halts (input : String) (fuel : Nat) (h : 30 * input.length + 37 ≤ fuel) :
    parseSource fuel input = .crash
    ∨ ∃ prog p, parseSource fuel input = .ok (prog, p) ∧ p.curToken.type = .EOF := by
  simp only [parseSource, parseProgram]
  apply halts_parseProgramLoop
  simp only [tokensLeft_make]
  have h1 := tokensLeft_new (Lexer.new input.data)
  have h2 := remaining_new input.data
  have h3 : input.data.length = input.length := rfl
  omega

/-- The literal `2147483648` makes `std::stoi` throw whatever the fuel. -/
theorem parseSource_stoi_throws (n : Nat) : parseSource (n + 4) "2147483648" = .crash := by
  have hp : Parser.new (Lexer.new "2147483648".data)
      = Parser.mk ⟨NUL, []⟩ [] ⟨.INT, "2147483648"⟩ ⟨.EOF, ""⟩ [] := by decide!
  have hs : stoi "2147483648" = .crash := by decide!
  have hpre : prefixParseFns .INT = some .parseIntegerLiteral := rfl
  simp only [parseSource, parseProgram, hp, Parser.make_mk, parseProgramLoop_unfold,
    parseStatement_unfold, parseExpressionStatement_unfold, parseExpression_unfold,
    parseIntegerLiteral, hpre, hs]
  rfl

/-- C39 (the code at the failing input): on every input the loops of the parser
come to an end. With thirty units of fuel for every byte of the source (and 37
more) `parseSource` does not run out of fuel: it returns with the current
token `EOF`, unless `std::stoi` has thrown. Every iteration of the statement
loops of `parseProgram` and `parseBlockStatement` (which run on a current token
other than `EOF` and end with `nextToken`) and every iteration of the loop of
`parseHashLiteral` that gets past its colon leave strictly less to read. But
the call does not return on every input: on the source `2147483648` the
exception `std::out_of_range` of `std::stoi` leaves `parseProgram`, and no
amount of fuel yields a result. -/
theorem parser_halts_unless_stoi_throws (input : String) (fuel : Nat)
    (h : 30 * input.length + 37 ≤ fuel) :
    (parseSource fuel input = .crash
      ∨ ∃ prog p, parseSource fuel input = .ok (prog, p) ∧ p.curToken.type = .EOF)
    ∧ (∀ (p : Parser) (stmt : NodePtr) (p1 : Parser) (a : Nat) (n : Node),
        10 * tokensLeft p + 6 ≤ fuel → p.curToken.type ≠ .EOF →
        parseStatement fuel p = .ok (stmt, p1) →
        tokensLeft (p1.setNode a n).nextToken < tokensLeft p)
    ∧ (∀ (p : Parser) (key : NodePtr) (p1 : Parser),
        10 * tokensLeft p + 4 ≤ fuel →
        parseExpression fuel .LOWEST p.nextToken = .ok (key, p1) →
        (p1.expectPeek .COLON).1 = true →
        tokensLeft (p1.expectPeek .COLON).2 < tokensLeft p)
    ∧ parseSource fuel "2147483648" = .crash
    ∧ (∀ n r, parseSource n "2147483648" ≠ .ok r) := by
  refine ⟨parseSource_halts input fuel h, ?_, ?_, ?_, ?_⟩
  · intro p stmt p1 a n hf hc hr
    have hpos := tokensLeft_pos_of_cur p hc
    have hle := ((parserHalts fuel).statement p hf).2 stmt p1 hr
    rw [setNode_nextToken, tokensLeft_setNode]
    by_cases hz : 0 < tokensLeft p1
    · have := tokensLeft_nextToken_lt p1 hz
      omega
    · have := tokensLeft_nextToken_le p1
      omega
  · intro p key p1 hf hr hc
    have a0 := tokensLeft_nextToken_le p
    have hle := ((parserHalts fuel).expression .LOWEST p.nextToken (by omega)).2 key p1 hr
    have b := (expectPeek_lt p1 .COLON (by rw [hc]; decide) (by decide)).1
    omega
  · obtain ⟨n, rfl⟩ : ∃ n, fuel = n + 4 := ⟨fuel - 4, by omega⟩
    exact parseSource_stoi_throws n
  · intro n r
    by_cases hn : 4 ≤ n
    · obtain ⟨k, rfl⟩ : ∃ k, n = k + 4 := ⟨n - 4, by omega⟩
      rw [parseSource_stoi_throws k]
      exact fun hx => Res.noConfusion hx
    · have h4 : n = 0 ∨ n = 1 ∨ n = 2 ∨ n = 3 := by omega
      have e0 : parseSource 0 "2147483648" = .fuel := by decide!
      have e1 : parseSource 1 "2147483648" = .fuel := by decide!
      have e2 : parseSource 2 "2147483648" = .fuel := by decide!
      have e3 : parseSource 3 "2147483648" = .fuel := by decide!
      rcases h4 with rfl | rfl | rfl | rfl
      · rw [e0]; exact fun hx => Res.noConfusion hx
      · rw [e1]; exact fun hx => Res.noConfusion hx
      · rw [e2]; exact fun hx => Res.noConfusion hx
      · rw [e3]; exact fun hx => Res.noConfusion hx

/-- Witness for C39 on `if (x) { [1, {` with 500 units of fuel: an unterminated
block, array and hash literal; the run returns at `EOF` with three errors. So
do runs on unbalanced parentheses, an unterminated string and unknown bytes;
an integer literal above the range of `int` anywhere in the source ends the
run with the exception. -/
theorem parser_halts_unless_stoi_throws_witness :
    (parseSource 500 "if (x) \x7b [1, \x7b" = .crash
      ∨ ∃ prog p, parseSource 500 "if (x) \x7b [1, \x7b" = .ok (prog, p)
          ∧ p.curToken.type = .EOF)
    ∧ (parseSource 60 "if (x) \x7b [1, \x7b").bind
        (fun x => .ok (x.2.curToken.type, x.2.errors.length)) = .ok (.EOF, 3)
    ∧ (parseSource 60 "(((").bind
        (fun x => .ok (x.2.curToken.type, x.2.errors.length)) = .ok (.EOF, 4)
    ∧ (parseSource 60 "\x22abc").bind
        (fun x => .ok (x.2.curToken.type, x.2.errors.length)) = .ok (.EOF, 0)
    ∧ (parseSource 60 "fn(x) \x7b let y = \x7b1: 2, ").bind
        (fun x => .ok (x.2.curToken.type, x.2.errors.length)) = .ok (.EOF, 2)
    ∧ (parseSource 60 "1 @ 2 $").bind
        (fun x => .ok (x.2.curToken.type, x.2.errors.length)) = .ok (.EOF, 2)
    ∧ parseSource 60 "2147483648" = .crash
    ∧ parseSource 60 "let x = [1, 2147483648];" = .crash
    ∧ (parseSource 60 "2147483647").bind
        (fun x => .ok (x.2.curToken.type, x.2.errors.length)) = .ok (.EOF, 0) :=
  ⟨(parser_halts_unless_stoi_throws "if (x) \x7b [1, \x7b" 500 (by decide)).1,
    by decide!, by decide!, by decide!, by decide!, by decide!, by decide!, by decide!,
    by decide!⟩

/-! ## Null slots after a parse without errors (C35) -/

theorem Res.bind_eq_ok {α β : Type} {x : Res α} {f : α → Res β} {b : β}
    (h : (x >>= f) = .ok b) : ∃ a, x = .ok a ∧ f a = .ok b := by
  cases x with
  | ok a => exact ⟨a, rfl, h⟩
  | crash => exact Res.noConfusion h
  | fuel => exact Res.noConfusion h

theorem nextToken_errors (p : Parser) : p.nextToken.errors = p.errors := rfl

theorem nextToken_nodes (p : Parser) : p.nextToken.nodes = p.nodes := rfl

theorem make_errors (p : Parser) (n : Node) : (p.make n).2.errors = p.errors := rfl

theorem make_nodes (p : Parser) (n : Node) : (p.make n).2.nodes = p.nodes ++ [n] := rfl

theorem make_fst (p : Parser) (n : Node) : (p.make n).1 = p.nodes.length := rfl

theorem setNode_errors (p : Parser) (a : Nat) (n : Node) : (p.setNode a n).errors = p.errors :=
  rfl

theorem setNode_nodes (p : Parser) (a : Nat) (n : Node) :
    (p.setNode a n).nodes = p.nodes.set a n := rfl

theorem expectPeek_nodes (p : Parser) (t : TokenType) : (p.expectPeek t).2.nodes = p.nodes := by
  simp only [Parser.expectPeek]
  split_ifs <;> rfl

/-- A failed `expectPeek` leaves an error on record. -/
theorem expectPeek_errors (p : Parser) (t : TokenType) (h : (p.expectPeek t).2.errors = []) :
    ¬ (p.expectPeek t).1 = false ∧ p.errors = [] := by
  simp only [Parser.expectPeek] at h ⊢
  by_cases hc : p.peekTokenIs t = true
  · rw [if_pos hc] at h ⊢
    exact ⟨by simp, h⟩
  · rw [if_neg hc] at h
    simp [Parser.peekError] at h

theorem HeapGrows.grows_refl (h : NodeHeap) : HeapGrows h h := ⟨[], by simp, by simp⟩

theorem HeapGrows.grows_trans {h1 h2 h3 : NodeHeap} (a : HeapGrows h1 h2) (b : HeapGrows h2 h3) :
    HeapGrows h1 h3 := by
  obtain ⟨e1, rfl, f1⟩ := a
  obtain ⟨e2, rfl, f2⟩ := b
  refine ⟨e1 ++ e2, by simp, ?_⟩
  intro n hn
  rcases List.mem_append.mp hn with hn | hn
  · exact f1 n hn
  · exact f2 n hn

theorem HeapGrows.grows_make (h : NodeHeap) (n : Node) (hn : n.slotsFilled = true) :
    HeapGrows h (h ++ [n]) := ⟨[n], rfl, by simpa using hn⟩

theorem GrowsWith.with_make (h : NodeHeap) (n : Node) : GrowsWith h n (h ++ [n]) :=
  ⟨[], rfl, by simp⟩

theorem GrowsWith.with_trans {h h1 h2 : NodeHeap} {n : Node} (a : GrowsWith h n h1)
    (b : HeapGrows h1 h2) : GrowsWith h n h2 := by
  obtain ⟨e1, rfl, f1⟩ := a
  obtain ⟨e2, rfl, f2⟩ := b
  refine ⟨e1 ++ e2, by simp, ?_⟩
  intro x hx
  rcases List.mem_append.mp hx with hx | hx
  · exact f1 x hx
  · exact f2 x hx

theorem GrowsWith.with_set {h h1 : NodeHeap} {n : Node} (a : GrowsWith h n h1) (n1 : Node) :
    GrowsWith h n1 (h1.set h.length n1) := by
  obtain ⟨e1, rfl, f1⟩ := a
  refine ⟨e1, ?_, f1⟩
  rw [List.set_append_right _ _ (le_refl _)]
  simp

theorem GrowsWith.close {h h1 : NodeHeap} {n : Node} (a : GrowsWith h n h1)
    (hn : n.slotsFilled = true) : HeapGrows h h1 := by
  obtain ⟨e1, rfl, f1⟩ := a
  refine ⟨n :: e1, rfl, ?_⟩
  intro x hx
  rcases List.mem_cons.mp hx with hx | hx
  · rw [hx]; exact hn
  · exact f1 x hx

theorem semicolon_errors (c : Bool) (p : Parser) :
    (if c = true then p.nextToken else p).errors = p.errors := by
  split_ifs <;> rfl

theorem semicolon_nodes (c : Bool) (p : Parser) :
    (if c = true then p.nextToken else p).nodes = p.nodes := by
  split_ifs <;> rfl

theorem fills_of_expectPeek_fail {pre post : Prop} {p q : Parser} {t : TokenType}
    (h : (q.expectPeek t).1 = false) : Fills pre post p (q.expectPeek t).2 :=
  fun he => absurd h (expectPeek_errors q t he).1

theorem pending_start (p : Parser) (n : Node) : Pending p.nodes (p.make n).2.nodes :=
  ⟨n, GrowsWith.with_make p.nodes n⟩

theorem pending_of_growsWith {h h1 : NodeHeap} {n : Node} (g : GrowsWith h n h1) : Pending h h1 :=
  ⟨n, g⟩

theorem pending_make {h : NodeHeap} {p : Parser} (m : Node)
    (a : Pending h p.nodes) (hm : m.slotsFilled = true) : Pending h (p.make m).2.nodes := by
  obtain ⟨n, g⟩ := a
  exact ⟨n, g.with_trans (HeapGrows.grows_make p.nodes m hm)⟩

theorem pending_setNode {h : NodeHeap} {p : Parser} (a : Nat) (n1 : Node)
    (g : Pending h p.nodes) (ha : a = h.length) : Pending h (p.setNode a n1).nodes := by
  obtain ⟨n, g⟩ := g
  rw [ha]
  exact ⟨n1, g.with_set n1⟩

theorem growsWith_setNode {h : NodeHeap} {p : Parser} (a : Nat) (n1 : Node)
    (g : Pending h p.nodes) (ha : a = h.length) : GrowsWith h n1 (p.setNode a n1).nodes := by
  obtain ⟨n, g⟩ := g
  rw [ha]
  exact g.with_set n1

theorem pending_call {h : NodeHeap} {p p1 : Parser}
    (g : Pending h p.nodes) (c : HeapGrows p.nodes p1.nodes) : Pending h p1.nodes := by
  obtain ⟨n, g⟩ := g
  exact ⟨n, g.with_trans c⟩

theorem pending_close {h : NodeHeap} {p : Parser} (a : Nat) (n1 : Node)
    (g : Pending h p.nodes) (ha : a = h.length) (hn : n1.slotsFilled = true) :
    HeapGrows h (p.setNode a n1).nodes :=
  (growsWith_setNode a n1 g ha).close hn

theorem Fills.comp {pre mid post : Prop} {p q p1 : Parser} (a : Fills pre mid p q)
    (b : Fills mid post q p1) : Fills pre post p p1 := by
  intro he
  obtain ⟨e1, f1⟩ := b he
  obtain ⟨e0, f0⟩ := a e1
  refine ⟨e0, fun hp => ?_⟩
  obtain ⟨m, g0⟩ := f0 hp
  obtain ⟨po, g1⟩ := f1 m
  exact ⟨po, g0.grows_trans g1⟩

theorem Fills.same {pre post : Prop} (p : Parser) (h : pre → post) : Fills pre post p p :=
  fun he => ⟨he, fun hp => ⟨h hp, HeapGrows.grows_refl _⟩⟩

theorem fills_parseStatement (fuel : Nat) (ih : ParserFills fuel) (p : Parser)
    (r : NodePtr) (p1 : Parser) (hr : parseStatement (fuel + 1) p = .ok (r, p1)) :
    Fills True (r.isSome = true) p p1 := by
  rw [parseStatement_unfold] at hr
  split at hr
  · exact ih.letStatement _ _ _ hr
  · exact ih.returnStatement _ _ _ hr
  · exact ih.expressionStatement _ _ _ hr

theorem fills_parseLetStatement (fuel : Nat) (ih : ParserFills fuel) (p : Parser)
    (r : NodePtr) (p1 : Parser) (hr : parseLetStatement (fuel + 1) p = .ok (r, p1)) :
    Fills True (r.isSome = true) p p1 := by
  rw [parseLetStatement_unfold] at hr
  dsimp only at hr
  split_ifs at hr with h1 h2
  · simp only [Res.ok.injEq, Prod.mk.injEq] at hr
    obtain ⟨rfl, rfl⟩ := hr
    exact fills_of_expectPeek_fail h1
  · simp only [Res.ok.injEq, Prod.mk.injEq] at hr
    obtain ⟨rfl, rfl⟩ := hr
    exact fills_of_expectPeek_fail h2
  · obtain ⟨⟨value, q⟩, hq, hr⟩ := Res.bind_eq_ok hr
    simp only [Res.pure_eq, Res.ok.injEq, Prod.mk.injEq] at hr
    obtain ⟨rfl, rfl⟩ := hr
    intro he
    rw [semicolon_errors, setNode_errors] at he
    obtain ⟨e1, e2⟩ := ih.expression _ _ _ _ hq he
    obtain ⟨v, g⟩ := e2 trivial
    rw [nextToken_errors] at e1
    have e3 := (expectPeek_errors _ _ e1).2
    rw [setNode_errors, make_errors] at e3
    have e4 := (expectPeek_errors _ _ e3).2
    refine ⟨e4, fun _ => ⟨rfl, ?_⟩⟩
    rw [semicolon_nodes]
    rw [nextToken_nodes, expectPeek_nodes] at g
    refine pending_close _ _ (pending_call ?_ g) rfl (by simpa [Node.slotsFilled] using v)
    refine pending_setNode _ _ (pending_make _ ?_ rfl) rfl
    rw [expectPeek_nodes]
    exact pending_start p _

theorem fills_parseReturnStatement (fuel : Nat) (ih : ParserFills fuel) (p : Parser)
    (r : NodePtr) (p1 : Parser) (hr : parseReturnStatement (fuel + 1) p = .ok (r, p1)) :
    Fills True (r.isSome = true) p p1 := by
  rw [parseReturnStatement_unfold] at hr
  obtain ⟨⟨value, q⟩, hq, hr⟩ := Res.bind_eq_ok hr
  simp only [Res.pure_eq, Res.ok.injEq, Prod.mk.injEq] at hr
  obtain ⟨rfl, rfl⟩ := hr
  intro he
  rw [semicolon_errors, setNode_errors] at he
  obtain ⟨e1, e2⟩ := ih.expression _ _ _ _ hq he
  obtain ⟨v, g⟩ := e2 trivial
  refine ⟨e1, fun _ => ⟨rfl, ?_⟩⟩
  rw [semicolon_nodes]
  exact pending_close _ _ (pending_call (pending_start p _) g) rfl
    (by simpa [Node.slotsFilled] using v)

theorem fills_parseExpressionStatement (fuel : Nat) (ih : ParserFills fuel) (p : Parser)
    (r : NodePtr) (p1 : Parser) (hr : parseExpressionStatement (fuel + 1) p = .ok (r, p1)) :
    Fills True (r.isSome = true) p p1 := by
  rw [parseExpressionStatement_unfold] at hr
  obtain ⟨⟨value, q⟩, hq, hr⟩ := Res.bind_eq_ok hr
  simp only [Res.pure_eq, Res.ok.injEq, Prod.mk.injEq] at hr
  obtain ⟨rfl, rfl⟩ := hr
  intro he
  rw [semicolon_errors, setNode_errors] at he
  obtain ⟨e1, e2⟩ := ih.expression _ _ _ _ hq he
  obtain ⟨v, g⟩ := e2 trivial
  refine ⟨e1, fun _ => ⟨rfl, ?_⟩⟩
  rw [semicolon_nodes]
  exact pending_close _ _ (pending_call (pending_start p _) g) rfl
    (by simpa [Node.slotsFilled] using v)

theorem fills_leaf (p : Parser) (n : Node) (hn : n.slotsFilled = true) :
    Fills True ((some (p.make n).1).isSome = true) p (p.make n).2 :=
  fun he => ⟨he, fun _ => ⟨rfl, HeapGrows.grows_make p.nodes n hn⟩⟩

theorem fills_parseIntegerLiteral (p : Parser) (r : NodePtr) (p1 : Parser)
    (hr : parseIntegerLiteral p = .ok (r, p1)) : Fills True (r.isSome = true) p p1 := by
  simp only [parseIntegerLiteral] at hr
  split at hr
  · simp only [Res.ok.injEq, Prod.mk.injEq] at hr
    obtain ⟨rfl, rfl⟩ := hr
    intro he
    rw [setNode_errors] at he
    split_ifs at he with hc
    · simp at he
    · refine ⟨he, fun _ => ⟨rfl, ?_⟩⟩
      rw [if_neg hc]
      exact pending_close _ _ (pending_start p _) rfl rfl
  · exact Res.noConfusion hr
  · exact Res.noConfusion hr

theorem fills_parseExpression (fuel : Nat) (ih : ParserFills fuel) (prc : prec) (p : Parser)
    (r : NodePtr) (p1 : Parser) (hr : parseExpression (fuel + 1) prc p = .ok (r, p1)) :
    Fills True (r.isSome = true) p p1 := by
  rw [parseExpression_unfold] at hr
  split at hr
  · simp only [Res.ok.injEq, Prod.mk.injEq] at hr
    obtain ⟨rfl, rfl⟩ := hr
    intro he
    simp [Parser.noPrefixParseFnError] at he
  · next pf hpf =>
    obtain ⟨⟨left, q⟩, hq, hr⟩ := Res.bind_eq_ok hr
    refine Fills.comp ?_ (ih.expressionLoop _ _ _ _ _ hr)
    cases pf
    · simp only [parseIdentifier, Res.ok.injEq, Prod.mk.injEq] at hq
      obtain ⟨rfl, rfl⟩ := hq
      exact fills_leaf p _ rfl
    · exact fills_parseIntegerLiteral p _ _ hq
    · simp only [parseStringLiteral, Res.ok.injEq, Prod.mk.injEq] at hq
      obtain ⟨rfl, rfl⟩ := hq
      exact fills_leaf p _ rfl
    · exact ih.prefixExpression _ _ _ hq
    · simp only [parseBoolean, Res.ok.injEq, Prod.mk.injEq] at hq
      obtain ⟨rfl, rfl⟩ := hq
      exact fills_leaf p _ rfl
    · exact ih.groupedExpression _ _ _ hq
    · exact ih.arrayLiteral _ _ _ hq
    · exact ih.ifExpression _ _ _ hq
    · exact ih.functionLiteral _ _ _ hq
    · exact ih.hashLiteral _ _ _ hq
    · exact ih.macroLiteral _ _ _ hq

theorem fills_parseExpressionLoop (fuel : Nat) (ih : ParserFills fuel) (prc : prec)
    (l : NodePtr) (p : Parser) (r : NodePtr) (p1 : Parser)
    (hr : parseExpressionLoop (fuel + 1) prc l p = .ok (r, p1)) :
    Fills (l.isSome = true) (r.isSome = true) p p1 := by
  rw [parseExpressionLoop_unfold] at hr
  split_ifs at hr with hc
  · split at hr
    · simp only [Res.ok.injEq, Prod.mk.injEq] at hr
      obtain ⟨rfl, rfl⟩ := hr
      exact Fills.same p id
    · next f hf =>
      obtain ⟨⟨left, q⟩, hq, hr⟩ := Res.bind_eq_ok hr
      refine Fills.comp ?_ (ih.expressionLoop _ _ _ _ _ hr)
      cases f
      · exact ih.infixExpression _ p.nextToken _ _ hq
      · exact ih.callExpression _ p.nextToken _ _ hq
      · exact ih.indexExpression _ p.nextToken _ _ hq
  · simp only [Res.ok.injEq, Prod.mk.injEq] at hr
    obtain ⟨rfl, rfl⟩ := hr
    exact Fills.same p id

theorem fills_parseArrayLiteral (fuel : Nat) (ih : ParserFills fuel) (p : Parser)
    (r : NodePtr) (p1 : Parser) (hr : parseArrayLiteral (fuel + 1) p = .ok (r, p1)) :
    Fills True (r.isSome = true) p p1 := by
  rw [parseArrayLiteral_unfold] at hr
  obtain ⟨⟨elements, q⟩, hq, hr⟩ := Res.bind_eq_ok hr
  simp only [Res.pure_eq, Res.ok.injEq, Prod.mk.injEq] at hr
  obtain ⟨rfl, rfl⟩ := hr
  intro he
  obtain ⟨e1, e2⟩ := ih.expressionList _ _ _ _ hq he
  obtain ⟨v, g⟩ := e2 trivial
  refine ⟨e1, fun _ => ⟨rfl, ?_⟩⟩
  exact pending_close _ _ (pending_call (pending_start p _) g) rfl
    (by simpa [Node.slotsFilled] using v)

theorem fills_parseCallExpression (fuel : Nat) (ih : ParserFills fuel) (f : NodePtr)
    (p : Parser) (r : NodePtr) (p1 : Parser)
    (hr : parseCallExpression (fuel + 1) f p = .ok (r, p1)) :
    Fills (f.isSome = true) (r.isSome = true) p p1 := by
  rw [parseCallExpression_unfold] at hr
  obtain ⟨⟨arguments, q⟩, hq, hr⟩ := Res.bind_eq_ok hr
  simp only [Res.pure_eq, Res.ok.injEq, Prod.mk.injEq] at hr
  obtain ⟨rfl, rfl⟩ := hr
  intro he
  obtain ⟨e1, e2⟩ := ih.expressionList _ _ _ _ hq he
  obtain ⟨v, g⟩ := e2 trivial
  refine ⟨e1, fun hf => ⟨rfl, ?_⟩⟩
  exact pending_close _ _ (pending_call (pending_start p _) g) rfl
    (by simp only [Node.slotsFilled, hf, v, Bool.and_self])

theorem fills_parseExpressionList (fuel : Nat) (ih : ParserFills fuel) (t : TokenType)
    (p : Parser) (r : List NodePtr) (p1 : Parser)
    (hr : parseExpressionList (fuel + 1) t p = .ok (r, p1)) :
    Fills True (r.all Option.isSome = true) p p1 := by
  rw [parseExpressionList_unfold] at hr
  split_ifs at hr with hc
  · simp only [Res.ok.injEq, Prod.mk.injEq] at hr
    obtain ⟨rfl, rfl⟩ := hr
    exact fun he => ⟨he, fun _ => ⟨rfl, HeapGrows.grows_refl _⟩⟩
  · obtain ⟨⟨e, q1⟩, hq1, hr⟩ := Res.bind_eq_ok hr
    obtain ⟨⟨list, q2⟩, hq2, hr⟩ := Res.bind_eq_ok hr
    dsimp only at hr
    split_ifs at hr with h1
    · simp only [Res.pure_eq, Res.ok.injEq, Prod.mk.injEq] at hr
      obtain ⟨rfl, rfl⟩ := hr
      exact fills_of_expectPeek_fail h1
    · simp only [Res.pure_eq, Res.ok.injEq, Prod.mk.injEq] at hr
      obtain ⟨rfl, rfl⟩ := hr
      intro he
      have e2 := (expectPeek_errors _ _ he).2
      obtain ⟨e1, f1⟩ := ih.expressionListLoop _ _ _ _ hq2 e2
      obtain ⟨e0, f0⟩ := ih.expression _ _ _ _ hq1 e1
      obtain ⟨v0, g0⟩ := f0 trivial
      obtain ⟨v1, g1⟩ := f1 (by simpa using v0)
      refine ⟨e0, fun _ => ⟨v1, ?_⟩⟩
      rw [expectPeek_nodes]
      exact HeapGrows.grows_trans g0 g1

theorem fills_parseExpressionListLoop (fuel : Nat) (ih : ParserFills fuel) (l : List NodePtr)
    (p : Parser) (r : List NodePtr) (p1 : Parser)
    (hr : parseExpressionListLoop (fuel + 1) l p = .ok (r, p1)) :
    Fills (l.all Option.isSome = true) (r.all Option.isSome = true) p p1 := by
  rw [parseExpressionListLoop_unfold] at hr
  split_ifs at hr with hc
  · obtain ⟨⟨e, q1⟩, hq1, hr⟩ := Res.bind_eq_ok hr
    intro he
    obtain ⟨e1, f1⟩ := ih.expressionListLoop _ _ _ _ hr he
    obtain ⟨e0, f0⟩ := ih.expression _ _ _ _ hq1 e1
    obtain ⟨v0, g0⟩ := f0 trivial
    refine ⟨e0, fun hl => ?_⟩
    obtain ⟨v1, g1⟩ := f1 (by simp only [List.all_append, hl, List.all_cons, v0,
      List.all_nil, Bool.and_self])
    exact ⟨v1, HeapGrows.grows_trans g0 g1⟩
  · simp only [Res.ok.injEq, Prod.mk.injEq] at hr
    obtain ⟨rfl, rfl⟩ := hr
    exact Fills.same p id

theorem fills_parseIndexExpression (fuel : Nat) (ih : ParserFills fuel) (l : NodePtr)
    (p : Parser) (r : NodePtr) (p1 : Parser)
    (hr : parseIndexExpression (fuel + 1) l p = .ok (r, p1)) :
    Fills (l.isSome = true) (r.isSome = true) p p1 := by
  rw [parseIndexExpression_unfold] at hr
  obtain ⟨⟨index, q⟩, hq, hr⟩ := Res.bind_eq_ok hr
  dsimp only at hr
  split_ifs at hr with h1
  · simp only [Res.pure_eq, Res.ok.injEq, Prod.mk.injEq] at hr
    obtain ⟨rfl, rfl⟩ := hr
    exact fills_of_expectPeek_fail h1
  · simp only [Res.pure_eq, Res.ok.injEq, Prod.mk.injEq] at hr
    obtain ⟨rfl, rfl⟩ := hr
    intro he
    have e2 := (expectPeek_errors _ _ he).2
    obtain ⟨e1, f1⟩ := ih.expression _ _ _ _ hq e2
    obtain ⟨v, g⟩ := f1 trivial
    refine ⟨e1, fun hl => ⟨rfl, ?_⟩⟩
    rw [expectPeek_nodes]
    exact pending_close _ _ (pending_call (pending_start p _) g) rfl
      (by simp only [Node.slotsFilled, hl, v, Bool.and_self])

theorem fills_parseInfixExpression (fuel : Nat) (ih : ParserFills fuel) (l : NodePtr)
    (p : Parser) (r : NodePtr) (p1 : Parser)
    (hr : parseInfixExpression (fuel + 1) l p = .ok (r, p1)) :
    Fills (l.isSome = true) (r.isSome = true) p p1 := by
  rw [parseInfixExpression_unfold] at hr
  obtain ⟨⟨right, q⟩, hq, hr⟩ := Res.bind_eq_ok hr
  simp only [Res.pure_eq, Res.ok.injEq, Prod.mk.injEq] at hr
  obtain ⟨rfl, rfl⟩ := hr
  intro he
  obtain ⟨e1, e2⟩ := ih.expression _ _ _ _ hq he
  obtain ⟨v, g⟩ := e2 trivial
  refine ⟨e1, fun hl => ⟨rfl, ?_⟩⟩
  exact pending_close _ _ (pending_call (pending_start p _) g) rfl
    (by simp only [Node.slotsFilled, hl, v, Bool.and_self])

theorem fills_parsePrefixExpression (fuel : Nat) (ih : ParserFills fuel) (p : Parser)
    (r : NodePtr) (p1 : Parser) (hr : parsePrefixExpression (fuel + 1) p = .ok (r, p1)) :
    Fills True (r.isSome = true) p p1 := by
  rw [parsePrefixExpression_unfold] at hr
  obtain ⟨⟨right, q⟩, hq, hr⟩ := Res.bind_eq_ok hr
  simp only [Res.pure_eq, Res.ok.injEq, Prod.mk.injEq] at hr
  obtain ⟨rfl, rfl⟩ := hr
  intro he
  obtain ⟨e1, e2⟩ := ih.expression _ _ _ _ hq he
  obtain ⟨v, g⟩ := e2 trivial
  refine ⟨e1, fun _ => ⟨rfl, ?_⟩⟩
  exact pending_close _ _ (pending_call (pending_start p _) g) rfl
    (by simpa [Node.slotsFilled] using v)

theorem fills_parseGroupedExpression (fuel : Nat) (ih : ParserFills fuel) (p : Parser)
    (r : NodePtr) (p1 : Parser) (hr : parseGroupedExpression (fuel + 1) p = .ok (r, p1)) :
    Fills True (r.isSome = true) p p1 := by
  rw [parseGroupedExpression_unfold] at hr
  obtain ⟨⟨exp, q⟩, hq, hr⟩ := Res.bind_eq_ok hr
  dsimp only at hr
  split_ifs at hr with h1
  · simp only [Res.pure_eq, Res.ok.injEq, Prod.mk.injEq] at hr
    obtain ⟨rfl, rfl⟩ := hr
    exact fills_of_expectPeek_fail h1
  · simp only [Res.pure_eq, Res.ok.injEq, Prod.mk.injEq] at hr
    obtain ⟨rfl, rfl⟩ := hr
    intro he
    have e2 := (expectPeek_errors _ _ he).2
    obtain ⟨e1, f1⟩ := ih.expression _ _ _ _ hq e2
    obtain ⟨v, g⟩ := f1 trivial
    refine ⟨e1, fun _ => ⟨v, ?_⟩⟩
    rw [expectPeek_nodes]
    exact g

theorem ptrMapAssign_filled (key value : NodePtr) (hk : key.isSome = true)
    (hv : value.isSome = true) :
    ∀ pairs : List (NodePtr × NodePtr),
      pairs.all (fun kv => kv.1.isSome && kv.2.isSome) = true →
      (ptrMapAssign key value pairs).all (fun kv => kv.1.isSome && kv.2.isSome) = true := by
  intro pairs
  induction pairs with
  | nil =>
    intro _
    simp only [ptrMapAssign, List.all_cons, hk, hv, Bool.and_self, List.all_nil]
  | cons kv rest ih =>
    intro h
    obtain ⟨k, v⟩ := kv
    simp only [List.all_cons, Bool.and_eq_true] at h
    simp only [ptrMapAssign]
    split_ifs with h1 h2
    · simp only [List.all_cons, Bool.and_eq_true]
      exact ⟨⟨h.1.1, hv⟩, h.2⟩
    · simp only [List.all_cons, Bool.and_eq_true]
      exact ⟨⟨hk, hv⟩, ⟨h.1, h.2⟩⟩
    · simp only [List.all_cons, Bool.and_eq_true]
      exact ⟨h.1, ih h.2⟩

theorem fills_parseFunctionParametersLoop :
    ∀ (fuel : Nat) (ids : List NodePtr) (p : Parser) (r : List NodePtr) (p1 : Parser),
      parseFunctionParametersLoop fuel ids p = .ok (r, p1) →
      p1.errors = p.errors ∧ (ids.all Option.isSome = true → r.all Option.isSome = true)
        ∧ HeapGrows p.nodes p1.nodes := by
  intro fuel
  induction fuel with
  | zero => intro ids p r p1 hr; exact Res.noConfusion hr
  | succ fuel ih =>
    intro ids p r p1 hr
    rw [parseFunctionParametersLoop_unfold] at hr
    split_ifs at hr with hc
    · obtain ⟨e, f, g⟩ := ih _ _ _ _ hr
      refine ⟨e, fun hi => f ?_, ?_⟩
      · simp only [List.all_append, hi, List.all_cons, Option.isSome_some, List.all_nil,
          Bool.and_self]
      · exact HeapGrows.grows_trans (HeapGrows.grows_make _ (Node.Identifier _ _) rfl) g
    · simp only [Res.ok.injEq, Prod.mk.injEq] at hr
      obtain ⟨rfl, rfl⟩ := hr
      exact ⟨rfl, id, HeapGrows.grows_refl _⟩

theorem fills_parseFunctionParameters (fuel : Nat) (p : Parser) (r : List NodePtr)
    (p1 : Parser) (hr : parseFunctionParameters fuel p = .ok (r, p1)) :
    Fills True (r.all Option.isSome = true) p p1 := by
  simp only [parseFunctionParameters] at hr
  split_ifs at hr with hc
  · simp only [Res.ok.injEq, Prod.mk.injEq] at hr
    obtain ⟨rfl, rfl⟩ := hr
    exact fun he => ⟨he, fun _ => ⟨rfl, HeapGrows.grows_refl _⟩⟩
  · split at hr
    · next ids q hq =>
      obtain ⟨e, f, g⟩ := fills_parseFunctionParametersLoop _ _ _ _ _ hq
      split_ifs at hr with h1
      · simp only [Res.ok.injEq, Prod.mk.injEq] at hr
        obtain ⟨rfl, rfl⟩ := hr
        intro he
        have e2 := (expectPeek_errors _ _ he).2
        rw [e] at e2
        refine ⟨e2, fun _ => ⟨f rfl, ?_⟩⟩
        rw [expectPeek_nodes]
        exact HeapGrows.grows_trans (HeapGrows.grows_make _ (Node.Identifier _ _) rfl) g
      · simp only [Res.ok.injEq, Prod.mk.injEq] at hr
        obtain ⟨rfl, rfl⟩ := hr
        exact fills_of_expectPeek_fail (by simpa using h1)
    · exact Res.noConfusion hr
    · exact Res.noConfusion hr

theorem fills_parseHashLiteral (fuel : Nat) (ih : ParserFills fuel) (p : Parser)
    (r : NodePtr) (p1 : Parser) (hr : parseHashLiteral (fuel + 1) p = .ok (r, p1)) :
    Fills True (r.isSome = true) p p1 := by
  rw [parseHashLiteral_unfold] at hr
  intro he
  obtain ⟨e, f⟩ := ih.hashLiteralLoop _ _ _ _ _ _ hr he
  refine ⟨e, fun _ => ?_⟩
  obtain ⟨v, ps1, hf, g⟩ := f p.nodes (GrowsWith.with_make p.nodes _) rfl rfl
  exact ⟨v, g.close hf⟩

theorem fills_parseHashLiteralLoop (fuel : Nat) (ih : ParserFills fuel) (tok : Token)
    (hash : Nat) (ps : List (NodePtr × NodePtr)) (p : Parser) (r : NodePtr) (p1 : Parser)
    (hr : parseHashLiteralLoop (fuel + 1) tok hash ps p = .ok (r, p1)) (he : p1.errors = []) :
    p.errors = [] ∧ ∀ h : NodeHeap, GrowsWith h (.HashLiteral tok ps) p.nodes → hash = h.length →
      (Node.HashLiteral tok ps).slotsFilled = true →
      r.isSome = true ∧ ∃ ps1, (Node.HashLiteral tok ps1).slotsFilled = true
        ∧ GrowsWith h (.HashLiteral tok ps1) p1.nodes := by
  rw [parseHashLiteralLoop_unfold] at hr
  split_ifs at hr with hc
  · obtain ⟨⟨key, q1⟩, hq1, hr⟩ := Res.bind_eq_ok hr
    dsimp only at hr
    split_ifs at hr with h1
    · simp only [Res.pure_eq, Res.ok.injEq, Prod.mk.injEq] at hr
      obtain ⟨rfl, rfl⟩ := hr
      exact absurd h1 (expectPeek_errors _ _ he).1
    · obtain ⟨⟨value, q2⟩, hq2, hr⟩ := Res.bind_eq_ok hr
      dsimp only at hr
      have hmain : ∀ q3 : Parser, q3.errors = q2.errors → q3.nodes = q2.nodes →
          parseHashLiteralLoop fuel tok hash (ptrMapAssign key value ps)
            (q3.setNode hash (.HashLiteral tok (ptrMapAssign key value ps))) = .ok (r, p1) →
          p.errors = [] ∧ ∀ h : NodeHeap, GrowsWith h (.HashLiteral tok ps) p.nodes →
            hash = h.length → (Node.HashLiteral tok ps).slotsFilled = true →
            r.isSome = true ∧ ∃ ps1, (Node.HashLiteral tok ps1).slotsFilled = true
              ∧ GrowsWith h (.HashLiteral tok ps1) p1.nodes := by
        intro q3 he3 hn3 hloop
        obtain ⟨e3, f3⟩ := ih.hashLiteralLoop _ _ _ _ _ _ hloop he
        rw [setNode_errors, he3] at e3
        obtain ⟨e2, f2⟩ := ih.expression _ _ _ _ hq2 e3
        obtain ⟨v2, g2⟩ := f2 trivial
        rw [nextToken_errors] at e2
        have e1 := (expectPeek_errors _ _ e2).2
        obtain ⟨e0, f0⟩ := ih.expression _ _ _ _ hq1 e1
        obtain ⟨v0, g0⟩ := f0 trivial
        refine ⟨e0, ?_⟩
        intro h gh hh hf
        rw [nextToken_nodes, expectPeek_nodes] at g2
        have hfull : (Node.HashLiteral tok (ptrMapAssign key value ps)).slotsFilled = true :=
          ptrMapAssign_filled key value v0 v2 ps hf
        have gq2 : Pending h q2.nodes :=
          pending_call (p := q1) (pending_call (p := p) (pending_of_growsWith gh) g0) g2
        have gq3 : Pending h q3.nodes := by rw [hn3]; exact gq2
        exact f3 h (growsWith_setNode _ _ gq3 hh) hh hfull
      split_ifs at hr with h2 h3
      · simp only [Res.pure_eq, Res.ok.injEq, Prod.mk.injEq] at hr
        obtain ⟨rfl, rfl⟩ := hr
        exact absurd h3 (expectPeek_errors _ _ he).1
      · have h4 := expectPeek_true _ _ h3
        rw [h4.2, setNode_nextToken] at hr
        exact hmain q2.nextToken rfl rfl hr
      · exact hmain q2 rfl rfl hr
  · dsimp only at hr
    split_ifs at hr with h1
    · simp only [Res.ok.injEq, Prod.mk.injEq] at hr
      obtain ⟨rfl, rfl⟩ := hr
      exact absurd h1 (expectPeek_errors _ _ he).1
    · simp only [Res.ok.injEq, Prod.mk.injEq] at hr
      obtain ⟨rfl, rfl⟩ := hr
      refine ⟨(expectPeek_errors _ _ he).2, ?_⟩
      intro h gh hh hf
      refine ⟨rfl, ps, hf, ?_⟩
      rw [expectPeek_nodes]
      exact gh

theorem fills_parseBlockStatement (fuel : Nat) (ih : ParserFills fuel) (p : Parser)
    (r : NodePtr) (p1 : Parser) (hr : parseBlockStatement (fuel + 1) p = .ok (r, p1)) :
    Fills True (r.isSome = true) p p1 := by
  rw [parseBlockStatement_unfold] at hr
  intro he
  obtain ⟨e, f⟩ := ih.blockStatementLoop _ _ _ _ _ _ hr he
  refine ⟨e, fun _ => ?_⟩
  obtain ⟨v, ss1, hf, g⟩ := f p.nodes (GrowsWith.with_make p.nodes _) rfl rfl
  exact ⟨v, g.close hf⟩

theorem fills_parseBlockStatementLoop (fuel : Nat) (ih : ParserFills fuel) (tok : Token)
    (block : Nat) (ss : List NodePtr) (p : Parser) (r : NodePtr) (p1 : Parser)
    (hr : parseBlockStatementLoop (fuel + 1) tok block ss p = .ok (r, p1))
    (he : p1.errors = []) :
    p.errors = [] ∧ ∀ h : NodeHeap, GrowsWith h (.BlockStatement tok ss) p.nodes →
      block = h.length → (Node.BlockStatement tok ss).slotsFilled = true →
      r.isSome = true ∧ ∃ ss1, (Node.BlockStatement tok ss1).slotsFilled = true
        ∧ GrowsWith h (.BlockStatement tok ss1) p1.nodes := by
  rw [parseBlockStatementLoop_unfold] at hr
  split_ifs at hr with hc
  · obtain ⟨⟨stmt, q⟩, hq, hr⟩ := Res.bind_eq_ok hr
    dsimp only at hr
    obtain ⟨e1, f1⟩ := ih.blockStatementLoop _ _ _ _ _ _ hr he
    rw [nextToken_errors, setNode_errors] at e1
    obtain ⟨e0, f0⟩ := ih.statement _ _ _ hq e1
    obtain ⟨v0, g0⟩ := f0 trivial
    refine ⟨e0, ?_⟩
    intro h gh hh hf
    obtain ⟨a, rfl⟩ := Option.isSome_iff_exists.mp v0
    dsimp only at f1
    have hfull : (Node.BlockStatement tok (ss ++ [some a])).slotsFilled = true := by
      simp only [Node.slotsFilled] at hf ⊢
      simp only [List.all_append, hf, List.all_cons, Option.isSome_some, List.all_nil,
        Bool.and_self]
    exact f1 h (growsWith_setNode _ _ (pending_call (pending_of_growsWith gh) g0) hh) hh hfull
  · simp only [Res.ok.injEq, Prod.mk.injEq] at hr
    obtain ⟨rfl, rfl⟩ := hr
    exact ⟨he, fun h gh hh hf => ⟨rfl, ss, hf, gh⟩⟩

theorem fills_parseFunctionLiteral (fuel : Nat) (ih : ParserFills fuel) (p : Parser)
    (r : NodePtr) (p1 : Parser) (hr : parseFunctionLiteral (fuel + 1) p = .ok (r, p1)) :
    Fills True (r.isSome = true) p p1 := by
  rw [parseFunctionLiteral_unfold] at hr
  dsimp only at hr
  split_ifs at hr with h1
  · simp only [Res.ok.injEq, Prod.mk.injEq] at hr
    obtain ⟨rfl, rfl⟩ := hr
    exact fills_of_expectPeek_fail h1
  · obtain ⟨⟨parameters, q1⟩, hq1, hr⟩ := Res.bind_eq_ok hr
    dsimp only at hr
    split_ifs at hr with h2
    · simp only [Res.pure_eq, Res.ok.injEq, Prod.mk.injEq] at hr
      obtain ⟨rfl, rfl⟩ := hr
      exact fills_of_expectPeek_fail h2
    · obtain ⟨⟨body, q3⟩, hq3, hr⟩ := Res.bind_eq_ok hr
      simp only [Res.pure_eq, Res.ok.injEq, Prod.mk.injEq] at hr
      obtain ⟨rfl, rfl⟩ := hr
      intro he
      rw [setNode_errors] at he
      obtain ⟨e3, f3⟩ := ih.blockStatement _ _ _ hq3 he
      obtain ⟨v3, g3⟩ := f3 trivial
      have e2 := (expectPeek_errors _ _ e3).2
      rw [setNode_errors] at e2
      obtain ⟨e1, f1⟩ := fills_parseFunctionParameters _ _ _ _ hq1 e2
      obtain ⟨v1, g1⟩ := f1 trivial
      have e0 := (expectPeek_errors _ _ e1).2
      refine ⟨e0, fun _ => ⟨rfl, ?_⟩⟩
      rw [expectPeek_nodes] at g3 g1
      refine pending_close _ _ (pending_call (pending_setNode _ _ (pending_call ?_ g1) rfl) g3)
        rfl (by simp only [Node.slotsFilled, v1, v3, Bool.and_self])
      exact pending_start p _

theorem fills_parseMacroLiteral (fuel : Nat) (ih : ParserFills fuel) (p : Parser)
    (r : NodePtr) (p1 : Parser) (hr : parseMacroLiteral (fuel + 1) p = .ok (r, p1)) :
    Fills True (r.isSome = true) p p1 := by
  rw [parseMacroLiteral_unfold] at hr
  dsimp only at hr
  split_ifs at hr with h1
  · simp only [Res.ok.injEq, Prod.mk.injEq] at hr
    obtain ⟨rfl, rfl⟩ := hr
    exact fills_of_expectPeek_fail h1
  · obtain ⟨⟨parameters, q1⟩, hq1, hr⟩ := Res.bind_eq_ok hr
    dsimp only at hr
    split_ifs at hr with h2
    · simp only [Res.pure_eq, Res.ok.injEq, Prod.mk.injEq] at hr
      obtain ⟨rfl, rfl⟩ := hr
      exact fills_of_expectPeek_fail h2
    · obtain ⟨⟨body, q3⟩, hq3, hr⟩ := Res.bind_eq_ok hr
      simp only [Res.pure_eq, Res.ok.injEq, Prod.mk.injEq] at hr
      obtain ⟨rfl, rfl⟩ := hr
      intro he
      rw [setNode_errors] at he
      obtain ⟨e3, f3⟩ := ih.blockStatement _ _ _ hq3 he
      obtain ⟨v3, g3⟩ := f3 trivial
      have e2 := (expectPeek_errors _ _ e3).2
      rw [setNode_errors] at e2
      obtain ⟨e1, f1⟩ := fills_parseFunctionParameters _ _ _ _ hq1 e2
      obtain ⟨v1, g1⟩ := f1 trivial
      have e0 := (expectPeek_errors _ _ e1).2
      refine ⟨e0, fun _ => ⟨rfl, ?_⟩⟩
      rw [expectPeek_nodes] at g3 g1
      refine pending_close _ _ (pending_call (pending_setNode _ _ (pending_call ?_ g1) rfl) g3)
        rfl (by simp only [Node.slotsFilled, v1, v3, Bool.and_self])
      exact pending_start p _

theorem fills_parseIfExpression (fuel : Nat) (ih : ParserFills fuel) (p : Parser)
    (r : NodePtr) (p1 : Parser) (hr : parseIfExpression (fuel + 1) p = .ok (r, p1)) :
    Fills True (r.isSome = true) p p1 := by
  rw [parseIfExpression_unfold] at hr
  dsimp only at hr
  split_ifs at hr with h1
  · simp only [Res.ok.injEq, Prod.mk.injEq] at hr
    obtain ⟨rfl, rfl⟩ := hr
    exact fills_of_expectPeek_fail h1
  · obtain ⟨⟨condition, q1⟩, hq1, hr⟩ := Res.bind_eq_ok hr
    dsimp only at hr
    split_ifs at hr with h2 h3
    · simp only [Res.pure_eq, Res.ok.injEq, Prod.mk.injEq] at hr
      obtain ⟨rfl, rfl⟩ := hr
      exact fills_of_expectPeek_fail h2
    · simp only [Res.pure_eq, Res.ok.injEq, Prod.mk.injEq] at hr
      obtain ⟨rfl, rfl⟩ := hr
      exact fills_of_expectPeek_fail h3
    · obtain ⟨⟨consequence, q3⟩, hq3, hr⟩ := Res.bind_eq_ok hr
      dsimp only at hr
      have hfront : q3.errors = [] → p.errors = [] ∧ condition.isSome = true
          ∧ consequence.isSome = true ∧ Pending p.nodes q3.nodes := by
        intro he3
        obtain ⟨e3, f3⟩ := ih.blockStatement _ _ _ hq3 he3
        obtain ⟨v3, g3⟩ := f3 trivial
        have e2 := (expectPeek_errors _ _ e3).2
        have e2b := (expectPeek_errors _ _ e2).2
        rw [setNode_errors] at e2b
        obtain ⟨e1, f1⟩ := ih.expression _ _ _ _ hq1 e2b
        obtain ⟨v1, g1⟩ := f1 trivial
        rw [nextToken_errors] at e1
        have e0 := (expectPeek_errors _ _ e1).2
        refine ⟨e0, v1, v3, ?_⟩
        rw [expectPeek_nodes, expectPeek_nodes] at g3
        rw [nextToken_nodes, expectPeek_nodes] at g1
        exact pending_call (pending_setNode _ _ (pending_call (pending_start p _) g1) rfl) g3
      split_ifs at hr with h4 h5
      · simp only [Res.pure_eq, Res.ok.injEq, Prod.mk.injEq] at hr
        obtain ⟨rfl, rfl⟩ := hr
        exact fills_of_expectPeek_fail h5
      · obtain ⟨⟨alternative, q5⟩, hq5, hr⟩ := Res.bind_eq_ok hr
        simp only [Res.pure_eq, Res.ok.injEq, Prod.mk.injEq] at hr
        obtain ⟨rfl, rfl⟩ := hr
        intro he
        rw [setNode_errors] at he
        obtain ⟨e5, f5⟩ := ih.blockStatement _ _ _ hq5 he
        obtain ⟨v5, g5⟩ := f5 trivial
        have e4 := (expectPeek_errors _ _ e5).2
        rw [nextToken_errors, setNode_errors] at e4
        obtain ⟨e0, v1, v3, g⟩ := hfront e4
        refine ⟨e0, fun _ => ⟨rfl, ?_⟩⟩
        rw [expectPeek_nodes, nextToken_nodes] at g5
        exact pending_close _ _ (pending_call (pending_setNode _ _ g rfl) g5) rfl
          (by simp only [Node.slotsFilled, v1, v3, Bool.and_self])
      · simp only [Res.pure_eq, Res.ok.injEq, Prod.mk.injEq] at hr
        obtain ⟨rfl, rfl⟩ := hr
        intro he
        rw [setNode_errors] at he
        obtain ⟨e0, v1, v3, g⟩ := hfront he
        refine ⟨e0, fun _ => ⟨rfl, ?_⟩⟩
        exact pending_close _ _ g rfl (by simp only [Node.slotsFilled, v1, v3, Bool.and_self])

/-- With any amount of fuel, a member of the parser that returns without any
error on record has only added nodes without a null slot. -/
theorem parserFills : ∀ fuel : Nat, ParserFills fuel := by
  intro fuel
  induction fuel with
  | zero =>
    constructor <;> intros <;> rename_i hr <;> first
      | exact Res.noConfusion hr
      | (rename_i hr2; exact Res.noConfusion hr2)
  | succ fuel ih =>
    exact {
      statement := fills_parseStatement fuel ih
      letStatement := fills_parseLetStatement fuel ih
      returnStatement := fills_parseReturnStatement fuel ih
      expressionStatement := fills_parseExpressionStatement fuel ih
      expression := fills_parseExpression fuel ih
      expressionLoop := fills_parseExpressionLoop fuel ih
      arrayLiteral := fills_parseArrayLiteral fuel ih
      expressionList := fills_parseExpressionList fuel ih
      expressionListLoop := fills_parseExpressionListLoop fuel ih
      indexExpression := fills_parseIndexExpression fuel ih
      hashLiteral := fills_parseHashLiteral fuel ih
      hashLiteralLoop := fills_parseHashLiteralLoop fuel ih
      macroLiteral := fills_parseMacroLiteral fuel ih
      prefixExpression := fills_parsePrefixExpression fuel ih
      infixExpression := fills_parseInfixExpression fuel ih
      groupedExpression := fills_parseGroupedExpression fuel ih
      ifExpression := fills_parseIfExpression fuel ih
      blockStatement := fills_parseBlockStatement fuel ih
      blockStatementLoop := fills_parseBlockStatementLoop fuel ih
      functionLiteral := fills_parseFunctionLiteral fuel ih
      callExpression := fills_parseCallExpression fuel ih }

/-- The statement loop of `parseProgram`, when it returns without any error on
record, has filled the `Program` node with statements and added only nodes
without a null slot. -/
theorem fills_parseProgramLoop :
    ∀ (fuel program : Nat) (ss : List NodePtr) (p : Parser) (r : Nat) (p1 : Parser),
      parseProgramLoop fuel program ss p = .ok (r, p1) → p1.errors = [] →
      p.errors = [] ∧ ∀ h : NodeHeap, GrowsWith h (.Program ss) p.nodes →
        program = h.length → (Node.Program ss).slotsFilled = true →
        r = program ∧ ∃ ss1, (Node.Program ss1).slotsFilled = true
          ∧ GrowsWith h (.Program ss1) p1.nodes := by
  intro fuel
  induction fuel with
  | zero => intro program ss p r p1 hr; exact Res.noConfusion hr
  | succ fuel ih =>
    intro program ss p r p1 hr he
    rw [parseProgramLoop_unfold] at hr
    split_ifs at hr with hc
    · split at hr
      · next stmt q hq =>
        dsimp only at hr
        obtain ⟨e1, f1⟩ := ih _ _ _ _ _ hr he
        rw [nextToken_errors, setNode_errors] at e1
        obtain ⟨e0, f0⟩ := (parserFills fuel).statement _ _ _ hq e1
        obtain ⟨v0, g0⟩ := f0 trivial
        refine ⟨e0, ?_⟩
        intro h gh hh hf
        obtain ⟨a, rfl⟩ := Option.isSome_iff_exists.mp v0
        dsimp only at f1
        have hfull : (Node.Program (ss ++ [some a])).slotsFilled = true := by
          simp only [Node.slotsFilled] at hf ⊢
          simp only [List.all_append, hf, List.all_cons, Option.isSome_some, List.all_nil,
            Bool.and_self]
        exact f1 h (growsWith_setNode _ _ (pending_call (pending_of_growsWith gh) g0) hh) hh
          hfull
      · exact Res.noConfusion hr
      · exact Res.noConfusion hr
    · simp only [Res.ok.injEq, Prod.mk.injEq] at hr
      obtain ⟨rfl, rfl⟩ := hr
      exact ⟨he, fun h gh hh hf => ⟨rfl, ss, hf, gh⟩⟩

theorem new_nodes (l : Lexer) : (Parser.new l).nodes = [] := rfl

/-- After a parse that recorded no error, no node of the heap has a null slot,
and the `Program` node is the first of the heap. -/
theorem parseSource_fills (fuel : Nat) (input : String) (prog : Nat) (p : Parser)
    (h : parseSource fuel input = .ok (prog, p)) (he : p.errors = []) :
    prog = 0 ∧ (∃ ss ext, p.nodes = Node.Program ss :: ext)
    ∧ ∀ n ∈ p.nodes, n.slotsFilled = true := by
  simp only [parseSource, parseProgram] at h
  obtain ⟨_, f⟩ := fills_parseProgramLoop _ _ _ _ _ _ h he
  obtain ⟨hp, ss1, hf, ext, hn, hext⟩ := f [] (GrowsWith.with_make _ _) rfl rfl
  rw [List.nil_append] at hn
  refine ⟨hp, ⟨ss1, ext, hn⟩, ?_⟩
  intro n hmem
  rw [hn] at hmem
  rcases List.mem_cons.mp hmem with hm | hm
  · rw [hm]; exact hf
  · exact hext n hm

/-- C35: when `parseProgram` returns with no error on record, the returned
`Program` is the first node of the heap and no node that the parse has
allocated, so none that the `Program` reaches, has a null child slot: not the
name or value of a `LetStatement`, the expression of an `ExpressionStatement`,
the operand of a prefix or the operands of an infix expression, the left or
index of an index expression, the condition or consequence of an
`IfExpression`, a parameter or the body of a function or macro literal, the
callee or an argument of a call, an element of an array literal, a key or value
of a hash literal, a statement of a block or of the program, nor the value of
a `ReturnStatement`. The alternative of an `IfExpression` is the one slot that
may be null. -/
theorem error_free_parse_leaves_no_null_slot (fuel : Nat) (input : String) (prog : Nat)
    (p : Parser) (h : parseSource fuel input = .ok (prog, p)) (he : p.errors = []) :
    prog = 0 ∧ (∃ ss ext, p.nodes = Node.Program ss :: ext)
    ∧ ∀ (a : Nat) (n : Node), p.nodes.get? a = some n → n.slotsFilled = true := by
  obtain ⟨h0, h1, h2⟩ := parseSource_fills fuel input prog p h he
  refine ⟨h0, h1, ?_⟩
  intro a n hn
  exact h2 n (List.get?_mem hn)

/-- Witness for C35 on a program with every kind of node: it parses without
error into 43 nodes, none with a null slot. In `if (x) { y }`, which parses
without error, the alternative of the `IfExpression` is null; `let x = ;` leaves
an error and a `LetStatement` whose value is null. -/
theorem error_free_parse_leaves_no_null_slot_witness :
    (∃ prog p, parseSource 60 ("let f = fn(a, b) \x7b if (a < b) \x7b return [a, b][0]; \x7d "
          ++ "else \x7b \x7b1: -a\x7d \x7d \x7d; f(1, \x22s\x22); if (!true) \x7b y \x7d "
          ++ "macro(x) \x7b x \x7d") = .ok (prog, p)
        ∧ p.errors = [] ∧ p.nodes.length = 43 ∧ prog = 0
        ∧ ∀ (a : Nat) (n : Node), p.nodes.get? a = some n → n.slotsFilled = true)
    ∧ (parseSource 60 "if (x) \x7b y \x7d").bind
        (fun x => .ok (x.2.errors, x.2.nodes.get? 2))
        = .ok ([], some (.IfExpression { type := .IF, literal := "if" } (some 3) (some 4) none))
    ∧ (parseSource 60 "let x = ;").bind
        (fun x => .ok (x.2.errors, x.2.nodes.get? 1))
        = .ok (["no prefix parse function for SEMICOLON found\n"],
            some (.LetStatement { type := .LET, literal := "let" } (some 2) none)) := by
  refine ⟨?_, by decide!, by decide!⟩
  have hd : (parseSource 60 ("let f = fn(a, b) \x7b if (a < b) \x7b return [a, b][0]; \x7d "
      ++ "else \x7b \x7b1: -a\x7d \x7d \x7d; f(1, \x22s\x22); if (!true) \x7b y \x7d "
      ++ "macro(x) \x7b x \x7d")).bind (fun x => .ok (x.2.errors, x.2.nodes.length))
      = .ok ([], 43) := by decide!
  cases hres : parseSource 60 ("let f = fn(a, b) \x7b if (a < b) \x7b return [a, b][0]; \x7d "
      ++ "else \x7b \x7b1: -a\x7d \x7d \x7d; f(1, \x22s\x22); if (!true) \x7b y \x7d "
      ++ "macro(x) \x7b x \x7d") with
  | ok x =>
    obtain ⟨prog, p⟩ := x
    rw [hres] at hd
    simp only [Res.bind, Res.ok.injEq, Prod.mk.injEq] at hd
    have hthm := error_free_parse_leaves_no_null_slot 60 _ prog p hres hd.1
    exact ⟨prog, p, rfl, hd.1, hd.2, hthm.1, hthm.2.2⟩
  | crash =>
    rw [hres] at hd
    exact Res.noConfusion hd
  | fuel =>
    rw [hres] at hd
    exact Res.noConfusion hd

/-! ## The macro pass on a program without macros (C40) -/

theorem list_set_get_self {α : Type} : ∀ (l : List α) (a : Nat) (n : α),
    l.get? a = some n → l.set a n = l := by
  intro l
  induction l with
  | nil => intro a n h; rfl
  | cons x xs ih =>
    intro a n h
    cases a with
    | zero =>
      simp only [List.get?_cons_zero, Option.some.injEq] at h
      rw [h]
      rfl
    | succ a =>
      simp only [List.get?_cons_succ] at h
      simp only [List.set_cons_succ, ih a n h]

theorem list_set_getD_self : ∀ (l : List NodePtr) (i : Nat), l.set i (l.getD i none) = l := by
  intro l
  induction l with
  | nil => intro i; rfl
  | cons x xs ih =>
    intro i
    cases i with
    | zero => rfl
    | succ i =>
      simp only [List.set_cons_succ, List.getD_cons_succ, ih i]

theorem Memory.set_nodes_self (m : Memory) (a : Nat) (n : Node) (h : m.nodes.get? a = some n) :
    { m with nodes := m.nodes.set a n } = m := by
  rw [list_set_get_self m.nodes a n h]

/-- A slot whose content `modify` returns unchanged, and which holds a node of
its class, is written back as it was. -/
theorem modifySlot_id (rec : Modifier) (c : NodeClass) (read : Node → NodePtr)
    (write : Node → NodePtr → Node) (a : Nat) (m : Memory) (n : Node)
    (hget : m.nodes.get? a = some n) (hrec : rec (read n) m = .ok (read n, m))
    (hcast : castNode m.nodes c (read n) = read n) (hw : write n (read n) = n) :
    modifySlot rec c read write a m = .ok m := by
  simp only [modifySlot, hget, hrec, hcast, hw]
  rw [Memory.set_nodes_self m a n hget]

theorem modifySlots_id (rec : Modifier) (c : NodeClass) (readAll : Node → List NodePtr)
    (writeAll : Node → List NodePtr → Node) (a : Nat) (m : Memory) (n : Node)
    (hget : m.nodes.get? a = some n) (hw : writeAll n (readAll n) = n)
    (hall : ∀ s ∈ readAll n, rec s m = .ok (s, m) ∧ castNode m.nodes c s = s) :
    ∀ (count i : Nat), i + count ≤ (readAll n).length →
      modifySlots rec c readAll writeAll a count i m = .ok m := by
  intro count
  induction count with
  | zero => intro i _; rfl
  | succ count ih =>
    intro i hlen
    have hi : i < (readAll n).length := by omega
    have hmem : (readAll n).getD i none ∈ readAll n := by
      rw [List.getD_eq_getElem _ _ hi]
      exact List.getElem_mem _
    obtain ⟨h1, h2⟩ := hall _ hmem
    have hs := modifySlot_id rec c (fun n => (readAll n).getD i none)
      (fun n r => writeAll n ((readAll n).set i r)) a m n hget h1 h2
      (by simp only [list_set_getD_self, hw])
    simp only [modifySlots, hs]
    exact ih (i + 1) (by omega)

theorem ptrBefore_trans {a b c : NodePtr} (h1 : ptrBefore a b = true) (h2 : ptrBefore b c = true) :
    ptrBefore a c = true := by
  cases a <;> cases b <;> cases c <;> simp [ptrBefore] at h1 h2 ⊢
  omega

theorem ptrBefore_ne {a b : NodePtr} (h : ptrBefore a b = true) : b ≠ a := by
  intro hc
  subst hc
  cases b <;> simp [ptrBefore] at h

theorem ptrMapInsert_last (k v : NodePtr) :
    ∀ acc : List (NodePtr × NodePtr), (∀ x ∈ acc, ptrBefore x.1 k = true) →
      ptrMapInsert k v acc = acc ++ [(k, v)] := by
  intro acc
  induction acc with
  | nil => intro _; rfl
  | cons x rest ih =>
    intro h
    obtain ⟨k0, v0⟩ := x
    have h0 : ptrBefore k0 k = true := h (k0, v0) (List.mem_cons_self _ _)
    have hne : k ≠ k0 := ptrBefore_ne h0
    have hih := ih (fun y hy => h y (List.mem_cons_of_mem _ hy))
    simp only [ptrMapInsert, if_neg hne, hih]
    cases k with
    | none => cases k0 <;> simp [ptrBefore] at h0
    | some a =>
      cases k0 with
      | none => simp
      | some b =>
        have hab : ¬ a < b := by
          simp only [ptrBefore, decide_eq_true_eq] at h0
          omega
        simp [hab]

theorem ptrKeysAscend_tail {x : NodePtr × NodePtr} {rest : List (NodePtr × NodePtr)}
    (h : ptrKeysAscend (x :: rest) = true) : ptrKeysAscend rest = true := by
  cases rest with
  | nil => rfl
  | cons y ys =>
    simp only [ptrKeysAscend, Bool.and_eq_true] at h
    exact h.2

theorem ptrKeysAscend_head :
    ∀ (rest : List (NodePtr × NodePtr)) (x : NodePtr × NodePtr),
      ptrKeysAscend (x :: rest) = true → ∀ y ∈ rest, ptrBefore x.1 y.1 = true := by
  intro rest
  induction rest with
  | nil => intro x _ y hy; simp at hy
  | cons z zs ih =>
    intro x h y hy
    simp only [ptrKeysAscend, Bool.and_eq_true] at h
    rcases List.mem_cons.mp hy with hy | hy
    · rw [hy]; exact h.1
    · exact ptrBefore_trans h.1 (ih z h.2 y hy)

theorem foldl_ptrMapInsert :
    ∀ (rest acc : List (NodePtr × NodePtr)),
      (∀ x ∈ acc, ∀ y ∈ rest, ptrBefore x.1 y.1 = true) → ptrKeysAscend rest = true →
      rest.foldl (fun acc kv => ptrMapInsert kv.1 kv.2 acc) acc = acc ++ rest := by
  intro rest
  induction rest with
  | nil => intro acc _ _; simp
  | cons kv rest ih =>
    intro acc hacc hs
    simp only [List.foldl_cons]
    rw [ptrMapInsert_last kv.1 kv.2 acc (fun x hx => hacc x hx kv (List.mem_cons_self _ _))]
    rw [ih (acc ++ [(kv.1, kv.2)]) ?_ (ptrKeysAscend_tail hs)]
    · simp
    · intro x hx y hy
      rcases List.mem_append.mp hx with hx | hx
      · exact hacc x hx y (List.mem_cons_of_mem _ hy)
      · simp only [List.mem_singleton] at hx
        rw [hx]
        exact ptrKeysAscend_head rest kv hs y hy

theorem modifyPairs_id (rec : Modifier) (m : Memory) :
    ∀ (pairs newPairs : List (NodePtr × NodePtr)),
      (∀ kv ∈ pairs, rec kv.1 m = .ok (kv.1, m) ∧ castNode m.nodes .Expression kv.1 = kv.1
        ∧ rec kv.2 m = .ok (kv.2, m) ∧ castNode m.nodes .Expression kv.2 = kv.2) →
      modifyPairs rec pairs newPairs m
        = .ok (pairs.foldl (fun acc kv => ptrMapInsert kv.1 kv.2 acc) newPairs, m) := by
  intro pairs
  induction pairs with
  | nil => intro newPairs _; rfl
  | cons kv rest ih =>
    intro newPairs h
    obtain ⟨k, v⟩ := kv
    obtain ⟨h1, h2, h3, h4⟩ := h (k, v) (List.mem_cons_self _ _)
    dsimp only at h1 h2 h3 h4
    simp only [modifyPairs, h1, h3, h2, h4, List.foldl_cons]
    exact ih _ (fun y hy => h y (List.mem_cons_of_mem _ hy))

/-- The pairs of a hash literal that `modify` returns unchanged are put back as
they were, when they stand in the order of their map. -/
theorem modifyPairs_sorted (rec : Modifier) (m : Memory) (pairs : List (NodePtr × NodePtr))
    (h : ∀ kv ∈ pairs, rec kv.1 m = .ok (kv.1, m) ∧ castNode m.nodes .Expression kv.1 = kv.1
        ∧ rec kv.2 m = .ok (kv.2, m) ∧ castNode m.nodes .Expression kv.2 = kv.2)
    (hs : ptrKeysAscend pairs = true) : modifyPairs rec pairs [] m = .ok (pairs, m) := by
  rw [modifyPairs_id rec m pairs [] h, foldl_ptrMapInsert pairs [] (by simp) hs]
  simp

theorem modify_none (fuel : Nat) (mod : Modifier) (m : Memory) :
    modify (fuel + 1) mod none m = mod none m := by
  rw [modify]

set_option maxHeartbeats 1000000 in
/-- On a tidy tree whose nodes the modifier returns as they are, `modify` with
more fuel than the depth of the tree returns its argument and leaves the
memory as it was. -/
theorem modify_tidy (mod : Modifier) (m : Memory) (lo hi : Nat)
    (hnone : mod none m = .ok (none, m))
    (hsome : ∀ a n, lo ≤ a → a < hi → m.nodes.get? a = some n →
      mod (some a) m = .ok (some a, m)) :
    ∀ (d fuel : Nat) (x : NodePtr), d < fuel → tidy m.nodes lo hi d x = true →
      modify fuel mod x m = .ok (x, m) := by
  intro d
  induction d with
  | zero =>
    intro fuel x hf ht
    obtain ⟨f, rfl⟩ : ∃ f, fuel = f + 1 := ⟨fuel - 1, by omega⟩
    cases x with
    | none => rw [modify_none, hnone]
    | some a => simp [tidy] at ht
  | succ d ih =>
    intro fuel x hf ht
    obtain ⟨f, rfl⟩ : ∃ f, fuel = f + 1 := ⟨fuel - 1, by omega⟩
    cases x with
    | none => rw [modify_none, hnone]
    | some a =>
      have hrec : ∀ y, tidy m.nodes lo hi d y = true → modify f mod y m = .ok (y, m) :=
        fun y hy => ih f y (by omega) hy
      cases hget : m.nodes.get? a with
      | none =>
        rw [tidy, hget] at ht
        simp at ht
      | some n =>
        have hrange : lo ≤ a ∧ a < hi := by
          have h0 := ht
          rw [tidy] at h0
          simp only [Bool.and_eq_true, decide_eq_true_eq] at h0
          exact h0.1
        have hself := hsome a n hrange.1 hrange.2 hget
        cases n with
        | Program ss =>
          rw [tidy, hget] at ht
          simp only [tidyNode, tidySlot, Bool.and_eq_true, decide_eq_true_eq, List.all_eq_true] at ht
          rw [modify]
          simp only [hget]
          rw [modifySlots_id (modify f mod) .Statement _ _ a m _ hget rfl
            (fun s hs => ⟨hrec s (ht.2 s hs).1, (ht.2 s hs).2⟩) ss.length 0 (by simp)]
          exact hself
        | InfixExpression tok l op r =>
          rw [tidy, hget] at ht
          simp only [tidyNode, tidySlot, Bool.and_eq_true, decide_eq_true_eq] at ht
          obtain ⟨_, ⟨t1, c1⟩, t2, c2⟩ := ht
          have r1 := hrec l t1
          have r2 := hrec r t2
          rw [modify]
          simp only [hget, modifySlot, r1, r2, c1, c2, Memory.set_nodes_self m a _ hget,
            Res.ok_bind]
          exact hself
        | Identifier tok v =>
          rw [modify]
          simp only [hget]
          exact hself
        | Boolean tok v =>
          rw [modify]
          simp only [hget]
          exact hself
        | IntegerLiteral tok v =>
          rw [modify]
          simp only [hget]
          exact hself
        | StringLiteral tok v =>
          rw [modify]
          simp only [hget]
          exact hself
        | ArrayLiteral tok es =>
          rw [tidy, hget] at ht
          simp only [tidyNode, tidySlot, Bool.and_eq_true, decide_eq_true_eq, List.all_eq_true] at ht
          rw [modify]
          simp only [hget]
          rw [modifySlots_id (modify f mod) .Expression _ _ a m _ hget rfl
            (fun s hs => ⟨hrec s (ht.2 s hs).1, (ht.2 s hs).2⟩) es.length 0 (by simp)]
          exact hself
        | IndexExpression tok l i =>
          rw [tidy, hget] at ht
          simp only [tidyNode, tidySlot, Bool.and_eq_true, decide_eq_true_eq] at ht
          obtain ⟨_, ⟨t1, c1⟩, t2, c2⟩ := ht
          have r1 := hrec l t1
          have r2 := hrec i t2
          rw [modify]
          simp only [hget, modifySlot, r1, r2, c1, c2, Memory.set_nodes_self m a _ hget,
            Res.ok_bind]
          exact hself
        | HashLiteral tok ps =>
          rw [tidy, hget] at ht
          simp only [tidyNode, tidySlot, Bool.and_eq_true, decide_eq_true_eq, List.all_eq_true] at ht
          obtain ⟨_, hall, hs⟩ := ht
          rw [modify]
          simp only [hget]
          rw [modifyPairs_sorted (modify f mod) m ps
            (fun kv hkv => ⟨hrec kv.1 (hall kv hkv).1.1, (hall kv hkv).1.2,
              hrec kv.2 (hall kv hkv).2.1, (hall kv hkv).2.2⟩) hs]
          simp only [Res.ok_bind, hget, Memory.set_nodes_self m a _ hget]
          exact hself
        | LetStatement tok name v =>
          rw [tidy, hget] at ht
          simp only [tidyNode, tidySlot, Bool.and_eq_true, decide_eq_true_eq] at ht
          obtain ⟨_, t1, c1⟩ := ht
          have r1 := hrec v t1
          rw [modify]
          simp only [hget, modifySlot, r1, c1, Memory.set_nodes_self m a _ hget, Res.ok_bind]
          exact hself
        | ReturnStatement tok v =>
          rw [tidy, hget] at ht
          simp only [tidyNode, tidySlot, Bool.and_eq_true, decide_eq_true_eq] at ht
          obtain ⟨_, t1, c1⟩ := ht
          have r1 := hrec v t1
          rw [modify]
          simp only [hget, modifySlot, r1, c1, Memory.set_nodes_self m a _ hget, Res.ok_bind]
          exact hself
        | ExpressionStatement tok e =>
          rw [tidy, hget] at ht
          simp only [tidyNode, tidySlot, Bool.and_eq_true, decide_eq_true_eq] at ht
          obtain ⟨_, t1, c1⟩ := ht
          have r1 := hrec e t1
          rw [modify]
          simp only [hget, modifySlot, r1, c1, Memory.set_nodes_self m a _ hget, Res.ok_bind]
          exact hself
        | BlockStatement tok ss =>
          rw [tidy, hget] at ht
          simp only [tidyNode, tidySlot, Bool.and_eq_true, decide_eq_true_eq, List.all_eq_true] at ht
          rw [modify]
          simp only [hget]
          rw [modifySlots_id (modify f mod) .Statement _ _ a m _ hget rfl
            (fun s hs => ⟨hrec s (ht.2 s hs).1, (ht.2 s hs).2⟩) ss.length 0 (by simp)]
          exact hself
        | PrefixExpression tok op r =>
          rw [tidy, hget] at ht
          simp only [tidyNode, tidySlot, Bool.and_eq_true, decide_eq_true_eq] at ht
          obtain ⟨_, t1, c1⟩ := ht
          have r1 := hrec r t1
          rw [modify]
          simp only [hget, modifySlot, r1, c1, Memory.set_nodes_self m a _ hget, Res.ok_bind]
          exact hself
        | IfExpression tok c q x =>
          rw [tidy, hget] at ht
          simp only [tidyNode, tidySlot, Bool.and_eq_true, decide_eq_true_eq] at ht
          obtain ⟨_, ⟨⟨t1, c1⟩, t2, c2⟩, t3, c3⟩ := ht
          have r1 := hrec c t1
          have r2 := hrec q t2
          have r3 := hrec x t3
          rw [modify]
          simp only [hget, modifySlot, r1, r2, c1, c2, Memory.set_nodes_self m a _ hget,
            Res.ok_bind]
          cases x with
          | none =>
            simp only [Res.pure_eq, Res.ok_bind]
            exact hself
          | some b =>
            simp only [hget, modifySlot, r3, c3, Memory.set_nodes_self m a _ hget, Res.ok_bind]
            exact hself
        | FunctionLiteral tok ps b =>
          rw [tidy, hget] at ht
          simp only [tidyNode, tidySlot, Bool.and_eq_true, decide_eq_true_eq, List.all_eq_true] at ht
          obtain ⟨_, hall, t1, c1⟩ := ht
          have r1 := hrec b t1
          rw [modify]
          simp only [hget]
          rw [modifySlots_id (modify f mod) .Identifier _ _ a m _ hget rfl
            (fun s hs => ⟨hrec s (hall s hs).1, (hall s hs).2⟩) ps.length 0 (by simp)]
          simp only [hget, modifySlot, r1, c1, Memory.set_nodes_self m a _ hget, Res.ok_bind]
          exact hself
        | CallExpression tok fn args =>
          rw [modify]
          simp only [hget]
          exact hself
        | MacroLiteral tok ps b =>
          rw [modify]
          simp only [hget]
          exact hself

theorem MacroCall_none (m : Memory) (env : Nat) (hb : bindsNoMacro m env) (f : NodePtr) :
    MacroCall f env m = none := by
  cases f with
  | none => rfl
  | some a =>
    simp only [MacroCall]
    split
    · next t value hn =>
      split
      · rfl
      · next o ho =>
        split
        · next ps b e hm => exact absurd hm (hb value o ho ps b e)
        · rfl
    · rfl

/-- In an environment that binds no name to a `Macro`, `expandMacros` with more
fuel than the depth of a tidy tree returns the tree and leaves the memory as
it was. -/
theorem expandMacros_tidy (fuel d lo hi : Nat) (x : NodePtr) (env : Nat) (m : Memory)
    (hb : bindsNoMacro m env) (hd : d < fuel) (ht : tidy m.nodes lo hi d x = true) :
    expandMacros fuel x env m = .ok (x, m) := by
  unfold expandMacros
  refine modify_tidy _ m lo hi rfl ?_ d fuel x hd ht
  intro a n _ _ hget
  simp only [hget]
  cases n <;> try rfl
  simp only [MacroCall_none m env hb]

theorem defineMacrosLoop_none (env : Nat) (m : Memory) :
    ∀ (ss : List NodePtr) (i : Nat) (defs : List Nat),
      (∀ s ∈ ss, isMacroDefinition m.nodes s = false) →
      defineMacrosLoop env ss i defs m = .ok (defs, m) := by
  intro ss
  induction ss with
  | nil => intro i defs _; rfl
  | cons s rest ih =>
    intro i defs h
    have h0 := h s (List.mem_cons_self _ _)
    simp only [defineMacrosLoop, h0, Bool.false_eq_true, ↓reduceIte]
    exact ih _ _ (fun y hy => h y (List.mem_cons_of_mem _ hy))

/-- On a program without a top-level macro definition `defineMacros` changes
nothing. -/
theorem defineMacros_none (program env : Nat) (m : Memory) (ss : List NodePtr)
    (hget : m.nodes.get? program = some (.Program ss))
    (hno : ∀ s ∈ ss, isMacroDefinition m.nodes s = false) :
    defineMacros program env m = .ok m := by
  simp only [defineMacros, hget, defineMacrosLoop_none env m ss 0 [] hno, List.reverse_nil,
    eraseDefinitions]
  rw [Memory.set_nodes_self m program _ hget]

theorem tidy_none (heap : NodeHeap) (lo hi d : Nat) : tidy heap lo hi d none = true := by
  cases d <;> rfl

theorem tidy_range {heap : NodeHeap} {lo hi d b : Nat} (h : tidy heap lo hi d (some b) = true) :
    lo ≤ b ∧ b < hi := by
  cases d with
  | zero => simp [tidy] at h
  | succ d =>
    rw [tidy] at h
    simp only [Bool.and_eq_true, decide_eq_true_eq] at h
    exact h.1

theorem castNode_congr {h H : NodeHeap} {b : Nat} (c : NodeClass) (hb : H.get? b = h.get? b) :
    castNode H c (some b) = castNode h c (some b) := by
  simp only [castNode, hb]

theorem tidyNode_mono (h H : NodeHeap) (t t1 : NodePtr → Bool)
    (hs : ∀ c x, tidySlot h t c x = true → tidySlot H t1 c x = true) (n : Node)
    (hn : tidyNode h t n = true) : tidyNode H t1 n = true := by
  cases n <;> simp only [tidyNode, Bool.and_eq_true, List.all_eq_true] at hn ⊢
  case Program ss => exact fun s hx => hs _ s (hn s hx)
  case BlockStatement tok ss => exact fun s hx => hs _ s (hn s hx)
  case ArrayLiteral tok es => exact fun s hx => hs _ s (hn s hx)
  case ExpressionStatement tok e => exact hs _ _ hn
  case ReturnStatement tok e => exact hs _ _ hn
  case LetStatement tok nm e => exact hs _ _ hn
  case PrefixExpression tok op e => exact hs _ _ hn
  case InfixExpression tok l op r => exact ⟨hs _ _ hn.1, hs _ _ hn.2⟩
  case IndexExpression tok l r => exact ⟨hs _ _ hn.1, hs _ _ hn.2⟩
  case IfExpression tok c q x => exact ⟨⟨hs _ _ hn.1.1, hs _ _ hn.1.2⟩, hs _ _ hn.2⟩
  case FunctionLiteral tok ps b => exact ⟨fun s hx => hs _ s (hn.1 s hx), hs _ _ hn.2⟩
  case HashLiteral tok ps =>
    exact ⟨fun kv hx => ⟨hs _ _ (hn.1 kv hx).1, hs _ _ (hn.1 kv hx).2⟩, hn.2⟩

/-- A tidy tree stays tidy when the heap changes outside its addresses, the
range of addresses widens and the bound on the depth grows. -/
theorem tidy_carry (h H : NodeHeap) (lo hi lo1 hi1 : Nat) (hlo : lo1 ≤ lo) (hhi : hi ≤ hi1)
    (hag : ∀ a, lo ≤ a → a < hi → H.get? a = h.get? a) :
    ∀ (d d1 : Nat) (x : NodePtr), d ≤ d1 → tidy h lo hi d x = true →
      tidy H lo1 hi1 d1 x = true := by
  intro d
  induction d with
  | zero =>
    intro d1 x _ ht
    cases x with
    | none => exact tidy_none _ _ _ _
    | some a => simp [tidy] at ht
  | succ d ih =>
    intro d1 x hd ht
    cases x with
    | none => exact tidy_none _ _ _ _
    | some a =>
      obtain ⟨e, rfl⟩ : ∃ e, d1 = e + 1 := ⟨d1 - 1, by omega⟩
      obtain ⟨r1, r2⟩ := tidy_range ht
      rw [tidy] at ht ⊢
      simp only [Bool.and_eq_true, decide_eq_true_eq] at ht ⊢
      refine ⟨⟨by omega, by omega⟩, ?_⟩
      rw [hag a r1 r2]
      cases hget : h.get? a with
      | none => rw [hget] at ht; simp at ht
      | some n =>
        rw [hget] at ht
        dsimp only at ht ⊢
        refine tidyNode_mono h H _ _ ?_ n ht.2
        intro c x hx
        simp only [tidySlot, Bool.and_eq_true, decide_eq_true_eq] at hx ⊢
        refine ⟨ih e x (by omega) hx.1, ?_⟩
        cases x with
        | none => rfl
        | some b =>
          obtain ⟨b1, b2⟩ := tidy_range hx.1
          rw [castNode_congr c (hag b b1 b2)]
          exact hx.2

theorem Keeps.keeps_refl (lo : Nat) (h : NodeHeap) : Keeps lo h h := fun _ _ _ => rfl

theorem Keeps.keeps_trans {lo : Nat} {h1 h2 h3 : NodeHeap} (a : Keeps lo h1 h2) (b : Keeps lo h2 h3) :
    Keeps lo h1 h3 := by
  intro x h0 hx
  have e1 := a x h0 hx
  have hx2 : x < h2.length := by
    by_contra hc
    rw [List.get?_eq_none.mpr (by omega)] at e1
    rw [List.get?_eq_get hx] at e1
    exact Option.noConfusion e1
  rw [b x h0 hx2, e1]

theorem Keeps.weaken {lo lo1 : Nat} {h1 h2 : NodeHeap} (a : Keeps lo h1 h2) (hl : lo ≤ lo1) :
    Keeps lo1 h1 h2 := fun x h0 hx => a x (by omega) hx

theorem HeapGrows.keeps {h h1 : NodeHeap} (g : HeapGrows h h1) (lo : Nat) : Keeps lo h h1 := by
  obtain ⟨ext, rfl, _⟩ := g
  intro x _ hx
  simp only [List.get?_eq_getElem?]
  exact List.getElem?_append_left hx

theorem HeapGrows.length_le {h h1 : NodeHeap} (g : HeapGrows h h1) : h.length ≤ h1.length := by
  obtain ⟨ext, rfl, _⟩ := g
  simp

theorem Keeps.keeps_set {lo s : Nat} (h : NodeHeap) (n : Node) (hs : s < lo) :
    Keeps lo h (h.set s n) := by
  intro x h0 _
  simp only [List.get?_eq_getElem?]
  exact List.getElem?_set_ne (by omega)

/-- What is `Good` in a heap fills a slot of a node that is allocated before it,
also after the heap has changed outside its addresses. -/
theorem Good.slot {h H : NodeHeap} {lo hi lo1 hi1 d : Nat} {c : NodeClass} {x : NodePtr}
    (g : Good h lo hi c x) (hh : hi ≤ h.length) (k : Keeps lo h H) (hlo : lo1 ≤ lo)
    (hhi : hi ≤ hi1) (hd : hi - lo ≤ d) : tidySlot H (tidy H lo1 hi1 d) c x = true := by
  have hag : ∀ a, lo ≤ a → a < hi → H.get? a = h.get? a := fun a a1 a2 => k a a1 (by omega)
  simp only [tidySlot, Bool.and_eq_true, decide_eq_true_eq]
  refine ⟨tidy_carry h H lo hi lo1 hi1 hlo hhi hag _ _ x hd g.1, ?_⟩
  cases x with
  | none => rfl
  | some b =>
    obtain ⟨b1, b2⟩ := tidy_range g.1
    rw [castNode_congr c (hag b b1 b2)]
    exact g.2

theorem Good.carry {h H : NodeHeap} {lo hi lo1 hi1 : Nat} {c : NodeClass} {x : NodePtr}
    (g : Good h lo hi c x) (hh : hi ≤ h.length) (k : Keeps lo h H) (hlo : lo1 ≤ lo)
    (hhi : hi ≤ hi1) : Good H lo1 hi1 c x := by
  have := Good.slot (d := hi1 - lo1) g hh k hlo hhi (by omega)
  simp only [tidySlot, Bool.and_eq_true, decide_eq_true_eq] at this
  exact this

theorem good_node {H : NodeHeap} {lo hi s : Nat} {n : Node} {c : NodeClass}
    (hget : H.get? s = some n) (h1 : lo ≤ s) (h2 : s < hi) (hc : n.isA c = true)
    (hk : tidyNode H (tidy H lo hi (hi - lo - 1)) n = true) : Good H lo hi c (some s) := by
  obtain ⟨e, he⟩ : ∃ e, hi - lo = e + 1 := ⟨hi - lo - 1, by omega⟩
  have he2 : hi - lo - 1 = e := by omega
  refine ⟨?_, ?_⟩
  · rw [he, tidy, hget]
    simp only [Bool.and_eq_true, decide_eq_true_eq]
    rw [he2] at hk
    exact ⟨⟨h1, h2⟩, hk⟩
  · simp only [castNode, hget, hc, ↓reduceIte]

theorem Good.none (heap : NodeHeap) (lo hi : Nat) (c : NodeClass) : Good heap lo hi c none :=
  ⟨tidy_none _ _ _ _, rfl⟩

theorem list_get_set_self {α : Type} : ∀ (l : List α) (s : Nat) (n : α), s < l.length →
    (l.set s n).get? s = some n := by
  intro l
  induction l with
  | nil => intro s n h; simp at h
  | cons x xs ih =>
    intro s n h
    cases s with
    | zero => rfl
    | succ s =>
      simp only [List.set_cons_succ, List.get?_cons_succ]
      exact ih s n (by simpa using h)

theorem list_get_append_self {α : Type} (l : List α) (n : α) :
    (l ++ [n]).get? l.length = some n := by
  simp only [List.get?_eq_getElem?]
  rw [List.getElem?_append_right (le_refl _)]
  simp

theorem Keeps.append (lo : Nat) (h ext : NodeHeap) : Keeps lo h (h ++ ext) := by
  intro x _ hx
  simp only [List.get?_eq_getElem?]
  exact List.getElem?_append_left hx

theorem Keeps.set_above {lo s : Nat} {h h1 : NodeHeap} (k : Keeps lo h h1) (n : Node)
    (hs : h.length ≤ s) : Keeps lo h (h1.set s n) := by
  intro x h0 hx
  rw [← k x h0 hx]
  simp only [List.get?_eq_getElem?]
  exact List.getElem?_set_ne (by omega)

theorem Fills.get {pre post : Prop} {p p1 : Parser} (f : Fills pre post p p1)
    (he : p1.errors = []) (hp : pre) :
    p.errors = [] ∧ post ∧ HeapGrows p.nodes p1.nodes ∧ p.nodes.length ≤ p1.nodes.length := by
  obtain ⟨e, g⟩ := f he
  obtain ⟨v, h⟩ := g hp
  exact ⟨e, v, h, h.length_le⟩

theorem tidy_node {H : NodeHeap} {lo hi s : Nat} {n : Node}
    (hget : H.get? s = some n) (h1 : lo ≤ s) (h2 : s < hi)
    (hk : tidyNode H (tidy H lo hi (hi - lo - 1)) n = true) :
    tidy H lo hi (hi - lo) (some s) = true := by
  obtain ⟨e, he⟩ : ∃ e, hi - lo = e + 1 := ⟨hi - lo - 1, by omega⟩
  have he2 : hi - lo - 1 = e := by omega
  rw [he, tidy, hget]
  simp only [Bool.and_eq_true, decide_eq_true_eq]
  rw [he2] at hk
  exact ⟨⟨h1, h2⟩, hk⟩

theorem good_leaf (h : NodeHeap) (n : Node) (c : NodeClass) (hc : n.isA c = true)
    (hk : ∀ t, tidyNode (h ++ [n]) t n = true) :
    Good (h ++ [n]) h.length (h ++ [n]).length c (some h.length) :=
  good_node (list_get_append_self h n) (le_refl _) (by simp) hc (hk _)

theorem fills_prefixFn (fuel : Nat) (pf : PrefixParseFn) (p : Parser) (left : NodePtr)
    (q : Parser)
    (hq : (match pf with
      | .parseIdentifier => parseIdentifier p
      | .parseIntegerLiteral => parseIntegerLiteral p
      | .parseStringLiteral => parseStringLiteral p
      | .parsePrefixExpression => parsePrefixExpression fuel p
      | .parseBoolean => parseBoolean p
      | .parseGroupedExpression => parseGroupedExpression fuel p
      | .parseArrayLiteral => parseArrayLiteral fuel p
      | .parseIfExpression => parseIfExpression fuel p
      | .parseFunctionLiteral => parseFunctionLiteral fuel p
      | .parseHashLiteral => parseHashLiteral fuel p
      | .parseMacroLiteral => parseMacroLiteral fuel p) = .ok (left, q)) :
    Fills True (left.isSome = true) p q := by
  cases pf
  · simp only [parseIdentifier, Res.ok.injEq, Prod.mk.injEq] at hq
    obtain ⟨rfl, rfl⟩ := hq
    exact fills_leaf p _ rfl
  · exact fills_parseIntegerLiteral p _ _ hq
  · simp only [parseStringLiteral, Res.ok.injEq, Prod.mk.injEq] at hq
    obtain ⟨rfl, rfl⟩ := hq
    exact fills_leaf p _ rfl
  · exact (parserFills fuel).prefixExpression _ _ _ hq
  · simp only [parseBoolean, Res.ok.injEq, Prod.mk.injEq] at hq
    obtain ⟨rfl, rfl⟩ := hq
    exact fills_leaf p _ rfl
  · exact (parserFills fuel).groupedExpression _ _ _ hq
  · exact (parserFills fuel).arrayLiteral _ _ _ hq
  · exact (parserFills fuel).ifExpression _ _ _ hq
  · exact (parserFills fuel).functionLiteral _ _ _ hq
  · exact (parserFills fuel).hashLiteral _ _ _ hq
  · exact (parserFills fuel).macroLiteral _ _ _ hq

theorem fills_infixFn (fuel : Nat) (f : InfixParseFn) (l : NodePtr) (p : Parser)
    (left : NodePtr) (q : Parser)
    (hq : (match f with
      | .parseInfixExpression => parseInfixExpression fuel l p
      | .parseCallExpression => parseCallExpression fuel l p
      | .parseIndexExpression => parseIndexExpression fuel l p) = .ok (left, q)) :
    Fills (l.isSome = true) (left.isSome = true) p q := by
  cases f
  · exact (parserFills fuel).infixExpression _ _ _ _ hq
  · exact (parserFills fuel).callExpression _ _ _ _ hq
  · exact (parserFills fuel).indexExpression _ _ _ _ hq

theorem tidies_parseStatement (fuel : Nat) (ih : ParserTidies fuel) (p : Parser)
    (r : NodePtr) (p1 : Parser) (hr : parseStatement (fuel + 1) p = .ok (r, p1))
    (he : p1.errors = []) : Good p1.nodes p.nodes.length p1.nodes.length .Statement r := by
  rw [parseStatement_unfold] at hr
  split at hr
  · exact ih.letStatement _ _ _ hr he
  · exact ih.returnStatement _ _ _ hr he
  · exact ih.expressionStatement _ _ _ hr he

theorem tidies_parseLetStatement (fuel : Nat) (ih : ParserTidies fuel) (p : Parser)
    (r : NodePtr) (p1 : Parser) (hr : parseLetStatement (fuel + 1) p = .ok (r, p1))
    (he : p1.errors = []) : Good p1.nodes p.nodes.length p1.nodes.length .Statement r := by
  rw [parseLetStatement_unfold] at hr
  dsimp only at hr
  split_ifs at hr with h1 h2
  · simp only [Res.ok.injEq, Prod.mk.injEq] at hr
    obtain ⟨rfl, rfl⟩ := hr
    exact absurd h1 (expectPeek_errors _ _ he).1
  · simp only [Res.ok.injEq, Prod.mk.injEq] at hr
    obtain ⟨rfl, rfl⟩ := hr
    exact absurd h2 (expectPeek_errors _ _ he).1
  · obtain ⟨⟨value, q⟩, hq, hr⟩ := Res.bind_eq_ok hr
    simp only [Res.pure_eq, Res.ok.injEq, Prod.mk.injEq] at hr
    obtain ⟨rfl, rfl⟩ := hr
    rw [semicolon_errors, setNode_errors] at he
    obtain ⟨e1, v, g, gl⟩ := ((parserFills fuel).expression _ _ _ _ hq).get he trivial
    have t := ih.expression _ _ _ _ hq he
    simp only [nextToken_nodes, expectPeek_nodes, setNode_nodes, make_nodes, make_fst,
      List.length_append, List.length_singleton, List.length_set, List.length_cons,
      List.length_nil] at t gl
    simp only [semicolon_nodes, setNode_nodes, make_fst, List.length_set]
    refine good_node (list_get_set_self _ _ _ (by omega)) (le_refl _) (by omega) rfl ?_
    simp only [tidyNode]
    exact t.slot (le_refl _) (Keeps.keeps_set _ _ (by omega)) (by omega) (le_refl _) (by omega)

theorem tidies_parseReturnStatement (fuel : Nat) (ih : ParserTidies fuel) (p : Parser)
    (r : NodePtr) (p1 : Parser) (hr : parseReturnStatement (fuel + 1) p = .ok (r, p1))
    (he : p1.errors = []) : Good p1.nodes p.nodes.length p1.nodes.length .Statement r := by
  rw [parseReturnStatement_unfold] at hr
  obtain ⟨⟨value, q⟩, hq, hr⟩ := Res.bind_eq_ok hr
  simp only [Res.pure_eq, Res.ok.injEq, Prod.mk.injEq] at hr
  obtain ⟨rfl, rfl⟩ := hr
  rw [semicolon_errors, setNode_errors] at he
  obtain ⟨e1, v, g, gl⟩ := ((parserFills fuel).expression _ _ _ _ hq).get he trivial
  have t := ih.expression _ _ _ _ hq he
  simp only [nextToken_nodes, make_nodes, List.length_append, List.length_singleton] at t gl
  simp only [semicolon_nodes, setNode_nodes, make_fst, List.length_set]
  refine good_node (list_get_set_self _ _ _ (by omega)) (le_refl _) (by omega) rfl ?_
  simp only [tidyNode]
  exact t.slot (le_refl _) (Keeps.keeps_set _ _ (by omega)) (by omega) (le_refl _) (by omega)

theorem tidies_parseExpressionStatement (fuel : Nat) (ih : ParserTidies fuel) (p : Parser)
    (r : NodePtr) (p1 : Parser) (hr : parseExpressionStatement (fuel + 1) p = .ok (r, p1))
    (he : p1.errors = []) : Good p1.nodes p.nodes.length p1.nodes.length .Statement r := by
  rw [parseExpressionStatement_unfold] at hr
  obtain ⟨⟨value, q⟩, hq, hr⟩ := Res.bind_eq_ok hr
  simp only [Res.pure_eq, Res.ok.injEq, Prod.mk.injEq] at hr
  obtain ⟨rfl, rfl⟩ := hr
  rw [semicolon_errors, setNode_errors] at he
  obtain ⟨e1, v, g, gl⟩ := ((parserFills fuel).expression _ _ _ _ hq).get he trivial
  have t := ih.expression _ _ _ _ hq he
  simp only [make_nodes, List.length_append, List.length_singleton] at t gl
  simp only [semicolon_nodes, setNode_nodes, make_fst, List.length_set]
  refine good_node (list_get_set_self _ _ _ (by omega)) (le_refl _) (by omega) rfl ?_
  simp only [tidyNode]
  exact t.slot (le_refl _) (Keeps.keeps_set _ _ (by omega)) (by omega) (le_refl _) (by omega)

theorem tidies_prefixFn (fuel : Nat) (ih : ParserTidies fuel) (pf : PrefixParseFn) (p : Parser)
    (left : NodePtr) (q : Parser)
    (hq : (match pf with
      | .parseIdentifier => parseIdentifier p
      | .parseIntegerLiteral => parseIntegerLiteral p
      | .parseStringLiteral => parseStringLiteral p
      | .parsePrefixExpression => parsePrefixExpression fuel p
      | .parseBoolean => parseBoolean p
      | .parseGroupedExpression => parseGroupedExpression fuel p
      | .parseArrayLiteral => parseArrayLiteral fuel p
      | .parseIfExpression => parseIfExpression fuel p
      | .parseFunctionLiteral => parseFunctionLiteral fuel p
      | .parseHashLiteral => parseHashLiteral fuel p
      | .parseMacroLiteral => parseMacroLiteral fuel p) = .ok (left, q))
    (he : q.errors = []) : Good q.nodes p.nodes.length q.nodes.length .Expression left := by
  cases pf
  · simp only [parseIdentifier, Res.ok.injEq, Prod.mk.injEq] at hq
    obtain ⟨rfl, rfl⟩ := hq
    exact good_leaf p.nodes _ _ rfl (fun _ => rfl)
  · simp only [parseIntegerLiteral] at hq
    split at hq
    · simp only [Res.ok.injEq, Prod.mk.injEq] at hq
      obtain ⟨rfl, rfl⟩ := hq
      simp only [setNode_nodes, make_fst, List.length_set]
      have hn : ∀ x : Parser, x.nodes = p.nodes ++ [Node.IntegerLiteral p.curToken 0] →
          Good (x.nodes.set p.nodes.length (Node.IntegerLiteral p.curToken ‹Int›)) p.nodes.length
            x.nodes.length .Expression (some p.nodes.length) := by
        intro x hx
        refine good_node (list_get_set_self _ _ _ (by rw [hx]; simp)) (le_refl _)
          (by rw [hx]; simp) rfl rfl
      split_ifs
      · exact hn _ rfl
      · exact hn _ rfl
    · exact Res.noConfusion hq
    · exact Res.noConfusion hq
  · simp only [parseStringLiteral, Res.ok.injEq, Prod.mk.injEq] at hq
    obtain ⟨rfl, rfl⟩ := hq
    exact good_leaf p.nodes _ _ rfl (fun _ => rfl)
  · exact ih.prefixExpression _ _ _ hq he
  · simp only [parseBoolean, Res.ok.injEq, Prod.mk.injEq] at hq
    obtain ⟨rfl, rfl⟩ := hq
    exact good_leaf p.nodes _ _ rfl (fun _ => rfl)
  · exact ih.groupedExpression _ _ _ hq he
  · exact ih.arrayLiteral _ _ _ hq he
  · exact ih.ifExpression _ _ _ hq he
  · exact ih.functionLiteral _ _ _ hq he
  · exact ih.hashLiteral _ _ _ hq he
  · exact ih.macroLiteral _ _ _ hq he

theorem tidies_parseExpression (fuel : Nat) (ih : ParserTidies fuel) (prc : prec) (p : Parser)
    (r : NodePtr) (p1 : Parser) (hr : parseExpression (fuel + 1) prc p = .ok (r, p1))
    (he : p1.errors = []) : Good p1.nodes p.nodes.length p1.nodes.length .Expression r := by
  rw [parseExpression_unfold] at hr
  split at hr
  · simp only [Res.ok.injEq, Prod.mk.injEq] at hr
    obtain ⟨rfl, rfl⟩ := hr
    simp [Parser.noPrefixParseFnError] at he
  · next pf hpf =>
    obtain ⟨⟨left, q⟩, hq, hr⟩ := Res.bind_eq_ok hr
    have e1 := ((parserFills fuel).expressionLoop _ _ _ _ _ hr he).1
    obtain ⟨_, v, g, gl⟩ := (fills_prefixFn fuel pf p left q hq).get e1 trivial
    exact ih.expressionLoop _ _ _ _ _ hr he v _ gl (tidies_prefixFn fuel ih pf p left q hq e1)

theorem tidies_parseExpressionLoop (fuel : Nat) (ih : ParserTidies fuel) (prc : prec)
    (l : NodePtr) (p : Parser) (r : NodePtr) (p1 : Parser)
    (hr : parseExpressionLoop (fuel + 1) prc l p = .ok (r, p1)) (he : p1.errors = [])
    (hl : l.isSome = true) (s : Nat) (hs : s ≤ p.nodes.length)
    (hg : Good p.nodes s p.nodes.length .Expression l) :
    Good p1.nodes s p1.nodes.length .Expression r := by
  rw [parseExpressionLoop_unfold] at hr
  split_ifs at hr with hc
  · split at hr
    · simp only [Res.ok.injEq, Prod.mk.injEq] at hr
      obtain ⟨rfl, rfl⟩ := hr
      exact hg
    · next f hf =>
      obtain ⟨⟨left, q⟩, hq, hr⟩ := Res.bind_eq_ok hr
      have e1 := ((parserFills fuel).expressionLoop _ _ _ _ _ hr he).1
      obtain ⟨_, v, g, gl⟩ := (fills_infixFn fuel f l p.nextToken left q hq).get e1 hl
      rw [nextToken_nodes] at gl
      refine ih.expressionLoop _ _ _ _ _ hr he v s (by omega) ?_
      cases f
      · exact ih.infixExpression _ p.nextToken _ _ hq e1 hl s hs hg
      · exact ih.callExpression _ p.nextToken _ _ hq e1 hl s hs
      · exact ih.indexExpression _ p.nextToken _ _ hq e1 hl s hs hg
  · simp only [Res.ok.injEq, Prod.mk.injEq] at hr
    obtain ⟨rfl, rfl⟩ := hr
    exact hg

theorem tidies_parsePrefixExpression (fuel : Nat) (ih : ParserTidies fuel) (p : Parser)
    (r : NodePtr) (p1 : Parser) (hr : parsePrefixExpression (fuel + 1) p = .ok (r, p1))
    (he : p1.errors = []) : Good p1.nodes p.nodes.length p1.nodes.length .Expression r := by
  rw [parsePrefixExpression_unfold] at hr
  obtain ⟨⟨right, q⟩, hq, hr⟩ := Res.bind_eq_ok hr
  simp only [Res.pure_eq, Res.ok.injEq, Prod.mk.injEq] at hr
  obtain ⟨rfl, rfl⟩ := hr
  rw [setNode_errors] at he
  obtain ⟨e1, v, g, gl⟩ := ((parserFills fuel).expression _ _ _ _ hq).get he trivial
  have t := ih.expression _ _ _ _ hq he
  simp only [nextToken_nodes, make_nodes, List.length_append, List.length_singleton] at t gl
  simp only [setNode_nodes, make_fst, List.length_set]
  refine good_node (list_get_set_self _ _ _ (by omega)) (le_refl _) (by omega) rfl ?_
  simp only [tidyNode]
  exact t.slot (le_refl _) (Keeps.keeps_set _ _ (by omega)) (by omega) (le_refl _) (by omega)

theorem tidies_parseInfixExpression (fuel : Nat) (ih : ParserTidies fuel) (l : NodePtr)
    (p : Parser) (r : NodePtr) (p1 : Parser)
    (hr : parseInfixExpression (fuel + 1) l p = .ok (r, p1)) (he : p1.errors = [])
    (_ : l.isSome = true) (s : Nat) (hs : s ≤ p.nodes.length)
    (hg : Good p.nodes s p.nodes.length .Expression l) :
    Good p1.nodes s p1.nodes.length .Expression r := by
  rw [parseInfixExpression_unfold] at hr
  obtain ⟨⟨right, q⟩, hq, hr⟩ := Res.bind_eq_ok hr
  simp only [Res.pure_eq, Res.ok.injEq, Prod.mk.injEq] at hr
  obtain ⟨rfl, rfl⟩ := hr
  rw [setNode_errors] at he
  obtain ⟨e1, v, g, gl⟩ := ((parserFills fuel).expression _ _ _ _ hq).get he trivial
  have t := ih.expression _ _ _ _ hq he
  simp only [nextToken_nodes, make_nodes, List.length_append, List.length_singleton] at t gl g
  simp only [setNode_nodes, make_fst, List.length_set]
  refine good_node (list_get_set_self _ _ _ (by omega)) hs (by omega) rfl ?_
  simp only [tidyNode, Bool.and_eq_true]
  refine ⟨?_, ?_⟩
  · exact hg.slot (le_refl _)
      (Keeps.set_above ((Keeps.append s p.nodes _).keeps_trans (g.keeps s)) _ (le_refl _))
      (le_refl _) (by omega) (by omega)
  · exact t.slot (le_refl _) (Keeps.keeps_set _ _ (by omega)) (by omega) (le_refl _) (by omega)

theorem tidies_parseGroupedExpression (fuel : Nat) (ih : ParserTidies fuel) (p : Parser)
    (r : NodePtr) (p1 : Parser) (hr : parseGroupedExpression (fuel + 1) p = .ok (r, p1))
    (he : p1.errors = []) : Good p1.nodes p.nodes.length p1.nodes.length .Expression r := by
  rw [parseGroupedExpression_unfold] at hr
  obtain ⟨⟨exp, q⟩, hq, hr⟩ := Res.bind_eq_ok hr
  dsimp only at hr
  split_ifs at hr with h1
  · simp only [Res.pure_eq, Res.ok.injEq, Prod.mk.injEq] at hr
    obtain ⟨rfl, rfl⟩ := hr
    exact absurd h1 (expectPeek_errors _ _ he).1
  · simp only [Res.pure_eq, Res.ok.injEq, Prod.mk.injEq] at hr
    obtain ⟨rfl, rfl⟩ := hr
    have e2 := (expectPeek_errors _ _ he).2
    have t := ih.expression _ _ _ _ hq e2
    rw [nextToken_nodes] at t
    rw [expectPeek_nodes]
    exact t

theorem tidies_parseIndexExpression (fuel : Nat) (ih : ParserTidies fuel) (l : NodePtr)
    (p : Parser) (r : NodePtr) (p1 : Parser)
    (hr : parseIndexExpression (fuel + 1) l p = .ok (r, p1)) (he : p1.errors = [])
    (_ : l.isSome = true) (s : Nat) (hs : s ≤ p.nodes.length)
    (hg : Good p.nodes s p.nodes.length .Expression l) :
    Good p1.nodes s p1.nodes.length .Expression r := by
  rw [parseIndexExpression_unfold] at hr
  obtain ⟨⟨index, q⟩, hq, hr⟩ := Res.bind_eq_ok hr
  dsimp only at hr
  split_ifs at hr with h1
  · simp only [Res.pure_eq, Res.ok.injEq, Prod.mk.injEq] at hr
    obtain ⟨rfl, rfl⟩ := hr
    exact absurd h1 (expectPeek_errors _ _ he).1
  · simp only [Res.pure_eq, Res.ok.injEq, Prod.mk.injEq] at hr
    obtain ⟨rfl, rfl⟩ := hr
    have e2 := (expectPeek_errors _ _ he).2
    rw [setNode_errors] at e2
    obtain ⟨e1, v, g, gl⟩ := ((parserFills fuel).expression _ _ _ _ hq).get e2 trivial
    have t := ih.expression _ _ _ _ hq e2
    simp only [nextToken_nodes, make_nodes, List.length_append, List.length_singleton] at t gl g
    simp only [expectPeek_nodes, setNode_nodes, make_fst, List.length_set]
    refine good_node (list_get_set_self _ _ _ (by omega)) hs (by omega) rfl ?_
    simp only [tidyNode, Bool.and_eq_true]
    refine ⟨?_, ?_⟩
    · exact hg.slot (le_refl _)
        (Keeps.set_above ((Keeps.append s p.nodes _).keeps_trans (g.keeps s)) _ (le_refl _))
        (le_refl _) (by omega) (by omega)
    · exact t.slot (le_refl _) (Keeps.keeps_set _ _ (by omega)) (by omega) (le_refl _) (by omega)

theorem tidies_parseCallExpression (fuel : Nat) (f : NodePtr)
    (p : Parser) (r : NodePtr) (p1 : Parser)
    (hr : parseCallExpression (fuel + 1) f p = .ok (r, p1)) (he : p1.errors = [])
    (_ : f.isSome = true) (s : Nat) (hs : s ≤ p.nodes.length) :
    Good p1.nodes s p1.nodes.length .Expression r := by
  rw [parseCallExpression_unfold] at hr
  obtain ⟨⟨arguments, q⟩, hq, hr⟩ := Res.bind_eq_ok hr
  simp only [Res.pure_eq, Res.ok.injEq, Prod.mk.injEq] at hr
  obtain ⟨rfl, rfl⟩ := hr
  rw [setNode_errors] at he
  obtain ⟨e1, v, g, gl⟩ := ((parserFills fuel).expressionList _ _ _ _ hq).get he trivial
  simp only [make_nodes, List.length_append, List.length_singleton] at gl
  simp only [setNode_nodes, make_fst, List.length_set]
  exact good_node (list_get_set_self _ _ _ (by omega)) hs (by omega) rfl rfl

theorem tidies_parseArrayLiteral (fuel : Nat) (ih : ParserTidies fuel) (p : Parser)
    (r : NodePtr) (p1 : Parser) (hr : parseArrayLiteral (fuel + 1) p = .ok (r, p1))
    (he : p1.errors = []) : Good p1.nodes p.nodes.length p1.nodes.length .Expression r := by
  rw [parseArrayLiteral_unfold] at hr
  obtain ⟨⟨elements, q⟩, hq, hr⟩ := Res.bind_eq_ok hr
  simp only [Res.pure_eq, Res.ok.injEq, Prod.mk.injEq] at hr
  obtain ⟨rfl, rfl⟩ := hr
  rw [setNode_errors] at he
  obtain ⟨e1, v, g, gl⟩ := ((parserFills fuel).expressionList _ _ _ _ hq).get he trivial
  have t := ih.expressionList _ _ _ _ hq he
  simp only [make_nodes, List.length_append, List.length_singleton] at t gl
  simp only [setNode_nodes, make_fst, List.length_set]
  refine good_node (list_get_set_self _ _ _ (by omega)) (le_refl _) (by omega) rfl ?_
  simp only [tidyNode, List.all_eq_true]
  intro x hx
  exact (t x hx).slot (le_refl _) (Keeps.keeps_set _ _ (by omega)) (by omega) (le_refl _) (by omega)

theorem tidies_parseExpressionList (fuel : Nat) (ih : ParserTidies fuel) (t : TokenType)
    (p : Parser) (r : List NodePtr) (p1 : Parser)
    (hr : parseExpressionList (fuel + 1) t p = .ok (r, p1)) (he : p1.errors = []) :
    ∀ x ∈ r, Good p1.nodes p.nodes.length p1.nodes.length .Expression x := by
  rw [parseExpressionList_unfold] at hr
  split_ifs at hr with hc
  · simp only [Res.ok.injEq, Prod.mk.injEq] at hr
    obtain ⟨rfl, rfl⟩ := hr
    intro x hx
    simp at hx
  · obtain ⟨⟨e, q1⟩, hq1, hr⟩ := Res.bind_eq_ok hr
    obtain ⟨⟨list, q2⟩, hq2, hr⟩ := Res.bind_eq_ok hr
    dsimp only at hr
    split_ifs at hr with h1
    · simp only [Res.pure_eq, Res.ok.injEq, Prod.mk.injEq] at hr
      obtain ⟨rfl, rfl⟩ := hr
      exact absurd h1 (expectPeek_errors _ _ he).1
    · simp only [Res.pure_eq, Res.ok.injEq, Prod.mk.injEq] at hr
      obtain ⟨rfl, rfl⟩ := hr
      have e2 := (expectPeek_errors _ _ he).2
      have e1 := ((parserFills fuel).expressionListLoop _ _ _ _ hq2 e2).1
      obtain ⟨_, v0, g0, gl0⟩ := ((parserFills fuel).expression _ _ _ _ hq1).get e1 trivial
      have t0 := ih.expression _ _ _ _ hq1 e1
      rw [nextToken_nodes] at t0 gl0
      rw [expectPeek_nodes]
      refine ih.expressionListLoop _ _ _ _ hq2 e2 (by simpa using v0) _ gl0 ?_
      intro x hx
      simp only [List.mem_singleton] at hx
      rw [hx]
      exact t0

theorem tidies_parseExpressionListLoop (fuel : Nat) (ih : ParserTidies fuel)
    (l : List NodePtr) (p : Parser) (r : List NodePtr) (p1 : Parser)
    (hr : parseExpressionListLoop (fuel + 1) l p = .ok (r, p1)) (he : p1.errors = [])
    (hl : l.all Option.isSome = true) (s : Nat) (hs : s ≤ p.nodes.length)
    (hg : ∀ x ∈ l, Good p.nodes s p.nodes.length .Expression x) :
    ∀ x ∈ r, Good p1.nodes s p1.nodes.length .Expression x := by
  rw [parseExpressionListLoop_unfold] at hr
  split_ifs at hr with hc
  · obtain ⟨⟨e, q1⟩, hq1, hr⟩ := Res.bind_eq_ok hr
    have e1 := ((parserFills fuel).expressionListLoop _ _ _ _ hr he).1
    obtain ⟨_, v0, g0, gl0⟩ := ((parserFills fuel).expression _ _ _ _ hq1).get e1 trivial
    have t0 := ih.expression _ _ _ _ hq1 e1
    simp only [nextToken_nodes] at t0 gl0 g0
    refine ih.expressionListLoop _ _ _ _ hr he ?_ s (by omega) ?_
    · simp only [List.all_append, hl, List.all_cons, v0, List.all_nil, Bool.and_self]
    · intro x hx
      rcases List.mem_append.mp hx with hx | hx
      · exact (hg x hx).carry (le_refl _) (g0.keeps s) (le_refl _) gl0
      · simp only [List.mem_singleton] at hx
        rw [hx]
        exact t0.carry (le_refl _) (Keeps.keeps_refl _ _) hs (le_refl _)
  · simp only [Res.ok.injEq, Prod.mk.injEq] at hr
    obtain ⟨rfl, rfl⟩ := hr
    exact hg

theorem tidies_parseFunctionParametersLoop :
    ∀ (fuel : Nat) (ids : List NodePtr) (p : Parser) (r : List NodePtr) (p1 : Parser),
      parseFunctionParametersLoop fuel ids p = .ok (r, p1) →
      ∀ s, s ≤ p.nodes.length →
      (∀ x ∈ ids, Good p.nodes s p.nodes.length .Identifier x) →
      ∀ x ∈ r, Good p1.nodes s p1.nodes.length .Identifier x := by
  intro fuel
  induction fuel with
  | zero => intro ids p r p1 hr; exact Res.noConfusion hr
  | succ fuel ih =>
    intro ids p r p1 hr s hs hg
    rw [parseFunctionParametersLoop_unfold] at hr
    split_ifs at hr with hc
    · refine ih _ _ _ _ hr s ?_ ?_
      · simp only [make_nodes, nextToken_nodes, List.length_append, List.length_singleton]
        omega
      · intro x hx
        simp only [make_nodes, nextToken_nodes, List.length_append, List.length_singleton]
        rcases List.mem_append.mp hx with hx | hx
        · exact (hg x hx).carry (le_refl _) (Keeps.append _ _ _) (le_refl _) (by omega)
        · simp only [List.mem_singleton] at hx
          rw [hx]
          exact (good_leaf p.nodes (Node.Identifier _ _) .Identifier rfl
            (fun _ => rfl)).carry (by simp) (Keeps.keeps_refl _ _) hs (by simp)
    · simp only [Res.ok.injEq, Prod.mk.injEq] at hr
      obtain ⟨rfl, rfl⟩ := hr
      exact hg

theorem tidies_parseFunctionParameters (fuel : Nat) (p : Parser) (r : List NodePtr)
    (p1 : Parser) (hr : parseFunctionParameters fuel p = .ok (r, p1)) :
    ∀ x ∈ r, Good p1.nodes p.nodes.length p1.nodes.length .Identifier x := by
  simp only [parseFunctionParameters] at hr
  split_ifs at hr with hc
  · simp only [Res.ok.injEq, Prod.mk.injEq] at hr
    obtain ⟨rfl, rfl⟩ := hr
    intro x hx
    simp at hx
  · split at hr
    · next ids q hq =>
      have t := tidies_parseFunctionParametersLoop _ _ _ _ _ hq p.nodes.length
        (by simp only [make_nodes, nextToken_nodes, List.length_append, List.length_singleton]
            omega)
        (by
          intro x hx
          simp only [List.mem_singleton] at hx
          rw [hx]
          exact good_leaf p.nodes (Node.Identifier _ _) .Identifier rfl (fun _ => rfl))
      split_ifs at hr with h1
      · simp only [Res.ok.injEq, Prod.mk.injEq] at hr
        obtain ⟨rfl, rfl⟩ := hr
        rw [expectPeek_nodes]
        exact t
      · simp only [Res.ok.injEq, Prod.mk.injEq] at hr
        obtain ⟨rfl, rfl⟩ := hr
        intro x hx
        simp at hx
    · exact Res.noConfusion hr
    · exact Res.noConfusion hr

theorem ptrMapAssign_all (P Q : NodePtr → Prop) (key value : NodePtr) (hk : P key)
    (hv : Q value) :
    ∀ pairs : List (NodePtr × NodePtr), (∀ kv ∈ pairs, P kv.1 ∧ Q kv.2) →
      ∀ kv ∈ ptrMapAssign key value pairs, P kv.1 ∧ Q kv.2 := by
  intro pairs
  induction pairs with
  | nil =>
    intro _ kv hkv
    simp only [ptrMapAssign, List.mem_singleton] at hkv
    rw [hkv]
    exact ⟨hk, hv⟩
  | cons x rest ih =>
    intro h kv hkv
    obtain ⟨k0, v0⟩ := x
    have h0 := h (k0, v0) (List.mem_cons_self _ _)
    have hrest : ∀ kv ∈ rest, P kv.1 ∧ Q kv.2 := fun y hy => h y (List.mem_cons_of_mem _ hy)
    simp only [ptrMapAssign] at hkv
    split_ifs at hkv with h1 h2
    · rcases List.mem_cons.mp hkv with hx | hx
      · rw [hx]; exact ⟨h0.1, hv⟩
      · exact hrest kv hx
    · rcases List.mem_cons.mp hkv with hx | hx
      · rw [hx]; exact ⟨hk, hv⟩
      · exact h kv hx
    · rcases List.mem_cons.mp hkv with hx | hx
      · rw [hx]; exact h0
      · exact ih hrest kv hx

theorem ptrKeysAscend_cons (k v : NodePtr) :
    ∀ rest : List (NodePtr × NodePtr), ptrKeysAscend rest = true →
      (∀ y ∈ rest, ptrBefore k y.1 = true) → ptrKeysAscend ((k, v) :: rest) = true := by
  intro rest hs hb
  cases rest with
  | nil => rfl
  | cons y ys =>
    obtain ⟨k2, v2⟩ := y
    simp only [ptrKeysAscend, Bool.and_eq_true]
    exact ⟨hb (k2, v2) (List.mem_cons_self _ _), hs⟩

theorem ptrMapAssign_keys (key value : NodePtr) :
    ∀ (pairs : List (NodePtr × NodePtr)) (kv : NodePtr × NodePtr),
      kv ∈ ptrMapAssign key value pairs → kv.1 = key ∨ ∃ y ∈ pairs, kv.1 = y.1 := by
  intro pairs kv hkv
  exact (ptrMapAssign_all (fun x => x = key ∨ ∃ y ∈ pairs, x = y.1) (fun _ => True) key value
    (Or.inl rfl) trivial pairs (fun y hy => ⟨Or.inr ⟨y, hy, rfl⟩, trivial⟩) kv hkv).1

/-- Assignment into a pointer-keyed map keeps the keys in ascending order. -/
theorem ptrMapAssign_ascend (key value : NodePtr) :
    ∀ pairs : List (NodePtr × NodePtr), ptrKeysAscend pairs = true →
      ptrKeysAscend (ptrMapAssign key value pairs) = true := by
  intro pairs
  induction pairs with
  | nil => intro _; rfl
  | cons x rest ih =>
    intro hs
    obtain ⟨k0, v0⟩ := x
    have hhead := ptrKeysAscend_head rest (k0, v0) hs
    have htail := ptrKeysAscend_tail hs
    simp only [ptrMapAssign]
    split_ifs with h1 h2
    · exact ptrKeysAscend_cons k0 value rest htail hhead
    · refine ptrKeysAscend_cons key value _ hs ?_
      have hb : ptrBefore key k0 = true := by
        cases key with
        | none =>
          cases k0 with
          | none => exact absurd rfl h1
          | some b => rfl
        | some a =>
          cases k0 with
          | none => simp at h2
          | some b => simpa [ptrBefore] using h2
      intro y hy
      rcases List.mem_cons.mp hy with hy | hy
      · rw [hy]; exact hb
      · exact ptrBefore_trans hb (hhead y hy)
    · refine ptrKeysAscend_cons k0 v0 _ (ih htail) ?_
      have hb : ptrBefore k0 key = true := by
        cases key with
        | none => simp at h2
        | some a =>
          cases k0 with
          | none => rfl
          | some b =>
            have hne : a ≠ b := fun hc => h1 (by rw [hc])
            simp only [decide_eq_true_eq] at h2
            simp only [ptrBefore, decide_eq_true_eq]
            omega
      intro y hy
      rcases ptrMapAssign_keys key value rest y hy with hk | ⟨z, hz, hk⟩
      · rw [hk]; exact hb
      · rw [hk]; exact hhead z hz

theorem tidies_parseHashLiteral (fuel : Nat) (ih : ParserTidies fuel) (p : Parser)
    (r : NodePtr) (p1 : Parser) (hr : parseHashLiteral (fuel + 1) p = .ok (r, p1))
    (he : p1.errors = []) : Good p1.nodes p.nodes.length p1.nodes.length .Expression r := by
  rw [parseHashLiteral_unfold] at hr
  obtain ⟨hres, ps1, hget, hall, hasc⟩ := ih.hashLiteralLoop _ _ _ _ _ _ hr he
    (by simp only [make_fst, make_nodes, List.length_append, List.length_singleton]; omega)
    (list_get_append_self p.nodes _) rfl (by intro kv hkv; simp at hkv) rfl
  rw [hres]
  simp only [make_fst] at hget hall ⊢
  have hlt : p.nodes.length < p1.nodes.length := by
    by_contra hc
    rw [List.get?_eq_none.mpr (by omega)] at hget
    exact Option.noConfusion hget
  refine good_node hget (le_refl _) hlt rfl ?_
  simp only [tidyNode, Bool.and_eq_true, List.all_eq_true]
  refine ⟨fun kv hkv => ⟨?_, ?_⟩, hasc⟩
  · exact (hall kv hkv).1.slot (le_refl _) (Keeps.keeps_refl _ _) (by omega) (le_refl _) (by omega)
  · exact (hall kv hkv).2.slot (le_refl _) (Keeps.keeps_refl _ _) (by omega) (le_refl _) (by omega)

theorem tidies_parseHashLiteralLoop (fuel : Nat) (ih : ParserTidies fuel) (tok : Token)
    (hash : Nat) (ps : List (NodePtr × NodePtr)) (p : Parser) (r : NodePtr) (p1 : Parser)
    (hr : parseHashLiteralLoop (fuel + 1) tok hash ps p = .ok (r, p1)) (he : p1.errors = [])
    (hlt : hash < p.nodes.length) (hget : p.nodes.get? hash = some (.HashLiteral tok ps))
    (hfull : (Node.HashLiteral tok ps).slotsFilled = true)
    (hall : ∀ kv ∈ ps, Good p.nodes (hash + 1) p.nodes.length .Expression kv.1
      ∧ Good p.nodes (hash + 1) p.nodes.length .Expression kv.2)
    (hasc : ptrKeysAscend ps = true) :
    r = some hash ∧ ∃ ps1, p1.nodes.get? hash = some (.HashLiteral tok ps1)
      ∧ (∀ kv ∈ ps1, Good p1.nodes (hash + 1) p1.nodes.length .Expression kv.1
        ∧ Good p1.nodes (hash + 1) p1.nodes.length .Expression kv.2)
      ∧ ptrKeysAscend ps1 = true := by
  rw [parseHashLiteralLoop_unfold] at hr
  split_ifs at hr with hc
  · obtain ⟨⟨key, q1⟩, hq1, hr⟩ := Res.bind_eq_ok hr
    dsimp only at hr
    split_ifs at hr with h1
    · simp only [Res.pure_eq, Res.ok.injEq, Prod.mk.injEq] at hr
      obtain ⟨rfl, rfl⟩ := hr
      exact absurd h1 (expectPeek_errors _ _ he).1
    · obtain ⟨⟨value, q2⟩, hq2, hr⟩ := Res.bind_eq_ok hr
      dsimp only at hr
      have hmain : ∀ q3 : Parser, q3.errors = q2.errors → q3.nodes = q2.nodes →
          parseHashLiteralLoop fuel tok hash (ptrMapAssign key value ps)
            (q3.setNode hash (.HashLiteral tok (ptrMapAssign key value ps))) = .ok (r, p1) →
          r = some hash ∧ ∃ ps1, p1.nodes.get? hash = some (.HashLiteral tok ps1)
            ∧ (∀ kv ∈ ps1, Good p1.nodes (hash + 1) p1.nodes.length .Expression kv.1
              ∧ Good p1.nodes (hash + 1) p1.nodes.length .Expression kv.2)
            ∧ ptrKeysAscend ps1 = true := by
        intro q3 he3 hn3 hloop
        have e3 := ((parserFills fuel).hashLiteralLoop _ _ _ _ _ _ hloop he).1
        rw [setNode_errors, he3] at e3
        obtain ⟨e2, v2, g2, gl2⟩ := ((parserFills fuel).expression _ _ _ _ hq2).get e3 trivial
        have t2 := ih.expression _ _ _ _ hq2 e3
        rw [nextToken_errors] at e2
        have e1 := (expectPeek_errors _ _ e2).2
        obtain ⟨e0, v0, g0, gl0⟩ := ((parserFills fuel).expression _ _ _ _ hq1).get e1 trivial
        have t0 := ih.expression _ _ _ _ hq1 e1
        simp only [nextToken_nodes, expectPeek_nodes] at t2 gl2 g2 t0 gl0 g0
        have hfull1 : (Node.HashLiteral tok (ptrMapAssign key value ps)).slotsFilled = true :=
          ptrMapAssign_filled key value v0 v2 ps hfull
        have hk1 : Keeps (hash + 1) p.nodes
            (q2.nodes.set hash (.HashLiteral tok (ptrMapAssign key value ps))) :=
          ((g0.keeps _).keeps_trans (g2.keeps _)).keeps_trans (Keeps.keeps_set _ _ (by omega))
        have hk2 : Keeps (hash + 1) q1.nodes
            (q2.nodes.set hash (.HashLiteral tok (ptrMapAssign key value ps))) :=
          (g2.keeps _).keeps_trans (Keeps.keeps_set _ _ (by omega))
        have hk3 : Keeps (hash + 1) q2.nodes
            (q2.nodes.set hash (.HashLiteral tok (ptrMapAssign key value ps))) :=
          Keeps.keeps_set _ _ (by omega)
        refine ih.hashLiteralLoop _ _ _ _ _ _ hloop he ?_ ?_ hfull1 ?_
          (ptrMapAssign_ascend key value ps hasc)
        · simp only [setNode_nodes, List.length_set, hn3]
          omega
        · simp only [setNode_nodes, hn3]
          exact list_get_set_self _ _ _ (by omega)
        · simp only [setNode_nodes, List.length_set, hn3]
          refine ptrMapAssign_all _ _ key value ?_ ?_ ps ?_
          · exact t0.carry (le_refl _) (hk2.weaken (by omega)) (by omega) (by omega)
          · exact t2.carry (le_refl _) (hk3.weaken (by omega)) (by omega) (le_refl _)
          · intro kv hkv
            exact ⟨(hall kv hkv).1.carry (le_refl _) hk1 (le_refl _) (by omega),
              (hall kv hkv).2.carry (le_refl _) hk1 (le_refl _) (by omega)⟩
      split_ifs at hr with h2 h3
      · simp only [Res.pure_eq, Res.ok.injEq, Prod.mk.injEq] at hr
        obtain ⟨rfl, rfl⟩ := hr
        exact absurd h3 (expectPeek_errors _ _ he).1
      · have h4 := expectPeek_true _ _ h3
        rw [h4.2, setNode_nextToken] at hr
        exact hmain q2.nextToken rfl rfl hr
      · exact hmain q2 rfl rfl hr
  · dsimp only at hr
    split_ifs at hr with h1
    · simp only [Res.ok.injEq, Prod.mk.injEq] at hr
      obtain ⟨rfl, rfl⟩ := hr
      exact absurd h1 (expectPeek_errors _ _ he).1
    · simp only [Res.ok.injEq, Prod.mk.injEq] at hr
      obtain ⟨rfl, rfl⟩ := hr
      rw [expectPeek_nodes]
      exact ⟨rfl, ps, hget, hall, hasc⟩

theorem tidies_parseBlockStatement (fuel : Nat) (ih : ParserTidies fuel) (p : Parser)
    (r : NodePtr) (p1 : Parser) (hr : parseBlockStatement (fuel + 1) p = .ok (r, p1))
    (he : p1.errors = []) : Good p1.nodes p.nodes.length p1.nodes.length .BlockStatement r := by
  rw [parseBlockStatement_unfold] at hr
  obtain ⟨hres, ss1, hget, hall⟩ := ih.blockStatementLoop _ _ _ _ _ _ hr he
    (by simp only [make_fst, make_nodes, nextToken_nodes, List.length_append,
          List.length_singleton]; omega)
    (list_get_append_self p.nodes _) rfl (by intro kv hkv; simp at hkv)
  rw [hres]
  simp only [make_fst] at hget hall ⊢
  have hlt : p.nodes.length < p1.nodes.length := by
    by_contra hc
    rw [List.get?_eq_none.mpr (by omega)] at hget
    exact Option.noConfusion hget
  refine good_node hget (le_refl _) hlt rfl ?_
  simp only [tidyNode, List.all_eq_true]
  intro x hx
  exact (hall x hx).slot (le_refl _) (Keeps.keeps_refl _ _) (by omega) (le_refl _) (by omega)

theorem tidies_parseBlockStatementLoop (fuel : Nat) (ih : ParserTidies fuel) (tok : Token)
    (block : Nat) (ss : List NodePtr) (p : Parser) (r : NodePtr) (p1 : Parser)
    (hr : parseBlockStatementLoop (fuel + 1) tok block ss p = .ok (r, p1))
    (he : p1.errors = []) (hlt : block < p.nodes.length)
    (hget : p.nodes.get? block = some (.BlockStatement tok ss))
    (hfull : (Node.BlockStatement tok ss).slotsFilled = true)
    (hall : ∀ x ∈ ss, Good p.nodes (block + 1) p.nodes.length .Statement x) :
    r = some block ∧ ∃ ss1, p1.nodes.get? block = some (.BlockStatement tok ss1)
      ∧ ∀ x ∈ ss1, Good p1.nodes (block + 1) p1.nodes.length .Statement x := by
  rw [parseBlockStatementLoop_unfold] at hr
  split_ifs at hr with hc
  · obtain ⟨⟨stmt, q⟩, hq, hr⟩ := Res.bind_eq_ok hr
    dsimp only at hr
    have e1 := ((parserFills fuel).blockStatementLoop _ _ _ _ _ _ hr he).1
    rw [nextToken_errors, setNode_errors] at e1
    obtain ⟨e0, v0, g0, gl0⟩ := ((parserFills fuel).statement _ _ _ hq).get e1 trivial
    have t0 := ih.statement _ _ _ hq e1
    obtain ⟨a, rfl⟩ := Option.isSome_iff_exists.mp v0
    dsimp only at hr
    have hfull1 : (Node.BlockStatement tok (ss ++ [some a])).slotsFilled = true := by
      simp only [Node.slotsFilled] at hfull ⊢
      simp only [List.all_append, hfull, List.all_cons, Option.isSome_some, List.all_nil,
        Bool.and_self]
    refine ih.blockStatementLoop _ _ _ _ _ _ hr he ?_ ?_ hfull1 ?_
    · simp only [nextToken_nodes, setNode_nodes, List.length_set]
      omega
    · simp only [nextToken_nodes, setNode_nodes]
      exact list_get_set_self _ _ _ (by omega)
    · simp only [nextToken_nodes, setNode_nodes, List.length_set]
      intro x hx
      rcases List.mem_append.mp hx with hx | hx
      · exact (hall x hx).carry (le_refl _) ((g0.keeps _).keeps_trans (Keeps.keeps_set _ _ (by omega)))
          (le_refl _) gl0
      · simp only [List.mem_singleton] at hx
        rw [hx]
        exact t0.carry (le_refl _) (Keeps.keeps_set _ _ (by omega)) (by omega) (le_refl _)
  · simp only [Res.ok.injEq, Prod.mk.injEq] at hr
    obtain ⟨rfl, rfl⟩ := hr
    exact ⟨rfl, ss, hget, hall⟩

theorem tidySlot_none (H : NodeHeap) (lo hi d : Nat) (c : NodeClass) :
    tidySlot H (tidy H lo hi d) c none = true := by
  simp only [tidySlot, tidy_none, castNode, decide_True, Bool.and_self]

theorem tidies_parseMacroLiteral (fuel : Nat) (p : Parser)
    (r : NodePtr) (p1 : Parser) (hr : parseMacroLiteral (fuel + 1) p = .ok (r, p1))
    (he : p1.errors = []) : Good p1.nodes p.nodes.length p1.nodes.length .Expression r := by
  rw [parseMacroLiteral_unfold] at hr
  dsimp only at hr
  split_ifs at hr with h1
  · simp only [Res.ok.injEq, Prod.mk.injEq] at hr
    obtain ⟨rfl, rfl⟩ := hr
    exact absurd h1 (expectPeek_errors _ _ he).1
  · obtain ⟨⟨parameters, q1⟩, hq1, hr⟩ := Res.bind_eq_ok hr
    dsimp only at hr
    split_ifs at hr with h2
    · simp only [Res.pure_eq, Res.ok.injEq, Prod.mk.injEq] at hr
      obtain ⟨rfl, rfl⟩ := hr
      exact absurd h2 (expectPeek_errors _ _ he).1
    · obtain ⟨⟨body, q3⟩, hq3, hr⟩ := Res.bind_eq_ok hr
      simp only [Res.pure_eq, Res.ok.injEq, Prod.mk.injEq] at hr
      obtain ⟨rfl, rfl⟩ := hr
      rw [setNode_errors] at he
      obtain ⟨e3, v3, g3, gl3⟩ := ((parserFills fuel).blockStatement _ _ _ hq3).get he trivial
      have e2 := (expectPeek_errors _ _ e3).2
      rw [setNode_errors] at e2
      obtain ⟨e1, v1, g1, gl1⟩ := (fills_parseFunctionParameters _ _ _ _ hq1).get e2 trivial
      simp only [expectPeek_nodes, setNode_nodes, make_nodes, make_fst, List.length_set,
        List.length_append, List.length_singleton] at gl3 gl1
      simp only [setNode_nodes, make_fst, List.length_set]
      exact good_node (list_get_set_self _ _ _ (by omega)) (le_refl _) (by omega) rfl rfl

theorem tidies_parseFunctionLiteral (fuel : Nat) (ih : ParserTidies fuel) (p : Parser)
    (r : NodePtr) (p1 : Parser) (hr : parseFunctionLiteral (fuel + 1) p = .ok (r, p1))
    (he : p1.errors = []) : Good p1.nodes p.nodes.length p1.nodes.length .Expression r := by
  rw [parseFunctionLiteral_unfold] at hr
  dsimp only at hr
  split_ifs at hr with h1
  · simp only [Res.ok.injEq, Prod.mk.injEq] at hr
    obtain ⟨rfl, rfl⟩ := hr
    exact absurd h1 (expectPeek_errors _ _ he).1
  · obtain ⟨⟨parameters, q1⟩, hq1, hr⟩ := Res.bind_eq_ok hr
    dsimp only at hr
    split_ifs at hr with h2
    · simp only [Res.pure_eq, Res.ok.injEq, Prod.mk.injEq] at hr
      obtain ⟨rfl, rfl⟩ := hr
      exact absurd h2 (expectPeek_errors _ _ he).1
    · obtain ⟨⟨body, q3⟩, hq3, hr⟩ := Res.bind_eq_ok hr
      simp only [Res.pure_eq, Res.ok.injEq, Prod.mk.injEq] at hr
      obtain ⟨rfl, rfl⟩ := hr
      rw [setNode_errors] at he
      obtain ⟨e3, v3, g3, gl3⟩ := ((parserFills fuel).blockStatement _ _ _ hq3).get he trivial
      have t3 := ih.blockStatement _ _ _ hq3 he
      have e2 := (expectPeek_errors _ _ e3).2
      rw [setNode_errors] at e2
      obtain ⟨e1, v1, g1, gl1⟩ := (fills_parseFunctionParameters _ _ _ _ hq1).get e2 trivial
      have t1 := tidies_parseFunctionParameters _ _ _ _ hq1
      simp only [expectPeek_nodes, setNode_nodes, make_nodes, make_fst, List.length_set,
        List.length_append, List.length_singleton] at t3 gl3 g3 t1 gl1 g1
      simp only [setNode_nodes, make_fst, List.length_set]
      refine good_node (list_get_set_self _ _ _ (by omega)) (le_refl _) (by omega) rfl ?_
      simp only [tidyNode, Bool.and_eq_true, List.all_eq_true]
      refine ⟨fun x hx => ?_, ?_⟩
      · exact (t1 x hx).slot (le_refl _)
          (((Keeps.keeps_set _ _ (by omega)).keeps_trans (g3.keeps _)).keeps_trans (Keeps.keeps_set _ _ (by omega)))
          (by omega) (by omega) (by omega)
      · exact t3.slot (le_refl _) (Keeps.keeps_set _ _ (by omega)) (by omega) (le_refl _) (by omega)

theorem tidies_parseIfExpression (fuel : Nat) (ih : ParserTidies fuel) (p : Parser)
    (r : NodePtr) (p1 : Parser) (hr : parseIfExpression (fuel + 1) p = .ok (r, p1))
    (he : p1.errors = []) : Good p1.nodes p.nodes.length p1.nodes.length .Expression r := by
  rw [parseIfExpression_unfold] at hr
  dsimp only at hr
  split_ifs at hr with h1
  · simp only [Res.ok.injEq, Prod.mk.injEq] at hr
    obtain ⟨rfl, rfl⟩ := hr
    exact absurd h1 (expectPeek_errors _ _ he).1
  · obtain ⟨⟨condition, q1⟩, hq1, hr⟩ := Res.bind_eq_ok hr
    dsimp only at hr
    split_ifs at hr with h2 h3
    · simp only [Res.pure_eq, Res.ok.injEq, Prod.mk.injEq] at hr
      obtain ⟨rfl, rfl⟩ := hr
      exact absurd h2 (expectPeek_errors _ _ he).1
    · simp only [Res.pure_eq, Res.ok.injEq, Prod.mk.injEq] at hr
      obtain ⟨rfl, rfl⟩ := hr
      exact absurd h3 (expectPeek_errors _ _ he).1
    · obtain ⟨⟨consequence, q3⟩, hq3, hr⟩ := Res.bind_eq_ok hr
      dsimp only at hr
      have hfront : q3.errors = [] →
          p.nodes.length + 1 ≤ q1.nodes.length ∧ q1.nodes.length ≤ q3.nodes.length
          ∧ Good q1.nodes (p.nodes.length + 1) q1.nodes.length .Expression condition
          ∧ Good q3.nodes q1.nodes.length q3.nodes.length .BlockStatement consequence
          ∧ HeapGrows (q1.nodes.set p.nodes.length
              (.IfExpression p.curToken condition none none)) q3.nodes := by
        intro he3
        obtain ⟨e3, v3, g3, gl3⟩ := ((parserFills fuel).blockStatement _ _ _ hq3).get he3 trivial
        have t3 := ih.blockStatement _ _ _ hq3 he3
        have e2 := (expectPeek_errors _ _ e3).2
        have e2b := (expectPeek_errors _ _ e2).2
        rw [setNode_errors] at e2b
        obtain ⟨e1, v1, g1, gl1⟩ := ((parserFills fuel).expression _ _ _ _ hq1).get e2b trivial
        have t1 := ih.expression _ _ _ _ hq1 e2b
        simp only [nextToken_nodes, expectPeek_nodes, setNode_nodes, make_nodes, make_fst,
          List.length_set, List.length_append, List.length_singleton] at t3 gl3 g3 t1 gl1 g1
        exact ⟨gl1, gl3, t1, t3, g3⟩
      split_ifs at hr with h4 h5
      · simp only [Res.pure_eq, Res.ok.injEq, Prod.mk.injEq] at hr
        obtain ⟨rfl, rfl⟩ := hr
        exact absurd h5 (expectPeek_errors _ _ he).1
      · obtain ⟨⟨alternative, q5⟩, hq5, hr⟩ := Res.bind_eq_ok hr
        simp only [Res.pure_eq, Res.ok.injEq, Prod.mk.injEq] at hr
        obtain ⟨rfl, rfl⟩ := hr
        rw [setNode_errors] at he
        obtain ⟨e5, v5, g5, gl5⟩ := ((parserFills fuel).blockStatement _ _ _ hq5).get he trivial
        have t5 := ih.blockStatement _ _ _ hq5 he
        have e4 := (expectPeek_errors _ _ e5).2
        rw [nextToken_errors, setNode_errors] at e4
        obtain ⟨gl1, gl3, t1, t3, g3⟩ := hfront e4
        simp only [nextToken_nodes, expectPeek_nodes, setNode_nodes, make_fst,
          List.length_set] at t5 gl5 g5
        simp only [setNode_nodes, make_fst, List.length_set]
        refine good_node (list_get_set_self _ _ _ (by omega)) (le_refl _) (by omega) rfl ?_
        simp only [tidyNode, Bool.and_eq_true]
        refine ⟨⟨?_, ?_⟩, ?_⟩
        · exact t1.slot (le_refl _)
            (((((Keeps.keeps_set _ _ (by omega)).keeps_trans (g3.keeps _)).keeps_trans
              (Keeps.keeps_set _ _ (by omega))).keeps_trans (g5.keeps _)).keeps_trans (Keeps.keeps_set _ _ (by omega)))
            (by omega) (by omega) (by omega)
        · exact t3.slot (le_refl _)
            (((Keeps.keeps_set _ _ (by omega)).keeps_trans (g5.keeps _)).keeps_trans (Keeps.keeps_set _ _ (by omega)))
            (by omega) (by omega) (by omega)
        · exact t5.slot (le_refl _) (Keeps.keeps_set _ _ (by omega)) (by omega) (le_refl _)
            (by omega)
      · simp only [Res.pure_eq, Res.ok.injEq, Prod.mk.injEq] at hr
        obtain ⟨rfl, rfl⟩ := hr
        rw [setNode_errors] at he
        obtain ⟨gl1, gl3, t1, t3, g3⟩ := hfront he
        simp only [setNode_nodes, make_fst, List.length_set]
        refine good_node (list_get_set_self _ _ _ (by omega)) (le_refl _) (by omega) rfl ?_
        simp only [tidyNode, Bool.and_eq_true]
        refine ⟨⟨?_, ?_⟩, ?_⟩
        · exact t1.slot (le_refl _)
            (((Keeps.keeps_set _ _ (by omega)).keeps_trans (g3.keeps _)).keeps_trans (Keeps.keeps_set _ _ (by omega)))
            (by omega) (by omega) (by omega)
        · exact t3.slot (le_refl _) (Keeps.keeps_set _ _ (by omega)) (by omega) (le_refl _)
            (by omega)
        · exact tidySlot_none _ _ _ _ _

/-- With any amount of fuel, a member of the parser that returns without any
error on record returns the root of a tidy tree. -/
theorem parserTidies : ∀ fuel : Nat, ParserTidies fuel := by
  intro fuel
  induction fuel with
  | zero =>
    exact {
      statement := fun _ _ _ hr => Res.noConfusion hr
      letStatement := fun _ _ _ hr => Res.noConfusion hr
      returnStatement := fun _ _ _ hr => Res.noConfusion hr
      expressionStatement := fun _ _ _ hr => Res.noConfusion hr
      expression := fun _ _ _ _ hr => Res.noConfusion hr
      expressionLoop := fun _ _ _ _ _ hr => Res.noConfusion hr
      arrayLiteral := fun _ _ _ hr => Res.noConfusion hr
      expressionList := fun _ _ _ _ hr => Res.noConfusion hr
      expressionListLoop := fun _ _ _ _ hr => Res.noConfusion hr
      indexExpression := fun _ _ _ _ hr => Res.noConfusion hr
      hashLiteral := fun _ _ _ hr => Res.noConfusion hr
      hashLiteralLoop := fun _ _ _ _ _ _ hr => Res.noConfusion hr
      macroLiteral := fun _ _ _ hr => Res.noConfusion hr
      prefixExpression := fun _ _ _ hr => Res.noConfusion hr
      infixExpression := fun _ _ _ _ hr => Res.noConfusion hr
      groupedExpression := fun _ _ _ hr => Res.noConfusion hr
      ifExpression := fun _ _ _ hr => Res.noConfusion hr
      blockStatement := fun _ _ _ hr => Res.noConfusion hr
      blockStatementLoop := fun _ _ _ _ _ _ hr => Res.noConfusion hr
      functionLiteral := fun _ _ _ hr => Res.noConfusion hr
      callExpression := fun _ _ _ _ hr => Res.noConfusion hr }
  | succ fuel ih =>
    exact {
      statement := tidies_parseStatement fuel ih
      letStatement := tidies_parseLetStatement fuel ih
      returnStatement := tidies_parseReturnStatement fuel ih
      expressionStatement := tidies_parseExpressionStatement fuel ih
      expression := tidies_parseExpression fuel ih
      expressionLoop := tidies_parseExpressionLoop fuel ih
      arrayLiteral := tidies_parseArrayLiteral fuel ih
      expressionList := tidies_parseExpressionList fuel ih
      expressionListLoop := tidies_parseExpressionListLoop fuel ih
      indexExpression := tidies_parseIndexExpression fuel ih
      hashLiteral := tidies_parseHashLiteral fuel ih
      hashLiteralLoop := tidies_parseHashLiteralLoop fuel ih
      macroLiteral := tidies_parseMacroLiteral fuel
      prefixExpression := tidies_parsePrefixExpression fuel ih
      infixExpression := tidies_parseInfixExpression fuel ih
      groupedExpression := tidies_parseGroupedExpression fuel ih
      ifExpression := tidies_parseIfExpression fuel ih
      blockStatement := tidies_parseBlockStatement fuel ih
      blockStatementLoop := tidies_parseBlockStatementLoop fuel ih
      functionLiteral := tidies_parseFunctionLiteral fuel ih
      callExpression := tidies_parseCallExpression fuel }

/-- The statement loop of `parseProgram`, when it returns without any error on
record, has filled the `Program` node with the roots of tidy trees. -/
theorem tidies_parseProgramLoop :
    ∀ (fuel program : Nat) (ss : List NodePtr) (p : Parser) (r : Nat) (p1 : Parser),
      parseProgramLoop fuel program ss p = .ok (r, p1) → p1.errors = [] →
      program < p.nodes.length → p.nodes.get? program = some (.Program ss) →
      (Node.Program ss).slotsFilled = true →
      (∀ x ∈ ss, Good p.nodes (program + 1) p.nodes.length .Statement x) →
      r = program ∧ ∃ ss1, p1.nodes.get? program = some (.Program ss1)
        ∧ ∀ x ∈ ss1, Good p1.nodes (program + 1) p1.nodes.length .Statement x := by
  intro fuel
  induction fuel with
  | zero => intro program ss p r p1 hr; exact Res.noConfusion hr
  | succ fuel ih =>
    intro program ss p r p1 hr he hlt hget hfull hall
    rw [parseProgramLoop_unfold] at hr
    split_ifs at hr with hc
    · split at hr
      · next stmt q hq =>
        dsimp only at hr
        have e1 := (fills_parseProgramLoop _ _ _ _ _ _ hr he).1
        rw [nextToken_errors, setNode_errors] at e1
        obtain ⟨e0, v0, g0, gl0⟩ := ((parserFills fuel).statement _ _ _ hq).get e1 trivial
        have t0 := (parserTidies fuel).statement _ _ _ hq e1
        obtain ⟨a, rfl⟩ := Option.isSome_iff_exists.mp v0
        dsimp only at hr
        have hfull1 : (Node.Program (ss ++ [some a])).slotsFilled = true := by
          simp only [Node.slotsFilled] at hfull ⊢
          simp only [List.all_append, hfull, List.all_cons, Option.isSome_some, List.all_nil,
            Bool.and_self]
        refine ih _ _ _ _ _ hr he ?_ ?_ hfull1 ?_
        · simp only [nextToken_nodes, setNode_nodes, List.length_set]
          omega
        · simp only [nextToken_nodes, setNode_nodes]
          exact list_get_set_self _ _ _ (by omega)
        · simp only [nextToken_nodes, setNode_nodes, List.length_set]
          intro x hx
          rcases List.mem_append.mp hx with hx | hx
          · exact (hall x hx).carry (le_refl _) ((g0.keeps _).keeps_trans (Keeps.keeps_set _ _ (by omega)))
              (le_refl _) gl0
          · simp only [List.mem_singleton] at hx
            rw [hx]
            exact t0.carry (le_refl _) (Keeps.keeps_set _ _ (by omega)) (by omega) (le_refl _)
      · exact Res.noConfusion hr
      · exact Res.noConfusion hr
    · simp only [Res.ok.injEq, Prod.mk.injEq] at hr
      obtain ⟨rfl, rfl⟩ := hr
      exact ⟨rfl, ss, hget, hall⟩

/-- After a parse that recorded no error, the `Program` is the first node of
the heap and the root of a tidy tree whose depth is at most the size of the
heap. -/
theorem parseSource_tidy (fuel : Nat) (input : String) (prog : Nat) (p : Parser)
    (h : parseSource fuel input = .ok (prog, p)) (he : p.errors = []) :
    prog = 0 ∧ (∃ ss, p.nodes.get? 0 = some (.Program ss))
    ∧ tidy p.nodes 0 p.nodes.length p.nodes.length (some 0) = true := by
  simp only [parseSource, parseProgram] at h
  obtain ⟨hp, ss1, hget, hall⟩ := tidies_parseProgramLoop _ _ _ _ _ _ h he
    (by simp only [make_fst, make_nodes, new_nodes, List.nil_append, List.length_nil,
      List.length_singleton, zero_lt_one])
    (list_get_append_self _ _) rfl (by intro x hx; simp at hx)
  simp only [make_fst, new_nodes, List.length_nil, zero_add] at hp hget hall
  have hlt : 0 < p.nodes.length := by
    by_contra hc
    rw [List.get?_eq_none.mpr (by omega)] at hget
    exact Option.noConfusion hget
  refine ⟨hp, ⟨ss1, hget⟩, ?_⟩
  have ht := @tidy_node p.nodes 0 p.nodes.length 0 _ hget (le_refl _) hlt (by
    simp only [tidyNode, List.all_eq_true]
    intro x hx
    exact (hall x hx).slot (le_refl _) (Keeps.keeps_refl _ _) (by omega) (le_refl _) (by omega))
  simpa using ht

theorem freshMacroEnv_bindsNoMacro (nodes : NodeHeap) :
    bindsNoMacro (((Memory.init nodes).makeEnv { store := [], outer := none }).2.makeEnv
      { store := [], outer := none }).2 1 := by
  intro name o h
  exact Option.noConfusion h

/-- C40: on a program that was parsed with no error on record, in a memory `m`
that holds its nodes and an environment `env` that binds no name to a `Macro`:
`defineMacros` changes nothing (not the statement list of the `Program`, nor
anything else in the memory) when no statement of the program is a macro
definition, and `expandMacros`, given more fuel than the program has nodes,
returns the pointer to the `Program` itself and leaves the memory as it was,
so every node is the same in the same slot and prints the same. So the macro
pass of `start`, run with more fuel than the program has nodes, hands the
parsed program on as it is, in the memory with its two fresh environments. -/
theorem macro_pass_is_identity_without_macros (fuel : Nat) (input : String) (prog : Nat)
    (p : Parser) (h : parseSource fuel input = .ok (prog, p)) (he : p.errors = [])
    (m : Memory) (env : Nat) (hm : m.nodes = p.nodes) (hb : bindsNoMacro m env) :
    (∃ ss, m.nodes.get? prog = some (.Program ss)
      ∧ ((∀ s ∈ ss, isMacroDefinition m.nodes s = false) → defineMacros prog env m = .ok m))
    ∧ (∀ fuel2, m.nodes.length < fuel2 →
        expandMacros fuel2 (some prog) env m = .ok (some prog, m))
    ∧ (∀ ss, p.nodes.get? prog = some (.Program ss) →
        (∀ s ∈ ss, isMacroDefinition p.nodes s = false) → p.nodes.length < fuel →
        startMacroPass fuel input = .ok (.expanded (some prog) 0
          (((Memory.init p.nodes).makeEnv { store := [], outer := none }).2.makeEnv
            { store := [], outer := none }).2)) := by
  obtain ⟨h0, ⟨ss, hget⟩, ht⟩ := parseSource_tidy fuel input prog p h he
  subst h0
  refine ⟨⟨ss, by rw [hm]; exact hget, fun hno => ?_⟩, ?_, ?_⟩
  · exact defineMacros_none 0 env m ss (by rw [hm]; exact hget) hno
  · intro fuel2 hf
    exact expandMacros_tidy fuel2 m.nodes.length 0 m.nodes.length (some 0) env m hb hf
      (by rw [hm]; exact ht)
  · intro ss2 hget2 hno hf
    have hd := defineMacros_none 0 1
      (((Memory.init p.nodes).makeEnv { store := [], outer := none }).2.makeEnv
        { store := [], outer := none }).2 ss2 hget2 hno
    have hx := expandMacros_tidy fuel p.nodes.length 0 p.nodes.length (some 0) 1
      (((Memory.init p.nodes).makeEnv { store := [], outer := none }).2.makeEnv
        { store := [], outer := none }).2 (freshMacroEnv_bindsNoMacro p.nodes) hf ht
    have hze : (getErrorsFrom 0 ([] : List String)).length = 0 := rfl
    simp only [startMacroPass, h, Res.ok_bind, he, hze, ne_eq, not_true_eq_false, ↓reduceIte]
    have h1 : (((Memory.init p.nodes).makeEnv { store := [], outer := none }).2.makeEnv
        { store := [], outer := none }).1 = 1 := rfl
    have h2 : ((Memory.init p.nodes).makeEnv { store := [], outer := none }).1 = 0 := rfl
    rw [h1, h2, hd, Res.ok_bind, hx]
    rfl

/-- Witness for C40 on a program of 31 nodes with a function, a call, an
if-expression, an array, an index expression and a hash literal, parsed with
100 units of fuel: the macro pass of `start` hands it on as it is and prints
the same text; on a program with a macro definition the pass does change the
program. -/
theorem macro_pass_is_identity_without_macros_witness :
    (∃ prog p,
        parseSource 100 ("let add = fn(a, b) \x7b a + b \x7d; "
          ++ "if (add(1, 2) < 4) \x7b [1, 2][0] \x7d else \x7b \x7b1: 2\x7d \x7d") = .ok (prog, p)
        ∧ p.errors = [] ∧ p.nodes.length = 31
        ∧ expandMacros 100 (some prog) 1
            (((Memory.init p.nodes).makeEnv { store := [], outer := none }).2.makeEnv
              { store := [], outer := none }).2
          = .ok (some prog, (((Memory.init p.nodes).makeEnv { store := [], outer := none }).2.makeEnv
              { store := [], outer := none }).2)
        ∧ startMacroPass 100 ("let add = fn(a, b) \x7b a + b \x7d; "
            ++ "if (add(1, 2) < 4) \x7b [1, 2][0] \x7d else \x7b \x7b1: 2\x7d \x7d")
          = .ok (.expanded (some prog) 0
              (((Memory.init p.nodes).makeEnv { store := [], outer := none }).2.makeEnv
                { store := [], outer := none }).2))
    ∧ (startMacroPass 100 ("let add = fn(a, b) \x7b a + b \x7d; "
          ++ "if (add(1, 2) < 4) \x7b [1, 2][0] \x7d else \x7b \x7b1: 2\x7d \x7d")).bind
        (fun x => match x with
          | .expanded e _ m => nodeString 100 m.nodes e
          | _ => .crash)
        = .ok "let add = fn(a, b)(a + b);\nif(add(1, 2) < 4) ([1, 2][0])else \x7b1: 2\x7d\n"
    ∧ (parseToString 100 ("let add = fn(a, b) \x7b a + b \x7d; "
          ++ "if (add(1, 2) < 4) \x7b [1, 2][0] \x7d else \x7b \x7b1: 2\x7d \x7d")).bind
        (fun x => .ok x.1)
        = .ok "let add = fn(a, b)(a + b);\nif(add(1, 2) < 4) ([1, 2][0])else \x7b1: 2\x7d\n"
    ∧ (startMacroPass 100 "let m = macro() \x7b quote(1 + 2) \x7d; m() * 3").bind
        (fun x => match x with
          | .expanded e _ m => nodeString 100 m.nodes e
          | _ => .crash)
        = .ok "((1 + 2) * 3)\n" := by
  refine ⟨?_, by decide!, by decide!, by decide!⟩
  have hd : (parseSource 100 ("let add = fn(a, b) \x7b a + b \x7d; "
      ++ "if (add(1, 2) < 4) \x7b [1, 2][0] \x7d else \x7b \x7b1: 2\x7d \x7d")).bind
      (fun x => .ok (x.2.errors, x.2.nodes.length,
        (match x.2.nodes.get? x.1 with
          | some (.Program ss) => ss.all (fun s => !isMacroDefinition x.2.nodes s)
          | _ => false)))
      = .ok ([], 31, true) := by decide!
  cases hres : parseSource 100 ("let add = fn(a, b) \x7b a + b \x7d; "
      ++ "if (add(1, 2) < 4) \x7b [1, 2][0] \x7d else \x7b \x7b1: 2\x7d \x7d") with
  | ok x =>
    obtain ⟨prog, p⟩ := x
    rw [hres] at hd
    simp only [Res.bind, Res.ok.injEq, Prod.mk.injEq] at hd
    obtain ⟨he, hlen, hno⟩ := hd
    have hthm := macro_pass_is_identity_without_macros 100 _ prog p hres he
      (((Memory.init p.nodes).makeEnv { store := [], outer := none }).2.makeEnv
        { store := [], outer := none }).2 1 rfl (freshMacroEnv_bindsNoMacro p.nodes)
    obtain ⟨⟨ss, hget, _⟩, hx, hp⟩ := hthm
    have hget2 : p.nodes.get? prog = some (.Program ss) := hget
    rw [hget2] at hno
    simp only [List.all_eq_true, Bool.not_eq_eq_eq_not, Bool.not_true] at hno
    refine ⟨prog, p, rfl, he, hlen, hx 100 ?_, hp ss hget2 hno ?_⟩
    · show p.nodes.length < 100
      omega
    · omega
  | crash =>
    rw [hres] at hd
    exact Res.noConfusion hd
  | fuel =>
    rw [hres] at hd
    exact Res.noConfusion hd

/-! ## The object heap only grows -/

theorem Keeping.of_same {α : Type} (m : Memory) (x : α) : Keeping m (Res.ok (x, m)) := by
  intro y m1 h
  simp only [Res.ok.injEq, Prod.mk.injEq] at h
  rw [← h.2]

theorem Keeping.of_objects {α : Type} {m m2 : Memory} (x : α) (h : m.objects <+: m2.objects) :
    Keeping m (Res.ok (x, m2)) := by
  intro y m1 h1
  simp only [Res.ok.injEq, Prod.mk.injEq] at h1
  rw [← h1.2]
  exact h

theorem Keeping.of_makeObj (m : Memory) (o : Object) : Keeping m (Res.ok (m.makeObj o)) := by
  intro y m1 h1
  simp only [Memory.makeObj, Res.ok.injEq, Prod.mk.injEq] at h1
  rw [← h1.2]
  exact List.prefix_append _ _

theorem Keeping.of_crash {α : Type} (m : Memory) : Keeping m (Res.crash : Res (α × Memory)) :=
  fun _ _ h => Res.noConfusion h

theorem Keeping.of_fuel {α : Type} (m : Memory) : Keeping m (Res.fuel : Res (α × Memory)) :=
  fun _ _ h => Res.noConfusion h

theorem Keeping.of_newError (msg : String) (m : Memory) : Keeping m (newError msg m) :=
  Keeping.of_makeObj m _

theorem Keeping.later {α : Type} {m m1 : Memory} {r : Res (α × Memory)} (h : Keeping m1 r)
    (hp : m.objects <+: m1.objects) : Keeping m r :=
  fun x m2 hr => hp.trans (h x m2 hr)

theorem Keeping.bind_value {α β : Type} {m : Memory} {x : Res β} {f : β → Res (α × Memory)}
    (hf : ∀ b, Keeping m (f b)) : Keeping m (x >>= f) := by
  cases x with
  | ok b => exact hf b
  | crash => exact Keeping.of_crash m
  | fuel => exact Keeping.of_fuel m

theorem Keeping.bind_run {α β : Type} {m : Memory} {x : Res (β × Memory)}
    {f : β × Memory → Res (α × Memory)} (hx : Keeping m x)
    (hf : ∀ b m1, Keeping m1 (f (b, m1))) : Keeping m (x >>= f) := by
  cases x with
  | ok v =>
    obtain ⟨b, m1⟩ := v
    exact (hf b m1).later (hx b m1 rfl)
  | crash => exact Keeping.of_crash m
  | fuel => exact Keeping.of_fuel m

theorem Keeping.bind_mem {α : Type} {m : Memory} {x : Res Memory}
    {f : Memory → Res (α × Memory)} (hx : KeepingMem m x)
    (hf : ∀ m1, Keeping m1 (f m1)) : Keeping m (x >>= f) := by
  cases x with
  | ok m1 => exact (hf m1).later (hx m1 rfl)
  | crash => exact Keeping.of_crash m
  | fuel => exact Keeping.of_fuel m

theorem keeping_evalIntegerInfixExpression (op : String) (l r : ObjPtr) (m : Memory) :
    Keeping m (evalIntegerInfixExpression op l r m) := by
  unfold evalIntegerInfixExpression
  repeat (first
    | exact Keeping.of_same _ _
    | exact Keeping.of_makeObj _ _
    | exact Keeping.of_newError _ _
    | exact Keeping.of_crash _
    | (apply Keeping.bind_value; intro _)
    | split)

theorem keeping_evalStringInfixExpression (op : String) (l r : ObjPtr) (m : Memory) :
    Keeping m (evalStringInfixExpression op l r m) := by
  unfold evalStringInfixExpression
  repeat (first
    | exact Keeping.of_same _ _
    | exact Keeping.of_makeObj _ _
    | exact Keeping.of_newError _ _
    | exact Keeping.of_crash _
    | (apply Keeping.bind_value; intro _)
    | split)

theorem keeping_evalInfixExpression (op : String) (l r : ObjPtr) (m : Memory) :
    Keeping m (evalInfixExpression op l r m) := by
  unfold evalInfixExpression
  repeat (first
    | exact Keeping.of_same _ _
    | exact Keeping.of_makeObj _ _
    | exact Keeping.of_newError _ _
    | exact Keeping.of_crash _
    | exact keeping_evalIntegerInfixExpression _ _ _ _
    | exact keeping_evalStringInfixExpression _ _ _ _
    | (apply Keeping.bind_value; intro _)
    | split)

theorem keeping_evalPrefixExpression (op : String) (r : ObjPtr) (m : Memory) :
    Keeping m (evalPrefixExpression op r m) := by
  unfold evalPrefixExpression evalMinusPrefixOperatorExpression
  repeat (first
    | exact Keeping.of_same _ _
    | exact Keeping.of_makeObj _ _
    | exact Keeping.of_newError _ _
    | exact Keeping.of_crash _
    | (apply Keeping.bind_value; intro _)
    | split)

theorem keeping_evalIdentifier (value : String) (env : Nat) (m : Memory) :
    Keeping m (evalIdentifier value env m) := by
  unfold evalIdentifier
  repeat (first
    | exact Keeping.of_same _ _
    | exact Keeping.of_newError _ _
    | split)

theorem keeping_evalIndexExpression (l i : ObjPtr) (m : Memory) :
    Keeping m (evalIndexExpression l i m) := by
  unfold evalIndexExpression evalArrayIndexExpression evalHashIndexExpression
  repeat (first
    | exact Keeping.of_same _ _
    | exact Keeping.of_makeObj _ _
    | exact Keeping.of_newError _ _
    | exact Keeping.of_crash _
    | (apply Keeping.bind_value; intro _)
    | split)

theorem keeping_puts (fuel : Nat) :
    ∀ (args : List ObjPtr) (m : Memory), Keeping m (builtins.puts fuel args m) := by
  intro args
  induction args with
  | nil => intro m; exact Keeping.of_same _ _
  | cons a rest ih =>
    intro m
    simp only [builtins.puts]
    split
    · exact (ih _).later (List.prefix_refl _)
    · exact Keeping.of_crash _
    · exact Keeping.of_fuel _

theorem keeping_callBuiltin (fuel : Nat) (fn : BuiltinFn) (args : List ObjPtr) (m : Memory) :
    Keeping m (callBuiltin fuel fn args m) := by
  unfold callBuiltin
  cases fn <;> dsimp only
  · unfold builtins.len
    repeat (first
      | exact Keeping.of_same _ _
      | exact Keeping.of_makeObj _ _
      | exact Keeping.of_newError _ _
      | exact Keeping.of_crash _
      | (apply Keeping.bind_value; intro _)
      | split)
  · unfold builtins.first
    repeat (first
      | exact Keeping.of_same _ _
      | exact Keeping.of_makeObj _ _
      | exact Keeping.of_newError _ _
      | exact Keeping.of_crash _
      | (apply Keeping.bind_value; intro _)
      | split)
  · unfold builtins.last
    repeat (first
      | exact Keeping.of_same _ _
      | exact Keeping.of_makeObj _ _
      | exact Keeping.of_newError _ _
      | exact Keeping.of_crash _
      | (apply Keeping.bind_value; intro _)
      | split)
  · unfold builtins.rest
    repeat (first
      | exact Keeping.of_same _ _
      | exact Keeping.of_makeObj _ _
      | exact Keeping.of_newError _ _
      | exact Keeping.of_crash _
      | (apply Keeping.bind_value; intro _)
      | split)
  · unfold builtins.push
    repeat (first
      | exact Keeping.of_same _ _
      | exact Keeping.of_makeObj _ _
      | exact Keeping.of_newError _ _
      | exact Keeping.of_crash _
      | (apply Keeping.bind_value; intro _)
      | split)
  · exact keeping_puts fuel args m

theorem keeping_evalIfExpression (ev : Eval) (hev : ∀ n e m, Keeping m (ev n e m))
    (c q x : NodePtr) (env : Nat) (m : Memory) :
    Keeping m (evalIfExpression ev c q x env m) := by
  unfold evalIfExpression
  refine Keeping.bind_run (hev _ _ _) (fun _ _ => ?_)
  dsimp only
  repeat (first
    | exact Keeping.of_same _ _
    | exact hev _ _ _
    | split)

theorem keeping_evalProgramLoop (ev : Eval) (hev : ∀ n e m, Keeping m (ev n e m)) (env : Nat) :
    ∀ (ss : List NodePtr) (r : ObjPtr) (m : Memory),
      Keeping m (evalProgramLoop ev env ss r m) := by
  intro ss
  induction ss with
  | nil => intro r m; exact Keeping.of_same _ _
  | cons s rest ih =>
    intro r m
    simp only [evalProgramLoop]
    split
    · next result m1 h =>
      have hp := hev _ _ _ result m1 h
      split
      · exact (ih _ _).later hp
      · split
        · exact Keeping.of_objects _ hp
        · exact Keeping.of_objects _ hp
        · exact (ih _ _).later hp
    · exact Keeping.of_crash _
    · exact Keeping.of_fuel _

theorem keeping_evalBlockStatementLoop (ev : Eval) (hev : ∀ n e m, Keeping m (ev n e m))
    (env : Nat) :
    ∀ (ss : List NodePtr) (r : ObjPtr) (m : Memory),
      Keeping m (evalBlockStatementLoop ev env ss r m) := by
  intro ss
  induction ss with
  | nil => intro r m; exact Keeping.of_same _ _
  | cons s rest ih =>
    intro r m
    simp only [evalBlockStatementLoop]
    split
    · next result m1 h =>
      have hp := hev _ _ _ result m1 h
      split
      · exact (ih _ _).later hp
      · split
        · split
          · exact Keeping.of_objects _ hp
          · exact (ih _ _).later hp
        · exact Keeping.of_crash _
    · exact Keeping.of_crash _
    · exact Keeping.of_fuel _

theorem keeping_evalExpressionsLoop (ev : Eval) (hev : ∀ n e m, Keeping m (ev n e m))
    (env : Nat) :
    ∀ (es : List NodePtr) (r : List ObjPtr) (m : Memory),
      Keeping m (evalExpressionsLoop ev env es r m) := by
  intro es
  induction es with
  | nil => intro r m; exact Keeping.of_same _ _
  | cons s rest ih =>
    intro r m
    simp only [evalExpressionsLoop]
    split
    · next result m1 h =>
      have hp := hev _ _ _ result m1 h
      split
      · exact Keeping.of_objects _ hp
      · exact (ih _ _).later hp
    · exact Keeping.of_crash _
    · exact Keeping.of_fuel _

theorem keeping_evalHashLiteralLoop (ev : Eval) (hev : ∀ n e m, Keeping m (ev n e m))
    (env : Nat) :
    ∀ (ps : List (NodePtr × NodePtr)) (pairs : List (String × ObjPtr)) (m : Memory),
      Keeping m (evalHashLiteralLoop ev env ps pairs m) := by
  intro ps
  induction ps with
  | nil => intro pairs m; exact Keeping.of_makeObj _ _
  | cons kv rest ih =>
    intro pairs m
    obtain ⟨k, v⟩ := kv
    simp only [evalHashLiteralLoop]
    split
    · next key m1 h =>
      have hp := hev _ _ _ key m1 h
      split
      · exact Keeping.of_objects _ hp
      · split
        · split
          · exact (Keeping.of_newError _ _).later hp
          · split
            · next value m2 h2 =>
              have hp2 := hev _ _ _ value m2 h2
              split
              · exact Keeping.of_objects _ (hp.trans hp2)
              · refine (ih _ _).later ((hp.trans hp2).trans ?_)
                exact List.prefix_append _ _
            · exact Keeping.of_crash _
            · exact Keeping.of_fuel _
        · exact Keeping.of_crash _
        · exact Keeping.of_fuel _
    · exact Keeping.of_crash _
    · exact Keeping.of_fuel _

theorem keeping_extendFunctionEnv (ps : List NodePtr) (fnEnv : Nat) (args : List ObjPtr)
    (m : Memory) : Keeping m (extendFunctionEnv ps fnEnv args m) := by
  unfold extendFunctionEnv
  split
  · exact Keeping.of_objects _ (List.prefix_refl _)
  · exact Keeping.of_crash _
  · exact Keeping.of_fuel _

theorem keeping_applyFunction (ev : Eval) (hev : ∀ n e m, Keeping m (ev n e m)) (fuel : Nat)
    (fn : ObjPtr) (args : List ObjPtr) (m : Memory) :
    Keeping m (applyFunction ev fuel fn args m) := by
  unfold applyFunction
  apply Keeping.bind_value
  intro f
  split
  · refine Keeping.bind_run (keeping_extendFunctionEnv _ _ _ _) (fun _ _ => ?_)
    dsimp only
    refine Keeping.bind_run (hev _ _ _) (fun _ _ => ?_)
    exact Keeping.of_same _ _
  · exact keeping_callBuiltin _ _ _ _
  · exact Keeping.of_newError _ _

theorem keepingMem_modifySlot (rec : Modifier) (hrec : ∀ x m, Keeping m (rec x m))
    (c : NodeClass) (read : Node → NodePtr) (write : Node → NodePtr → Node) (a : Nat)
    (m : Memory) : KeepingMem m (modifySlot rec c read write a m) := by
  intro m1 h
  simp only [modifySlot] at h
  split at h
  · exact Res.noConfusion h
  · split at h
    · next r m2 hr =>
      have hp := hrec _ _ r m2 hr
      split at h
      · exact Res.noConfusion h
      · simp only [Res.ok.injEq] at h
        rw [← h]
        exact hp
    · exact Res.noConfusion h
    · exact Res.noConfusion h

theorem keepingMem_modifySlots (rec : Modifier) (hrec : ∀ x m, Keeping m (rec x m))
    (c : NodeClass) (readAll : Node → List NodePtr)
    (writeAll : Node → List NodePtr → Node) (a : Nat) :
    ∀ (count i : Nat) (m : Memory),
      KeepingMem m (modifySlots rec c readAll writeAll a count i m) := by
  intro count
  induction count with
  | zero =>
    intro i m m1 h
    simp only [modifySlots, Res.ok.injEq] at h
    rw [← h]
  | succ count ih =>
    intro i m m1 h
    simp only [modifySlots] at h
    split at h
    · next m2 h2 =>
      exact (keepingMem_modifySlot rec hrec c _ _ a m m2 h2).trans (ih _ _ m1 h)
    · exact Res.noConfusion h
    · exact Res.noConfusion h

theorem keeping_modifyPairs (rec : Modifier) (hrec : ∀ x m, Keeping m (rec x m)) :
    ∀ (ps newPairs : List (NodePtr × NodePtr)) (m : Memory),
      Keeping m (modifyPairs rec ps newPairs m) := by
  intro ps
  induction ps with
  | nil => intro newPairs m; exact Keeping.of_same _ _
  | cons kv rest ih =>
    intro newPairs m
    obtain ⟨k, v⟩ := kv
    simp only [modifyPairs]
    split
    · next k1 m1 h1 =>
      have hp1 := hrec _ _ k1 m1 h1
      split
      · next v1 m2 h2 =>
        have hp2 := hrec _ _ v1 m2 h2
        exact (ih _ _).later (hp1.trans hp2)
      · exact Keeping.of_crash _
      · exact Keeping.of_fuel _
    · exact Keeping.of_crash _
    · exact Keeping.of_fuel _

set_option maxHeartbeats 1000000 in
/-- The traversal `modify` only adds objects when its modifier does. -/
theorem keeping_modify (mod : Modifier) (hmod : ∀ x m, Keeping m (mod x m)) :
    ∀ (fuel : Nat) (x : NodePtr) (m : Memory), Keeping m (modify fuel mod x m) := by
  intro fuel
  induction fuel with
  | zero =>
    intro x m
    rw [modify]
    exact Keeping.of_fuel _
  | succ fuel ih =>
    intro x m
    cases x with
    | none =>
      rw [modify]
      exact hmod _ _
    | some a =>
      rw [modify]
      split <;> try (first
        | exact Keeping.of_crash _
        | exact hmod _ _)
      all_goals (repeat (first
        | exact hmod _ _
        | exact Keeping.of_crash _
        | exact Keeping.of_same _ _
        | (refine Keeping.bind_mem (keepingMem_modifySlots _ ih _ _ _ _ _ _ _) (fun _ => ?_))
        | (refine Keeping.bind_mem (keepingMem_modifySlot _ ih _ _ _ _ _) (fun _ => ?_))
        | (refine Keeping.bind_mem ?_ (fun _ => ?_))
        | (refine Keeping.bind_run (keeping_modifyPairs _ ih _ _ _) (fun _ _ => ?_))
        | exact keepingMem_modifySlot _ ih _ _ _ _ _
        | (intro _ h; simp only [Res.pure_eq, Res.ok.injEq] at h; rw [← h])
        | dsimp only
        | split))

theorem convertObjectToNode_objects (o : ObjPtr) (m : Memory) :
    (convertObjectToNode o m).2.objects = m.objects := by
  unfold convertObjectToNode
  split
  · rfl
  · split <;> rfl

theorem keeping_evalUnquoteCalls (ev : Eval) (hev : ∀ n e m, Keeping m (ev n e m)) (fuel : Nat)
    (node : NodePtr) (env : Nat) (m : Memory) :
    Keeping m (evalUnquoteCalls ev fuel node env m) := by
  unfold evalUnquoteCalls
  refine keeping_modify _ ?_ fuel node m
  intro x m0
  apply Keeping.bind_value
  intro u
  split
  · exact Keeping.of_same _ _
  · apply Keeping.bind_value
    intro call
    split
    · split
      · exact Keeping.of_same _ _
      · apply Keeping.bind_value
        intro a
        refine Keeping.bind_run (hev _ _ _) (fun b m1 => ?_)
        dsimp only
        intro y m2 h
        simp only [Res.pure_eq, Res.ok.injEq] at h
        have h2 : m2 = (convertObjectToNode b m1).2 := by rw [h]
        rw [h2, convertObjectToNode_objects]
    · exact Keeping.of_same _ _

theorem keeping_quote (ev : Eval) (hev : ∀ n e m, Keeping m (ev n e m)) (fuel : Nat)
    (node : NodePtr) (env : Nat) (m : Memory) : Keeping m (quote ev fuel node env m) := by
  unfold quote
  refine Keeping.bind_run (keeping_evalUnquoteCalls ev hev fuel node env m) (fun _ _ => ?_)
  exact Keeping.of_makeObj _ _

theorem keepingMem_envSet (m : Memory) (e : Nat) (name : String) (value : ObjPtr) :
    KeepingMem m (m.envSet e name value) := by
  intro m1 h
  simp only [Memory.envSet] at h
  split at h
  · exact Res.noConfusion h
  · simp only [Res.ok.injEq] at h
    rw [← h]

set_option maxHeartbeats 1000000 in
/-- The evaluator only adds objects: the object heap before a call of `eval` is
an initial part of the heap after it. -/
theorem keeping_eval : ∀ (fuel : Nat) (n : NodePtr) (env : Nat) (m : Memory),
    Keeping m (eval fuel n env m) := by
  intro fuel
  induction fuel with
  | zero =>
    intro n env m
    rw [eval]
    exact Keeping.of_fuel _
  | succ fuel ih =>
    intro n env m
    cases n with
    | none =>
      rw [eval]
      exact Keeping.of_same _ _
    | some a =>
      rw [eval]
      split <;> try (first
        | exact Keeping.of_crash _
        | exact Keeping.of_same _ _
        | exact Keeping.of_makeObj _ _
        | exact ih _ _ _
        | exact keeping_evalProgramLoop _ ih _ _ _ _
        | exact keeping_evalBlockStatementLoop _ ih _ _ _ _
        | exact keeping_evalIfExpression _ ih _ _ _ _ _
        | exact keeping_evalIdentifier _ _ _
        | exact keeping_evalHashLiteralLoop _ ih _ _ _ _)
      all_goals (repeat (first
        | exact Keeping.of_same _ _
        | exact Keeping.of_makeObj _ _
        | exact Keeping.of_newError _ _
        | exact Keeping.of_crash _
        | exact ih _ _ _
        | exact keeping_evalPrefixExpression _ _ _
        | exact keeping_evalInfixExpression _ _ _ _
        | exact keeping_evalIndexExpression _ _ _
        | exact keeping_quote _ ih _ _ _ _
        | exact keeping_applyFunction _ ih _ _ _ _
        | (refine Keeping.bind_run (ih _ _ _) (fun _ _ => ?_))
        | (refine Keeping.bind_run (keeping_evalExpressionsLoop _ ih _ _ _ _) (fun _ _ => ?_))
        | (refine Keeping.bind_mem (keepingMem_envSet _ _ _ _) (fun _ => ?_))
        | (apply Keeping.bind_value; intro _)
        | dsimp only
        | split))

/-! ## Tables built by evalHashLiteral (C34) -/

/-- An object read in a memory is read in every memory whose object heap
extends it. -/
theorem deref_mono {m m2 : Memory} (hp : m.objects <+: m2.objects) (p : ObjPtr) (o : Object)
    (h : m.deref p = .ok o) : m2.deref p = .ok o := by
  cases p with
  | none => exact absurd h (by simp [Memory.deref])
  | some a =>
    simp only [Memory.deref] at h ⊢
    cases ho : m.objects.get? a with
    | none => rw [ho] at h; exact absurd h (by simp)
    | some o1 =>
      rw [ho] at h
      obtain ⟨t, ht⟩ := hp
      have h2 : m2.objects.get? a = some o1 := by
        rw [← ht]
        rw [List.get?_eq_getElem?] at ho ⊢
        have hlt : a < m.objects.length := by
          by_contra hc
          rw [List.getElem?_eq_none (by omega)] at ho
          exact Option.noConfusion ho
        rw [List.getElem?_append_left hlt]
        exact ho
      rw [h2]
      exact h

theorem hashKeyOf_mono {m m2 : Memory} (hp : m.objects <+: m2.objects) (p : ObjPtr)
    (k : HashKey) (h : hashKeyOf m p = some k) : hashKeyOf m2 p = some k := by
  simp only [hashKeyOf] at h ⊢
  cases hd : m.deref p with
  | ok o =>
    rw [hd] at h
    rw [deref_mono hp p o hd]
    exact h
  | crash => rw [hd] at h; exact absurd h (by simp)
  | fuel => rw [hd] at h; exact absurd h (by simp)

theorem entryHashed_mono {m m2 : Memory} (hp : m.objects <+: m2.objects)
    (e : String × ObjPtr) (h : entryHashed m e = true) : entryHashed m2 e = true := by
  simp only [entryHashed] at h ⊢
  cases hd : m.deref e.2 with
  | ok o =>
    rw [hd] at h
    cases o with
    | HashPair key value =>
      dsimp only at h
      rw [deref_mono hp _ _ hd]
      dsimp only
      cases hk : hashKeyOf m key with
      | none => rw [hk] at h; exact absurd h (by simp)
      | some kh =>
        rw [hk] at h
        rw [hashKeyOf_mono hp key kh hk]
        exact h
    | _ => exact absurd h (by simp)
  | crash => rw [hd] at h; exact absurd h (by simp)
  | fuel => rw [hd] at h; exact absurd h (by simp)

theorem entriesHashed_mono {m m2 : Memory} (hp : m.objects <+: m2.objects)
    (tbl : List (String × ObjPtr)) (h : entriesHashed m tbl = true) :
    entriesHashed m2 tbl = true := by
  simp only [entriesHashed, List.all_eq_true] at h ⊢
  exact fun e he => entryHashed_mono hp e (h e he)

/-- An entry of a map after an assignment is the assigned pair or was there. -/
theorem mem_strMapAssign_pair (key : String) (v : ObjPtr) :
    ∀ (pairs : List (String × ObjPtr)) (x : String × ObjPtr),
      x ∈ strMapAssign key v pairs → x = (key, v) ∨ x ∈ pairs := by
  intro pairs
  induction pairs with
  | nil =>
    intro x hx
    simp only [strMapAssign, List.mem_singleton] at hx
    exact Or.inl hx
  | cons kv rest ih =>
    intro x hx
    obtain ⟨k, w⟩ := kv
    simp only [strMapAssign] at hx
    split_ifs at hx with h1 h2
    · rcases List.mem_cons.mp hx with h | h
      · exact Or.inl (by rw [h, h1])
      · exact Or.inr (List.mem_cons_of_mem _ h)
    · rcases List.mem_cons.mp hx with h | h
      · exact Or.inl h
      · exact Or.inr h
    · rcases List.mem_cons.mp hx with h | h
      · exact Or.inr (by rw [h]; exact List.mem_cons_self _ _)
      · rcases ih x h with h3 | h3
        · exact Or.inl h3
        · exact Or.inr (List.mem_cons_of_mem _ h3)

theorem entriesHashed_strMapAssign (m : Memory) (key : String) (v : ObjPtr)
    (pairs : List (String × ObjPtr)) (he : entryHashed m (key, v) = true)
    (h : entriesHashed m pairs = true) : entriesHashed m (strMapAssign key v pairs) = true := by
  simp only [entriesHashed, List.all_eq_true] at h ⊢
  intro x hx
  rcases mem_strMapAssign_pair key v pairs x hx with h1 | h1
  · rw [h1]; exact he
  · exact h x h1

/-- Every entry of the table that the loop of `evalHashLiteral` returns is
filed under the string of the hash key of the key of its pair, when the
evaluation of the keys and values only adds objects. -/
theorem evalHashLiteralLoop_entriesHashed (ev : Eval) (hev : ∀ n e m, Keeping m (ev n e m))
    (env : Nat) :
    ∀ (ps : List (NodePtr × NodePtr)) (pairs : List (String × ObjPtr)) (m m1 : Memory)
      (r : ObjPtr) (tbl : List (String × ObjPtr)),
      entriesHashed m pairs = true → evalHashLiteralLoop ev env ps pairs m = .ok (r, m1) →
      isError m1 r = false → m1.deref r = .ok (.HashTable tbl) →
      entriesHashed m1 tbl = true := by
  intro ps
  induction ps with
  | nil =>
    intro pairs m m1 r tbl hp h _ ht
    simp only [evalHashLiteralLoop, Memory.makeObj, Res.ok.injEq, Prod.mk.injEq] at h
    obtain ⟨rfl, rfl⟩ := h
    simp only [Memory.deref, List.get?_eq_getElem?, List.getElem?_append_right (le_refl _),
      Nat.sub_self, List.getElem?_cons_zero, Res.ok.injEq, Object.HashTable.injEq] at ht
    rw [← ht]
    exact entriesHashed_mono (List.prefix_append _ _) _ hp
  | cons kv rest ih =>
    intro pairs m m1 r tbl hp h hne ht
    obtain ⟨kx, vx⟩ := kv
    simp only [evalHashLiteralLoop] at h
    cases hek : ev kx env m with
    | ok x =>
      obtain ⟨key, mk⟩ := x
      rw [hek] at h
      dsimp only at h
      by_cases hk : isError mk key = true
      · rw [if_pos hk] at h
        simp only [Res.ok.injEq, Prod.mk.injEq] at h
        obtain ⟨rfl, rfl⟩ := h
        rw [hk] at hne
        exact absurd hne (by simp)
      · rw [if_neg hk] at h
        cases hd : mk.deref key with
        | ok ko =>
          rw [hd] at h
          dsimp only at h
          cases hh : ko.hashKey with
          | none =>
            rw [hh] at h
            simp only [newError, Memory.makeObj, Res.ok.injEq, Prod.mk.injEq] at h
            obtain ⟨rfl, rfl⟩ := h
            simp only [Memory.deref, List.get?_eq_getElem?, List.getElem?_append_right (le_refl _),
              Nat.sub_self, List.getElem?_cons_zero, Res.ok.injEq, reduceCtorEq] at ht
          | some hashed =>
            rw [hh] at h
            dsimp only at h
            cases hv : ev vx env mk with
            | ok x2 =>
              obtain ⟨value, mv⟩ := x2
              rw [hv] at h
              dsimp only at h
              by_cases hve : isError mv value = true
              · rw [if_pos hve] at h
                simp only [Res.ok.injEq, Prod.mk.injEq] at h
                obtain ⟨rfl, rfl⟩ := h
                rw [hve] at hne
                exact absurd hne (by simp)
              · rw [if_neg hve] at h
                have p1 : m.objects <+: mk.objects := hev _ _ _ _ _ hek
                have p2 : mk.objects <+: mv.objects := hev _ _ _ _ _ hv
                have p3 : mv.objects <+: (mv.makeObj (.HashPair key value)).2.objects :=
                  List.prefix_append _ _
                refine ih _ _ _ _ _ (entriesHashed_strMapAssign _ _ _ _ ?_
                  (entriesHashed_mono ((p1.trans p2).trans p3) _ hp)) h hne ht
                have hkey : hashKeyOf (mv.makeObj (.HashPair key value)).2 key = some hashed :=
                  hashKeyOf_mono (p2.trans p3) key hashed (by
                    simp only [hashKeyOf, hd, hh])
                have hpair : (mv.makeObj (.HashPair key value)).2.deref
                    (mv.makeObj (.HashPair key value)).1 = .ok (.HashPair key value) := by
                  simp only [Memory.makeObj, Memory.deref, List.get?_eq_getElem?,
                    List.getElem?_append_right (le_refl _), Nat.sub_self, List.getElem?_cons_zero]
                simp only [entryHashed, hpair, hkey, decide_True]
            | crash => rw [hv] at h; exact absurd h (by simp)
            | fuel => rw [hv] at h; exact absurd h (by simp)
        | crash => rw [hd] at h; exact absurd h (by simp)
        | fuel => rw [hd] at h; exact absurd h (by simp)
    | crash => rw [hek] at h; exact absurd h (by simp)
    | fuel => rw [hek] at h; exact absurd h (by simp)

theorem strMapAssign_mem_self (key : String) (v : ObjPtr) :
    ∀ pairs : List (String × ObjPtr), (key, v) ∈ strMapAssign key v pairs := by
  intro pairs
  induction pairs with
  | nil => simp only [strMapAssign, List.mem_singleton]
  | cons kv rest ih =>
    obtain ⟨k, w⟩ := kv
    simp only [strMapAssign]
    split_ifs with h1 h2
    · rw [h1]; exact List.mem_cons_self _ _
    · exact List.mem_cons_self _ _
    · exact List.mem_cons_of_mem _ ih

theorem strMapAssign_keeps_key (key : String) (v : ObjPtr) (s : String) :
    ∀ pairs : List (String × ObjPtr), (∃ p, (s, p) ∈ pairs) →
      ∃ p, (s, p) ∈ strMapAssign key v pairs := by
  intro pairs
  induction pairs with
  | nil => intro h; obtain ⟨p, hp⟩ := h; exact absurd hp (by simp)
  | cons kv rest ih =>
    intro h
    obtain ⟨p, hp⟩ := h
    obtain ⟨k, w⟩ := kv
    simp only [strMapAssign]
    split_ifs with h1 h2
    · rcases List.mem_cons.mp hp with h3 | h3
      · simp only [Prod.mk.injEq] at h3
        exact ⟨v, by rw [h3.1]; exact List.mem_cons_self _ _⟩
      · exact ⟨p, List.mem_cons_of_mem _ h3⟩
    · exact ⟨p, List.mem_cons_of_mem _ hp⟩
    · rcases List.mem_cons.mp hp with h3 | h3
      · exact ⟨p, by rw [h3]; exact List.mem_cons_self _ _⟩
      · obtain ⟨q, hq⟩ := ih ⟨p, h3⟩
        exact ⟨q, List.mem_cons_of_mem _ hq⟩

/-- The table that the loop of `evalHashLiteral` returns, against the pairs it
evaluated: all pairs were evaluated; an entry of the table was in the map the
loop started with or holds one of the evaluated pairs; every evaluated key has
an entry, and so has every key of the map the loop started with. -/
theorem evalHashLiteralLoop_entries (ev : Eval) (hev : ∀ n e m, Keeping m (ev n e m))
    (env : Nat) :
    ∀ (ps : List (NodePtr × NodePtr)) (pairs : List (String × ObjPtr)) (m m1 : Memory)
      (r : ObjPtr) (tbl : List (String × ObjPtr)),
      evalHashLiteralLoop ev env ps pairs m = .ok (r, m1) →
      isError m1 r = false → m1.deref r = .ok (.HashTable tbl) →
      (evaluatedPairs ev env ps m).length = ps.length
      ∧ (∀ e ∈ evaluatedPairs ev env ps m, hashKeyOf m1 e.2.1 = some e.1)
      ∧ (∀ s p, (s, p) ∈ tbl → (s, p) ∈ pairs ∨ ∃ e ∈ evaluatedPairs ev env ps m,
          s = e.1.inspect ∧ m1.deref p = .ok (.HashPair e.2.1 e.2.2))
      ∧ (∀ e ∈ evaluatedPairs ev env ps m, ∃ p, (e.1.inspect, p) ∈ tbl)
      ∧ (∀ s, (∃ p, (s, p) ∈ pairs) → ∃ p, (s, p) ∈ tbl) := by
  intro ps
  induction ps with
  | nil =>
    intro pairs m m1 r tbl h _ ht
    simp only [evalHashLiteralLoop, Memory.makeObj, Res.ok.injEq, Prod.mk.injEq] at h
    obtain ⟨rfl, rfl⟩ := h
    simp only [Memory.deref, List.get?_eq_getElem?, List.getElem?_append_right (le_refl _),
      Nat.sub_self, List.getElem?_cons_zero, Res.ok.injEq, Object.HashTable.injEq] at ht
    subst ht
    refine ⟨rfl, ?_, fun s p hsp => Or.inl hsp, ?_, fun s hs => hs⟩
    · intro e he; exact absurd he (by simp [evaluatedPairs])
    · intro e he; exact absurd he (by simp [evaluatedPairs])
  | cons kv rest ih =>
    intro pairs m m1 r tbl h hne ht
    obtain ⟨kx, vx⟩ := kv
    simp only [evalHashLiteralLoop] at h
    simp only [evaluatedPairs]
    cases hek : ev kx env m with
    | ok x =>
      obtain ⟨key, mk⟩ := x
      rw [hek] at h
      dsimp only at h ⊢
      by_cases hk : isError mk key = true
      · rw [if_pos hk] at h
        simp only [Res.ok.injEq, Prod.mk.injEq] at h
        obtain ⟨rfl, rfl⟩ := h
        rw [hk] at hne
        exact absurd hne (by simp)
      · rw [if_neg hk] at h
        cases hd : mk.deref key with
        | ok ko =>
          rw [hd] at h
          dsimp only at h ⊢
          cases hh : ko.hashKey with
          | none =>
            rw [hh] at h
            simp only [newError, Memory.makeObj, Res.ok.injEq, Prod.mk.injEq] at h
            obtain ⟨rfl, rfl⟩ := h
            simp only [Memory.deref, List.get?_eq_getElem?, List.getElem?_append_right (le_refl _),
              Nat.sub_self, List.getElem?_cons_zero, Res.ok.injEq, reduceCtorEq] at ht
          | some hashed =>
            rw [hh] at h
            dsimp only at h ⊢
            cases hv : ev vx env mk with
            | ok x2 =>
              obtain ⟨value, mv⟩ := x2
              rw [hv] at h
              dsimp only at h ⊢
              by_cases hve : isError mv value = true
              · rw [if_pos hve] at h
                simp only [Res.ok.injEq, Prod.mk.injEq] at h
                obtain ⟨rfl, rfl⟩ := h
                rw [hve] at hne
                exact absurd hne (by simp)
              · rw [if_neg hve] at h
                have p2 : mk.objects <+: mv.objects := hev _ _ _ _ _ hv
                have p3 : mv.objects <+: (mv.makeObj (.HashPair key value)).2.objects :=
                  List.prefix_append _ _
                have p4 : (mv.makeObj (.HashPair key value)).2.objects <+: m1.objects :=
                  keeping_evalHashLiteralLoop ev hev env _ _ _ _ _ h
                have hkey : hashKeyOf m1 key = some hashed :=
                  hashKeyOf_mono ((p2.trans p3).trans p4) key hashed (by
                    simp only [hashKeyOf, hd, hh])
                have hpair : m1.deref (mv.makeObj (.HashPair key value)).1
                    = .ok (.HashPair key value) :=
                  deref_mono p4 _ _ (by
                    simp only [Memory.makeObj, Memory.deref, List.get?_eq_getElem?,
                      List.getElem?_append_right (le_refl _), Nat.sub_self,
                      List.getElem?_cons_zero])
                obtain ⟨i1, i2, i3, i4, i5⟩ := ih _ _ _ _ _ h hne ht
                refine ⟨by rw [List.length_cons, i1, List.length_cons], ?_, ?_, ?_, ?_⟩
                · intro e he
                  rcases List.mem_cons.mp he with h1 | h1
                  · rw [h1]; exact hkey
                  · exact i2 e h1
                · intro s p hsp
                  rcases i3 s p hsp with h1 | ⟨e, he, h2⟩
                  · rcases mem_strMapAssign_pair _ _ _ _ h1 with h3 | h3
                    · simp only [Prod.mk.injEq] at h3
                      refine Or.inr ⟨(hashed, key, value), List.mem_cons_self _ _, h3.1, ?_⟩
                      rw [h3.2]
                      exact hpair
                    · exact Or.inl h3
                  · exact Or.inr ⟨e, List.mem_cons_of_mem _ he, h2⟩
                · intro e he
                  rcases List.mem_cons.mp he with h1 | h1
                  · rw [h1]
                    exact i5 _ ⟨_, strMapAssign_mem_self _ _ _⟩
                  · exact i4 e h1
                · intro s hs
                  exact i5 s (strMapAssign_keeps_key _ _ s pairs hs)
            | crash => rw [hv] at h; exact absurd h (by simp)
            | fuel => rw [hv] at h; exact absurd h (by simp)
        | crash => rw [hd] at h; exact absurd h (by simp)
        | fuel => rw [hd] at h; exact absurd h (by simp)
    | crash => rw [hek] at h; exact absurd h (by simp)
    | fuel => rw [hek] at h; exact absurd h (by simp)

theorem hashKeyOf_object (m : Memory) (key : ObjPtr) (kh : HashKey)
    (hk : hashKeyOf m key = some kh) : ∃ o : Object, o.hashKey = some kh := by
  simp only [hashKeyOf] at hk
  cases hd : m.deref key with
  | ok o => rw [hd] at hk; exact ⟨o, hk⟩
  | crash => rw [hd] at hk; exact absurd hk (by simp)
  | fuel => rw [hd] at hk; exact absurd hk (by simp)

theorem isError_of_hashTable (m : Memory) (r : ObjPtr) (tbl : List (String × ObjPtr))
    (ht : m.deref r = .ok (.HashTable tbl)) : isError m r = false := by
  cases r with
  | none => rfl
  | some a =>
    simp only [Memory.deref] at ht
    cases ho : m.objects.get? a with
    | none => rw [ho] at ht; exact absurd ht (by simp)
    | some o =>
      rw [ho] at ht
      simp only [Res.ok.injEq] at ht
      subst ht
      simp only [isError, ho, Object.type]
      simp

/-- C34: let `evalHashLiteral` have built the table at `left` from the pairs
`ps`, and let the index be a hashable object with the hash key `h`, in a memory
that still holds the objects of the table. All pairs of the literal were
evaluated, with hashable keys. When the hash keys of the evaluated keys are
pairwise different, `evalHashIndexExpression` returns, without touching the
memory, the value of the pair whose key has the type tag and the 64-bit value of
`h`; it returns the `NULL` singleton when no evaluated key has both. In every
case an entry of the table whose key has the hash key `h` gives its value. Two
hash keys of objects have the same string exactly when they are equal, so the
tags `INTEGER`, `BOOLEAN`, `STRING` with the value 1 never meet, while two
strings with the same byte sum have the same hash key. -/
theorem hash_lookup_by_type_and_value (fuel : Nat) (ps : List (NodePtr × NodePtr)) (env : Nat)
    (m0 m1 m : Memory) (left index : ObjPtr) (tbl : List (String × ObjPtr)) (i : Object)
    (h : HashKey)
    (hbuilt : evalHashLiteral (eval fuel) ps env m0 = .ok (left, m1))
    (hl : m1.deref left = .ok (.HashTable tbl))
    (hkept : m1.objects <+: m.objects)
    (hi : m.deref index = .ok i) (hh : i.hashKey = some h) :
    (evaluatedPairs (eval fuel) env ps m0).length = ps.length
    ∧ (∀ e ∈ evaluatedPairs (eval fuel) env ps m0, hashKeyOf m e.2.1 = some e.1)
    ∧ (((evaluatedPairs (eval fuel) env ps m0).map (fun e => e.1)).Nodup →
        ∀ e ∈ evaluatedPairs (eval fuel) env ps m0,
          e.1.objectType = h.objectType → e.1.value = h.value →
          evalHashIndexExpression left index m = .ok (e.2.2, m))
    ∧ ((∀ e ∈ evaluatedPairs (eval fuel) env ps m0,
          ¬ (e.1.objectType = h.objectType ∧ e.1.value = h.value)) →
        evalHashIndexExpression left index m = .ok (NULL_OBJ, m))
    ∧ (∀ s p key value, (s, p) ∈ tbl → m.deref p = .ok (.HashPair key value) →
        hashKeyOf m key = some h → evalHashIndexExpression left index m = .ok (value, m))
    ∧ (∀ (o1 o2 : Object) (k1 k2 : HashKey), o1.hashKey = some k1 → o2.hashKey = some k2 →
        (k1.inspect = k2.inspect ↔ k1.objectType = k2.objectType ∧ k1.value = k2.value))
    ∧ (Object.Strin "ab").hashKey = (Object.Strin "ba").hashKey := by
  have hne := isError_of_hashTable m1 left tbl hl
  have hev : ∀ n e mm, Keeping mm (eval fuel n e mm) := keeping_eval fuel
  obtain ⟨i1, i2, i3, i4, _⟩ :=
    evalHashLiteralLoop_entries (eval fuel) hev env ps [] m0 m1 left tbl hbuilt hne hl
  have hasc := evalHashLiteralLoop_keysAscend (eval fuel) env ps [] m0 m1 left tbl
    List.Pairwise.nil hbuilt hne hl
  have hent := entriesHashed_mono hkept tbl
    (evalHashLiteralLoop_entriesHashed (eval fuel) hev env ps [] m0 m1 left tbl rfl hbuilt hne hl)
  obtain ⟨g1, g2, g3, g4⟩ := hash_lookup_of_hashed_entries m left index tbl i h
    (deref_mono hkept _ _ hl) hi hh hasc hent
  refine ⟨i1, fun e he => hashKeyOf_mono hkept _ _ (i2 e he), ?_, ?_, g1, g3, g4⟩
  · intro hnd e he ht hv
    have heq : e.1 = h := by
      cases hk : e.1
      cases h
      rw [hk] at ht hv
      simp only at ht hv
      rw [ht, hv]
    obtain ⟨p, hp⟩ := i4 e he
    rcases i3 _ p hp with h1 | ⟨e2, he2, hs, hd⟩
    · exact absurd h1 (by simp)
    · obtain ⟨o1, ho1⟩ := hashKeyOf_object m1 _ _ (i2 e he)
      obtain ⟨o2, ho2⟩ := hashKeyOf_object m1 _ _ (i2 e2 he2)
      have hk12 : e.1 = e2.1 := (hashKey_inspect_injective o1 o2 _ _ ho1 ho2).mp hs
      have hee : e = e2 := List.inj_on_of_nodup_map hnd he he2 hk12
      rw [← hee] at hd
      refine g1 _ p e.2.1 e.2.2 hp (deref_mono hkept _ _ hd) ?_
      rw [← heq]
      exact hashKeyOf_mono hkept _ _ (i2 e he)
  · intro hno
    refine g2 ?_
    intro s p key value hmem hp hk
    rcases i3 s p hmem with h1 | ⟨e2, he2, _, hd⟩
    · exact absurd h1 (by simp)
    · have hd2 := deref_mono hkept _ _ hd
      rw [hp] at hd2
      simp only [Res.ok.injEq, Object.HashPair.injEq] at hd2
      have hk2 := hashKeyOf_mono hkept _ _ (i2 e2 he2)
      rw [← hd2.1, hk] at hk2
      simp only [Option.some.injEq] at hk2
      exact hno e2 he2 (by rw [← hk2]; exact ⟨rfl, rfl⟩)

/-- Witness for C34 on `{"ab": 1}["ba"]`: `evalHashLiteral` builds the table of
the one pair at address 12, the index `ba` has the hash key of the key `ab` and
finds its value; the Integer 1, the `TRUE` singleton and the string of the one
byte 1 do not find each other's entries. -/
theorem hash_lookup_by_type_and_value_witness :
    evalHashLiteral (eval 5) [(some 3, some 4)] 0 (memoryOf "\x7b\x22ab\x22: 1\x7d[\x22ba\x22]")
        = .ok (some 12, { memoryOf "\x7b\x22ab\x22: 1\x7d[\x22ba\x22]" with
            objects := (memoryOf "\x7b\x22ab\x22: 1\x7d[\x22ba\x22]").objects ++
              [Object.Strin "ab", Object.Integer 1, Object.HashPair (some 9) (some 10),
               Object.HashTable [("STRING_195", some 11)]] })
    ∧ (finalMemoryOf "\x7b\x22ab\x22: 1\x7d[\x22ba\x22]").objects.drop 9
        = [Object.Strin "ab", Object.Integer 1, Object.HashPair (some 9) (some 10),
           Object.HashTable [("STRING_195", some 11)], Object.Strin "ba"]
    ∧ evalHashIndexExpression (some 12) (some 13) (finalMemoryOf "\x7b\x22ab\x22: 1\x7d[\x22ba\x22]")
        = .ok (some 10, finalMemoryOf "\x7b\x22ab\x22: 1\x7d[\x22ba\x22]")
    ∧ startOutput 60 "\x7b\x22ab\x22: 1\x7d[\x22ba\x22]" = .ok (some "1")
    ∧ startOutput 60 "\x7b1: 5\x7d[\x22\x01\x22]" = .ok (some "null")
    ∧ startOutput 60 "\x7b1: 5\x7d[1 == 1]" = .ok (some "null")
    ∧ startOutput 60 "\x7b1 == 1: 5\x7d[1]" = .ok (some "null")
    ∧ startOutput 60 "\x7b1 == 1: 5\x7d[\x22\x01\x22]" = .ok (some "null")
    ∧ startOutput 60 "\x7b\x22\x01\x22: 5\x7d[1]" = .ok (some "null")
    ∧ startOutput 60 "\x7b1 == 1: 5\x7d[2 == 2]" = .ok (some "5")
    ∧ startOutput 60 "\x7b1: 5, 2: 6\x7d[2]" = .ok (some "6")
    ∧ startOutput 60 "\x7b1: 5, 2: 6\x7d[3]" = .ok (some "null") :=
  ⟨by decide!, by decide!,
    (hash_lookup_by_type_and_value 5 [(some 3, some 4)] 0
      (memoryOf "\x7b\x22ab\x22: 1\x7d[\x22ba\x22]")
      { memoryOf "\x7b\x22ab\x22: 1\x7d[\x22ba\x22]" with
        objects := (memoryOf "\x7b\x22ab\x22: 1\x7d[\x22ba\x22]").objects ++
          [Object.Strin "ab", Object.Integer 1, Object.HashPair (some 9) (some 10),
           Object.HashTable [("STRING_195", some 11)]] }
      (finalMemoryOf "\x7b\x22ab\x22: 1\x7d[\x22ba\x22]")
      (some 12) (some 13) [("STRING_195", some 11)] (Object.Strin "ba")
      { objectType := "STRING", value := 195 } (by decide!) (by decide!)
      ⟨[Object.Strin "ba"], by decide!⟩ (by decide!) (by decide!)).2.2.1 (by decide!)
      ({ objectType := "STRING", value := 195 }, some 9, some 10) (by decide!) rfl rfl,
    by decide!, by decide!, by decide!, by decide!, by decide!, by decide!, by decide!,
    by decide!, by decide!⟩

/-! ## quote without unquote (C20) -/

/-- The test `isUnquoteCall` on a node that is no call of `unquote`. -/
theorem isUnquoteCall_of_notUnquote (heap : NodeHeap) (a : Nat) (h : notUnquote heap a = true) :
    isUnquoteCall heap (some a) = .ok false := by
  simp only [notUnquote] at h
  simp only [isUnquoteCall]
  split at h
  · next t f args hget =>
    try rw [hget]
    try dsimp only
    split at h
    · next fn hf =>
      split at h
      · next lit hl =>
        simp only [hf, hl, Res.ok_bind, Res.pure_eq]
        simp only [decide_eq_true_eq] at h
        simp only [h, decide_False]
      · exact absurd h (by simp)
    · exact absurd h (by simp)
  · rfl
  · exact absurd h (by simp)

/-- A tidy tree that lies at addresses without a call of `unquote` is quoted as
it is: `quote` returns a new `Quote` of the very node, whatever the evaluator
`ev` is, and changes nothing else. -/
theorem quote_without_unquote (ev : Eval) (fuel d lo hi : Nat) (x : NodePtr) (env : Nat)
    (m : Memory) (hd : d < fuel) (ht : tidy m.nodes lo hi d x = true)
    (hn : noUnquoteIn m.nodes lo hi = true) :
    quote ev fuel x env m = .ok (m.makeObj (.Quote x)) := by
  have hmod : evalUnquoteCalls ev fuel x env m = .ok (x, m) := by
    unfold evalUnquoteCalls
    refine modify_tidy _ m lo hi rfl ?_ d fuel x hd ht
    intro a n hlo hhi _
    have hmem : a ∈ List.range' lo (hi - lo) := by
      rw [List.mem_range']
      exact ⟨a - lo, by omega, by omega⟩
    have hnu := (List.all_eq_true.mp hn) a hmem
    simp only [isUnquoteCall_of_notUnquote _ a hnu, Res.ok_bind, ↓reduceIte, Res.pure_eq]
  simp only [quote, hmod, Res.ok_bind, Res.pure_eq]

/-- C20: `quote` leaves its argument unevaluated except under `unquote`. Let the
call `quote(unquote(e))` be the node `q` (a `CallExpression` whose function has
the token literal `quote` and whose single argument is a `CallExpression` whose
function has the token literal `unquote` and whose single argument is `e`). If
`e` evaluates with fuel `k` to an `Integer` with the value `n`, then with fuel
`k + 1` the call evaluates to a newly allocated `Quote` wrapping a newly
allocated `IntegerLiteral` with the value `n` and the token
`(INT, decimal form of n)`. A tidy tree `x` that lies at addresses without a
call of `unquote` is quoted as it is: `quote` returns, whatever the evaluator
is, a new `Quote` of the node `x` itself in a memory that is otherwise
unchanged, and so does `eval` on a call `quote(x)`. -/
theorem quote_evaluates_only_unquote (k q fq u fu : Nat) (tq tfq tu tfu : Token)
    (vq vu : String) (e : NodePtr) (env : Nat) (m m1 : Memory) (r : Nat) (n : Int)
    (hq : m.nodes.get? q = some (.CallExpression tq (some fq) [some u]))
    (hfq : m.nodes.get? fq = some (.Identifier tfq vq)) (hlq : tfq.literal = "quote")
    (hu : m.nodes.get? u = some (.CallExpression tu (some fu) [e]))
    (hfu : m.nodes.get? fu = some (.Identifier tfu vu)) (hlu : tfu.literal = "unquote")
    (he : eval k e env m = .ok (some r, m1))
    (hr : m1.objects.get? r = some (.Integer n)) :
    eval (k + 1) (some q) env m
      = .ok (some m1.objects.length,
          { m1 with
            nodes := m1.nodes ++ [.IntegerLiteral { type := .INT, literal := toString n } n],
            objects := m1.objects ++ [.Quote (some m1.nodes.length)] })
    ∧ (∀ (ev : Eval) (fuel d lo hi : Nat) (x : NodePtr) (env2 : Nat) (m2 : Memory),
        d < fuel → tidy m2.nodes lo hi d x = true → noUnquoteIn m2.nodes lo hi = true →
        quote ev fuel x env2 m2 = .ok (m2.makeObj (.Quote x)))
    ∧ (∀ (fuel d lo hi q2 f2 : Nat) (t tf : Token) (vf : String) (x : NodePtr) (env2 : Nat)
        (m2 : Memory), m2.nodes.get? q2 = some (.CallExpression t (some f2) [x]) →
        m2.nodes.get? f2 = some (.Identifier tf vf) → tf.literal = "quote" →
        d < fuel → tidy m2.nodes lo hi d x = true → noUnquoteIn m2.nodes lo hi = true →
        eval (fuel + 1) (some q2) env2 m2 = .ok (m2.makeObj (.Quote x))) := by
  refine ⟨quote_of_unquote_integer k q fq u fu tq tfq tu tfu vq vu e env m m1 r n hq hfq hlq
    hu hfu hlu he hr, quote_without_unquote, ?_⟩
  intro fuel d lo hi q2 f2 t tf vf x env2 m2 h1 h2 h3 hd ht hn
  have s1 := @eval.eq_3
  have tl : ∀ t v, TokenLiteral m2.nodes (.Identifier t v) = .ok t.literal := fun _ _ => rfl
  simp only [s1, h1, derefNode, h2, tl, h3, Res.ok_bind, ↓reduceIte, List.length_singleton,
    ne_eq, not_true_eq_false, vectorAt, List.get?_cons_zero]
  exact quote_without_unquote (eval fuel) fuel d lo hi x env2 m2 hd ht hn

/-- Witness for C20 on `quote(unquote(4 + 4))`, and on `quote(foo(4 + 4))` for
the tree without `unquote`, with the runs of the programs of the claim. -/
theorem quote_evaluates_only_unquote_witness :
    eval (3 + 1) (some 3) 0 (memoryOf "quote(unquote(4 + 4))")
      = .ok (some
          ((memoryOf "quote(unquote(4 + 4))").objects
            ++ [Object.Integer 4, Object.Integer 4, Object.Integer 8]).length,
          { memoryOf "quote(unquote(4 + 4))" with
            nodes := (memoryOf "quote(unquote(4 + 4))").nodes
              ++ [Node.IntegerLiteral { type := .INT, literal := toString (8 : Int) } 8],
            objects := ((memoryOf "quote(unquote(4 + 4))").objects
              ++ [Object.Integer 4, Object.Integer 4, Object.Integer 8])
              ++ [Object.Quote (some (memoryOf "quote(unquote(4 + 4))").nodes.length)] })
    ∧ eval (2 + 1) (some 3) 0 (memoryOf "quote(foo(4 + 4))")
      = .ok ((memoryOf "quote(foo(4 + 4))").makeObj (.Quote (some 5)))
    ∧ startOutput 60 "quote(unquote(4 + 4))" = .ok (some "QUOTE(8)")
    ∧ startOutput 60 "quote(8 + unquote(4 + 4))" = .ok (some "QUOTE((8 + 8))")
    ∧ startOutput 60 "quote(4 + 4)" = .ok (some "QUOTE((4 + 4))")
    ∧ startOutput 60 "quote(foo(4 + 4))" = .ok (some "QUOTE(foo((4 + 4)))")
    ∧ startOutput 60 "quote(unquote(0 - 5))" = .ok (some "QUOTE(-5)") :=
  ⟨(quote_evaluates_only_unquote 3 3 2 5 4 { type := .LPAREN, literal := "(" }
      { type := .IDENT, literal := "quote" } { type := .LPAREN, literal := "(" }
      { type := .IDENT, literal := "unquote" } "quote" "unquote" (some 7) 0
      (memoryOf "quote(unquote(4 + 4))")
      { memoryOf "quote(unquote(4 + 4))" with
        objects := (memoryOf "quote(unquote(4 + 4))").objects
          ++ [Object.Integer 4, Object.Integer 4, Object.Integer 8] }
      11 8 (by decide!) (by decide!) rfl (by decide!) (by decide!) rfl (by decide!)
      (by decide!)).1,
    (quote_evaluates_only_unquote 3 3 2 5 4 { type := .LPAREN, literal := "(" }
      { type := .IDENT, literal := "quote" } { type := .LPAREN, literal := "(" }
      { type := .IDENT, literal := "unquote" } "quote" "unquote" (some 7) 0
      (memoryOf "quote(unquote(4 + 4))")
      { memoryOf "quote(unquote(4 + 4))" with
        objects := (memoryOf "quote(unquote(4 + 4))").objects
          ++ [Object.Integer 4, Object.Integer 4, Object.Integer 8] }
      11 8 (by decide!) (by decide!) rfl (by decide!) (by decide!) rfl (by decide!)
      (by decide!)).2.2 2 1 4 9 3 2 { type := .LPAREN, literal := "(" }
      { type := .IDENT, literal := "quote" } "quote" (some 5) 0
      (memoryOf "quote(foo(4 + 4))") (by decide!) (by decide!) rfl (by decide) (by decide!)
      (by decide!),
    by decide!, by decide!, by decide!, by decide!, by decide!⟩

/-! ## Arrays hold no Error (C19) -/

theorem validPtr_mono {o1 o2 : List Object} (hp : o1 <+: o2) (p : ObjPtr)
    (h : validPtr o1 p = true) : validPtr o2 p = true := by
  cases p with
  | none => rfl
  | some a =>
    simp only [validPtr, decide_eq_true_eq] at h ⊢
    exact lt_of_lt_of_le h hp.length_le

theorem get_mono {o1 o2 : List Object} (hp : o1 <+: o2) (a : Nat) (o : Object)
    (h : o1.get? a = some o) : o2.get? a = some o := by
  obtain ⟨t, rfl⟩ := hp
  rw [List.get?_eq_getElem?] at h ⊢
  have hlt : a < o1.length := by
    by_contra hc
    rw [List.getElem?_eq_none (by omega)] at h
    exact Option.noConfusion h
  rw [List.getElem?_append_left hlt]
  exact h

theorem quietPtr_mono {o1 o2 : List Object} (hp : o1 <+: o2) (p : ObjPtr)
    (h : quietPtr o1 p = true) : quietPtr o2 p = true := by
  cases p with
  | none => rfl
  | some a =>
    simp only [quietPtr] at h ⊢
    cases hg : o1.get? a with
    | none => rw [hg] at h; exact absurd h (by simp)
    | some o =>
      rw [hg] at h
      rw [get_mono hp a o hg]
      exact h

theorem quietPtr_valid (objects : List Object) (p : ObjPtr) (h : quietPtr objects p = true) :
    validPtr objects p = true := by
  cases p with
  | none => rfl
  | some a =>
    simp only [quietPtr] at h
    simp only [validPtr, decide_eq_true_eq]
    by_contra hc
    rw [List.get?_eq_getElem?, List.getElem?_eq_none (by omega)] at h
    exact absurd h (by simp)

theorem soundObject_mono {o1 o2 : List Object} (hp : o1 <+: o2) (o : Object)
    (h : soundObject o1 o = true) : soundObject o2 o = true := by
  cases o <;> first
    | rfl
    | (simp only [soundObject, List.all_eq_true] at h ⊢
       exact fun e he => quietPtr_mono hp e (h e he))
    | (simp only [soundObject] at h ⊢
       exact validPtr_mono hp _ h)

/-- A pointer of the heap that `isError` rejects is quiet. -/
theorem quiet_of_not_isError (m : Memory) (p : ObjPtr) (hv : validPtr m.objects p = true)
    (he : isError m p = false) : quietPtr m.objects p = true := by
  cases p with
  | none => rfl
  | some a =>
    simp only [validPtr, decide_eq_true_eq] at hv
    simp only [isError] at he
    simp only [quietPtr]
    cases hg : m.objects.get? a with
    | none =>
      rw [List.get?_eq_getElem?, List.getElem?_eq_none_iff] at hg
      omega
    | some o =>
      rw [hg] at he
      simp only [decide_eq_false_iff_not] at he
      simp only [ne_eq, he, not_false_eq_true, decide_True]

theorem valid_of_isError (m : Memory) (p : ObjPtr) (he : isError m p = true) :
    validPtr m.objects p = true := by
  cases p with
  | none => rfl
  | some a =>
    simp only [isError] at he
    simp only [validPtr, decide_eq_true_eq]
    by_contra hc
    rw [List.get?_eq_getElem?, List.getElem?_eq_none (by omega)] at he
    exact absurd he (by simp)

theorem heapSound_parts (m : Memory) (h : heapSound m = true) :
    9 ≤ m.objects.length ∧ (∀ o ∈ m.objects, soundObject m.objects o = true)
      ∧ ∀ frame ∈ m.envs, ∀ kv ∈ frame.store, validPtr m.objects kv.2 = true := by
  simp only [heapSound, Bool.and_eq_true, decide_eq_true_eq, List.all_eq_true] at h
  exact ⟨h.1.1, h.1.2, h.2⟩

theorem heapSound_of_parts (m : Memory) (h1 : 9 ≤ m.objects.length)
    (h2 : ∀ o ∈ m.objects, soundObject m.objects o = true)
    (h3 : ∀ frame ∈ m.envs, ∀ kv ∈ frame.store, validPtr m.objects kv.2 = true) :
    heapSound m = true := by
  simp only [heapSound, Bool.and_eq_true, decide_eq_true_eq, List.all_eq_true]
  exact ⟨⟨h1, h2⟩, h3⟩

/-- Allocation of an object that passes `soundObject` keeps the heap sound and
returns an object of the heap. -/
theorem heapSound_makeObj (m : Memory) (o : Object) (h : heapSound m = true)
    (ho : soundObject m.objects o = true) :
    heapSound (m.makeObj o).2 = true ∧ validPtr (m.makeObj o).2.objects (m.makeObj o).1 = true := by
  obtain ⟨h1, h2, h3⟩ := heapSound_parts m h
  have hp : m.objects <+: m.objects ++ [o] := List.prefix_append _ _
  refine ⟨heapSound_of_parts _ ?_ ?_ ?_, ?_⟩
  · simp only [Memory.makeObj, List.length_append, List.length_singleton]; omega
  · intro x hx
    simp only [Memory.makeObj, List.mem_append, List.mem_singleton] at hx ⊢
    rcases hx with hx | hx
    · exact soundObject_mono hp x (h2 x hx)
    · rw [hx]; exact soundObject_mono hp o ho
  · intro frame hf kv hkv
    exact validPtr_mono hp _ (h3 frame hf kv hkv)
  · simp only [Memory.makeObj, validPtr, List.length_append, List.length_singleton,
      decide_eq_true_eq]
    omega

theorem heapSound_nodes (m : Memory) (ns : NodeHeap) :
    heapSound { m with nodes := ns } = heapSound m := rfl

theorem heapSound_out (m : Memory) (out : List String) :
    heapSound { m with out := out } = heapSound m := rfl

theorem mem_storeAssign (name : String) (v : ObjPtr) :
    ∀ (store : List (String × ObjPtr)) (x : String × ObjPtr),
      x ∈ storeAssign name v store → x.2 = v ∨ x ∈ store := by
  intro store
  induction store with
  | nil =>
    intro x hx
    simp only [storeAssign, List.mem_singleton] at hx
    exact Or.inl (by rw [hx])
  | cons kv rest ih =>
    intro x hx
    obtain ⟨k, w⟩ := kv
    simp only [storeAssign] at hx
    split_ifs at hx with h1
    · rcases List.mem_cons.mp hx with h | h
      · exact Or.inl (by rw [h])
      · exact Or.inr (List.mem_cons_of_mem _ h)
    · rcases List.mem_cons.mp hx with h | h
      · exact Or.inr (by rw [h]; exact List.mem_cons_self _ _)
      · rcases ih x h with h3 | h3
        · exact Or.inl h3
        · exact Or.inr (List.mem_cons_of_mem _ h3)

/-- Binding a name to an object of the heap keeps the heap sound. -/
theorem heapSound_envSet (m m1 : Memory) (e : Nat) (name : String) (v : ObjPtr)
    (h : heapSound m = true) (hv : validPtr m.objects v = true)
    (hs : m.envSet e name v = .ok m1) : heapSound m1 = true ∧ m1.objects = m.objects := by
  obtain ⟨h1, h2, h3⟩ := heapSound_parts m h
  simp only [Memory.envSet] at hs
  split at hs
  · exact absurd hs (by simp)
  · next frame hf =>
    simp only [Res.ok.injEq] at hs
    subst hs
    refine ⟨heapSound_of_parts _ h1 h2 ?_, rfl⟩
    intro fr hfr kv hkv
    dsimp only at hfr ⊢
    rcases List.mem_or_eq_of_mem_set hfr with hm | hm
    · exact h3 fr hm kv hkv
    · rw [hm] at hkv
      rcases mem_storeAssign name v _ kv hkv with h4 | h4
      · rw [h4]; exact hv
      · exact h3 frame (List.get?_mem hf) kv h4

/-- A new frame whose names are bound to objects of the heap keeps the heap
sound. -/
theorem heapSound_makeEnv (m : Memory) (frame : Environment) (h : heapSound m = true)
    (hv : ∀ kv ∈ frame.store, validPtr m.objects kv.2 = true) :
    heapSound (m.makeEnv frame).2 = true := by
  obtain ⟨h1, h2, h3⟩ := heapSound_parts m h
  refine heapSound_of_parts _ h1 h2 ?_
  intro fr hfr kv hkv
  simp only [Memory.makeEnv, List.mem_append, List.mem_singleton] at hfr
  rcases hfr with hm | hm
  · exact h3 fr hm kv hkv
  · rw [hm] at hkv; exact hv kv hkv

theorem storeFind_mem (name : String) (v : ObjPtr) :
    ∀ store : List (String × ObjPtr), storeFind name store = some v → (name, v) ∈ store := by
  intro store
  induction store with
  | nil => intro h; exact absurd h (by simp [storeFind])
  | cons kv rest ih =>
    intro h
    obtain ⟨k, w⟩ := kv
    simp only [storeFind] at h
    split_ifs at h with h1
    · simp only [Option.some.injEq] at h
      rw [h1, h]
      exact List.mem_cons_self _ _
    · exact List.mem_cons_of_mem _ (ih h)

theorem envGetLoop_valid (m : Memory) (name : String) (h : heapSound m = true) :
    ∀ (fuel e : Nat), validPtr m.objects (m.envGetLoop name fuel e) = true := by
  obtain ⟨_, _, h3⟩ := heapSound_parts m h
  intro fuel
  induction fuel with
  | zero => intro e; rfl
  | succ f ih =>
    intro e
    simp only [Memory.envGetLoop]
    split
    · rfl
    · next frame hf =>
      split
      · next v hv => exact h3 frame (List.get?_mem hf) _ (storeFind_mem name v _ hv)
      · split
        · exact ih _
        · rfl

theorem envGet_valid (m : Memory) (e : Nat) (name : String) (h : heapSound m = true) :
    validPtr m.objects (m.envGet e name) = true :=
  envGetLoop_valid m name h _ _

theorem Sound.sd_crash {α : Type} (P : α → Memory → Prop) (m : Memory) :
    Sound P m (Res.crash : Res (α × Memory)) :=
  fun _ _ _ h => Res.noConfusion h

theorem Sound.sd_fuel {α : Type} (P : α → Memory → Prop) (m : Memory) :
    Sound P m (Res.fuel : Res (α × Memory)) :=
  fun _ _ _ h => Res.noConfusion h

theorem Sound.sd_ok {α : Type} {P : α → Memory → Prop} {m : Memory} {x : α}
    (h : heapSound m = true → P x m) : Sound P m (Res.ok (x, m)) := by
  intro hs y m1 hr
  simp only [Res.ok.injEq, Prod.mk.injEq] at hr
  obtain ⟨rfl, rfl⟩ := hr
  exact ⟨hs, h hs⟩

/-- A result with static storage. -/
theorem Sound.sd_static {m : Memory} {x : ObjPtr} (h : validPtr staticObjects x = true) :
    Sound validIn m (Res.ok (x, m)) := by
  refine Sound.sd_ok (fun hs => ?_)
  obtain ⟨h1, _, _⟩ := heapSound_parts m hs
  cases x with
  | none => rfl
  | some a =>
    simp only [validPtr, decide_eq_true_eq, staticObjects, List.length_cons, List.length_nil,
      validIn] at h ⊢
    omega

theorem Sound.sd_makeObj (m : Memory) (o : Object) (ho : soundObject m.objects o = true) :
    Sound validIn m (Res.ok (m.makeObj o)) := by
  intro hs y m1 hr
  simp only [Res.ok.injEq] at hr
  have h := heapSound_makeObj m o hs ho
  rw [hr] at h
  exact h

theorem Sound.sd_newError (msg : String) (m : Memory) : Sound validIn m (newError msg m) :=
  Sound.sd_makeObj m _ rfl

theorem Sound.sd_value {α β : Type} {P : α → Memory → Prop} {m : Memory} {x : Res β}
    {f : β → Res (α × Memory)} (hf : ∀ b, x = .ok b → Sound P m (f b)) :
    Sound P m (x >>= f) := by
  cases x with
  | ok b => exact hf b rfl
  | crash => exact Sound.sd_crash P m
  | fuel => exact Sound.sd_fuel P m

theorem Sound.sd_run {α β : Type} {P : α → Memory → Prop} {Q : β → Memory → Prop}
    {m : Memory} {x : Res (β × Memory)} {f : β × Memory → Res (α × Memory)}
    (hx : Sound Q m x) (hf : ∀ b m1, x = .ok (b, m1) → Q b m1 → Sound P m1 (f (b, m1))) :
    Sound P m (x >>= f) := by
  cases x with
  | ok v =>
    obtain ⟨b, m1⟩ := v
    intro hs y m2 hr
    obtain ⟨hs1, hq⟩ := hx hs b m1 rfl
    exact hf b m1 rfl hq hs1 y m2 hr
  | crash => exact Sound.sd_crash P m
  | fuel => exact Sound.sd_fuel P m

theorem Sound.sd_mem {α : Type} {P : α → Memory → Prop} {m : Memory} {x : Res Memory}
    {f : Memory → Res (α × Memory)} (hx : SoundMem m x)
    (hf : ∀ m1, x = .ok m1 → Sound P m1 (f m1)) : Sound P m (x >>= f) := by
  cases x with
  | ok m1 =>
    intro hs y m2 hr
    exact hf m1 rfl (hx hs m1 rfl) y m2 hr
  | crash => exact Sound.sd_crash P m
  | fuel => exact Sound.sd_fuel P m

theorem nativeBool_static (b : Bool) :
    validPtr staticObjects (nativeBoolToBooleaObject b) = true := by
  cases b <;> rfl

theorem evalBang_static (r : ObjPtr) :
    validPtr staticObjects (evalBangOperatorExpression r) = true := by
  simp only [evalBangOperatorExpression]
  split_ifs <;> rfl

theorem sound_evalIntegerInfixExpression (op : String) (l r : ObjPtr) (m : Memory) :
    Sound validIn m (evalIntegerInfixExpression op l r m) := by
  unfold evalIntegerInfixExpression
  repeat (first
    | exact Sound.sd_static (nativeBool_static _)
    | exact Sound.sd_makeObj _ _ rfl
    | exact Sound.sd_newError _ _
    | exact Sound.sd_crash _ _
    | (apply Sound.sd_value; intro _ _)
    | split)

theorem sound_evalStringInfixExpression (op : String) (l r : ObjPtr) (m : Memory) :
    Sound validIn m (evalStringInfixExpression op l r m) := by
  unfold evalStringInfixExpression
  repeat (first
    | exact Sound.sd_static (nativeBool_static _)
    | exact Sound.sd_makeObj _ _ rfl
    | exact Sound.sd_newError _ _
    | exact Sound.sd_crash _ _
    | (apply Sound.sd_value; intro _ _)
    | split)

theorem sound_evalInfixExpression (op : String) (l r : ObjPtr) (m : Memory) :
    Sound validIn m (evalInfixExpression op l r m) := by
  unfold evalInfixExpression
  repeat (first
    | exact Sound.sd_static (nativeBool_static _)
    | exact Sound.sd_makeObj _ _ rfl
    | exact Sound.sd_newError _ _
    | exact Sound.sd_crash _ _
    | exact sound_evalIntegerInfixExpression _ _ _ _
    | exact sound_evalStringInfixExpression _ _ _ _
    | (apply Sound.sd_value; intro _ _)
    | split)

theorem sound_evalPrefixExpression (op : String) (r : ObjPtr) (m : Memory) :
    Sound validIn m (evalPrefixExpression op r m) := by
  unfold evalPrefixExpression evalMinusPrefixOperatorExpression
  repeat (first
    | exact Sound.sd_static (evalBang_static _)
    | exact Sound.sd_makeObj _ _ rfl
    | exact Sound.sd_newError _ _
    | exact Sound.sd_crash _ _
    | (apply Sound.sd_value; intro _ _)
    | split)

theorem getBuiltin_static (name : String) : validPtr staticObjects (getBuiltin name) = true := by
  simp only [getBuiltin]
  split_ifs <;> rfl

theorem sound_evalIdentifier (value : String) (env : Nat) (m : Memory) :
    Sound validIn m (evalIdentifier value env m) := by
  unfold evalIdentifier
  split
  · exact Sound.sd_static (getBuiltin_static _)
  · split
    · exact Sound.sd_ok (fun hs => envGet_valid m env value hs)
    · exact Sound.sd_newError _ _

/-- An object read from a sound heap passes `soundObject`. -/
theorem deref_sound (m : Memory) (p : ObjPtr) (o : Object) (hs : heapSound m = true)
    (h : m.deref p = .ok o) : soundObject m.objects o = true := by
  obtain ⟨_, h2, _⟩ := heapSound_parts m hs
  cases p with
  | none => exact absurd h (by simp [Memory.deref])
  | some a =>
    simp only [Memory.deref] at h
    cases hg : m.objects.get? a with
    | none => rw [hg] at h; exact absurd h (by simp)
    | some o1 =>
      rw [hg] at h
      simp only [Res.ok.injEq] at h
      rw [← h]
      exact h2 o1 (List.get?_mem hg)

theorem vectorAt_mem {α : Type} (xs : List α) (i : Nat) (x : α) (h : vectorAt xs i = .ok x) :
    x ∈ xs := by
  simp only [vectorAt] at h
  cases hg : xs.get? i with
  | none => rw [hg] at h; exact absurd h (by simp)
  | some y =>
    rw [hg] at h
    simp only [Res.ok.injEq] at h
    rw [← h]
    exact List.get?_mem hg

theorem sound_evalIndexExpression (l i : ObjPtr) (m : Memory) :
    Sound validIn m (evalIndexExpression l i m) := by
  unfold evalIndexExpression evalArrayIndexExpression evalHashIndexExpression
  apply Sound.sd_value
  intro arr _
  split
  · apply Sound.sd_value
    intro lo hl
    apply Sound.sd_value
    intro io _
    split
    · next elements idx =>
      split
      · exact Sound.sd_static rfl
      · apply Sound.sd_value
        intro e he
        refine Sound.sd_ok (fun hs => ?_)
        have h1 := deref_sound m l _ hs hl
        simp only [soundObject, List.all_eq_true] at h1
        exact quietPtr_valid _ _ (h1 e (vectorAt_mem _ _ _ he))
    · exact Sound.sd_crash _ _
  · apply Sound.sd_value
    intro lt _
    split
    · apply Sound.sd_value
      intro lo _
      split
      · split
        · exact Sound.sd_crash _ _
        · apply Sound.sd_value
          intro io _
          split
          · exact Sound.sd_newError _ _
          · split
            · exact Sound.sd_static rfl
            · apply Sound.sd_value
              intro pr hpr
              split
              · next key value =>
                refine Sound.sd_ok (fun hs => ?_)
                exact deref_sound m _ _ hs hpr
              · exact Sound.sd_crash _ _
      · exact Sound.sd_crash _ _
    · exact Sound.sd_newError _ _

theorem sound_puts (fuel : Nat) :
    ∀ (args : List ObjPtr) (m : Memory), Sound validIn m (builtins.puts fuel args m) := by
  intro args
  induction args with
  | nil => intro m; exact Sound.sd_ok (fun _ => rfl)
  | cons a rest ih =>
    intro m
    simp only [builtins.puts]
    split
    · intro hs
      exact ih _ (by rw [heapSound_out]; exact hs)
    · exact Sound.sd_crash _ _
    · exact Sound.sd_fuel _ _

/-- The built-ins keep the heap sound when their arguments are null or objects
other than an `Error`, as `evalExpressions` hands them over. -/
theorem sound_callBuiltin (fuel : Nat) (fn : BuiltinFn) (args : List ObjPtr) (m : Memory)
    (hq : ∀ a ∈ args, quietPtr m.objects a = true) :
    Sound validIn m (callBuiltin fuel fn args m) := by
  unfold callBuiltin
  cases fn <;> dsimp only
  · unfold builtins.len
    repeat (first
      | exact Sound.sd_makeObj _ _ rfl
      | exact Sound.sd_newError _ _
      | exact Sound.sd_crash _ _
      | (apply Sound.sd_value; intro _ _)
      | split)
  · unfold builtins.first
    split
    · exact Sound.sd_newError _ _
    · apply Sound.sd_value
      intro a _
      apply Sound.sd_value
      intro o ho
      split
      · next elements =>
        split
        · exact Sound.sd_ok (fun _ => rfl)
        · next e es =>
          refine Sound.sd_ok (fun hs => ?_)
          have h1 := deref_sound m a _ hs ho
          simp only [soundObject, List.all_eq_true] at h1
          exact quietPtr_valid _ _ (h1 e (List.mem_cons_self _ _))
      · exact Sound.sd_newError _ _
  · unfold builtins.last
    split
    · exact Sound.sd_newError _ _
    · apply Sound.sd_value
      intro a _
      apply Sound.sd_value
      intro o ho
      split
      · next elements =>
        split
        · apply Sound.sd_value
          intro e he
          refine Sound.sd_ok (fun hs => ?_)
          have h1 := deref_sound m a _ hs ho
          simp only [soundObject, List.all_eq_true] at h1
          exact quietPtr_valid _ _ (h1 e (vectorAt_mem _ _ _ he))
        · exact Sound.sd_ok (fun _ => rfl)
      · exact Sound.sd_newError _ _
  · unfold builtins.rest
    split
    · exact Sound.sd_newError _ _
    · apply Sound.sd_value
      intro a _
      apply Sound.sd_value
      intro o ho
      split
      · next elements =>
        split
        · intro hs
          have h1 := deref_sound m a _ hs ho
          simp only [soundObject, List.all_eq_true] at h1
          refine Sound.sd_makeObj _ _ ?_ hs
          simp only [soundObject, List.all_eq_true]
          exact fun e he => h1 e (List.mem_of_mem_drop he)
        · exact Sound.sd_ok (fun _ => rfl)
      · exact Sound.sd_newError _ _
  · unfold builtins.push
    split
    · exact Sound.sd_newError _ _
    · apply Sound.sd_value
      intro a _
      apply Sound.sd_value
      intro o ho
      split
      · next elements =>
        apply Sound.sd_value
        intro v hv
        intro hs
        have h1 := deref_sound m a _ hs ho
        simp only [soundObject, List.all_eq_true] at h1
        refine Sound.sd_makeObj _ _ ?_ hs
        simp only [soundObject, List.all_eq_true, List.mem_append, List.mem_singleton]
        intro e he
        rcases he with he | he
        · exact h1 e he
        · rw [he]; exact hq v (vectorAt_mem _ _ _ hv)
      · exact Sound.sd_newError _ _
  · exact sound_puts fuel args m

theorem sound_evalIfExpression (ev : Eval) (hev : ∀ n e m, Sound validIn m (ev n e m))
    (c q x : NodePtr) (env : Nat) (m : Memory) :
    Sound validIn m (evalIfExpression ev c q x env m) := by
  unfold evalIfExpression
  refine Sound.sd_run (hev _ _ _) (fun b m1 _ hb => ?_)
  dsimp only
  repeat (first
    | exact Sound.sd_static rfl
    | exact Sound.sd_ok (fun _ => hb)
    | exact hev _ _ _
    | split)

theorem sound_evalProgramLoop (ev : Eval) (hev : ∀ n e m, Sound validIn m (ev n e m))
    (env : Nat) :
    ∀ (ss : List NodePtr) (r : ObjPtr) (m : Memory), validPtr m.objects r = true →
      Sound validIn m (evalProgramLoop ev env ss r m) := by
  intro ss
  induction ss with
  | nil => intro r m hr; exact Sound.sd_ok (fun _ => hr)
  | cons s rest ih =>
    intro r m _
    simp only [evalProgramLoop]
    intro hs
    split
    · next result m1 h =>
      obtain ⟨hs1, hv⟩ := hev _ _ _ hs result m1 h
      split
      · exact ih _ _ hv hs1
      · next a =>
        split
        · next value hg =>
          refine Sound.sd_ok (fun _ => ?_) hs1
          obtain ⟨_, h2, _⟩ := heapSound_parts m1 hs1
          exact h2 _ (List.get?_mem hg)
        · exact Sound.sd_ok (fun _ => hv) hs1
        · exact ih _ _ hv hs1
    · exact Sound.sd_crash _ _ hs
    · exact Sound.sd_fuel _ _ hs

theorem sound_evalBlockStatementLoop (ev : Eval) (hev : ∀ n e m, Sound validIn m (ev n e m))
    (env : Nat) :
    ∀ (ss : List NodePtr) (r : ObjPtr) (m : Memory), validPtr m.objects r = true →
      Sound validIn m (evalBlockStatementLoop ev env ss r m) := by
  intro ss
  induction ss with
  | nil => intro r m hr; exact Sound.sd_ok (fun _ => hr)
  | cons s rest ih =>
    intro r m _
    simp only [evalBlockStatementLoop]
    intro hs
    split
    · next result m1 h =>
      obtain ⟨hs1, hv⟩ := hev _ _ _ hs result m1 h
      split
      · exact ih _ _ hv hs1
      · split
        · split
          · exact Sound.sd_ok (fun _ => hv) hs1
          · exact ih _ _ hv hs1
        · exact Sound.sd_crash _ _ hs1
    · exact Sound.sd_crash _ _ hs
    · exact Sound.sd_fuel _ _ hs

theorem sound_evalExpressionsLoop (ev : Eval) (hev : ∀ n e m, Sound validIn m (ev n e m))
    (hk : ∀ n e m, Keeping m (ev n e m)) (env : Nat) :
    ∀ (es : List NodePtr) (r : List ObjPtr) (m : Memory),
      (∀ e ∈ r, quietPtr m.objects e = true) →
      Sound quietValues m (evalExpressionsLoop ev env es r m) := by
  intro es
  induction es with
  | nil => intro r m hr; exact Sound.sd_ok (fun _ => Or.inr hr)
  | cons s rest ih =>
    intro r m hr
    simp only [evalExpressionsLoop]
    intro hs
    split
    · next result m1 h =>
      obtain ⟨hs1, hv⟩ := hev _ _ _ hs result m1 h
      have hp := hk _ _ _ result m1 h
      split
      · next he => exact Sound.sd_ok (fun _ => Or.inl ⟨result, rfl, he⟩) hs1
      · next he =>
        refine ih _ _ ?_ hs1
        intro e hmem
        rcases List.mem_append.mp hmem with h1 | h1
        · exact quietPtr_mono hp e (hr e h1)
        · rw [List.mem_singleton] at h1
          rw [h1]
          exact quiet_of_not_isError m1 result hv (by simpa using he)
    · exact Sound.sd_crash _ _ hs
    · exact Sound.sd_fuel _ _ hs

theorem sound_evalHashLiteralLoop (ev : Eval) (hev : ∀ n e m, Sound validIn m (ev n e m))
    (env : Nat) :
    ∀ (ps : List (NodePtr × NodePtr)) (pairs : List (String × ObjPtr)) (m : Memory),
      Sound validIn m (evalHashLiteralLoop ev env ps pairs m) := by
  intro ps
  induction ps with
  | nil => intro pairs m; exact Sound.sd_makeObj _ _ rfl
  | cons kv rest ih =>
    intro pairs m
    obtain ⟨k, v⟩ := kv
    simp only [evalHashLiteralLoop]
    intro hs
    split
    · next key m1 h =>
      obtain ⟨hs1, hv⟩ := hev _ _ _ hs key m1 h
      split
      · exact Sound.sd_ok (fun _ => hv) hs1
      · split
        · split
          · exact Sound.sd_newError _ _ hs1
          · split
            · next value m2 h2 =>
              obtain ⟨hs2, hv2⟩ := hev _ _ _ hs1 value m2 h2
              split
              · exact Sound.sd_ok (fun _ => hv2) hs2
              · exact ih _ _ (heapSound_makeObj m2 (.HashPair key value) hs2 hv2).1
            · exact Sound.sd_crash _ _ hs1
            · exact Sound.sd_fuel _ _ hs1
        · exact Sound.sd_crash _ _ hs1
        · exact Sound.sd_fuel _ _ hs1
    · exact Sound.sd_crash _ _ hs
    · exact Sound.sd_fuel _ _ hs

theorem mem_bindParameters (heap : NodeHeap) (args : List ObjPtr) :
    ∀ (ps : List NodePtr) (i : Nat) (store store1 : List (String × ObjPtr)),
      bindParameters heap args ps i store = .ok store1 →
      ∀ kv ∈ store1, kv.2 ∈ args ∨ kv ∈ store := by
  intro ps
  induction ps with
  | nil =>
    intro i store store1 h kv hkv
    simp only [bindParameters, Res.ok.injEq] at h
    rw [← h] at hkv
    exact Or.inr hkv
  | cons p rest ih =>
    intro i store store1 h kv hkv
    simp only [bindParameters] at h
    split at h
    · next name arg _ ha =>
      rcases ih _ _ _ h kv hkv with h1 | h1
      · exact Or.inl h1
      · rcases mem_storeAssign _ _ _ _ h1 with h2 | h2
        · exact Or.inl (by rw [h2]; exact vectorAt_mem _ _ _ ha)
        · exact Or.inr h2
    · exact Res.noConfusion h

theorem sound_extendFunctionEnv (ps : List NodePtr) (fnEnv : Nat) (args : List ObjPtr)
    (m : Memory) (ha : ∀ a ∈ args, validPtr m.objects a = true) :
    Sound (fun _ m1 => m1.objects = m.objects) m (extendFunctionEnv ps fnEnv args m) := by
  unfold extendFunctionEnv
  intro hs x m1 hr
  split at hr
  · next store hb =>
    simp only [Res.ok.injEq] at hr
    have h1 := heapSound_makeEnv m { store := store, outer := some fnEnv } hs (by
      intro kv hkv
      rcases mem_bindParameters _ _ _ _ _ _ hb kv hkv with h2 | h2
      · exact ha _ h2
      · exact absurd h2 (by simp))
    rw [hr] at h1
    refine ⟨h1, ?_⟩
    have h3 : m1 = (m.makeEnv { store := store, outer := some fnEnv }).2 := by rw [hr]
    rw [h3]
    rfl
  · exact Res.noConfusion hr
  · exact Res.noConfusion hr

theorem unwrapReturnValue_valid (m : Memory) (p : ObjPtr) (hs : heapSound m = true)
    (hv : validPtr m.objects p = true) : validPtr m.objects (unwrapReturnValue m p) = true := by
  unfold unwrapReturnValue
  split
  · exact hv
  · split
    · next value hg =>
      obtain ⟨_, h2, _⟩ := heapSound_parts m hs
      exact h2 _ (List.get?_mem hg)
    · exact hv

theorem sound_applyFunction (ev : Eval) (hev : ∀ n e m, Sound validIn m (ev n e m)) (fuel : Nat)
    (fn : ObjPtr) (args : List ObjPtr) (m : Memory)
    (hq : ∀ a ∈ args, quietPtr m.objects a = true) :
    Sound validIn m (applyFunction ev fuel fn args m) := by
  unfold applyFunction
  apply Sound.sd_value
  intro f _
  split
  · refine Sound.sd_run (sound_extendFunctionEnv _ _ _ _
      (fun a ha => quietPtr_valid _ _ (hq a ha))) (fun _ _ _ _ => ?_)
    dsimp only
    refine Sound.sd_run (hev _ _ _) (fun b m2 _ hb => ?_)
    exact Sound.sd_ok (fun hs => unwrapReturnValue_valid m2 b hs hb)
  · exact sound_callBuiltin _ _ _ _ hq
  · exact Sound.sd_newError _ _

theorem soundMem_modifySlot (rec : Modifier) (hrec : ∀ x m, Sound (fun _ _ => True) m (rec x m))
    (c : NodeClass) (read : Node → NodePtr) (write : Node → NodePtr → Node) (a : Nat)
    (m : Memory) : SoundMem m (modifySlot rec c read write a m) := by
  intro hs m1 h
  simp only [modifySlot] at h
  split at h
  · exact Res.noConfusion h
  · split at h
    · next r m2 hr =>
      have hp := (hrec _ _ hs r m2 hr).1
      split at h
      · exact Res.noConfusion h
      · simp only [Res.ok.injEq] at h
        rw [← h, heapSound_nodes]
        exact hp
    · exact Res.noConfusion h
    · exact Res.noConfusion h

theorem soundMem_modifySlots (rec : Modifier) (hrec : ∀ x m, Sound (fun _ _ => True) m (rec x m))
    (c : NodeClass) (readAll : Node → List NodePtr)
    (writeAll : Node → List NodePtr → Node) (a : Nat) :
    ∀ (count i : Nat) (m : Memory),
      SoundMem m (modifySlots rec c readAll writeAll a count i m) := by
  intro count
  induction count with
  | zero =>
    intro i m hs m1 h
    simp only [modifySlots, Res.ok.injEq] at h
    rw [← h]
    exact hs
  | succ count ih =>
    intro i m hs m1 h
    simp only [modifySlots] at h
    split at h
    · next m2 h2 =>
      exact ih _ _ (soundMem_modifySlot rec hrec c _ _ a m hs m2 h2) m1 h
    · exact Res.noConfusion h
    · exact Res.noConfusion h

theorem sound_modifyPairs (rec : Modifier) (hrec : ∀ x m, Sound (fun _ _ => True) m (rec x m)) :
    ∀ (ps newPairs : List (NodePtr × NodePtr)) (m : Memory),
      Sound (fun _ _ => True) m (modifyPairs rec ps newPairs m) := by
  intro ps
  induction ps with
  | nil => intro newPairs m; exact Sound.sd_ok (fun _ => trivial)
  | cons kv rest ih =>
    intro newPairs m
    obtain ⟨k, v⟩ := kv
    simp only [modifyPairs]
    intro hs
    split
    · next k1 m1 h1 =>
      have hp1 := (hrec _ _ hs k1 m1 h1).1
      split
      · next v1 m2 h2 =>
        have hp2 := (hrec _ _ hp1 v1 m2 h2).1
        exact ih _ _ hp2
      · exact Sound.sd_crash _ _ hp1
      · exact Sound.sd_fuel _ _ hp1
    · exact Sound.sd_crash _ _ hs
    · exact Sound.sd_fuel _ _ hs

theorem SoundMem.sd_nodes (m m0 : Memory) (ns : NodeHeap) (h : heapSound m0 = true) :
    SoundMem m (Res.ok { m0 with nodes := ns }) := by
  intro _ m1 hr
  simp only [Res.ok.injEq] at hr
  rw [← hr, heapSound_nodes]
  exact h

set_option maxHeartbeats 1000000 in
/-- The traversal `modify` keeps the heap sound when its modifier does. -/
theorem sound_modify (mod : Modifier) (hmod : ∀ x m, Sound (fun _ _ => True) m (mod x m)) :
    ∀ (fuel : Nat) (x : NodePtr) (m : Memory),
      Sound (fun _ _ => True) m (modify fuel mod x m) := by
  intro fuel
  induction fuel with
  | zero =>
    intro x m
    rw [modify]
    exact Sound.sd_fuel _ _
  | succ fuel ih =>
    intro x m
    cases x with
    | none =>
      rw [modify]
      exact hmod _ _
    | some a =>
      rw [modify]
      split <;> try (first
        | exact Sound.sd_crash _ _
        | exact hmod _ _)
      all_goals (repeat (first
        | exact hmod _ _
        | exact Sound.sd_crash _ _
        | exact Sound.sd_ok (fun _ => trivial)
        | (refine Sound.sd_mem (soundMem_modifySlots _ ih _ _ _ _ _ _ _) (fun _ _ => ?_))
        | (refine Sound.sd_mem (soundMem_modifySlot _ ih _ _ _ _ _) (fun _ _ => ?_))
        | (refine Sound.sd_mem ?_ (fun _ _ => ?_))
        | (refine Sound.sd_run (sound_modifyPairs _ ih _ _ _) (fun _ _ _ _ => ?_))
        | exact soundMem_modifySlot _ ih _ _ _ _ _
        | (intro hs0; exact hmod _ _ hs0)
        | (intro hs0 _ h; simp only [Res.pure_eq, Res.ok.injEq] at h; rw [← h, heapSound_nodes];
           exact hs0)
        | dsimp only
        | split))

theorem convertObjectToNode_heapSound (o : ObjPtr) (m : Memory) :
    heapSound (convertObjectToNode o m).2 = heapSound m := by
  unfold convertObjectToNode
  split
  · rfl
  · split <;> rfl

theorem sound_evalUnquoteCalls (ev : Eval) (hev : ∀ n e m, Sound validIn m (ev n e m))
    (fuel : Nat) (node : NodePtr) (env : Nat) (m : Memory) :
    Sound (fun _ _ => True) m (evalUnquoteCalls ev fuel node env m) := by
  unfold evalUnquoteCalls
  refine sound_modify _ ?_ fuel node m
  intro x m0
  apply Sound.sd_value
  intro u _
  split
  · exact Sound.sd_ok (fun _ => trivial)
  · apply Sound.sd_value
    intro call _
    split
    · split
      · exact Sound.sd_ok (fun _ => trivial)
      · apply Sound.sd_value
        intro a _
        refine Sound.sd_run (hev _ _ _) (fun b m1 _ _ => ?_)
        dsimp only
        intro hs y m2 h
        simp only [Res.pure_eq, Res.ok.injEq] at h
        have h2 : m2 = (convertObjectToNode b m1).2 := by rw [h]
        rw [h2, convertObjectToNode_heapSound]
        exact ⟨hs, trivial⟩
    · exact Sound.sd_ok (fun _ => trivial)

theorem sound_quote (ev : Eval) (hev : ∀ n e m, Sound validIn m (ev n e m)) (fuel : Nat)
    (node : NodePtr) (env : Nat) (m : Memory) : Sound validIn m (quote ev fuel node env m) := by
  unfold quote
  refine Sound.sd_run (sound_evalUnquoteCalls ev hev fuel node env m) (fun _ _ _ _ => ?_)
  exact Sound.sd_makeObj _ _ rfl

theorem soundMem_envSet (m : Memory) (e : Nat) (name : String) (value : ObjPtr)
    (hv : validPtr m.objects value = true) : SoundMem m (m.envSet e name value) :=
  fun hs m1 h => (heapSound_envSet m m1 e name value hs hv h).1

set_option maxHeartbeats 1000000 in
/-- The evaluator keeps the heap sound: started in a memory that passes
`heapSound` it leaves one, and its result is null or an object of the heap. -/
theorem sound_eval : ∀ (fuel : Nat) (n : NodePtr) (env : Nat) (m : Memory),
    Sound validIn m (eval fuel n env m) := by
  intro fuel
  induction fuel with
  | zero =>
    intro n env m
    rw [eval]
    exact Sound.sd_fuel _ _
  | succ fuel ih =>
    intro n env m
    have hk := keeping_eval fuel
    cases n with
    | none =>
      rw [eval]
      exact Sound.sd_ok (fun _ => rfl)
    | some a =>
      rw [eval]
      split
      · exact Sound.sd_crash _ _
      · exact sound_evalProgramLoop _ ih _ _ _ _ rfl
      · exact sound_evalBlockStatementLoop _ ih _ _ _ _ rfl
      · exact ih _ _ _
      · refine Sound.sd_run (ih _ _ _) (fun val m1 _ hv => ?_)
        dsimp only
        split
        · exact Sound.sd_ok (fun _ => hv)
        · exact Sound.sd_makeObj _ _ hv
      · refine Sound.sd_run (ih _ _ _) (fun val m1 _ hv => ?_)
        dsimp only
        split
        · exact Sound.sd_ok (fun _ => hv)
        · apply Sound.sd_value
          intro name _
          refine Sound.sd_mem (soundMem_envSet _ _ _ _ hv) (fun _ _ => ?_)
          exact Sound.sd_ok (fun _ => rfl)
      · exact Sound.sd_makeObj _ _ rfl
      · exact Sound.sd_makeObj _ _ rfl
      · refine Sound.sd_run (ih _ _ _) (fun r m1 _ hv => ?_)
        dsimp only
        split
        · exact Sound.sd_ok (fun _ => hv)
        · exact sound_evalPrefixExpression _ _ _
      · refine Sound.sd_run (ih _ _ _) (fun l m1 _ hv => ?_)
        dsimp only
        split
        · exact Sound.sd_ok (fun _ => hv)
        · refine Sound.sd_run (ih _ _ _) (fun r m2 _ hv2 => ?_)
          dsimp only
          split
          · exact Sound.sd_ok (fun _ => hv2)
          · exact sound_evalInfixExpression _ _ _ _
      · exact sound_evalIfExpression _ ih _ _ _ _ _
      · exact sound_evalIdentifier _ _ _
      · exact Sound.sd_makeObj _ _ rfl
      · apply Sound.sd_value
        intro f _
        apply Sound.sd_value
        intro lit _
        split
        · split
          · exact Sound.sd_newError _ _
          · apply Sound.sd_value
            intro x _
            exact sound_quote _ ih _ _ _ _
        · refine Sound.sd_run (ih _ _ _) (fun fn m1 _ hv => ?_)
          dsimp only
          split
          · exact Sound.sd_ok (fun _ => hv)
          · refine Sound.sd_run (sound_evalExpressionsLoop _ ih hk _ _ _ _
              (fun e he => absurd he (by simp))) (fun args m2 _ hq => ?_)
            dsimp only
            split
            · next hc => exact Sound.sd_ok (fun _ => valid_of_isError _ _ hc.2)
            · next hc =>
              refine sound_applyFunction _ ih _ _ _ _ ?_
              rcases hq with ⟨e, he1, he2⟩ | hq
              · exact absurd ⟨by rw [he1]; rfl, by rw [he1]; exact he2⟩ hc
              · exact hq
      · refine Sound.sd_run (sound_evalExpressionsLoop _ ih hk _ _ _ _
          (fun e he => absurd he (by simp))) (fun es m1 _ hq => ?_)
        dsimp only
        split
        · next hc => exact Sound.sd_ok (fun _ => valid_of_isError _ _ hc.2)
        · next hc =>
          refine Sound.sd_makeObj _ _ ?_
          simp only [soundObject, List.all_eq_true]
          rcases hq with ⟨e, he1, he2⟩ | hq
          · exact absurd ⟨by rw [he1]; rfl, by rw [he1]; exact he2⟩ hc
          · exact hq
      · refine Sound.sd_run (ih _ _ _) (fun l m1 _ hv => ?_)
        dsimp only
        split
        · exact Sound.sd_ok (fun _ => hv)
        · refine Sound.sd_run (ih _ _ _) (fun r m2 _ hv2 => ?_)
          dsimp only
          split
          · exact Sound.sd_ok (fun _ => hv2)
          · exact sound_evalIndexExpression _ _ _
      · exact sound_evalHashLiteralLoop _ ih _ _ _ _
      · exact Sound.sd_ok (fun _ => rfl)
      · exact Sound.sd_ok (fun _ => rfl)

theorem soundMem_addMacro (statement : NodePtr) (env : Nat) (m : Memory) :
    SoundMem m (addMacro statement env m) := by
  intro hs m1 h
  unfold addMacro at h
  obtain ⟨s, hs1, h⟩ := Res.bind_eq_ok h
  split at h
  · next t name value =>
    obtain ⟨lit, hl, h⟩ := Res.bind_eq_ok h
    split at h
    · next t2 parameters body =>
      obtain ⟨n, hn, h⟩ := Res.bind_eq_ok h
      have h1 := heapSound_makeObj m (.Macro parameters body env) hs rfl
      exact (heapSound_envSet _ m1 env n _ h1.1 h1.2 h).1
    · exact Res.noConfusion h
  · exact Res.noConfusion h

theorem sound_defineMacrosLoop (env : Nat) :
    ∀ (ss : List NodePtr) (i : Nat) (defs : List Nat) (m : Memory),
      Sound (fun _ _ => True) m (defineMacrosLoop env ss i defs m) := by
  intro ss
  induction ss with
  | nil => intro i defs m; exact Sound.sd_ok (fun _ => trivial)
  | cons s rest ih =>
    intro i defs m
    simp only [defineMacrosLoop]
    split
    · intro hs
      split
      · next m1 h1 => exact ih _ _ _ (soundMem_addMacro s env m hs m1 h1)
      · exact Sound.sd_crash _ _ hs
      · exact Sound.sd_fuel _ _ hs
    · exact ih _ _ _

theorem soundMem_defineMacros (program env : Nat) (m : Memory) :
    SoundMem m (defineMacros program env m) := by
  intro hs m1 h
  unfold defineMacros at h
  split at h
  · split at h
    · next defs m2 h2 =>
      simp only [Res.ok.injEq] at h
      rw [← h, heapSound_nodes]
      exact (sound_defineMacrosLoop env _ _ _ m hs defs m2 h2).1
    · exact Res.noConfusion h
    · exact Res.noConfusion h
  · exact Res.noConfusion h

theorem sound_extendMacroEnv (ps : List NodePtr) (macroEnv : Nat) (args : List ObjPtr)
    (m : Memory) (ha : ∀ a ∈ args, validPtr m.objects a = true) :
    Sound (fun _ _ => True) m (extendMacroEnv ps macroEnv args m) := by
  unfold extendMacroEnv
  intro hs x m1 hr
  split at hr
  · next store hb =>
    simp only [Res.ok.injEq] at hr
    have h1 := heapSound_makeEnv m { store := store, outer := some macroEnv } hs (by
      intro kv hkv
      rcases mem_bindParameters _ _ _ _ _ _ hb kv hkv with h2 | h2
      · exact ha _ h2
      · exact absurd h2 (by simp))
    rw [hr] at h1
    exact ⟨h1, trivial⟩
  · exact Res.noConfusion hr
  · exact Res.noConfusion hr

theorem sound_expandMacros (fuel : Nat) (node : NodePtr) (env : Nat) (m : Memory) :
    Sound (fun _ _ => True) m (expandMacros fuel node env m) := by
  unfold expandMacros
  refine sound_modify _ ?_ fuel node m
  intro x m0
  split
  · exact Sound.sd_ok (fun _ => trivial)
  · split
    · split
      · exact Sound.sd_ok (fun _ => trivial)
      · split
        · refine Sound.sd_run (sound_extendMacroEnv _ _ _ _ (by
            intro a ha
            simp only [quoteArgs, List.mem_map] at ha
            obtain ⟨_, _, rfl⟩ := ha
            rfl)) (fun _ _ _ _ => ?_)
          dsimp only
          refine Sound.sd_run (sound_eval _ _ _ _) (fun _ _ _ _ => ?_)
          dsimp only
          repeat (first
            | exact Sound.sd_ok (fun _ => trivial)
            | split)
        · exact Sound.sd_crash _ _
    · exact Sound.sd_ok (fun _ => trivial)
    · exact Sound.sd_crash _ _

/-- The memory of a run is sound from the start: `start` evaluates the program
in a sound memory and ends in one. -/
theorem start_heapSound (fuel : Nat) (src : String) :
    (∀ x env m, startMacroPass fuel src = .ok (.expanded x env m) → heapSound m = true)
    ∧ ∀ r m, start fuel src = .ok (.evaluated r m) →
        heapSound m = true ∧ validPtr m.objects r = true := by
  have h1 : ∀ x env m, startMacroPass fuel src = .ok (.expanded x env m) →
      heapSound m = true := by
    intro x env m h
    unfold startMacroPass at h
    obtain ⟨pp, _, h⟩ := Res.bind_eq_ok h
    obtain ⟨prog, p⟩ := pp
    dsimp only at h
    split at h
    · simp only [Res.pure_eq, Res.ok.injEq, reduceCtorEq] at h
    · obtain ⟨ma, hma, h⟩ := Res.bind_eq_ok h
      obtain ⟨xm, hxm, h⟩ := Res.bind_eq_ok h
      obtain ⟨x2, m2⟩ := xm
      simp only [Res.pure_eq, Res.ok.injEq, Expanded.expanded.injEq] at h
      obtain ⟨_, _, rfl⟩ := h
      have hs0 : heapSound (((Memory.init p.nodes).makeEnv (Environment.mk [] none)).2.makeEnv
          (Environment.mk [] none)).2 = true := rfl
      exact (sound_expandMacros _ _ _ _ (soundMem_defineMacros _ _ _ hs0 ma hma) x2 m2 hxm).1
  refine ⟨h1, ?_⟩
  intro r m h
  unfold start at h
  obtain ⟨x, hx, h⟩ := Res.bind_eq_ok h
  split at h
  · simp only [Res.pure_eq, Res.ok.injEq, reduceCtorEq] at h
  · next expanded env m0 =>
    obtain ⟨em, hem, h⟩ := Res.bind_eq_ok h
    obtain ⟨e, m1⟩ := em
    simp only [Res.pure_eq, Res.ok.injEq, Run.evaluated.injEq] at h
    obtain ⟨rfl, rfl⟩ := h
    exact sound_eval _ _ _ _ (h1 _ _ _ hx) _ _ hem

theorem deref_makeObj (m : Memory) (o : Object) :
    (m.makeObj o).2.deref (m.makeObj o).1 = .ok o := by
  simp only [Memory.makeObj, Memory.deref, List.get?_eq_getElem?,
    List.getElem?_append_right (le_refl _), Nat.sub_self, List.getElem?_cons_zero]

/-- A quiet pointer does not lead to an `Error`. -/
theorem deref_quiet (m : Memory) (p : ObjPtr) (msg : String)
    (h : quietPtr m.objects p = true) : m.deref p ≠ .ok (.Error msg) := by
  cases p with
  | none => simp [Memory.deref]
  | some a =>
    simp only [quietPtr] at h
    simp only [Memory.deref]
    cases hg : m.objects.get? a with
    | none => simp
    | some o =>
      rw [hg] at h
      simp only [decide_eq_true_eq] at h
      intro hc
      simp only [Res.ok.injEq] at hc
      rw [hc] at h
      exact h rfl

/-- C19: called with a number of arguments other than the one it wants (1 for
`len`, `first`, `last`, `rest`; 2 for `push`), each built-in returns, whatever
the arguments are, a new `Error` whose message is exactly
`wrong number of arguments in builtin function(<name>). got=<n>, want=<k>`.
Called with exactly that many arguments it never returns an `Error` with such a
message: `len`, `rest` and `push` in any memory, `first` and `last`, which hand
back an element of their argument array, in every memory that passes
`heapSound`, where no array holds an `Error`. Every run keeps its memory in that
state: the memory `start` evaluates the program in passes `heapSound`, and
`eval` and `evalExpressions`, which evaluates the arguments of a call, lead from
a memory that passes it to one that passes it. -/
theorem builtin_arity_errors (args : List ObjPtr) (m : Memory) :
    (args.length ≠ 1 →
        builtins.len args m = newError (arityMessage "len" args.length 1) m
        ∧ builtins.first args m = newError (arityMessage "first" args.length 1) m
        ∧ builtins.last args m = newError (arityMessage "last" args.length 1) m
        ∧ builtins.rest args m = newError (arityMessage "rest" args.length 1) m)
    ∧ (args.length ≠ 2 →
        builtins.push args m = newError (arityMessage "push" args.length 2) m)
    ∧ (∀ a r m1, builtins.len [a] m = .ok (r, m1) →
        ∀ name got want, m1.deref r ≠ .ok (.Error (arityMessage name got want)))
    ∧ (∀ a r m1, heapSound m = true → builtins.first [a] m = .ok (r, m1) →
        ∀ name got want, m1.deref r ≠ .ok (.Error (arityMessage name got want)))
    ∧ (∀ a r m1, heapSound m = true → builtins.last [a] m = .ok (r, m1) →
        ∀ name got want, m1.deref r ≠ .ok (.Error (arityMessage name got want)))
    ∧ (∀ a r m1, builtins.rest [a] m = .ok (r, m1) →
        ∀ name got want, m1.deref r ≠ .ok (.Error (arityMessage name got want)))
    ∧ (∀ a v r m1, builtins.push [a, v] m = .ok (r, m1) →
        ∀ name got want, m1.deref r ≠ .ok (.Error (arityMessage name got want)))
    ∧ (∀ fuel src x env m0, startMacroPass fuel src = .ok (.expanded x env m0) →
        heapSound m0 = true)
    ∧ (∀ fuel n env m0 r m1, heapSound m0 = true → eval fuel n env m0 = .ok (r, m1) →
        heapSound m1 = true)
    ∧ (∀ fuel es env m0 vs m1, heapSound m0 = true →
        evalExpressions (eval fuel) es env m0 = .ok (vs, m1) → heapSound m1 = true) := by
  obtain ⟨b1, b2, b3, b4, b5, b6, b7⟩ := builtin_results args m
  have hnew : ∀ (o : Object) (r : ObjPtr) (m1 : Memory),
      (∀ name got want, o ≠ .Error (arityMessage name got want)) →
      Res.ok (m.makeObj o) = Res.ok (r, m1) →
      ∀ name got want, m1.deref r ≠ .ok (.Error (arityMessage name got want)) := by
    intro o r m1 ho h name got want hc
    simp only [Res.ok.injEq] at h
    have h1 := deref_makeObj m o
    rw [h] at h1
    rw [h1] at hc
    simp only [Res.ok.injEq] at hc
    exact ho name got want hc
  have helem : ∀ (a : ObjPtr) (elements : List ObjPtr) (e r : ObjPtr) (m1 : Memory),
      heapSound m = true → m.deref a = .ok (.Array elements) → (e ∈ elements ∨ e = none) →
      Res.ok (e, m) = Res.ok (r, m1) →
      ∀ name got want, m1.deref r ≠ .ok (.Error (arityMessage name got want)) := by
    intro a elements e r m1 hs ha he h name got want
    simp only [Res.ok.injEq, Prod.mk.injEq] at h
    obtain ⟨rfl, rfl⟩ := h
    refine deref_quiet m e _ ?_
    rcases he with he | he
    · have h1 := deref_sound m a _ hs ha
      simp only [soundObject, List.all_eq_true] at h1
      exact h1 e he
    · rw [he]; rfl
  refine ⟨b1, b2, ?_, ?_, ?_, ?_, ?_, ?_, ?_, ?_⟩
  · intro a r m1 h
    rcases b3 a with h1 | ⟨o, h1, h2⟩
    · rw [h1] at h; exact Res.noConfusion h
    · rw [h1] at h; exact hnew o r m1 h2 h
  · intro a r m1 hs h
    rcases b4 a with h1 | ⟨o, h1, h2⟩ | ⟨elements, e, h1, h2, h3⟩
    · rw [h1] at h; exact Res.noConfusion h
    · rw [h1] at h; exact hnew o r m1 h2 h
    · rw [h3] at h; exact helem a elements e r m1 hs h1 h2 h
  · intro a r m1 hs h
    rcases b5 a with h1 | ⟨o, h1, h2⟩ | ⟨elements, e, h1, h2, h3⟩
    · rw [h1] at h; exact Res.noConfusion h
    · rw [h1] at h; exact hnew o r m1 h2 h
    · rw [h3] at h; exact helem a elements e r m1 hs h1 h2 h
  · intro a r m1 h
    rcases b6 a with h1 | ⟨o, h1, h2⟩ | h1
    · rw [h1] at h; exact Res.noConfusion h
    · rw [h1] at h; exact hnew o r m1 h2 h
    · rw [h1] at h
      simp only [Res.ok.injEq, Prod.mk.injEq] at h
      obtain ⟨rfl, rfl⟩ := h
      intro name got want
      simp [Memory.deref]
  · intro a v r m1 h
    rcases b7 a v with h1 | ⟨o, h1, h2⟩
    · rw [h1] at h; exact Res.noConfusion h
    · rw [h1] at h; exact hnew o r m1 h2 h
  · intro fuel src x env m0 h
    exact (start_heapSound fuel src).1 x env m0 h
  · intro fuel n env m0 r m1 hs h
    exact (sound_eval fuel n env m0 hs r m1 h).1
  · intro fuel es env m0 vs m1 hs h
    exact (sound_evalExpressionsLoop (eval fuel) (sound_eval fuel) (keeping_eval fuel) env es []
      m0 (fun e he => absurd he (by simp)) hs vs m1 h).1

/-- Witness for C19: the built-ins on an empty and on a two-element argument
list; `first` on the array of the run `first([1, 2])`, whose memory passes
`heapSound`; a memory that does not pass it, where an array holds an arity
`Error` and `first` hands it back; and the runs of `len(1, 2)`, `push([1])`,
`len()`, `first()`, `last(1, 2)`, `rest()` and `len([1])`. -/
theorem builtin_arity_errors_witness :
    builtins.len [] (Memory.init []) = newError (arityMessage "len" 0 1) (Memory.init [])
    ∧ builtins.push [] (Memory.init []) = newError (arityMessage "push" 0 2) (Memory.init [])
    ∧ builtins.first [some 1, none] (Memory.init [])
        = newError (arityMessage "first" 2 1) (Memory.init [])
    ∧ (finalMemoryOf "first([1, 2])").deref (some 9)
        ≠ .ok (.Error (arityMessage "first" 0 1))
    ∧ builtins.first [some 11] (finalMemoryOf "first([1, 2])")
        = .ok (some 9, finalMemoryOf "first([1, 2])")
    ∧ heapSound { Memory.init [] with
        objects := staticObjects ++ [.Error (arityMessage "first" 0 1), .Array [some 9]] }
        = false
    ∧ builtins.first [some 10] { Memory.init [] with
        objects := staticObjects ++ [.Error (arityMessage "first" 0 1), .Array [some 9]] }
        = .ok (some 9, { Memory.init [] with
            objects := staticObjects ++ [.Error (arityMessage "first" 0 1), .Array [some 9]] })
    ∧ arityMessage "first" 2 1
        = "wrong number of arguments in builtin function(first). got=2, want=1"
    ∧ startOutput 60 "len(1, 2)"
        = .ok (some "ERROR: wrong number of arguments in builtin function(len). got=2, want=1")
    ∧ startOutput 60 "push([1])"
        = .ok (some "ERROR: wrong number of arguments in builtin function(push). got=1, want=2")
    ∧ startOutput 60 "len()"
        = .ok (some "ERROR: wrong number of arguments in builtin function(len). got=0, want=1")
    ∧ startOutput 60 "first()"
        = .ok (some "ERROR: wrong number of arguments in builtin function(first). got=0, want=1")
    ∧ startOutput 60 "last(1, 2)"
        = .ok (some "ERROR: wrong number of arguments in builtin function(last). got=2, want=1")
    ∧ startOutput 60 "rest()"
        = .ok (some "ERROR: wrong number of arguments in builtin function(rest). got=0, want=1")
    ∧ startOutput 60 "len([1])" = .ok (some "1")
    ∧ startOutput 60 "len(1)" = .ok (some "ERROR: argument to \x60len\x60 not supported, got INTEGER") :=
  ⟨((builtin_arity_errors [] (Memory.init [])).1 (by decide)).1,
    (builtin_arity_errors [] (Memory.init [])).2.1 (by decide),
    ((builtin_arity_errors [some 1, none] (Memory.init [])).1 (by decide)).2.1,
    (builtin_arity_errors [] (finalMemoryOf "first([1, 2])")).2.2.2.1 (some 11) (some 9)
      (finalMemoryOf "first([1, 2])") (by decide!) (by decide!) "first" 0 1,
    by decide!, by decide!, by decide!,
    by decide!, by decide!, by decide!, by decide!, by decide!, by decide!, by decide!,
    by decide!, by decide!⟩

/-! ## Parsing the text of a program again, in general (C7) -/

theorem Returns.of_ok {α : Type} (r : α) : Returns (fun _ => Res.ok r) r :=
  ⟨0, fun _ _ => rfl⟩

theorem Returns.step {α : Type} {f g : Nat → Res α} {r : α} (h : ∀ n, f (n + 1) = g n)
    (hg : Returns g r) : Returns f r := by
  obtain ⟨k, hk⟩ := hg
  refine ⟨k + 1, fun fuel hf => ?_⟩
  obtain ⟨n, rfl⟩ : ∃ n, fuel = n + 1 := ⟨fuel - 1, by omega⟩
  rw [h n]
  exact hk n (by omega)

theorem Returns.congr {α : Type} {f g : Nat → Res α} {r : α} (h : ∀ n, f n = g n)
    (hg : Returns g r) : Returns f r := by
  obtain ⟨k, hk⟩ := hg
  exact ⟨k, fun fuel hf => by rw [h fuel]; exact hk fuel hf⟩

/-- One more unit of fuel runs `F` as `g` followed by `k`. -/
theorem Returns.after {α β : Type} {g : Nat → Res α} {F k : Nat → Res β} {a : α} {r : β}
    (hg : Returns g a) (h : ∀ n, g n = .ok a → F (n + 1) = k n) (hk : Returns k r) :
    Returns F r := by
  obtain ⟨k1, h1⟩ := hg
  obtain ⟨k2, h2⟩ := hk
  refine ⟨max k1 k2 + 1, fun fuel hfuel => ?_⟩
  obtain ⟨n, rfl⟩ : ∃ n, fuel = n + 1 := ⟨fuel - 1, by omega⟩
  have hn1 : k1 ≤ n := by have := le_max_left k1 k2; omega
  have hn2 : k2 ≤ n := by have := le_max_right k1 k2; omega
  rw [h n (h1 n hn1)]
  exact h2 n hn2

theorem Returns.unique {α : Type} {f : Nat → Res α} {a b : α} (ha : Returns f a)
    (hb : Returns f b) : a = b := by
  obtain ⟨k1, h1⟩ := ha
  obtain ⟨k2, h2⟩ := hb
  have e1 := h1 (max k1 k2) (le_max_left _ _)
  have e2 := h2 (max k1 k2) (le_max_right _ _)
  rw [e1] at e2
  exact Res.ok.inj e2

theorem SameNodes.same_refl (lo hi : Nat) (h : NodeHeap) : SameNodes lo hi h h :=
  fun _ _ _ => rfl

theorem SameNodes.same_trans {lo hi : Nat} {h1 h2 h3 : NodeHeap} (a : SameNodes lo hi h1 h2)
    (b : SameNodes lo hi h2 h3) : SameNodes lo hi h1 h3 :=
  fun x hl hh => (b x hl hh).trans (a x hl hh)

theorem SameNodes.narrow {lo hi lo1 hi1 : Nat} {h1 h2 : NodeHeap} (a : SameNodes lo hi h1 h2)
    (hl : lo ≤ lo1) (hh : hi1 ≤ hi) : SameNodes lo1 hi1 h1 h2 :=
  fun x h3 h4 => a x (le_trans hl h3) (lt_of_lt_of_le h4 hh)

theorem SameNodes.of_append (lo hi : Nat) (h t : NodeHeap) (hh : hi ≤ h.length) :
    SameNodes lo hi h (h ++ t) := by
  intro a _ ha
  rw [List.get?_eq_getElem?, List.get?_eq_getElem?, List.getElem?_append_left (by omega)]

theorem SameNodes.of_set (lo hi : Nat) (h : NodeHeap) (a : Nat) (n : Node)
    (ha : a < lo ∨ hi ≤ a) : SameNodes lo hi h (h.set a n) := by
  intro b hl hh
  rw [List.get?_eq_getElem?, List.get?_eq_getElem?, List.getElem?_set_ne (by omega)]

/-- A node that prints from a range of a heap prints in every later heap that
kept that range, also when the range is taken wider. -/
theorem PrintsIn.onward {h H : NodeHeap} {lo hi lo1 hi1 : Nat} {x : NodePtr} {u : String}
    (hp : PrintsIn h lo hi x u) (hs : SameNodes lo hi h H) (hl : lo1 ≤ lo) (hh : hi ≤ hi1) :
    PrintsIn H lo1 hi1 x u :=
  fun h1 h2 => hp h1 (hs.same_trans (h2.narrow hl hh))

theorem PrintsIn.here {h : NodeHeap} {lo hi : Nat} {x : NodePtr} {u : String}
    (hp : PrintsIn h lo hi x u) : Returns (fun fuel => nodeString fuel h x) u :=
  hp h (SameNodes.same_refl _ _ _)

theorem parserAt_curToken (cur : Token) (w : List Char) (es : List String) (ns : NodeHeap) :
    (parserAt cur w es ns).curToken = cur := rfl

theorem parserAt_errors (cur : Token) (w : List Char) (es : List String) (ns : NodeHeap) :
    (parserAt cur w es ns).errors = es := rfl

theorem parserAt_nodes (cur : Token) (w : List Char) (es : List String) (ns : NodeHeap) :
    (parserAt cur w es ns).nodes = ns := rfl

theorem parserAt_make (cur : Token) (w : List Char) (es : List String) (ns : NodeHeap)
    (n : Node) : (parserAt cur w es ns).make n = (ns.length, parserAt cur w es (ns ++ [n])) :=
  rfl

theorem parserAt_setNode (cur : Token) (w : List Char) (es : List String) (ns : NodeHeap)
    (a : Nat) (n : Node) :
    (parserAt cur w es ns).setNode a n = parserAt cur w es (ns.set a n) := rfl

theorem parserAt_peekToken {cur t : Token} {w w1 : List Char} (es : List String)
    (ns : NodeHeap) (h : (Lexer.new w).nextToken = (t, Lexer.new w1)) :
    (parserAt cur w es ns).peekToken = t := by
  simp only [parserAt, h]

theorem parserAt_nextToken {cur t : Token} {w w1 : List Char} (es : List String)
    (ns : NodeHeap) (h : (Lexer.new w).nextToken = (t, Lexer.new w1)) :
    (parserAt cur w es ns).nextToken = parserAt t w1 es ns := by
  simp only [parserAt, Parser.nextToken, h]

theorem parserAt_expectPeek {cur t : Token} {w w1 : List Char} (es : List String)
    (ns : NodeHeap) (h : (Lexer.new w).nextToken = (t, Lexer.new w1)) :
    (parserAt cur w es ns).expectPeek t.type = (true, parserAt t w1 es ns) := by
  simp only [Parser.expectPeek, Parser.peekTokenIs, parserAt_peekToken es ns h,
    parserAt_nextToken es ns h, decide_True, ↓reduceIte]

theorem parserAt_new (input : List Char) {t1 : Token} {w1 : List Char}
    (h1 : (Lexer.new input).nextToken = (t1, Lexer.new w1)) :
    Parser.new (Lexer.new input) = parserAt t1 w1 [] [] := by
  simp only [Parser.new, Parser.nextToken, h1, parserAt]

theorem Lexer.readChar_new (l : Lexer) : l.readChar = Lexer.new l.rest := by
  obtain ⟨ch, rest⟩ := l
  cases rest <;> rfl

/-- Lexing of a token of one character that needs no look-ahead. -/
theorem lex_punctuation (rest : List Char) :
    (Lexer.new ('(' :: rest)).nextToken = ({ type := .LPAREN, literal := "(" }, Lexer.new rest)
    ∧ (Lexer.new (')' :: rest)).nextToken = ({ type := .RPAREN, literal := ")" }, Lexer.new rest)
    ∧ (Lexer.new ('[' :: rest)).nextToken
        = ({ type := .LBRACKET, literal := "[" }, Lexer.new rest)
    ∧ (Lexer.new (']' :: rest)).nextToken
        = ({ type := .RBRACKET, literal := "]" }, Lexer.new rest)
    ∧ (Lexer.new (',' :: rest)).nextToken = ({ type := .COMMA, literal := "," }, Lexer.new rest)
    ∧ (Lexer.new (';' :: rest)).nextToken
        = ({ type := .SEMICOLON, literal := ";" }, Lexer.new rest)
    ∧ (Lexer.new ('-' :: rest)).nextToken
        = ({ type := .MINUS, literal := "-" }, Lexer.new rest) := by
  cases rest <;> exact ⟨rfl, rfl, rfl, rfl, rfl, rfl, rfl⟩

/-- Lexing skips a blank and a line feed. -/
theorem lex_blank (rest : List Char) :
    (Lexer.new (' ' :: rest)).nextToken = (Lexer.new rest).nextToken
    ∧ (Lexer.new ('\n' :: rest)).nextToken = (Lexer.new rest).nextToken := by
  cases rest <;> exact ⟨rfl, rfl⟩

theorem lex_end : (Lexer.new []).nextToken = ({ type := .EOF, literal := "" }, Lexer.new []) := by
  decide

/-- Lexing of `!` in front of a character other than `=`. -/
theorem lex_bang (c : Char) (rest : List Char) (hc : c ≠ '=') :
    (Lexer.new ('!' :: c :: rest)).nextToken
      = ({ type := .BANG, literal := "!" }, Lexer.new (c :: rest)) := by
  have hs : skipWhitespaceLoop '!' (c :: rest) = { ch := '!', rest := c :: rest } := rfl
  simp [Lexer.new, Lexer.nextToken, Lexer.skipWhitespace, hs, Lexer.peekChar, hc, Lexer.single,
    Lexer.readChar]
  rfl

/-- Lexing of `=` in front of a blank. -/
theorem lex_assign (rest : List Char) :
    (Lexer.new ('=' :: ' ' :: rest)).nextToken
      = ({ type := .ASSIGN, literal := "=" }, Lexer.new (' ' :: rest)) := rfl

/-- Lexing of an identifier in front of a character that is no letter. -/
theorem lex_name {x : String} (h : isIdentifier x = true) (tail : List Char)
    (ht : separated tail) :
    (Lexer.new (x.data ++ tail)).nextToken = ({ type := .IDENT, literal := x }, Lexer.new tail) := by
  obtain ⟨x0, xs, hd, _, h1, _⟩ := lex_identifier h
  obtain ⟨c, post, rfl, hc, _⟩ := ht
  rw [hd]
  exact h1 c post hc

/-- Lexing of a binary operator between blanks. -/
theorem lex_binary (op : String) (h : op ∈ binaryOperators) :
    ∃ t q, (∀ rest, (Lexer.new (' ' :: (op.data ++ ' ' :: rest))).nextToken
              = ({ type := t, literal := op }, Lexer.new (' ' :: rest)))
      ∧ infixParseFns t = some .parseInfixExpression ∧ precedences t = some q
      ∧ t ≠ .SEMICOLON ∧ 0 < q.toNat ∧ q.toNat < 5 := by
  obtain ⟨t, q, h1, h2, h3, h4, h5, h6, _⟩ := lex_operator op h
  exact ⟨t, q, fun rest => h1 rest, h2, h3, h4, h5, h6⟩

/-- Lexing of a number in front of a character that is no digit. -/
theorem lex_number (lit : String) (h1 : lit.data ≠ []) (h2 : ∀ c ∈ lit.data, isDigit c = true)
    (tail : List Char) (ht : separated tail) :
    (Lexer.new (lit.data ++ tail)).nextToken = ({ type := .INT, literal := lit }, Lexer.new tail) := by
  obtain ⟨c, post, rfl, _, hc⟩ := ht
  cases hd : lit.data with
  | nil => exact absurd hd h1
  | cons d0 w =>
    rw [hd] at h2
    have h3 := nextToken_number d0 c w post h2 hc
    have h4 : String.mk (d0 :: w) = lit := by rw [← hd]
    rw [h4] at h3
    exact h3

/-- Lexing of the keywords `let`, `return`, `true` and `false` in front of a
character that is no letter. -/
theorem lex_keyword (tail : List Char) (ht : separated tail) :
    (Lexer.new ("let".data ++ tail)).nextToken = ({ type := .LET, literal := "let" }, Lexer.new tail)
    ∧ (Lexer.new ("return".data ++ tail)).nextToken
        = ({ type := .RETURN, literal := "return" }, Lexer.new tail)
    ∧ (Lexer.new ("true".data ++ tail)).nextToken
        = ({ type := .TRUE, literal := "true" }, Lexer.new tail)
    ∧ (Lexer.new ("false".data ++ tail)).nextToken
        = ({ type := .FALSE, literal := "false" }, Lexer.new tail) := by
  obtain ⟨c, post, rfl, hc, _⟩ := ht
  refine ⟨?_, ?_, ?_, ?_⟩
  · exact nextToken_word 'l' c ['e', 't'] post (by decide) hc
  · exact nextToken_word 'r' c ['e', 't', 'u', 'r', 'n'] post (by decide) hc
  · exact nextToken_word 't' c ['r', 'u', 'e'] post (by decide) hc
  · exact nextToken_word 'f' c ['a', 'l', 's', 'e'] post (by decide) hc

theorem returns_loop_stop (q : prec) (left : NodePtr) (p : Parser)
    (h : p.peekToken.type = .SEMICOLON ∨ precedences p.peekToken.type = none) :
    Returns (fun n => parseExpressionLoop n q left p) (left, p) := by
  refine Returns.step (fun n => parseExpressionLoop_unfold n q left p) (Returns.congr ?_
    (Returns.of_ok _))
  intro n
  rcases h with h | h
  · simp only [Parser.peekTokenIs, h, decide_True, Bool.true_eq_false, false_and, ↓reduceIte]
  · have h2 : p.peekPrecedence = .LOWEST := by simp only [Parser.peekPrecedence, h]
    have h5 : prec.LOWEST.toNat = 0 := rfl
    simp only [h2, h5, Nat.not_lt_zero, and_false, ↓reduceIte]

theorem returns_loop_binary {q q1 : prec} {left l1 : NodePtr} {p p1 : Parser}
    {r : NodePtr × Parser} (hs : p.peekToken.type ≠ .SEMICOLON)
    (hp : precedences p.peekToken.type = some q1) (hq : q.toNat < q1.toNat)
    (hi : infixParseFns p.peekToken.type = some .parseInfixExpression)
    (h1 : Returns (fun n => parseInfixExpression n left p.nextToken) (l1, p1))
    (h2 : Returns (fun n => parseExpressionLoop n q l1 p1) r) :
    Returns (fun n => parseExpressionLoop n q left p) r := by
  refine Returns.after h1 (fun n hn => ?_) h2
  have h3 : p.peekPrecedence = q1 := by simp only [Parser.peekPrecedence, hp]
  rw [parseExpressionLoop_unfold]
  simp only [Parser.peekTokenIs, hs, decide_False, h3, hq, and_self, ↓reduceIte, hi, hn,
    Res.ok_bind]

theorem returns_loop_call {q : prec} {left l1 : NodePtr} {p p1 : Parser}
    {r : NodePtr × Parser} (ht : p.peekToken.type = .LPAREN) (hq : q.toNat < 6)
    (h1 : Returns (fun n => parseCallExpression n left p.nextToken) (l1, p1))
    (h2 : Returns (fun n => parseExpressionLoop n q l1 p1) r) :
    Returns (fun n => parseExpressionLoop n q left p) r := by
  refine Returns.after h1 (fun n hn => ?_) h2
  have h3 : p.peekPrecedence = .CALL := by simp only [Parser.peekPrecedence, ht, precedences]
  have h5 : prec.CALL.toNat = 6 := rfl
  rw [parseExpressionLoop_unfold]
  simp only [Parser.peekTokenIs, ht, h3, h5, hq, reduceCtorEq, decide_False, and_self,
    ↓reduceIte, infixParseFns, hn, Res.ok_bind]

theorem returns_loop_index {q : prec} {left l1 : NodePtr} {p p1 : Parser}
    {r : NodePtr × Parser} (ht : p.peekToken.type = .LBRACKET) (hq : q.toNat < 6)
    (h1 : Returns (fun n => parseIndexExpression n left p.nextToken) (l1, p1))
    (h2 : Returns (fun n => parseExpressionLoop n q l1 p1) r) :
    Returns (fun n => parseExpressionLoop n q left p) r := by
  refine Returns.after h1 (fun n hn => ?_) h2
  have h3 : p.peekPrecedence = .INDEX := by simp only [Parser.peekPrecedence, ht, precedences]
  have h4 : q.toNat < 7 := by omega
  have h5 : prec.INDEX.toNat = 7 := rfl
  rw [parseExpressionLoop_unfold]
  simp only [Parser.peekTokenIs, ht, h3, h5, h4, reduceCtorEq, decide_False, and_self,
    ↓reduceIte, infixParseFns, hn, Res.ok_bind]

theorem returns_expression_identifier {q : prec} {p : Parser} {r : NodePtr × Parser}
    (ht : p.curToken.type = .IDENT)
    (h : Returns (fun n => parseExpressionLoop n q (some p.nodes.length)
      (p.make (.Identifier p.curToken p.curToken.literal)).2) r) :
    Returns (fun n => parseExpression n q p) r := by
  refine Returns.step (fun n => parseExpression_unfold n q p) (Returns.congr ?_ h)
  intro n
  simp only [ht, prefixParseFns, parseIdentifier, Res.ok_bind]
  rfl

theorem returns_expression_boolean {q : prec} {p : Parser} {r : NodePtr × Parser}
    (ht : p.curToken.type = .TRUE ∨ p.curToken.type = .FALSE)
    (h : Returns (fun n => parseExpressionLoop n q (some p.nodes.length)
      (p.make (.Boolean p.curToken (p.curTokenIs .TRUE))).2) r) :
    Returns (fun n => parseExpression n q p) r := by
  refine Returns.step (fun n => parseExpression_unfold n q p) (Returns.congr ?_ h)
  intro n
  rcases ht with ht | ht
  · simp only [ht, prefixParseFns, parseBoolean, Res.ok_bind]
    rfl
  · simp only [ht, prefixParseFns, parseBoolean, Res.ok_bind]
    rfl

theorem returns_expression_integer {q : prec} {p : Parser} {r : NodePtr × Parser} {v : Int}
    (ht : p.curToken.type = .INT) (hv : stoi p.curToken.literal = .ok v)
    (hz : ¬ (v = 0 ∧ p.curToken.literal ≠ "0"))
    (h : Returns (fun n => parseExpressionLoop n q (some p.nodes.length)
      ((p.make (.IntegerLiteral p.curToken 0)).2.setNode p.nodes.length
        (.IntegerLiteral p.curToken v))) r) :
    Returns (fun n => parseExpression n q p) r := by
  refine Returns.step (fun n => parseExpression_unfold n q p) (Returns.congr ?_ h)
  intro n
  simp only [ht, prefixParseFns, parseIntegerLiteral, hv, hz, ↓reduceIte, Res.ok_bind]
  rfl

theorem returns_expression_grouped {q : prec} {p p1 : Parser} {l : NodePtr}
    {r : NodePtr × Parser} (ht : p.curToken.type = .LPAREN)
    (h1 : Returns (fun n => parseGroupedExpression n p) (l, p1))
    (h2 : Returns (fun n => parseExpressionLoop n q l p1) r) :
    Returns (fun n => parseExpression n q p) r := by
  refine Returns.after h1 (fun n hn => ?_) h2
  rw [parseExpression_unfold]
  simp only [ht, prefixParseFns, hn, Res.ok_bind]

theorem returns_expression_unary {q : prec} {p p1 : Parser} {l : NodePtr}
    {r : NodePtr × Parser} (ht : p.curToken.type = .BANG ∨ p.curToken.type = .MINUS)
    (h1 : Returns (fun n => parsePrefixExpression n p) (l, p1))
    (h2 : Returns (fun n => parseExpressionLoop n q l p1) r) :
    Returns (fun n => parseExpression n q p) r := by
  refine Returns.after h1 (fun n hn => ?_) h2
  rw [parseExpression_unfold]
  rcases ht with ht | ht <;> simp only [ht, prefixParseFns, hn, Res.ok_bind]

theorem returns_expression_array {q : prec} {p p1 : Parser} {l : NodePtr}
    {r : NodePtr × Parser} (ht : p.curToken.type = .LBRACKET)
    (h1 : Returns (fun n => parseArrayLiteral n p) (l, p1))
    (h2 : Returns (fun n => parseExpressionLoop n q l p1) r) :
    Returns (fun n => parseExpression n q p) r := by
  refine Returns.after h1 (fun n hn => ?_) h2
  rw [parseExpression_unfold]
  simp only [ht, prefixParseFns, hn, Res.ok_bind]

theorem returns_grouped {p p1 p2 : Parser} {l : NodePtr}
    (h1 : Returns (fun n => parseExpression n .LOWEST p.nextToken) (l, p1))
    (h2 : p1.expectPeek .RPAREN = (true, p2)) :
    Returns (fun n => parseGroupedExpression n p) (l, p2) := by
  refine Returns.after h1 (fun n hn => ?_) (Returns.of_ok _)
  rw [parseGroupedExpression_unfold]
  simp only [hn, Res.ok_bind, h2, Bool.true_eq_false, ↓reduceIte, Res.pure_eq]

theorem returns_unary {p p1 : Parser} {right : NodePtr}
    (h1 : Returns (fun n => parseExpression n .PREFIX
      (p.make (.PrefixExpression p.curToken p.curToken.literal none)).2.nextToken) (right, p1)) :
    Returns (fun n => parsePrefixExpression n p)
      (some p.nodes.length, p1.setNode p.nodes.length
        (.PrefixExpression p.curToken p.curToken.literal right)) := by
  refine Returns.after h1 (fun n hn => ?_) (Returns.of_ok _)
  rw [parsePrefixExpression_unfold]
  simp only [hn, Res.ok_bind, Res.pure_eq]
  rfl

theorem returns_binary {p p1 : Parser} {left right : NodePtr}
    (h1 : Returns (fun n => parseExpression n p.curPrecedence
      (p.make (.InfixExpression p.curToken left p.curToken.literal none)).2.nextToken)
      (right, p1)) :
    Returns (fun n => parseInfixExpression n left p)
      (some p.nodes.length, p1.setNode p.nodes.length
        (.InfixExpression p.curToken left p.curToken.literal right)) := by
  refine Returns.after h1 (fun n hn => ?_) (Returns.of_ok _)
  rw [parseInfixExpression_unfold]
  have h2 : (p.make (.InfixExpression p.curToken left p.curToken.literal none)).2.curPrecedence
      = p.curPrecedence := rfl
  simp only [h2, hn, Res.ok_bind, Res.pure_eq]
  rfl

theorem returns_index {p p1 p2 : Parser} {left index : NodePtr}
    (h1 : Returns (fun n => parseExpression n .LOWEST
      (p.make (.IndexExpression p.curToken left none)).2.nextToken) (index, p1))
    (h2 : (p1.setNode p.nodes.length (.IndexExpression p.curToken left index)).expectPeek
      .RBRACKET = (true, p2)) :
    Returns (fun n => parseIndexExpression n left p) (some p.nodes.length, p2) := by
  refine Returns.after h1 (fun n hn => ?_) (Returns.of_ok _)
  rw [parseIndexExpression_unfold]
  have h3 : (p.make (.IndexExpression p.curToken left none)).1 = p.nodes.length := rfl
  simp only [hn, Res.ok_bind, h3, h2, Bool.true_eq_false, ↓reduceIte, Res.pure_eq]

theorem returns_call {p p1 : Parser} {function : NodePtr} {arguments : List NodePtr}
    (h1 : Returns (fun n => parseExpressionList n .RPAREN
      (p.make (.CallExpression p.curToken function [])).2) (arguments, p1)) :
    Returns (fun n => parseCallExpression n function p)
      (some p.nodes.length, p1.setNode p.nodes.length
        (.CallExpression p.curToken function arguments)) := by
  refine Returns.after h1 (fun n hn => ?_) (Returns.of_ok _)
  rw [parseCallExpression_unfold]
  simp only [hn, Res.ok_bind, Res.pure_eq]
  rfl

theorem returns_array {p p1 : Parser} {elements : List NodePtr}
    (h1 : Returns (fun n => parseExpressionList n .RBRACKET
      (p.make (.ArrayLiteral p.curToken [])).2) (elements, p1)) :
    Returns (fun n => parseArrayLiteral n p)
      (some p.nodes.length, p1.setNode p.nodes.length (.ArrayLiteral p.curToken elements)) := by
  refine Returns.after h1 (fun n hn => ?_) (Returns.of_ok _)
  rw [parseArrayLiteral_unfold]
  simp only [hn, Res.ok_bind, Res.pure_eq]
  rfl

theorem returns_list_empty {p : Parser} {endTok : TokenType} (h : p.peekToken.type = endTok) :
    Returns (fun n => parseExpressionList n endTok p) ([], p.nextToken) := by
  refine Returns.step (fun n => parseExpressionList_unfold n endTok p) (Returns.congr ?_
    (Returns.of_ok _))
  intro n
  simp only [Parser.peekTokenIs, h, decide_True, ↓reduceIte]

theorem returns_listLoop_stop {p : Parser} (list : List NodePtr)
    (h : p.peekToken.type ≠ .COMMA) :
    Returns (fun n => parseExpressionListLoop n list p) (list, p) := by
  refine Returns.step (fun n => parseExpressionListLoop_unfold n list p) (Returns.congr ?_
    (Returns.of_ok _))
  intro n
  simp only [Parser.peekTokenIs, h, decide_False, Bool.false_eq_true, ↓reduceIte]

theorem returns_listLoop_step {p p1 : Parser} {list : List NodePtr} {e : NodePtr}
    {r : List NodePtr × Parser} (h : p.peekToken.type = .COMMA)
    (h1 : Returns (fun n => parseExpression n .LOWEST p.nextToken.nextToken) (e, p1))
    (h2 : Returns (fun n => parseExpressionListLoop n (list ++ [e]) p1) r) :
    Returns (fun n => parseExpressionListLoop n list p) r := by
  refine Returns.after h1 (fun n hn => ?_) h2
  rw [parseExpressionListLoop_unfold]
  simp only [Parser.peekTokenIs, h, decide_True, ↓reduceIte, hn, Res.ok_bind]

theorem returns_list {p p1 p2 p3 : Parser} {endTok : TokenType} {e : NodePtr}
    {list : List NodePtr} (h : p.peekToken.type ≠ endTok)
    (h1 : Returns (fun n => parseExpression n .LOWEST p.nextToken) (e, p1))
    (h2 : Returns (fun n => parseExpressionListLoop n [e] p1) (list, p2))
    (h3 : p2.expectPeek endTok = (true, p3)) :
    Returns (fun n => parseExpressionList n endTok p) (list, p3) := by
  obtain ⟨k1, e1⟩ := h1
  obtain ⟨k2, e2⟩ := h2
  refine ⟨max k1 k2 + 1, fun fuel hfuel => ?_⟩
  obtain ⟨n, rfl⟩ : ∃ n, fuel = n + 1 := ⟨fuel - 1, by omega⟩
  have hn1 : k1 ≤ n := by have := le_max_left k1 k2; omega
  have hn2 : k2 ≤ n := by have := le_max_right k1 k2; omega
  have e3 : parseExpression n .LOWEST p.nextToken = .ok (e, p1) := e1 n hn1
  have e4 : parseExpressionListLoop n [e] p1 = .ok (list, p2) := e2 n hn2
  show parseExpressionList (n + 1) endTok p = Res.ok (list, p3)
  rw [parseExpressionList_unfold]
  simp only [Parser.peekTokenIs, h, decide_False, Bool.false_eq_true, ↓reduceIte, e3,
    Res.ok_bind, e4, h3, Bool.true_eq_false, Res.pure_eq]

theorem returns_statement_expression {p : Parser} {r : NodePtr × Parser}
    (h1 : p.curToken.type ≠ .LET) (h2 : p.curToken.type ≠ .RETURN)
    (h : Returns (fun n => parseExpressionStatement n p) r) :
    Returns (fun n => parseStatement n p) r := by
  refine Returns.step (fun n => parseStatement_unfold n p) (Returns.congr ?_ h)
  intro n
  split
  · next h3 => exact absurd h3 h1
  · next h3 => exact absurd h3 h2
  · rfl

theorem returns_statement_let {p : Parser} {r : NodePtr × Parser}
    (h1 : p.curToken.type = .LET) (h : Returns (fun n => parseLetStatement n p) r) :
    Returns (fun n => parseStatement n p) r := by
  refine Returns.step (fun n => parseStatement_unfold n p) (Returns.congr ?_ h)
  intro n
  simp only [h1]

theorem returns_statement_return {p : Parser} {r : NodePtr × Parser}
    (h1 : p.curToken.type = .RETURN) (h : Returns (fun n => parseReturnStatement n p) r) :
    Returns (fun n => parseStatement n p) r := by
  refine Returns.step (fun n => parseStatement_unfold n p) (Returns.congr ?_ h)
  intro n
  simp only [h1]

theorem returns_expressionStatement {p p1 : Parser} {e : NodePtr}
    (h1 : Returns (fun n => parseExpression n .LOWEST
      (p.make (.ExpressionStatement p.curToken none)).2) (e, p1))
    (h2 : (p1.setNode p.nodes.length (.ExpressionStatement p.curToken e)).peekToken.type
      ≠ .SEMICOLON) :
    Returns (fun n => parseExpressionStatement n p)
      (some p.nodes.length, p1.setNode p.nodes.length (.ExpressionStatement p.curToken e)) := by
  refine Returns.after h1 (fun n hn => ?_) (Returns.of_ok _)
  rw [parseExpressionStatement_unfold]
  have h3 : (p.make (.ExpressionStatement p.curToken none)).1 = p.nodes.length := rfl
  simp only [hn, Res.ok_bind, h3, Parser.peekTokenIs, h2, decide_False, Bool.false_eq_true,
    ↓reduceIte, Res.pure_eq]

theorem returns_returnStatement {p p1 : Parser} {e : NodePtr}
    (h1 : Returns (fun n => parseExpression n .LOWEST
      (p.make (.ReturnStatement p.curToken none)).2.nextToken) (e, p1))
    (h2 : (p1.setNode p.nodes.length (.ReturnStatement p.curToken e)).peekToken.type
      = .SEMICOLON) :
    Returns (fun n => parseReturnStatement n p)
      (some p.nodes.length,
        (p1.setNode p.nodes.length (.ReturnStatement p.curToken e)).nextToken) := by
  refine Returns.after h1 (fun n hn => ?_) (Returns.of_ok _)
  rw [parseReturnStatement_unfold]
  have h3 : (p.make (.ReturnStatement p.curToken none)).1 = p.nodes.length := rfl
  simp only [hn, Res.ok_bind, h3, Parser.peekTokenIs, h2, decide_True, ↓reduceIte, Res.pure_eq]

theorem returns_letStatement {p pa pb p4 : Parser} {value : NodePtr}
    (h1 : (p.make (.LetStatement p.curToken none none)).2.expectPeek .IDENT = (true, pa))
    (h2 : ((pa.make (.Identifier pa.curToken pa.curToken.literal)).2.setNode p.nodes.length
      (.LetStatement p.curToken (some pa.nodes.length) none)).expectPeek .ASSIGN = (true, pb))
    (h3 : Returns (fun n => parseExpression n .LOWEST pb.nextToken) (value, p4))
    (h4 : (p4.setNode p.nodes.length (.LetStatement p.curToken (some pa.nodes.length)
      value)).peekToken.type = .SEMICOLON) :
    Returns (fun n => parseLetStatement n p)
      (some p.nodes.length,
        (p4.setNode p.nodes.length (.LetStatement p.curToken (some pa.nodes.length)
          value)).nextToken) := by
  refine Returns.after h3 (fun n hn => ?_) (Returns.of_ok _)
  rw [parseLetStatement_unfold]
  have h5 : (p.make (.LetStatement p.curToken none none)).1 = p.nodes.length := rfl
  have h6 : (pa.make (.Identifier pa.curToken pa.curToken.literal)).1 = pa.nodes.length := rfl
  simp only [h1, h5, h6, h2, Bool.true_eq_false, ↓reduceIte, hn, Res.ok_bind,
    Parser.peekTokenIs, h4, decide_True, Res.pure_eq]

theorem returns_program_stop {p : Parser} (program : Nat) (statements : List NodePtr)
    (h : p.curToken.type = .EOF) :
    Returns (fun n => parseProgramLoop n program statements p) (program, p) := by
  refine Returns.step (fun n => parseProgramLoop_unfold n program statements p) (Returns.congr ?_
    (Returns.of_ok _))
  intro n
  simp only [h, ne_eq, not_true_eq_false, ↓reduceIte]

theorem returns_program_step {p p1 : Parser} {program s : Nat} {statements : List NodePtr}
    {r : Nat × Parser} (h : p.curToken.type ≠ .EOF)
    (h1 : Returns (fun n => parseStatement n p) (some s, p1))
    (h2 : Returns (fun n => parseProgramLoop n program (statements ++ [some s])
      (p1.setNode program (.Program (statements ++ [some s]))).nextToken) r) :
    Returns (fun n => parseProgramLoop n program statements p) r := by
  refine Returns.after h1 (fun n hn => ?_) h2
  rw [parseProgramLoop_unfold]
  simp only [ne_eq, h, not_false_eq_true, ↓reduceIte, hn]

theorem separated_cons (c : Char) (rest : List Char) (h1 : isLetter c = false)
    (h2 : isDigit c = false) : separated (c :: rest) :=
  ⟨c, rest, rfl, h1, h2⟩

theorem headKind_facts {t : TokenType} {opens : Bool} (h : headKind t opens) :
    t ≠ .LET ∧ t ≠ .RETURN ∧ t ≠ .EOF ∧ t ≠ .RPAREN ∧ t ≠ .RBRACKET ∧ t ≠ .SEMICOLON
      ∧ t ≠ .COMMA ∧ (opens = false → precedences t = none) := by
  rcases h with (h | h | h | h | h) | ⟨ho, h | h⟩ <;> subst h <;>
    refine ⟨by decide, by decide, by decide, by decide, by decide, by decide, by decide, ?_⟩ <;>
    first
      | exact fun _ => rfl
      | (intro hf; rw [ho] at hf; exact absurd hf (by decide))

theorem nodeString_of_get {h : NodeHeap} {a : Nat} {n : Node} (hg : h.get? a = some n) :
    derefNode h (some a) = .ok n := by
  simp only [derefNode, hg]

/-- A leaf that prints its own text. -/
theorem printsIn_leaf (ns : NodeHeap) (node : Node) (u : String)
    (h : ∀ (n : Nat) (h1 : NodeHeap), derefNode h1 (some ns.length) = .ok node →
      nodeString (n + 1) h1 (some ns.length) = .ok u) :
    PrintsIn (ns ++ [node]) ns.length (ns ++ [node]).length (some ns.length) u := by
  intro h1 hs
  have hg : h1.get? ns.length = some node := by
    rw [hs ns.length (le_refl _) (by simp), List.get?_eq_getElem?,
      List.getElem?_append_right (le_refl _)]
    simp
  exact Returns.step (fun n => h n h1 (nodeString_of_get hg)) (Returns.of_ok u)

theorem sameNodes_append_one (ns : NodeHeap) (node : Node) :
    SameNodes 0 ns.length ns (ns ++ [node]) :=
  SameNodes.of_append 0 ns.length ns [node] (le_refl _)

/-- An identifier parses back. -/
theorem parsesBack_identifier (value : String) (h : isIdentifier value = true) :
    ParsesBack value false := by
  refine ⟨{ type := .IDENT, literal := value }, [], ?_, ?_, Or.inl (Or.inl rfl), ?_⟩
  · intro tail ht
    exact lex_name h tail ht
  · obtain ⟨c0, w, hd, hl, _, _⟩ := isIdentifier_cases h
    exact ⟨c0, w, hd, (isLetter_special (hl c0 (List.mem_cons_self _ _))).1⟩
  · intro q tail es ns _ _
    refine ⟨{ type := .IDENT, literal := value }, ns.length,
      ns ++ [.Identifier { type := .IDENT, literal := value } value], by simp,
      sameNodes_append_one _ _, ?_, ?_⟩
    · refine printsIn_leaf ns _ value ?_
      intro n h1 hg
      rw [nodeString, hg]
      rfl
    · intro result hr
      exact returns_expression_identifier rfl hr

theorem returns_mapRes {α β : Type} (f : Nat → α → Res β) :
    ∀ (xs : List α) (ys : List β), List.Forall₂ (fun x y => Returns (fun n => f n x) y) xs ys →
      Returns (fun n => mapRes (f n) xs) ys := by
  intro xs ys h
  induction h with
  | nil => exact ⟨0, fun _ _ => rfl⟩
  | cons h1 _ ih =>
    obtain ⟨k1, e1⟩ := h1
    obtain ⟨k2, e2⟩ := ih
    refine ⟨max k1 k2, fun fuel hfuel => ?_⟩
    have a1 := e1 fuel (le_trans (le_max_left _ _) hfuel)
    have a2 := e2 fuel (le_trans (le_max_right _ _) hfuel)
    simp only at a1 a2
    simp only [mapRes, a1, a2]

theorem printsIn_get {h : NodeHeap} {lo hi a : Nat} {node : Node} (ha : lo ≤ a) (hb : a < hi)
    (hg : h.get? a = some node) {h1 : NodeHeap} (hs : SameNodes lo hi h h1) :
    derefNode h1 (some a) = .ok node := by
  simp only [derefNode, hs a ha hb, hg]

theorem printsIn_unary {h : NodeHeap} {lo hi a : Nat} {tok : Token} {op ur : String}
    {r : NodePtr} (ha : lo ≤ a) (hb : a < hi)
    (hg : h.get? a = some (.PrefixExpression tok op r)) (hr : PrintsIn h lo hi r ur) :
    PrintsIn h lo hi (some a) ("(" ++ op ++ ur ++ ")") := by
  intro h1 hs
  refine Returns.after (hr h1 hs) (fun n hn => ?_) (Returns.of_ok _)
  rw [nodeString, printsIn_get ha hb hg hs]
  simp only [hn, Res.ok_bind, Res.pure_eq]

theorem printsIn_binary {h : NodeHeap} {lo hi a : Nat} {tok : Token} {op ul ur : String}
    {l r : NodePtr} (ha : lo ≤ a) (hb : a < hi)
    (hg : h.get? a = some (.InfixExpression tok l op r)) (hl : PrintsIn h lo hi l ul)
    (hr : PrintsIn h lo hi r ur) :
    PrintsIn h lo hi (some a) ("(" ++ ul ++ (" " ++ op ++ " ") ++ ur ++ ")") := by
  intro h1 hs
  obtain ⟨k1, e1⟩ := hl h1 hs
  obtain ⟨k2, e2⟩ := hr h1 hs
  refine ⟨max k1 k2 + 1, fun fuel hfuel => ?_⟩
  obtain ⟨n, rfl⟩ : ∃ n, fuel = n + 1 := ⟨fuel - 1, by omega⟩
  have a1 := e1 n (by have := le_max_left k1 k2; omega)
  have a2 := e2 n (by have := le_max_right k1 k2; omega)
  simp only at a1 a2
  show nodeString (n + 1) h1 (some a) = _
  rw [nodeString, printsIn_get ha hb hg hs]
  simp only [a1, a2, Res.ok_bind, Res.pure_eq]

theorem printsIn_index {h : NodeHeap} {lo hi a : Nat} {tok : Token} {ul ui : String}
    {l i : NodePtr} (ha : lo ≤ a) (hb : a < hi)
    (hg : h.get? a = some (.IndexExpression tok l i)) (hl : PrintsIn h lo hi l ul)
    (hi2 : PrintsIn h lo hi i ui) :
    PrintsIn h lo hi (some a) ("(" ++ ul ++ "[" ++ ui ++ "])") := by
  intro h1 hs
  obtain ⟨k1, e1⟩ := hl h1 hs
  obtain ⟨k2, e2⟩ := hi2 h1 hs
  refine ⟨max k1 k2 + 1, fun fuel hfuel => ?_⟩
  obtain ⟨n, rfl⟩ : ∃ n, fuel = n + 1 := ⟨fuel - 1, by omega⟩
  have a1 := e1 n (by have := le_max_left k1 k2; omega)
  have a2 := e2 n (by have := le_max_right k1 k2; omega)
  simp only at a1 a2
  show nodeString (n + 1) h1 (some a) = _
  rw [nodeString, printsIn_get ha hb hg hs]
  simp only [a1, a2, Res.ok_bind, Res.pure_eq]

theorem printsIn_list {h : NodeHeap} {lo hi : Nat} {xs : List NodePtr} {us : List String}
    (hx : List.Forall₂ (fun x u => PrintsIn h lo hi x u) xs us) {h1 : NodeHeap}
    (hs : SameNodes lo hi h h1) : Returns (fun n => mapRes (nodeString n h1) xs) us := by
  refine returns_mapRes (fun n => nodeString n h1) xs us ?_
  exact hx.imp (fun _ _ hp => hp h1 hs)

theorem printsIn_call {h : NodeHeap} {lo hi a : Nat} {tok : Token} {uf : String}
    {f : NodePtr} {args : List NodePtr} {us : List String} (ha : lo ≤ a) (hb : a < hi)
    (hg : h.get? a = some (.CallExpression tok f args)) (hf : PrintsIn h lo hi f uf)
    (hx : List.Forall₂ (fun x u => PrintsIn h lo hi x u) args us) :
    PrintsIn h lo hi (some a) (uf ++ "(" ++ joinComma us ++ ")") := by
  intro h1 hs
  obtain ⟨k1, e1⟩ := hf h1 hs
  obtain ⟨k2, e2⟩ := printsIn_list hx hs
  refine ⟨max k1 k2 + 1, fun fuel hfuel => ?_⟩
  obtain ⟨n, rfl⟩ : ∃ n, fuel = n + 1 := ⟨fuel - 1, by omega⟩
  have a1 := e1 n (by have := le_max_left k1 k2; omega)
  have a2 := e2 n (by have := le_max_right k1 k2; omega)
  simp only at a1 a2
  show nodeString (n + 1) h1 (some a) = _
  rw [nodeString, printsIn_get ha hb hg hs]
  simp only [a1, a2, Res.ok_bind, Res.pure_eq]

theorem printsIn_array {h : NodeHeap} {lo hi a : Nat} {tok : Token}
    {elements : List NodePtr} {us : List String} (ha : lo ≤ a) (hb : a < hi)
    (hg : h.get? a = some (.ArrayLiteral tok elements))
    (hx : List.Forall₂ (fun x u => PrintsIn h lo hi x u) elements us) :
    PrintsIn h lo hi (some a) ("[" ++ joinComma us ++ "]") := by
  intro h1 hs
  refine Returns.after (printsIn_list hx hs) (fun n hn => ?_) (Returns.of_ok _)
  rw [nodeString, printsIn_get ha hb hg hs]
  simp only [hn, Res.ok_bind, Res.pure_eq]

theorem peek_stop_rparen (cur : Token) (tail : List Char) (es : List String) (ns : NodeHeap) :
    (parserAt cur (')' :: tail) es ns).peekToken.type = .SEMICOLON
      ∨ precedences (parserAt cur (')' :: tail) es ns).peekToken.type = none := by
  right
  rw [parserAt_peekToken es ns (lex_punctuation tail).2.1]
  rfl

theorem peek_stop_rbracket (cur : Token) (tail : List Char) (es : List String) (ns : NodeHeap) :
    (parserAt cur (']' :: tail) es ns).peekToken.type = .SEMICOLON
      ∨ precedences (parserAt cur (']' :: tail) es ns).peekToken.type = none := by
  right
  rw [parserAt_peekToken es ns (lex_punctuation tail).2.2.2.1]
  rfl

theorem peek_stop_comma (cur : Token) (tail : List Char) (es : List String) (ns : NodeHeap) :
    (parserAt cur (',' :: tail) es ns).peekToken.type = .SEMICOLON
      ∨ precedences (parserAt cur (',' :: tail) es ns).peekToken.type = none := by
  right
  rw [parserAt_peekToken es ns (lex_punctuation tail).2.2.2.2.1]
  rfl

theorem peek_stop_semicolon (cur : Token) (tail : List Char) (es : List String)
    (ns : NodeHeap) :
    (parserAt cur (';' :: tail) es ns).peekToken.type = .SEMICOLON
      ∨ precedences (parserAt cur (';' :: tail) es ns).peekToken.type = none := by
  left
  rw [parserAt_peekToken es ns (lex_punctuation tail).2.2.2.2.2.1]

theorem expect_rparen (cur : Token) (tail : List Char) (es : List String) (ns : NodeHeap) :
    (parserAt cur (')' :: tail) es ns).expectPeek .RPAREN
      = (true, parserAt { type := .RPAREN, literal := ")" } tail es ns) :=
  parserAt_expectPeek es ns (lex_punctuation tail).2.1

theorem expect_rbracket (cur : Token) (tail : List Char) (es : List String) (ns : NodeHeap) :
    (parserAt cur (']' :: tail) es ns).expectPeek .RBRACKET
      = (true, parserAt { type := .RBRACKET, literal := "]" } tail es ns) :=
  parserAt_expectPeek es ns (lex_punctuation tail).2.2.2.1

theorem lex_prefix_op (op : String) (h : op ∈ prefixOperators) :
    ∃ t : TokenType, (t = .BANG ∨ t = .MINUS)
      ∧ ∀ c rest, c ≠ '=' → (Lexer.new (op.data ++ c :: rest)).nextToken
          = ({ type := t, literal := op }, Lexer.new (c :: rest)) := by
  simp only [prefixOperators, List.mem_cons, List.mem_singleton, List.not_mem_nil, or_false] at h
  rcases h with rfl | rfl
  · exact ⟨.MINUS, Or.inr rfl, fun c rest _ => (lex_punctuation (c :: rest)).2.2.2.2.2.2⟩
  · exact ⟨.BANG, Or.inl rfl, fun c rest hc => lex_bang c rest hc⟩

theorem sep_rparen (tail : List Char) : separated (')' :: tail) :=
  separated_cons _ _ (by decide) (by decide)

theorem sep_rbracket (tail : List Char) : separated (']' :: tail) :=
  separated_cons _ _ (by decide) (by decide)

theorem sep_lparen (tail : List Char) : separated ('(' :: tail) :=
  separated_cons _ _ (by decide) (by decide)

theorem sep_lbracket (tail : List Char) : separated ('[' :: tail) :=
  separated_cons _ _ (by decide) (by decide)

theorem sep_comma (tail : List Char) : separated (',' :: tail) :=
  separated_cons _ _ (by decide) (by decide)

theorem sep_blank (tail : List Char) : separated (' ' :: tail) :=
  separated_cons _ _ (by decide) (by decide)

theorem sep_semicolon (tail : List Char) : separated (';' :: tail) :=
  separated_cons _ _ (by decide) (by decide)

theorem sep_newline (tail : List Char) : separated ('\n' :: tail) :=
  separated_cons _ _ (by decide) (by decide)

/-- A prefix operation parses back when its operand does. -/
theorem parsesBack_unary (op ur : String) (o : Bool) (h : op ∈ prefixOperators)
    (hr : ParsesBack ur o) : ParsesBack ("(" ++ op ++ ur ++ ")") true := by
  obtain ⟨hd, tl, lexr, ⟨c0, cs, hc0, hne⟩, _, parser⟩ := hr
  obtain ⟨t, ht, lexop⟩ := lex_prefix_op op h
  have hdata : ∀ tail : List Char, ("(" ++ op ++ ur ++ ")").data ++ tail
      = '(' :: (op.data ++ (ur.data ++ ')' :: tail)) := by
    intro tail
    simp only [String.data_append, List.append_assoc]
    rfl
  refine ⟨{ type := .LPAREN, literal := "(" }, op.data ++ (ur.data ++ [')']), ?_,
    ⟨'(', op.data ++ (ur.data ++ [')']), ?_, by decide⟩, Or.inr ⟨rfl, Or.inl rfl⟩, ?_⟩
  · intro tail _
    rw [hdata]
    simp only [List.append_assoc, List.singleton_append]
    exact (lex_punctuation _).1
  · have := hdata []
    simp only [List.append_nil] at this
    rw [this]
  · intro q tail es ns _ _
    obtain ⟨last, root, nsr, hlen, hsame, hprint, hcps⟩ :=
      parser .PREFIX (')' :: tail) es
        (ns ++ [.PrefixExpression { type := t, literal := op } op none]) (by decide)
        (sep_rparen tail)
    have hl0 : (ns ++ [Node.PrefixExpression { type := t, literal := op } op none]).length
        = ns.length + 1 := by simp
    rw [hl0] at hlen hsame hprint
    refine ⟨{ type := .RPAREN, literal := ")" }, ns.length,
      nsr.set ns.length (.PrefixExpression { type := t, literal := op } op (some root)), ?_, ?_,
      ?_, ?_⟩
    · rw [List.length_set]; omega
    · exact ((sameNodes_append_one ns _).same_trans (hsame.narrow (le_refl _) (by omega))).same_trans
        (SameNodes.of_set 0 ns.length nsr ns.length _ (Or.inr (le_refl _)))
    · refine printsIn_unary (le_refl _) (by rw [List.length_set]; omega)
        (list_get_set_self nsr ns.length _ (by omega)) ?_
      exact hprint.onward (SameNodes.of_set _ _ nsr ns.length _ (Or.inl (by omega))) (by omega)
        (by rw [List.length_set])
    · intro result hk
      have e1 : (parserAt { type := .LPAREN, literal := "(" }
          ((op.data ++ (ur.data ++ [')'])) ++ tail) es ns).nextToken
          = parserAt { type := t, literal := op } (ur.data ++ ')' :: tail) es ns := by
        refine parserAt_nextToken es ns ?_
        simp only [List.append_assoc, List.singleton_append, hc0, List.cons_append]
        exact lexop c0 _ hne
      have e2 : (parserAt { type := t, literal := op } (ur.data ++ ')' :: tail) es
          (ns ++ [.PrefixExpression { type := t, literal := op } op none])).nextToken
          = parserAt hd (tl ++ ')' :: tail) es
            (ns ++ [.PrefixExpression { type := t, literal := op } op none]) :=
        parserAt_nextToken es _ (lexr _ (sep_rparen tail))
      have r1 := hcps _ (returns_loop_stop .PREFIX (some root) _ (peek_stop_rparen last tail es nsr))
      rw [← e2] at r1
      have r2 := returns_unary (p := parserAt { type := t, literal := op }
        (ur.data ++ ')' :: tail) es ns) r1
      have r3 := returns_expression_unary (q := .LOWEST) ht r2
        (returns_loop_stop .LOWEST _ _ (peek_stop_rparen last tail es _))
      have r4 : Returns (fun n => parseExpression n .LOWEST
          (parserAt { type := .LPAREN, literal := "(" }
            ((op.data ++ (ur.data ++ [')'])) ++ tail) es ns).nextToken)
          (some ns.length, parserAt last (')' :: tail) es
            (nsr.set ns.length (.PrefixExpression { type := t, literal := op } op (some root)))) := by
        rw [e1]
        exact r3
      exact returns_expression_grouped rfl (returns_grouped r4 (expect_rparen _ _ _ _)) hk

theorem integerText_facts {lit : String} (h : integerText lit = true) :
    lit.data ≠ [] ∧ (∀ c ∈ lit.data, isDigit c = true)
      ∧ stoi lit = .ok (Int.ofNat (digitsValue lit.data))
      ∧ ¬ (Int.ofNat (digitsValue lit.data) = 0 ∧ lit ≠ "0") := by
  simp only [integerText, Bool.and_eq_true, Bool.not_eq_true', List.isEmpty_eq_false,
    List.all_eq_true, decide_eq_true_eq, Bool.or_eq_true] at h
  obtain ⟨⟨⟨h1, h2⟩, h3⟩, h4⟩ := h
  have h5 : lit.data ≠ [] := by
    intro hc
    rw [hc] at h1
    simp at h1
  refine ⟨h5, h2, ?_, ?_⟩
  · have h6 : lit.data.all isDigit = true := List.all_eq_true.mpr h2
    simp only [stoi, ne_eq, h5, not_false_eq_true, h6, and_self, ↓reduceIte, h3]
  · rintro ⟨ha, hb⟩
    rcases h4 with h4 | h4
    · exact h4 (Int.ofNat.inj ha)
    · exact hb h4

/-- An integer literal parses back. -/
theorem parsesBack_integer (lit : String) (h : integerText lit = true) :
    ParsesBack lit false := by
  obtain ⟨h1, h2, h3, h4⟩ := integerText_facts h
  refine ⟨{ type := .INT, literal := lit }, [], ?_, ?_, Or.inl (Or.inr (Or.inl rfl)), ?_⟩
  · intro tail ht
    exact lex_number lit h1 h2 tail ht
  · cases hd : lit.data with
    | nil => exact absurd hd h1
    | cons c cs =>
      refine ⟨c, cs, rfl, ?_⟩
      rw [hd] at h2
      exact (isDigit_special (h2 c (List.mem_cons_self _ _))).1.1
  · intro q tail es ns _ _
    refine ⟨{ type := .INT, literal := lit }, ns.length,
      (ns ++ [Node.IntegerLiteral { type := .INT, literal := lit } 0]).set ns.length
        (Node.IntegerLiteral { type := .INT, literal := lit } (Int.ofNat (digitsValue lit.data))),
      by simp, ?_, ?_, ?_⟩
    · exact (sameNodes_append_one ns _).same_trans
        (SameNodes.of_set 0 ns.length _ ns.length _ (Or.inr (le_refl _)))
    · intro h1 hs
      have hg : h1.get? ns.length = some (Node.IntegerLiteral { type := .INT, literal := lit }
          (Int.ofNat (digitsValue lit.data))) := by
        rw [hs ns.length (le_refl _) (by simp)]
        exact list_get_set_self _ _ _ (by simp)
      refine Returns.step (fun n => ?_) (Returns.of_ok lit)
      rw [nodeString, nodeString_of_get hg]
      rfl
    · intro result hr
      exact returns_expression_integer (v := Int.ofNat (digitsValue lit.data)) rfl h3 h4 hr

/-- A boolean literal parses back. -/
theorem parsesBack_boolean (lit : String) (h : lit = "true" ∨ lit = "false") :
    ParsesBack lit false := by
  have key : ∀ (t : TokenType), (t = .TRUE ∨ t = .FALSE) →
      (∀ tail, separated tail →
        (Lexer.new (lit.data ++ tail)).nextToken = ({ type := t, literal := lit }, Lexer.new tail)) →
      (∃ c cs, lit.data = c :: cs ∧ c ≠ '=') → ParsesBack lit false := by
    intro t ht hlex hfirst
    refine ⟨{ type := t, literal := lit }, [], hlex, hfirst, ?_, ?_⟩
    · rcases ht with ht | ht
      · exact Or.inl (Or.inr (Or.inr (Or.inl ht)))
      · exact Or.inl (Or.inr (Or.inr (Or.inr (Or.inl ht))))
    · intro q tail es ns _ _
      refine ⟨{ type := t, literal := lit }, ns.length,
        ns ++ [.Boolean { type := t, literal := lit }
          ((parserAt { type := t, literal := lit } tail es ns).curTokenIs .TRUE)], by simp,
        sameNodes_append_one _ _, ?_, ?_⟩
      · refine printsIn_leaf ns _ lit ?_
        intro n h1 hg
        rw [nodeString, hg]
        rfl
      · intro result hr
        exact returns_expression_boolean ht hr
  rcases h with rfl | rfl
  · exact key .TRUE (Or.inl rfl) (fun tail ht => (lex_keyword tail ht).2.2.1)
      ⟨'t', ['r', 'u', 'e'], rfl, by decide⟩
  · exact key .FALSE (Or.inr rfl) (fun tail ht => (lex_keyword tail ht).2.2.2)
      ⟨'f', ['a', 'l', 's', 'e'], rfl, by decide⟩

/-- A binary operation parses back when its operands do. -/
theorem parsesBack_binary (op ul ur : String) (o1 o2 : Bool) (h : op ∈ binaryOperators)
    (hl : ParsesBack ul o1) (hr : ParsesBack ur o2) :
    ParsesBack ("(" ++ ul ++ (" " ++ op ++ " ") ++ ur ++ ")") true := by
  obtain ⟨hdl, tll, lexl, _, _, parsel⟩ := hl
  obtain ⟨hdr, tlr, lexr, _, _, parser⟩ := hr
  obtain ⟨t, q1, lexop, hbin, hprec, hsemi, _, hq1⟩ := lex_binary op h
  have hdata : ∀ tail : List Char,
      ("(" ++ ul ++ (" " ++ op ++ " ") ++ ur ++ ")").data ++ tail
        = '(' :: (ul.data ++ ' ' :: (op.data ++ ' ' :: (ur.data ++ ')' :: tail))) := by
    intro tail
    simp only [String.data_append, List.append_assoc]
    rfl
  refine ⟨{ type := .LPAREN, literal := "(" },
    ul.data ++ ' ' :: (op.data ++ ' ' :: (ur.data ++ [')'])), ?_,
    ⟨'(', ul.data ++ ' ' :: (op.data ++ ' ' :: (ur.data ++ [')'])), ?_, by decide⟩,
    Or.inr ⟨rfl, Or.inl rfl⟩, ?_⟩
  · intro tail _
    rw [hdata]
    simp only [List.append_assoc, List.singleton_append, List.cons_append]
    exact (lex_punctuation _).1
  · have := hdata []
    simp only [List.append_nil] at this
    rw [this]
  · intro q tail es ns _ _
    obtain ⟨lastl, rootl, nsl, hlenl, hsamel, hprintl, hcpsl⟩ :=
      parsel .LOWEST (' ' :: (op.data ++ ' ' :: (ur.data ++ ')' :: tail))) es ns (by decide)
        (sep_blank _)
    obtain ⟨lastr, rootr, nsr, hlenr, hsamer, hprintr, hcpsr⟩ :=
      parser q1 (')' :: tail) es
        (nsl ++ [.InfixExpression { type := t, literal := op } (some rootl) op none])
        (by omega) (sep_rparen tail)
    have hl0 : (nsl ++ [Node.InfixExpression { type := t, literal := op } (some rootl) op
        none]).length = nsl.length + 1 := by simp
    rw [hl0] at hlenr hsamer hprintr
    refine ⟨{ type := .RPAREN, literal := ")" }, nsl.length,
      nsr.set nsl.length (.InfixExpression { type := t, literal := op } (some rootl) op
        (some rootr)), ?_, ?_, ?_, ?_⟩
    · rw [List.length_set]; omega
    · exact ((hsamel.same_trans ((sameNodes_append_one nsl _).narrow (le_refl _) hlenl)).same_trans
        (hsamer.narrow (le_refl _) (by omega))).same_trans
        (SameNodes.of_set 0 ns.length nsr nsl.length _ (Or.inr hlenl))
    · refine printsIn_binary hlenl (by rw [List.length_set]; omega)
        (list_get_set_self nsr nsl.length _ (by omega)) ?_ ?_
      · refine hprintl.onward ?_ (le_refl _) (by rw [List.length_set]; omega)
        exact ((SameNodes.of_append _ _ nsl _ (le_refl _)).same_trans
          (hsamer.narrow (Nat.zero_le _) (by omega))).same_trans
          (SameNodes.of_set _ _ nsr nsl.length _ (Or.inr (le_refl _)))
      · exact hprintr.onward (SameNodes.of_set _ _ nsr nsl.length _ (Or.inl (by omega)))
          (by omega) (by rw [List.length_set])
    · intro result hk
      have e1 : (parserAt { type := .LPAREN, literal := "(" }
          ((ul.data ++ ' ' :: (op.data ++ ' ' :: (ur.data ++ [')']))) ++ tail) es ns).nextToken
          = parserAt hdl (tll ++ ' ' :: (op.data ++ ' ' :: (ur.data ++ ')' :: tail))) es ns := by
        refine parserAt_nextToken es ns ?_
        simp only [List.append_assoc, List.singleton_append, List.cons_append]
        exact lexl _ (sep_blank _)
      have hpeek : (Lexer.new (' ' :: (op.data ++ ' ' :: (ur.data ++ ')' :: tail)))).nextToken
          = ({ type := t, literal := op }, Lexer.new (' ' :: (ur.data ++ ')' :: tail))) :=
        lexop _
      have e2 : (parserAt lastl (' ' :: (op.data ++ ' ' :: (ur.data ++ ')' :: tail))) es
          nsl).nextToken
          = parserAt { type := t, literal := op } (' ' :: (ur.data ++ ')' :: tail)) es nsl :=
        parserAt_nextToken es nsl hpeek
      have e3 : (parserAt { type := t, literal := op } (' ' :: (ur.data ++ ')' :: tail)) es
          (nsl ++ [.InfixExpression { type := t, literal := op } (some rootl) op none])).nextToken
          = parserAt hdr (tlr ++ ')' :: tail) es
            (nsl ++ [.InfixExpression { type := t, literal := op } (some rootl) op none]) := by
        refine parserAt_nextToken es _ ?_
        rw [(lex_blank _).1]
        exact lexr _ (sep_rparen tail)
      have hcur : (parserAt { type := t, literal := op } (' ' :: (ur.data ++ ')' :: tail)) es
          nsl).curPrecedence = q1 := by
        simp only [Parser.curPrecedence, parserAt_curToken, hprec]
      have r1 := hcpsr _ (returns_loop_stop q1 (some rootr) _ (peek_stop_rparen lastr tail es nsr))
      rw [← e3] at r1
      have r2 : Returns (fun n => parseInfixExpression n (some rootl)
          (parserAt lastl (' ' :: (op.data ++ ' ' :: (ur.data ++ ')' :: tail))) es
            nsl).nextToken)
          (some nsl.length, parserAt lastr (')' :: tail) es
            (nsr.set nsl.length (.InfixExpression { type := t, literal := op } (some rootl) op
              (some rootr)))) := by
        rw [e2]
        refine @returns_binary (parserAt { type := t, literal := op }
          (' ' :: (ur.data ++ ')' :: tail)) es nsl) (parserAt lastr (')' :: tail) es nsr)
          (some rootl) (some rootr) ?_
        rw [hcur]
        exact r1
      have hpk : (parserAt lastl (' ' :: (op.data ++ ' ' :: (ur.data ++ ')' :: tail))) es
          nsl).peekToken = { type := t, literal := op } := parserAt_peekToken es nsl hpeek
      have r3 := @returns_loop_binary .LOWEST q1 _ _ _ _ _
        (by rw [hpk]; exact hsemi) (by rw [hpk]; exact hprec) (by
          have : prec.LOWEST.toNat = 0 := rfl
          omega) (by rw [hpk]; exact hbin) r2
        (returns_loop_stop .LOWEST _ _ (peek_stop_rparen lastr tail es _))
      have r4 := hcpsl _ r3
      rw [← e1] at r4
      exact returns_expression_grouped rfl (returns_grouped r4 (expect_rparen _ _ _ _)) hk

/-- An index expression parses back when its operands do. -/
theorem parsesBack_index (ul ui : String) (o1 o2 : Bool)
    (hl : ParsesBack ul o1) (hi : ParsesBack ui o2) :
    ParsesBack ("(" ++ ul ++ "[" ++ ui ++ "])") true := by
  obtain ⟨hdl, tll, lexl, _, _, parsel⟩ := hl
  obtain ⟨hdi, tli, lexi, _, _, parsei⟩ := hi
  have hdata : ∀ tail : List Char, ("(" ++ ul ++ "[" ++ ui ++ "])").data ++ tail
      = '(' :: (ul.data ++ '[' :: (ui.data ++ ']' :: ')' :: tail)) := by
    intro tail
    simp only [String.data_append, List.append_assoc]
    rfl
  refine ⟨{ type := .LPAREN, literal := "(" }, ul.data ++ '[' :: (ui.data ++ [']', ')']), ?_,
    ⟨'(', ul.data ++ '[' :: (ui.data ++ [']', ')']), ?_, by decide⟩,
    Or.inr ⟨rfl, Or.inl rfl⟩, ?_⟩
  · intro tail _
    rw [hdata]
    simp only [List.append_assoc, List.cons_append, List.nil_append]
    exact (lex_punctuation _).1
  · have := hdata []
    simp only [List.append_nil] at this
    rw [this]
  · intro q tail es ns _ _
    obtain ⟨lastl, rootl, nsl, hlenl, hsamel, hprintl, hcpsl⟩ :=
      parsel .LOWEST ('[' :: (ui.data ++ ']' :: ')' :: tail)) es ns (by decide) (sep_lbracket _)
    obtain ⟨lasti, rooti, nsi, hleni, hsamei, hprinti, hcpsi⟩ :=
      parsei .LOWEST (']' :: ')' :: tail) es
        (nsl ++ [.IndexExpression { type := .LBRACKET, literal := "[" } (some rootl) none])
        (by decide) (sep_rbracket _)
    have hl0 : (nsl ++ [Node.IndexExpression { type := .LBRACKET, literal := "[" } (some rootl)
        none]).length = nsl.length + 1 := by simp
    rw [hl0] at hleni hsamei hprinti
    refine ⟨{ type := .RPAREN, literal := ")" }, nsl.length,
      nsi.set nsl.length (.IndexExpression { type := .LBRACKET, literal := "[" } (some rootl)
        (some rooti)), ?_, ?_, ?_, ?_⟩
    · rw [List.length_set]; omega
    · exact ((hsamel.same_trans ((sameNodes_append_one nsl _).narrow (le_refl _) hlenl)).same_trans
        (hsamei.narrow (le_refl _) (by omega))).same_trans
        (SameNodes.of_set 0 ns.length nsi nsl.length _ (Or.inr hlenl))
    · refine printsIn_index hlenl (by rw [List.length_set]; omega)
        (list_get_set_self nsi nsl.length _ (by omega)) ?_ ?_
      · refine hprintl.onward ?_ (le_refl _) (by rw [List.length_set]; omega)
        exact ((SameNodes.of_append _ _ nsl _ (le_refl _)).same_trans
          (hsamei.narrow (Nat.zero_le _) (by omega))).same_trans
          (SameNodes.of_set _ _ nsi nsl.length _ (Or.inr (le_refl _)))
      · exact hprinti.onward (SameNodes.of_set _ _ nsi nsl.length _ (Or.inl (by omega)))
          (by omega) (by rw [List.length_set])
    · intro result hk
      have e1 : (parserAt { type := .LPAREN, literal := "(" }
          ((ul.data ++ '[' :: (ui.data ++ [']', ')'])) ++ tail) es ns).nextToken
          = parserAt hdl (tll ++ '[' :: (ui.data ++ ']' :: ')' :: tail)) es ns := by
        refine parserAt_nextToken es ns ?_
        simp only [List.append_assoc, List.cons_append, List.nil_append]
        exact lexl _ (sep_lbracket _)
      have hpeek : (Lexer.new ('[' :: (ui.data ++ ']' :: ')' :: tail))).nextToken
          = ({ type := .LBRACKET, literal := "[" }, Lexer.new (ui.data ++ ']' :: ')' :: tail)) :=
        (lex_punctuation _).2.2.1
      have e2 : (parserAt lastl ('[' :: (ui.data ++ ']' :: ')' :: tail)) es nsl).nextToken
          = parserAt { type := .LBRACKET, literal := "[" } (ui.data ++ ']' :: ')' :: tail) es
            nsl := parserAt_nextToken es nsl hpeek
      have e3 : (parserAt { type := .LBRACKET, literal := "[" } (ui.data ++ ']' :: ')' :: tail)
          es (nsl ++ [.IndexExpression { type := .LBRACKET, literal := "[" } (some rootl)
            none])).nextToken
          = parserAt hdi (tli ++ ']' :: ')' :: tail) es
            (nsl ++ [.IndexExpression { type := .LBRACKET, literal := "[" } (some rootl)
              none]) :=
        parserAt_nextToken es _ (lexi _ (sep_rbracket _))
      have r1 := hcpsi _ (returns_loop_stop .LOWEST (some rooti) _
        (peek_stop_rbracket lasti (')' :: tail) es nsi))
      rw [← e3] at r1
      have r2 : Returns (fun n => parseIndexExpression n (some rootl)
          (parserAt lastl ('[' :: (ui.data ++ ']' :: ')' :: tail)) es nsl).nextToken)
          (some nsl.length, parserAt { type := .RBRACKET, literal := "]" } (')' :: tail) es
            (nsi.set nsl.length (.IndexExpression { type := .LBRACKET, literal := "[" }
              (some rootl) (some rooti)))) := by
        rw [e2]
        exact @returns_index (parserAt { type := .LBRACKET, literal := "[" }
          (ui.data ++ ']' :: ')' :: tail) es nsl) (parserAt lasti (']' :: ')' :: tail) es nsi) _
          (some rootl) (some rooti) r1 (expect_rbracket _ _ _ _)
      have hpk : (parserAt lastl ('[' :: (ui.data ++ ']' :: ')' :: tail)) es nsl).peekToken
          = { type := .LBRACKET, literal := "[" } := parserAt_peekToken es nsl hpeek
      have r3 := @returns_loop_index .LOWEST _ _ _ _ _ (by rw [hpk]) (by decide) r2
        (returns_loop_stop .LOWEST _ _ (peek_stop_rparen _ tail es _))
      have r4 := hcpsl _ r3
      rw [← e1] at r4
      exact returns_expression_grouped rfl (returns_grouped r4 (expect_rparen _ _ _ _)) hk

theorem joinComma_data (u : String) (us : List String) :
    (joinComma (u :: us)).data = u.data ++ commaRest us := by
  induction us generalizing u with
  | nil => simp [joinComma, commaRest]
  | cons v vs ih =>
    rw [joinComma, String.data_append, String.data_append, ih v]
    simp only [commaRest, List.append_assoc]
    rfl

/-- The loop of parseExpressionList reads the texts that follow the first one. -/
theorem parsesBack_listLoop (w : List Char) (hsep : separated w)
    (hstop : ∀ cur es ns, (parserAt cur w es ns).peekToken.type = .SEMICOLON
      ∨ precedences (parserAt cur w es ns).peekToken.type = none)
    (hnc : ∀ cur es ns, (parserAt cur w es ns).peekToken.type ≠ .COMMA) :
    ∀ (us : List String), (∀ u ∈ us, ∃ o, ParsesBack u o) →
    ∀ (list : List NodePtr) (last : Token) (es : List String) (ns : NodeHeap),
      ∃ (roots : List NodePtr) (last1 : Token) (ns1 : NodeHeap),
        ns.length ≤ ns1.length ∧ SameNodes 0 ns.length ns ns1
        ∧ List.Forall₂ (fun x u => PrintsIn ns1 ns.length ns1.length x u) roots us
        ∧ Returns (fun n => parseExpressionListLoop n list
            (parserAt last (commaRest us ++ w) es ns))
            (list ++ roots, parserAt last1 w es ns1) := by
  intro us
  induction us with
  | nil =>
    intro _ list last es ns
    refine ⟨[], last, ns, le_refl _, SameNodes.same_refl _ _ _, List.Forall₂.nil, ?_⟩
    rw [List.append_nil]
    exact returns_listLoop_stop list (hnc last es ns)
  | cons u us ih =>
    intro hus list last es ns
    obtain ⟨o, hd, tl, lex, _, _, parse⟩ := hus u (List.mem_cons_self _ _)
    have hsep1 : separated (commaRest us ++ w) := by
      cases us with
      | nil => exact hsep
      | cons v vs => exact sep_comma _
    have hstop1 : ∀ cur es ns, (parserAt cur (commaRest us ++ w) es ns).peekToken.type
        = .SEMICOLON
        ∨ precedences (parserAt cur (commaRest us ++ w) es ns).peekToken.type = none := by
      cases us with
      | nil => exact hstop
      | cons v vs => exact fun cur es ns => peek_stop_comma cur _ es ns
    obtain ⟨lastu, rootu, nsu, hlenu, hsameu, hprintu, hcpsu⟩ :=
      parse .LOWEST (commaRest us ++ w) es ns (by decide) hsep1
    obtain ⟨roots, last1, ns1, hlen1, hsame1, hprint1, hret1⟩ :=
      ih (fun v hv => hus v (List.mem_cons_of_mem _ hv)) (list ++ [some rootu]) lastu es nsu
    have htext : commaRest (u :: us) ++ w = ',' :: ' ' :: (u.data ++ (commaRest us ++ w)) := by
      simp only [commaRest, List.cons_append, List.append_assoc]
    refine ⟨some rootu :: roots, last1, ns1, le_trans hlenu hlen1,
      hsameu.same_trans (hsame1.narrow (le_refl _) hlenu), ?_, ?_⟩
    · refine List.Forall₂.cons (hprintu.onward ?_ (le_refl _) hlen1) ?_
      · exact hsame1.narrow (Nat.zero_le _) (le_refl _)
      · exact hprint1.imp (fun _ _ hp => hp.onward (SameNodes.same_refl _ _ _) hlenu (le_refl _))
    · rw [htext]
      have hcomma : (Lexer.new (',' :: ' ' :: (u.data ++ (commaRest us ++ w)))).nextToken
          = ({ type := .COMMA, literal := "," },
              Lexer.new (' ' :: (u.data ++ (commaRest us ++ w)))) :=
        (lex_punctuation _).2.2.2.2.1
      have e1 : (parserAt last (',' :: ' ' :: (u.data ++ (commaRest us ++ w))) es ns).nextToken
          = parserAt { type := .COMMA, literal := "," } (' ' :: (u.data ++ (commaRest us ++ w)))
            es ns := parserAt_nextToken es ns hcomma
      have e2 : (parserAt { type := .COMMA, literal := "," }
          (' ' :: (u.data ++ (commaRest us ++ w))) es ns).nextToken
          = parserAt hd (tl ++ (commaRest us ++ w)) es ns := by
        refine parserAt_nextToken es ns ?_
        rw [(lex_blank _).1]
        exact lex _ hsep1
      have hpk : (parserAt last (',' :: ' ' :: (u.data ++ (commaRest us ++ w))) es
          ns).peekToken = { type := .COMMA, literal := "," } := parserAt_peekToken es ns hcomma
      have r1 := hcpsu _ (returns_loop_stop .LOWEST (some rootu) _ (hstop1 lastu es nsu))
      have r2 : Returns (fun n => parseExpression n .LOWEST
          (parserAt last (',' :: ' ' :: (u.data ++ (commaRest us ++ w))) es
            ns).nextToken.nextToken) (some rootu, parserAt lastu (commaRest us ++ w) es nsu) := by
        rw [e1, e2]
        exact r1
      have r3 : Returns (fun n => parseExpressionListLoop n (list ++ [some rootu])
          (parserAt lastu (commaRest us ++ w) es nsu))
          (list ++ some rootu :: roots, parserAt last1 w es ns1) := by
        have : list ++ some rootu :: roots = list ++ [some rootu] ++ roots := by simp
        rw [this]
        exact hret1
      exact returns_listLoop_step (by rw [hpk]) r2 r3

/-- The texts of a list joined by commas, followed by the closing bracket, are read by
parseExpressionList as a list of expressions that print as these texts. -/
theorem parsesBack_list (endTok : TokenType) (closing : Char) (lit : String)
    (hlex : ∀ rest, (Lexer.new (closing :: rest)).nextToken
      = ({ type := endTok, literal := lit }, Lexer.new rest))
    (hsep : ∀ rest, separated (closing :: rest))
    (hprec : precedences endTok = none) (hcomma : endTok ≠ .COMMA)
    (hkind : ∀ t o, headKind t o → t ≠ endTok)
    (us : List String) (hus : ∀ u ∈ us, ∃ o, ParsesBack u o)
    (cur : Token) (tail : List Char) (es : List String) (ns : NodeHeap) :
    ∃ (roots : List NodePtr) (ns1 : NodeHeap),
      ns.length ≤ ns1.length ∧ SameNodes 0 ns.length ns ns1
      ∧ List.Forall₂ (fun x u => PrintsIn ns1 ns.length ns1.length x u) roots us
      ∧ Returns (fun n => parseExpressionList n endTok
          (parserAt cur ((joinComma us).data ++ closing :: tail) es ns))
          (roots, parserAt { type := endTok, literal := lit } tail es ns1) := by
  cases us with
  | nil =>
    refine ⟨[], ns, le_refl _, SameNodes.same_refl _ _ _, List.Forall₂.nil, ?_⟩
    have hd : (joinComma []).data ++ closing :: tail = closing :: tail := rfl
    rw [hd]
    have r := @returns_list_empty (parserAt cur (closing :: tail) es ns) endTok
      (by rw [parserAt_peekToken es ns (hlex tail)])
    rw [parserAt_nextToken es ns (hlex tail)] at r
    exact r
  | cons u us =>
    obtain ⟨o, hd, tl, lex, _, kind, parse⟩ := hus u (List.mem_cons_self _ _)
    have hstopw : ∀ cur es ns, (parserAt cur (closing :: tail) es ns).peekToken.type
        = .SEMICOLON
        ∨ precedences (parserAt cur (closing :: tail) es ns).peekToken.type = none := by
      intro cur es ns
      right
      rw [parserAt_peekToken es ns (hlex tail)]
      exact hprec
    have hncw : ∀ cur es ns, (parserAt cur (closing :: tail) es ns).peekToken.type
        ≠ .COMMA := by
      intro cur es ns
      rw [parserAt_peekToken es ns (hlex tail)]
      exact hcomma
    have hsep1 : separated (commaRest us ++ closing :: tail) := by
      cases us with
      | nil => exact hsep tail
      | cons v vs => exact sep_comma _
    have hstop1 : ∀ cur es ns,
        (parserAt cur (commaRest us ++ closing :: tail) es ns).peekToken.type = .SEMICOLON
        ∨ precedences (parserAt cur (commaRest us ++ closing :: tail) es ns).peekToken.type
          = none := by
      cases us with
      | nil => exact hstopw
      | cons v vs => exact fun cur es ns => peek_stop_comma cur _ es ns
    obtain ⟨lastu, rootu, nsu, hlenu, hsameu, hprintu, hcpsu⟩ :=
      parse .LOWEST (commaRest us ++ closing :: tail) es ns (by decide) hsep1
    obtain ⟨roots, last1, ns1, hlen1, hsame1, hprint1, hret1⟩ :=
      parsesBack_listLoop (closing :: tail) (hsep tail) hstopw hncw us
        (fun v hv => hus v (List.mem_cons_of_mem _ hv)) [some rootu] lastu es nsu
    have htext : (joinComma (u :: us)).data ++ closing :: tail
        = u.data ++ (commaRest us ++ closing :: tail) := by
      rw [joinComma_data, List.append_assoc]
    refine ⟨some rootu :: roots, ns1, le_trans hlenu hlen1,
      hsameu.same_trans (hsame1.narrow (le_refl _) hlenu), ?_, ?_⟩
    · refine List.Forall₂.cons (hprintu.onward ?_ (le_refl _) hlen1) ?_
      · exact hsame1.narrow (Nat.zero_le _) (le_refl _)
      · exact hprint1.imp (fun _ _ hp => hp.onward (SameNodes.same_refl _ _ _) hlenu (le_refl _))
    · rw [htext]
      have hlexu := lex _ hsep1
      have e1 : (parserAt cur (u.data ++ (commaRest us ++ closing :: tail)) es ns).nextToken
          = parserAt hd (tl ++ (commaRest us ++ closing :: tail)) es ns :=
        parserAt_nextToken es ns hlexu
      have hpk : (parserAt cur (u.data ++ (commaRest us ++ closing :: tail)) es ns).peekToken
          = hd := parserAt_peekToken es ns hlexu
      have r1 := hcpsu _ (returns_loop_stop .LOWEST (some rootu) _ (hstop1 lastu es nsu))
      have r2 : Returns (fun n => parseExpression n .LOWEST
          (parserAt cur (u.data ++ (commaRest us ++ closing :: tail)) es ns).nextToken)
          (some rootu, parserAt lastu (commaRest us ++ closing :: tail) es nsu) := by
        rw [e1]
        exact r1
      exact returns_list (by rw [hpk]; exact hkind _ _ kind) r2 hret1
        (parserAt_expectPeek es ns1 (hlex tail))

theorem headKind_not_rparen (t : TokenType) (o : Bool) (h : headKind t o) : t ≠ .RPAREN := by
  rcases h with (h | h | h | h | h) | ⟨_, h | h⟩ <;> rw [h] <;> decide

theorem headKind_not_rbracket (t : TokenType) (o : Bool) (h : headKind t o) :
    t ≠ .RBRACKET := by
  rcases h with (h | h | h | h | h) | ⟨_, h | h⟩ <;> rw [h] <;> decide

/-- A call parses back when the called expression and the arguments do. -/
theorem parsesBack_call (uf : String) (us : List String) (o : Bool)
    (hf : ParsesBack uf o) (hus : ∀ u ∈ us, ∃ o1, ParsesBack u o1) :
    ParsesBack (uf ++ "(" ++ joinComma us ++ ")") o := by
  obtain ⟨hd, tl, lexf, ⟨c0, cs, hc0, hne⟩, kind, parsef⟩ := hf
  have hdata : ∀ tail : List Char, (uf ++ "(" ++ joinComma us ++ ")").data ++ tail
      = uf.data ++ '(' :: ((joinComma us).data ++ ')' :: tail) := by
    intro tail
    simp only [String.data_append, List.append_assoc]
    rfl
  refine ⟨hd, tl ++ '(' :: ((joinComma us).data ++ [')']), ?_,
    ⟨c0, cs ++ '(' :: ((joinComma us).data ++ [')']), ?_, hne⟩, kind, ?_⟩
  · intro tail _
    rw [hdata]
    simp only [List.append_assoc, List.cons_append, List.nil_append]
    exact lexf _ (sep_lparen _)
  · have := hdata []
    simp only [List.append_nil] at this
    rw [this, hc0]
    rfl
  · intro q tail es ns hq _
    obtain ⟨lastf, rootf, nsf, hlenf, hsamef, hprintf, hcpsf⟩ :=
      parsef q ('(' :: ((joinComma us).data ++ ')' :: tail)) es ns hq (sep_lparen _)
    obtain ⟨roots, ns1, hlen1, hsame1, hprint1, hret1⟩ :=
      parsesBack_list .RPAREN ')' ")" (fun rest => (lex_punctuation rest).2.1) sep_rparen rfl
        (by decide) headKind_not_rparen us hus { type := .LPAREN, literal := "(" } tail es
        (nsf ++ [.CallExpression { type := .LPAREN, literal := "(" } (some rootf) []])
    have hl0 : (nsf ++ [Node.CallExpression { type := .LPAREN, literal := "(" } (some rootf)
        []]).length = nsf.length + 1 := by simp
    rw [hl0] at hlen1 hsame1 hprint1
    refine ⟨{ type := .RPAREN, literal := ")" }, nsf.length,
      ns1.set nsf.length (.CallExpression { type := .LPAREN, literal := "(" } (some rootf)
        roots), ?_, ?_, ?_, ?_⟩
    · rw [List.length_set]; omega
    · exact ((hsamef.same_trans ((sameNodes_append_one nsf _).narrow (le_refl _) hlenf)).same_trans
        (hsame1.narrow (le_refl _) (by omega))).same_trans
        (SameNodes.of_set 0 ns.length ns1 nsf.length _ (Or.inr hlenf))
    · refine printsIn_call hlenf (by rw [List.length_set]; omega)
        (list_get_set_self ns1 nsf.length _ (by omega)) ?_ ?_
      · refine hprintf.onward ?_ (le_refl _) (by rw [List.length_set]; omega)
        exact ((SameNodes.of_append _ _ nsf _ (le_refl _)).same_trans
          (hsame1.narrow (Nat.zero_le _) (by omega))).same_trans
          (SameNodes.of_set _ _ ns1 nsf.length _ (Or.inr (le_refl _)))
      · exact hprint1.imp (fun _ _ hp =>
          hp.onward (SameNodes.of_set _ _ ns1 nsf.length _ (Or.inl (by omega)))
            (by omega) (by rw [List.length_set]))
    · intro result hk
      have hpeek : (Lexer.new ('(' :: ((joinComma us).data ++ ')' :: tail))).nextToken
          = ({ type := .LPAREN, literal := "(" }, Lexer.new ((joinComma us).data ++ ')' :: tail)) :=
        (lex_punctuation _).1
      have e2 : (parserAt lastf ('(' :: ((joinComma us).data ++ ')' :: tail)) es nsf).nextToken
          = parserAt { type := .LPAREN, literal := "(" } ((joinComma us).data ++ ')' :: tail) es
            nsf := parserAt_nextToken es nsf hpeek
      have hpk : (parserAt lastf ('(' :: ((joinComma us).data ++ ')' :: tail)) es nsf).peekToken
          = { type := .LPAREN, literal := "(" } := parserAt_peekToken es nsf hpeek
      have r2 : Returns (fun n => parseCallExpression n (some rootf)
          (parserAt lastf ('(' :: ((joinComma us).data ++ ')' :: tail)) es nsf).nextToken)
          (some nsf.length, parserAt { type := .RPAREN, literal := ")" } tail es
            (ns1.set nsf.length (.CallExpression { type := .LPAREN, literal := "(" }
              (some rootf) roots))) := by
        rw [e2]
        exact @returns_call (parserAt { type := .LPAREN, literal := "(" }
          ((joinComma us).data ++ ')' :: tail) es nsf)
          (parserAt { type := .RPAREN, literal := ")" } tail es ns1) (some rootf) roots hret1
      have r3 := @returns_loop_call q _ _ _ _ _ (by rw [hpk]) hq r2 hk
      have r4 := hcpsf _ r3
      have e0 : tl ++ '(' :: ((joinComma us).data ++ [')']) ++ tail
          = tl ++ '(' :: ((joinComma us).data ++ ')' :: tail) := by
        simp only [List.append_assoc, List.cons_append, List.nil_append]
      rw [e0]
      exact r4

/-- An array literal parses back when its elements do. -/
theorem parsesBack_array (us : List String) (hus : ∀ u ∈ us, ∃ o1, ParsesBack u o1) :
    ParsesBack ("[" ++ joinComma us ++ "]") true := by
  have hdata : ∀ tail : List Char, ("[" ++ joinComma us ++ "]").data ++ tail
      = '[' :: ((joinComma us).data ++ ']' :: tail) := by
    intro tail
    simp only [String.data_append, List.append_assoc]
    rfl
  refine ⟨{ type := .LBRACKET, literal := "[" }, (joinComma us).data ++ [']'], ?_,
    ⟨'[', (joinComma us).data ++ [']'], ?_, by decide⟩, Or.inr ⟨rfl, Or.inr rfl⟩, ?_⟩
  · intro tail _
    rw [hdata]
    simp only [List.append_assoc, List.cons_append, List.nil_append]
    exact (lex_punctuation _).2.2.1
  · have := hdata []
    simp only [List.append_nil] at this
    rw [this]
  · intro q tail es ns _ _
    obtain ⟨roots, ns1, hlen1, hsame1, hprint1, hret1⟩ :=
      parsesBack_list .RBRACKET ']' "]" (fun rest => (lex_punctuation rest).2.2.2.1)
        sep_rbracket rfl (by decide) headKind_not_rbracket us hus
        { type := .LBRACKET, literal := "[" } tail es
        (ns ++ [.ArrayLiteral { type := .LBRACKET, literal := "[" } []])
    have hl0 : (ns ++ [Node.ArrayLiteral { type := .LBRACKET, literal := "[" } []]).length
        = ns.length + 1 := by simp
    rw [hl0] at hlen1 hsame1 hprint1
    refine ⟨{ type := .RBRACKET, literal := "]" }, ns.length,
      ns1.set ns.length (.ArrayLiteral { type := .LBRACKET, literal := "[" } roots),
      ?_, ?_, ?_, ?_⟩
    · rw [List.length_set]; omega
    · exact ((sameNodes_append_one ns _).same_trans
        (hsame1.narrow (le_refl _) (by omega))).same_trans
        (SameNodes.of_set 0 ns.length ns1 ns.length _ (Or.inr (le_refl _)))
    · refine printsIn_array (le_refl _) (by rw [List.length_set]; omega)
        (list_get_set_self ns1 ns.length _ (by omega)) ?_
      exact hprint1.imp (fun _ _ hp =>
          hp.onward (SameNodes.of_set _ _ ns1 ns.length _ (Or.inl (by omega)))
            (by omega) (by rw [List.length_set]))
    · intro result hk
      have e0 : (joinComma us).data ++ [']'] ++ tail = (joinComma us).data ++ ']' :: tail := by
        simp only [List.append_assoc, List.cons_append, List.nil_append]
      rw [e0]
      have r2 : Returns (fun n => parseArrayLiteral n
          (parserAt { type := .LBRACKET, literal := "[" } ((joinComma us).data ++ ']' :: tail)
            es ns))
          (some ns.length, parserAt { type := .RBRACKET, literal := "]" } tail es
            (ns1.set ns.length (.ArrayLiteral { type := .LBRACKET, literal := "[" } roots))) :=
        @returns_array (parserAt { type := .LBRACKET, literal := "[" }
          ((joinComma us).data ++ ']' :: tail) es ns)
          (parserAt { type := .RBRACKET, literal := "]" } tail es ns1) roots hret1
      exact returns_expression_array rfl r2 hk

/-- Lexing of the braces and the colon of a hash literal. -/
theorem lex_braces (rest : List Char) :
    (Lexer.new ('\x7b' :: rest)).nextToken
        = ({ type := .LBRACE, literal := "\x7b" }, Lexer.new rest)
    ∧ (Lexer.new ('\x7d' :: rest)).nextToken
        = ({ type := .RBRACE, literal := "\x7d" }, Lexer.new rest)
    ∧ (Lexer.new (':' :: rest)).nextToken
        = ({ type := .COLON, literal := ":" }, Lexer.new rest) := by
  cases rest <;> exact ⟨rfl, rfl, rfl⟩

theorem returns_expression_hash {q : prec} {p p1 : Parser} {l : NodePtr}
    {r : NodePtr × Parser} (ht : p.curToken.type = .LBRACE)
    (h1 : Returns (fun n => parseHashLiteral n p) (l, p1))
    (h2 : Returns (fun n => parseExpressionLoop n q l p1) r) :
    Returns (fun n => parseExpression n q p) r := by
  refine Returns.after h1 (fun n hn => ?_) h2
  rw [parseExpression_unfold]
  simp only [ht, prefixParseFns, hn, Res.ok_bind]

theorem returns_hash {p : Parser} {r : NodePtr × Parser}
    (h : Returns (fun n => parseHashLiteralLoop n p.curToken p.nodes.length []
      (p.make (.HashLiteral p.curToken [])).2) r) :
    Returns (fun n => parseHashLiteral n p) r :=
  Returns.step (fun n => parseHashLiteral_unfold n p) h

theorem returns_hashLoop_close {p p1 : Parser} (tok : Token) (hash : Nat)
    (pairs : List (NodePtr × NodePtr)) (h : p.peekToken.type = .RBRACE)
    (he : p.expectPeek .RBRACE = (true, p1)) :
    Returns (fun n => parseHashLiteralLoop n tok hash pairs p) (some hash, p1) := by
  refine Returns.step (fun n => parseHashLiteralLoop_unfold n tok hash pairs p)
    (Returns.congr ?_ (Returns.of_ok _))
  intro n
  simp only [Parser.peekTokenIs, h, decide_True, Bool.true_eq_false, ↓reduceIte, he]

theorem returns_hashLoop_pair {p pk pc pv : Parser} {tok : Token} {hash : Nat}
    {pairs : List (NodePtr × NodePtr)} {key value : NodePtr} {r : NodePtr × Parser}
    (h : p.peekToken.type ≠ .RBRACE)
    (h1 : Returns (fun n => parseExpression n .LOWEST p.nextToken) (key, pk))
    (h2 : pk.expectPeek .COLON = (true, pc))
    (h3 : Returns (fun n => parseExpression n .LOWEST pc.nextToken) (value, pv))
    (h4 : (pv.setNode hash (.HashLiteral tok (ptrMapAssign key value pairs))).peekToken.type
      = .RBRACE)
    (h5 : Returns (fun n => parseHashLiteralLoop n tok hash (ptrMapAssign key value pairs)
      (pv.setNode hash (.HashLiteral tok (ptrMapAssign key value pairs)))) r) :
    Returns (fun n => parseHashLiteralLoop n tok hash pairs p) r := by
  obtain ⟨k1, e1⟩ := h1
  obtain ⟨k3, e3⟩ := h3
  obtain ⟨k5, e5⟩ := h5
  refine ⟨max k1 (max k3 k5) + 1, fun fuel hfuel => ?_⟩
  obtain ⟨n, rfl⟩ : ∃ n, fuel = n + 1 := ⟨fuel - 1, by omega⟩
  have a1 := e1 n (by have := le_max_left k1 (max k3 k5); omega)
  have a3 := e3 n (by
    have := le_max_right k1 (max k3 k5); have := le_max_left k3 k5; omega)
  have a5 := e5 n (by
    have := le_max_right k1 (max k3 k5); have := le_max_right k3 k5; omega)
  simp only at a1 a3 a5
  show parseHashLiteralLoop (n + 1) tok hash pairs p = _
  rw [parseHashLiteralLoop_unfold]
  simp only [Parser.peekTokenIs, h, decide_False, ↓reduceIte, a1, Res.ok_bind, h2,
    Bool.true_eq_false, a3, h4, decide_True, a5]

theorem printsIn_hashEmpty {h : NodeHeap} {lo hi a : Nat} {tok : Token} (ha : lo ≤ a)
    (hb : a < hi) (hg : h.get? a = some (.HashLiteral tok [])) :
    PrintsIn h lo hi (some a) ("\x7b" ++ joinComma [] ++ "\x7d") := by
  intro h1 hs
  refine Returns.step (fun n => ?_) (Returns.of_ok _)
  rw [nodeString, printsIn_get ha hb hg hs]
  rfl

theorem printsIn_hashPair {h : NodeHeap} {lo hi a : Nat} {tok : Token} {k v : NodePtr}
    {uk uv : String} (ha : lo ≤ a) (hb : a < hi)
    (hg : h.get? a = some (.HashLiteral tok [(k, v)]))
    (hk : PrintsIn h lo hi k uk) (hv : PrintsIn h lo hi v uv) :
    PrintsIn h lo hi (some a) ("\x7b" ++ joinComma [uk ++ ": " ++ uv] ++ "\x7d") := by
  intro h1 hs
  obtain ⟨k1, e1⟩ := hk h1 hs
  obtain ⟨k2, e2⟩ := hv h1 hs
  refine ⟨max k1 k2 + 1, fun fuel hfuel => ?_⟩
  obtain ⟨n, rfl⟩ : ∃ n, fuel = n + 1 := ⟨fuel - 1, by omega⟩
  have a1 := e1 n (by have := le_max_left k1 k2; omega)
  have a2 := e2 n (by have := le_max_right k1 k2; omega)
  simp only at a1 a2
  show nodeString (n + 1) h1 (some a) = _
  rw [nodeString, printsIn_get ha hb hg hs]
  simp only [mapRes, a1, a2, Res.ok_bind, Res.pure_eq]

theorem sep_colon (tail : List Char) : separated (':' :: tail) :=
  separated_cons _ _ (by decide) (by decide)

theorem sep_rbrace (tail : List Char) : separated ('\x7d' :: tail) :=
  separated_cons _ _ (by decide) (by decide)

theorem peek_stop_colon (cur : Token) (tail : List Char) (es : List String) (ns : NodeHeap) :
    (parserAt cur (':' :: tail) es ns).peekToken.type = .SEMICOLON
      ∨ precedences (parserAt cur (':' :: tail) es ns).peekToken.type = none := by
  right
  rw [parserAt_peekToken es ns (lex_braces tail).2.2]
  rfl

theorem peek_stop_rbrace (cur : Token) (tail : List Char) (es : List String) (ns : NodeHeap) :
    (parserAt cur ('\x7d' :: tail) es ns).peekToken.type = .SEMICOLON
      ∨ precedences (parserAt cur ('\x7d' :: tail) es ns).peekToken.type = none := by
  right
  rw [parserAt_peekToken es ns (lex_braces tail).2.1]
  rfl

theorem headKind_not_rbrace (t : TokenType) (o : Bool) (h : headKind t o) : t ≠ .RBRACE := by
  rcases h with (h | h | h | h | h) | ⟨_, h | h⟩ <;> rw [h] <;> decide

/-- The empty hash literal parses back. -/
theorem parsesBack_hashEmpty : ParsesBack ("\x7b" ++ joinComma [] ++ "\x7d") false := by
  refine ⟨{ type := .LBRACE, literal := "\x7b" }, ['\x7d'], ?_, ⟨'\x7b', ['\x7d'], rfl, by decide⟩,
    Or.inl (Or.inr (Or.inr (Or.inr (Or.inr rfl)))), ?_⟩
  · intro tail _
    exact (lex_braces _).1
  · intro q tail es ns _ _
    refine ⟨{ type := .RBRACE, literal := "\x7d" }, ns.length,
      ns ++ [.HashLiteral { type := .LBRACE, literal := "\x7b" } []], by simp,
      sameNodes_append_one ns _, ?_, ?_⟩
    · exact printsIn_hashEmpty (le_refl _) (by simp) (list_get_append_self ns _)
    · intro result hk
      have hclose : (Lexer.new ('\x7d' :: tail)).nextToken
          = ({ type := .RBRACE, literal := "\x7d" }, Lexer.new tail) := (lex_braces tail).2.1
      have r1 : Returns (fun n => parseHashLiteralLoop n { type := .LBRACE, literal := "\x7b" }
          ns.length [] (parserAt { type := .LBRACE, literal := "\x7b" } ('\x7d' :: tail) es
            (ns ++ [.HashLiteral { type := .LBRACE, literal := "\x7b" } []])))
          (some ns.length, parserAt { type := .RBRACE, literal := "\x7d" } tail es
            (ns ++ [.HashLiteral { type := .LBRACE, literal := "\x7b" } []])) :=
        returns_hashLoop_close _ _ _ (by rw [parserAt_peekToken es _ hclose])
          (parserAt_expectPeek es _ hclose)
      exact returns_expression_hash rfl
        (@returns_hash (parserAt { type := .LBRACE, literal := "\x7b" } ('\x7d' :: tail) es ns)
          _ r1) hk

/-- A hash literal with one pair parses back when its key and its value do. -/
theorem parsesBack_hashPair (uk uv : String) (o1 o2 : Bool)
    (hk : ParsesBack uk o1) (hv : ParsesBack uv o2) :
    ParsesBack ("\x7b" ++ joinComma [uk ++ ": " ++ uv] ++ "\x7d") false := by
  obtain ⟨hdk, tlk, lexk, _, kindk, parsek⟩ := hk
  obtain ⟨hdv, tlv, lexv, _, _, parsev⟩ := hv
  have hdata : ∀ tail : List Char,
      ("\x7b" ++ joinComma [uk ++ ": " ++ uv] ++ "\x7d").data ++ tail
      = '\x7b' :: (uk.data ++ ':' :: ' ' :: (uv.data ++ '\x7d' :: tail)) := by
    intro tail
    simp only [joinComma, String.data_append, List.append_assoc]
    rfl
  refine ⟨{ type := .LBRACE, literal := "\x7b" },
    uk.data ++ ':' :: ' ' :: (uv.data ++ ['\x7d']), ?_,
    ⟨'\x7b', uk.data ++ ':' :: ' ' :: (uv.data ++ ['\x7d']), ?_, by decide⟩,
    Or.inl (Or.inr (Or.inr (Or.inr (Or.inr rfl)))), ?_⟩
  · intro tail _
    rw [hdata]
    simp only [List.append_assoc, List.cons_append, List.nil_append]
    exact (lex_braces _).1
  · have := hdata []
    simp only [List.append_nil] at this
    rw [this]
  · intro q tail es ns _ _
    obtain ⟨lastk, rootk, nsk, hlenk, hsamek, hprintk, hcpsk⟩ :=
      parsek .LOWEST (':' :: ' ' :: (uv.data ++ '\x7d' :: tail)) es
        (ns ++ [.HashLiteral { type := .LBRACE, literal := "\x7b" } []]) (by decide)
        (sep_colon _)
    obtain ⟨lastv, rootv, nsv, hlenv, hsamev, hprintv, hcpsv⟩ :=
      parsev .LOWEST ('\x7d' :: tail) es nsk (by decide) (sep_rbrace _)
    have hl0 : (ns ++ [Node.HashLiteral { type := .LBRACE, literal := "\x7b" } []]).length
        = ns.length + 1 := by simp
    rw [hl0] at hlenk hsamek hprintk
    have hset : ∀ lo hi, (ns.length < lo ∨ hi ≤ ns.length) → SameNodes lo hi nsv
        (nsv.set ns.length (.HashLiteral { type := .LBRACE, literal := "\x7b" }
          [(some rootk, some rootv)])) :=
      fun lo hi h => SameNodes.of_set lo hi nsv ns.length _ h
    refine ⟨{ type := .RBRACE, literal := "\x7d" }, ns.length,
      nsv.set ns.length (.HashLiteral { type := .LBRACE, literal := "\x7b" }
        [(some rootk, some rootv)]), ?_, ?_, ?_, ?_⟩
    · rw [List.length_set]; omega
    · exact (((sameNodes_append_one ns _).same_trans
        (hsamek.narrow (le_refl _) (by omega))).same_trans
        (hsamev.narrow (le_refl _) (by omega))).same_trans (hset 0 ns.length (Or.inr (le_refl _)))
    · refine printsIn_hashPair (le_refl _) (by rw [List.length_set]; omega)
        (list_get_set_self nsv ns.length _ (by omega)) ?_ ?_
      · refine hprintk.onward ?_ (by omega) (by rw [List.length_set]; omega)
        exact (hsamev.narrow (Nat.zero_le _) (le_refl _)).same_trans
          (hset _ _ (Or.inl (by omega)))
      · exact hprintv.onward (hset _ _ (Or.inl (by omega))) (by omega)
          (by rw [List.length_set])
    · intro result hk
      have e0 : uk.data ++ ':' :: ' ' :: (uv.data ++ ['\x7d']) ++ tail
          = uk.data ++ ':' :: ' ' :: (uv.data ++ '\x7d' :: tail) := by
        simp only [List.append_assoc, List.cons_append, List.nil_append]
      rw [e0]
      have hlexk := lexk _ (sep_colon (' ' :: (uv.data ++ '\x7d' :: tail)))
      have hcolon : (Lexer.new (':' :: ' ' :: (uv.data ++ '\x7d' :: tail))).nextToken
          = ({ type := .COLON, literal := ":" }, Lexer.new (' ' :: (uv.data ++ '\x7d' :: tail))) :=
        (lex_braces _).2.2
      have hclose : (Lexer.new ('\x7d' :: tail)).nextToken
          = ({ type := .RBRACE, literal := "\x7d" }, Lexer.new tail) := (lex_braces tail).2.1
      have e1 : (parserAt { type := .LBRACE, literal := "\x7b" }
          (uk.data ++ ':' :: ' ' :: (uv.data ++ '\x7d' :: tail)) es
          (ns ++ [.HashLiteral { type := .LBRACE, literal := "\x7b" } []])).nextToken
          = parserAt hdk (tlk ++ ':' :: ' ' :: (uv.data ++ '\x7d' :: tail)) es
            (ns ++ [.HashLiteral { type := .LBRACE, literal := "\x7b" } []]) :=
        parserAt_nextToken es _ hlexk
      have e2 : (parserAt { type := .COLON, literal := ":" }
          (' ' :: (uv.data ++ '\x7d' :: tail)) es nsk).nextToken
          = parserAt hdv (tlv ++ '\x7d' :: tail) es nsk := by
        refine parserAt_nextToken es _ ?_
        rw [(lex_blank _).1]
        exact lexv _ (sep_rbrace _)
      have r1 := hcpsk _ (returns_loop_stop .LOWEST (some rootk) _
        (peek_stop_colon lastk _ es nsk))
      rw [← e1] at r1
      have r3 := hcpsv _ (returns_loop_stop .LOWEST (some rootv) _
        (peek_stop_rbrace lastv tail es nsv))
      rw [← e2] at r3
      have r5 : Returns (fun n => parseHashLiteralLoop n { type := .LBRACE, literal := "\x7b" }
          ns.length (ptrMapAssign (some rootk) (some rootv) [])
          ((parserAt lastv ('\x7d' :: tail) es nsv).setNode ns.length
            (.HashLiteral { type := .LBRACE, literal := "\x7b" }
              (ptrMapAssign (some rootk) (some rootv) []))))
          (some ns.length, parserAt { type := .RBRACE, literal := "\x7d" } tail es
            (nsv.set ns.length (.HashLiteral { type := .LBRACE, literal := "\x7b" }
              [(some rootk, some rootv)]))) :=
        returns_hashLoop_close _ _ _ (by rw [parserAt_setNode, parserAt_peekToken es _ hclose])
          (by rw [parserAt_setNode]; exact parserAt_expectPeek es _ hclose)
      have hpk : (parserAt { type := .LBRACE, literal := "\x7b" }
          (uk.data ++ ':' :: ' ' :: (uv.data ++ '\x7d' :: tail)) es
          (ns ++ [.HashLiteral { type := .LBRACE, literal := "\x7b" } []])).peekToken = hdk :=
        parserAt_peekToken es _ hlexk
      have r6 := @returns_hashLoop_pair _ _ _ _ { type := .LBRACE, literal := "\x7b" } ns.length
        [] (some rootk) (some rootv) _ (by rw [hpk]; exact headKind_not_rbrace _ _ kindk) r1
        (parserAt_expectPeek es nsk hcolon) r3
        (by rw [parserAt_setNode, parserAt_peekToken es _ hclose]) r5
      exact returns_expression_hash rfl
        (@returns_hash (parserAt { type := .LBRACE, literal := "\x7b" }
          (uk.data ++ ':' :: ' ' :: (uv.data ++ '\x7d' :: tail)) es ns) _ r6) hk

theorem printsIn_leaf_at {h : NodeHeap} {a : Nat} {node : Node} {u : String}
    (hg : h.get? a = some node)
    (hp : ∀ (n : Nat) (h1 : NodeHeap), derefNode h1 (some a) = .ok node →
      nodeString (n + 1) h1 (some a) = .ok u) :
    PrintsIn h 0 h.length (some a) u := by
  intro h1 hs
  have hb : a < h.length := by
    rw [List.get?_eq_getElem?] at hg
    exact (List.getElem?_eq_some_iff.mp hg).1
  exact Returns.step (fun n => hp n h1 (printsIn_get (Nat.zero_le _) hb hg hs)) (Returns.of_ok u)

theorem get_lt_length {h : NodeHeap} {a : Nat} {node : Node} (hg : h.get? a = some node) :
    a < h.length := by
  rw [List.get?_eq_getElem?] at hg
  exact (List.getElem?_eq_some_iff.mp hg).1

theorem plain_list (H : NodeHeap) (d : Nat)
    (ih : ∀ x, plainExpression H d x = true →
      ∃ u, PrintsIn H 0 H.length x u ∧ ParsesBack u (opensWithBracket H d x)) :
    ∀ xs : List NodePtr, xs.all (plainExpression H d) = true →
      ∃ us, List.Forall₂ (fun x u => PrintsIn H 0 H.length x u) xs us
        ∧ ∀ u ∈ us, ∃ o, ParsesBack u o := by
  intro xs
  induction xs with
  | nil => exact fun _ => ⟨[], List.Forall₂.nil, fun _ h => absurd h (List.not_mem_nil _)⟩
  | cons x xs ihx =>
    intro h
    rw [List.all_cons, Bool.and_eq_true] at h
    obtain ⟨u, hu, hpu⟩ := ih x h.1
    obtain ⟨us, hus, hpus⟩ := ihx h.2
    refine ⟨u :: us, List.Forall₂.cons hu hus, ?_⟩
    intro v hv
    rcases List.mem_cons.mp hv with rfl | hv
    · exact ⟨_, hpu⟩
    · exact hpus v hv

/-- Every expression of the class prints, and its text parses back. -/
theorem plain_parsesBack (H : NodeHeap) : ∀ (d : Nat) (x : NodePtr),
    plainExpression H d x = true →
      ∃ u, PrintsIn H 0 H.length x u ∧ ParsesBack u (opensWithBracket H d x) := by
  intro d
  induction d with
  | zero => intro x h; simp [plainExpression] at h
  | succ d ih =>
    intro x h
    cases x with
    | none => simp [plainExpression] at h
    | some a =>
      rw [plainExpression] at h
      rw [opensWithBracket]
      cases hg : H.get? a with
      | none => rw [hg] at h; simp at h
      | some node =>
        rw [hg] at h
        have hb := get_lt_length hg
        cases node with
        | Identifier tok value =>
          simp only at h
          refine ⟨value, printsIn_leaf_at hg (fun n h1 hd => ?_), parsesBack_identifier value h⟩
          rw [nodeString, hd]
          rfl
        | IntegerLiteral tok value =>
          simp only at h
          refine ⟨tok.literal, printsIn_leaf_at hg (fun n h1 hd => ?_),
            parsesBack_integer _ h⟩
          rw [nodeString, hd]
          rfl
        | Boolean tok value =>
          simp only [Bool.or_eq_true, decide_eq_true_eq] at h
          refine ⟨tok.literal, printsIn_leaf_at hg (fun n h1 hd => ?_),
            parsesBack_boolean _ h⟩
          rw [nodeString, hd]
          rfl
        | PrefixExpression tok op right =>
          simp only [Bool.and_eq_true, decide_eq_true_eq] at h
          obtain ⟨ur, hpr, hbr⟩ := ih right h.2
          exact ⟨_, printsIn_unary (Nat.zero_le _) hb hg hpr, parsesBack_unary op ur _ h.1 hbr⟩
        | InfixExpression tok left op right =>
          simp only [Bool.and_eq_true, decide_eq_true_eq] at h
          obtain ⟨ul, hpl, hbl⟩ := ih left h.1.2
          obtain ⟨ur, hpr, hbr⟩ := ih right h.2
          exact ⟨_, printsIn_binary (Nat.zero_le _) hb hg hpl hpr,
            parsesBack_binary op ul ur _ _ h.1.1 hbl hbr⟩
        | IndexExpression tok left index =>
          simp only [Bool.and_eq_true] at h
          obtain ⟨ul, hpl, hbl⟩ := ih left h.1
          obtain ⟨ui, hpi, hbi⟩ := ih index h.2
          exact ⟨_, printsIn_index (Nat.zero_le _) hb hg hpl hpi,
            parsesBack_index ul ui _ _ hbl hbi⟩
        | CallExpression tok function arguments =>
          simp only [Bool.and_eq_true] at h
          obtain ⟨uf, hpf, hbf⟩ := ih function h.1
          obtain ⟨us, hpus, hbus⟩ := plain_list H d ih arguments h.2
          exact ⟨_, printsIn_call (Nat.zero_le _) hb hg hpf hpus,
            parsesBack_call uf us _ hbf hbus⟩
        | ArrayLiteral tok elements =>
          simp only at h
          obtain ⟨us, hpus, hbus⟩ := plain_list H d ih elements h
          exact ⟨_, printsIn_array (Nat.zero_le _) hb hg hpus, parsesBack_array us hbus⟩
        | HashLiteral tok pairs =>
          cases pairs with
          | nil => exact ⟨_, printsIn_hashEmpty (Nat.zero_le _) hb hg, parsesBack_hashEmpty⟩
          | cons kv rest =>
            obtain ⟨k, v⟩ := kv
            cases rest with
            | nil =>
              simp only [Bool.and_eq_true] at h
              obtain ⟨uk, hpk, hbk⟩ := ih k h.1
              obtain ⟨uv, hpv, hbv⟩ := ih v h.2
              exact ⟨_, printsIn_hashPair (Nat.zero_le _) hb hg hpk hpv,
                parsesBack_hashPair uk uv _ _ hbk hbv⟩
            | cons kv2 rest2 => simp at h
        | _ => simp at h

theorem printsIn_expressionStatement {h : NodeHeap} {lo hi a : Nat} {tok : Token} {u : String}
    {e : Nat} (ha : lo ≤ a) (hb : a < hi)
    (hg : h.get? a = some (.ExpressionStatement tok (some e)))
    (he : PrintsIn h lo hi (some e) u) : PrintsIn h lo hi (some a) u := by
  intro h1 hs
  refine Returns.after (he h1 hs) (fun n hn => ?_) (Returns.of_ok _)
  rw [nodeString, printsIn_get ha hb hg hs]
  simp only [hn]

theorem printsIn_returnStatement {h : NodeHeap} {lo hi a : Nat} {tok : Token} {u : String}
    {e : Nat} (ha : lo ≤ a) (hb : a < hi)
    (hg : h.get? a = some (.ReturnStatement tok (some e)))
    (he : PrintsIn h lo hi (some e) u) :
    PrintsIn h lo hi (some a) (tok.literal ++ " " ++ u ++ ";") := by
  intro h1 hs
  refine Returns.after (he h1 hs) (fun n hn => ?_) (Returns.of_ok _)
  rw [nodeString, printsIn_get ha hb hg hs]
  simp only [hn, Res.ok_bind, Res.pure_eq]

theorem printsIn_letStatement {h : NodeHeap} {lo hi a : Nat} {tok : Token} {un u : String}
    {b e : Nat} (ha : lo ≤ a) (hb : a < hi)
    (hg : h.get? a = some (.LetStatement tok (some b) (some e)))
    (hn : PrintsIn h lo hi (some b) un) (he : PrintsIn h lo hi (some e) u) :
    PrintsIn h lo hi (some a) (tok.literal ++ " " ++ un ++ " = " ++ u ++ ";") := by
  intro h1 hs
  obtain ⟨k1, e1⟩ := hn h1 hs
  obtain ⟨k2, e2⟩ := he h1 hs
  refine ⟨max k1 k2 + 1, fun fuel hfuel => ?_⟩
  obtain ⟨n, rfl⟩ : ∃ n, fuel = n + 1 := ⟨fuel - 1, by omega⟩
  have a1 := e1 n (by omega)
  have a2 := e2 n (by omega)
  simp only at a1 a2
  show nodeString (n + 1) h1 (some a) = _
  rw [nodeString, printsIn_get ha hb hg hs]
  simp only [a1, a2, Res.ok_bind, Res.pure_eq]

theorem headKind_statement {t : TokenType} {o : Bool} (h : headKind t o) :
    t ≠ .LET ∧ t ≠ .RETURN ∧ t ≠ .EOF
      ∧ (o = false → t ≠ .SEMICOLON ∧ precedences t = none) := by
  rcases h with (h | h | h | h | h) | ⟨ho, h | h⟩ <;> rw [h] <;>
    first
    | exact ⟨by decide, by decide, by decide, fun _ => ⟨by decide, rfl⟩⟩
    | exact ⟨by decide, by decide, by decide, fun hf => by rw [ho] at hf; cases hf⟩

/-- An expression statement parses back when its expression does. -/
theorem parsesBack_expressionStatement (u : String) (o : Bool) (hu : ParsesBack u o) :
    StatementParsesBack u true o := by
  obtain ⟨hd, tl, lex, _, kind, parse⟩ := hu
  obtain ⟨k1, k2, k3, k4⟩ := headKind_statement kind
  refine ⟨hd, tl, lex, k3, k4, ?_⟩
  intro tail es ns hsep hfree
  obtain ⟨hf1, hf2⟩ := hfree rfl
  obtain ⟨last, root, ns1, hlen, hsame, hprint, hcps⟩ :=
    parse .LOWEST tail es (ns ++ [.ExpressionStatement hd none]) (by decide) hsep
  have hl0 : (ns ++ [Node.ExpressionStatement hd none]).length = ns.length + 1 := by simp
  rw [hl0] at hlen hsame hprint
  refine ⟨last, ns.length, ns1.set ns.length (.ExpressionStatement hd (some root)),
    ?_, ?_, ?_, ?_⟩
  · rw [List.length_set]; omega
  · exact ((sameNodes_append_one ns _).same_trans
      (hsame.narrow (le_refl _) (by omega))).same_trans
      (SameNodes.of_set 0 ns.length ns1 ns.length _ (Or.inr (le_refl _)))
  · refine printsIn_expressionStatement (le_refl _) (by rw [List.length_set]; omega)
      (list_get_set_self ns1 ns.length _ (by omega)) ?_
    exact hprint.onward (SameNodes.of_set _ _ ns1 ns.length _ (Or.inl (by omega)))
      (by omega) (by rw [List.length_set])
  · have r1 := hcps _ (returns_loop_stop .LOWEST (some root) (parserAt last tail es ns1)
      (Or.inr hf2))
    exact returns_statement_expression k1 k2
      (@returns_expressionStatement (parserAt hd (tl ++ tail) es ns) (parserAt last tail es ns1)
        (some root) r1 hf1)

/-- A return statement parses back when its expression does. -/
theorem parsesBack_returnStatement (u : String) (o : Bool) (hu : ParsesBack u o) :
    StatementParsesBack ("return" ++ " " ++ u ++ ";") false false := by
  obtain ⟨hd, tl, lex, _, _, parse⟩ := hu
  have hdata : ∀ tail : List Char, ("return" ++ " " ++ u ++ ";").data ++ tail
      = "return".data ++ ' ' :: (u.data ++ ';' :: tail) := by
    intro tail
    simp only [String.data_append, List.append_assoc]
    rfl
  refine ⟨{ type := .RETURN, literal := "return" }, ' ' :: (u.data ++ [';']), ?_, by decide,
    fun _ => ⟨by decide, rfl⟩, ?_⟩
  · intro tail _
    rw [hdata]
    simp only [List.append_assoc, List.cons_append, List.nil_append]
    exact (lex_keyword _ (sep_blank _)).2.1
  · intro tail es ns _ _
    obtain ⟨last, root, ns1, hlen, hsame, hprint, hcps⟩ :=
      parse .LOWEST (';' :: tail) es
        (ns ++ [.ReturnStatement { type := .RETURN, literal := "return" } none]) (by decide)
        (sep_semicolon _)
    have hl0 : (ns ++ [Node.ReturnStatement { type := .RETURN, literal := "return" }
        none]).length = ns.length + 1 := by simp
    rw [hl0] at hlen hsame hprint
    refine ⟨{ type := .SEMICOLON, literal := ";" }, ns.length,
      ns1.set ns.length (.ReturnStatement { type := .RETURN, literal := "return" } (some root)),
      ?_, ?_, ?_, ?_⟩
    · rw [List.length_set]; omega
    · exact ((sameNodes_append_one ns _).same_trans
        (hsame.narrow (le_refl _) (by omega))).same_trans
        (SameNodes.of_set 0 ns.length ns1 ns.length _ (Or.inr (le_refl _)))
    · refine @printsIn_returnStatement _ _ _ _ { type := .RETURN, literal := "return" } _ _
        (le_refl _) (by rw [List.length_set]; omega)
        (list_get_set_self ns1 ns.length _ (by omega)) ?_
      exact hprint.onward (SameNodes.of_set _ _ ns1 ns.length _ (Or.inl (by omega)))
        (by omega) (by rw [List.length_set])
    · have e0 : ' ' :: (u.data ++ [';']) ++ tail = ' ' :: (u.data ++ ';' :: tail) := by
        simp only [List.append_assoc, List.cons_append, List.nil_append]
      rw [e0]
      have e1 : (parserAt { type := .RETURN, literal := "return" }
          (' ' :: (u.data ++ ';' :: tail)) es
          (ns ++ [.ReturnStatement { type := .RETURN, literal := "return" } none])).nextToken
          = parserAt hd (tl ++ ';' :: tail) es
            (ns ++ [.ReturnStatement { type := .RETURN, literal := "return" } none]) := by
        refine parserAt_nextToken es _ ?_
        rw [(lex_blank _).1]
        exact lex _ (sep_semicolon _)
      have r1 := hcps _ (returns_loop_stop .LOWEST (some root) _
        (peek_stop_semicolon last tail es ns1))
      rw [← e1] at r1
      have hsemi : (Lexer.new (';' :: tail)).nextToken
          = ({ type := .SEMICOLON, literal := ";" }, Lexer.new tail) :=
        (lex_punctuation tail).2.2.2.2.2.1
      have r2 := @returns_returnStatement (parserAt { type := .RETURN, literal := "return" }
          (' ' :: (u.data ++ ';' :: tail)) es ns) (parserAt last (';' :: tail) es ns1)
          (some root) r1 (by
            rw [parserAt_setNode, parserAt_peekToken es _ hsemi])
      rw [parserAt_setNode, parserAt_nextToken es _ hsemi] at r2
      exact returns_statement_return rfl r2

theorem printsIn_of_get {h : NodeHeap} {lo hi a : Nat} {node : Node} {u : String}
    (ha : lo ≤ a) (hb : a < hi) (hg : h.get? a = some node)
    (hp : ∀ (n : Nat) (h1 : NodeHeap), derefNode h1 (some a) = .ok node →
      nodeString (n + 1) h1 (some a) = .ok u) :
    PrintsIn h lo hi (some a) u :=
  fun h1 hs => Returns.step (fun n => hp n h1 (printsIn_get ha hb hg hs)) (Returns.of_ok u)

/-- A let statement parses back when its value does. -/
theorem parsesBack_letStatement (un u : String) (o : Bool) (hn : isIdentifier un = true)
    (hu : ParsesBack u o) :
    StatementParsesBack ("let" ++ " " ++ un ++ " = " ++ u ++ ";") false false := by
  obtain ⟨hd, tl, lex, _, _, parse⟩ := hu
  have hdata : ∀ tail : List Char, ("let" ++ " " ++ un ++ " = " ++ u ++ ";").data ++ tail
      = "let".data ++ ' ' :: (un.data ++ ' ' :: '=' :: ' ' :: (u.data ++ ';' :: tail)) := by
    intro tail
    simp only [String.data_append, List.append_assoc]
    rfl
  refine ⟨{ type := .LET, literal := "let" },
    ' ' :: (un.data ++ ' ' :: '=' :: ' ' :: (u.data ++ [';'])), ?_, by decide,
    fun _ => ⟨by decide, rfl⟩, ?_⟩
  · intro tail _
    rw [hdata]
    simp only [List.append_assoc, List.cons_append, List.nil_append]
    exact (lex_keyword _ (sep_blank _)).1
  · intro tail es ns _ _
    have hlen0 : (ns ++ [Node.LetStatement { type := .LET, literal := "let" } none none]).length
        = ns.length + 1 := by simp
    obtain ⟨nsb, hnsb⟩ : ∃ nsb : NodeHeap, nsb
        = ((ns ++ [Node.LetStatement { type := .LET, literal := "let" } none none])
          ++ [Node.Identifier { type := .IDENT, literal := un } un]).set ns.length
            (Node.LetStatement { type := .LET, literal := "let" } (some (ns.length + 1)) none) :=
      ⟨_, rfl⟩
    have hl0 : nsb.length = ns.length + 2 := by rw [hnsb]; simp
    have hsameb : SameNodes 0 ns.length ns nsb := by
      rw [hnsb]
      exact ((sameNodes_append_one ns _).same_trans
        (SameNodes.of_append 0 ns.length _ _ (by rw [hlen0]; omega))).same_trans
        (SameNodes.of_set 0 ns.length _ ns.length _ (Or.inr (le_refl _)))
    have hnameb : nsb.get? (ns.length + 1)
        = some (Node.Identifier { type := .IDENT, literal := un } un) := by
      rw [hnsb, List.get?_eq_getElem?, List.getElem?_set_ne (by omega),
        List.getElem?_append_right (by rw [hlen0])]
      simp
    obtain ⟨last, root, ns1, hlen, hsame, hprint, hcps⟩ :=
      parse .LOWEST (';' :: tail) es nsb (by decide) (sep_semicolon _)
    rw [hl0] at hlen hsame hprint
    have hname : ns1.get? (ns.length + 1)
        = some (Node.Identifier { type := .IDENT, literal := un } un) := by
      rw [hsame (ns.length + 1) (Nat.zero_le _) (by omega)]
      exact hnameb
    refine ⟨{ type := .SEMICOLON, literal := ";" }, ns.length,
      ns1.set ns.length (.LetStatement { type := .LET, literal := "let" }
        (some (ns.length + 1)) (some root)), ?_, ?_, ?_, ?_⟩
    · rw [List.length_set]; omega
    · exact (hsameb.same_trans (hsame.narrow (le_refl _) (by omega))).same_trans
        (SameNodes.of_set 0 ns.length ns1 ns.length _ (Or.inr (le_refl _)))
    · refine @printsIn_letStatement _ _ _ _ { type := .LET, literal := "let" } un u _ _
        (le_refl _) (by rw [List.length_set]; omega)
        (list_get_set_self ns1 ns.length _ (by omega)) ?_ ?_
      · have hg1 : (ns1.set ns.length (Node.LetStatement { type := .LET, literal := "let" }
            (some (ns.length + 1)) (some root))).get? (ns.length + 1)
            = some (Node.Identifier { type := .IDENT, literal := un } un) := by
          rw [List.get?_eq_getElem?, List.getElem?_set_ne (by omega), ← List.get?_eq_getElem?]
          exact hname
        refine printsIn_of_get (by omega) (by rw [List.length_set]; omega) hg1
          (fun n h1 hd1 => ?_)
        · rw [nodeString, hd1]
          rfl
      · exact hprint.onward (SameNodes.of_set _ _ ns1 ns.length _ (Or.inl (by omega)))
          (by omega) (by rw [List.length_set])
    · have e0 : ' ' :: (un.data ++ ' ' :: '=' :: ' ' :: (u.data ++ [';'])) ++ tail
          = ' ' :: (un.data ++ ' ' :: '=' :: ' ' :: (u.data ++ ';' :: tail)) := by
        simp only [List.append_assoc, List.cons_append, List.nil_append]
      rw [e0]
      have hid : (Lexer.new (' ' :: (un.data ++ ' ' :: '=' :: ' ' :: (u.data ++ ';' :: tail)))).nextToken
          = ({ type := .IDENT, literal := un },
              Lexer.new (' ' :: '=' :: ' ' :: (u.data ++ ';' :: tail))) := by
        rw [(lex_blank _).1]
        exact lex_name hn _ (sep_blank _)
      have has : (Lexer.new (' ' :: '=' :: ' ' :: (u.data ++ ';' :: tail))).nextToken
          = ({ type := .ASSIGN, literal := "=" }, Lexer.new (' ' :: (u.data ++ ';' :: tail))) := by
        rw [(lex_blank _).1]
        exact lex_assign _
      have hsemi : (Lexer.new (';' :: tail)).nextToken
          = ({ type := .SEMICOLON, literal := ";" }, Lexer.new tail) :=
        (lex_punctuation tail).2.2.2.2.2.1
      have h1 : ((parserAt { type := .LET, literal := "let" }
          (' ' :: (un.data ++ ' ' :: '=' :: ' ' :: (u.data ++ ';' :: tail))) es ns).make
            (.LetStatement { type := .LET, literal := "let" } none none)).2.expectPeek .IDENT
          = (true, parserAt { type := .IDENT, literal := un }
              (' ' :: '=' :: ' ' :: (u.data ++ ';' :: tail)) es
              (ns ++ [.LetStatement { type := .LET, literal := "let" } none none])) :=
        parserAt_expectPeek es _ hid
      have h2 : (((parserAt { type := .IDENT, literal := un }
              (' ' :: '=' :: ' ' :: (u.data ++ ';' :: tail)) es
              (ns ++ [.LetStatement { type := .LET, literal := "let" } none none])).make
            (.Identifier { type := .IDENT, literal := un } un)).2.setNode ns.length
            (.LetStatement { type := .LET, literal := "let" } (some (ns.length + 1))
              none)).expectPeek .ASSIGN
          = (true, parserAt { type := .ASSIGN, literal := "=" }
              (' ' :: (u.data ++ ';' :: tail)) es nsb) := by
        rw [hnsb]
        exact parserAt_expectPeek es _ has
      have e1 : (parserAt { type := .ASSIGN, literal := "=" }
              (' ' :: (u.data ++ ';' :: tail)) es nsb).nextToken
          = parserAt hd (tl ++ ';' :: tail) es nsb := by
        refine parserAt_nextToken es _ ?_
        rw [(lex_blank _).1]
        exact lex _ (sep_semicolon _)
      have r1 := hcps _ (returns_loop_stop .LOWEST (some root) _
        (peek_stop_semicolon last tail es ns1))
      rw [← e1] at r1
      have hpl : (parserAt { type := .IDENT, literal := un }
              (' ' :: '=' :: ' ' :: (u.data ++ ';' :: tail)) es
              (ns ++ [.LetStatement { type := .LET, literal := "let" } none none])).nodes.length
          = ns.length + 1 := by rw [parserAt_nodes, hlen0]
      have r2 := @returns_letStatement (parserAt { type := .LET, literal := "let" }
          (' ' :: (un.data ++ ' ' :: '=' :: ' ' :: (u.data ++ ';' :: tail))) es ns) _ _
          (parserAt last (';' :: tail) es ns1) (some root) h1
          (by rw [hpl]; exact h2) r1
          (by rw [parserAt_setNode, parserAt_peekToken es _ hsemi])
      rw [hpl, parserAt_setNode, parserAt_nextToken es _ hsemi] at r2
      exact returns_statement_let rfl r2

theorem parserAt_newline (cur : Token) (w : List Char) (es : List String) (ns : NodeHeap) :
    parserAt cur ('\n' :: w) es ns = parserAt cur w es ns := by
  simp only [parserAt, (lex_blank w).2]

theorem parserAt_start (w : List Char) (node : Node) :
    ((Parser.new (Lexer.new w)).make node).2
      = (parserAt { type := .ILLEGAL, literal := "" } w [] [node]).nextToken := rfl

theorem programText_cons (s : String) (ss : List String) :
    (concatStrings ((s :: ss).map (fun x => x ++ "\n"))).data
      = s.data ++ '\n' :: (concatStrings (ss.map (fun x => x ++ "\n"))).data := by
  simp only [List.map_cons, concatStrings, String.data_append, List.append_assoc]
  rfl

theorem nextFree_end : nextFree ['\n'] := by
  unfold nextFree
  rw [(lex_blank []).2, lex_end]
  exact ⟨by decide, rfl⟩

/-- The loop of parseProgram reads the texts of the statements of a program,
each ended by a line feed. -/
theorem parsesBack_programLoop : ∀ (items : List (String × Bool × Bool)),
    (∀ i ∈ items, StatementParsesBack i.1 i.2.1 i.2.2) →
    List.Chain' (fun a b => a.2.1 = true → b.2.2 = false) items →
    ∀ (program : Nat) (stmts : List NodePtr) (cur0 : Token) (es : List String) (ns : NodeHeap),
      program < ns.length → ns.get? program = some (.Program stmts) →
      ∃ (roots : List NodePtr) (pF : Parser),
        Returns (fun n => parseProgramLoop n program stmts
          (parserAt cur0 (concatStrings ((items.map (fun i => i.1)).map
            (fun x => x ++ "\n"))).data es ns).nextToken) (program, pF)
        ∧ pF.errors = es ∧ ns.length ≤ pF.nodes.length
        ∧ SameNodes (program + 1) ns.length ns pF.nodes
        ∧ pF.nodes.get? program = some (.Program (stmts ++ roots))
        ∧ List.Forall₂ (fun x i => PrintsIn pF.nodes ns.length pF.nodes.length x i.1)
            roots items := by
  intro items
  induction items with
  | nil =>
    intro _ _ program stmts cur0 es ns _ hget
    refine ⟨[], parserAt { type := .EOF, literal := "" } [] es ns, ?_, rfl, le_refl _,
      SameNodes.same_refl _ _ _, by rw [List.append_nil]; exact hget, List.Forall₂.nil⟩
    have e1 : (parserAt cur0 (concatStrings ((([] : List (String × Bool × Bool)).map
        (fun i => i.1)).map (fun x => x ++ "\n"))).data es ns).nextToken
        = parserAt { type := .EOF, literal := "" } [] es ns :=
      parserAt_nextToken es ns lex_end
    rw [e1]
    exact returns_program_stop program stmts rfl
  | cons i rest ih =>
    intro hall hchain program stmts cur0 es ns hprog hget
    obtain ⟨hd, tl, lex, hne, _, parse⟩ := hall i (List.mem_cons_self _ _)
    have htext : (concatStrings (((i :: rest).map (fun i => i.1)).map
        (fun x => x ++ "\n"))).data
        = i.1.data ++ '\n' :: (concatStrings ((rest.map (fun i => i.1)).map
          (fun x => x ++ "\n"))).data := by
      rw [List.map_cons, programText_cons]
    rw [htext]
    have hfree : i.2.1 = true → nextFree ('\n' :: (concatStrings ((rest.map (fun i => i.1)).map
        (fun x => x ++ "\n"))).data) := by
      intro hi
      cases rest with
      | nil => exact nextFree_end
      | cons j rest1 =>
        obtain ⟨hdj, tlj, lexj, _, hopen, _⟩ := hall j
          (List.mem_cons_of_mem _ (List.mem_cons_self _ _))
        have hj : j.2.2 = false := (List.chain'_cons.mp hchain).1 hi
        unfold nextFree
        rw [(lex_blank _).2, List.map_cons, programText_cons, lexj _ (sep_newline _)]
        exact hopen hj
    obtain ⟨last, root, ns1, hlen, hsame, hprint, hret⟩ :=
      parse ('\n' :: (concatStrings ((rest.map (fun i => i.1)).map
        (fun x => x ++ "\n"))).data) es ns (sep_newline _) hfree
    have hchain1 : List.Chain' (fun a b : String × Bool × Bool => a.2.1 = true → b.2.2 = false)
        rest := by
      cases rest with
      | nil => exact List.chain'_nil
      | cons j rest1 => exact (List.chain'_cons.mp hchain).2
    obtain ⟨roots, pF, hloop, herr, hlenF, hsameF, hgetF, hprintF⟩ :=
      ih (fun j hj => hall j (List.mem_cons_of_mem _ hj)) hchain1 program
        (stmts ++ [some root]) last es (ns1.set program (.Program (stmts ++ [some root])))
        (by rw [List.length_set]; omega) (list_get_set_self ns1 program _ (by omega))
    rw [List.length_set] at hlenF hsameF hprintF
    refine ⟨some root :: roots, pF, ?_, herr, le_trans hlen hlenF, ?_, ?_, ?_⟩
    · have e1 : (parserAt cur0 (i.1.data ++ '\n' :: (concatStrings ((rest.map
          (fun i => i.1)).map (fun x => x ++ "\n"))).data) es ns).nextToken
          = parserAt hd (tl ++ '\n' :: (concatStrings ((rest.map (fun i => i.1)).map
            (fun x => x ++ "\n"))).data) es ns :=
        parserAt_nextToken es ns (lex _ (sep_newline _))
      rw [e1]
      refine returns_program_step hne hret ?_
      rw [parserAt_setNode, parserAt_newline]
      exact hloop
    · exact ((hsame.narrow (Nat.zero_le _) (le_refl _)).same_trans
        (SameNodes.of_set _ _ ns1 program _ (Or.inl (by omega)))).same_trans
        (hsameF.narrow (le_refl _) hlen)
    · rw [hgetF]
      simp
    · refine List.Forall₂.cons (hprint.onward ?_ (le_refl _) hlenF) ?_
      · exact (SameNodes.of_set _ _ ns1 program _ (Or.inl hprog)).same_trans
          (hsameF.narrow (by omega) (le_refl _))
      · exact hprintF.imp (fun _ _ hp => hp.onward (SameNodes.same_refl _ _ _) hlen (le_refl _))

theorem returns_program_text {h : NodeHeap} {a : Nat} {stmts : List NodePtr}
    {us : List String} (hg : h.get? a = some (.Program stmts))
    (hx : Returns (fun n => mapRes (nodeString n h) stmts) us) :
    Returns (fun n => nodeString n h (some a))
      (concatStrings (us.map (fun x => x ++ "\n"))) := by
  refine Returns.after hx (fun n hn => ?_) (Returns.of_ok _)
  rw [nodeString, nodeString_of_get hg]
  simp only [hn, Res.ok_bind, Res.pure_eq]

/-- The text of a program whose statements parse back and fit one after the
other parses without an error to a program that prints as this text. -/
theorem parsesBack_program (items : List (String × Bool × Bool))
    (hall : ∀ i ∈ items, StatementParsesBack i.1 i.2.1 i.2.2)
    (hchain : List.Chain' (fun a b => a.2.1 = true → b.2.2 = false) items) :
    Returns (fun n => parseToString n
      (concatStrings ((items.map (fun i => i.1)).map (fun x => x ++ "\n"))))
      (concatStrings ((items.map (fun i => i.1)).map (fun x => x ++ "\n")), []) := by
  obtain ⟨roots, pF, hloop, herr, _, _, hget, hprint⟩ :=
    parsesBack_programLoop items hall hchain 0 [] { type := .ILLEGAL, literal := "" } []
      [.Program []] (by decide) rfl
  rw [List.nil_append] at hget
  have hlist : List.Forall₂ (fun x u => PrintsIn pF.nodes 1 pF.nodes.length x u) roots
      (items.map (fun i => i.1)) := by
    rw [List.forall₂_map_right_iff]
    exact hprint
  have htext := returns_program_text hget (printsIn_list hlist (SameNodes.same_refl _ _ _))
  obtain ⟨k1, e1⟩ := hloop
  obtain ⟨k2, e2⟩ := htext
  refine ⟨max k1 k2, fun fuel hfuel => ?_⟩
  have a1 := e1 fuel (le_trans (le_max_left _ _) hfuel)
  have a2 := e2 fuel (le_trans (le_max_right _ _) hfuel)
  simp only at a1 a2
  have hsrc : parseSource fuel
      (concatStrings ((items.map (fun i => i.1)).map (fun x => x ++ "\n"))) = .ok (0, pF) := by
    rw [← a1]
    rfl
  show parseToString fuel _ = _
  rw [parseToString, hsrc]
  simp only [a2, herr]

/-- Every statement of the class prints, and its text parses back. -/
theorem plainStatement_parsesBack (H : NodeHeap) (d : Nat) (x : NodePtr)
    (h : plainStatement H d x = true) :
    ∃ s, PrintsIn H 0 H.length x s
      ∧ StatementParsesBack s (isExpressionStatement H x) (opensStatement H d x) := by
  cases x with
  | none => simp [plainStatement] at h
  | some a =>
    rw [plainStatement] at h
    rw [isExpressionStatement, opensStatement]
    cases hg : H.get? a with
    | none => rw [hg] at h; simp at h
    | some node =>
      rw [hg] at h
      have hb := get_lt_length hg
      cases node with
      | LetStatement tok name value =>
        cases name with
        | none => simp at h
        | some b =>
          simp only [Bool.and_eq_true, decide_eq_true_eq] at h
          obtain ⟨⟨htok, hname⟩, hvalue⟩ := h
          obtain ⟨u, hpu, hbu⟩ := plain_parsesBack H d value hvalue
          cases value with
          | none => cases d <;> simp [plainExpression] at hvalue
          | some e =>
            cases hgb : H.get? b with
            | none => rw [hgb] at hname; simp at hname
            | some nb =>
              rw [hgb] at hname
              cases nb with
              | Identifier tokb v =>
                simp only at hname
                have hpn : PrintsIn H 0 H.length (some b) v :=
                  printsIn_leaf_at hgb (fun n h1 hd1 => by rw [nodeString, hd1]; rfl)
                have hp := printsIn_letStatement (Nat.zero_le _) hb hg hpn hpu
                rw [htok] at hp
                exact ⟨_, hp, parsesBack_letStatement v u _ hname hbu⟩
              | _ => simp at hname
      | ReturnStatement tok value =>
        simp only [Bool.and_eq_true, decide_eq_true_eq] at h
        obtain ⟨htok, hvalue⟩ := h
        obtain ⟨u, hpu, hbu⟩ := plain_parsesBack H d value hvalue
        cases value with
        | none => cases d <;> simp [plainExpression] at hvalue
        | some e =>
          have hp := printsIn_returnStatement (Nat.zero_le _) hb hg hpu
          rw [htok] at hp
          exact ⟨_, hp, parsesBack_returnStatement u _ hbu⟩
      | ExpressionStatement tok value =>
        simp only at h
        obtain ⟨u, hpu, hbu⟩ := plain_parsesBack H d value h
        cases value with
        | none => cases d <;> simp [plainExpression] at h
        | some e =>
          exact ⟨_, printsIn_expressionStatement (Nat.zero_le _) hb hg hpu,
            parsesBack_expressionStatement u _ hbu⟩
      | _ => simp at h

theorem plain_statements (H : NodeHeap) (d : Nat) : ∀ stmts : List NodePtr,
    stmts.all (plainStatement H d) = true → statementsFit H d stmts = true →
    ∃ items : List (String × Bool × Bool),
      List.Forall₂ (fun x i => PrintsIn H 0 H.length x i.1
        ∧ i.2.1 = isExpressionStatement H x ∧ i.2.2 = opensStatement H d x) stmts items
      ∧ (∀ i ∈ items, StatementParsesBack i.1 i.2.1 i.2.2)
      ∧ List.Chain' (fun a b => a.2.1 = true → b.2.2 = false) items := by
  intro stmts
  induction stmts with
  | nil => exact fun _ _ => ⟨[], List.Forall₂.nil, fun _ h => absurd h (List.not_mem_nil _),
      List.chain'_nil⟩
  | cons x xs ih =>
    intro hall hfit
    rw [List.all_cons, Bool.and_eq_true] at hall
    have hfit1 : statementsFit H d xs = true := by
      cases xs with
      | nil => rfl
      | cons y ys =>
        rw [statementsFit, Bool.and_eq_true] at hfit
        exact hfit.2
    obtain ⟨s, hps, hbs⟩ := plainStatement_parsesBack H d x hall.1
    obtain ⟨items, hitems, hback, hchain⟩ := ih hall.2 hfit1
    refine ⟨(s, isExpressionStatement H x, opensStatement H d x) :: items,
      List.Forall₂.cons ⟨hps, rfl, rfl⟩ hitems, ?_, ?_⟩
    · intro i hi
      rcases List.mem_cons.mp hi with rfl | hi
      · exact hbs
      · exact hback i hi
    · cases hitems with
      | nil => exact List.chain'_singleton _
      | cons hj hrest =>
        refine List.chain'_cons.mpr ⟨?_, hchain⟩
        intro hx
        rw [statementsFit, Bool.and_eq_true, Bool.not_eq_true', Bool.and_eq_false_iff] at hfit
        simp only at hx
        rw [hj.2.2]
        rcases hfit.1 with h1 | h1
        · rw [hx] at h1; cases h1
        · exact h1

/-- The text of every program of the class parses without an error to a program
that prints as this text. -/
theorem plainProgram_parsesBack (H : NodeHeap) (d : Nat) (program : Nat)
    (h : plainProgram H d program = true) :
    ∃ s, Returns (fun n => nodeString n H (some program)) s
      ∧ Returns (fun n => parseToString n s) (s, []) := by
  rw [plainProgram] at h
  cases hg : H.get? program with
  | none => rw [hg] at h; simp at h
  | some node =>
    rw [hg] at h
    cases node with
    | Program stmts =>
      simp only [Bool.and_eq_true] at h
      obtain ⟨items, hitems, hback, hchain⟩ := plain_statements H d stmts h.1 h.2
      have hlist : List.Forall₂ (fun x u => PrintsIn H 0 H.length x u) stmts
          (items.map (fun i => i.1)) := by
        rw [List.forall₂_map_right_iff]
        exact hitems.imp (fun _ _ hp => hp.1)
      exact ⟨_, returns_program_text hg (printsIn_list hlist (SameNodes.same_refl _ _ _)),
        parsesBack_program items hback hchain⟩
    | _ => simp at h

/-! ## The tokens of the nodes the parser makes (C7) -/

theorem Carries.carries_refl (h : NodeHeap) : Carries h h := fun _ hx => hx

theorem Carries.carries_trans {h h1 h2 : NodeHeap} (a : Carries h h1) (b : Carries h1 h2) :
    Carries h h2 := fun x hx => b x (a x hx)

theorem Carries.of_make (h : NodeHeap) (n : Node) : Carries h (h ++ [n]) := by
  intro x hx
  cases x with
  | none => rfl
  | some a =>
    simp only [wordToken] at hx ⊢
    cases hg : h.get? a with
    | none => rw [hg] at hx; simp at hx
    | some m =>
      have hlt : a < h.length := get_lt_length hg
      have : (h ++ [n]).get? a = some m := by
        rw [List.get?_eq_getElem?, List.getElem?_append_left hlt, ← List.get?_eq_getElem?, hg]
      rw [this]
      rw [hg] at hx
      exact hx

theorem wordToken_of_get {h : NodeHeap} {a : Nat} {n : Node} (hg : h.get? a = some n)
    (hn : ∀ t v, n ≠ .Identifier t v) : wordToken h (some a) = true := by
  cases n with
  | Identifier t v => exact absurd rfl (hn t v)
  | _ => simp only [wordToken, hg]

theorem Carries.of_setNode (h : NodeHeap) (a : Nat) (n : Node)
    (hn : ∀ t v, n ≠ .Identifier t v) : Carries h (h.set a n) := by
  intro x hx
  cases x with
  | none => rfl
  | some b =>
    by_cases hb : a = b
    · subst hb
      by_cases hl : a < h.length
      · exact wordToken_of_get (list_get_set_self h a n hl) hn
      · have : h.set a n = h := List.set_eq_of_length_le (by omega)
        rw [this]
        exact hx
    · simp only [wordToken] at hx ⊢
      rw [List.get?_eq_getElem?, List.getElem?_set_ne hb, ← List.get?_eq_getElem?]
      exact hx

theorem wordToken_all_mono {h h1 : NodeHeap} (hc : Carries h h1) (xs : List NodePtr)
    (hx : xs.all (wordToken h) = true) : xs.all (wordToken h1) = true := by
  rw [List.all_eq_true] at hx ⊢
  exact fun x hm => hc x (hx x hm)

theorem wordToken_pairs_mono {h h1 : NodeHeap} (hc : Carries h h1)
    (ps : List (NodePtr × NodePtr))
    (hx : ps.all (fun kv => wordToken h kv.1 && wordToken h kv.2) = true) :
    ps.all (fun kv => wordToken h1 kv.1 && wordToken h1 kv.2) = true := by
  rw [List.all_eq_true] at hx ⊢
  intro kv hm
  have := hx kv hm
  rw [Bool.and_eq_true] at this ⊢
  exact ⟨hc _ this.1, hc _ this.2⟩

theorem lexedNode_mono {c c1 : Bool} {h h1 : NodeHeap} (hc : Carries h h1)
    (hcl : c1 = true → c = true) (n : Node) (hn : lexedNode c h n = true) :
    lexedNode c1 h1 n = true := by
  cases n with
  | IntegerLiteral token value =>
    simp only [lexedNode, Bool.or_eq_true, Bool.not_eq_true'] at hn ⊢
    rcases hn with hn | hn
    · exact Or.inl hn
    · right
      cases c1 with
      | false => rfl
      | true => rw [hcl rfl] at hn; cases hn
  | PrefixExpression token op right =>
    simp only [lexedNode, Bool.and_eq_true] at hn ⊢
    exact ⟨hn.1, hc _ hn.2⟩
  | InfixExpression token left op right =>
    simp only [lexedNode, Bool.and_eq_true] at hn ⊢
    exact ⟨⟨hn.1.1, hc _ hn.1.2⟩, hc _ hn.2⟩
  | IndexExpression token left index =>
    simp only [lexedNode, Bool.and_eq_true] at hn ⊢
    exact ⟨hc _ hn.1, hc _ hn.2⟩
  | CallExpression token function arguments =>
    simp only [lexedNode, Bool.and_eq_true] at hn ⊢
    exact ⟨hc _ hn.1, wordToken_all_mono hc _ hn.2⟩
  | ArrayLiteral token elements =>
    simp only [lexedNode] at hn ⊢
    exact wordToken_all_mono hc _ hn
  | HashLiteral token pairs =>
    simp only [lexedNode] at hn ⊢
    exact wordToken_pairs_mono hc _ hn
  | LetStatement token name value =>
    simp only [lexedNode, Bool.and_eq_true] at hn ⊢
    exact ⟨⟨hn.1.1, hc _ hn.1.2⟩, hc _ hn.2⟩
  | ReturnStatement token value =>
    simp only [lexedNode, Bool.and_eq_true] at hn ⊢
    exact ⟨hn.1, hc _ hn.2⟩
  | ExpressionStatement token e =>
    simp only [lexedNode] at hn ⊢
    exact hc _ hn
  | _ => exact hn

theorem lexedHeap_weaken {c c1 : Bool} {h : NodeHeap} (hcl : c1 = true → c = true)
    (hh : lexedHeap c h) : lexedHeap c1 h :=
  fun a n hg => lexedNode_mono (Carries.carries_refl h) hcl n (hh a n hg)

theorem lexedHeap_make {c : Bool} {h : NodeHeap} {n : Node} (hh : lexedHeap c h)
    (hn : lexedNode c (h ++ [n]) n = true) : lexedHeap c (h ++ [n]) := by
  intro a m hg
  by_cases ha : a < h.length
  · rw [List.get?_eq_getElem?, List.getElem?_append_left ha, ← List.get?_eq_getElem?] at hg
    exact lexedNode_mono (Carries.of_make h n) (fun x => x) m (hh a m hg)
  · have hlen := get_lt_length hg
    rw [List.length_append, List.length_singleton] at hlen
    have ha1 : a = h.length := by omega
    subst ha1
    rw [List.get?_eq_getElem?, List.getElem?_append_right (le_refl _)] at hg
    simp only [Nat.sub_self, List.getElem?_cons_zero, Option.some.injEq] at hg
    rw [← hg]
    exact hn

theorem lexedHeap_setNode {c : Bool} {h : NodeHeap} {a : Nat} {n : Node} (hh : lexedHeap c h)
    (hi : ∀ t v, n ≠ .Identifier t v) (hn : lexedNode c (h.set a n) n = true) :
    lexedHeap c (h.set a n) := by
  intro b m hg
  by_cases hb : a = b
  · subst hb
    have hlen := get_lt_length hg
    rw [List.length_set] at hlen
    rw [list_get_set_self h a n hlen, Option.some.injEq] at hg
    rw [← hg]
    exact hn
  · rw [List.get?_eq_getElem?, List.getElem?_set_ne hb, ← List.get?_eq_getElem?] at hg
    exact lexedNode_mono (Carries.of_setNode h a n hi) (fun x => x) m (hh b m hg)

theorem lexed_make {p : Parser} {n : Node} (hp : Lexed p)
    (hn : lexedNode (decide (p.errors = [])) (p.nodes ++ [n]) n = true) : Lexed (p.make n).2 :=
  ⟨hp.1, hp.2.1, lexedHeap_make hp.2.2 hn⟩

theorem lexed_setNode {p : Parser} {a : Nat} {n : Node} (hp : Lexed p)
    (hi : ∀ t v, n ≠ .Identifier t v)
    (hn : lexedNode (decide (p.errors = [])) (p.nodes.set a n) n = true) :
    Lexed (p.setNode a n) :=
  ⟨hp.1, hp.2.1, lexedHeap_setNode hp.2.2 hi hn⟩

theorem readWhile_all (p : Char → Bool) : ∀ (rest : List Char) (ch : Char),
    ∀ c ∈ (readWhile p ch rest).1, p c = true := by
  intro rest
  induction rest with
  | nil =>
    intro ch c hc
    by_cases h : p ch = true
    · simp only [readWhile, h, ↓reduceIte, List.mem_singleton] at hc
      rw [hc]; exact h
    · simp only [readWhile, h, Bool.false_eq_true, ↓reduceIte, List.not_mem_nil] at hc
  | cons d rest ih =>
    intro ch c hc
    by_cases h : p ch = true
    · simp only [readWhile, h, ↓reduceIte, List.mem_cons] at hc
      rcases hc with rfl | hc
      · exact h
      · exact ih d c hc
    · simp only [readWhile, h, Bool.false_eq_true, ↓reduceIte, List.not_mem_nil] at hc

theorem readWhile_ne (p : Char → Bool) (rest : List Char) (ch : Char) (h : p ch = true) :
    (readWhile p ch rest).1 ≠ [] := by
  cases rest <;> simp [readWhile, h]

theorem readChar_ch (l : Lexer) : l.readChar.ch = l.peekChar := by
  obtain ⟨ch, rest⟩ := l
  cases rest <;> rfl

theorem lexedToken_word (s : String) (h1 : s.data ≠ [])
    (h2 : ∀ c ∈ s.data, isLetter c = true) :
    lexedToken { type := lookupIdent s, literal := s } = true := by
  by_cases a0 : s = "fn"
  · subst a0; decide
  by_cases a1 : s = "let"
  · subst a1; decide
  by_cases a2 : s = "true"
  · subst a2; decide
  by_cases a3 : s = "false"
  · subst a3; decide
  by_cases a4 : s = "if"
  · subst a4; decide
  by_cases a5 : s = "else"
  · subst a5; decide
  by_cases a6 : s = "return"
  · subst a6; decide
  by_cases a7 : s = "macro"
  · subst a7; decide
  have hc := lookupIdent_cases s
  rw [if_neg a0, if_neg a1, if_neg a2, if_neg a3, if_neg a4, if_neg a5, if_neg a6,
    if_neg a7] at hc
  simp only [lexedToken, hc, isIdentifier, Bool.and_eq_true, Bool.not_eq_true',
    List.isEmpty_eq_false, List.all_eq_true, decide_eq_true_eq]
  exact ⟨⟨h1, h2⟩, trivial⟩

theorem lexedToken_number (w : List Char) (h1 : w ≠ []) (h2 : ∀ c ∈ w, isDigit c = true) :
    lexedToken { type := .INT, literal := String.mk w } = true := by
  simp only [lexedToken, Bool.and_eq_true, Bool.not_eq_true', List.isEmpty_eq_false,
    List.all_eq_true]
  exact ⟨h1, h2⟩

/-- Every token the lexer returns has the literal of its kind. -/
theorem lexedToken_nextToken (l : Lexer) : lexedToken l.nextToken.1 = true := by
  unfold Lexer.nextToken
  generalize l.skipWhitespace = l2
  dsimp only
  by_cases c0 : l2.ch = '='
  · rw [if_pos c0]
    by_cases p0 : l2.peekChar = '='
    · rw [if_pos p0]
      simp only [lexedToken, c0, readChar_ch, p0]
      decide
    · rw [if_neg p0]
      rfl
  rw [if_neg c0]
  by_cases c1 : l2.ch = '+'
  · rw [if_pos c1]
    simp only [Lexer.single, lexedToken, c1]
    try decide
  rw [if_neg c1]
  by_cases c2 : l2.ch = '-'
  · rw [if_pos c2]
    simp only [Lexer.single, lexedToken, c2]
    try decide
  rw [if_neg c2]
  by_cases c3 : l2.ch = '!'
  · rw [if_pos c3]
    by_cases p3 : l2.peekChar = '='
    · rw [if_pos p3]
      simp only [lexedToken, c3, readChar_ch, p3]
      decide
    · rw [if_neg p3]
      simp only [Lexer.single, lexedToken, c3]
      decide
  rw [if_neg c3]
  by_cases c4 : l2.ch = '/'
  · rw [if_pos c4]
    simp only [Lexer.single, lexedToken, c4]
    try decide
  rw [if_neg c4]
  by_cases c5 : l2.ch = '*'
  · rw [if_pos c5]
    simp only [Lexer.single, lexedToken, c5]
    try decide
  rw [if_neg c5]
  by_cases c6 : l2.ch = '<'
  · rw [if_pos c6]
    simp only [Lexer.single, lexedToken, c6]
    try decide
  rw [if_neg c6]
  by_cases c7 : l2.ch = '>'
  · rw [if_pos c7]
    simp only [Lexer.single, lexedToken, c7]
    try decide
  rw [if_neg c7]
  by_cases c8 : l2.ch = ';'
  · rw [if_pos c8]
    simp only [Lexer.single, lexedToken, c8]
    try decide
  rw [if_neg c8]
  by_cases c9 : l2.ch = ','
  · rw [if_pos c9]
    simp only [Lexer.single, lexedToken, c9]
    try decide
  rw [if_neg c9]
  by_cases c10 : l2.ch = ':'
  · rw [if_pos c10]
    simp only [Lexer.single, lexedToken, c10]
    try decide
  rw [if_neg c10]
  by_cases c11 : l2.ch = '('
  · rw [if_pos c11]
    simp only [Lexer.single, lexedToken, c11]
    try decide
  rw [if_neg c11]
  by_cases c12 : l2.ch = ')'
  · rw [if_pos c12]
    simp only [Lexer.single, lexedToken, c12]
    try decide
  rw [if_neg c12]
  by_cases c13 : l2.ch = '['
  · rw [if_pos c13]
    simp only [Lexer.single, lexedToken, c13]
    try decide
  rw [if_neg c13]
  by_cases c14 : l2.ch = ']'
  · rw [if_pos c14]
    simp only [Lexer.single, lexedToken, c14]
    try decide
  rw [if_neg c14]
  by_cases c15 : l2.ch = '\x7b'
  · rw [if_pos c15]
    simp only [Lexer.single, lexedToken, c15]
    try decide
  rw [if_neg c15]
  by_cases c16 : l2.ch = '\x7d'
  · rw [if_pos c16]
    simp only [Lexer.single, lexedToken, c16]
    try decide
  rw [if_neg c16]
  by_cases cq : l2.ch = '"'
  · rw [if_pos cq]
    rfl
  rw [if_neg cq]
  by_cases cn : l2.ch = NUL
  · rw [if_pos cn]
    rfl
  rw [if_neg cn]
  by_cases cl : isLetter l2.ch = true
  · rw [if_pos cl]
    exact lexedToken_word _ (readWhile_ne _ _ _ cl) (readWhile_all _ _ _)
  rw [if_neg cl]
  by_cases cd : isDigit l2.ch = true
  · rw [if_pos cd]
    exact lexedToken_number _ (readWhile_ne _ _ _ cd) (readWhile_all _ _ _)
  rw [if_neg cd]
  rfl

theorem lexed_nextToken {p : Parser} (hp : Lexed p) : Lexed p.nextToken :=
  ⟨hp.2.1, lexedToken_nextToken _, hp.2.2⟩

theorem lexed_new (l : Lexer) : Lexed (Parser.new l) :=
  ⟨lexedToken_nextToken _, lexedToken_nextToken _, fun a n hg => by cases a <;> cases hg⟩

theorem lexed_addError {p : Parser} (hp : Lexed p) (msg : String) :
    Lexed { p with errors := p.errors ++ [msg] } :=
  ⟨hp.1, hp.2.1, lexedHeap_weaken (by intro h; simp at h) hp.2.2⟩

theorem lexed_peekError {p : Parser} (hp : Lexed p) (t : TokenType) : Lexed (p.peekError t) :=
  lexed_addError hp _

theorem lexed_noPrefixParseFnError {p : Parser} (hp : Lexed p) (t : TokenType) :
    Lexed (p.noPrefixParseFnError t) :=
  lexed_addError hp _

theorem lexed_expectPeek {p : Parser} (hp : Lexed p) (t : TokenType) :
    Lexed (p.expectPeek t).2 := by
  simp only [Parser.expectPeek]
  split_ifs
  · exact lexed_nextToken hp
  · exact lexed_peekError hp t

theorem expectPeek_curToken {p : Parser} {t : TokenType} (h : ¬ (p.expectPeek t).1 = false) :
    (p.expectPeek t).2.curToken.type = t := by
  simp only [Parser.expectPeek] at h ⊢
  by_cases hc : p.peekTokenIs t = true
  · rw [if_pos hc]
    simpa [Parser.peekTokenIs] using hc
  · rw [if_neg hc] at h
    exact absurd rfl h

theorem wordToken_make (h : NodeHeap) (n : Node) (hn : ∀ t v, n ≠ .Identifier t v) :
    wordToken (h ++ [n]) (some h.length) = true :=
  wordToken_of_get (list_get_append_self h n) hn

theorem wordToken_setNode {h : NodeHeap} {a : Nat} (n : Node) {x : NodePtr}
    (hn : ∀ t v, n ≠ .Identifier t v) (hx : wordToken h x = true) :
    wordToken (h.set a n) x = true :=
  Carries.of_setNode h a n hn x hx

/-- The frame of the members that allocate a node, parse its operands and fill
the node in; `W` is what is known of the operands. -/
theorem lexes_node {p q : Parser} {n0 n1 : Node} {W : Prop} (hp : Lexed p)
    (hi0 : ∀ t v, n0 ≠ .Identifier t v) (hi1 : ∀ t v, n1 ≠ .Identifier t v)
    (h0 : lexedNode (decide (p.errors = [])) (p.nodes ++ [n0]) n0 = true)
    (hsub : Lexed (p.make n0).2 → Lexed q ∧ Carries (p.nodes ++ [n0]) q.nodes ∧ W)
    (h1 : Carries (p.nodes ++ [n0]) (q.nodes.set p.nodes.length n1) → W →
      lexedNode (decide (q.errors = [])) (q.nodes.set p.nodes.length n1) n1 = true) :
    Lexed (q.setNode p.nodes.length n1) ∧ Carries p.nodes (q.setNode p.nodes.length n1).nodes
      ∧ wordToken (q.setNode p.nodes.length n1).nodes (some p.nodes.length) = true := by
  obtain ⟨lq, cq, w⟩ := hsub (lexed_make hp h0)
  have c1 := cq.carries_trans (Carries.of_setNode q.nodes p.nodes.length n1 hi1)
  refine ⟨lexed_setNode lq hi1 (h1 c1 w), ?_, ?_⟩
  · exact (Carries.of_make _ _).carries_trans c1
  · exact c1 _ (wordToken_make _ _ hi0)

theorem prefixFn_kind {t : TokenType} {pf : PrefixParseFn} (h : prefixParseFns t = some pf) :
    (pf = .parseIdentifier → t = .IDENT)
    ∧ (pf = .parseBoolean → t = .TRUE ∨ t = .FALSE)
    ∧ (pf = .parsePrefixExpression → t = .BANG ∨ t = .MINUS) := by
  cases t <;> cases h <;> simp

theorem lexes_parseIdentifier (p : Parser) (r : NodePtr) (p1 : Parser)
    (hr : parseIdentifier p = .ok (r, p1)) (ht : p.curToken.type = .IDENT) : Lexes p p1 r := by
  simp only [parseIdentifier, Res.ok.injEq, Prod.mk.injEq] at hr
  obtain ⟨rfl, rfl⟩ := hr
  intro hp
  refine ⟨lexed_make hp ?_, Carries.of_make _ _, ?_⟩
  · simp only [lexedNode, decide_True, Bool.true_and]
    exact hp.1
  · simp only [make_nodes, make_fst, wordToken, list_get_append_self, ht, decide_True]

theorem lexes_parseBoolean (p : Parser) (r : NodePtr) (p1 : Parser)
    (hr : parseBoolean p = .ok (r, p1)) (ht : p.curToken.type = .TRUE ∨ p.curToken.type = .FALSE) :
    Lexes p p1 r := by
  simp only [parseBoolean, Res.ok.injEq, Prod.mk.injEq] at hr
  obtain ⟨rfl, rfl⟩ := hr
  intro hp
  refine ⟨lexed_make hp ?_, Carries.of_make _ _, wordToken_make _ _ (fun _ _ h => by cases h)⟩
  have h1 := hp.1
  simp only [lexedNode, Bool.or_eq_true, decide_eq_true_eq]
  rcases ht with ht | ht
  · left
    simpa [lexedToken, ht] using h1
  · right
    simpa [lexedToken, ht] using h1

theorem lexes_parseStringLiteral (p : Parser) (r : NodePtr) (p1 : Parser)
    (hr : parseStringLiteral p = .ok (r, p1)) : Lexes p p1 r := by
  simp only [parseStringLiteral, Res.ok.injEq, Prod.mk.injEq] at hr
  obtain ⟨rfl, rfl⟩ := hr
  intro hp
  exact ⟨lexed_make hp rfl, Carries.of_make _ _, wordToken_make _ _ (fun _ _ h => by cases h)⟩

theorem stoi_ok {s : String} {v : Int} (h : stoi s = .ok v) :
    s.data ≠ [] ∧ s.data.all isDigit = true ∧ digitsValue s.data ≤ 2147483647
      ∧ v = Int.ofNat (digitsValue s.data) := by
  unfold stoi at h
  split_ifs at h with h1 h2
  simp only [Res.ok.injEq] at h
  exact ⟨h1.1, h1.2, h2, h.symm⟩

theorem lexedHeap_make_set {c c1 : Bool} {h : NodeHeap} {n0 n1 : Node} (hh : lexedHeap c h)
    (hcl : c1 = true → c = true) (hi1 : ∀ t v, n1 ≠ .Identifier t v)
    (hn : lexedNode c1 ((h ++ [n0]).set h.length n1) n1 = true) :
    lexedHeap c1 ((h ++ [n0]).set h.length n1) := by
  intro b m hg
  by_cases hb : h.length = b
  · subst hb
    rw [list_get_set_self _ _ _ (by simp), Option.some.injEq] at hg
    rw [← hg]
    exact hn
  · have hlen := get_lt_length hg
    rw [List.length_set, List.length_append, List.length_singleton] at hlen
    rw [List.get?_eq_getElem?, List.getElem?_set_ne hb,
      List.getElem?_append_left (by omega), ← List.get?_eq_getElem?] at hg
    exact lexedNode_mono ((Carries.of_make h n0).carries_trans (Carries.of_setNode _ _ _ hi1))
      hcl m (hh b m hg)

theorem lexes_parseIntegerLiteral (p : Parser) (r : NodePtr) (p1 : Parser)
    (hr : parseIntegerLiteral p = .ok (r, p1)) : Lexes p p1 r := by
  unfold parseIntegerLiteral at hr
  dsimp only at hr
  split at hr
  · next value hv =>
    obtain ⟨d1, d2, d3, d4⟩ := stoi_ok hv
    simp only [Res.ok.injEq, Prod.mk.injEq] at hr
    obtain ⟨rfl, rfl⟩ := hr
    intro hp
    have hi : ∀ t v, Node.IntegerLiteral p.curToken value ≠ .Identifier t v :=
      fun _ _ h => by cases h
    have hc : Carries p.nodes ((p.nodes ++ [Node.IntegerLiteral p.curToken 0]).set p.nodes.length
        (Node.IntegerLiteral p.curToken value)) :=
      (Carries.of_make _ _).carries_trans (Carries.of_setNode _ _ _ hi)
    have hw : wordToken ((p.nodes ++ [Node.IntegerLiteral p.curToken 0]).set p.nodes.length
        (Node.IntegerLiteral p.curToken value)) (some p.nodes.length) = true :=
      wordToken_of_get (list_get_set_self _ _ _ (by simp)) hi
    by_cases hz : value = 0 ∧ p.curToken.literal ≠ "0"
    · rw [if_pos hz]
      refine ⟨⟨hp.1, hp.2.1, ?_⟩, hc, hw⟩
      refine lexedHeap_make_set hp.2.2 (fun h => ?_) hi ?_
      · simp [Parser.setNode, Parser.make] at h
      · simp [lexedNode, Parser.setNode, Parser.make]
    · rw [if_neg hz]
      refine ⟨⟨hp.1, hp.2.1, ?_⟩, hc, hw⟩
      refine lexedHeap_make_set hp.2.2 (fun h => h) hi ?_
      simp only [lexedNode, Bool.or_eq_true, Bool.not_eq_true']
      left
      simp only [integerText, Bool.and_eq_true, Bool.not_eq_true', List.isEmpty_eq_false,
        decide_eq_true_eq, Bool.or_eq_true]
      refine ⟨⟨⟨d1, d2⟩, d3⟩, ?_⟩
      by_cases h0 : digitsValue p.curToken.literal.data = 0
      · right
        by_contra hne
        exact hz ⟨by rw [d4, h0]; rfl, hne⟩
      · exact Or.inl h0
  · cases hr
  · cases hr

theorem Lexes.followed {p q p1 : Parser} {l r : NodePtr} (h1 : Lexes p q l)
    (h2 : wordToken q.nodes l = true → Lexes q p1 r) : Lexes p p1 r := by
  intro hp
  obtain ⟨a1, a2, a3⟩ := h1 hp
  obtain ⟨b1, b2, b3⟩ := h2 a3 a1
  exact ⟨b1, a2.carries_trans b2, b3⟩

theorem Lexes.lx_stay (p : Parser) (l : NodePtr) (h : wordToken p.nodes l = true) : Lexes p p l :=
  fun hp => ⟨hp, Carries.carries_refl _, h⟩

theorem unary_literal {t : Token} (h : lexedToken t = true)
    (hf : prefixParseFns t.type = some .parsePrefixExpression) :
    t.literal ∈ prefixOperators := by
  obtain ⟨ty, lit⟩ := t
  cases ty <;> cases hf <;>
    simp only [lexedToken, decide_eq_true_eq] at h <;> subst h <;> decide

theorem binary_literal {t : Token} (h : lexedToken t = true)
    (hf : infixParseFns t.type = some .parseInfixExpression) :
    t.literal ∈ binaryOperators := by
  obtain ⟨ty, lit⟩ := t
  cases ty <;> cases hf <;>
    simp only [lexedToken, decide_eq_true_eq] at h <;> subst h <;> decide

theorem lexes_prefixFn (fuel : Nat) (ih : ParserLexes fuel) (pf : PrefixParseFn) (p : Parser)
    (left : NodePtr) (q : Parser) (hpf : prefixParseFns p.curToken.type = some pf)
    (hq : (match pf with
      | .parseIdentifier => parseIdentifier p
      | .parseIntegerLiteral => parseIntegerLiteral p
      | .parseStringLiteral => parseStringLiteral p
      | .parsePrefixExpression => parsePrefixExpression fuel p
      | .parseBoolean => parseBoolean p
      | .parseGroupedExpression => parseGroupedExpression fuel p
      | .parseArrayLiteral => parseArrayLiteral fuel p
      | .parseIfExpression => parseIfExpression fuel p
      | .parseFunctionLiteral => parseFunctionLiteral fuel p
      | .parseHashLiteral => parseHashLiteral fuel p
      | .parseMacroLiteral => parseMacroLiteral fuel p) = .ok (left, q)) :
    Lexes p q left := by
  obtain ⟨k1, k2, _⟩ := prefixFn_kind hpf
  cases pf
  · exact lexes_parseIdentifier p _ _ hq (k1 rfl)
  · exact lexes_parseIntegerLiteral p _ _ hq
  · exact lexes_parseStringLiteral p _ _ hq
  · exact ih.prefixExpression _ _ _ hq hpf
  · exact lexes_parseBoolean p _ _ hq (k2 rfl)
  · exact ih.groupedExpression _ _ _ hq
  · exact ih.arrayLiteral _ _ _ hq
  · exact ih.ifExpression _ _ _ hq
  · exact ih.functionLiteral _ _ _ hq
  · exact ih.hashLiteral _ _ _ hq
  · exact ih.macroLiteral _ _ _ hq

theorem lexes_parseExpression (fuel : Nat) (ih : ParserLexes fuel) (prc : prec) (p : Parser)
    (r : NodePtr) (p1 : Parser) (hr : parseExpression (fuel + 1) prc p = .ok (r, p1)) :
    Lexes p p1 r := by
  rw [parseExpression_unfold] at hr
  split at hr
  · simp only [Res.ok.injEq, Prod.mk.injEq] at hr
    obtain ⟨rfl, rfl⟩ := hr
    exact fun hp => ⟨lexed_noPrefixParseFnError hp _, Carries.carries_refl _, rfl⟩
  · next pf hpf =>
    obtain ⟨⟨left, q⟩, hq, hr⟩ := Res.bind_eq_ok hr
    exact (lexes_prefixFn fuel ih pf p left q hpf hq).followed
      (fun hw => ih.expressionLoop _ _ _ _ _ hr hw)

theorem lexes_parseExpressionLoop (fuel : Nat) (ih : ParserLexes fuel) (prc : prec)
    (l : NodePtr) (p : Parser) (r : NodePtr) (p1 : Parser)
    (hr : parseExpressionLoop (fuel + 1) prc l p = .ok (r, p1))
    (hl : wordToken p.nodes l = true) : Lexes p p1 r := by
  rw [parseExpressionLoop_unfold] at hr
  split_ifs at hr with hc
  · split at hr
    · simp only [Res.ok.injEq, Prod.mk.injEq] at hr
      obtain ⟨rfl, rfl⟩ := hr
      exact Lexes.lx_stay p _ hl
    · next f hf =>
      obtain ⟨⟨left, q⟩, hq, hr⟩ := Res.bind_eq_ok hr
      have hstep : Lexes p.nextToken q left := by
        cases f
        · exact ih.infixExpression _ p.nextToken _ _ hq hf hl
        · exact ih.callExpression _ p.nextToken _ _ hq hl
        · exact ih.indexExpression _ p.nextToken _ _ hq hl
      have hnext : Lexes p p.nextToken l := fun hp => ⟨lexed_nextToken hp, Carries.carries_refl _, hl⟩
      exact (hnext.followed (fun _ => hstep)).followed (fun hw => ih.expressionLoop _ _ _ _ _ hr hw)
  · simp only [Res.ok.injEq, Prod.mk.injEq] at hr
    obtain ⟨rfl, rfl⟩ := hr
    exact Lexes.lx_stay p _ hl

theorem lexes_parsePrefixExpression (fuel : Nat) (ih : ParserLexes fuel) (p : Parser)
    (r : NodePtr) (p1 : Parser) (hr : parsePrefixExpression (fuel + 1) p = .ok (r, p1))
    (hf : prefixParseFns p.curToken.type = some .parsePrefixExpression) : Lexes p p1 r := by
  rw [parsePrefixExpression_unfold] at hr
  obtain ⟨⟨right, q⟩, hq, hr⟩ := Res.bind_eq_ok hr
  simp only [Res.pure_eq, Res.ok.injEq, Prod.mk.injEq] at hr
  obtain ⟨rfl, rfl⟩ := hr
  intro hp
  have hop := unary_literal hp.1 hf
  refine lexes_node hp (fun _ _ h => by cases h) (fun _ _ h => by cases h) ?_
    (fun l0 => ih.expression _ _ _ _ hq (lexed_nextToken l0)) ?_
  · simp only [lexedNode, Bool.and_eq_true, decide_eq_true_eq]
    exact ⟨hop, rfl⟩
  · intro _ hw
    simp only [lexedNode, Bool.and_eq_true, decide_eq_true_eq]
    exact ⟨hop, wordToken_setNode _ (fun _ _ h => by cases h) hw⟩

theorem lexes_parseInfixExpression (fuel : Nat) (ih : ParserLexes fuel) (l : NodePtr)
    (p : Parser) (r : NodePtr) (p1 : Parser)
    (hr : parseInfixExpression (fuel + 1) l p = .ok (r, p1))
    (hf : infixParseFns p.curToken.type = some .parseInfixExpression)
    (hl : wordToken p.nodes l = true) : Lexes p p1 r := by
  rw [parseInfixExpression_unfold] at hr
  obtain ⟨⟨right, q⟩, hq, hr⟩ := Res.bind_eq_ok hr
  simp only [Res.pure_eq, Res.ok.injEq, Prod.mk.injEq] at hr
  obtain ⟨rfl, rfl⟩ := hr
  intro hp
  have hop := binary_literal hp.1 hf
  refine lexes_node hp (fun _ _ h => by cases h) (fun _ _ h => by cases h) ?_
    (fun l0 => ih.expression _ _ _ _ hq (lexed_nextToken l0)) ?_
  · simp only [lexedNode, Bool.and_eq_true, decide_eq_true_eq]
    exact ⟨⟨hop, Carries.of_make _ _ _ hl⟩, rfl⟩
  · intro hc hw
    simp only [lexedNode, Bool.and_eq_true, decide_eq_true_eq]
    exact ⟨⟨hop, hc _ (Carries.of_make _ _ _ hl)⟩,
      wordToken_setNode _ (fun _ _ h => by cases h) hw⟩

theorem lexes_parseGroupedExpression (fuel : Nat) (ih : ParserLexes fuel) (p : Parser)
    (r : NodePtr) (p1 : Parser) (hr : parseGroupedExpression (fuel + 1) p = .ok (r, p1)) :
    Lexes p p1 r := by
  rw [parseGroupedExpression_unfold] at hr
  obtain ⟨⟨exp, q⟩, hq, hr⟩ := Res.bind_eq_ok hr
  dsimp only at hr
  intro hp
  obtain ⟨a1, a2, a3⟩ := ih.expression _ _ _ _ hq (lexed_nextToken hp)
  have a4 : Carries p.nodes (q.expectPeek .RPAREN).2.nodes := by
    rw [expectPeek_nodes]; exact a2
  split_ifs at hr with h1
  · simp only [Res.pure_eq, Res.ok.injEq, Prod.mk.injEq] at hr
    obtain ⟨rfl, rfl⟩ := hr
    exact ⟨lexed_expectPeek a1 _, a4, rfl⟩
  · simp only [Res.pure_eq, Res.ok.injEq, Prod.mk.injEq] at hr
    obtain ⟨rfl, rfl⟩ := hr
    refine ⟨lexed_expectPeek a1 _, a4, ?_⟩
    rw [expectPeek_nodes]
    exact a3

theorem Moves.mv_stay (p : Parser) : Moves p p := fun hp => ⟨hp, Carries.carries_refl _⟩

theorem Moves.andThen {p q r : Parser} (a : Moves p q) (b : Moves q r) : Moves p r := by
  intro hp
  obtain ⟨a1, a2⟩ := a hp
  obtain ⟨b1, b2⟩ := b a1
  exact ⟨b1, a2.carries_trans b2⟩

theorem moves_nextToken (p : Parser) : Moves p p.nextToken :=
  fun hp => ⟨lexed_nextToken hp, Carries.carries_refl _⟩

theorem moves_expectPeek (p : Parser) (t : TokenType) : Moves p (p.expectPeek t).2 :=
  fun hp => ⟨lexed_expectPeek hp t, by rw [expectPeek_nodes]; exact Carries.carries_refl _⟩

theorem moves_make (p : Parser) (n : Node) (h : ∀ c hp, lexedNode c hp n = true) :
    Moves p (p.make n).2 :=
  fun hp => ⟨lexed_make hp (h _ _), Carries.of_make _ _⟩

theorem moves_setNode (p : Parser) (a : Nat) (n : Node) (hi : ∀ t v, n ≠ .Identifier t v)
    (h : ∀ c hp, lexedNode c hp n = true) : Moves p (p.setNode a n) :=
  fun hp => ⟨lexed_setNode hp hi (h _ _), Carries.of_setNode _ _ _ hi⟩

theorem Lexes.lx_moves {p p1 : Parser} {r : NodePtr} (h : Lexes p p1 r) : Moves p p1 :=
  fun hp => ⟨(h hp).1, (h hp).2.1⟩

theorem Moves.to_none {p p1 : Parser} (h : Moves p p1) : Lexes p p1 none :=
  fun hp => ⟨(h hp).1, (h hp).2, rfl⟩

theorem Moves.to_made {p p1 : Parser} {n : Node} (hn : ∀ c hp, lexedNode c hp n = true)
    (hi : ∀ t v, n ≠ .Identifier t v) (h : Moves (p.make n).2 p1) :
    Lexes p p1 (some p.nodes.length) := by
  intro hp
  obtain ⟨a1, a2⟩ := h (lexed_make hp (hn _ _))
  exact ⟨a1, (Carries.of_make _ _).carries_trans a2, a2 _ (wordToken_make _ _ hi)⟩

theorem Moves.to_kept {p p1 : Parser} {x : NodePtr} (h : Moves p p1)
    (hx : wordToken p.nodes x = true) : Lexes p p1 x :=
  fun hp => ⟨(h hp).1, (h hp).2, (h hp).2 _ hx⟩

theorem lexes_parseIndexExpression (fuel : Nat) (ih : ParserLexes fuel) (l : NodePtr)
    (p : Parser) (r : NodePtr) (p1 : Parser)
    (hr : parseIndexExpression (fuel + 1) l p = .ok (r, p1))
    (hl : wordToken p.nodes l = true) : Lexes p p1 r := by
  rw [parseIndexExpression_unfold] at hr
  obtain ⟨⟨index, q⟩, hq, hr⟩ := Res.bind_eq_ok hr
  dsimp only at hr
  intro hp
  obtain ⟨a1, a2, a3⟩ := @lexes_node p q (.IndexExpression p.curToken l none)
    (.IndexExpression p.curToken l index) _ hp (fun _ _ h => by cases h)
    (fun _ _ h => by cases h)
    (by
      simp only [lexedNode, Bool.and_eq_true]
      exact ⟨Carries.of_make _ _ _ hl, rfl⟩)
    (fun l0 => ih.expression _ _ _ _ hq (lexed_nextToken l0))
    (by
      intro hc hw
      simp only [lexedNode, Bool.and_eq_true]
      exact ⟨hc _ (Carries.of_make _ _ _ hl), wordToken_setNode _ (fun _ _ h => by cases h) hw⟩)
  split_ifs at hr with h1
  · simp only [Res.pure_eq, Res.ok.injEq, Prod.mk.injEq] at hr
    obtain ⟨rfl, rfl⟩ := hr
    exact ⟨lexed_expectPeek a1 _, by rw [expectPeek_nodes]; exact a2, rfl⟩
  · simp only [Res.pure_eq, Res.ok.injEq, Prod.mk.injEq] at hr
    obtain ⟨rfl, rfl⟩ := hr
    exact ⟨lexed_expectPeek a1 _, by rw [expectPeek_nodes]; exact a2,
      by rw [expectPeek_nodes]; exact a3⟩

theorem lexes_parseCallExpression (fuel : Nat) (ih : ParserLexes fuel) (f : NodePtr)
    (p : Parser) (r : NodePtr) (p1 : Parser)
    (hr : parseCallExpression (fuel + 1) f p = .ok (r, p1))
    (hf : wordToken p.nodes f = true) : Lexes p p1 r := by
  rw [parseCallExpression_unfold] at hr
  obtain ⟨⟨arguments, q⟩, hq, hr⟩ := Res.bind_eq_ok hr
  simp only [Res.pure_eq, Res.ok.injEq, Prod.mk.injEq] at hr
  obtain ⟨rfl, rfl⟩ := hr
  intro hp
  refine lexes_node hp (fun _ _ h => by cases h) (fun _ _ h => by cases h) ?_
    (fun l0 => ih.expressionList _ _ _ _ hq l0) ?_
  · simp only [lexedNode, Bool.and_eq_true, List.all_nil, and_true]
    exact Carries.of_make _ _ _ hf
  · intro hc hw
    simp only [lexedNode, Bool.and_eq_true]
    exact ⟨hc _ (Carries.of_make _ _ _ hf),
      wordToken_all_mono (Carries.of_setNode _ _ _ (fun _ _ h => by cases h)) _ hw⟩

theorem lexes_parseArrayLiteral (fuel : Nat) (ih : ParserLexes fuel) (p : Parser)
    (r : NodePtr) (p1 : Parser) (hr : parseArrayLiteral (fuel + 1) p = .ok (r, p1)) :
    Lexes p p1 r := by
  rw [parseArrayLiteral_unfold] at hr
  obtain ⟨⟨elements, q⟩, hq, hr⟩ := Res.bind_eq_ok hr
  simp only [Res.pure_eq, Res.ok.injEq, Prod.mk.injEq] at hr
  obtain ⟨rfl, rfl⟩ := hr
  intro hp
  refine @lexes_node p q (.ArrayLiteral p.curToken []) _ _ hp (fun _ _ h => by cases h)
    (fun _ _ h => by cases h) rfl (fun l0 => ih.expressionList _ _ _ _ hq l0) ?_
  intro _ hw
  simp only [lexedNode]
  exact wordToken_all_mono (Carries.of_setNode _ _ _ (fun _ _ h => by cases h)) _ hw

theorem lexes_parseExpressionList (fuel : Nat) (ih : ParserLexes fuel) (t : TokenType)
    (p : Parser) (r : List NodePtr) (p1 : Parser)
    (hr : parseExpressionList (fuel + 1) t p = .ok (r, p1)) : LexesAll p p1 r := by
  rw [parseExpressionList_unfold] at hr
  split_ifs at hr with hc
  · simp only [Res.ok.injEq, Prod.mk.injEq] at hr
    obtain ⟨rfl, rfl⟩ := hr
    exact fun hp => ⟨lexed_nextToken hp, Carries.carries_refl _, rfl⟩
  · obtain ⟨⟨e, q1⟩, hq1, hr⟩ := Res.bind_eq_ok hr
    obtain ⟨⟨list, q2⟩, hq2, hr⟩ := Res.bind_eq_ok hr
    dsimp only at hr
    intro hp
    obtain ⟨b1, b2, b3⟩ := ih.expression _ _ _ _ hq1 (lexed_nextToken hp)
    obtain ⟨c1, c2, c3⟩ := ih.expressionListLoop _ _ _ _ hq2
      (by simp only [List.all_cons, b3, List.all_nil, Bool.and_self]) b1
    have c4 : Carries p.nodes (q2.expectPeek t).2.nodes := by
      rw [expectPeek_nodes]; exact b2.carries_trans c2
    split_ifs at hr with h1
    · simp only [Res.pure_eq, Res.ok.injEq, Prod.mk.injEq] at hr
      obtain ⟨rfl, rfl⟩ := hr
      exact ⟨lexed_expectPeek c1 _, c4, rfl⟩
    · simp only [Res.pure_eq, Res.ok.injEq, Prod.mk.injEq] at hr
      obtain ⟨rfl, rfl⟩ := hr
      exact ⟨lexed_expectPeek c1 _, c4, by rw [expectPeek_nodes]; exact c3⟩

theorem lexes_parseExpressionListLoop (fuel : Nat) (ih : ParserLexes fuel) (l : List NodePtr)
    (p : Parser) (r : List NodePtr) (p1 : Parser)
    (hr : parseExpressionListLoop (fuel + 1) l p = .ok (r, p1))
    (hl : l.all (wordToken p.nodes) = true) : LexesAll p p1 r := by
  rw [parseExpressionListLoop_unfold] at hr
  split_ifs at hr with hc
  · obtain ⟨⟨e, q1⟩, hq1, hr⟩ := Res.bind_eq_ok hr
    intro hp
    obtain ⟨b1, b2, b3⟩ := ih.expression _ _ _ _ hq1 (lexed_nextToken (lexed_nextToken hp))
    obtain ⟨c1, c2, c3⟩ := ih.expressionListLoop _ _ _ _ hr
      (by
        rw [List.all_append, Bool.and_eq_true]
        exact ⟨wordToken_all_mono b2 _ hl,
          by simp only [List.all_cons, b3, List.all_nil, Bool.and_self]⟩) b1
    exact ⟨c1, b2.carries_trans c2, c3⟩
  · simp only [Res.ok.injEq, Prod.mk.injEq] at hr
    obtain ⟨rfl, rfl⟩ := hr
    exact fun hp => ⟨hp, Carries.carries_refl _, hl⟩

theorem lexes_parseHashLiteral (fuel : Nat) (ih : ParserLexes fuel) (p : Parser)
    (r : NodePtr) (p1 : Parser) (hr : parseHashLiteral (fuel + 1) p = .ok (r, p1)) :
    Lexes p p1 r := by
  rw [parseHashLiteral_unfold] at hr
  dsimp only at hr
  intro hp
  obtain ⟨a1, a2, a3⟩ := ih.hashLiteralLoop _ _ _ _ _ _ hr
    (wordToken_make _ _ (fun _ _ h => by cases h)) rfl
    (@lexed_make p (.HashLiteral p.curToken []) hp rfl)
  exact ⟨a1, (Carries.of_make _ _).carries_trans a2, a3⟩

theorem lexes_parseHashLiteralLoop (fuel : Nat) (ih : ParserLexes fuel) (tok : Token)
    (hash : Nat) (ps : List (NodePtr × NodePtr)) (p : Parser) (r : NodePtr) (p1 : Parser)
    (hr : parseHashLiteralLoop (fuel + 1) tok hash ps p = .ok (r, p1))
    (hh : wordToken p.nodes (some hash) = true)
    (hps : ps.all (fun kv => wordToken p.nodes kv.1 && wordToken p.nodes kv.2) = true) :
    Lexes p p1 r := by
  rw [parseHashLiteralLoop_unfold] at hr
  split_ifs at hr with hc
  · obtain ⟨⟨key, q1⟩, hq1, hr⟩ := Res.bind_eq_ok hr
    dsimp only at hr
    have m1 : Moves p (q1.expectPeek .COLON).2 :=
      ((moves_nextToken p).andThen (ih.expression _ _ _ _ hq1).lx_moves).andThen
        (moves_expectPeek _ _)
    split_ifs at hr with h1
    · simp only [Res.pure_eq, Res.ok.injEq, Prod.mk.injEq] at hr
      obtain ⟨rfl, rfl⟩ := hr
      exact m1.to_none
    · obtain ⟨⟨value, q2⟩, hq2, hr⟩ := Res.bind_eq_ok hr
      dsimp only at hr
      intro hp
      obtain ⟨b1, b2, b3⟩ := ih.expression _ _ _ _ hq1 (lexed_nextToken hp)
      obtain ⟨c1, c2, c3⟩ := ih.expression _ _ _ _ hq2
        (lexed_nextToken (lexed_expectPeek b1 .COLON))
      rw [nextToken_nodes, expectPeek_nodes] at c2
      rw [nextToken_nodes] at b2
      have hi : ∀ t v, Node.HashLiteral tok (ptrMapAssign key value ps) ≠ .Identifier t v :=
        fun _ _ h => by cases h
      have cs := Carries.of_setNode q2.nodes hash (.HashLiteral tok (ptrMapAssign key value ps)) hi
      have call : Carries p.nodes (q2.nodes.set hash (.HashLiteral tok (ptrMapAssign key value ps))) :=
        (b2.carries_trans c2).carries_trans cs
      have hpairs : (ptrMapAssign key value ps).all (fun kv =>
          wordToken (q2.nodes.set hash (.HashLiteral tok (ptrMapAssign key value ps))) kv.1
          && wordToken (q2.nodes.set hash (.HashLiteral tok (ptrMapAssign key value ps))) kv.2)
          = true := by
        rw [List.all_eq_true]
        intro kv hkv
        rw [Bool.and_eq_true]
        refine ptrMapAssign_all
          (fun x => wordToken (q2.nodes.set hash
            (.HashLiteral tok (ptrMapAssign key value ps))) x = true)
          (fun x => wordToken (q2.nodes.set hash
            (.HashLiteral tok (ptrMapAssign key value ps))) x = true)
          key value (cs _ (c2 _ b3)) (cs _ c3) ps ?_ kv hkv
        intro kv1 hkv1
        have := (List.all_eq_true.mp hps) kv1 hkv1
        rw [Bool.and_eq_true] at this
        exact ⟨call _ this.1, call _ this.2⟩
      have l3 : Lexed (q2.setNode hash (.HashLiteral tok (ptrMapAssign key value ps))) :=
        lexed_setNode c1 hi hpairs
      have hh3 : wordToken (q2.setNode hash (.HashLiteral tok (ptrMapAssign key value ps))).nodes
          (some hash) = true := call _ hh
      split_ifs at hr with h2 h3
      · simp only [Res.pure_eq, Res.ok.injEq, Prod.mk.injEq] at hr
        obtain ⟨rfl, rfl⟩ := hr
        exact ⟨lexed_expectPeek l3 _, by rw [expectPeek_nodes]; exact call, rfl⟩
      · obtain ⟨d1, d2, d3⟩ := ih.hashLiteralLoop _ _ _ _ _ _ hr
          (by rw [expectPeek_nodes]; exact hh3) (by rw [expectPeek_nodes]; exact hpairs)
          (lexed_expectPeek l3 _)
        rw [expectPeek_nodes] at d2
        exact ⟨d1, call.carries_trans d2, d3⟩
      · obtain ⟨d1, d2, d3⟩ := ih.hashLiteralLoop _ _ _ _ _ _ hr hh3 hpairs l3
        exact ⟨d1, call.carries_trans d2, d3⟩
  · dsimp only at hr
    split_ifs at hr with h1
    · simp only [Res.ok.injEq, Prod.mk.injEq] at hr
      obtain ⟨rfl, rfl⟩ := hr
      exact (moves_expectPeek _ _).to_none
    · simp only [Res.ok.injEq, Prod.mk.injEq] at hr
      obtain ⟨rfl, rfl⟩ := hr
      exact (moves_expectPeek _ _).to_kept hh

theorem lexes_parseBlockStatement (fuel : Nat) (ih : ParserLexes fuel) (p : Parser)
    (r : NodePtr) (p1 : Parser) (hr : parseBlockStatement (fuel + 1) p = .ok (r, p1)) :
    Lexes p p1 r := by
  rw [parseBlockStatement_unfold] at hr
  dsimp only at hr
  intro hp
  obtain ⟨a1, a2, a3⟩ := ih.blockStatementLoop _ _ _ _ _ _ hr
    (wordToken_make _ _ (fun _ _ h => by cases h))
    (lexed_nextToken (@lexed_make p (.BlockStatement p.curToken []) hp rfl))
  exact ⟨a1, (Carries.of_make _ _).carries_trans a2, a3⟩

theorem lexes_parseBlockStatementLoop (fuel : Nat) (ih : ParserLexes fuel) (tok : Token)
    (block : Nat) (ss : List NodePtr) (p : Parser) (r : NodePtr) (p1 : Parser)
    (hr : parseBlockStatementLoop (fuel + 1) tok block ss p = .ok (r, p1))
    (hb : wordToken p.nodes (some block) = true) : Lexes p p1 r := by
  rw [parseBlockStatementLoop_unfold] at hr
  split_ifs at hr with hc
  · obtain ⟨⟨stmt, q⟩, hq, hr⟩ := Res.bind_eq_ok hr
    dsimp only at hr
    intro hp
    obtain ⟨a1, a2, _⟩ := ih.statement _ _ _ hq hp
    have hi : ∀ (l : List NodePtr) t v, Node.BlockStatement tok l ≠ .Identifier t v :=
      fun _ _ _ h => by cases h
    obtain ⟨d1, d2, d3⟩ := ih.blockStatementLoop _ _ _ _ _ _ hr
      (wordToken_setNode _ (hi _) (a2 _ hb)) (lexed_nextToken (lexed_setNode a1 (hi _) rfl))
    exact ⟨d1, (a2.carries_trans (Carries.of_setNode _ _ _ (hi _))).carries_trans d2, d3⟩
  · simp only [Res.ok.injEq, Prod.mk.injEq] at hr
    obtain ⟨rfl, rfl⟩ := hr
    exact (Moves.mv_stay p).to_kept hb

theorem moves_parseFunctionParametersLoop : ∀ (fuel : Nat) (ids : List NodePtr) (p : Parser)
    (r : List NodePtr) (p1 : Parser),
    parseFunctionParametersLoop fuel ids p = .ok (r, p1) → Moves p p1 := by
  intro fuel
  induction fuel with
  | zero => intro ids p r p1 hr; cases hr
  | succ fuel ih =>
    intro ids p r p1 hr
    rw [parseFunctionParametersLoop_unfold] at hr
    split_ifs at hr with hc
    · dsimp only at hr
      have m := ih _ _ _ _ hr
      intro hp
      have l1 := lexed_nextToken (lexed_nextToken hp)
      obtain ⟨a1, a2⟩ := m (lexed_make l1 (by
        simp only [lexedNode, decide_True, Bool.true_and]
        exact l1.1))
      exact ⟨a1, (Carries.of_make _ _).carries_trans a2⟩
    · simp only [Res.ok.injEq, Prod.mk.injEq] at hr
      obtain ⟨rfl, rfl⟩ := hr
      exact Moves.mv_stay p

theorem moves_parseFunctionParameters (fuel : Nat) (p : Parser) (r : List NodePtr)
    (p1 : Parser) (hr : parseFunctionParameters fuel p = .ok (r, p1)) : Moves p p1 := by
  simp only [parseFunctionParameters] at hr
  split_ifs at hr with hc
  · simp only [Res.ok.injEq, Prod.mk.injEq] at hr
    obtain ⟨rfl, rfl⟩ := hr
    exact moves_nextToken p
  · split at hr
    · next ids q hq =>
      have m : Moves p (q.expectPeek .RPAREN).2 := by
        intro hp
        have l1 := lexed_nextToken hp
        obtain ⟨a1, a2⟩ := moves_parseFunctionParametersLoop _ _ _ _ _ hq (lexed_make l1 (by
          simp only [lexedNode, decide_True, Bool.true_and]
          exact l1.1))
        exact ⟨lexed_expectPeek a1 _,
          by rw [expectPeek_nodes]; exact (Carries.of_make _ _).carries_trans a2⟩
      split_ifs at hr with h1
      · simp only [Res.ok.injEq, Prod.mk.injEq] at hr
        obtain ⟨rfl, rfl⟩ := hr
        exact m
      · simp only [Res.ok.injEq, Prod.mk.injEq] at hr
        obtain ⟨rfl, rfl⟩ := hr
        exact m
    · exact Res.noConfusion hr
    · exact Res.noConfusion hr

theorem lexes_parseIfExpression (fuel : Nat) (ih : ParserLexes fuel) (p : Parser)
    (r : NodePtr) (p1 : Parser) (hr : parseIfExpression (fuel + 1) p = .ok (r, p1)) :
    Lexes p p1 r := by
  rw [parseIfExpression_unfold] at hr
  dsimp only at hr
  have hn : ∀ (a b c : NodePtr) (cl : Bool) (hp : NodeHeap),
      lexedNode cl hp (.IfExpression p.curToken a b c) = true := fun _ _ _ _ _ => rfl
  have hi : ∀ (a b c : NodePtr) t v,
      Node.IfExpression p.curToken a b c ≠ .Identifier t v := fun _ _ _ _ _ h => by cases h
  have m0 := moves_make p (.IfExpression p.curToken none none none) (hn _ _ _)
  split_ifs at hr with h1
  · simp only [Res.ok.injEq, Prod.mk.injEq] at hr
    obtain ⟨rfl, rfl⟩ := hr
    exact (m0.andThen (moves_expectPeek _ _)).to_none
  · obtain ⟨⟨condition, q1⟩, hq1, hr⟩ := Res.bind_eq_ok hr
    dsimp only at hr
    have m2 : Moves (p.make (.IfExpression p.curToken none none none)).2
        (q1.setNode p.nodes.length (.IfExpression p.curToken condition none none)) :=
      (((moves_expectPeek _ _).andThen (moves_nextToken _)).andThen
        (ih.expression _ _ _ _ hq1).lx_moves).andThen (moves_setNode _ _ _ (hi _ _ _) (hn _ _ _))
    split_ifs at hr with h2 h3
    · simp only [Res.pure_eq, Res.ok.injEq, Prod.mk.injEq] at hr
      obtain ⟨rfl, rfl⟩ := hr
      exact (m0.andThen (m2.andThen (moves_expectPeek _ _))).to_none
    · simp only [Res.pure_eq, Res.ok.injEq, Prod.mk.injEq] at hr
      obtain ⟨rfl, rfl⟩ := hr
      exact (m0.andThen ((m2.andThen (moves_expectPeek _ _)).andThen
        (moves_expectPeek _ _))).to_none
    · obtain ⟨⟨consequence, q3⟩, hq3, hr⟩ := Res.bind_eq_ok hr
      dsimp only at hr
      have m4 : Moves (p.make (.IfExpression p.curToken none none none)).2
          (q3.setNode p.nodes.length (.IfExpression p.curToken condition consequence none)) :=
        (((m2.andThen (moves_expectPeek _ _)).andThen (moves_expectPeek _ _)).andThen
          (ih.blockStatement _ _ _ hq3).lx_moves).andThen
          (moves_setNode _ _ _ (hi _ _ _) (hn _ _ _))
      split_ifs at hr with h4 h5
      · simp only [Res.pure_eq, Res.ok.injEq, Prod.mk.injEq] at hr
        obtain ⟨rfl, rfl⟩ := hr
        exact (m0.andThen ((m4.andThen (moves_nextToken _)).andThen
          (moves_expectPeek _ _))).to_none
      · obtain ⟨⟨alternative, q5⟩, hq5, hr⟩ := Res.bind_eq_ok hr
        simp only [Res.pure_eq, Res.ok.injEq, Prod.mk.injEq] at hr
        obtain ⟨rfl, rfl⟩ := hr
        exact Moves.to_made (hn _ _ _) (hi _ _ _)
          ((((m4.andThen (moves_nextToken _)).andThen (moves_expectPeek _ _)).andThen
            (ih.blockStatement _ _ _ hq5).lx_moves).andThen
            (moves_setNode _ _ _ (hi _ _ _) (hn _ _ _)))
      · simp only [Res.pure_eq, Res.ok.injEq, Prod.mk.injEq] at hr
        obtain ⟨rfl, rfl⟩ := hr
        exact Moves.to_made (hn _ _ _) (hi _ _ _) m4

theorem lexes_parseFunctionLiteral (fuel : Nat) (ih : ParserLexes fuel) (p : Parser)
    (r : NodePtr) (p1 : Parser) (hr : parseFunctionLiteral (fuel + 1) p = .ok (r, p1)) :
    Lexes p p1 r := by
  rw [parseFunctionLiteral_unfold] at hr
  dsimp only at hr
  have hn : ∀ (a : List NodePtr) (b : NodePtr) (cl : Bool) (hp : NodeHeap),
      lexedNode cl hp (.FunctionLiteral p.curToken a b) = true := fun _ _ _ _ => rfl
  have hi : ∀ (a : List NodePtr) (b : NodePtr) t v,
      Node.FunctionLiteral p.curToken a b ≠ .Identifier t v := fun _ _ _ _ h => by cases h
  have m0 := moves_make p (.FunctionLiteral p.curToken [] none) (hn _ _)
  split_ifs at hr with h1
  · simp only [Res.ok.injEq, Prod.mk.injEq] at hr
    obtain ⟨rfl, rfl⟩ := hr
    exact (m0.andThen (moves_expectPeek _ _)).to_none
  · obtain ⟨⟨parameters, q1⟩, hq1, hr⟩ := Res.bind_eq_ok hr
    dsimp only at hr
    have m2 : Moves (p.make (.FunctionLiteral p.curToken [] none)).2
        ((q1.setNode p.nodes.length (.FunctionLiteral p.curToken parameters none)).expectPeek
          .LBRACE).2 :=
      (((moves_expectPeek _ _).andThen (moves_parseFunctionParameters _ _ _ _ hq1)).andThen
        (moves_setNode _ _ _ (hi _ _) (hn _ _))).andThen (moves_expectPeek _ _)
    split_ifs at hr with h2
    · simp only [Res.pure_eq, Res.ok.injEq, Prod.mk.injEq] at hr
      obtain ⟨rfl, rfl⟩ := hr
      exact (m0.andThen m2).to_none
    · obtain ⟨⟨body, q3⟩, hq3, hr⟩ := Res.bind_eq_ok hr
      simp only [Res.pure_eq, Res.ok.injEq, Prod.mk.injEq] at hr
      obtain ⟨rfl, rfl⟩ := hr
      exact Moves.to_made (hn _ _) (hi _ _)
        ((m2.andThen (ih.blockStatement _ _ _ hq3).lx_moves).andThen
          (moves_setNode _ _ _ (hi _ _) (hn _ _)))

theorem lexes_parseMacroLiteral (fuel : Nat) (ih : ParserLexes fuel) (p : Parser)
    (r : NodePtr) (p1 : Parser) (hr : parseMacroLiteral (fuel + 1) p = .ok (r, p1)) :
    Lexes p p1 r := by
  rw [parseMacroLiteral_unfold] at hr
  dsimp only at hr
  have hn : ∀ (a : List NodePtr) (b : NodePtr) (cl : Bool) (hp : NodeHeap),
      lexedNode cl hp (.MacroLiteral p.curToken a b) = true := fun _ _ _ _ => rfl
  have hi : ∀ (a : List NodePtr) (b : NodePtr) t v,
      Node.MacroLiteral p.curToken a b ≠ .Identifier t v := fun _ _ _ _ h => by cases h
  have m0 := moves_make p (.MacroLiteral p.curToken [] none) (hn _ _)
  split_ifs at hr with h1
  · simp only [Res.ok.injEq, Prod.mk.injEq] at hr
    obtain ⟨rfl, rfl⟩ := hr
    exact (m0.andThen (moves_expectPeek _ _)).to_none
  · obtain ⟨⟨parameters, q1⟩, hq1, hr⟩ := Res.bind_eq_ok hr
    dsimp only at hr
    have m2 : Moves (p.make (.MacroLiteral p.curToken [] none)).2
        ((q1.setNode p.nodes.length (.MacroLiteral p.curToken parameters none)).expectPeek
          .LBRACE).2 :=
      (((moves_expectPeek _ _).andThen (moves_parseFunctionParameters _ _ _ _ hq1)).andThen
        (moves_setNode _ _ _ (hi _ _) (hn _ _))).andThen (moves_expectPeek _ _)
    split_ifs at hr with h2
    · simp only [Res.pure_eq, Res.ok.injEq, Prod.mk.injEq] at hr
      obtain ⟨rfl, rfl⟩ := hr
      exact (m0.andThen m2).to_none
    · obtain ⟨⟨body, q3⟩, hq3, hr⟩ := Res.bind_eq_ok hr
      simp only [Res.pure_eq, Res.ok.injEq, Prod.mk.injEq] at hr
      obtain ⟨rfl, rfl⟩ := hr
      exact Moves.to_made (hn _ _) (hi _ _)
        ((m2.andThen (ih.blockStatement _ _ _ hq3).lx_moves).andThen
          (moves_setNode _ _ _ (hi _ _) (hn _ _)))

theorem keyword_literal {t : Token} (h : lexedToken t = true) :
    (t.type = .LET → t.literal = "let") ∧ (t.type = .RETURN → t.literal = "return") := by
  obtain ⟨ty, lit⟩ := t
  constructor
  · intro ht
    cases ht
    simpa [lexedToken] using h
  · intro ht
    cases ht
    simpa [lexedToken] using h

theorem lexes_parseExpressionStatement (fuel : Nat) (ih : ParserLexes fuel) (p : Parser)
    (r : NodePtr) (p1 : Parser)
    (hr : parseExpressionStatement (fuel + 1) p = .ok (r, p1)) : Lexes p p1 r := by
  rw [parseExpressionStatement_unfold] at hr
  obtain ⟨⟨e, q⟩, hq, hr⟩ := Res.bind_eq_ok hr
  simp only [Res.pure_eq, Res.ok.injEq, Prod.mk.injEq] at hr
  obtain ⟨rfl, rfl⟩ := hr
  intro hp
  obtain ⟨a1, a2, a3⟩ := @lexes_node p q (.ExpressionStatement p.curToken none)
    (.ExpressionStatement p.curToken e) _ hp (fun _ _ h => by cases h)
    (fun _ _ h => by cases h) rfl (fun l0 => ih.expression _ _ _ _ hq l0)
    (fun _ hw => by
      simp only [lexedNode]
      exact wordToken_setNode _ (fun _ _ h => by cases h) hw)
  rw [make_fst]
  split_ifs
  · exact ⟨lexed_nextToken a1, a2, a3⟩
  · exact ⟨a1, a2, a3⟩

theorem lexes_parseReturnStatement (fuel : Nat) (ih : ParserLexes fuel) (p : Parser)
    (r : NodePtr) (p1 : Parser)
    (hr : parseReturnStatement (fuel + 1) p = .ok (r, p1))
    (ht : p.curToken.type = .RETURN) : Lexes p p1 r := by
  rw [parseReturnStatement_unfold] at hr
  obtain ⟨⟨e, q⟩, hq, hr⟩ := Res.bind_eq_ok hr
  simp only [Res.pure_eq, Res.ok.injEq, Prod.mk.injEq] at hr
  obtain ⟨rfl, rfl⟩ := hr
  intro hp
  have hlit := (keyword_literal hp.1).2 ht
  obtain ⟨a1, a2, a3⟩ := @lexes_node p q (.ReturnStatement p.curToken none)
    (.ReturnStatement p.curToken e) _ hp (fun _ _ h => by cases h)
    (fun _ _ h => by cases h)
    (by simp only [lexedNode, hlit, decide_True, Bool.true_and]; rfl)
    (fun l0 => ih.expression _ _ _ _ hq (lexed_nextToken l0))
    (fun _ hw => by
      simp only [lexedNode, hlit, decide_True, Bool.true_and]
      exact wordToken_setNode _ (fun _ _ h => by cases h) hw)
  rw [make_fst]
  split_ifs
  · exact ⟨lexed_nextToken a1, a2, a3⟩
  · exact ⟨a1, a2, a3⟩

theorem lexes_parseLetStatement (fuel : Nat) (ih : ParserLexes fuel) (p : Parser)
    (r : NodePtr) (p1 : Parser)
    (hr : parseLetStatement (fuel + 1) p = .ok (r, p1))
    (ht : p.curToken.type = .LET) : Lexes p p1 r := by
  rw [parseLetStatement_unfold] at hr
  dsimp only at hr
  intro hp
  have hlit := (keyword_literal hp.1).1 ht
  have hi : ∀ (a b : NodePtr) t v, Node.LetStatement p.curToken a b ≠ .Identifier t v :=
    fun _ _ _ _ h => by cases h
  have hn : ∀ (a b : NodePtr) (c : Bool) (h : NodeHeap), wordToken h a = true →
      wordToken h b = true → lexedNode c h (.LetStatement p.curToken a b) = true := by
    intro a b c h wa wb
    simp only [lexedNode, hlit, decide_True, Bool.true_and, wa, wb, Bool.and_self]
  have l0 : Lexed (p.make (.LetStatement p.curToken none none)).2 :=
    lexed_make hp (hn _ _ _ _ rfl rfl)
  have c0 : Carries p.nodes
      ((p.make (.LetStatement p.curToken none none)).2.expectPeek .IDENT).2.nodes := by
    rw [expectPeek_nodes]; exact Carries.of_make _ _
  have w0 : wordToken ((p.make (.LetStatement p.curToken none none)).2.expectPeek .IDENT).2.nodes
      (some p.nodes.length) = true := by
    rw [expectPeek_nodes]; exact wordToken_make _ _ (hi _ _)
  have l1 := lexed_expectPeek l0 .IDENT
  split_ifs at hr with h1 h2
  · simp only [Res.ok.injEq, Prod.mk.injEq] at hr
    obtain ⟨rfl, rfl⟩ := hr
    exact ⟨l1, c0, rfl⟩
  · have hcur := expectPeek_curToken h1
    rw [make_fst, make_fst] at hr
    generalize ((p.make (.LetStatement p.curToken none none)).2.expectPeek .IDENT).2 = s1
      at hr c0 w0 l1 hcur
    have lname : Lexed (s1.make (.Identifier s1.curToken s1.curToken.literal)).2 :=
      lexed_make l1 (by
        simp only [lexedNode, decide_True, Bool.true_and]
        exact l1.1)
    have wname : wordToken (s1.nodes ++ [.Identifier s1.curToken s1.curToken.literal])
        (some s1.nodes.length) = true := by
      simp only [wordToken, list_get_append_self, hcur, decide_True]
    have l2 : Lexed ((s1.make (.Identifier s1.curToken s1.curToken.literal)).2.setNode
        p.nodes.length (.LetStatement p.curToken (some s1.nodes.length) none)) :=
      lexed_setNode lname (hi _ _) (hn _ _ _ _ (wordToken_setNode _ (hi _ _) wname) rfl)
    have c2 : Carries p.nodes (((s1.make (.Identifier s1.curToken s1.curToken.literal)).2.setNode
        p.nodes.length (.LetStatement p.curToken (some s1.nodes.length) none)).expectPeek
          .ASSIGN).2.nodes := by
      rw [expectPeek_nodes]
      exact (c0.carries_trans (Carries.of_make _ _)).carries_trans
        (Carries.of_setNode _ _ _ (hi _ _))
    simp only [Res.pure_eq, Res.ok.injEq, Prod.mk.injEq] at hr
    obtain ⟨rfl, rfl⟩ := hr
    exact ⟨lexed_expectPeek l2 .ASSIGN, c2, rfl⟩
  · have hcur := expectPeek_curToken h1
    rw [make_fst, make_fst] at hr
    generalize ((p.make (.LetStatement p.curToken none none)).2.expectPeek .IDENT).2 = s1
      at hr c0 w0 l1 hcur
    have lname : Lexed (s1.make (.Identifier s1.curToken s1.curToken.literal)).2 :=
      lexed_make l1 (by
        simp only [lexedNode, decide_True, Bool.true_and]
        exact l1.1)
    have wname : wordToken (s1.nodes ++ [.Identifier s1.curToken s1.curToken.literal])
        (some s1.nodes.length) = true := by
      simp only [wordToken, list_get_append_self, hcur, decide_True]
    have l2 : Lexed ((s1.make (.Identifier s1.curToken s1.curToken.literal)).2.setNode
        p.nodes.length (.LetStatement p.curToken (some s1.nodes.length) none)) :=
      lexed_setNode lname (hi _ _) (hn _ _ _ _ (wordToken_setNode _ (hi _ _) wname) rfl)
    have c2 : Carries p.nodes (((s1.make (.Identifier s1.curToken s1.curToken.literal)).2.setNode
        p.nodes.length (.LetStatement p.curToken (some s1.nodes.length) none)).expectPeek
          .ASSIGN).2.nodes := by
      rw [expectPeek_nodes]
      exact (c0.carries_trans (Carries.of_make _ _)).carries_trans
        (Carries.of_setNode _ _ _ (hi _ _))
    have wn2 : wordToken (((s1.make (.Identifier s1.curToken s1.curToken.literal)).2.setNode
        p.nodes.length (.LetStatement p.curToken (some s1.nodes.length) none)).expectPeek
          .ASSIGN).2.nodes (some s1.nodes.length) = true := by
      rw [expectPeek_nodes]
      exact wordToken_setNode _ (hi _ _) wname
    have ws2 : wordToken (((s1.make (.Identifier s1.curToken s1.curToken.literal)).2.setNode
        p.nodes.length (.LetStatement p.curToken (some s1.nodes.length) none)).expectPeek
          .ASSIGN).2.nodes (some p.nodes.length) = true := by
      rw [expectPeek_nodes]
      exact wordToken_setNode _ (hi _ _) (Carries.of_make _ _ _ w0)
    have l3 := lexed_expectPeek l2 .ASSIGN
    generalize (((s1.make (.Identifier s1.curToken s1.curToken.literal)).2.setNode
        p.nodes.length (.LetStatement p.curToken (some s1.nodes.length) none)).expectPeek
          .ASSIGN).2 = s3 at hr c2 wn2 ws2 l3
    obtain ⟨⟨value, q⟩, hq, hr⟩ := Res.bind_eq_ok hr
    simp only [Res.pure_eq, Res.ok.injEq, Prod.mk.injEq] at hr
    obtain ⟨rfl, rfl⟩ := hr
    obtain ⟨b1, b2, b3⟩ := ih.expression _ _ _ _ hq (lexed_nextToken l3)
    rw [nextToken_nodes] at b2
    have cs := Carries.of_setNode q.nodes p.nodes.length
      (.LetStatement p.curToken (some s1.nodes.length) value) (hi _ _)
    have l5 : Lexed (q.setNode p.nodes.length
        (.LetStatement p.curToken (some s1.nodes.length) value)) :=
      lexed_setNode b1 (hi _ _) (hn _ _ _ _ (cs _ (b2 _ wn2)) (cs _ b3))
    have c5 : Carries p.nodes (q.setNode p.nodes.length
        (.LetStatement p.curToken (some s1.nodes.length) value)).nodes :=
      (c2.carries_trans b2).carries_trans cs
    have w5 : wordToken (q.setNode p.nodes.length
        (.LetStatement p.curToken (some s1.nodes.length) value)).nodes
        (some p.nodes.length) = true := cs _ (b2 _ ws2)
    split_ifs
    · exact ⟨lexed_nextToken l5, c5, w5⟩
    · exact ⟨l5, c5, w5⟩

theorem lexes_parseStatement (fuel : Nat) (ih : ParserLexes fuel) (p : Parser)
    (r : NodePtr) (p1 : Parser) (hr : parseStatement (fuel + 1) p = .ok (r, p1)) :
    Lexes p p1 r := by
  rw [parseStatement_unfold] at hr
  split at hr
  · next ht => exact ih.letStatement _ _ _ hr ht
  · next ht => exact ih.returnStatement _ _ _ hr ht
  · exact ih.expressionStatement _ _ _ hr

/-- Every member of the parser keeps the tokens of the nodes as the lexer reads
them. -/
theorem parserLexes : ∀ fuel : Nat, ParserLexes fuel := by
  intro fuel
  induction fuel with
  | zero =>
    exact {
      statement := fun _ _ _ hr => Res.noConfusion hr
      letStatement := fun _ _ _ hr => Res.noConfusion hr
      returnStatement := fun _ _ _ hr => Res.noConfusion hr
      expressionStatement := fun _ _ _ hr => Res.noConfusion hr
      expression := fun _ _ _ _ hr => Res.noConfusion hr
      expressionLoop := fun _ _ _ _ _ hr => Res.noConfusion hr
      arrayLiteral := fun _ _ _ hr => Res.noConfusion hr
      expressionList := fun _ _ _ _ hr => Res.noConfusion hr
      expressionListLoop := fun _ _ _ _ hr => Res.noConfusion hr
      indexExpression := fun _ _ _ _ hr => Res.noConfusion hr
      hashLiteral := fun _ _ _ hr => Res.noConfusion hr
      hashLiteralLoop := fun _ _ _ _ _ _ hr => Res.noConfusion hr
      macroLiteral := fun _ _ _ hr => Res.noConfusion hr
      prefixExpression := fun _ _ _ hr => Res.noConfusion hr
      infixExpression := fun _ _ _ _ hr => Res.noConfusion hr
      groupedExpression := fun _ _ _ hr => Res.noConfusion hr
      ifExpression := fun _ _ _ hr => Res.noConfusion hr
      blockStatement := fun _ _ _ hr => Res.noConfusion hr
      blockStatementLoop := fun _ _ _ _ _ _ hr => Res.noConfusion hr
      functionLiteral := fun _ _ _ hr => Res.noConfusion hr
      callExpression := fun _ _ _ _ hr => Res.noConfusion hr }
  | succ fuel ih =>
    exact {
      statement := lexes_parseStatement fuel ih
      letStatement := lexes_parseLetStatement fuel ih
      returnStatement := lexes_parseReturnStatement fuel ih
      expressionStatement := lexes_parseExpressionStatement fuel ih
      expression := lexes_parseExpression fuel ih
      expressionLoop := lexes_parseExpressionLoop fuel ih
      arrayLiteral := lexes_parseArrayLiteral fuel ih
      expressionList := lexes_parseExpressionList fuel ih
      expressionListLoop := lexes_parseExpressionListLoop fuel ih
      indexExpression := lexes_parseIndexExpression fuel ih
      hashLiteral := lexes_parseHashLiteral fuel ih
      hashLiteralLoop := lexes_parseHashLiteralLoop fuel ih
      macroLiteral := lexes_parseMacroLiteral fuel ih
      prefixExpression := lexes_parsePrefixExpression fuel ih
      infixExpression := lexes_parseInfixExpression fuel ih
      groupedExpression := lexes_parseGroupedExpression fuel ih
      ifExpression := lexes_parseIfExpression fuel ih
      blockStatement := lexes_parseBlockStatement fuel ih
      blockStatementLoop := lexes_parseBlockStatementLoop fuel ih
      functionLiteral := lexes_parseFunctionLiteral fuel ih
      callExpression := lexes_parseCallExpression fuel ih }

theorem moves_parseProgramLoop :
    ∀ (fuel program : Nat) (ss : List NodePtr) (p : Parser) (r : Nat) (p1 : Parser),
      parseProgramLoop fuel program ss p = .ok (r, p1) → Moves p p1 := by
  intro fuel
  induction fuel with
  | zero => intro program ss p r p1 hr; exact Res.noConfusion hr
  | succ fuel ih =>
    intro program ss p r p1 hr
    rw [parseProgramLoop_unfold] at hr
    split_ifs at hr with hc
    · split at hr
      · next stmt q hq =>
        dsimp only at hr
        have hi : ∀ (l : List NodePtr) t v, Node.Program l ≠ .Identifier t v :=
          fun _ _ _ h => by cases h
        have hn : ∀ (l : List NodePtr) (c : Bool) (hp : NodeHeap),
            lexedNode c hp (.Program l) = true := fun _ _ _ => rfl
        exact (((parserLexes fuel).statement _ _ _ hq).lx_moves.andThen
          ((moves_setNode _ _ _ (hi _) (hn _)).andThen
            (moves_nextToken _))).andThen (ih _ _ _ _ _ hr)
      · exact Res.noConfusion hr
      · exact Res.noConfusion hr
    · simp only [Res.ok.injEq, Prod.mk.injEq] at hr
      obtain ⟨rfl, rfl⟩ := hr
      exact Moves.mv_stay p

/-- The heap that an error-free parse of a source text leaves holds only nodes
whose tokens are as the lexer reads them. -/
theorem parseSource_lexed (fuel : Nat) (input : String) (prog : Nat) (p : Parser)
    (h : parseSource fuel input = .ok (prog, p)) (he : p.errors = []) :
    lexedHeap true p.nodes := by
  simp only [parseSource, parseProgram] at h
  have l0 := lexed_new (Lexer.new input.data)
  obtain ⟨l1, _⟩ := moves_parseProgramLoop _ _ _ _ _ _ h
    (@lexed_make _ (.Program []) l0 rfl)
  have := l1.2.2
  rw [he] at this
  exact this

theorem identifier_of_lexed {H : NodeHeap} {a : Nat} {tok : Token} {v : String}
    (hH : lexedHeap true H) (hg : H.get? a = some (.Identifier tok v))
    (hw : wordToken H (some a) = true) : isIdentifier v = true := by
  have h1 := hH a _ hg
  simp only [lexedNode, Bool.and_eq_true, decide_eq_true_eq] at h1
  simp only [wordToken, hg, decide_eq_true_eq] at hw
  obtain ⟨ty, lit⟩ := tok
  simp only at hw h1
  subst hw
  rw [h1.1]
  simpa [lexedToken] using h1.2

/-- In a heap of lexed nodes an expression of the kinds of `simpleExpression`
is one of the class `plainExpression`. -/
theorem plain_of_simple_expression {H : NodeHeap} (hH : lexedHeap true H) :
    ∀ (d : Nat) (x : NodePtr), simpleExpression H d x = true → wordToken H x = true →
      plainExpression H d x = true := by
  intro d
  induction d with
  | zero => intro x h; simp [simpleExpression] at h
  | succ d ih =>
    intro x h hw
    cases x with
    | none => simp [simpleExpression] at h
    | some a =>
      rw [simpleExpression] at h
      rw [plainExpression]
      cases hg : H.get? a with
      | none => rw [hg] at h; simp at h
      | some node =>
        rw [hg] at h
        have hn := hH a node hg
        have hlist : ∀ xs : List NodePtr, xs.all (simpleExpression H d) = true →
            xs.all (wordToken H) = true → xs.all (plainExpression H d) = true := by
          intro xs h1 h2
          rw [List.all_eq_true] at h1 h2 ⊢
          exact fun y hy => ih y (h1 y hy) (h2 y hy)
        cases node with
        | Identifier tok value =>
          exact identifier_of_lexed hH hg hw
        | IntegerLiteral tok value =>
          simpa [lexedNode] using hn
        | Boolean tok value =>
          simpa [lexedNode] using hn
        | PrefixExpression tok op right =>
          simp only [lexedNode, Bool.and_eq_true, decide_eq_true_eq] at hn
          simp only at h
          simp only [Bool.and_eq_true, decide_eq_true_eq]
          exact ⟨hn.1, ih right h hn.2⟩
        | InfixExpression tok left op right =>
          simp only [lexedNode, Bool.and_eq_true, decide_eq_true_eq] at hn
          simp only [Bool.and_eq_true] at h
          simp only [Bool.and_eq_true, decide_eq_true_eq]
          exact ⟨⟨hn.1.1, ih left h.1 hn.1.2⟩, ih right h.2 hn.2⟩
        | IndexExpression tok left index =>
          simp only [lexedNode, Bool.and_eq_true] at hn
          simp only [Bool.and_eq_true] at h
          simp only [Bool.and_eq_true]
          exact ⟨ih left h.1 hn.1, ih index h.2 hn.2⟩
        | CallExpression tok function arguments =>
          simp only [lexedNode, Bool.and_eq_true] at hn
          simp only [Bool.and_eq_true] at h
          simp only [Bool.and_eq_true]
          exact ⟨ih function h.1 hn.1, hlist arguments h.2 hn.2⟩
        | ArrayLiteral tok elements =>
          simp only [lexedNode] at hn
          simp only at h
          exact hlist elements h hn
        | HashLiteral tok pairs =>
          cases pairs with
          | nil => rfl
          | cons kv rest =>
            cases rest with
            | nil =>
              simp only [lexedNode, List.all_cons, List.all_nil, Bool.and_true,
                Bool.and_eq_true] at hn
              simp only [Bool.and_eq_true] at h ⊢
              exact ⟨ih kv.1 h.1 hn.1, ih kv.2 h.2 hn.2⟩
            | cons kv2 rest2 => simp at h
        | _ => simp at h

theorem plain_of_simple_statement {H : NodeHeap} (hH : lexedHeap true H) (d : Nat)
    (x : NodePtr) (h : simpleStatement H d x = true) : plainStatement H d x = true := by
  cases x with
  | none => simp [simpleStatement] at h
  | some a =>
    rw [simpleStatement] at h
    rw [plainStatement]
    cases hg : H.get? a with
    | none => rw [hg] at h; simp at h
    | some node =>
      rw [hg] at h
      have hn := hH a node hg
      cases node with
      | LetStatement tok name value =>
        cases name with
        | none => simp at h
        | some b =>
          simp only [lexedNode, Bool.and_eq_true, decide_eq_true_eq] at hn
          simp only [Bool.and_eq_true] at h
          simp only [Bool.and_eq_true, decide_eq_true_eq]
          refine ⟨⟨hn.1.1, ?_⟩, plain_of_simple_expression hH d value h.2 hn.2⟩
          cases hgb : H.get? b with
          | none => rw [hgb] at h; simp at h
          | some nb =>
            rw [hgb] at h
            cases nb with
            | Identifier tb v => exact identifier_of_lexed hH hgb hn.1.2
            | _ => simp at h
      | ReturnStatement tok value =>
        simp only [lexedNode, Bool.and_eq_true, decide_eq_true_eq] at hn
        simp only at h
        simp only [Bool.and_eq_true, decide_eq_true_eq]
        exact ⟨hn.1, plain_of_simple_expression hH d value h hn.2⟩
      | ExpressionStatement tok e =>
        simp only [lexedNode] at hn
        simp only at h
        exact plain_of_simple_expression hH d e h hn
      | _ => simp at h

theorem plain_of_simple_program {H : NodeHeap} (hH : lexedHeap true H) (d program : Nat)
    (h : simpleProgram H d program = true) : plainProgram H d program = true := by
  rw [simpleProgram] at h
  rw [plainProgram]
  cases hg : H.get? program with
  | none => rw [hg] at h; simp at h
  | some node =>
    rw [hg] at h
    cases node with
    | Program stmts =>
      simp only [Bool.and_eq_true] at h ⊢
      refine ⟨?_, h.2⟩
      rw [List.all_eq_true] at h ⊢
      exact fun x hx => plain_of_simple_statement hH d x (h.1 x hx)
    | _ => simp at h

/-- C7, amended: let the source `src` parse with no error on record to the
program `program`, and let the statements of that program be `let` statements,
`return` statements and expression statements over identifiers, integer and
boolean literals, prefix and binary operations, index expressions, calls with
any number of arguments, array literals and hash literals with at most one
pair, nested in any way to any depth `d` (`simpleProgram`, which looks at the
kinds of the nodes only), none of them an expression statement directly
followed by a statement whose text opens with `(` or `[`. Then
`Program.String()` returns a text `s`, and parsing `s` records no error and
gives a program whose `String()` is `s` again; "returns" means that every
amount of fuel from some bound on gives the result. -/
theorem printed_program_parses_back (src : String) (fuel d program : Nat) (p : Parser)
    (hparse : parseSource fuel src = .ok (program, p)) (herr : p.errors = [])
    (hkinds : simpleProgram p.nodes d program = true) :
    ∃ s, Returns (fun n => nodeString n p.nodes (some program)) s
      ∧ Returns (fun n => parseToString n s) (s, []) :=
  plainProgram_parsesBack p.nodes d program
    (plain_of_simple_program (parseSource_lexed fuel src program p hparse herr) d program hkinds)

/-- The theorem for C7 applied to a source of five statements with a call of
two arguments, an array literal, index expressions, prefix and binary
operations and two hash literals, which parses without error to a program of
the kinds of `simpleProgram`; and the two parses evaluated on this source and
on its printed text. -/
theorem printed_program_parses_back_witness :
    parseSource 60 "let x = f(1, [2, a])[0]; return -x + 3 * y; g(true, !b); let h = \x7bk: h(x)\x7d[k]; \x7b\x7d"
      = .ok (0, parsedOf "let x = f(1, [2, a])[0]; return -x + 3 * y; g(true, !b); let h = \x7bk: h(x)\x7d[k]; \x7b\x7d")
    ∧ (parsedOf "let x = f(1, [2, a])[0]; return -x + 3 * y; g(true, !b); let h = \x7bk: h(x)\x7d[k]; \x7b\x7d").errors = []
    ∧ simpleProgram
        (parsedOf "let x = f(1, [2, a])[0]; return -x + 3 * y; g(true, !b); let h = \x7bk: h(x)\x7d[k]; \x7b\x7d").nodes 8 0 = true
    ∧ (∃ s, Returns (fun n => nodeString n
          (parsedOf "let x = f(1, [2, a])[0]; return -x + 3 * y; g(true, !b); let h = \x7bk: h(x)\x7d[k]; \x7b\x7d").nodes (some 0)) s
        ∧ Returns (fun n => parseToString n s) (s, []))
    ∧ parseToString 60 "let x = f(1, [2, a])[0]; return -x + 3 * y; g(true, !b); let h = \x7bk: h(x)\x7d[k]; \x7b\x7d"
        = .ok ("let x = (f(1, [2, a])[0]);\nreturn ((-x) + (3 * y));\ng(true, (!b))\nlet h = (\x7bk: h(x)\x7d[k]);\n\x7b\x7d\n", [])
    ∧ parseToString 60 "let x = (f(1, [2, a])[0]);\nreturn ((-x) + (3 * y));\ng(true, (!b))\nlet h = (\x7bk: h(x)\x7d[k]);\n\x7b\x7d\n"
        = .ok ("let x = (f(1, [2, a])[0]);\nreturn ((-x) + (3 * y));\ng(true, (!b))\nlet h = (\x7bk: h(x)\x7d[k]);\n\x7b\x7d\n", []) :=
  ⟨by decide!, by decide!, by decide!,
    printed_program_parses_back "let x = f(1, [2, a])[0]; return -x + 3 * y; g(true, !b); let h = \x7bk: h(x)\x7d[k]; \x7b\x7d" 60 8 0
      (parsedOf "let x = f(1, [2, a])[0]; return -x + 3 * y; g(true, !b); let h = \x7bk: h(x)\x7d[k]; \x7b\x7d")
      (by decide!) (by decide!) (by decide!),
    by decide!, by decide!⟩

end monkey
